import Mathlib

/-!
# libmdbx B+tree cursor: a shallow embedding of `src/cursor.c` and `src/bits.h`

Pages, nodes and cursors are modelled by their logical content (the decoded
node array of a page instead of its bytes).  A pointer to a page is the page
it points at (`none` is `nullptr`), byte strings (`MDBX_iov`) are lists of
bytes.  Every function returns an `Option`: `none` stands for a failed
`assert`, a null or out-of-array dereference, or exhausted loop fuel; a
normal return carries the C return code and the updated objects.
-/

namespace Mdbx

/-! ## Basic types (bits.h) -/

/-- A byte string: `iov_len` bytes at `iov_base`. -/
abbrev MDBX_iov := List Nat

/-- Page number, `pgno_t`. -/
abbrev pgno_t := Nat

/-- Offset or index within a page, `indx_t` (16 bit). -/
abbrev indx_t := Nat

/-- Key or data comparison function, `MDBX_comparer`: negative, zero or positive. -/
abbrev MDBX_comparer := MDBX_iov → MDBX_iov → Int

/-- Conversion to `indx_t`: truncation to 16 bits. -/
def to_indx (x : Int) : indx_t := (x % 65536).toNat

/-- Conversion to `unsigned`: truncation to 32 bits. -/
def to_unsigned (x : Int) : Nat := (x % 4294967296).toNat

/-- Conversion to `int`: the value is kept modulo 2^32 in the range
-2^31 .. 2^31 - 1.  It is applied where the `ptrdiff_t` result of a comparer
is stored in `int rc`. -/
def to_int (x : Int) : Int := (x + 2147483648) % 4294967296 - 2147483648

/-- Evaluates `w & f` as a C condition. -/
def tst (w f : Nat) : Bool := (w &&& f) != 0

/-- The macro `F_ISSET(w, f)`: all bits of `f` are set in `w`. -/
def F_ISSET (w f : Nat) : Bool := (w &&& f) == f

/-- Evaluates `w & ~f` on an 8-bit field. -/
def clr8 (w f : Nat) : Nat := w &&& (255 ^^^ f)

/-! ### Page flags `mp_flags_t` -/

def P_BRANCH : Nat := 1     -- 1 << 0
def P_LEAF : Nat := 2       -- 1 << 1
def P_OVERFLOW : Nat := 4   -- 1 << 2
def P_META : Nat := 8       -- 1 << 3
def P_DFL : Nat := 16       -- 1 << 4
def P_SUBP : Nat := 32      -- 1 << 5
def P_DIRTY : Nat := 256    -- 1 << 8
def P_LOOSE : Nat := 512    -- 1 << 9
def P_KEEP : Nat := 1024    -- 1 << 10

/-! ### Node flags `mdbx_node_flags` -/

def NODE_BIG : Nat := 1
def NODE_SUBTREE : Nat := 2
def NODE_DUP : Nat := 4

/-! ### Cursor flags -/

def C_INITIALIZED : Nat := 1   -- 1 << 0
def C_EOF : Nat := 2           -- 1 << 1
def C_AFTERDELETE : Nat := 4   -- 1 << 2
def C_RECLAIMING : Nat := 8    -- 1 << 3
def C_UNTRACK : Nat := 16      -- 1 << 4
def S_SUBCURSOR : Nat := 32    -- 1 << 5
def S_HAVESUB : Nat := 64      -- 1 << 6
def S_DUPFIXED : Nat := 128    -- 1 << 7

def CURSOR_STACK : Nat := 32
def P_INVALID : Nat := 0
def NUM_METAS : Nat := 3

/-! ### Constants declared in mdbx.h -/

/-- Modelled from the spec: the return codes are declared in mdbx.h, which is
not part of the sources at hand; `MDBX_SUCCESS` is 0 (cursor_set returns a
zeroed `rc` for success), the error codes are distinct non-zero values. -/
def MDBX_SUCCESS : Int := 0
/-- Modelled from the spec: "not found" code of mdbx.h. -/
def MDBX_NOTFOUND : Int := -30798
/-- Modelled from the spec: "page not found" code of mdbx.h. -/
def MDBX_PAGE_NOTFOUND : Int := -30797
/-- Modelled from the spec: "corrupted" code of mdbx.h. -/
def MDBX_CORRUPTED : Int := -30796
/-- Modelled from the spec: "cursor full" code of mdbx.h. -/
def MDBX_CURSOR_FULL : Int := -30787
/-- Modelled from the spec: "incompatible operation" code of mdbx.h. -/
def MDBX_INCOMPATIBLE : Int := -30784
/-- Modelled from the spec: "bad transaction" code of mdbx.h. -/
def MDBX_BAD_TXN : Int := -30782
/-- Modelled from the spec: "invalid key/value size" code of mdbx.h. -/
def MDBX_BAD_VALSIZE : Int := -30781
/-- Modelled from the spec: "internal problem" code of mdbx.h. -/
def MDBX_PROBLEM : Int := -30779
/-- Modelled from the spec: `EINVAL`. -/
def MDBX_EINVAL : Int := 22
/-- Modelled from the spec: `ENOMEM`. -/
def MDBX_ENOMEM : Int := 12

/-- Modelled from the spec: AA flags of mdbx.h (sorted duplicates). -/
def MDBX_DUPSORT : Nat := 4
/-- Modelled from the spec: AA flag of mdbx.h (integer keys). -/
def MDBX_INTEGERKEY : Nat := 8
/-- Modelled from the spec: AA flag of mdbx.h (fixed-size duplicates). -/
def MDBX_DUPFIXED : Nat := 16
/-- Modelled from the spec: AA flag of mdbx.h (integer duplicates). -/
def MDBX_INTEGERDUP : Nat := 32

/-- Modelled from the spec: transaction flag of mdbx.h (read-only). -/
def MDBX_RDONLY : Nat := 0x20000
/-- Modelled from the spec: environment flag of mdbx.h (writable map). -/
def MDBX_WRITEMAP : Nat := 0x80000
/-- Modelled from the spec: transaction state bit (finished). -/
def MDBX_TXN_FINISHED : Nat := 1
/-- Modelled from the spec: transaction state bit (error latched). -/
def MDBX_TXN_ERROR : Nat := 2
/-- Modelled from the spec: transaction state bit (dirty). -/
def MDBX_TXN_DIRTY : Nat := 4
/-- Modelled from the spec: transaction state bit (has spilled pages). -/
def MDBX_TXN_SPILLS : Nat := 8
/-- Modelled from the spec: transaction state bit (has a nested child). -/
def MDBX_TXN_HAS_CHILD : Nat := 16
/-- Modelled from the spec: the flags that block operations on a transaction. -/
def MDBX_TXN_BLOCKED : Nat := MDBX_TXN_FINISHED ||| MDBX_TXN_ERROR ||| MDBX_TXN_HAS_CHILD

/-- Modelled from the spec: page_search flag (touch the visited pages). -/
def MDBX_PS_MODIFY : Nat := 1
/-- Modelled from the spec: page_search flag (fetch the root only). -/
def MDBX_PS_ROOTONLY : Nat := 2
/-- Modelled from the spec: page_search flag (leftmost leaf). -/
def MDBX_PS_FIRST : Nat := 4
/-- Modelled from the spec: page_search flag (rightmost leaf). -/
def MDBX_PS_LAST : Nat := 8

/-- Modelled from the spec: the cursor operations `enum MDBX_cursor_op` of mdbx.h. -/
inductive MDBX_cursor_op where
  | MDBX_FIRST | MDBX_FIRST_DUP | MDBX_GET_BOTH | MDBX_GET_BOTH_RANGE
  | MDBX_GET_CURRENT | MDBX_GET_MULTIPLE | MDBX_LAST | MDBX_LAST_DUP
  | MDBX_NEXT | MDBX_NEXT_DUP | MDBX_NEXT_MULTIPLE | MDBX_NEXT_NODUP
  | MDBX_PREV | MDBX_PREV_DUP | MDBX_PREV_NODUP | MDBX_SET | MDBX_SET_KEY
  | MDBX_SET_RANGE | MDBX_PREV_MULTIPLE
  deriving DecidableEq, Repr

open MDBX_cursor_op

/-! ## Data model -/

/-- Descriptor of one associative array: `aatree_t`, and the `aa` part of `aht_t`. -/
structure aatree_t where
  flags16 : Nat := 0
  depth16 : Nat := 0
  xsize32 : Nat := 0
  root : pgno_t := 0
  branch_pages : Nat := 0
  leaf_pages : Nat := 0
  overflow_pages : Nat := 0
  entries : Nat := 0
  genseq : Nat := 0
  created : Nat := 0
  deriving DecidableEq, Repr, Inhabited

/-- A node of a page that lives inside another node (a node of a sub-page):
header fields, the key bytes and the data bytes. -/
structure subnode_t where
  mn_dsize : Nat := 0
  mn_pgno : pgno_t := 0
  node_flags8 : Nat := 0
  mn_key : MDBX_iov := []
  mn_data : MDBX_iov := []
  data_pgno : pgno_t := 0
  deriving DecidableEq, Repr, Inhabited

/-- A page stored in the data area of a node (`P_SUBP`). -/
structure subpage_t where
  mp_leaf2_ksize16 : Nat := 0
  mp_flags16 : Nat := 0
  mp_lower : Nat := 0
  mp_upper : Nat := 0
  mp_pgno : pgno_t := 0
  mp_nodes : List subnode_t := []
  mp_data : List Nat := []
  deriving DecidableEq, Repr, Inhabited

/-- A node, `node_t`.  `mn_dsize` is `node_get_datasize`, `mn_pgno` is
`node_get_pgno` (they share storage in C: the first on leaf pages, the second
on branch pages), `mn_key` holds the `mn_ksize16` bytes at `NODEKEY`, `mn_data`
the bytes at `NODEDATA`.  The remaining fields are the typed readings of
`NODEDATA` made by the code: the overflow page number (`NODE_BIG`), the
inline sub-page (`NODE_DUP`), the sub-tree descriptor (`NODE_SUBTREE`). -/
structure node_t where
  mn_dsize : Nat := 0
  mn_pgno : pgno_t := 0
  node_flags8 : Nat := 0
  mn_key : MDBX_iov := []
  mn_data : MDBX_iov := []
  data_pgno : pgno_t := 0
  data_page : subpage_t := {}
  data_aatree : aatree_t := {}
  deriving DecidableEq, Repr, Inhabited

/-- A page, `page_t`.  `mp_nodes` lists the nodes addressed by `mp_ptrs[0]`,
`mp_ptrs[1]`, ...; `mp_data` holds the bytes that follow the page header (the
packed keys of a dense-fixed leaf, the value of an overflow run). -/
structure page_t where
  mp_leaf2_ksize16 : Nat := 0
  mp_flags16 : Nat := 0
  mp_lower : Nat := 0
  mp_upper : Nat := 0
  mp_pgno : pgno_t := 0
  mp_nodes : List node_t := []
  mp_data : List Nat := []
  deriving DecidableEq, Repr, Inhabited

/-- Reading a node of a sub-page through a `node_t *`. -/
def subnode_t.to_node (n : subnode_t) : node_t :=
  { mn_dsize := n.mn_dsize, mn_pgno := n.mn_pgno, node_flags8 := n.node_flags8,
    mn_key := n.mn_key, mn_data := n.mn_data, data_pgno := n.data_pgno }

/-- Reading a sub-page through a `page_t *`: `page_t *fp = NODEDATA(node)`. -/
def subpage_t.to_page (fp : subpage_t) : page_t :=
  { mp_leaf2_ksize16 := fp.mp_leaf2_ksize16, mp_flags16 := fp.mp_flags16,
    mp_lower := fp.mp_lower, mp_upper := fp.mp_upper, mp_pgno := fp.mp_pgno,
    mp_nodes := fp.mp_nodes.map subnode_t.to_node, mp_data := fp.mp_data }

/-- The macro `NODEDATA(node)` read as a page. -/
def NODEDATA_page (node : node_t) : page_t := node.data_page.to_page

/-- Environment AA-handle context `ahe_t`. -/
structure ahe_t where
  ax_refcounter16 : Nat := 0
  ax_flags16 : Nat := 0
  ax_ord16 : Nat := 0
  ax_seqaah16 : Nat := 0
  ax_kcmp : MDBX_comparer
  ax_dcmp : MDBX_comparer
  ax_since : Nat := 0
  ax_until : Nat := 0
  ax_ident : MDBX_iov := []

/-- Transaction AA-handle context `aht_t`; the handle is held by value. -/
structure aht_t where
  aa : aatree_t := {}
  ahe : ahe_t
  seq16 : Nat := 0
  kind_and_state16 : Nat := 0

/-- The cursor proper, `cursor_t`.  `mc_pg` and `mc_ki` are the arrays of
`CURSOR_STACK` frames; entries at and above `mc_snum` keep whatever was left
there. -/
structure cursor_t where
  mc_aht : aht_t
  mc_snum : Nat := 0
  mc_top : Nat := 0
  mc_state8 : Nat := 0
  mc_kind8 : Nat := 0
  mc_pg : List (Option page_t) := List.replicate 32 none
  mc_ki : List indx_t := List.replicate 32 0

/-- Sub-cursor context `subcursor_t`.  `mx_cursor.mc_aht` always points at the
embedded `mx_aht_body` (whose `ahe` is the embedded `mx_ahe_body`), so the
handle held by `mx_cursor` is that body. -/
structure subcursor_t where
  mx_cursor : cursor_t

/-- The cursor bundle `MDBX_cursor`. -/
structure MDBX_cursor where
  primal : cursor_t
  subordinate : subcursor_t

/-- An ID/pointer pair `MDBX_ID2` of a dirty list. -/
structure MDBX_ID2 where
  mid : pgno_t
  mptr : page_t
  deriving DecidableEq, Repr

/-- The lists of one transaction that page_get consults. -/
structure txn_lists where
  mt_spill_pages : Option (List pgno_t) := none
  mt_rw_dirtylist : List MDBX_ID2 := []

/-- The databook `MDBX_milieu`: `me_map` gives the page at each page number of
the memory map (`pgno2page`). -/
structure MDBX_milieu where
  me_map : pgno_t → page_t

/-- A transaction `MDBX_txn`.  The chain of `mt_parent` pointers is the list
`mt_parent` of the ancestors' lists, the nearest ancestor first. -/
structure MDBX_txn where
  mt_parent : List txn_lists := []
  mt_next_pgno : pgno_t
  mt_spill_pages : Option (List pgno_t) := none
  mt_rw_dirtylist : List MDBX_ID2 := []
  mt_flags : Nat := 0
  mt_book : MDBX_milieu

/-! ## Page and node accessors (bits.h) -/

def page_numkeys (page : page_t) : Nat := page.mp_lower >>> 1

def IS_LEAF (p : page_t) : Bool := F_ISSET p.mp_flags16 P_LEAF
def IS_DFL (p : page_t) : Bool := F_ISSET p.mp_flags16 P_DFL
def IS_BRANCH (p : page_t) : Bool := F_ISSET p.mp_flags16 P_BRANCH
def IS_OVERFLOW (p : page_t) : Bool := F_ISSET p.mp_flags16 P_OVERFLOW
def IS_SUBP (p : page_t) : Bool := F_ISSET p.mp_flags16 P_SUBP

/-- A value of type `node_t *`: `nullptr`, an address with no node behind it
(the "fake" pointer the code computes on dense-fixed pages), or the address of
a node, given by the node it points at. -/
inductive node_ref where
  | null
  | fake
  | node (n : node_t)
  deriving DecidableEq, Repr

/-- Dereference of a `node_t *`. -/
def node_ref.deref : node_ref → Option node_t
  | .node n => some n
  | _ => none

/-- Address of node `i` in page `p`; `none` when `assert(page_numkeys(p) > i)` fails. -/
def node_ptr (p : page_t) (i : Nat) : Option node_ref :=
  if page_numkeys p > i then
    some (match p.mp_nodes[i]? with
          | some n => .node n
          | none => .fake)
  else none

/-- The macro `DFLKEY(p, i, ks)` with the length `ks`: the `i`-th packed key. -/
def DFLKEY (p : page_t) (i ks : Nat) : MDBX_iov := (p.mp_data.drop (i * ks)).take ks

/-- The macro `NODEKEY` with `node_get_keysize`. -/
def NODEKEY (node : node_t) : MDBX_iov := node.mn_key

def node_get_pgno (node : node_t) : pgno_t := node.mn_pgno
def node_get_datasize (node : node_t) : Nat := node.mn_dsize

/-- The macro `MDBX_GET_KEY(node, keyptr)`: stores the key unless `keyptr` is null. -/
def MDBX_GET_KEY (node : node_t) (keyptr : Option MDBX_iov) : Option MDBX_iov :=
  match keyptr with
  | none => none
  | some _ => some (NODEKEY node)

/-! ## Cursor frames -/

/-- The page `mc->mc_pg[i]`, dereferenced: `none` outside the array or on `nullptr`. -/
def cursor_t.pg (mc : cursor_t) (i : Nat) : Option page_t := (mc.mc_pg[i]?).join

/-- The index `mc->mc_ki[i]`: `none` outside the array. -/
def cursor_t.ki (mc : cursor_t) (i : Nat) : Option indx_t := mc.mc_ki[i]?

/-- Assignment `mc->mc_pg[i] = p`: `none` outside the array. -/
def cursor_t.set_pg (mc : cursor_t) (i : Nat) (p : Option page_t) : Option cursor_t :=
  if i < mc.mc_pg.length then some { mc with mc_pg := mc.mc_pg.set i p } else none

/-- Assignment `mc->mc_ki[i] = k`: `none` outside the array. -/
def cursor_t.set_ki (mc : cursor_t) (i : Nat) (k : indx_t) : Option cursor_t :=
  if i < mc.mc_ki.length then some { mc with mc_ki := mc.mc_ki.set i k } else none

def cursor_key_comparer (cursor : cursor_t) : MDBX_comparer := cursor.mc_aht.ahe.ax_kcmp
def cursor_compare_keys (cursor : cursor_t) (a b : MDBX_iov) : Int :=
  cursor_key_comparer cursor a b
def cursor_data_comparer (cursor : cursor_t) : MDBX_comparer := cursor.mc_aht.ahe.ax_dcmp
def cursor_compare_data (cursor : cursor_t) (a b : MDBX_iov) : Int :=
  cursor_data_comparer cursor a b

/-- Result of a function that works on one cursor: the return code, the
transaction and the cursor after the call. -/
structure cres where
  rc : Int
  txn : MDBX_txn
  mc : cursor_t

/-! ## node_search -/

/-- The binary-search loop of node_search, `while (low <= high)`.  `keyat i`
reads the key probed at index `i` (through `node_ptr` on an ordinary page,
through `DFLKEY` on a dense-fixed one).  The loop state is `(low, high, i, rc)`;
the result is the final `(i, rc)`.  `fuel` bounds the number of iterations. -/
def node_search_loop (cmp : MDBX_comparer) (keyat : Nat → Option MDBX_iov) (key : MDBX_iov) :
    Nat → Int → Int → Nat → Int → Option (Nat × Int)
  | 0, low, high, i, rc => if low ≤ high then none else some (i, rc)
  | fuel + 1, low, high, i, rc =>
    if low ≤ high then
      -- i = (low + high) >> 1, on non-negative operands
      let i := ((low + high) / 2).toNat
      match keyat i with
      | none => none
      | some nodekey =>
        let rc := to_int (cmp key nodekey)
        if rc = 0 then some (i, rc)
        else if rc > 0 then node_search_loop cmp keyat key fuel (i + 1) high i rc
        else node_search_loop cmp keyat key fuel low (i - 1) i rc
    else some (i, rc)

/-- Result of node_search: the returned node pointer, the value stored in
`*exactp` and the cursor with the index stored at its top frame. -/
structure node_search_ret where
  node : node_ref
  exact : Int
  mc : cursor_t

/-- The code of node_search that follows the loops: `node` is the local node
pointer, `(i, rc)` the index and the comparison result left by the loop. -/
def node_search_finish (mc : cursor_t) (mp : page_t) (node : node_ref) (i : Nat) (rc : Int) :
    Option node_search_ret :=
  let nkeys := page_numkeys mp
  -- Found entry is less than the key: skip to get the smallest entry larger than key.
  let i := if rc > 0 then i + 1 else i
  let exact : Int := if rc = 0 ∧ nkeys > 0 then 1 else 0
  -- assert(i <= UINT16_MAX)
  if i > 65535 then none
  else
    match mc.set_ki mc.mc_top i with
    | none => none
    | some mc =>
      if i ≥ nkeys then
        -- There is no entry larger or equal to the key.
        some { node := .null, exact := exact, mc := mc }
      else if IS_DFL mp then some { node := node, exact := exact, mc := mc }
      else (node_ptr mp i).map (fun r => { node := r, exact := exact, mc := mc })

/-- Search for key within the page at the top of the cursor, using binary search. -/
def node_search (mc : cursor_t) (key : MDBX_iov) : Option node_search_ret :=
  match mc.pg mc.mc_top with
  | none => none
  | some mp =>
    let nkeys := page_numkeys mp
    let low : Int := if IS_LEAF mp then 0 else 1
    let high : Int := (nkeys : Int) - 1
    -- the substitution of cmp_int_aligned for cmp_int_aligned_to2 on branch pages
    -- changes the routine, not the order it implements
    let cmp := cursor_key_comparer mc
    if IS_DFL mp then
      -- node = node_ptr(mp, 0), fake
      match node_ptr mp 0 with
      | none => none
      | some node =>
        match node_search_loop cmp (fun i => some (DFLKEY mp i mc.mc_aht.aa.xsize32)) key
                (nkeys + 1) low high 0 0 with
        | none => none
        | some (i, rc) => node_search_finish mc mp node i rc
    else
      match node_search_loop cmp
              (fun i => ((node_ptr mp i).bind node_ref.deref).map NODEKEY) key
              (nkeys + 1) low high 0 0 with
      | none => none
      | some (i, rc) => node_search_finish mc mp .null i rc

/-! ## Cursor stack -/

/-- Pop a page off the top of the cursor's stack. -/
def cursor_pop (mc : cursor_t) : cursor_t :=
  if mc.mc_snum ≠ 0 then
    let mc := { mc with mc_snum := mc.mc_snum - 1 }
    if mc.mc_snum ≠ 0 then
      { mc with mc_top := to_unsigned ((mc.mc_top : Int) - 1) }
    else
      { mc with mc_state8 := clr8 mc.mc_state8 C_INITIALIZED }
  else mc

/-- Push a page onto the top of the cursor's stack. -/
def cursor_push (txn : MDBX_txn) (mc : cursor_t) (mp : page_t) : Option cres :=
  if mc.mc_snum ≥ CURSOR_STACK then
    some { rc := MDBX_CURSOR_FULL,
           txn := { txn with mt_flags := txn.mt_flags ||| MDBX_TXN_ERROR }, mc := mc }
  else do
    -- assert(mc->mc_snum < UINT16_MAX)
    if mc.mc_snum ≥ 65535 then none
    let mc := { mc with mc_top := mc.mc_snum, mc_snum := mc.mc_snum + 1 }
    let mc ← mc.set_pg mc.mc_top (some mp)
    let mc ← mc.set_ki mc.mc_top 0
    pure { rc := MDBX_SUCCESS, txn := txn, mc := mc }

/-! ## page_get -/

/-- Modelled from the spec: mdbx_pnl_search is defined outside the sources at
hand.  A page-number list is sorted descending; the search gives the 1-based
position of the first entry that is not greater than `id`, or the count plus
one when there is none. -/
def mdbx_pnl_search (pl : List pgno_t) (id : pgno_t) : Nat :=
  pl.findIdx (fun x => decide (x ≤ id)) + 1

/-- Modelled from the spec: mdbx_mid2l_search is defined outside the sources at
hand.  A dirty list is sorted ascending by page number; the search gives the
1-based position of the first entry whose page number is not smaller than
`id`, or the count plus one when there is none. -/
def mdbx_mid2l_search (dl : List MDBX_ID2) (id : pgno_t) : Nat :=
  dl.findIdx (fun e => decide (id ≤ e.mid)) + 1

/-- Where the walk of page_get over the transaction chain ended. -/
inductive page_get_walk_t where
  | mapped (level : Nat)             -- goto mapped
  | done (p : page_t) (level : Nat)  -- goto done
  | fallthrough                      -- the loop ran to the end of the chain

/-- The `do ... while ((tx2 = tx2->mt_parent) != nullptr)` loop of page_get
over the transaction and its ancestors; `level` starts at 1. -/
def page_get_walk (pgno : pgno_t) : List txn_lists → Nat → page_get_walk_t
  | [], _ => .fallthrough
  | tx2 :: rest, level =>
    let pn := (pgno <<< 1) % 4294967296
    let spilled : Bool :=
      match tx2.mt_spill_pages with
      | none => false
      | some sl =>
        let x := mdbx_pnl_search sl pn
        decide (x ≤ sl.length) && (sl[x - 1]? == some pn)
    if spilled then .mapped level
    else
      let dl := tx2.mt_rw_dirtylist
      let y := mdbx_mid2l_search dl pgno
      match (if dl.length ≠ 0 ∧ y ≤ dl.length then dl[y - 1]? else none) with
      | some e => if e.mid = pgno then .done e.mptr level else page_get_walk pgno rest (level + 1)
      | none => page_get_walk pgno rest (level + 1)

/-- Result of page_get: return code, transaction, the page stored through
`ret` (if any) and the value stored through `lvl` (if any). -/
structure page_get_ret where
  rc : Int
  txn : MDBX_txn
  ret : Option page_t
  lvl : Option Nat

/-- The macro `pgno2page`: the page of the memory map at a page number. -/
def pgno2page (bk : MDBX_milieu) (pgno : pgno_t) : page_t := bk.me_map pgno

/-- Find the page corresponding to a given page number. -/
def page_get (txn : MDBX_txn) (pgno : pgno_t) : page_get_ret :=
  let bk := txn.mt_book
  let walk :=
    if ¬ tst txn.mt_flags (MDBX_RDONLY ||| MDBX_WRITEMAP) then
      page_get_walk pgno
        ({ mt_spill_pages := txn.mt_spill_pages, mt_rw_dirtylist := txn.mt_rw_dirtylist }
          :: txn.mt_parent) 1
    else .fallthrough
  match walk with
  | .done p level => { rc := MDBX_SUCCESS, txn := txn, ret := some p, lvl := some level }
  | .mapped level =>
    { rc := MDBX_SUCCESS, txn := txn, ret := some (pgno2page bk pgno), lvl := some level }
  | .fallthrough =>
    if pgno ≥ txn.mt_next_pgno then
      { rc := MDBX_PAGE_NOTFOUND,
        txn := { txn with mt_flags := txn.mt_flags ||| MDBX_TXN_ERROR }, ret := none,
        lvl := none }
    else
      { rc := MDBX_SUCCESS, txn := txn, ret := some (pgno2page bk pgno), lvl := some 0 }

/-! ## page_search -/

/-- Modelled from the spec: state bit of an AA handle (handle is valid);
declared outside the sources at hand. -/
def MDBX_AAH_VALID : Nat := 1
/-- Modelled from the spec: kind bit of an AA handle (sorted-duplicates
sub-tree); declared outside the sources at hand. -/
def MDBX_AAH_DUPS : Nat := 256
/-- Modelled from the spec: kind bit of an AA handle (the GACO tree);
declared outside the sources at hand. -/
def MDBX_AAH_GACO : Nat := 512

/-- Modelled from the spec: aht_gaco is declared outside the sources at hand.
The comparison `mc->mc_aht != aht_gaco(mc->mc_txn)` asks whether the cursor
works on the GACO handle; with handles held by value this is the kind bit of
the handle. -/
def cursor_is_gaco (mc : cursor_t) : Bool := tst mc.mc_aht.kind_and_state16 MDBX_AAH_GACO

/-- Type of page_touch as used by page_search: it works on the transaction and
the cursor.  page_touch is reached only under `MDBX_PS_MODIFY`. -/
abbrev page_touch_t := MDBX_txn → cursor_t → Option cres

/-- Outcome of one iteration of the loop of page_search_root: a return from
the function, or the next iteration with its local page pointer `mp`. -/
inductive psr_step_t where
  | ret (r : cres)
  | next (txn : MDBX_txn) (mc : cursor_t) (mp : page_t)

/-- The code of the loop body of page_search_root from the label `ready`. -/
def page_search_root_ready (page_touch : page_touch_t) (flags : Nat)
    (txn : MDBX_txn) (mc : cursor_t) (mp : page_t) : Option psr_step_t :=
  if tst flags MDBX_PS_MODIFY then
    match page_touch txn mc with
    | none => none
    | some r =>
      if r.rc ≠ MDBX_SUCCESS then some (.ret r)
      else (r.mc.pg r.mc.mc_top).map (fun mp => .next r.txn r.mc mp)
  else some (.next txn mc mp)

/-- The code of the loop body of page_search_root from
`assert(i < page_numkeys(mp))` on: descend into the child at index `i`. -/
def page_search_root_descend (page_touch : page_touch_t) (flags : Nat)
    (txn : MDBX_txn) (mc : cursor_t) (mp : page_t) (i : indx_t) : Option psr_step_t :=
  if ¬ i < page_numkeys mp then none
  else
    match (node_ptr mp i).bind node_ref.deref with
    | none => none
    | some node =>
      let g := page_get txn (node_get_pgno node)
      if g.rc ≠ MDBX_SUCCESS then some (.ret { rc := g.rc, txn := g.txn, mc := mc })
      else
        match g.ret, mc.set_ki mc.mc_top i with
        | some mp, some mc =>
          match cursor_push g.txn mc mp with
          | none => none
          | some r =>
            if r.rc ≠ MDBX_SUCCESS then some (.ret r)
            else page_search_root_ready page_touch flags r.txn r.mc mp
        | _, _ => none

/-- One iteration of the loop `while (IS_BRANCH(mp))` of page_search_root, on
a branch page `mp`. -/
def page_search_root_step (page_touch : page_touch_t) (key : Option MDBX_iov) (flags : Nat)
    (txn : MDBX_txn) (mc : cursor_t) (mp : page_t) : Option psr_step_t :=
  -- assert(page_numkeys(mp) > 1), except on the GACO
  if ¬ cursor_is_gaco mc ∧ ¬ page_numkeys mp > 1 then none
  else if tst flags (MDBX_PS_FIRST ||| MDBX_PS_LAST) then
    if tst flags MDBX_PS_LAST then
      let i := to_indx ((page_numkeys mp : Int) - 1)
      -- if already init'd, see if we're already in right place
      if tst mc.mc_state8 C_INITIALIZED ∧ mc.ki mc.mc_top = some i then
        let mc := { mc with mc_top := mc.mc_snum, mc_snum := mc.mc_snum + 1 }
        match mc.pg mc.mc_top with
        | none => none
        | some mp => page_search_root_ready page_touch flags txn mc mp
      else page_search_root_descend page_touch flags txn mc mp i
    else page_search_root_descend page_touch flags txn mc mp 0
  else
    match key.bind (node_search mc) with
    | none => none
    | some r =>
      let mc := r.mc
      if r.node = .null then
        page_search_root_descend page_touch flags txn mc mp
          (to_indx ((page_numkeys mp : Int) - 1))
      else
        match mc.ki mc.mc_top with
        | none => none
        | some i =>
          if r.exact = 0 then
            -- assert(i > 0)
            if ¬ i > 0 then none
            else page_search_root_descend page_touch flags txn mc mp (to_indx ((i : Int) - 1))
          else page_search_root_descend page_touch flags txn mc mp i

/-- The code of page_search_root that follows the loop. -/
def page_search_root_finish (txn : MDBX_txn) (mc : cursor_t) (mp : page_t) : cres :=
  if ¬ IS_LEAF mp then
    { rc := MDBX_CORRUPTED,
      txn := { txn with mt_flags := txn.mt_flags ||| MDBX_TXN_ERROR }, mc := mc }
  else
    { rc := MDBX_SUCCESS, txn := txn,
      mc := { mc with mc_state8 := clr8 (mc.mc_state8 ||| C_INITIALIZED) C_EOF } }

/-- The `while (IS_BRANCH(mp))` loop of page_search_root with the code that
follows it.  `mp` is the local page pointer; `fuel` bounds the number of
iterations. -/
def page_search_root_loop (page_touch : page_touch_t) (key : Option MDBX_iov) (flags : Nat) :
    Nat → MDBX_txn → cursor_t → page_t → Option cres
  | 0, txn, mc, mp =>
    if IS_BRANCH mp then none else some (page_search_root_finish txn mc mp)
  | fuel + 1, txn, mc, mp =>
    if IS_BRANCH mp then
      match page_search_root_step page_touch key flags txn mc mp with
      | none => none
      | some (.ret r) => some r
      | some (.next txn mc mp) => page_search_root_loop page_touch key flags fuel txn mc mp
    else some (page_search_root_finish txn mc mp)

/-- Finish page_search: the cursor is at the root page, set up the rest of it.
Each iteration of the loop adds a frame, so `CURSOR_STACK + 1` iterations are
never exceeded by a run that does not fail. -/
def page_search_root (page_touch : page_touch_t) (txn : MDBX_txn) (mc : cursor_t)
    (key : Option MDBX_iov) (flags : Nat) : Option cres := do
  let mp ← mc.pg mc.mc_top
  page_search_root_loop page_touch key flags (CURSOR_STACK + 1) txn mc mp

/-- The part of page_search after the root page is in frame 0. -/
def page_search_tail (page_touch : page_touch_t) (txn : MDBX_txn) (mc : cursor_t)
    (key : Option MDBX_iov) (flags : Nat) : Option cres := do
  let mc := { mc with mc_snum := 1, mc_top := 0 }
  let r ← if tst flags MDBX_PS_MODIFY then page_touch txn mc
          else pure { rc := MDBX_SUCCESS, txn := txn, mc := mc }
  if r.rc ≠ MDBX_SUCCESS then pure r
  else if tst flags MDBX_PS_ROOTONLY then pure { r with rc := MDBX_SUCCESS }
  else page_search_root page_touch r.txn r.mc key flags

/-- The negation of the test `!mc->mc_pg[0] || mc->mc_pg[0]->mp_pgno != root`
of page_search. -/
def page_search_cached (mc : cursor_t) (root : pgno_t) : Bool :=
  match mc.mc_pg[0]? with
  | some (some p0) => decide (p0.mp_pgno = root)
  | _ => false

/-- Search for the page a given key should be in; push it and its parent
pages on the cursor stack. -/
def page_search (page_touch : page_touch_t) (txn : MDBX_txn) (mc : cursor_t)
    (key : Option MDBX_iov) (flags : Nat) : Option cres :=
  if tst txn.mt_flags MDBX_TXN_BLOCKED then
    some { rc := MDBX_BAD_TXN, txn := txn, mc := mc }
  -- assert(mc->mc_aht->ah.state8 & MDBX_AAH_VALID)
  else if ¬ tst mc.mc_aht.kind_and_state16 MDBX_AAH_VALID then none
  else
    let root := mc.mc_aht.aa.root
    if root = P_INVALID then /- Tree is empty. -/
      some { rc := MDBX_NOTFOUND, txn := txn, mc := mc }
    -- assert(root >= NUM_METAS)
    else if ¬ root ≥ NUM_METAS then none
    else
      if page_search_cached mc root = true then page_search_tail page_touch txn mc key flags
      else
        let g := page_get txn root
        if g.rc ≠ MDBX_SUCCESS then some { rc := g.rc, txn := g.txn, mc := mc }
        else
          match mc.set_pg 0 g.ret with
          | some mc => page_search_tail page_touch g.txn mc key flags
          | none => none

/-! ## node_read and cursor_sibling -/

/-- Result of node_read: return code, transaction and the caller's data. -/
structure node_read_ret where
  rc : Int
  txn : MDBX_txn
  data : MDBX_iov

/-- Return the data associated with a given node.  `data` is the caller's
item before the call; on the failure path only its length has been set. -/
def node_read (txn : MDBX_txn) (leaf : node_t) (data : MDBX_iov) : node_read_ret :=
  if ¬ tst leaf.node_flags8 NODE_BIG then
    { rc := MDBX_SUCCESS, txn := txn, data := leaf.mn_data.take (node_get_datasize leaf) }
  else
    -- Read overflow data.
    let g := page_get txn leaf.data_pgno
    match g.ret with
    | some omp =>
      if g.rc ≠ MDBX_SUCCESS then
        { rc := g.rc, txn := g.txn, data := data.take (node_get_datasize leaf) }
      else
        { rc := MDBX_SUCCESS, txn := g.txn, data := omp.mp_data.take (node_get_datasize leaf) }
    | none => { rc := g.rc, txn := g.txn, data := data.take (node_get_datasize leaf) }

/-- The code of cursor_sibling from `assert(IS_BRANCH(...))` on: fetch the
page under the (moved) index of the top frame and push it. -/
def cursor_sibling_down (move_right : Bool) (txn : MDBX_txn) (mc : cursor_t) : Option cres :=
  match mc.pg mc.mc_top, mc.ki mc.mc_top with
  | some pg, some ki =>
    -- assert(IS_BRANCH(mc->mc_pg[mc->mc_top]))
    if ¬ IS_BRANCH pg then none
    else
      match (node_ptr pg ki).bind node_ref.deref with
      | none => none
      | some indx =>
        let g := page_get txn (node_get_pgno indx)
        if g.rc ≠ MDBX_SUCCESS then
          -- mc will be inconsistent if caller does mc_snum++ as above
          some { rc := g.rc, txn := g.txn,
                 mc := { mc with mc_state8 := clr8 mc.mc_state8 (C_INITIALIZED ||| C_EOF) } }
        else
          match g.ret with
          | none => none
          | some mp =>
            match cursor_push g.txn mc mp with
            | none => none
            | some p =>
              if ¬ move_right then
                (p.mc.set_ki p.mc.mc_top (to_indx ((page_numkeys mp : Int) - 1))).map
                  (fun mc => { rc := MDBX_SUCCESS, txn := p.txn, mc := mc })
              else some { rc := MDBX_SUCCESS, txn := p.txn, mc := p.mc }
  | _, _ => none

/-- The recursion of cursor_sibling; every recursive call works on a stack
that is one frame shorter, `fuel` counts the frames. -/
def cursor_sibling_rec (move_right : Bool) : Nat → MDBX_txn → cursor_t → Option cres
  | 0, txn, mc =>
    if mc.mc_snum < 2 then some { rc := MDBX_NOTFOUND, txn := txn, mc := mc } else none
  | fuel + 1, txn, mc =>
    if mc.mc_snum < 2 then
      some { rc := MDBX_NOTFOUND, txn := txn, mc := mc } /- root has no siblings -/
    else
      let mc := cursor_pop mc
      match mc.pg mc.mc_top, mc.ki mc.mc_top with
      | some pg, some ki =>
        if (if move_right then decide (ki + 1 ≥ page_numkeys pg) else decide (ki = 0)) then
          match cursor_sibling_rec move_right fuel txn mc with
          | none => none
          | some r =>
            if r.rc ≠ MDBX_SUCCESS then
              -- undo cursor_pop before returning
              some { r with mc := { r.mc with mc_top := r.mc.mc_top + 1,
                                              mc_snum := r.mc.mc_snum + 1 } }
            else cursor_sibling_down move_right r.txn r.mc
        else
          match mc.set_ki mc.mc_top
                  (if move_right then to_indx ((ki : Int) + 1) else to_indx ((ki : Int) - 1)) with
          | none => none
          | some mc => cursor_sibling_down move_right txn mc
      | _, _ => none

/-- Find a sibling for a page: replaces the page at the top of the cursor's
stack with the specified sibling, if one exists. -/
def cursor_sibling (txn : MDBX_txn) (mc : cursor_t) (move_right : Bool) : Option cres :=
  cursor_sibling_rec move_right mc.mc_snum txn mc

/-! ## Cursor bundles and sub-cursors

The positional functions work on a cursor of a bundle and reach its
sub-cursor through `cursor_subcursor`.  The argument `lvl` of these functions
names the cursor they work on: 2 is the primal cursor of the bundle, 1 is the
subordinate cursor.  A call made on the sub-cursor runs the same function
one level lower; the cursor below the subordinate one does not exist. -/

/-- The cursor named by `lvl`. -/
def MDBX_cursor.cur (b : MDBX_cursor) (lvl : Nat) : cursor_t :=
  if lvl = 1 then b.subordinate.mx_cursor else b.primal

/-- Stores the cursor named by `lvl`. -/
def MDBX_cursor.with_cur (b : MDBX_cursor) (lvl : Nat) (mc : cursor_t) : MDBX_cursor :=
  if lvl = 1 then { b with subordinate := { mx_cursor := mc } } else { b with primal := mc }

/-- The sub-cursor of the cursor named by `lvl`: `none` when
`assert(cursor->mc_kind8 & S_HAVESUB)` fails or when the cursor is not the
primal cursor of its bundle. -/
def cursor_subcursor (b : MDBX_cursor) (lvl : Nat) : Option cursor_t :=
  if lvl = 2 ∧ tst (b.cur lvl).mc_kind8 S_HAVESUB then some b.subordinate.mx_cursor else none

/-- The statement `cursor_subcursor(mc)->mx_cursor.mc_state8 &= ~(C_INITIALIZED | C_EOF)`. -/
def subcursor_reset (b : MDBX_cursor) (lvl : Nat) : Option MDBX_cursor := do
  let sub ← cursor_subcursor b lvl
  pure { b with subordinate :=
    { mx_cursor := { sub with mc_state8 := clr8 sub.mc_state8 (C_INITIALIZED ||| C_EOF) } } }

/-- Modelled from the spec: aa_db2txn is only declared in the sources at hand;
it loads a persistent AA descriptor into the `aa` part of a handle. -/
def aa_db2txn (src : aatree_t) (aht : aht_t) : aht_t := { aht with aa := src }

def INT64_MAX : Nat := 9223372036854775807

/-- Final setup of a sorted-dups cursor: sets up the fields that depend on
the data from the main cursor. -/
def subordinate_setup (b : MDBX_cursor) (lvl : Nat) (node : node_t) : Option MDBX_cursor := do
  let cursor := b.cur lvl
  let sub ← cursor_subcursor b lvl
  let sub ←
    if tst node.node_flags8 NODE_SUBTREE then
      let sub := { sub with mc_aht := aa_db2txn node.data_aatree sub.mc_aht, mc_snum := 0 }
      sub.set_pg 0 none
    else do
      let fp := NODEDATA_page node
      let aa : aatree_t :=
        { sub.mc_aht.aa with
          flags16 := 0, depth16 := 1, xsize32 := 0, root := fp.mp_pgno, branch_pages := 0,
          leaf_pages := 1, overflow_pages := 0, genseq := INT64_MAX,
          entries := page_numkeys fp }
      let sub := { sub with mc_snum := 1 }
      let sub ← sub.set_pg 0 (some fp)
      let sub ← sub.set_ki 0 0
      let aa : aatree_t :=
        if tst cursor.mc_aht.aa.flags16 MDBX_DUPFIXED then
          { aa with
            flags16 := if tst cursor.mc_aht.aa.flags16 MDBX_INTEGERDUP
                       then MDBX_DUPFIXED ||| MDBX_INTEGERKEY else MDBX_DUPFIXED,
            xsize32 := fp.mp_leaf2_ksize16 }
        else aa
      pure { sub with mc_aht := { sub.mc_aht with aa := aa } }
  let sub := { sub with
    mc_aht := { sub.mc_aht with kind_and_state16 := MDBX_AAH_VALID ||| MDBX_AAH_DUPS },
    mc_top := 0, mc_state8 := C_INITIALIZED }
  pure { b with subordinate := { mx_cursor := sub } }

/-- Result of a positional function: return code, transaction, cursor bundle,
and the caller's key and data items (`none` is a null pointer).  `exact` is
the integer behind `exactp`, where there is one. -/
structure gres where
  rc : Int
  txn : MDBX_txn
  bundle : MDBX_cursor
  key : Option MDBX_iov
  data : Option MDBX_iov
  exact : Option Int := none

/-- Type of a call made on the sub-cursor: transaction, bundle and the item
passed as the sub-cursor's key. -/
abbrev sub_call_t := MDBX_txn → MDBX_cursor → Option MDBX_iov → Option gres

/-- Stores the cursor after a step on the cursor named by `lvl`. -/
def gres.of_cres (r : cres) (b : MDBX_cursor) (lvl : Nat) (key data : Option MDBX_iov) : gres :=
  { rc := r.rc, txn := r.txn, bundle := b.with_cur lvl r.mc, key := key, data := data }

/-- The assignments `key->iov_len = ...; key->iov_base = DFLKEY(...)`:
`none` when `key` is a null pointer. -/
def set_dfl_key (key : Option MDBX_iov) (v : MDBX_iov) : Option (Option MDBX_iov) :=
  match key with
  | none => none
  | some _ => some (some v)

/-- Move the cursor to the first item in the database. -/
def cursor_first (page_touch : page_touch_t) :
    Nat → MDBX_txn → MDBX_cursor → Option MDBX_iov → Option MDBX_iov → Option gres
  | 0, _, _, _, _ => none
  | lvl + 1, txn, b, key, data => do
    let b ← if tst (b.cur (lvl + 1)).mc_kind8 S_HAVESUB then subcursor_reset b (lvl + 1)
            else pure b
    let mc := b.cur (lvl + 1)
    let r ← if ¬ tst mc.mc_state8 C_INITIALIZED ∨ mc.mc_top ≠ 0 then
              page_search page_touch txn mc none MDBX_PS_FIRST
            else pure { rc := MDBX_SUCCESS, txn := txn, mc := mc }
    if r.rc ≠ MDBX_SUCCESS then pure (gres.of_cres r b (lvl + 1) key data)
    else
      let txn := r.txn
      let mc := r.mc
      let pg ← mc.pg mc.mc_top
      -- assert(IS_LEAF(mc->mc_pg[mc->mc_top]))
      if ¬ IS_LEAF pg then none
      let leaf ← node_ptr pg 0
      let mc := { mc with mc_state8 := clr8 (mc.mc_state8 ||| C_INITIALIZED) C_EOF }
      let mc ← mc.set_ki mc.mc_top 0
      let b := b.with_cur (lvl + 1) mc
      if IS_DFL pg then
        let key ← set_dfl_key key (DFLKEY pg 0 mc.mc_aht.aa.xsize32)
        pure { rc := MDBX_SUCCESS, txn := txn, bundle := b, key := key, data := data }
      else
        let leaf ← leaf.deref
        match data with
        | some d =>
          if F_ISSET leaf.node_flags8 NODE_DUP then
            let b ← subordinate_setup b (lvl + 1) leaf
            let r ← cursor_first page_touch lvl txn b data none
            if r.rc ≠ MDBX_SUCCESS then pure { r with key := key, data := r.key }
            else pure { rc := MDBX_SUCCESS, txn := r.txn, bundle := r.bundle,
                        key := MDBX_GET_KEY leaf key, data := r.key }
          else
            let n := node_read txn leaf d
            if n.rc ≠ MDBX_SUCCESS then
              pure { rc := n.rc, txn := n.txn, bundle := b, key := key, data := some n.data }
            else pure { rc := MDBX_SUCCESS, txn := n.txn, bundle := b,
                        key := MDBX_GET_KEY leaf key, data := some n.data }
        | none =>
          pure { rc := MDBX_SUCCESS, txn := txn, bundle := b, key := MDBX_GET_KEY leaf key,
                 data := none }

/-- Move the cursor to the last item in the database. -/
def cursor_last (page_touch : page_touch_t) :
    Nat → MDBX_txn → MDBX_cursor → Option MDBX_iov → Option MDBX_iov → Option gres
  | 0, _, _, _, _ => none
  | lvl + 1, txn, b, key, data => do
    let b ← if tst (b.cur (lvl + 1)).mc_kind8 S_HAVESUB then subcursor_reset b (lvl + 1)
            else pure b
    let mc := b.cur (lvl + 1)
    let r ←
      if (mc.mc_state8 &&& (C_EOF ||| C_AFTERDELETE)) ≠ C_EOF then
        if ¬ tst mc.mc_state8 C_INITIALIZED ∨ mc.mc_top ≠ 0 then do
          let r ← page_search page_touch txn mc none MDBX_PS_LAST
          if r.rc ≠ MDBX_SUCCESS then pure r
          else
            -- assert(IS_LEAF(mc->mc_pg[mc->mc_top]))
            if ¬ IS_LEAF (← r.mc.pg r.mc.mc_top) then none
            pure r
        else do
          if ¬ IS_LEAF (← mc.pg mc.mc_top) then none
          pure { rc := MDBX_SUCCESS, txn := txn, mc := mc }
      else pure { rc := MDBX_SUCCESS, txn := txn, mc := mc }
    if r.rc ≠ MDBX_SUCCESS then pure (gres.of_cres r b (lvl + 1) key data)
    else
      let txn := r.txn
      let mc := r.mc
      let pg ← mc.pg mc.mc_top
      let mc ← mc.set_ki mc.mc_top (to_indx ((page_numkeys pg : Int) - 1))
      let mc := { mc with mc_state8 := mc.mc_state8 ||| (C_INITIALIZED ||| C_EOF) }
      let ki ← mc.ki mc.mc_top
      let leaf ← node_ptr pg ki
      let b := b.with_cur (lvl + 1) mc
      if IS_DFL pg then
        let key ← set_dfl_key key (DFLKEY pg ki mc.mc_aht.aa.xsize32)
        pure { rc := MDBX_SUCCESS, txn := txn, bundle := b, key := key, data := data }
      else
        let leaf ← leaf.deref
        match data with
        | some d =>
          if F_ISSET leaf.node_flags8 NODE_DUP then
            let b ← subordinate_setup b (lvl + 1) leaf
            let r ← cursor_last page_touch lvl txn b data none
            if r.rc ≠ MDBX_SUCCESS then pure { r with key := key, data := r.key }
            else pure { rc := MDBX_SUCCESS, txn := r.txn, bundle := r.bundle,
                        key := MDBX_GET_KEY leaf key, data := r.key }
          else
            let n := node_read txn leaf d
            if n.rc ≠ MDBX_SUCCESS then
              pure { rc := n.rc, txn := n.txn, bundle := b, key := key, data := some n.data }
            else pure { rc := MDBX_SUCCESS, txn := n.txn, bundle := b,
                        key := MDBX_GET_KEY leaf key, data := some n.data }
        | none =>
          pure { rc := MDBX_SUCCESS, txn := txn, bundle := b, key := MDBX_GET_KEY leaf key,
                 data := none }

/-- The code of cursor_next and cursor_prev that follows the move of the
index (from the label `skip` in cursor_next): reads the entry at the top
index of page `mp`.  `last` selects cursor_last instead of cursor_first for
the duplicates (cursor_prev). -/
def cursor_fetch (page_touch : page_touch_t) (last : Bool) (lvl : Nat) (txn : MDBX_txn)
    (b : MDBX_cursor) (mp : page_t) (key data : Option MDBX_iov) : Option gres := do
  let mc := b.cur (lvl + 1)
  let ki ← mc.ki mc.mc_top
  if IS_DFL mp then
    let key ← set_dfl_key key (DFLKEY mp ki mc.mc_aht.aa.xsize32)
    pure { rc := MDBX_SUCCESS, txn := txn, bundle := b, key := key, data := data }
  else
    -- assert(IS_LEAF(mp))
    if ¬ IS_LEAF mp then none
    let leaf ← (← node_ptr mp ki).deref
    let b ← if F_ISSET leaf.node_flags8 NODE_DUP then subordinate_setup b (lvl + 1) leaf
            else pure b
    match data with
    | some d =>
      let n := node_read txn leaf d
      if n.rc ≠ MDBX_SUCCESS then
        pure { rc := n.rc, txn := n.txn, bundle := b, key := key, data := some n.data }
      else if F_ISSET leaf.node_flags8 NODE_DUP then
        let r ← (if last then cursor_last page_touch lvl n.txn b (some n.data) none
                 else cursor_first page_touch lvl n.txn b (some n.data) none)
        if r.rc ≠ MDBX_SUCCESS then pure { r with key := key, data := r.key }
        else pure { rc := MDBX_SUCCESS, txn := r.txn, bundle := r.bundle,
                    key := MDBX_GET_KEY leaf key, data := r.key }
      else pure { rc := MDBX_SUCCESS, txn := n.txn, bundle := b,
                  key := MDBX_GET_KEY leaf key, data := some n.data }
    | none =>
      pure { rc := MDBX_SUCCESS, txn := txn, bundle := b, key := MDBX_GET_KEY leaf key,
             data := none }

/-- The code of cursor_next that follows the `S_HAVESUB` block: move the
index (unless `C_AFTERDELETE` asks to skip the move) and read the entry.
`mp` is the local page pointer. -/
def cursor_next_advance (page_touch : page_touch_t) (lvl : Nat) (mp : page_t)
    (key : Option MDBX_iov) (txn : MDBX_txn) (b : MDBX_cursor) (data : Option MDBX_iov) :
    Option gres :=
  let mc := b.cur (lvl + 1)
  match mc.ki mc.mc_top with
  | none => none
  | some ki =>
    if tst mc.mc_state8 C_AFTERDELETE then
      let mc := { mc with mc_state8 := mc.mc_state8 ^^^ C_AFTERDELETE }
      cursor_fetch page_touch false lvl txn (b.with_cur (lvl + 1) mc) mp key data
    else if ki + 1 ≥ page_numkeys mp then
      match cursor_sibling txn mc true with
      | none => none
      | some r =>
        if r.rc ≠ MDBX_SUCCESS then
          some { rc := r.rc, txn := r.txn,
                 bundle := b.with_cur (lvl + 1)
                   { r.mc with mc_state8 := r.mc.mc_state8 ||| C_EOF },
                 key := key, data := data }
        else
          match r.mc.pg r.mc.mc_top with
          | none => none
          | some mp =>
            cursor_fetch page_touch false lvl r.txn (b.with_cur (lvl + 1) r.mc) mp key data
    else
      match mc.set_ki mc.mc_top (to_indx ((ki : Int) + 1)) with
      | none => none
      | some mc => cursor_fetch page_touch false lvl txn (b.with_cur (lvl + 1) mc) mp key data

/-- Move the cursor to the next data item. -/
def cursor_next (page_touch : page_touch_t) :
    Nat → MDBX_txn → MDBX_cursor → Option MDBX_iov → Option MDBX_iov → MDBX_cursor_op →
    Option gres
  | 0, _, _, _, _, _ => none
  | lvl + 1, txn, b, key, data, op =>
    let mc := b.cur (lvl + 1)
    if tst mc.mc_state8 C_AFTERDELETE ∧ op = MDBX_NEXT_DUP then
      some { rc := MDBX_NOTFOUND, txn := txn, bundle := b, key := key, data := data }
    else if ¬ tst mc.mc_state8 C_INITIALIZED then cursor_first page_touch (lvl + 1) txn b key data
    else
      match mc.pg mc.mc_top, mc.ki mc.mc_top with
      | some mp, some ki =>
        if tst mc.mc_state8 C_EOF ∧ ki + 1 ≥ page_numkeys mp then
          some { rc := MDBX_NOTFOUND, txn := txn, bundle := b, key := key, data := data }
        else
          let mc := if tst mc.mc_state8 C_EOF then { mc with mc_state8 := mc.mc_state8 ^^^ C_EOF }
                    else mc
          let b := b.with_cur (lvl + 1) mc
          if tst mc.mc_kind8 S_HAVESUB then
            match (node_ptr mp ki).bind node_ref.deref with
            | none => none
            | some leaf =>
              if F_ISSET leaf.node_flags8 NODE_DUP then
                if op = MDBX_NEXT ∨ op = MDBX_NEXT_DUP then
                  match (cursor_subcursor b (lvl + 1)).bind
                          (fun _ => cursor_next page_touch lvl txn b data none MDBX_NEXT) with
                  | none => none
                  | some r =>
                    if op ≠ MDBX_NEXT ∨ r.rc ≠ MDBX_NOTFOUND then
                      some { rc := r.rc, txn := r.txn, bundle := r.bundle,
                             key := if r.rc = MDBX_SUCCESS then MDBX_GET_KEY leaf key else key,
                             data := r.key }
                    else cursor_next_advance page_touch lvl mp key r.txn r.bundle r.key
                else cursor_next_advance page_touch lvl mp key txn b data
              else
                match subcursor_reset b (lvl + 1) with
                | none => none
                | some b =>
                  if op = MDBX_NEXT_DUP then
                    some { rc := MDBX_NOTFOUND, txn := txn, bundle := b, key := key,
                           data := data }
                  else cursor_next_advance page_touch lvl mp key txn b data
          else cursor_next_advance page_touch lvl mp key txn b data
      | _, _ => none

/-- The code of cursor_prev that follows the `S_HAVESUB` block: move the
index back and read the entry.  `mp` is the local page pointer. -/
def cursor_prev_retreat (page_touch : page_touch_t) (lvl : Nat) (mp : page_t)
    (key : Option MDBX_iov) (txn : MDBX_txn) (b : MDBX_cursor) (data : Option MDBX_iov) :
    Option gres :=
  let mc := b.cur (lvl + 1)
  let mc := { mc with mc_state8 := clr8 mc.mc_state8 (C_EOF ||| C_AFTERDELETE) }
  match mc.ki mc.mc_top with
  | none => none
  | some ki =>
    if ki = 0 then
      match cursor_sibling txn mc false with
      | none => none
      | some r =>
        if r.rc ≠ MDBX_SUCCESS then
          some { rc := r.rc, txn := r.txn, bundle := b.with_cur (lvl + 1) r.mc,
                 key := key, data := data }
        else
          match r.mc.pg r.mc.mc_top with
          | none => none
          | some mp =>
            match r.mc.set_ki r.mc.mc_top (to_indx ((page_numkeys mp : Int) - 1)) with
            | none => none
            | some mc =>
              cursor_fetch page_touch true lvl r.txn (b.with_cur (lvl + 1) mc) mp key data
    else
      match mc.set_ki mc.mc_top (to_indx ((ki : Int) - 1)) with
      | none => none
      | some mc => cursor_fetch page_touch true lvl txn (b.with_cur (lvl + 1) mc) mp key data

/-- The code of cursor_prev on an initialized cursor (after the block that
initializes it through cursor_last). -/
def cursor_prev_inited (page_touch : page_touch_t) (sub_prev : sub_call_t) (lvl : Nat)
    (txn : MDBX_txn) (b : MDBX_cursor) (key data : Option MDBX_iov) (op : MDBX_cursor_op) :
    Option gres :=
  let mc := b.cur (lvl + 1)
  match mc.pg mc.mc_top, mc.ki mc.mc_top with
  | some mp, some ki =>
    if tst mc.mc_kind8 S_HAVESUB ∧ ki < page_numkeys mp then
      match (node_ptr mp ki).bind node_ref.deref with
      | none => none
      | some leaf =>
        if F_ISSET leaf.node_flags8 NODE_DUP then
          if op = MDBX_PREV ∨ op = MDBX_PREV_DUP then
            match (cursor_subcursor b (lvl + 1)).bind (fun _ => sub_prev txn b data) with
            | none => none
            | some r =>
              if op ≠ MDBX_PREV ∨ r.rc ≠ MDBX_NOTFOUND then
                if r.rc = MDBX_SUCCESS then
                  let mc := r.bundle.cur (lvl + 1)
                  let mc := { mc with mc_state8 := clr8 mc.mc_state8 C_EOF }
                  some { rc := r.rc, txn := r.txn, bundle := r.bundle.with_cur (lvl + 1) mc,
                         key := MDBX_GET_KEY leaf key, data := r.key }
                else some { rc := r.rc, txn := r.txn, bundle := r.bundle, key := key,
                            data := r.key }
              else cursor_prev_retreat page_touch lvl mp key r.txn r.bundle r.key
          else cursor_prev_retreat page_touch lvl mp key txn b data
        else
          match subcursor_reset b (lvl + 1) with
          | none => none
          | some b =>
            if op = MDBX_PREV_DUP then
              some { rc := MDBX_NOTFOUND, txn := txn, bundle := b, key := key, data := data }
            else cursor_prev_retreat page_touch lvl mp key txn b data
    else cursor_prev_retreat page_touch lvl mp key txn b data
  | _, _ => none

/-- Move the cursor to the previous data item. -/
def cursor_prev (page_touch : page_touch_t) :
    Nat → MDBX_txn → MDBX_cursor → Option MDBX_iov → Option MDBX_iov → MDBX_cursor_op →
    Option gres
  | 0, _, _, _, _, _ => none
  | lvl + 1, txn, b, key, data, op =>
    let sub_prev : sub_call_t :=
      fun txn b data => cursor_prev page_touch lvl txn b data none MDBX_PREV
    if tst (b.cur (lvl + 1)).mc_state8 C_AFTERDELETE ∧ op = MDBX_PREV_DUP then
      some { rc := MDBX_NOTFOUND, txn := txn, bundle := b, key := key, data := data }
    else if ¬ tst (b.cur (lvl + 1)).mc_state8 C_INITIALIZED then
      match cursor_last page_touch (lvl + 1) txn b key data with
      | none => none
      | some r =>
        if r.rc ≠ MDBX_SUCCESS then some r
        else
          let mc := r.bundle.cur (lvl + 1)
          match mc.ki mc.mc_top with
          | none => none
          | some ki =>
            match mc.set_ki mc.mc_top (to_indx ((ki : Int) + 1)) with
            | none => none
            | some mc =>
              cursor_prev_inited page_touch sub_prev lvl r.txn (r.bundle.with_cur (lvl + 1) mc)
                r.key r.data op
    else cursor_prev_inited page_touch sub_prev lvl txn b key data op

/-- The loop `for (i = 0; i < mc->mc_top; i++) if (mc->mc_ki[i] <
page_numkeys(mc->mc_pg[i]) - 1) break;` of cursor_set; gives the final `i`.
`fuel` is the number of iterations left, at most `mc_top`. -/
def cursor_set_scan (mc : cursor_t) : Nat → Nat → Option Nat
  | 0, i => some i
  | fuel + 1, i =>
    if i < mc.mc_top then do
      let pg ← mc.pg i
      let ki ← mc.ki i
      if ki < to_unsigned ((page_numkeys pg : Int) - 1) then some i
      else cursor_set_scan mc fuel (i + 1)
    else some i

/-- The key at index `i` of a leaf page as cursor_set reads it, with the node
pointer left in `leaf` (unchanged on a dense-fixed page). -/
def cursor_set_key_at (mc : cursor_t) (mp : page_t) (i : Nat) (leaf : node_ref) :
    Option (MDBX_iov × node_ref) :=
  if tst mp.mp_flags16 P_DFL then some (DFLKEY mp i mc.mc_aht.aa.xsize32, leaf)
  else do
    let r ← node_ptr mp i
    let n ← r.deref
    pure (NODEKEY n, r)

/-- The code of cursor_set from the label `set1`.  `mp` and `leaf` are the
local page and node pointers, `rc` the local return code; `sub_first` and
`sub_set` are the calls of cursor_first and of cursor_set (with
`MDBX_SET_RANGE` and the given `exactp`) on the sub-cursor. -/
def cursor_set_set1 (sub_first : sub_call_t) (sub_set : Option Int → sub_call_t)
    (lvl : Nat) (keyp data : Option MDBX_iov) (op : MDBX_cursor_op)
    (txn : MDBX_txn) (b : MDBX_cursor) (mp : page_t) (leaf : node_ref)
    (rc : Int) (exactp : Option Int) : Option gres :=
  let mc := b.cur lvl
  let mc := { mc with mc_state8 := clr8 (mc.mc_state8 ||| C_INITIALIZED) C_EOF }
  let b := b.with_cur lvl mc
  if IS_DFL mp then
    if op = MDBX_SET_RANGE ∨ op = MDBX_SET_KEY then
      match keyp, mc.ki mc.mc_top with
      | some _, some ki =>
        some { rc := MDBX_SUCCESS, txn := txn, bundle := b,
               key := some (DFLKEY mp ki mc.mc_aht.aa.xsize32), data := data, exact := exactp }
      | _, _ => none
    else some { rc := MDBX_SUCCESS, txn := txn, bundle := b, key := keyp, data := data,
                exact := exactp }
  else
    match leaf.deref with
    | none => none
    | some leaf =>
      -- the return at the end of the function
      let fin := fun (rc : Int) (txn : MDBX_txn) (b : MDBX_cursor) (data : Option MDBX_iov) =>
        ({ rc := rc, txn := txn, bundle := b,
           key := if op = MDBX_SET_RANGE ∨ op = MDBX_SET_KEY then MDBX_GET_KEY leaf keyp
                  else keyp,
           data := data, exact := exactp } : gres)
      -- an early return
      let out := fun (rc : Int) (txn : MDBX_txn) (b : MDBX_cursor) (data : Option MDBX_iov) =>
        ({ rc := rc, txn := txn, bundle := b, key := keyp, data := data,
           exact := exactp } : gres)
      match (if F_ISSET leaf.node_flags8 NODE_DUP then subordinate_setup b lvl leaf
             else some b) with
      | none => none
      | some b =>
        match data with
        | some d =>
          if F_ISSET leaf.node_flags8 NODE_DUP then
            if op = MDBX_SET ∨ op = MDBX_SET_KEY ∨ op = MDBX_SET_RANGE then
              (sub_first txn b data).map (fun r => fin r.rc r.txn r.bundle r.key)
            else
              let ex2p : Option Int := if op = MDBX_GET_BOTH then some 0 else none
              (sub_set ex2p txn b data).map (fun r =>
                if r.rc ≠ MDBX_SUCCESS then out r.rc r.txn r.bundle r.key
                else fin r.rc r.txn r.bundle r.key)
          else if op = MDBX_GET_BOTH ∨ op = MDBX_GET_BOTH_RANGE then
            let n := node_read txn leaf []
            if n.rc ≠ MDBX_SUCCESS then some (out n.rc n.txn b data)
            else
              let rc := to_int (cursor_compare_data mc d n.data)
              if rc ≠ 0 ∧ (op = MDBX_GET_BOTH ∨ rc > 0) then
                some (out MDBX_NOTFOUND n.txn b data)
              else some (fin 0 n.txn b (some n.data))
          else
            match (if tst mc.mc_kind8 S_HAVESUB then subcursor_reset b lvl else some b) with
            | none => none
            | some b =>
              let n := node_read txn leaf d
              if n.rc ≠ MDBX_SUCCESS then some (out n.rc n.txn b (some n.data))
              else some (fin n.rc n.txn b (some n.data))
        | none => some (fin rc txn b none)

/-- The code of cursor_set from the label `set2`. -/
def cursor_set_set2 (sub_first : sub_call_t) (sub_set : Option Int → sub_call_t)
    (lvl : Nat) (key : MDBX_iov) (keyp data : Option MDBX_iov) (op : MDBX_cursor_op)
    (exactp : Option Int) (txn : MDBX_txn) (b : MDBX_cursor) (mp : page_t) : Option gres :=
  match node_search (b.cur lvl) key with
  | none => none
  | some s =>
    let b := b.with_cur lvl s.mc
    let exactp := exactp.map (fun _ => s.exact)
    if exactp.isSome ∧ s.exact = 0 then
      -- MDBX_SET specified and not an exact match.
      some { rc := MDBX_NOTFOUND, txn := txn, bundle := b, key := keyp, data := data,
             exact := exactp }
    else if s.node = .null then
      match cursor_sibling txn s.mc true with
      | none => none
      | some r =>
        if r.rc ≠ MDBX_SUCCESS then
          some { rc := r.rc, txn := r.txn,
                 bundle := b.with_cur lvl { r.mc with mc_state8 := r.mc.mc_state8 ||| C_EOF },
                 key := keyp, data := data, exact := exactp }
        else
          match r.mc.pg r.mc.mc_top with
          | none => none
          | some mp =>
            -- assert(IS_LEAF(mp))
            if ¬ IS_LEAF mp then none
            else
              match node_ptr mp 0 with
              | none => none
              | some leaf =>
                cursor_set_set1 sub_first sub_set lvl keyp data op r.txn
                  (b.with_cur lvl r.mc) mp leaf r.rc exactp
    else cursor_set_set1 sub_first sub_set lvl keyp data op txn b mp s.node 0 exactp

/-- The code of cursor_set from the call of page_search. -/
def cursor_set_search (page_touch : page_touch_t) (sub_first : sub_call_t)
    (sub_set : Option Int → sub_call_t)
    (lvl : Nat) (key : MDBX_iov) (keyp data : Option MDBX_iov) (op : MDBX_cursor_op)
    (exactp : Option Int) (txn : MDBX_txn) (b : MDBX_cursor) : Option gres :=
  match page_search page_touch txn (b.cur lvl) keyp 0 with
  | none => none
  | some r =>
    if r.rc ≠ MDBX_SUCCESS then
      some { gres.of_cres r b lvl keyp data with exact := exactp }
    else
      match r.mc.pg r.mc.mc_top with
      | none => none
      | some mp =>
        -- assert(IS_LEAF(mp))
        if ¬ IS_LEAF mp then none
        else cursor_set_set2 sub_first sub_set lvl key keyp data op exactp r.txn
               (b.with_cur lvl r.mc) mp

/-- The block `if (mc->mc_state8 & C_INITIALIZED) { ... }` of cursor_set
("see if we're already on the right page") with everything reached from it. -/
def cursor_set_inited (page_touch : page_touch_t) (sub_first : sub_call_t)
    (sub_set : Option Int → sub_call_t)
    (lvl : Nat) (key : MDBX_iov) (keyp data : Option MDBX_iov) (op : MDBX_cursor_op)
    (exactp : Option Int) (txn : MDBX_txn) (b : MDBX_cursor) : Option gres :=
  let mc := b.cur lvl
  let out := fun (rc : Int) (mc : Option cursor_t) =>
    mc.map (fun mc => ({ rc := rc, txn := txn, bundle := b.with_cur lvl mc, key := keyp,
                         data := data, exact := exactp } : gres))
  let set1 := cursor_set_set1 sub_first sub_set lvl keyp data op
  let set2 := cursor_set_set2 sub_first sub_set lvl key keyp data op exactp
  match mc.pg mc.mc_top with
  | none => none
  | some mp =>
    if page_numkeys mp = 0 then out MDBX_NOTFOUND (mc.set_ki mc.mc_top 0)
    else
      match cursor_set_key_at mc mp 0 .null with
      | none => none
      | some (nodekey, leaf) =>
        let rc := to_int (cursor_compare_keys mc key nodekey)
        if rc = 0 then
          -- Probably happens rarely, but first node on the page was the one we wanted.
          (mc.set_ki mc.mc_top 0).bind (fun mc =>
            set1 txn (b.with_cur lvl mc) mp leaf rc (exactp.map (fun _ => 1)))
        else
          -- the code from the test `if (!mc->mc_top)`
          let nosib := fun (leaf : node_ref) =>
            if mc.mc_top = 0 then
              -- There are no other pages
              (mc.set_ki mc.mc_top 0).bind (fun mc =>
                if op = MDBX_SET_RANGE ∧ exactp.isNone then
                  set1 txn (b.with_cur lvl mc) mp leaf 0 exactp
                else out MDBX_NOTFOUND (some mc))
            else cursor_set_search page_touch sub_first sub_set lvl key keyp data op exactp txn b
          -- the code from the loop over the parents
          let parents := fun (leaf : node_ref) =>
            match cursor_set_scan mc mc.mc_top 0 with
            | none => none
            | some i =>
              if i = mc.mc_top then
                -- There are no other pages; assert(nkeys <= UINT16_MAX)
                if page_numkeys mp > 65535 then none
                else out MDBX_NOTFOUND (mc.set_ki mc.mc_top (page_numkeys mp))
              else nosib leaf
          if rc > 0 then
            let nkeys := page_numkeys mp
            if nkeys > 1 then
              match cursor_set_key_at mc mp (nkeys - 1) leaf with
              | none => none
              | some (nodekey, leaf) =>
                let rc := to_int (cursor_compare_keys mc key nodekey)
                if rc = 0 then
                  -- last node was the one we wanted
                  (mc.set_ki mc.mc_top (to_indx ((nkeys : Int) - 1))).bind (fun mc =>
                    set1 txn (b.with_cur lvl mc) mp leaf rc (exactp.map (fun _ => 1)))
                else if rc < 0 then
                  let b2 := b.with_cur lvl { mc with mc_state8 := clr8 mc.mc_state8 C_EOF }
                  match mc.ki mc.mc_top with
                  | none => none
                  | some ki =>
                    if ki < page_numkeys mp then
                      -- This is definitely the right page, skip search_page
                      match cursor_set_key_at mc mp ki leaf with
                      | none => none
                      | some (nodekey, leaf) =>
                        if to_int (cursor_compare_keys mc key nodekey) = 0 then
                          -- current node was the one we wanted
                          set1 txn b mp leaf 0 (exactp.map (fun _ => 1))
                        else set2 txn b2 mp
                    else set2 txn b2 mp
                else parents leaf
            else parents leaf
          else nosib leaf

/-- The body of cursor_set on the cursor named by `lvl`. -/
def cursor_set_body (page_touch : page_touch_t) (sub_first : sub_call_t)
    (sub_set : Option Int → sub_call_t)
    (lvl : Nat) (txn : MDBX_txn) (b : MDBX_cursor) (keyp data : Option MDBX_iov)
    (op : MDBX_cursor_op) (exactp : Option Int) : Option gres :=
  match keyp with
  | none => none
  | some key =>
    -- assert(!"key-size is invalid for MDBX_INTEGERKEY")
    if tst (b.cur lvl).mc_aht.aa.flags16 MDBX_INTEGERKEY
        ∧ key.length ≠ 4 ∧ key.length ≠ 8 then none
    else
      match (if tst (b.cur lvl).mc_kind8 S_HAVESUB then subcursor_reset b lvl else some b) with
      | none => none
      | some b =>
        -- See if we're already on the right page
        if tst (b.cur lvl).mc_state8 C_INITIALIZED then
          cursor_set_inited page_touch sub_first sub_set lvl key keyp data op exactp txn b
        else
          match (b.cur lvl).set_pg 0 none with
          | none => none
          | some mc =>
            cursor_set_search page_touch sub_first sub_set lvl key keyp data op exactp txn
              (b.with_cur lvl mc)

/-- Set the cursor on a specific data item. -/
def cursor_set (page_touch : page_touch_t) :
    Nat → MDBX_txn → MDBX_cursor → Option MDBX_iov → Option MDBX_iov → MDBX_cursor_op →
    Option Int → Option gres
  | 0, _, _, _, _, _, _ => none
  | lvl + 1, txn, b, keyp, data, op, exactp =>
    cursor_set_body page_touch
      (fun txn b data => cursor_first page_touch lvl txn b data none)
      (fun ex2p txn b data => cursor_set page_touch lvl txn b data none MDBX_SET_RANGE ex2p)
      (lvl + 1) txn b keyp data op exactp

/-! ## cursor_get -/

/-- The pointer `cursor_subordinate(mc)`: the outer `none` is a failed
assertion of cursor_subcursor, the inner `none` is `nullptr`. -/
def cursor_subordinate (b : MDBX_cursor) (lvl : Nat) : Option (Option cursor_t) :=
  if tst (b.cur lvl).mc_kind8 S_HAVESUB then (cursor_subcursor b lvl).map some else some none

/-- The code of cursor_get from the label `fetch_multiple` up to the `break`. -/
def cursor_get_fetch_multiple (lvl : Nat) (txn : MDBX_txn) (b : MDBX_cursor)
    (key data : Option MDBX_iov) : Option gres :=
  -- assert(rc == MDBX_SUCCESS && data && subordinate)
  match data, (cursor_subordinate b lvl).join with
  | some _, some sub =>
    if (sub.mc_state8 &&& (C_INITIALIZED ||| C_EOF)) ≠ C_INITIALIZED then
      some { rc := MDBX_NOTFOUND, txn := txn, bundle := b, key := key, data := data }
    else
      match sub.pg sub.mc_top with
      | none => none
      | some pg =>
        (sub.set_ki sub.mc_top (to_indx ((page_numkeys pg : Int) - 1))).map (fun sub =>
          { rc := MDBX_SUCCESS, txn := txn,
            bundle := { b with subordinate := { mx_cursor := sub } }, key := key,
            data := some (pg.mp_data.take (page_numkeys pg * sub.mc_aht.aa.xsize32)) })
  | _, _ => none

/-- The case `MDBX_GET_CURRENT` of cursor_get up to its `break`; `sub_first`
and `sub_current` are the calls of cursor_first and of cursor_get
(`MDBX_GET_CURRENT`) on the sub-cursor.  The flag of the result tells whether
the case ended in `break` (true) or in `return` (false). -/
def cursor_get_current (sub_first sub_current : sub_call_t) (lvl : Nat) (txn : MDBX_txn)
    (b : MDBX_cursor) (key data : Option MDBX_iov) : Option (gres × Bool) :=
  let mc := b.cur lvl
  let ret := fun (rc : Int) (txn : MDBX_txn) (b : MDBX_cursor) (key data : Option MDBX_iov) =>
    (({ rc := rc, txn := txn, bundle := b, key := key, data := data } : gres), false)
  if ¬ tst mc.mc_state8 C_INITIALIZED then some (ret MDBX_EINVAL txn b key data)
  else
    match mc.pg mc.mc_top, mc.ki mc.mc_top with
    | some mp, some ki =>
      let nkeys := page_numkeys mp
      if ki ≥ nkeys then
        -- assert(nkeys <= UINT16_MAX)
        if nkeys > 65535 then none
        else (mc.set_ki mc.mc_top nkeys).map (fun mc =>
               ret MDBX_NOTFOUND txn (b.with_cur lvl mc) key data)
      -- assert(nkeys > 0)
      else if ¬ nkeys > 0 then none
      else if IS_DFL mp then
        (set_dfl_key key (DFLKEY mp ki mc.mc_aht.aa.xsize32)).map (fun key =>
          ({ rc := MDBX_SUCCESS, txn := txn, bundle := b, key := key, data := data }, true))
      else
        match (node_ptr mp ki).bind node_ref.deref with
        | none => none
        | some leaf =>
          let key := MDBX_GET_KEY leaf key
          match data with
          | none => some ({ rc := MDBX_SUCCESS, txn := txn, bundle := b, key := key,
                            data := data }, true)
          | some d =>
            if F_ISSET leaf.node_flags8 NODE_DUP then
              match cursor_subordinate b lvl with
              | none => none
              | some none => some (ret MDBX_CORRUPTED txn b key data)
              | some (some sub) =>
                -- the sub-cursor is set up and put on its first item when it is not
                -- initialized
                match (if ¬ tst sub.mc_state8 C_INITIALIZED then
                         (subordinate_setup b lvl leaf).bind (fun b => sub_first txn b data)
                       else some { rc := MDBX_SUCCESS, txn := txn, bundle := b, key := data,
                                   data := none }) with
                | none => none
                | some r =>
                  if r.rc ≠ MDBX_SUCCESS then some (ret r.rc r.txn r.bundle key r.key)
                  else
                    match sub_current r.txn r.bundle r.key with
                    | none => none
                    | some r =>
                      if r.rc ≠ MDBX_SUCCESS then some (ret r.rc r.txn r.bundle key r.key)
                      else some ({ rc := r.rc, txn := r.txn, bundle := r.bundle, key := key,
                                   data := r.key }, true)
            else
              let n := node_read txn leaf d
              if n.rc ≠ MDBX_SUCCESS then some (ret n.rc n.txn b key (some n.data))
              else some ({ rc := n.rc, txn := n.txn, bundle := b, key := key,
                           data := some n.data }, true)
    | _, _ => none

/-- The cases `MDBX_FIRST_DUP` and `MDBX_LAST_DUP` of cursor_get up to their
`break`; `sub_edge` is the call of cursor_first or cursor_last on the
sub-cursor.  The flag of the result tells whether the case ended in `break`. -/
def cursor_get_edge_dup (sub_edge : sub_call_t) (lvl : Nat) (txn : MDBX_txn)
    (b : MDBX_cursor) (key data : Option MDBX_iov) : Option (gres × Bool) :=
  let mc := b.cur lvl
  let ret := fun (rc : Int) =>
    (({ rc := rc, txn := txn, bundle := b, key := key, data := data } : gres), false)
  match data with
  | none => some (ret MDBX_EINVAL)
  | some d =>
    if ¬ tst mc.mc_state8 C_INITIALIZED then some (ret MDBX_EINVAL)
    else
      match cursor_subordinate b lvl with
      | none => none
      | some none => some (ret MDBX_INCOMPATIBLE)
      | some (some sub) =>
        match mc.pg mc.mc_top, mc.ki mc.mc_top with
        | some mp, some ki =>
          if ki ≥ page_numkeys mp then some (ret MDBX_NOTFOUND)
          else
            match (node_ptr mp ki).bind node_ref.deref with
            | none => none
            | some leaf =>
              if ¬ F_ISSET leaf.node_flags8 NODE_DUP then
                let n := node_read txn leaf d
                some ({ rc := n.rc, txn := n.txn, bundle := b, key := MDBX_GET_KEY leaf key,
                        data := some n.data }, true)
              else if ¬ tst sub.mc_state8 C_INITIALIZED then some (ret MDBX_NOTFOUND)
              else
                (sub_edge txn b data).map (fun r =>
                  ({ rc := r.rc, txn := r.txn, bundle := r.bundle, key := key,
                     data := r.key }, true))
        | _, _ => none

/-- The statement `mc->mc_state8 &= ~C_AFTERDELETE` that follows the switch
of cursor_get. -/
def cursor_get_break (lvl : Nat) (r : gres) : gres :=
  let mc := r.bundle.cur lvl
  { r with bundle := r.bundle.with_cur lvl
             { mc with mc_state8 := clr8 mc.mc_state8 C_AFTERDELETE } }

/-- Retrieve by cursor: the dispatcher over the cursor operations. -/
def cursor_get (page_touch : page_touch_t) :
    Nat → MDBX_txn → MDBX_cursor → Option MDBX_iov → Option MDBX_iov → MDBX_cursor_op →
    Option gres
  | 0, _, _, _, _, _ => none
  | lvl + 1, txn, b, key, data, op =>
    let mc := b.cur (lvl + 1)
    let ret := fun (rc : Int) =>
      (some { rc := rc, txn := txn, bundle := b, key := key, data := data } : Option gres)
    let brk := fun (r : Option gres) => r.map (cursor_get_break (lvl + 1))
    let brk2 := fun (r : Option (gres × Bool)) =>
      r.map (fun x => if x.2 then cursor_get_break (lvl + 1) x.1 else x.1)
    -- `cursor_t *const subordinate = cursor_subordinate(mc)`
    match cursor_subordinate b (lvl + 1) with
    | none => none
    | some _ =>
      match op with
      | MDBX_GET_CURRENT =>
        brk2 (cursor_get_current
          (fun txn b data => cursor_first page_touch lvl txn b data none)
          (fun txn b data => cursor_get page_touch lvl txn b data none MDBX_GET_CURRENT)
          (lvl + 1) txn b key data)
      | MDBX_GET_BOTH | MDBX_GET_BOTH_RANGE =>
        if data.isNone then ret MDBX_EINVAL
        else if ¬ tst mc.mc_kind8 S_HAVESUB then ret MDBX_INCOMPATIBLE
        else if key.isNone then ret MDBX_EINVAL
        else brk (cursor_set page_touch (lvl + 1) txn b key data op (some 0))
      | MDBX_SET | MDBX_SET_KEY =>
        if key.isNone then ret MDBX_EINVAL
        else brk (cursor_set page_touch (lvl + 1) txn b key data op (some 0))
      | MDBX_SET_RANGE =>
        if key.isNone then ret MDBX_EINVAL
        else brk (cursor_set page_touch (lvl + 1) txn b key data op none)
      | MDBX_GET_MULTIPLE =>
        if data.isNone ∨ ¬ tst mc.mc_state8 C_INITIALIZED then ret MDBX_EINVAL
        else if ¬ tst mc.mc_kind8 S_DUPFIXED then ret MDBX_INCOMPATIBLE
        else brk (cursor_get_fetch_multiple (lvl + 1) txn b key data)
      | MDBX_NEXT_MULTIPLE =>
        if data.isNone then ret MDBX_EINVAL
        else if ¬ tst mc.mc_kind8 S_DUPFIXED then ret MDBX_INCOMPATIBLE
        else
          match cursor_next page_touch (lvl + 1) txn b key data MDBX_NEXT_DUP with
          | none => none
          | some r =>
            if r.rc = MDBX_SUCCESS then
              brk (cursor_get_fetch_multiple (lvl + 1) r.txn r.bundle r.key r.data)
            else brk (some r)
      | MDBX_PREV_MULTIPLE =>
        if data.isNone then ret MDBX_EINVAL
        else if ¬ tst mc.mc_kind8 S_DUPFIXED then ret MDBX_INCOMPATIBLE
        else
          match (if ¬ tst mc.mc_state8 C_INITIALIZED then
                   cursor_last page_touch (lvl + 1) txn b key data
                 else some { rc := MDBX_SUCCESS, txn := txn, bundle := b, key := key,
                             data := data }) with
          | none => none
          | some r =>
            if r.rc ≠ MDBX_SUCCESS then brk (some r)
            else
              match (cursor_subordinate r.bundle (lvl + 1)).join with
              | none => none
              | some sub =>
                if ¬ tst sub.mc_state8 C_INITIALIZED then
                  brk (some { r with rc := MDBX_NOTFOUND })
                else
                  match cursor_sibling r.txn sub false with
                  | none => none
                  | some s =>
                    let b := { r.bundle with subordinate := { mx_cursor := s.mc } }
                    if s.rc = MDBX_SUCCESS then
                      brk (cursor_get_fetch_multiple (lvl + 1) s.txn b r.key r.data)
                    else brk (some { rc := s.rc, txn := s.txn, bundle := b, key := r.key,
                                     data := r.data })
      | MDBX_NEXT | MDBX_NEXT_DUP | MDBX_NEXT_NODUP =>
        brk (cursor_next page_touch (lvl + 1) txn b key data op)
      | MDBX_PREV | MDBX_PREV_DUP | MDBX_PREV_NODUP =>
        brk (cursor_prev page_touch (lvl + 1) txn b key data op)
      | MDBX_FIRST_DUP =>
        brk2 (cursor_get_edge_dup
          (fun txn b data => cursor_first page_touch lvl txn b data none)
          (lvl + 1) txn b key data)
      | MDBX_LAST_DUP =>
        brk2 (cursor_get_edge_dup
          (fun txn b data => cursor_last page_touch lvl txn b data none)
          (lvl + 1) txn b key data)
      | MDBX_FIRST => brk (cursor_first page_touch (lvl + 1) txn b key data)
      | MDBX_LAST => brk (cursor_last page_touch (lvl + 1) txn b key data)

/-! ## cursor_init -/

/-- Modelled from the spec: the state of an AA handle that is not valid yet
(no `MDBX_AAH_VALID` bit); declared outside the sources at hand. -/
def MDBX_AAH_STALE : Nat := 0

/-- Modelled from the spec: the comparer `cmp_none` stands for "no comparer";
declared outside the sources at hand. -/
def cmp_none : MDBX_comparer := fun _ _ => 0

def MAX_TXNID : Nat := 18446744073709551615

/-- Initialize a cursor for a given transaction and database.  `bundle` is the
memory of the cursor before the call; the function returns `MDBX_SUCCESS`. -/
def cursor_init (bundle : MDBX_cursor) (aht : aht_t) : Option MDBX_cursor :=
  -- assert(aht->ah.state8 & MDBX_AAH_VALID)
  if ¬ tst aht.kind_and_state16 MDBX_AAH_VALID then none
  else
    match bundle.primal.set_pg 0 none with
    | none => none
    | some p =>
      match p.set_ki 0 0 with
      | none => none
      | some p =>
        let primal : cursor_t :=
          { p with mc_aht := aht, mc_snum := 0, mc_top := 0, mc_state8 := 0, mc_kind8 := 0 }
        let sub : cursor_t :=
          { bundle.subordinate.mx_cursor with mc_state8 := 0, mc_kind8 := 0 }
        if tst aht.aa.flags16 MDBX_DUPSORT then
          let ahe : ahe_t :=
            { ax_refcounter16 := 1, ax_flags16 := 0, ax_ord16 := 65535, ax_seqaah16 := 65535,
              ax_kcmp := aht.ahe.ax_dcmp, ax_dcmp := cmp_none, ax_since := 0,
              ax_until := MAX_TXNID, ax_ident := [] }
          let body : aht_t :=
            { aa := sub.mc_aht.aa, ahe := ahe, seq16 := ahe.ax_seqaah16,
              kind_and_state16 := MDBX_AAH_STALE ||| MDBX_AAH_DUPS }
          let sub : cursor_t :=
            { sub with mc_kind8 := S_SUBCURSOR, mc_aht := body, mc_snum := 0, mc_top := 0 }
          let kind : Nat :=
            if tst aht.aa.flags16 MDBX_DUPFIXED then S_HAVESUB ||| S_DUPFIXED else S_HAVESUB
          some { primal := { primal with mc_kind8 := kind },
                 subordinate := { mx_cursor := sub } }
        else some { primal := primal, subordinate := { mx_cursor := sub } }

/-! # Specification vocabulary -/

/-- Laws of a comparer: the sign of `cmp a b` is opposite to the sign of
`cmp b a`, and "not greater" is transitive. -/
structure CmpOK (cmp : MDBX_comparer) : Prop where
  symm : ∀ a b, cmp a b < 0 ↔ 0 < cmp b a
  trans : ∀ a b c, cmp a b ≤ 0 → cmp b c ≤ 0 → cmp a c ≤ 0

/-- Range of a comparer: every result fits `int`, so that storing it in
`int rc` keeps its value. -/
def CmpInt (cmp : MDBX_comparer) : Prop :=
  ∀ a b, -2147483648 ≤ cmp a b ∧ cmp a b ≤ 2147483647

/-- The key at index `i` of a page as the cursor reads it: the `i`-th packed
key of a dense-fixed page, the key of node `i` otherwise. -/
def page_key (mc : cursor_t) (mp : page_t) (i : Nat) : MDBX_iov :=
  if IS_DFL mp then DFLKEY mp i mc.mc_aht.aa.xsize32 else NODEKEY (mp.mp_nodes.getD i default)

/-- Postcondition of the binary search over the keys `k 0 .. k (n-1)` probed
from index `low0` on: the final `(i, rc)` designate the position
`p = if rc > 0 then i + 1 else i`, the least index from `low0` on whose key is
not smaller than `key`, or `n`. -/
def SearchPost (cmp : MDBX_comparer) (k : Nat → MDBX_iov) (key : MDBX_iov) (low0 n : Nat)
    (i : Nat) (rc : Int) : Prop :=
  let p := if rc > 0 then i + 1 else i
  low0 ≤ p ∧ p ≤ n ∧ (∀ j, low0 ≤ j → j < p → cmp key (k j) > 0) ∧
  (p < n → cmp key (k p) ≤ 0) ∧ (low0 < n → (rc = 0 ↔ (p < n ∧ cmp key (k p) = 0)))

/-- Byte-wise lexicographic comparison, used as the comparer of the sample
trees. -/
def cmp_lex : MDBX_comparer
  | [], [] => 0
  | [], _ :: _ => -1
  | _ :: _, [] => 1
  | a :: as, b :: bs => if a < b then -1 else if b < a then 1 else cmp_lex as bs

/-! ## Sample data for the witnesses -/

/-- A leaf page that holds the given keys and values. -/
def sample_leaf (pgno : pgno_t) (kv : List (MDBX_iov × MDBX_iov)) : page_t :=
  { mp_flags16 := P_LEAF, mp_lower := 2 * kv.length, mp_pgno := pgno,
    mp_nodes := kv.map (fun x => { mn_key := x.1, mn_data := x.2, mn_dsize := x.2.length }) }

/-- A branch page that holds the given keys and child page numbers. -/
def sample_branch (pgno : pgno_t) (kc : List (MDBX_iov × pgno_t)) : page_t :=
  { mp_flags16 := P_BRANCH, mp_lower := 2 * kc.length, mp_pgno := pgno,
    mp_nodes := kc.map (fun x => { mn_key := x.1, mn_pgno := x.2 }) }

/-- A dense-fixed leaf page that holds `n` packed keys. -/
def sample_dfl (pgno : pgno_t) (n : Nat) (bytes : List Nat) : page_t :=
  { mp_flags16 := P_LEAF ||| P_DFL, mp_lower := 2 * n, mp_pgno := pgno, mp_data := bytes }

/-- A valid handle of a user AA with the given flags and root page, ordered
by `cmp_lex`. -/
def sample_aht (flags : Nat) (root : pgno_t) : aht_t :=
  { aa := { flags16 := flags, root := root },
    ahe := { ax_kcmp := cmp_lex, ax_dcmp := cmp_lex, ax_ord16 := 2 },
    kind_and_state16 := MDBX_AAH_VALID }

/-- A read-only transaction over the given page map with 16 pages in use. -/
def sample_txn (pages : pgno_t → page_t) : MDBX_txn :=
  { mt_next_pgno := 16, mt_flags := MDBX_RDONLY, mt_book := { me_map := pages } }

/-- A cursor whose stack holds the given pages and indices, root first. -/
def sample_cursor (aht : aht_t) (state : Nat) (frames : List (page_t × indx_t)) : cursor_t :=
  { mc_aht := aht, mc_snum := frames.length, mc_top := frames.length - 1, mc_state8 := state,
    mc_pg := frames.map (fun f => some f.1) ++ List.replicate (32 - frames.length) none,
    mc_ki := frames.map (fun f => f.2) ++ List.replicate (32 - frames.length) 0 }

/-- No page_touch: the sample operations never ask for `MDBX_PS_MODIFY`. -/
def sample_touch : page_touch_t := fun _ _ => none

/-- The keys "alpha", "beta", "gamma" and the values "1", "2", "3". -/
def k_alpha : MDBX_iov := [97, 108, 112, 104, 97]
def k_beta : MDBX_iov := [98, 101, 116, 97]
def k_gamma : MDBX_iov := [103, 97, 109, 109, 97]
def v_1 : MDBX_iov := [49]
def v_2 : MDBX_iov := [50]
def v_3 : MDBX_iov := [51]

/-- The leaf page 3 holding alpha -> 1, beta -> 2, gamma -> 3. -/
def abc_leaf : page_t := sample_leaf 3 [(k_alpha, v_1), (k_beta, v_2), (k_gamma, v_3)]

/-- The page map of the tree whose root is the leaf `abc_leaf`. -/
def abc_pages : pgno_t → page_t
  | 3 => abc_leaf
  | _ => {}

/-- A tree of height 1: the branch page 4 over the leaf 5 holding alpha -> 1,
beta -> 2 and the leaf 6 holding gamma -> 3. -/
def two_left : page_t := sample_leaf 5 [(k_alpha, v_1), (k_beta, v_2)]
def two_right : page_t := sample_leaf 6 [(k_gamma, v_3)]
def two_root : page_t := sample_branch 4 [([], 5), (k_gamma, 6)]

/-- The page map of the tree of height 1 with root `two_root`. -/
def two_pages : pgno_t → page_t
  | 4 => two_root
  | 5 => two_left
  | 6 => two_right
  | _ => {}

/-- The memory of a cursor bundle before cursor_init. -/
def sample_bundle : MDBX_cursor :=
  { primal := sample_cursor (sample_aht 0 0) 0 [],
    subordinate := { mx_cursor := sample_cursor (sample_aht 0 0) 0 [] } }

/-- An empty dense-fixed leaf page. -/
def empty_dfl : page_t := sample_dfl 5 0 []

/-! ## Well-formed trees -/

/-- The transaction resolves the page number `pgno` to the page `pg`. -/
def Resolves (txn : MDBX_txn) (pgno : pgno_t) (pg : page_t) : Prop :=
  (page_get txn pgno).rc = MDBX_SUCCESS ∧ (page_get txn pgno).ret = some pg

/-- The key of node `i` of an ordinary page. -/
def key_at (pg : page_t) (i : Nat) : MDBX_iov := NODEKEY (pg.mp_nodes.getD i default)

/-- The page that the child pointer at index `k` of a branch page leads to. -/
def child_page (txn : MDBX_txn) (pg : page_t) (k : Nat) : page_t :=
  ((page_get txn (node_get_pgno (pg.mp_nodes.getD k default))).ret).getD default

/-- An ordinary leaf page in good shape: it holds at least one node and its
keys are sorted strictly ascending. -/
structure LeafOK (cmp : MDBX_comparer) (pg : page_t) : Prop where
  is_leaf : IS_LEAF pg = true
  not_branch : IS_BRANCH pg = false
  not_dfl : IS_DFL pg = false
  lower : pg.mp_lower < 65536
  nodes : pg.mp_nodes.length = page_numkeys pg
  nonempty : 0 < page_numkeys pg
  sorted : ∀ i j, i < j → j < page_numkeys pg → cmp (key_at pg i) (key_at pg j) < 0

/-- A branch page in good shape: it holds at least two nodes and its keys
from index 1 on are sorted strictly ascending (the key of node 0 is not used). -/
structure BranchOK (cmp : MDBX_comparer) (pg : page_t) : Prop where
  is_branch : IS_BRANCH pg = true
  not_leaf : IS_LEAF pg = false
  not_dfl : IS_DFL pg = false
  lower : pg.mp_lower < 65536
  nodes : pg.mp_nodes.length = page_numkeys pg
  two : 2 ≤ page_numkeys pg
  sorted : ∀ i j, 1 ≤ i → i < j → j < page_numkeys pg → cmp (key_at pg i) (key_at pg j) < 0

/-- A well-formed (sub-)tree of height `h` rooted at page `pg` whose keys lie
between the bounds `lo` (inclusive) and `hi` (exclusive), where given: all
leaves are at depth `h`, keys are sorted on every page, the child at index `i`
of a branch page resolves and holds the keys from the key of entry `i` (of
`lo` for `i = 0`) up to the key of entry `i + 1` (to `hi` for the last entry).
Every node of a leaf satisfies `P`. -/
def WFTree (txn : MDBX_txn) (cmp : MDBX_comparer) (P : node_t → Prop) :
    Nat → page_t → Option MDBX_iov → Option MDBX_iov → Prop
  | 0, pg, lo, hi =>
    LeafOK cmp pg ∧ (∀ i, i < page_numkeys pg → P (pg.mp_nodes.getD i default)) ∧
    (∀ l, lo = some l → ∀ i, i < page_numkeys pg → cmp l (key_at pg i) ≤ 0) ∧
    (∀ u, hi = some u → ∀ i, i < page_numkeys pg → cmp (key_at pg i) u < 0)
  | h + 1, pg, lo, hi =>
    BranchOK cmp pg ∧
    ∀ i, i < page_numkeys pg →
      Resolves txn (node_get_pgno (pg.mp_nodes.getD i default)) (child_page txn pg i) ∧
      WFTree txn cmp P h (child_page txn pg i)
        (if i = 0 then lo else some (key_at pg i))
        (if i + 1 < page_numkeys pg then some (key_at pg (i + 1)) else hi)

/-- The nodes of the leaves of a tree of height `h`, from left to right. -/
def tree_nodes (txn : MDBX_txn) : Nat → page_t → List node_t
  | 0, pg => pg.mp_nodes
  | h + 1, pg => (List.range (page_numkeys pg)).flatMap (fun i => tree_nodes txn h (child_page txn pg i))

/-- The page reached from `root` along the child indices `ks`. -/
def page_at (txn : MDBX_txn) (root : page_t) (ks : List Nat) : page_t :=
  ks.foldl (child_page txn) root

/-- The value that a read of the entry `n` delivers. -/
def node_data (txn : MDBX_txn) (n : node_t) : MDBX_iov := (node_read txn n []).data

/-- A leaf node of a non-duplicate AA that can be read: it carries no
duplicates, and when its value is on overflow pages these resolve. -/
def PlainNode (txn : MDBX_txn) (n : node_t) : Prop :=
  F_ISSET n.node_flags8 NODE_DUP = false ∧
  (tst n.node_flags8 NODE_BIG = true → ∃ omp, Resolves txn n.data_pgno omp)

/-- The associative array of handle `aht` is a well-formed tree of height `h`
with root page `root`, in a transaction that is not blocked. -/
structure WFAA (txn : MDBX_txn) (aht : aht_t) (P : node_t → Prop) (h : Nat) (root : page_t) :
    Prop where
  live : tst txn.mt_flags MDBX_TXN_BLOCKED = false
  valid : tst aht.kind_and_state16 MDBX_AAH_VALID = true
  root_ge : NUM_METAS ≤ aht.aa.root
  root_pg : Resolves txn aht.aa.root root
  root_no : root.mp_pgno = aht.aa.root
  depth : h + 1 ≤ CURSOR_STACK
  tree : WFTree txn aht.ahe.ax_kcmp P h root none none
  cmp_ok : CmpOK aht.ahe.ax_kcmp

/-- The cursor with the page `mp` pushed as a new top frame at index 0. -/
def frame_push (mc : cursor_t) (mp : page_t) : cursor_t :=
  { mc with mc_top := mc.mc_snum, mc_snum := mc.mc_snum + 1,
            mc_pg := mc.mc_pg.set mc.mc_snum (some mp), mc_ki := mc.mc_ki.set mc.mc_snum 0 }

/-- The cursor with index `k` stored in frame `i`. -/
def frame_ki (mc : cursor_t) (i : Nat) (k : indx_t) : cursor_t :=
  { mc with mc_ki := mc.mc_ki.set i k }

/-- The cursor after a descent of `h` levels from the page `pg` in its top
frame, taking at every branch page the child at index `pick page`. -/
def descend (txn : MDBX_txn) (pick : page_t → Nat) : Nat → cursor_t → page_t → cursor_t
  | 0, mc, _ => mc
  | h + 1, mc, pg =>
    descend txn pick h (frame_push (frame_ki mc mc.mc_top (pick pg)) (child_page txn pg (pick pg)))
      (child_page txn pg (pick pg))

/-- The leaf page at the end of a descent of `h` levels from `pg`. -/
def descend_leaf (txn : MDBX_txn) (pick : page_t → Nat) : Nat → page_t → page_t
  | 0, pg => pg
  | h + 1, pg => descend_leaf txn pick h (child_page txn pg (pick pg))

/-- The arrays of a cursor have `CURSOR_STACK` entries. -/
def StackOK (mc : cursor_t) : Prop :=
  mc.mc_pg.length = CURSOR_STACK ∧ mc.mc_ki.length = CURSOR_STACK

/-- The child index that a key search takes on a branch page: the largest
index from 1 on whose key is not greater than the search key, or 0. -/
def search_pick (cmp : MDBX_comparer) (key : MDBX_iov) (pg : page_t) : Nat :=
  Nat.findGreatest (fun i => 0 ≤ cmp key (key_at pg i)) (page_numkeys pg - 1)

/-- The child index taken towards the first leaf. -/
def first_pick (_ : page_t) : Nat := 0

/-- The child index taken towards the last leaf. -/
def last_pick (pg : page_t) : Nat := page_numkeys pg - 1

/-! ## Cursor stacks as lists of frames -/

/-- The frames of a cursor stack, the top frame first: each frame is a page
and the index into it. -/
abbrev frames_t := List (page_t × Nat)

/-- The arrays `pgs` and `kis` of a cursor hold the frames `fs` in their first
`fs.length` entries, the root frame at entry 0. -/
def HasStack (pgs : List (Option page_t)) (kis : List indx_t) : frames_t → Prop
  | [] => True
  | f :: fs =>
    pgs[fs.length]? = some (some f.1) ∧ kis[fs.length]? = some f.2 ∧ HasStack pgs kis fs

/-- The stack of the cursor `mc` consists of the frames `fs`. -/
structure OnStack (mc : cursor_t) (fs : frames_t) : Prop where
  ok : StackOK mc
  snum : mc.mc_snum = fs.length
  top : mc.mc_top + 1 = fs.length
  le : fs.length ≤ CURSOR_STACK
  frames : HasStack mc.mc_pg mc.mc_ki fs

/-- The frames after a descent of `l` levels from the page `pg`, which lies in
the top frame with index `k` on the frames `S`: at every branch page the child
at index `pick page` is taken, and the frame pushed last has index 0. -/
def descend_stack (txn : MDBX_txn) (pick : page_t → Nat) :
    Nat → page_t → Nat → frames_t → frames_t
  | 0, pg, k, S => (pg, k) :: S
  | l + 1, pg, _, S =>
    descend_stack txn pick l (child_page txn pg (pick pg)) 0 ((pg, pick pg) :: S)

/-- The frames `fs` are a path in the tree under `root`: the bottom frame
holds the root page, every other frame holds the child that the index of the
frame below it selects, and the page of the top frame is a well-formed tree
of height `l` with key bounds `lo` and `hi`. -/
def Chain (txn : MDBX_txn) (cmp : MDBX_comparer) (P : node_t → Prop) (root : page_t) :
    Nat → Option MDBX_iov → Option MDBX_iov → frames_t → Prop
  | _, _, _, [] => False
  | l, lo, hi, [f] => f.1 = root ∧ lo = none ∧ hi = none ∧ WFTree txn cmp P l root none none
  | l, lo, hi, f :: g :: fs =>
    f.1 = child_page txn g.1 g.2 ∧ g.2 < page_numkeys g.1 ∧
    ∃ lo2 hi2, Chain txn cmp P root (l + 1) lo2 hi2 (g :: fs) ∧
      lo = (if g.2 = 0 then lo2 else some (key_at g.1 g.2)) ∧
      hi = (if g.2 + 1 < page_numkeys g.1 then some (key_at g.1 (g.2 + 1)) else hi2)

/-- The entries that come after the position of a frame inside the subtree
of height `l` of its page, in key order. -/
def after_frame (txn : MDBX_txn) : Nat → page_t × Nat → List node_t
  | 0, f => f.1.mp_nodes.drop (f.2 + 1)
  | l + 1, f =>
    (List.range' (f.2 + 1) (page_numkeys f.1 - (f.2 + 1))).flatMap
      (fun i => tree_nodes txn l (child_page txn f.1 i))

/-- The entries of the tree that come after the position of a stack whose top
page has height `l`, in key order. -/
def following (txn : MDBX_txn) : Nat → frames_t → List node_t
  | _, [] => []
  | l, f :: fs => after_frame txn l f ++ following txn (l + 1) fs

/-- The frames after cursor_sibling to the right: the lowest frame below the
top one that has an entry to the right moves there, and the frames above it
follow the leftmost children. -/
def right_sibling (txn : MDBX_txn) : frames_t → Option frames_t
  | [] => none
  | [_] => none
  | _ :: g :: fs =>
    if g.2 + 1 ≥ page_numkeys g.1 then
      match right_sibling txn (g :: fs) with
      | some (p :: ps) => some ((child_page txn p.1 p.2, 0) :: p :: ps)
      | _ => none
    else some ((child_page txn g.1 (g.2 + 1), 0) :: (g.1, g.2 + 1) :: fs)

/-- The page kept in frame 0 of the cursor is the current root page whenever
page_search takes it for the root (it has the page number of the root). -/
def RootOK (mc : cursor_t) (root : page_t) : Prop :=
  page_search_cached mc mc.mc_aht.aa.root = true → mc.mc_pg[0]? = some (some root)

/-- A client of the cursor: it issues the given operations one after the
other through cursor_get on the primal cursor, each with the given key and an
empty data item, and collects the return code, the key and the data of every
call.  The outcome is `none` when a call does not return. -/
def cursor_walk (page_touch : page_touch_t) :
    List (MDBX_cursor_op × MDBX_iov) → MDBX_txn → MDBX_cursor →
    Option (List (Int × Option MDBX_iov × Option MDBX_iov))
  | [], _, _ => some []
  | (op, k) :: rest, txn, b =>
    match cursor_get page_touch 2 txn b (some k) (some []) op with
    | none => none
    | some r =>
      (cursor_walk page_touch rest r.txn r.bundle).map (fun l => (r.rc, r.key, r.data) :: l)

/-- The key `key` lies within the bounds `lo` (inclusive) and `hi`
(exclusive). -/
def KeyIn (cmp : MDBX_comparer) (key : MDBX_iov) (lo hi : Option MDBX_iov) : Prop :=
  (∀ a, lo = some a → cmp a key ≤ 0) ∧ (∀ u, hi = some u → cmp key u < 0)

/-- The entry `e` is the one with the least key not smaller than `key` among
the entries `E`. -/
def IsLeast (cmp : MDBX_comparer) (key : MDBX_iov) (E : List node_t) (e : node_t) : Prop :=
  e ∈ E ∧ cmp key (NODEKEY e) ≤ 0 ∧
  ∀ x ∈ E, cmp key (NODEKEY x) ≤ 0 → cmp (NODEKEY e) (NODEKEY x) ≤ 0

/-- Every frame of `S` holds the last index of its page. -/
def AllLast (S : frames_t) : Prop := ∀ g ∈ S, g.2 + 1 ≥ page_numkeys g.1

/-- What cursor_set with `MDBX_SET` (`exact`) or `MDBX_SET_RANGE` gives over
the tree of height `h` under `root`, for the result `r`: either
`MDBX_SUCCESS` with the cursor on a path to the entry with the least key not
smaller than `key` (equal to `key` under `exact`), whose data is returned and
whose key is stored for `MDBX_SET_RANGE`; or `MDBX_NOTFOUND`, when every key
of the tree is smaller than `key` or, under `exact`, when no key of the tree
equals `key`. -/
def SetOutcome (txn : MDBX_txn) (cmp : MDBX_comparer) (root : page_t) (h : Nat)
    (key : MDBX_iov) (keyp : Option MDBX_iov) (op : MDBX_cursor_op) (exact : Bool)
    (r : gres) : Prop :=
  r.txn = txn ∧
  ((r.rc = MDBX_SUCCESS ∧
      ∃ (leaf : page_t) (k : Nat) (R : frames_t) (lo hi : Option MDBX_iov),
        OnStack r.bundle.primal ((leaf, k) :: R) ∧
        Chain txn cmp (PlainNode txn) root 0 lo hi ((leaf, k) :: R) ∧ R.length = h ∧
        k < page_numkeys leaf ∧
        IsLeast cmp key (tree_nodes txn h root) (leaf.mp_nodes.getD k default) ∧
        (exact = true → cmp key (NODEKEY (leaf.mp_nodes.getD k default)) = 0) ∧
        r.key = (if op = MDBX_SET_RANGE ∨ op = MDBX_SET_KEY
                 then MDBX_GET_KEY (leaf.mp_nodes.getD k default) keyp else keyp) ∧
        r.data = some (node_data txn (leaf.mp_nodes.getD k default)) ∧
        tst r.bundle.primal.mc_state8 C_INITIALIZED = true) ∨
   (r.rc = MDBX_NOTFOUND ∧
      ((∀ x ∈ tree_nodes txn h root, cmp (NODEKEY x) key < 0) ∨
       (exact = true ∧ ∀ x ∈ tree_nodes txn h root, cmp key (NODEKEY x) ≠ 0))))

/-- The cursor `mc` is in a valid state over the tree under `root`: its arrays
have `CURSOR_STACK` entries, and when `C_INITIALIZED` is set its frames are a
path of the tree from the root to a leaf. -/
def CursorOK (txn : MDBX_txn) (cmp : MDBX_comparer) (P : node_t → Prop) (root : page_t)
    (mc : cursor_t) : Prop :=
  StackOK mc ∧
  (tst mc.mc_state8 C_INITIALIZED = true →
    ∃ (leaf : page_t) (k : Nat) (R : frames_t) (lo hi : Option MDBX_iov),
      OnStack mc ((leaf, k) :: R) ∧ Chain txn cmp P root 0 lo hi ((leaf, k) :: R))

/-- The four-byte keys 1 and 2 of a tree with integer keys. -/
def k_one : MDBX_iov := [0, 0, 0, 1]
def k_two : MDBX_iov := [0, 0, 0, 2]

/-- The leaf page 3 holding 1 -> "1", 2 -> "2" under four-byte keys, the root of
a tree of height 0. -/
def int_leaf : page_t := sample_leaf 3 [(k_one, v_1), (k_two, v_2)]

/-- The page map of the tree whose root is the leaf `int_leaf`. -/
def int_pages : pgno_t → page_t
  | 3 => int_leaf
  | _ => {}

/-- A cursor bundle over the handle `aht` whose primal cursor has the given
state flags and frames, and no sub-cursor. -/
def sample_bundle_at (aht : aht_t) (state : Nat) (frames : List (page_t × indx_t)) :
    MDBX_cursor :=
  { primal := sample_cursor aht state frames, subordinate := sample_bundle.subordinate }

/-! ## The description of page_get -/

/-- The key under which the page `pgno` is kept in a spill list: `pgno << 1`
as a `pgno_t`, the low bit clear. -/
def spill_key (pgno : pgno_t) : pgno_t := (pgno <<< 1) % 4294967296

/-- Where a page number resolves according to the description of page_get. -/
inductive page_owner_t where
  | spilled             -- the owner has the page in its spill list: the mapped copy
  | dirty (p : page_t)  -- the owner has the page in its dirty list: the dirty copy
  | nobody              -- no transaction of the chain owns the page

/-- Specification of the walk of page_get in the words of its description:
the chain is walked from the transaction through its ancestors and the walk
stops at the first transaction that owns the page; a transaction whose spill
list contains the key `pgno << 1` owns it as a spilled page (its dirty list
and those of the further ancestors are not looked at), otherwise a
transaction whose dirty list contains the page number owns it as a dirty
page. -/
def page_get_owner_spec (pgno : pgno_t) : List txn_lists → page_owner_t
  | [] => .nobody
  | t :: rest =>
    if (t.mt_spill_pages.getD []).contains (spill_key pgno) then .spilled
    else
      match t.mt_rw_dirtylist.find? (fun e => e.mid == pgno) with
      | some e => .dirty e.mptr
      | none => page_get_owner_spec pgno rest

/-- The lists of a transaction are in order: the spill list is sorted
descending and the dirty list is sorted ascending by page number. -/
def ListsOK (t : txn_lists) : Prop :=
  (∀ sl, t.mt_spill_pages = some sl → sl.Pairwise (fun a b => b < a)) ∧
  t.mt_rw_dirtylist.Pairwise (fun a b => a.mid < b.mid)

/-- The lists of a transaction itself, as page_get walks them first. -/
def txn_own_lists (txn : MDBX_txn) : txn_lists :=
  { mt_spill_pages := txn.mt_spill_pages, mt_rw_dirtylist := txn.mt_rw_dirtylist }

/-- The owner that the walk of page_get has found, without the level. -/
def page_get_walk_t.owner : page_get_walk_t → page_owner_t
  | .mapped _ => .spilled
  | .done p _ => .dirty p
  | .fallthrough => .nobody

/-- A write transaction with a parent: its own spill list holds the key of
page 5, the dirty list of the parent holds the pages 5 and 7. -/
def sample_child_txn : MDBX_txn :=
  { mt_parent := [{ mt_rw_dirtylist := [{ mid := 5, mptr := two_left }, { mid := 7, mptr := two_right }] }],
    mt_next_pgno := 16, mt_spill_pages := some [10], mt_book := { me_map := two_pages } }

/-- Specification of page_get for a page that no transaction of the chain
owns, in the words of its description: "page not found" with `MDBX_TXN_ERROR`
set when the page number is not below the next free page number, otherwise the
page of the memory map at that page number. -/
def page_get_unowned_spec (txn : MDBX_txn) (pgno : pgno_t) : page_get_ret :=
  if pgno ≥ txn.mt_next_pgno then
    { rc := MDBX_PAGE_NOTFOUND, txn := { txn with mt_flags := txn.mt_flags ||| MDBX_TXN_ERROR },
      ret := none, lvl := none }
  else { rc := MDBX_SUCCESS, txn := txn, ret := some (pgno2page txn.mt_book pgno), lvl := some 0 }

/-! ## The frames of cursor_sibling -/

/-- The frame is at the edge of its page in the direction of a move: at the
last index when moving right, at index 0 when moving left. -/
def AtEdge (move_right : Bool) (g : page_t × Nat) : Prop :=
  if move_right then g.2 + 1 ≥ page_numkeys g.1 else g.2 = 0

/-- The index next to `k` in the direction of a move. -/
def neighbour_index (move_right : Bool) (k : Nat) : Nat :=
  if move_right then k + 1 else k - 1

/-- The index at which a page is entered by a move: 0 when moving right, the
last index when moving left. -/
def entry_index (move_right : Bool) (pg : page_t) : Nat :=
  if move_right then 0 else page_numkeys pg - 1

/-- Every frame but the bottom one holds the page that the child pointer at
the index of the frame beneath it refers to. -/
def Linked (txn : MDBX_txn) : frames_t → Prop
  | [] => True
  | [_] => True
  | f :: g :: fs => f.1 = child_page txn g.1 g.2 ∧ Linked txn (g :: fs)

/-- What the search part of cursor_set gives on the primal cursor over the
tree of height `h` under `root`, for the outcome `res` of the call: either the
call ends in the code from the label `set1`, run on a bundle whose primal
cursor stands on a path to the entry with the least key not smaller than
`key` (equal to `key` under `exact`) and whose sub-cursor is that of `b0`; or
the call returns `MDBX_NOTFOUND`, when every key of the tree is smaller than
`key` or, under `exact`, when no key of the tree equals `key`. -/
def SetReduces (sub_first : sub_call_t) (sub_set : Option Int → sub_call_t)
    (txn : MDBX_txn) (cmp : MDBX_comparer) (P : node_t → Prop) (root : page_t) (h : Nat)
    (key : MDBX_iov) (keyp data : Option MDBX_iov) (op : MDBX_cursor_op) (exact : Bool)
    (b0 : MDBX_cursor) (res : Option gres) : Prop :=
  (∃ (leaf : page_t) (k : Nat) (R : frames_t) (lo hi : Option MDBX_iov) (b1 : MDBX_cursor)
      (rc : Int) (ex : Option Int),
      OnStack b1.primal ((leaf, k) :: R) ∧
      Chain txn cmp P root 0 lo hi ((leaf, k) :: R) ∧ R.length = h ∧
      k < page_numkeys leaf ∧
      IsLeast cmp key (tree_nodes txn h root) (leaf.mp_nodes.getD k default) ∧
      (exact = true → cmp key (NODEKEY (leaf.mp_nodes.getD k default)) = 0) ∧
      b1.subordinate = b0.subordinate ∧ b1.primal.mc_aht = b0.primal.mc_aht ∧
      b1.primal.mc_kind8 = b0.primal.mc_kind8 ∧ ex.isSome = exact ∧ rc = 0 ∧
      res = cursor_set_set1 sub_first sub_set 2 keyp data op txn b1 leaf
              (.node (leaf.mp_nodes.getD k default)) rc ex) ∨
  (∃ r, res = some r ∧ r.rc = MDBX_NOTFOUND ∧ r.txn = txn ∧
      ((∀ x ∈ tree_nodes txn h root, cmp (NODEKEY x) key < 0) ∨
       (exact = true ∧ ∀ x ∈ tree_nodes txn h root, cmp key (NODEKEY x) ≠ 0)))

/-- The bundle after the statement of cursor_set, cursor_first and cursor_last
that clears `C_INITIALIZED` and `C_EOF` of the sub-cursor when there is one. -/
def sub_cleared (b : MDBX_cursor) : MDBX_cursor :=
  if tst b.primal.mc_kind8 S_HAVESUB then
    { b with subordinate := { mx_cursor := { b.subordinate.mx_cursor with
        mc_state8 := clr8 b.subordinate.mx_cursor.mc_state8 (C_INITIALIZED ||| C_EOF) } } }
  else b

/-! ## Duplicates in inline sub-pages -/

/-- The `i`-th duplicate held by the sub-page `fp`, read with the key size
`xs`: the `i`-th packed value of a dense-fixed sub-page, the key of node `i`
otherwise. -/
def dup_at (fp : page_t) (xs : Nat) (i : Nat) : MDBX_iov :=
  if IS_DFL fp then DFLKEY fp i xs else NODEKEY (fp.mp_nodes.getD i default)

/-- The key size that subordinate_setup gives the sub-cursor over the
sub-page `fp` of an AA with the flags `flags16`. -/
def sub_xsize (flags16 : Nat) (fp : page_t) : Nat :=
  if tst flags16 MDBX_DUPFIXED then fp.mp_leaf2_ksize16 else 0

/-- An inline sub-page of duplicates in good shape: a leaf page that holds at
least one duplicate; when it is not dense-fixed it has a node for every
duplicate, and none of its nodes carries duplicates itself. -/
structure SubPageOK (fp : page_t) : Prop where
  is_leaf : IS_LEAF fp = true
  lower : fp.mp_lower < 65536
  nonempty : 0 < page_numkeys fp
  nodes : IS_DFL fp = false → fp.mp_nodes.length = page_numkeys fp
  plain : ∀ n ∈ fp.mp_nodes, F_ISSET n.node_flags8 NODE_DUP = false

/-- A leaf node that carries its duplicates in an inline sub-page. -/
def DupInline (n : node_t) : Prop :=
  F_ISSET n.node_flags8 NODE_DUP = true ∧ tst n.node_flags8 NODE_SUBTREE = false ∧
  SubPageOK (NODEDATA_page n)

/-- A leaf node of a dup-sorted AA: a single value that can be read, or
duplicates in an inline sub-page. -/
def DupSortNode (txn : MDBX_txn) (n : node_t) : Prop := PlainNode txn n ∨ DupInline n

/-- The duplicates of a leaf node with an inline sub-page, in page order. -/
def node_dups (flags16 : Nat) (n : node_t) : List MDBX_iov :=
  (List.range (page_numkeys (NODEDATA_page n))).map
    (dup_at (NODEDATA_page n) (sub_xsize flags16 (NODEDATA_page n)))

/-- The sub-cursor of the bundle is usable: its arrays have `CURSOR_STACK`
entries and it has no sub-cursor of its own. -/
def SubOK (b : MDBX_cursor) : Prop :=
  StackOK b.subordinate.mx_cursor ∧ tst b.subordinate.mx_cursor.mc_kind8 S_HAVESUB = false

/-- The sub-cursor `sub` stands at index `i` of the sub-page `fp`, which it
reads with the key size `xs`. -/
structure SubAt (sub : cursor_t) (fp : page_t) (i xs : Nat) : Prop where
  stack : OnStack sub [(fp, i)]
  nosub : tst sub.mc_kind8 S_HAVESUB = false
  xsize : sub.mc_aht.aa.xsize32 = xs

/-- The bundle stands on a duplicate: the primal cursor, which has a
sub-cursor, is initialized, without `C_EOF` and `C_AFTERDELETE`, on the frames
`(leaf, k) :: R` whose entry carries its duplicates in an inline sub-page; the
sub-cursor is initialized, without `C_EOF` and `C_AFTERDELETE`, at index `i` of
that sub-page, which it reads with the key size `xs`. -/
structure DupCursor (cmp : MDBX_comparer) (b : MDBX_cursor) (leaf : page_t) (k : Nat)
    (R : frames_t) (i xs : Nat) : Prop where
  havesub : tst b.primal.mc_kind8 S_HAVESUB = true
  init : tst b.primal.mc_state8 C_INITIALIZED = true
  eof : tst b.primal.mc_state8 C_EOF = false
  del : tst b.primal.mc_state8 C_AFTERDELETE = false
  stack : OnStack b.primal ((leaf, k) :: R)
  leaf_ok : LeafOK cmp leaf
  index : k < page_numkeys leaf
  dup : DupInline (leaf.mp_nodes.getD k default)
  sub : SubAt b.subordinate.mx_cursor (NODEDATA_page (leaf.mp_nodes.getD k default)) i xs
  sub_init : tst b.subordinate.mx_cursor.mc_state8 C_INITIALIZED = true
  sub_eof : tst b.subordinate.mx_cursor.mc_state8 C_EOF = false
  sub_del : tst b.subordinate.mx_cursor.mc_state8 C_AFTERDELETE = false

/-- The key "k" and the duplicates "a", "b", "c". -/
def k_k : MDBX_iov := [107]
def v_a : MDBX_iov := [97]
def v_b : MDBX_iov := [98]
def v_c : MDBX_iov := [99]

/-- The inline sub-page that holds the duplicates a, b, c. -/
def dup_subpage : subpage_t :=
  { mp_flags16 := P_LEAF ||| P_SUBP, mp_lower := 6,
    mp_nodes := [{ mn_key := v_a }, { mn_key := v_b }, { mn_key := v_c }] }

/-- The leaf entry with key k and the duplicates a, b, c. -/
def dup_node : node_t := { mn_key := k_k, node_flags8 := NODE_DUP, data_page := dup_subpage }

/-- The leaf page 3 that holds the entry `dup_node`, the root of a tree of
height 0 of a dup-sorted AA. -/
def dup_leaf : page_t :=
  { mp_flags16 := P_LEAF, mp_lower := 2, mp_pgno := 3, mp_nodes := [dup_node] }

/-- The page map of the tree whose root is the leaf `dup_leaf`. -/
def dup_pages : pgno_t → page_t
  | 3 => dup_leaf
  | _ => {}

/-- A cursor bundle of a dup-sorted AA over the handle `aht`: the primal
cursor has the given state flags and frames and a sub-cursor, which is not
initialized. -/
def sample_dup_bundle (aht : aht_t) (state : Nat) (frames : List (page_t × indx_t)) :
    MDBX_cursor :=
  { primal := { sample_cursor aht state frames with mc_kind8 := S_HAVESUB },
    subordinate := { mx_cursor := { sample_cursor (sample_aht 0 0) 0 [] with
      mc_kind8 := S_SUBCURSOR } } }

/-- The leaf page 5 that holds the duplicates a, b, c as keys: the root of the
nested sub-tree of the entry `subtree_node`. -/
def subtree_leaf : page_t := sample_leaf 5 [(v_a, []), (v_b, []), (v_c, [])]

/-- The leaf entry with key k whose duplicates are kept in a nested sub-tree:
it is flagged `NODE_DUP` and `NODE_SUBTREE`, and its data is the descriptor of
the sub-tree with root page 5, depth 1 and 3 entries. -/
def subtree_node : node_t :=
  { mn_key := k_k, node_flags8 := NODE_DUP ||| NODE_SUBTREE,
    data_aatree := { depth16 := 1, root := 5, leaf_pages := 1, entries := 3 } }

/-- The leaf page 3 that holds the entry `subtree_node`, the root of a tree of
height 0 of a dup-sorted AA. -/
def subtree_root : page_t :=
  { mp_flags16 := P_LEAF, mp_lower := 2, mp_pgno := 3, mp_nodes := [subtree_node] }

/-- The page map of the tree with root `subtree_root` and the nested sub-tree
`subtree_leaf`. -/
def subtree_pages : pgno_t → page_t
  | 3 => subtree_root
  | 5 => subtree_leaf
  | _ => {}

/-! ## mdbx_cursor_count -/

/-- Result of mdbx_cursor_count: the return code and the value stored through
`count_ptr`, `none` when nothing was stored. -/
structure count_ret where
  rc : Int
  count : Option Nat
  deriving DecidableEq, Repr

/-- Return the count of duplicate data items for the current key.
`count_ptr` tells whether the pointer of the caller is non-null, `SIZE_MAX` is
the largest `size_t`.  The check `validate_cursor4operation_ro` is only called
in the sources at hand, not defined there: it is a parameter. -/
def mdbx_cursor_count (validate_cursor4operation_ro : MDBX_cursor → Int) (SIZE_MAX : Nat)
    (bundle : MDBX_cursor) (count_ptr : Bool) : Option count_ret :=
  if count_ptr = false then some { rc := MDBX_EINVAL, count := none }
  else
    let rc := validate_cursor4operation_ro bundle
    if rc ≠ MDBX_SUCCESS then some { rc := rc, count := none }
    else if bundle.primal.mc_snum = 0 then some { rc := MDBX_NOTFOUND, count := some 0 }
    else do
      -- mp = bundle->primal.mc_pg[bundle->primal.mc_top], read as a pointer
      let mp ← bundle.primal.mc_pg[bundle.primal.mc_top]?
      let past ← if tst bundle.primal.mc_state8 C_EOF then do
                   let ki ← bundle.primal.ki bundle.primal.mc_top
                   let pg ← mp
                   pure (decide (ki ≥ page_numkeys pg))
                 else pure false
      if past then pure { rc := MDBX_NOTFOUND, count := some 0 }
      else if tst bundle.subordinate.mx_cursor.mc_state8 C_INITIALIZED then do
        let ki ← bundle.primal.ki bundle.primal.mc_top
        let pg ← mp
        let leaf ← node_ptr pg ki
        let leaf ← leaf.deref
        if F_ISSET leaf.node_flags8 NODE_DUP then
          pure { rc := MDBX_SUCCESS,
                 count := some (if bundle.subordinate.mx_cursor.mc_aht.aa.entries > SIZE_MAX
                                then SIZE_MAX
                                else bundle.subordinate.mx_cursor.mc_aht.aa.entries) }
        else pure { rc := MDBX_SUCCESS, count := some 1 }
      else pure { rc := MDBX_SUCCESS, count := some 1 }

/-- The inline sub-page of a dup-fixed AA that packs the two-byte duplicates
"aa", "bb", "cc". -/
def fixed_subpage : subpage_t :=
  { mp_leaf2_ksize16 := 2, mp_flags16 := P_LEAF ||| P_DFL ||| P_SUBP, mp_lower := 6,
    mp_data := [97, 97, 98, 98, 99, 99] }

/-- The leaf entry with key k and the duplicates "aa", "bb", "cc". -/
def fixed_node : node_t := { mn_key := k_k, node_flags8 := NODE_DUP, data_page := fixed_subpage }

/-- The leaf page 3 that holds the entry `fixed_node`, the root of a tree of
height 0 of a dup-fixed AA. -/
def fixed_leaf : page_t :=
  { mp_flags16 := P_LEAF, mp_lower := 2, mp_pgno := 3, mp_nodes := [fixed_node] }

/-- The page map of the tree whose root is the leaf `fixed_leaf`. -/
def fixed_pages : pgno_t → page_t
  | 3 => fixed_leaf
  | _ => {}

/-- A cursor bundle of a dup-fixed AA over the handle `aht`, as cursor_init
leaves its kinds: the primal cursor has the given state flags and frames, the
sub-cursor is not initialized. -/
def sample_fixed_bundle (aht : aht_t) (state : Nat) (frames : List (page_t × indx_t)) :
    MDBX_cursor :=
  { primal := { sample_cursor aht state frames with mc_kind8 := S_HAVESUB ||| S_DUPFIXED },
    subordinate := { mx_cursor := { sample_cursor (sample_aht 0 0) 0 [] with
      mc_kind8 := S_SUBCURSOR } } }

/-- Outcome of cursor_set with `MDBX_SET_RANGE` on the sub-cursor over the
inline sub-page `fp`, for the data item `d`: either `MDBX_SUCCESS` with the
sub-cursor at the least index `p` whose duplicate is not smaller than `d`
(equal to `d` when `exact` is set), that duplicate returned as the key; or
`MDBX_NOTFOUND` with the item of the caller untouched, when every duplicate is
smaller than `d`, or `exact` is set and no duplicate equals `d`. -/
def SubSetOutcome (cmp : MDBX_comparer) (fp : page_t) (xs : Nat) (d : MDBX_iov) (exact : Bool)
    (txn : MDBX_txn) (b : MDBX_cursor) (r : gres) : Prop :=
  r.txn = txn ∧ r.bundle.primal = b.primal ∧
  ((∃ p, p < page_numkeys fp ∧ (∀ j, j < p → cmp d (dup_at fp xs j) > 0) ∧
      cmp d (dup_at fp xs p) ≤ 0 ∧ (exact = true → cmp d (dup_at fp xs p) = 0) ∧
      r.rc = MDBX_SUCCESS ∧ r.key = some (dup_at fp xs p) ∧
      SubAt r.bundle.subordinate.mx_cursor fp p xs ∧
      tst r.bundle.subordinate.mx_cursor.mc_state8 C_INITIALIZED = true ∧
      tst r.bundle.subordinate.mx_cursor.mc_state8 C_EOF = false) ∨
   (r.rc = MDBX_NOTFOUND ∧ r.key = some d ∧
      ((∀ j, j < page_numkeys fp → cmp d (dup_at fp xs j) > 0) ∨
       (exact = true ∧ ∀ j, j < page_numkeys fp → cmp d (dup_at fp xs j) ≠ 0))))

/-- The values held under a leaf entry of a dup-sorted AA: the duplicates of
its inline sub-page, or its single value. -/
def node_values (txn : MDBX_txn) (flags16 : Nat) (n : node_t) : List MDBX_iov :=
  if F_ISSET n.node_flags8 NODE_DUP then node_dups flags16 n else [node_data txn n]

/-- A leaf node of a dup-sorted AA whose duplicates are in order: a single
value that can be read, or duplicates in an inline sub-page that are sorted
strictly ascending under the data comparer `dcmp`. -/
def SortedDupNode (txn : MDBX_txn) (dcmp : MDBX_comparer) (flags16 : Nat) (n : node_t) : Prop :=
  PlainNode txn n ∨
  (DupInline n ∧ ∀ i j, i < j → j < page_numkeys (NODEDATA_page n) →
    dcmp (dup_at (NODEDATA_page n) (sub_xsize flags16 (NODEDATA_page n)) i)
      (dup_at (NODEDATA_page n) (sub_xsize flags16 (NODEDATA_page n)) j) < 0)

/-- Outcome of a search for the data item `d` among the values `vals` of an
entry: `MDBX_SUCCESS` with the least value not smaller than `d` (equal to `d`
when `exact` holds) as the data, or `MDBX_NOTFOUND` with the data of the
caller untouched, when every value is smaller than `d`, or `exact` holds and
no value equals `d`. -/
def BothOutcome (dcmp : MDBX_comparer) (vals : List MDBX_iov) (d : MDBX_iov) (exact : Prop)
    (r : gres) : Prop :=
  (r.rc = MDBX_SUCCESS ∧ ∃ v ∈ vals, r.data = some v ∧ dcmp d v ≤ 0 ∧ (exact → dcmp d v = 0) ∧
      ∀ w ∈ vals, dcmp d w ≤ 0 → dcmp v w ≤ 0) ∨
  (r.rc = MDBX_NOTFOUND ∧ r.data = some d ∧
    ((∀ w ∈ vals, dcmp d w > 0) ∨ (exact ∧ ∀ w ∈ vals, dcmp d w ≠ 0)))

/-- The leaf entry with the four-byte key 1 and the duplicates a, b, c. -/
def intk_node : node_t := { mn_key := k_one, node_flags8 := NODE_DUP, data_page := dup_subpage }

/-- The leaf page 3 that holds the entry `intk_node`, the root of a tree of
height 0 of a dup-sorted AA with integer keys. -/
def intk_leaf : page_t :=
  { mp_flags16 := P_LEAF, mp_lower := 2, mp_pgno := 3, mp_nodes := [intk_node] }

/-- The page map of the tree whose root is the leaf `intk_leaf`. -/
def intk_pages : pgno_t → page_t
  | 3 => intk_leaf
  | _ => {}

/-- The inline sub-page of a dup-fixed AA with integer duplicates that packs
the four-byte values 1 and 2. -/
def intd_subpage : subpage_t :=
  { mp_leaf2_ksize16 := 4, mp_flags16 := P_LEAF ||| P_DFL ||| P_SUBP, mp_lower := 4,
    mp_data := [0, 0, 0, 1, 0, 0, 0, 2] }

/-- The leaf entry with key k and the four-byte duplicates 1 and 2. -/
def intd_node : node_t := { mn_key := k_k, node_flags8 := NODE_DUP, data_page := intd_subpage }

/-- The leaf page 3 that holds the entry `intd_node`, the root of a tree of
height 0 of a dup-fixed AA with integer duplicates. -/
def intd_leaf : page_t :=
  { mp_flags16 := P_LEAF, mp_lower := 2, mp_pgno := 3, mp_nodes := [intd_node] }

/-- The page map of the tree whose root is the leaf `intd_leaf`. -/
def intd_pages : pgno_t → page_t
  | 3 => intd_leaf
  | _ => {}

/-! ## Shadowing of cursors across nested transactions

The cursors are objects in memory that the code reaches through pointers
(`mc_next`, `mc_backup`, the cursor lists of the transactions): this part
models them by address. -/

namespace Shadow

/-- The signature of a cursor in use and of a backup (bits.h). -/
def MDBX_MC_SIGNATURE : Nat := 0xFE05D5B1
def MDBX_MC_BACKUP : Nat := 0x82FF6E47

/-- The struct `cursor_`: `mc_aht` and `mc_txn` are the addresses held by the
pointers (`mc_aht` counted in handles, as pointer arithmetic counts), `mc_pg`
the addresses of the pages. -/
structure cursor_t where
  mc_aht : Int := 0
  mc_txn : Nat := 0
  mc_snum : Nat := 0
  mc_top : Nat := 0
  mc_state8 : Nat := 0
  mc_kind8 : Nat := 0
  mc_pg : List (Option Nat) := []
  mc_ki : List Nat := []
  deriving DecidableEq, Repr

/-- The AA handle `aht_t` embedded in a sub-cursor context: the descriptor,
the address `ahe` and the state word. -/
structure aht_t where
  aa : aatree_t := {}
  ahe : Int := 0
  seq16 : Nat := 0
  kind_and_state16 : Nat := 0
  deriving DecidableEq, Repr

/-- The struct `subcursor_`; of the embedded `mx_ahe_body` the fields that
carry no code are kept. -/
structure subcursor_t where
  mx_cursor : cursor_t := {}
  mx_aht_body : aht_t := {}
  mx_ahe_body_flags16 : Nat := 0
  mx_ahe_body_ord16 : Nat := 0
  deriving DecidableEq, Repr

/-- The struct `MDBX_cursor_`; `mc_next` and `mc_backup` hold addresses of
cursor objects (`none` is `nullptr`). -/
structure MDBX_cursor where
  mc_signature : Nat := 0
  mc_next : Option Nat := none
  mc_backup : Option Nat := none
  primal : cursor_t := {}
  subordinate : subcursor_t := {}
  deriving DecidableEq, Repr

/-- The fields of `MDBX_txn` that shadowing uses: the number of handles, the
address of the handle array and the heads of the cursor lists. -/
structure MDBX_txn where
  txn_ah_num : Nat := 0
  txn_aht_array : Int := 0
  mt_cursors : List (Option Nat) := []
  deriving DecidableEq, Repr

/-- The memory that shadowing works on: the cursor objects by address and the
two transactions. -/
structure mem_t where
  obj : Nat → Option MDBX_cursor
  src : MDBX_txn
  dst : MDBX_txn

/-- Stores an object at an address. -/
def mem_t.put (m : mem_t) (a : Nat) (c : Option MDBX_cursor) : mem_t :=
  { m with obj := fun x => if x = a then c else m.obj x }

/-- The inner loop of txn_shadow_cursors over the cursor list `i` of `src`,
from the cursor at `mc` on.  `malloc` gives the address of the new object, if
any, `junk` is what the new memory holds; `dstp` is the pointer `dst`.  The
loop follows `mc_next` pointers: `fuel` bounds its iterations. -/
def txn_shadow_list (malloc : mem_t → Option Nat) (junk : MDBX_cursor) (dstp : Nat)
    (i : Nat) : Nat → Option Nat → mem_t → Option (Int × mem_t)
  | _, none, m => some (MDBX_SUCCESS, m)
  | 0, some _, _ => none
  | fuel + 1, some p, m =>
    match malloc m with
    | none => some (MDBX_ENOMEM, m)
    | some s =>
      match m.obj p, m.dst.mt_cursors[i]? with
      | some mc, some head =>
        -- shadow->primal = mc->primal
        let shadow : MDBX_cursor := { junk with primal := mc.primal }
        let shadow : MDBX_cursor :=
          if tst mc.primal.mc_state8 S_HAVESUB then { shadow with subordinate := mc.subordinate }
          else shadow
        -- fixup aht-pointer to target txn's aht_array
        let primal : cursor_t :=
          { mc.primal with
            mc_aht := mc.primal.mc_aht + (m.dst.txn_aht_array - m.src.txn_aht_array),
            mc_txn := dstp }
        let sub : subcursor_t :=
          { mc.subordinate with mx_cursor := { mc.subordinate.mx_cursor with mc_txn := dstp } }
        let shadow : MDBX_cursor :=
          { shadow with mc_backup := mc.mc_backup, mc_next := mc.mc_next,
                        mc_signature := MDBX_MC_BACKUP }
        let mc2 : MDBX_cursor :=
          { mc with primal := primal, subordinate := sub, mc_backup := some s, mc_next := head }
        let m2 : mem_t := (m.put p (some mc2)).put s (some shadow)
        let m3 : mem_t :=
          { m2 with dst := { m2.dst with mt_cursors := m2.dst.mt_cursors.set i (some p) } }
        txn_shadow_list malloc junk dstp i fuel shadow.mc_next m3
      | _, _ => none

/-- Back up parent txn's cursors, then grab the originals for tracking: the
outer loop, `i` counting down from `txn_ah_num`. -/
def txn_shadow_cursors (malloc : mem_t → Option Nat) (junk : MDBX_cursor) (dstp : Nat)
    (fuel : Nat) : Nat → mem_t → Option (Int × mem_t)
  | 0, m => some (MDBX_SUCCESS, m)
  | i + 1, m =>
    match m.src.mt_cursors[i]? with
    | none => none
    | some head =>
      match txn_shadow_list malloc junk dstp i fuel head m with
      | none => none
      | some (rc, m2) =>
        if rc ≠ MDBX_SUCCESS then some (rc, m2)
        else txn_shadow_cursors malloc junk dstp fuel i m2

/-- The function cursor_unshadow on the cursor at address `p`.  `wired` stands
for the two assertions on the pointers of the sub-cursor to its embedded
bodies. -/
def cursor_unshadow (wired : Nat → MDBX_cursor → Bool) (m : mem_t) (p : Nat) (commit : Nat) :
    Option mem_t :=
  match m.obj p with
  | none => none
  | some mc =>
    match mc.mc_backup with
    | none => none
    | some sp =>
      match m.obj sp with
      | none => none
      | some shadow =>
        let mc1 : MDBX_cursor :=
          if commit ≠ 0 then
            -- Commit changes to parent txn
            { mc with
              primal := { mc.primal with mc_txn := shadow.primal.mc_txn,
                                         mc_aht := shadow.primal.mc_aht },
              subordinate := { mc.subordinate with
                mx_cursor := { mc.subordinate.mx_cursor with mc_txn := shadow.primal.mc_txn } } }
          else
            let mc0 : MDBX_cursor := { mc with primal := shadow.primal }
            -- Rollback nested txn
            if tst mc0.primal.mc_state8 S_HAVESUB then
              { mc0 with subordinate := shadow.subordinate }
            else mc0
        if tst mc1.primal.mc_state8 S_HAVESUB ∧ wired p mc1 = false then none
        else
          let mc2 : MDBX_cursor :=
            { mc1 with mc_backup := shadow.mc_backup, mc_next := shadow.mc_next }
          -- shadow->mc_signature = 0; free(shadow)
          some ((m.put p (some mc2)).put sp none)

/-- The cursor of a dup-sorted AA as cursor_init and a positioning leave it:
the primal cursor on entry 0 of page 7, the sub-cursor on duplicate 1 of the
sub-page at address 8, both owned by the transaction at address 1. -/
def dup_cursor : MDBX_cursor :=
  { mc_signature := MDBX_MC_SIGNATURE,
    primal := { mc_aht := 1000, mc_txn := 1, mc_snum := 1, mc_top := 0,
                mc_state8 := C_INITIALIZED, mc_kind8 := S_HAVESUB,
                mc_pg := [some 7], mc_ki := [0] },
    subordinate := { mx_cursor := { mc_aht := 5000, mc_txn := 1, mc_snum := 1, mc_top := 0,
                                    mc_state8 := C_INITIALIZED, mc_kind8 := S_SUBCURSOR,
                                    mc_pg := [some 8], mc_ki := [1] },
                     mx_aht_body := { aa := { root := 8, entries := 3 }, ahe := 5001 } } }

/-- The parent transaction (at address 1) with the cursor `dup_cursor` at
address 10 tracked on its only AA, and the child transaction (at address 2). -/
def sample_mem : mem_t :=
  { obj := fun a => if a = 10 then some dup_cursor else none,
    src := { txn_ah_num := 1, txn_aht_array := 1000, mt_cursors := [some 10] },
    dst := { txn_ah_num := 1, txn_aht_array := 2000, mt_cursors := [none] } }

/-- An allocator that hands out address 20 while it is free. -/
def sample_malloc (m : mem_t) : Option Nat := if (m.obj 20).isNone then some 20 else none

/-- A change made to the live cursor inside the child transaction: the
sub-cursor moves to duplicate 2. -/
def move_sub (m : mem_t) (p : Nat) : mem_t :=
  match m.obj p with
  | none => m
  | some mc =>
    m.put p (some { mc with subordinate := { mc.subordinate with
      mx_cursor := { mc.subordinate.mx_cursor with mc_ki := [2] } } })

end Shadow

/-! ## page_touch

page_touch replaces pages in memory and redirects the pointers of the cursors:
this part models the pages by address. -/

namespace Cow

/-- A value of type `page_t *` on the write path: the address of a page, or
the address `NODEDATA(node)` of the sub-page held by the node at an index of
the page at an address. -/
inductive page_ref where
  | page (a : Nat)
  | subpage (a : Nat) (i : Nat)
  deriving DecidableEq, Repr

/-- The struct `cursor_` with its pages held by pointer; the handle `mc_aht`
and the transaction `mc_txn` are those of the state the cursor lives in. -/
structure cursor_t where
  mc_snum : Nat := 0
  mc_top : Nat := 0
  mc_state8 : Nat := 0
  mc_kind8 : Nat := 0
  mc_pg : List (Option page_ref) := List.replicate 32 none
  mc_ki : List indx_t := List.replicate 32 0
  deriving DecidableEq, Repr

/-- The struct `MDBX_cursor_`: the primal cursor and the cursor of the
sub-cursor context (`subordinate.mx_cursor`). -/
structure MDBX_cursor where
  primal : cursor_t := {}
  subordinate : cursor_t := {}
  deriving DecidableEq, Repr

/-- An ID/pointer pair `MDBX_ID2` of a dirty list: page number and address. -/
structure MDBX_ID2 where
  mid : pgno_t
  mptr : Nat
  deriving DecidableEq, Repr

/-- The fields of `MDBX_txn` that page_touch works on.  `mt_parent` is the
dirty list of the parent transaction, `none` for `nullptr`. -/
structure MDBX_txn where
  mt_flags : Nat := 0
  mt_parent : Option (List MDBX_ID2) := none
  mt_rw_dirtylist : List MDBX_ID2 := []
  mt_befree_pages : List pgno_t := []
  deriving DecidableEq, Repr

/-- The memory page_touch works on: the page at each address, the
transaction, the root page number of the handle `mc->mc_aht`, the cursor
`*mc`, and the other cursor bundles of the list `*cursor_listhead(...)`, in
list order. -/
structure state_t where
  pages : Nat → page_t
  txn : MDBX_txn
  root : pgno_t
  mc : cursor_t
  tracked : List MDBX_cursor

/-- The page behind a pointer. -/
def deref (pages : Nat → page_t) : page_ref → page_t
  | .page a => pages a
  | .subpage a i => NODEDATA_page ((pages a).mp_nodes.getD i default)

/-- The functions that page_touch calls and that are defined outside the
sources at hand.  page_unspill gives its return code, the page it stored
through `&np` if any, and the transaction and the pages as it leaves them;
mdbx_pnl_need gives its return code; page_alloc gives its return code, the page
stored through `&np`, the transaction and the pages; page_malloc gives the new
page, if any, and the flags `mt_flags` it leaves in the transaction. -/
structure ext_t where
  page_unspill : MDBX_txn → (Nat → page_t) → page_ref →
    Int × Option Nat × MDBX_txn × (Nat → page_t)
  mdbx_pnl_need : List pgno_t → Int
  page_alloc : MDBX_txn → (Nat → page_t) → cursor_t →
    Int × Option Nat × MDBX_txn × (Nat → page_t)
  page_malloc : MDBX_txn → Option Nat × Nat

/-- Modelled from the spec: the bound `2^17 - 1` of a dirty list. -/
def MDBX_PNL_UM_MAX : Nat := 2 ^ 17 - 1

/-- Modelled from the spec: mdbx_mid2l_search is defined outside the sources at
hand.  A dirty list is sorted ascending by page number; the search gives the
1-based position of the first entry whose page number is not smaller than
`id`, or the count plus one when there is none. -/
def mdbx_mid2l_search (dl : List MDBX_ID2) (id : pgno_t) : Nat :=
  dl.findIdx (fun e => decide (id ≤ e.mid)) + 1

/-- Modelled from the spec: mdbx_mid2l_insert is defined outside the sources at
hand.  It puts the pair at its place in the ascending list and returns 0; it
returns -1 when the page number is in the list already and -2 when the list
is full. -/
def mdbx_mid2l_insert (dl : List MDBX_ID2) (id : MDBX_ID2) : Int × List MDBX_ID2 :=
  let x := mdbx_mid2l_search dl id.mid
  if x ≤ dl.length ∧ (dl[x - 1]?).map (fun e => e.mid) = some id.mid then (-1, dl)
  else if dl.length ≥ MDBX_PNL_UM_MAX then (-2, dl)
  else (0, dl.take (x - 1) ++ id :: dl.drop (x - 1))

/-- Modelled from the spec: mdbx_pnl_xappend is defined outside the sources at
hand; it appends the page number to the list. -/
def mdbx_pnl_xappend (pl : List pgno_t) (pgno : pgno_t) : List pgno_t := pl ++ [pgno]

/-- Stores a page at an address. -/
def put_page (pages : Nat → page_t) (a : Nat) (p : page_t) : Nat → page_t :=
  fun x => if x = a then p else pages x

/-- Set the page number in a branch node: the 32 bits that hold the page
number hold the data size of a leaf node. -/
def node_set_pgno (node : node_t) (pgno : pgno_t) : node_t :=
  { node with mn_pgno := pgno, mn_dsize := pgno }

/-- The macro `XCURSOR_REFRESH(mc, top, mp)` of bits.h.  The macro names two
parts of its argument `mc`: the indices `(mc)->mc_ki`, given as `ki`, and the
sub-cursor `(mc)->subordinate.mx_cursor`, given as `sub`; the result is the
sub-cursor after the macro. -/
def XCURSOR_REFRESH (pages : Nat → page_t) (ki : List indx_t) (sub : cursor_t)
    (top : Nat) (np : Nat) : Option cursor_t :=
  -- XCURSOR_INITED(mc)
  if ¬ tst sub.mc_state8 C_INITIALIZED then some sub
  else
    match ki[top]? with
    | none => none
    | some k =>
      if k ≥ page_numkeys (pages np) then some sub
      else
        match (node_ptr (pages np) k).bind node_ref.deref with
        | none => none
        | some node =>
          if node.node_flags8 &&& (NODE_DUP ||| NODE_SUBTREE) = NODE_DUP then
            if 0 < sub.mc_pg.length then
              some { sub with mc_pg := sub.mc_pg.set 0 (some (page_ref.subpage np k)) }
            else none
          else some sub

/-- One iteration of the loop of page_touch over the cursor list ("adjust
cursors pointing to mp"); the bundle of `mc` itself is not among `tracked`.
The statement `XCURSOR_REFRESH(scan, mc->mc_top, np)` does not type-check as
it is written: `scan` is a `cursor_t *` and the macro names
`(scan)->subordinate`, a member of `struct MDBX_cursor_` and not of
`struct cursor_`.  Here the macro gets the indices of `scan` and the
sub-cursor of the bundle when `scan` is the primal cursor, and it is passed
over when `scan` is a sub-cursor. -/
def touch_fixup (pages : Nat → page_t) (mc : cursor_t) (mp : page_ref) (np : Nat)
    (bundle : MDBX_cursor) : Option MDBX_cursor :=
  let issub := tst mc.mc_kind8 S_SUBCURSOR
  let scan := if issub then bundle.subordinate else bundle.primal
  if mc.mc_top ≥ scan.mc_snum then some bundle
  else
    match scan.mc_pg[mc.mc_top]? with
    | none => none
    | some pg =>
      if pg ≠ some mp then some bundle
      else
        let scan := { scan with mc_pg := scan.mc_pg.set mc.mc_top (some (page_ref.page np)) }
        if IS_LEAF (pages np) then
          if issub then some { bundle with subordinate := scan }
          else
            (XCURSOR_REFRESH pages scan.mc_ki bundle.subordinate mc.mc_top np).map
              (fun sub => { bundle with primal := scan, subordinate := sub })
        else if issub then some { bundle with subordinate := scan }
        else some { bundle with primal := scan }

/-- The loop over the cursor list. -/
def touch_fixups (pages : Nat → page_t) (mc : cursor_t) (mp : page_ref) (np : Nat) :
    List MDBX_cursor → Option (List MDBX_cursor)
  | [] => some []
  | b :: rest =>
    match touch_fixup pages mc mp np b, touch_fixups pages mc mp np rest with
    | some b2, some rest2 => some (b2 :: rest2)
    | _, _ => none

/-- The code of page_touch from the label `done`. -/
def touch_done (st : state_t) (mp : page_ref) (np : Nat) : Option (Int × state_t) :=
  if st.mc.mc_top < st.mc.mc_pg.length then
    let mc := { st.mc with mc_pg := st.mc.mc_pg.set st.mc.mc_top (some (page_ref.page np)) }
    match touch_fixups st.pages mc mp np st.tracked with
    | none => none
    | some tracked => some (MDBX_SUCCESS, { st with mc := mc, tracked := tracked })
  else none

/-- The code of page_touch from `page_copy(np, mp, ...)` on; page_copy copies
the page. -/
def touch_copy (st : state_t) (mp : page_ref) (np : Nat) (pgno : pgno_t) :
    Option (Int × state_t) :=
  let copy : page_t :=
    { deref st.pages mp with
      mp_pgno := pgno, mp_flags16 := (deref st.pages mp).mp_flags16 ||| P_DIRTY }
  touch_done { st with pages := put_page st.pages np copy } mp np

/-- The code of page_touch at the label `fail`. -/
def touch_fail (st : state_t) (rc : Int) : Option (Int × state_t) :=
  some (rc, { st with txn := { st.txn with mt_flags := st.txn.mt_flags ||| MDBX_TXN_ERROR } })

/-- The code of page_touch for a page that is not dirty, from the call of
mdbx_pnl_need on: a new page takes the place of the page. -/
def touch_alloc (ext : ext_t) (st : state_t) (mp : page_ref) : Option (Int × state_t) :=
  let rc := ext.mdbx_pnl_need st.txn.mt_befree_pages
  if rc ≠ 0 then touch_fail st rc
  else
    match ext.page_alloc st.txn st.pages st.mc with
    | (rc, np, txn, pages) =>
      let st := { st with txn := txn, pages := pages }
      if rc ≠ 0 then touch_fail st rc
      else
        match np with
        | none => none
        | some np =>
          let pgno := (st.pages np).mp_pgno
          -- assert(mp->mp_pgno != pgno)
          if (deref st.pages mp).mp_pgno = pgno then none
          else
            let st := { st with txn := { st.txn with
              mt_befree_pages :=
                mdbx_pnl_xappend st.txn.mt_befree_pages (deref st.pages mp).mp_pgno } }
            -- Update the parent page, if any, to point to the new page
            if st.mc.mc_top ≠ 0 then
              match st.mc.mc_pg[st.mc.mc_top - 1]?, st.mc.mc_ki[st.mc.mc_top - 1]? with
              | some (some (page_ref.page pa)), some ki =>
                match (node_ptr (st.pages pa) ki).bind node_ref.deref with
                | none => none
                | some node =>
                  let parent : page_t :=
                    { st.pages pa with
                      mp_nodes := (st.pages pa).mp_nodes.set ki (node_set_pgno node pgno) }
                  touch_copy { st with pages := put_page st.pages pa parent } mp np pgno
              | _, _ => none
            else touch_copy { st with root := pgno } mp np pgno

/-- Touch a page: make it dirty and re-insert into tree with updated pgno. -/
def page_touch (ext : ext_t) (st : state_t) : Option (Int × state_t) :=
  match st.mc.mc_pg[st.mc.mc_top]? with
  | some (some mp) =>
    -- assert(!IS_OVERFLOW(mp))
    if IS_OVERFLOW (deref st.pages mp) then none
    else if ¬ F_ISSET (deref st.pages mp).mp_flags16 P_DIRTY then
      if tst st.txn.mt_flags MDBX_TXN_SPILLS then
        match ext.page_unspill st.txn st.pages mp with
        | (rc, np, txn, pages) =>
          let st := { st with txn := txn, pages := pages }
          if rc ≠ MDBX_SUCCESS then touch_fail st rc
          else
            match np with
            | some np => touch_done st mp np
            | none => touch_alloc ext st mp
      else touch_alloc ext st mp
    else if st.txn.mt_parent.isSome ∧ ¬ IS_SUBP (deref st.pages mp) then
      let dl := st.txn.mt_rw_dirtylist
      let pgno := (deref st.pages mp).mp_pgno
      -- If txn has a parent, make sure the page is in our dirty list.
      let x := mdbx_mid2l_search dl pgno
      match (if dl.length ≠ 0 ∧ x ≤ dl.length then dl[x - 1]? else none) with
      | some e =>
        if e.mid = pgno then
          if mp ≠ page_ref.page e.mptr then
            -- bad cursor?
            some (MDBX_PROBLEM,
              { st with
                mc := { st.mc with
                  mc_state8 := clr8 st.mc.mc_state8 (C_INITIALIZED ||| C_EOF) },
                txn := { st.txn with mt_flags := st.txn.mt_flags ||| MDBX_TXN_ERROR } })
          else some (MDBX_SUCCESS, st)
        else touch_clone ext st mp dl pgno
      | none => touch_clone ext st mp dl pgno
    else some (MDBX_SUCCESS, st)
  | _ => none
where
  /-- The code of page_touch that copies a page of a parent transaction. -/
  touch_clone (ext : ext_t) (st : state_t) (mp : page_ref) (dl : List MDBX_ID2)
      (pgno : pgno_t) : Option (Int × state_t) :=
    -- assert(dl[0].mid < MDBX_PNL_UM_MAX)
    if ¬ dl.length < MDBX_PNL_UM_MAX then none
    else
      match ext.page_malloc st.txn with
      | (none, fl) => some (MDBX_ENOMEM, { st with txn := { st.txn with mt_flags := fl } })
      | (some np, fl) =>
        match mdbx_mid2l_insert dl { mid := pgno, mptr := np } with
        | (rc, dl2) =>
          -- assert(rc == 0)
          if rc ≠ 0 then none
          else
            touch_copy
              { st with txn := { st.txn with mt_flags := fl, mt_rw_dirtylist := dl2 } }
              mp np pgno

end Cow

namespace Cow

/-- The dirty list of the transaction maps the page number to the page at the
address: the search finds the pair. -/
def Registered (txn : MDBX_txn) (pgno : pgno_t) (a : Nat) : Prop :=
  mdbx_mid2l_search txn.mt_rw_dirtylist pgno ≤ txn.mt_rw_dirtylist.length ∧
  txn.mt_rw_dirtylist[mdbx_mid2l_search txn.mt_rw_dirtylist pgno - 1]? =
    some { mid := pgno, mptr := a }

/-- The page behind the pointer is dirty in the transaction already: it has the
flag `P_DIRTY`, and the transaction has no parent, or the page is a sub-page,
or the dirty list of the transaction maps the page number to this very page. -/
def DirtyHere (pages : Nat → page_t) (txn : MDBX_txn) (mp : page_ref) : Prop :=
  F_ISSET (deref pages mp).mp_flags16 P_DIRTY = true ∧
  (txn.mt_parent = none ∨ IS_SUBP (deref pages mp) = true ∨
    match mp with
    | .page a => Registered txn (deref pages mp).mp_pgno a
    | .subpage _ _ => False)

/-- The search in the dirty list does not find the page number. -/
def Unlisted (dl : List MDBX_ID2) (pgno : pgno_t) : Prop :=
  ∀ e, dl[mdbx_mid2l_search dl pgno - 1]? = some e →
    mdbx_mid2l_search dl pgno ≤ dl.length → e.mid ≠ pgno

/-- What page_touch expects of page_alloc: it writes the new page only, and in
a nested transaction the page it gives is in the dirty list of the
transaction. -/
def AllocOK (ext : ext_t) : Prop :=
  ∀ txn pages mc np txn2 pages2,
    ext.page_alloc txn pages mc = (MDBX_SUCCESS, some np, txn2, pages2) →
    (∀ a, a ≠ np → pages2 a = pages a) ∧
    (txn2.mt_parent = none ∨ Registered txn2 (pages2 np).mp_pgno np)

/-- What page_touch expects of page_unspill: the page it brings back is a
dirty page of the transaction, and it leaves the pages alone when it brings
none back. -/
def UnspillOK (ext : ext_t) : Prop :=
  ∀ txn pages mp txn2 pages2,
    (∀ np, ext.page_unspill txn pages mp = (MDBX_SUCCESS, some np, txn2, pages2) →
      IS_OVERFLOW (pages2 np) = false ∧ DirtyHere pages2 txn2 (page_ref.page np)) ∧
    (ext.page_unspill txn pages mp = (MDBX_SUCCESS, none, txn2, pages2) → pages2 = pages)

/-- What page_touch expects of page_malloc: it sets `MDBX_TXN_ERROR` when it
gives no page. -/
def MallocOK (ext : ext_t) : Prop :=
  ∀ txn, (ext.page_malloc txn).1 = none →
    tst (ext.page_malloc txn).2 MDBX_TXN_ERROR = true

/-- The cursor with its top frame set to the page at an address:
`mc->mc_pg[mc->mc_top] = np`. -/
def retarget (mc : cursor_t) (np : Nat) : cursor_t :=
  { mc with mc_pg := mc.mc_pg.set mc.mc_top (some (page_ref.page np)) }

/-- The copy that page_touch makes of a page: the page with a page number and
the flag `P_DIRTY`. -/
def dirty_copy (p : page_t) (pgno : pgno_t) : page_t :=
  { p with mp_pgno := pgno, mp_flags16 := p.mp_flags16 ||| P_DIRTY }

/-- A dirty list is sorted ascending by page number. -/
def SortedDL (dl : List MDBX_ID2) : Prop := dl.Pairwise (fun a b => a.mid < b.mid)

end Cow

namespace Cow

/-! ### Sample memory for page_touch -/

/-- The leaf page 5 that holds alpha -> 1 and the entry beta with the
duplicates a, b, c in a sub-page. -/
def cow_leaf : page_t :=
  { mp_flags16 := P_LEAF, mp_lower := 4, mp_pgno := 5,
    mp_nodes := [{ mn_key := k_alpha, mn_data := v_1, mn_dsize := 1 },
                 { dup_node with mn_key := k_beta }] }

/-- The pages of a tree of height 1: at address 1 the branch page 4 over the
leaf 5 at address 2 and the leaf 6 at address 3. -/
def cow_pages : Nat → page_t
  | 1 => two_root
  | 2 => cow_leaf
  | 3 => two_right
  | _ => {}

/-- A cursor at the entry beta of the leaf 5. -/
def cow_cursor : cursor_t :=
  { mc_snum := 2, mc_top := 1, mc_state8 := C_INITIALIZED,
    mc_pg := [some (page_ref.page 1), some (page_ref.page 2)] ++ List.replicate 30 none,
    mc_ki := [0, 1] ++ List.replicate 30 0 }

/-- Another cursor at the entry beta of the leaf 5; its sub-cursor is at the
first duplicate. -/
def cow_follower : MDBX_cursor :=
  { primal := cow_cursor,
    subordinate :=
      { mc_snum := 1, mc_top := 0, mc_state8 := C_INITIALIZED, mc_kind8 := S_SUBCURSOR,
        mc_pg := [some (page_ref.subpage 2 1)] ++ List.replicate 31 none } }

/-- A cursor at the entry gamma of the leaf 6. -/
def cow_bystander : MDBX_cursor :=
  { primal :=
      { mc_snum := 2, mc_top := 1, mc_state8 := C_INITIALIZED,
        mc_pg := [some (page_ref.page 1), some (page_ref.page 3)] ++ List.replicate 30 none,
        mc_ki := [1, 0] ++ List.replicate 30 0 } }

/-- Sample helpers: nothing is spilled, the lists can grow, page_alloc gives
the page 7 at address 9 and enters it into the dirty list, page_malloc gives
the address 8. -/
def cow_ext : ext_t :=
  { page_unspill := fun txn pages _ => (MDBX_SUCCESS, none, txn, pages),
    mdbx_pnl_need := fun _ => 0,
    page_alloc := fun txn pages _ =>
      match mdbx_mid2l_insert txn.mt_rw_dirtylist { mid := 7, mptr := 9 } with
      | (0, dl2) =>
        (MDBX_SUCCESS, some 9, { txn with mt_rw_dirtylist := dl2 },
          put_page pages 9 { mp_pgno := 7, mp_flags16 := P_DIRTY })
      | _ => (MDBX_ENOMEM, none, txn, pages),
    page_malloc := fun txn => (some 8, txn.mt_flags) }

/-- Sample helpers whose page_malloc has no memory. -/
def nomem_ext : ext_t :=
  { cow_ext with page_malloc := fun txn => (none, txn.mt_flags ||| MDBX_TXN_ERROR) }

/-- A write transaction without parent, with no dirty page; the cursor
`cow_cursor` is to touch the leaf 5. -/
def cow_state : state_t :=
  { pages := cow_pages, txn := {}, root := 4, mc := cow_cursor,
    tracked := [cow_follower, cow_bystander] }

/-- The pages of `cow_pages`, dirty. -/
def nested_pages : Nat → page_t := fun a =>
  { cow_pages a with mp_flags16 := (cow_pages a).mp_flags16 ||| P_DIRTY }

/-- A nested write transaction: the leaf 5 is a dirty page of the parent, the
pages 4 and 6 are in the dirty list of the transaction itself. -/
def nested_state : state_t :=
  { pages := nested_pages,
    txn := { mt_parent := some [{ mid := 5, mptr := 2 }],
             mt_rw_dirtylist := [{ mid := 4, mptr := 1 }, { mid := 6, mptr := 3 }] },
    root := 4, mc := cow_cursor, tracked := [cow_follower, cow_bystander] }

end Cow

namespace Cow

/-- The state `nested_state` with the cursor at the root page 4, which is in
the dirty list of the transaction. -/
def nested_root : state_t :=
  { nested_state with mc := { cow_cursor with mc_snum := 1, mc_top := 0 } }

end Cow

/-! ## update_key, node_del, node_shrink

These functions move the bytes of the nodes inside a page: this part models
the page by its bytes. -/

namespace Layout

/-- Size of the page header, `offsetof(page_t, mp_data)`: the struct is packed
and holds 8 bytes of checksum, `mp_leaf2_ksize16` at 8, `mp_flags16` at 10,
`mp_lower` at 12, `mp_upper` at 14 and `mp_pgno` at 16. -/
def PAGEHDRSZ : Nat := 20

/-- Size of the node header, `offsetof(node_t, mn_data)`: `mn_dsize` (or the
page number) at 0, `mn_salt8` at 4, `node_flags8` at 5, `mn_ksize16` at 6. -/
def NODESIZE : Nat := 8

/-- The macro `EVEN(n)`, `((n) + 1U) & -2`. -/
def EVEN (n : Nat) : Nat := (n + 1) - (n + 1) % 2

/-- A page in memory.  The fields of the header and the array `mp_ptrs` are
held as typed values; `mem o` is the byte at `(char *)mp + PAGEHDRSZ + o`, the
address that `mp->mp_upper`, `mp->mp_ptrs[i]` and `DFLKEY` count from.  The
array `mp_ptrs` lies in the bytes `[0, mp_lower)`, which `mem` does not stand
for on a page that has the array. -/
structure page_t where
  mp_leaf2_ksize16 : Nat := 0
  mp_flags16 : Nat := 0
  mp_lower : Nat := 0
  mp_upper : Nat := 0
  mp_pgno : Nat := 0
  mp_ptrs : Nat → Nat := fun _ => 0
  mem : Nat → Nat := fun _ => 0

/-- A 16-bit value in memory, little-endian. -/
def get_le16 (m : Nat → Nat) (o : Nat) : Nat := m o + 256 * m (o + 1)

/-- A 32-bit value in memory, little-endian. -/
def get_le32 (m : Nat → Nat) (o : Nat) : Nat :=
  m o + 256 * m (o + 1) + 65536 * m (o + 2) + 16777216 * m (o + 3)

/-- Store a 16-bit value. -/
def set_le16 (m : Nat → Nat) (o v : Nat) : Nat → Nat := fun x =>
  if x = o then v % 256 else if x = o + 1 then v / 256 % 256 else m x

/-- Store a 32-bit value. -/
def set_le32 (m : Nat → Nat) (o v : Nat) : Nat → Nat := fun x =>
  if x = o then v % 256 else if x = o + 1 then v / 256 % 256
  else if x = o + 2 then v / 65536 % 256 else if x = o + 3 then v / 16777216 % 256 else m x

/-- The library function memmove: `len` bytes from `src` to `dst`; the areas
may overlap. -/
def memmove (m : Nat → Nat) (dst src len : Nat) : Nat → Nat := fun x =>
  if dst ≤ x ∧ x < dst + len then m (x - dst + src) else m x

/-- The library function memcpy from a buffer outside the page. -/
def memcpy (m : Nat → Nat) (dst : Nat) (bytes : List Nat) : Nat → Nat := fun x =>
  if dst ≤ x ∧ x < dst + bytes.length then bytes.getD (x - dst) 0 else m x

/-- Store into the array `mp_ptrs`. -/
def set_ptr (ptrs : Nat → Nat) (i v : Nat) : Nat → Nat := fun x => if x = i then v else ptrs x

def page_numkeys (page : page_t) : Nat := page.mp_lower >>> 1

/-- The amount of space remaining in the page; `none` when
`assert(diff >= 0 && diff <= UINT16_MAX)` fails. -/
def page_spaceleft (page : page_t) : Option Nat :=
  if page.mp_lower ≤ page.mp_upper ∧ page.mp_upper - page.mp_lower ≤ 65535 then
    some (page.mp_upper - page.mp_lower)
  else none

def IS_LEAF (p : page_t) : Bool := F_ISSET p.mp_flags16 P_LEAF
def IS_DFL (p : page_t) : Bool := F_ISSET p.mp_flags16 P_DFL

/-- Address of node `i` in page `p`, counted from `PAGEHDRSZ`; `none` when
`assert(page_numkeys(p) > i)` fails, and for a node inside the bytes of the
array `mp_ptrs`, which the model keeps apart. -/
def node_ptr (p : page_t) (i : Nat) : Option Nat :=
  if page_numkeys p > i ∧ p.mp_lower ≤ p.mp_ptrs i then some (p.mp_ptrs i) else none

/-- The field `mn_ksize16` of the node at an address. -/
def mn_ksize16 (m : Nat → Nat) (node : Nat) : Nat := get_le16 m (node + 6)

/-- The field `node_flags8` of the node at an address. -/
def node_flags8 (m : Nat → Nat) (node : Nat) : Nat := m (node + 5)

def node_get_pgno (m : Nat → Nat) (node : Nat) : Nat := get_le32 m node
def node_get_datasize (m : Nat → Nat) (node : Nat) : Nat := get_le32 m node

/-- The macro `NODEKEY(node)`. -/
def NODEKEY (node : Nat) : Nat := node + NODESIZE

/-- The macro `NODEDATA(node)`. -/
def NODEDATA (m : Nat → Nat) (node : Nat) : Nat := node + NODESIZE + mn_ksize16 m node

/-- The loop of node_del over the array `mp_ptrs`, from `i` on with `fuel`
entries to go: the entries but `indx` move down to `j`, and those of the nodes
below the deleted one grow by `sz`. -/
def node_del_loop (indx ptr sz : Nat) : Nat → Nat → Nat → (Nat → Nat) → Option (Nat → Nat)
  | 0, _, _, ptrs => some ptrs
  | fuel + 1, i, j, ptrs =>
    if i ≠ indx then
      let ptrs1 := set_ptr ptrs j (ptrs i)
      if ptrs1 i < ptr then
        -- assert((size_t)UINT16_MAX - mp->mp_ptrs[j] >= sz)
        if 65535 - ptrs1 j ≥ sz then
          node_del_loop indx ptr sz fuel (i + 1) (j + 1)
            (set_ptr ptrs1 j ((ptrs1 j + sz % 65536) % 65536))
        else none
      else node_del_loop indx ptr sz fuel (i + 1) (j + 1) ptrs1
    else node_del_loop indx ptr sz fuel (i + 1) j ptrs

/-- Delete the node at the index `indx = mc->mc_ki[mc->mc_top]` of the page
`mp = mc->mc_pg[mc->mc_top]`.  `none` stands for a failed assertion and for a
copy of a negative size or into the array `mp_ptrs`. -/
def node_del (mp : page_t) (indx : Nat) (keysize : Nat) : Option page_t :=
  let numkeys := page_numkeys mp
  if ¬ indx < numkeys then none
  else if IS_DFL mp then
    if ¬ keysize ≥ 2 then none
    else
      let diff := numkeys - 1 - indx
      let base := indx * keysize
      let mem1 := if diff ≠ 0 then memmove mp.mem base (base + keysize) (diff * keysize)
                  else mp.mem
      if ¬ mp.mp_lower ≥ 2 then none
      else if ¬ 65535 - mp.mp_upper ≥ keysize - 2 then none
      else
        some { mp with mem := mem1, mp_lower := mp.mp_lower - 2,
                       mp_upper := (mp.mp_upper + (keysize - 2) % 65536) % 65536 }
  else
    match node_ptr mp indx with
    | none => none
    | some node =>
      let sz := NODESIZE + mn_ksize16 mp.mem node
      let sz :=
        if IS_LEAF mp then
          if node_flags8 mp.mem node &&& NODE_BIG ≠ 0 then sz + 4
          else sz + node_get_datasize mp.mem node
        else sz
      let sz := EVEN sz
      let ptr := mp.mp_ptrs indx
      match node_del_loop indx ptr sz numkeys 0 0 mp.mp_ptrs with
      | none => none
      | some ptrs =>
        if ptr < mp.mp_upper ∨ mp.mp_upper + sz < mp.mp_lower then none
        else
          let mem1 := memmove mp.mem (mp.mp_upper + sz) mp.mp_upper (ptr - mp.mp_upper)
          if ¬ mp.mp_lower ≥ 2 then none
          else if ¬ 65535 - mp.mp_upper ≥ sz then none
          else
            some { mp with mp_ptrs := ptrs, mem := mem1, mp_lower := mp.mp_lower - 2,
                           mp_upper := (mp.mp_upper + sz % 65536) % 65536 }

/-- The loop of update_key over the array `mp_ptrs`, from `i` on with `fuel`
entries to go. -/
def update_key_loop (ptr : Nat) (delta : Int) : Nat → Nat → (Nat → Nat) → Option (Nat → Nat)
  | 0, _, ptrs => some ptrs
  | fuel + 1, i, ptrs =>
    if ptrs i ≤ ptr then
      -- assert(mp->mp_ptrs[i] >= delta)
      if (ptrs i : Int) ≥ delta then
        update_key_loop ptr delta fuel (i + 1)
          (set_ptr ptrs i (((ptrs i : Int) - delta) % 65536).toNat)
      else none
    else update_key_loop ptr delta fuel (i + 1) ptrs

/-- The type of page_split as update_key calls it, with the page and the index
of the cursor, the key and the page number; the function is defined outside
the sources at hand. -/
abbrev page_split_t := page_t → Nat → List Nat → Nat → Option (Int × page_t)

/-- Replace the key for a branch node with a new key, at the index
`indx = mc->mc_ki[mc->mc_top]` of the page `mp = mc->mc_pg[mc->mc_top]`.
`none` stands for a failed assertion and for a copy of a negative size, to a
negative address or into the array `mp_ptrs`. -/
def update_key (page_split : page_split_t) (mp : page_t) (indx : Nat) (key : List Nat) :
    Option (Int × page_t) :=
  match node_ptr mp indx with
  | none => none
  | some node =>
    let ptr := mp.mp_ptrs indx
    -- Sizes must be 2-byte aligned.
    let keysize : Int := EVEN key.length
    let oksize : Int := EVEN (mn_ksize16 mp.mem node)
    let delta := keysize - oksize
    let finish (mp : page_t) (node : Nat) : Option (Int × page_t) :=
      -- But even if no shift was needed, update keysize
      let mem1 :=
        if mn_ksize16 mp.mem node ≠ key.length then
          set_le16 mp.mem (node + 6) (key.length % 65536)
        else mp.mem
      let mem2 := if key.length ≠ 0 then memcpy mem1 (NODEKEY node) key else mem1
      some (MDBX_SUCCESS, { mp with mem := mem2 })
    -- Shift node contents if EVEN(key length) changed.
    if delta ≠ 0 then
      match (if delta > 0 then page_spaceleft mp else some 0) with
      | none => none
      | some spaceleft =>
        if delta > 0 ∧ (spaceleft : Int) < delta then
          -- not enough space left, do a delete and split
          let pgno := node_get_pgno mp.mem node
          match node_del mp indx 0 with
          | none => none
          | some mp1 => page_split mp1 indx key pgno
        else
          match update_key_loop ptr delta (page_numkeys mp) 0 mp.mp_ptrs with
          | none => none
          | some ptrs =>
            -- memmove(base - delta, base, len)
            if (mp.mp_upper : Int) - delta < mp.mp_lower ∨ ptr + NODESIZE < mp.mp_upper then none
            else
              let mem1 := memmove mp.mem ((mp.mp_upper : Int) - delta).toNat mp.mp_upper
                (ptr + NODESIZE - mp.mp_upper)
              -- assert(mp->mp_upper >= delta)
              if ¬ (mp.mp_upper : Int) ≥ delta then none
              else
                let mp1 : page_t :=
                  { mp with mp_ptrs := ptrs, mem := mem1,
                            mp_upper := (((mp.mp_upper : Int) - delta) % 65536).toNat }
                match node_ptr mp1 indx with
                | none => none
                | some node1 => finish mp1 node1
    else finish mp node

/-- The first loop of node_shrink, from `i` down with `i + 1` entries to go:
the entries of `mp_ptrs` of the sub-page at `sp` are stored, less `delta`, in
the sub-page at `xp`. -/
def node_shrink_subloop (sp xp delta : Nat) : Nat → (Nat → Nat) → Option (Nat → Nat)
  | 0, m => some m
  | i + 1, m =>
    -- assert(sp->mp_ptrs[i] >= delta)
    if get_le16 m (sp + PAGEHDRSZ + 2 * i) ≥ delta then
      node_shrink_subloop sp xp delta i
        (set_le16 m (xp + PAGEHDRSZ + 2 * i) (get_le16 m (sp + PAGEHDRSZ + 2 * i) - delta))
    else none

/-- The second loop of node_shrink, from `i` down with `i + 1` entries to go. -/
def node_shrink_loop (ptr delta : Nat) : Nat → (Nat → Nat) → Option (Nat → Nat)
  | 0, ptrs => some ptrs
  | i + 1, ptrs =>
    if ptrs i ≤ ptr then
      -- assert((size_t)UINT16_MAX - mp->mp_ptrs[i] >= delta)
      if 65535 - ptrs i ≥ delta then
        node_shrink_loop ptr delta i (set_ptr ptrs i ((ptrs i + delta % 65536) % 65536))
      else none
    else node_shrink_loop ptr delta i ptrs

/-- Compact the main page after deleting a node on a subpage.  The sub-page is
read in the bytes of the main page, at `NODEDATA(node)`: its `mp_flags16` at
10, `mp_lower` at 12, `mp_upper` at 14, `mp_pgno` at 16, `mp_ptrs` from
`PAGEHDRSZ` on.  `none` stands for a failed assertion and for a copy of a
negative size or into the array `mp_ptrs`. -/
def node_shrink (mp : page_t) (indx : Nat) : Option page_t :=
  match node_ptr mp indx with
  | none => none
  | some node =>
    let sp := NODEDATA mp.mem node
    let sp_lower := get_le16 mp.mem (sp + 12)
    let sp_upper := get_le16 mp.mem (sp + 14)
    -- delta = page_spaceleft(sp)
    if ¬ sp_lower ≤ sp_upper then none
    else
      let delta := sp_upper - sp_lower
      let nsize := (node_get_datasize mp.mem node + (2 ^ 64 - delta)) % 2 ^ 64
      let isdfl := F_ISSET (get_le16 mp.mem (sp + 10)) P_DFL
      if isdfl ∧ nsize % 2 = 1 then
        -- do not make the node uneven-sized
        some mp
      else
        let sub :=
          if isdfl then some (mp.mem, nsize)
          else
            (node_shrink_subloop sp (sp + delta) delta (get_le16 mp.mem (sp + 12) >>> 1)
              mp.mem).map (fun m => (m, PAGEHDRSZ))
        match sub with
        | none => none
        | some (mem1, len) =>
          -- sp->mp_upper = sp->mp_lower
          let mem2 := set_le16 mem1 (sp + 14) (get_le16 mem1 (sp + 12))
          -- sp->mp_pgno = mp->mp_pgno
          let mem3 := set_le32 mem2 (sp + 16) mp.mp_pgno
          -- node_set_datasize(node, nsize)
          if ¬ nsize < 2147483647 then none
          else
            let mem4 := set_le32 mem3 node nsize
            -- Shift <lower nodes...initial part of subpage> upward
            if sp + len < mp.mp_upper ∨ mp.mp_upper + delta < mp.mp_lower then none
            else
              let mem5 := memmove mem4 (mp.mp_upper + delta) mp.mp_upper
                (sp + len - mp.mp_upper)
              let ptr := mp.mp_ptrs indx
              match node_shrink_loop ptr delta (page_numkeys mp) mp.mp_ptrs with
              | none => none
              | some ptrs =>
                -- assert((size_t)UINT16_MAX - mp->mp_upper >= delta)
                if ¬ 65535 - mp.mp_upper ≥ delta then none
                else
                  some { mp with mp_ptrs := ptrs, mem := mem5,
                                 mp_upper := (mp.mp_upper + delta % 65536) % 65536 }

end Layout

namespace Layout

/-- The entry of `mp_ptrs` that node_del moves to the index `x` when it deletes
the index `indx`. -/
def del_src (indx x : Nat) : Nat := if x < indx then x else x + 1

/-- The offset of a node after node_del has deleted the node at `ptr` of the
size `sz`: the nodes below it move up. -/
def del_shift (ptr sz v : Nat) : Nat := if v < ptr then v + sz else v

end Layout

namespace Layout

/-- The size of the node at an address of the page, as node_del finds it: the
header, the key and, on a leaf page, the data or the number of the overflow
page, rounded up to an even size. -/
def node_size (mp : page_t) (node : Nat) : Nat :=
  EVEN
    (if IS_LEAF mp then
      if node_flags8 mp.mem node &&& NODE_BIG ≠ 0 then NODESIZE + mn_ksize16 mp.mem node + 4
      else NODESIZE + mn_ksize16 mp.mem node + node_get_datasize mp.mem node
    else NODESIZE + mn_ksize16 mp.mem node)

/-- A well-formed page whose bytes from `PAGEHDRSZ` on end at `L` (the page
size less `PAGEHDRSZ`): `mp_lower` is even and `mp_lower ≤ mp_upper ≤ L`; the
bytes are bytes; on a page with nodes every node lies within `[mp_upper, L)`
and no two nodes overlap; on a dense-fixed page (`P_DFL`) each key has taken
`mp_leaf2_ksize16 - 2` bytes from `mp_upper`. -/
structure WF (L : Nat) (mp : page_t) : Prop where
  limit : L ≤ 65535
  bytes : ∀ o, mp.mem o < 256
  lower_even : mp.mp_lower % 2 = 0
  lower_le : mp.mp_lower ≤ mp.mp_upper
  upper_le : mp.mp_upper ≤ L
  inside : IS_DFL mp = false → ∀ i, i < page_numkeys mp →
    mp.mp_upper ≤ mp.mp_ptrs i ∧ mp.mp_ptrs i + node_size mp (mp.mp_ptrs i) ≤ L
  apart : IS_DFL mp = false → ∀ i j, i < page_numkeys mp → j < page_numkeys mp → i ≠ j →
    mp.mp_ptrs i + node_size mp (mp.mp_ptrs i) ≤ mp.mp_ptrs j ∨
    mp.mp_ptrs j + node_size mp (mp.mp_ptrs j) ≤ mp.mp_ptrs i
  packed : IS_DFL mp = true → 2 ≤ mp.mp_leaf2_ksize16 ∧
    mp.mp_upper + page_numkeys mp * (mp.mp_leaf2_ksize16 - 2) ≤ L

/-- The bytes of the page after update_key has stored the length and the bytes
of the key in the node at an address. -/
def key_mem (m : Nat → Nat) (node : Nat) (key : List Nat) : Nat → Nat :=
  memcpy (set_le16 m (node + 6) (key.length % 65536)) (NODEKEY node) key

/-- The change of the even-rounded length of the key at an index. -/
def key_delta (mp : page_t) (indx : Nat) (key : List Nat) : Int :=
  (EVEN key.length : Int) - (EVEN (mn_ksize16 mp.mem (mp.mp_ptrs indx)) : Int)

end Layout

namespace Layout

/-- The address `NODEDATA(node)` of the sub-page in the node at an index. -/
def subpage_at (mp : page_t) (indx : Nat) : Nat := NODEDATA mp.mem (mp.mp_ptrs indx)

/-- The field `mp_flags16` of the sub-page in the node at an index. -/
def sub_flags (mp : page_t) (indx : Nat) : Nat := get_le16 mp.mem (subpage_at mp indx + 10)

/-- The field `mp_lower` of the sub-page in the node at an index. -/
def sub_lower (mp : page_t) (indx : Nat) : Nat := get_le16 mp.mem (subpage_at mp indx + 12)

/-- The field `mp_upper` of the sub-page in the node at an index. -/
def sub_upper (mp : page_t) (indx : Nat) : Nat := get_le16 mp.mem (subpage_at mp indx + 14)

/-- The node at an index of a leaf page holds a well-formed sub-page: the
data of the node are the sub-page, with `mp_lower ≤ mp_upper` and `mp_upper`
within the data, and on a sub-page with nodes no node offset is below
`mp_upper`. -/
structure SubWF (mp : page_t) (indx : Nat) : Prop where
  leaf : IS_LEAF mp = true
  plain : node_flags8 mp.mem (mp.mp_ptrs indx) &&& NODE_BIG = 0
  lower_le : sub_lower mp indx ≤ sub_upper mp indx
  upper_le : PAGEHDRSZ + sub_upper mp indx ≤ node_get_datasize mp.mem (mp.mp_ptrs indx)
  inside : F_ISSET (sub_flags mp indx) P_DFL = false → ∀ i, i < sub_lower mp indx >>> 1 →
    sub_upper mp indx ≤ get_le16 mp.mem (subpage_at mp indx + PAGEHDRSZ + 2 * i)

end Layout

namespace Layout

/-- The key of the node at an address. -/
def node_key (m : Nat → Nat) (node : Nat) : List Nat :=
  (List.range (mn_ksize16 m node)).map (fun j => m (NODEKEY node + j))

/-- The number of bytes that the node at an address of a leaf page holds after
its key: the number of an overflow page or the data. -/
def node_datalen (m : Nat → Nat) (node : Nat) : Nat :=
  if node_flags8 m node &&& NODE_BIG ≠ 0 then 4 else node_get_datasize m node

/-- The bytes that the node at an address of a leaf page holds after its key. -/
def node_data (m : Nat → Nat) (node : Nat) : List Nat :=
  (List.range (node_datalen m node)).map (fun j => m (NODEDATA m node + j))

/-- The 64 bytes of the sample page `shelf` after the page header.  The node of
index 0 is at 6: the key "a" and a sub-page of 36 bytes, which has 4 bytes of
free space and one node with the key "v".  The node of index 1 is at 52: the
key "bb" and the data "x". -/
def shelf_bytes : List Nat :=
   [6, 0, 52, 0, 0, 0, 36, 0, 0, 0, 0, 4, 1, 0, 97, 0, 0, 0, 0, 0, 0, 0, 0, 0, 0, 34, 1, 2,
    0, 6, 0, 0, 0, 0, 0, 6, 0, 0, 0, 0, 0, 0, 0, 0, 0, 0, 0, 1, 0, 118, 0, 0, 1, 0, 0, 0, 0,
    0, 2, 0, 98, 98, 120, 0]

/-- A leaf page of 84 bytes with two nodes and 2 bytes of free space. -/
def shelf : page_t :=
  { mp_flags16 := P_LEAF ||| P_DIRTY, mp_lower := 4, mp_upper := 6, mp_pgno := 9,
    mp_ptrs := fun i => [6, 52].getD i 0,
    mem := fun o => shelf_bytes.getD o 0 }

/-- A page_split that is never reached. -/
def no_split : page_split_t := fun _ _ _ _ => none

end Layout

namespace Layout

/-- A page whose two node offsets, 36 and 40, lie below `mp_upper = 42` and not
below `PAGEHDRSZ`; the node at 36 has an empty key. -/
def low_page : page_t :=
  { mp_flags16 := P_BRANCH, mp_lower := 4, mp_upper := 42,
    mp_ptrs := fun i => [36, 40].getD i 0 }

end Layout

namespace Layout

/-- Modelled from the spec: bytes2pgno is defined outside the sources at hand;
it is taken as the division of a byte count by the page size `psize` of the
databook. -/
def bytes2pgno (psize bytes : Nat) : Nat := bytes / psize

/-- The number of overflow pages needed to store a value of `size` bytes,
`OVPAGES(bk, size)`, over a databook with pages of `psize` bytes; the sum
`PAGEHDRSZ - 1 + size` is computed in `size_t`. -/
def OVPAGES (psize size : Nat) : Nat :=
  bytes2pgno psize ((PAGEHDRSZ - 1 + size) % 2 ^ 64) + 1

end Layout

/-- The transaction with the lists `t` owns the page `pgno`: its spill list
holds the key of the page or its dirty list holds the page number. -/
def owns_page (t : txn_lists) (pgno : pgno_t) : Bool :=
  (t.mt_spill_pages.getD []).contains (spill_key pgno) ||
    (t.mt_rw_dirtylist.find? (fun e => e.mid == pgno)).isSome

/-- The position in the chain (1 = the transaction itself, 2 = its parent, and
so on) of the first transaction that owns the page `pgno`, if there is one. -/
def first_owner (pgno : pgno_t) : List txn_lists → Option Nat
  | [] => none
  | t :: rest => if owns_page t pgno then some 1 else (first_owner pgno rest).map (· + 1)

/-- A write transaction without parent that has spilled page 5: its spill list
holds the key 10 of the page and its dirty list is empty. -/
def sample_spilled_txn : MDBX_txn :=
  { mt_next_pgno := 16, mt_spill_pages := some [10], mt_book := { me_map := two_pages } }

namespace Layout

/-- The key at an index of a dense-fixed page with keys of `ks` bytes: the
bytes from `DFLKEY(mp, i, ks)` on. -/
def dfl_key (m : Nat → Nat) (ks i : Nat) : List Nat :=
  (List.range ks).map (fun t => m (i * ks + t))

/-- A dense-fixed leaf page of 84 bytes with the three keys 1, 2 and 3 of 4
bytes each. -/
def packed_shelf : page_t :=
  { mp_leaf2_ksize16 := 4, mp_flags16 := P_LEAF ||| P_DFL, mp_lower := 6, mp_upper := 58,
    mp_pgno := 9, mem := fun o => [1, 0, 0, 0, 2, 0, 0, 0, 3, 0, 0, 0].getD o 0 }

end Layout

namespace Layout

/-- The address of the node at the index `i` of the sub-page in the node at
the index `indx`, `node_ptr(sp, i)`. -/
def sub_node (mp : page_t) (indx i : Nat) : Nat :=
  subpage_at mp indx + PAGEHDRSZ + get_le16 mp.mem (subpage_at mp indx + PAGEHDRSZ + 2 * i)

end Layout
namespace Layout

/-- The 64 bytes of the sample page `odd_shelf` after the page header.  The
only node is at 30: the key "a" and a dense-fixed sub-page of 24 bytes, which
holds one key of 3 bytes and 1 byte of free space. -/
def odd_shelf_bytes : List Nat :=
   [0, 0, 0, 0, 0, 0, 0, 0, 0, 0, 0, 0, 0, 0, 0, 0, 0, 0, 0, 0, 0, 0, 0, 0, 0, 0, 0, 0, 0, 0,
    24, 0, 0, 0, 0, 0, 1, 0, 97,
    0, 0, 0, 0, 0, 0, 0, 0, 3, 0, 18, 0, 2, 0, 3, 0, 0, 0, 0, 0, 7, 8, 9, 0, 0]

/-- A leaf page of 84 bytes with one node, whose sub-page is dense-fixed and
has an odd size without its free space. -/
def odd_shelf : page_t :=
  { mp_flags16 := P_LEAF ||| P_DIRTY, mp_lower := 2, mp_upper := 30, mp_pgno := 9,
    mp_ptrs := fun i => [30].getD i 0,
    mem := fun o => odd_shelf_bytes.getD o 0 }

end Layout

/-! ## ovpage_free -/

namespace Ovfree

/-- A page-number list `MDBX_PNL`, an array of `pgno_t`: entry 0 is the count
of the page numbers, which follow from entry 1 on. -/
abbrev MDBX_PNL := Nat → pgno_t

/-- An ID/pointer pair `MDBX_ID2`; the pointer is held as an address. -/
structure MDBX_ID2 where
  mid : pgno_t
  mptr : Nat

/-- An ID2 list `MDBX_ID2L`, an array of `MDBX_ID2`: `mid` of entry 0 is the
count of the pairs, which follow from entry 1 on. -/
abbrev MDBX_ID2L := Nat → MDBX_ID2

/-- Store into an array. -/
def store {α : Type} (a : Nat → α) (i : Nat) (v : α) : Nat → α :=
  fun x => if x = i then v else a x

/-- The page numbers of a list, from entry 1 to the entry at the count. -/
def pnl_entries (pl : MDBX_PNL) : List pgno_t := (List.range (pl 0)).map (fun i => pl (i + 1))

/-- The overflow page `mp` given to ovpage_free: its address and the fields of
its header that are read. -/
structure page_t where
  addr : Nat
  mp_pgno : pgno_t
  mp_pages : Nat
  mp_flags16 : Nat

/-- The databook `MDBX_milieu`. -/
structure MDBX_milieu where
  me_reclaimed_pglist : Option MDBX_PNL
  me_flags32 : Nat

/-- The transaction `MDBX_txn`; `mt_parent` is the address of the parent, if
any. -/
structure MDBX_txn where
  mt_parent : Option Nat
  mt_befree_pages : MDBX_PNL
  mt_spill_pages : Option MDBX_PNL
  mt_rw_dirtylist : MDBX_ID2L
  mt_dirtyroom : Nat
  mt_flags : Nat
  mt_book : MDBX_milieu

/-- What ovpage_free works on through the cursor: the transaction
`mc->mc_txn` and the counter `mc->mc_aht->aa.overflow_pages`. -/
structure state_t where
  txn : MDBX_txn
  overflow_pages : pgno_t

/-- The functions on page-number lists that ovpage_free calls and that are
defined outside the sources at hand; each is given the list behind the pointer
it is called with and gives the return code and the list afterwards.
dpage_free, which releases the memory of a page and is defined outside the
sources as well, has no part in the state kept here. -/
structure ext_t where
  mdbx_pnl_need : MDBX_PNL → Nat → Int × MDBX_PNL
  mdbx_pnl_append_range : MDBX_PNL → pgno_t → Nat → Int × MDBX_PNL

/-- The loop `for (ix = dl[x]; ix.mptr != mp; ix = iy)` of ovpage_free, which
takes the pair of the page `mp` out of the dirty list; `none` when
`assert(x > 1)` fails.  `fuel` bounds the number of iterations. -/
def dirty_remove (mp : Nat) : Nat → Nat → MDBX_ID2 → MDBX_ID2L → Option MDBX_ID2L
  | 0, _, _, _ => none
  | fuel + 1, x, ix, dl =>
    if ix.mptr ≠ mp then
      if x > 1 then dirty_remove mp fuel (x - 1) (dl (x - 1)) (store dl (x - 1) ix)
      else none
    else some dl

/-- The loop `for (i = mop[0]; i && mop[i] < pg; i--) mop[j--] = mop[i]` of
ovpage_free, from `i` on; the result is `(i, j, mop)` after the loop. -/
def release_shift (pg : pgno_t) : Nat → Nat → MDBX_PNL → Nat × Nat × MDBX_PNL
  | 0, j, mop => (0, j, mop)
  | i + 1, j, mop =>
    if mop (i + 1) < pg then
      release_shift pg i ((j + 4294967295) % 4294967296) (store mop j (mop (i + 1)))
    else (i + 1, j, mop)

/-- The loop `while (j > i) mop[j--] = pg++` of ovpage_free.  `fuel` bounds
the number of iterations. -/
def release_fill (i : Nat) : Nat → Nat → pgno_t → MDBX_PNL → Option MDBX_PNL
  | 0, j, _, mop => if j > i then none else some mop
  | fuel + 1, j, pg, mop =>
    if j > i then
      release_fill i fuel ((j + 4294967295) % 4294967296) ((pg + 1) % 4294967296)
        (store mop j pg)
    else some mop

/-- The code of ovpage_free from the label `release` to the end of the block:
insert in me_reclaimed_pglist. -/
def ovpage_free_release (mop : MDBX_PNL) (pg : pgno_t) (ovpages : Nat) : Option MDBX_PNL :=
  let j := (mop 0 + ovpages) % 4294967296
  match release_shift pg (mop 0) j mop with
  | (i, j, mop) =>
    match release_fill i j j pg mop with
    | none => none
    | some mop => some (store mop 0 ((mop 0 + ovpages) % 4294967296))

/-- Free the run of overflow pages that starts at the page `mp`.  `none`
stands for a failed assertion. -/
def ovpage_free (ext : ext_t) (st : state_t) (mp : page_t) : Option (Int × state_t) :=
  let txn := st.txn
  let pg := mp.mp_pgno
  let ovpages := mp.mp_pages
  let bk := txn.mt_book
  let sl := txn.mt_spill_pages
  let pn := (pg <<< 1) % 4294967296
  let dirty : Bool := mp.mp_flags16 &&& P_DIRTY ≠ 0
  -- x = mdbx_pnl_search(sl, pn), evaluated when the page is not dirty and sl is not null
  let x : Nat :=
    if dirty then 0
    else match sl with
      | none => 0
      | some sl => mdbx_pnl_search (pnl_entries sl) pn
  let spilled : Bool :=
    match sl with
    | none => false
    | some sl => decide (x ≤ sl 0) && decide (sl x = pn)
  let finish (st : state_t) : Option (Int × state_t) :=
    some (0, { st with overflow_pages :=
      (st.overflow_pages + (4294967296 - ovpages % 4294967296)) % 4294967296 })
  let release (txn : MDBX_txn) (mop : MDBX_PNL) : Option (Int × state_t) :=
    match ovpage_free_release mop pg ovpages with
    | none => none
    | some mop =>
      finish { st with txn := { txn with mt_book := { bk with me_reclaimed_pglist := some mop } } }
  let befree : Option (Int × state_t) :=
    match ext.mdbx_pnl_append_range txn.mt_befree_pages pg ovpages with
    | (rc, pl) =>
      let st1 := { st with txn := { txn with mt_befree_pages := pl } }
      if rc ≠ MDBX_SUCCESS then some (rc, st1) else finish st1
  match bk.me_reclaimed_pglist, txn.mt_parent with
  | some mop0, none =>
    if dirty ∨ spilled then
      match ext.mdbx_pnl_need mop0 ovpages with
      | (rc, mop1) =>
        if rc ≠ MDBX_SUCCESS then
          some (rc, { st with txn :=
            { txn with mt_book := { bk with me_reclaimed_pglist := some mop1 } } })
        else if ¬ dirty then
          -- This page is no longer spilled
          match sl with
          | none => none
          | some sl =>
            let sl1 :=
              if x = sl 0 then store sl 0 ((sl 0 + 4294967295) % 4294967296)
              else store sl x (sl x ||| 1)
            release { txn with mt_spill_pages := some sl1 } mop1
        else
          -- Remove from dirty list
          let dl := txn.mt_rw_dirtylist
          let x := (dl 0).mid
          let dl := store dl 0 { dl 0 with mid := (x + 4294967295) % 4294967296 }
          match dirty_remove mp.addr (x + 1) x (dl x) dl with
          | none => none
          | some dl =>
            release { txn with mt_rw_dirtylist := dl,
                               mt_dirtyroom := (txn.mt_dirtyroom + 1) % 4294967296 } mop1
    else befree
  | _, _ => befree

/-- What is taken of mdbx_pnl_append_range: when it returns `MDBX_SUCCESS`, the
page numbers of the list afterwards are those before, followed by the page
numbers `pg`, ..., `pg + n - 1` in some order. -/
def AppendOK (ext : ext_t) : Prop :=
  ∀ pl pg n, (ext.mdbx_pnl_append_range pl pg n).1 = MDBX_SUCCESS →
    ∃ r, pnl_entries (ext.mdbx_pnl_append_range pl pg n).2 = pnl_entries pl ++ r ∧
      r.Perm ((List.range n).map (fun k => pg + k))

/-- What is taken of mdbx_pnl_need: when it returns `MDBX_SUCCESS`, the count
and the page numbers of the list are as before. -/
def NeedOK (ext : ext_t) : Prop :=
  ∀ pl n, (ext.mdbx_pnl_need pl n).1 = MDBX_SUCCESS →
    ∀ i, i ≤ pl 0 → (ext.mdbx_pnl_need pl n).2 i = pl i

/-- The spill list of the transaction, if any, is sorted strictly descending. -/
def SpillSorted (st : state_t) : Prop :=
  ∀ sl, st.txn.mt_spill_pages = some sl → (pnl_entries sl).Pairwise (fun a b => b < a)

/-- The key `pgno << 1` of the page `mp` is in the spill list of the
transaction. -/
def Spilled (st : state_t) (mp : page_t) : Prop :=
  ∃ sl, st.txn.mt_spill_pages = some sl ∧ (mp.mp_pgno <<< 1) % 4294967296 ∈ pnl_entries sl

/-- The condition under which ovpage_free gives the run of the page `mp` back
to the reclaimed list: there is such a list, the transaction has no parent,
and the page is dirty or its key is in the spill list. -/
def Reclaims (st : state_t) (mp : page_t) : Prop :=
  st.txn.mt_book.me_reclaimed_pglist ≠ none ∧ st.txn.mt_parent = none ∧
  (mp.mp_flags16 &&& P_DIRTY ≠ 0 ∨ Spilled st mp)

/-- A sample of the outer functions: mdbx_pnl_need finds room, and
mdbx_pnl_append_range stores the run behind the page numbers of the list, the
highest page number first. -/
def sample_ext : ext_t :=
  { mdbx_pnl_need := fun pl _ => (MDBX_SUCCESS, pl),
    mdbx_pnl_append_range := fun pl pg n =>
      (MDBX_SUCCESS, fun x =>
        if x = 0 then pl 0 + n
        else if pl 0 < x ∧ x ≤ pl 0 + n then pg + (pl 0 + n - x) else pl x) }

/-- A sample of the outer functions that find no memory. -/
def nomem_ext : ext_t :=
  { mdbx_pnl_need := fun pl _ => (MDBX_ENOMEM, pl),
    mdbx_pnl_append_range := fun pl _ _ => (MDBX_ENOMEM, pl) }

/-- A page-number list from its page numbers. -/
def pnl_of (l : List pgno_t) : MDBX_PNL := fun x => if x = 0 then l.length else l.getD (x - 1) 0

/-- A dirty list from its pairs. -/
def id2l_of (l : List MDBX_ID2) : MDBX_ID2L :=
  fun x => if x = 0 then { mid := l.length, mptr := 0 } else l.getD (x - 1) { mid := 0, mptr := 0 }

/-- A top-level write transaction whose databook has the reclaimed pages 50,
40 and 9, whose dirty list holds the pages 20 and 30 and whose spill list
holds the key of the page 12. -/
def sample_state : state_t :=
  { txn := { mt_parent := none, mt_befree_pages := pnl_of [7],
             mt_spill_pages := some (pnl_of [24]),
             mt_rw_dirtylist := id2l_of [{ mid := 20, mptr := 1000 }, { mid := 30, mptr := 2000 }],
             mt_dirtyroom := 5, mt_flags := 0,
             mt_book := { me_reclaimed_pglist := some (pnl_of [50, 40, 9]), me_flags32 := 0 } },
    overflow_pages := 10 }

/-- The same transaction as a nested one. -/
def nested_state : state_t :=
  { sample_state with txn := { sample_state.txn with mt_parent := some 4000 } }

/-- The dirty overflow page 20, the head of a run of 3 pages. -/
def dirty_run : page_t := { addr := 1000, mp_pgno := 20, mp_pages := 3, mp_flags16 := P_DIRTY }

/-- The spilled overflow page 12, the head of a run of 2 pages. -/
def spilled_run : page_t := { addr := 3000, mp_pgno := 12, mp_pages := 2, mp_flags16 := 0 }

/-- An overflow page that is neither dirty nor spilled, the head of a run of 2
pages. -/
def clean_run : page_t := { addr := 5000, mp_pgno := 60, mp_pages := 2, mp_flags16 := 0 }

end Ovfree

/-- The value that cursor_set delivers for the entry `n` of an AA with the
flags `flags16`: the first duplicate of an entry that carries duplicates, the
data of the entry otherwise. -/
def first_value (txn : MDBX_txn) (flags16 : Nat) (n : node_t) : MDBX_iov :=
  if F_ISSET n.node_flags8 NODE_DUP then
    dup_at (NODEDATA_page n) (sub_xsize flags16 (NODEDATA_page n)) 0
  else node_data txn n

/-- Some frame of the path is not at the edge of its page in the direction of
a move: the entry under the cursor has a neighbour in the tree in that
direction (it is not the last entry when moving right, not the first one when
moving left). -/
def HasNeighbour (move_right : Bool) (fs : frames_t) : Prop :=
  ∃ f ∈ fs, ¬ AtEdge move_right f

/-- The cursor operation that moves by one entry in a direction. -/
def move_op (move_right : Bool) : MDBX_cursor_op :=
  if move_right then MDBX_NEXT else MDBX_PREV

/-- The bounds of the stack of a cursor: the arrays have `CURSOR_STACK`
entries, the depth is at most `CURSOR_STACK`, and the top is the depth minus
one, or both are 0. -/
def DepthOK (mc : cursor_t) : Prop :=
  StackOK mc ∧ mc.mc_snum ≤ CURSOR_STACK ∧
  (if mc.mc_snum = 0 then mc.mc_top = 0 else mc.mc_top + 1 = mc.mc_snum)

/-- The bounds of the stacks of both cursors of a bundle. -/
def BundleOK (b : MDBX_cursor) : Prop :=
  DepthOK b.primal ∧ DepthOK b.subordinate.mx_cursor

/-- A leaf node that carries its duplicates in an inline sub-page and keeps
its data in the page (no overflow pages). -/
def InlineDup (n : node_t) : Prop := DupInline n ∧ tst n.node_flags8 NODE_BIG = false

/-- A leaf node of the AA of the cursor `mc`: a single value that can be read,
or, when the cursor has a sub-cursor, duplicates in an inline sub-page. -/
def EntryOK (txn : MDBX_txn) (mc : cursor_t) (n : node_t) : Prop :=
  PlainNode txn n ∨ (tst mc.mc_kind8 S_HAVESUB = true ∧ InlineDup n)

/-- The data that a move of the primal cursor onto the entry `e` returns: the
value of the entry, or the first duplicate of its inline sub-page. -/
def entry_data (txn : MDBX_txn) (flags16 : Nat) (e : node_t) : MDBX_iov :=
  if F_ISSET e.node_flags8 NODE_DUP then
    dup_at (NODEDATA_page e) (sub_xsize flags16 (NODEDATA_page e)) 0
  else node_data txn e

/-- The sub-cursor of the bundle is initialized, without `C_AFTERDELETE`, at
index `i` of the sub-page `fp`, which it reads with the key size `xs`. -/
def SubOn (b : MDBX_cursor) (fp : page_t) (i xs : Nat) : Prop :=
  SubAt b.subordinate.mx_cursor fp i xs ∧
  tst b.subordinate.mx_cursor.mc_state8 C_INITIALIZED = true ∧
  tst b.subordinate.mx_cursor.mc_state8 C_AFTERDELETE = false

/-- The sub-cursor of the bundle has no further duplicate to move to:
cursor_next with `MDBX_NEXT` on the sub-cursor, called as cursor_next calls it
for the primal cursor with the data item `d`, returns `MDBX_NOTFOUND`, and
leaves the transaction, the primal cursor and the data item as they are and the
sub-cursor usable. -/
def SubDone (page_touch : page_touch_t) (txn : MDBX_txn) (b : MDBX_cursor) (d : MDBX_iov) :
    Prop :=
  ∃ sub2, cursor_next page_touch 1 txn b (some d) none MDBX_cursor_op.MDBX_NEXT =
      some { rc := MDBX_NOTFOUND, txn := txn,
             bundle := { b with subordinate := { mx_cursor := sub2 } },
             key := some d, data := none } ∧
    StackOK sub2 ∧ tst sub2.mc_kind8 S_HAVESUB = false

/-- The entries for which the `MDBX_NEXT` that follows a delete returns the
entry under the cursor (C10): a single value, or duplicates in an inline
sub-page when the sub-cursor has no further duplicate to move to (`SubDone`,
on the bundle in which cursor_next has cleared `C_EOF`). -/
def SkipEntry (page_touch : page_touch_t) (txn : MDBX_txn) (b : MDBX_cursor) (d : MDBX_iov)
    (e : node_t) : Prop :=
  PlainNode txn e ∨
  (tst b.primal.mc_kind8 S_HAVESUB = true ∧ InlineDup e ∧
    SubDone page_touch txn
      { b with primal := { b.primal with mc_state8 :=
        (if tst b.primal.mc_state8 C_EOF then b.primal.mc_state8 ^^^ C_EOF
         else b.primal.mc_state8) } } d)

/-- A cursor bundle of a dup-sorted AA over the tree of `dup_pages`: the primal
cursor, initialized and with `C_AFTERDELETE`, stands on the entry `dup_node`,
and the initialized sub-cursor stands at index `i` of its sub-page. -/
def dup_after_delete (i : Nat) : MDBX_cursor :=
  { primal := { sample_cursor (sample_aht MDBX_DUPSORT 3) (C_INITIALIZED ||| C_AFTERDELETE)
                  [(dup_leaf, 0)] with mc_kind8 := S_HAVESUB },
    subordinate := { mx_cursor :=
      { sample_cursor (sample_aht 0 0) C_INITIALIZED [(NODEDATA_page dup_node, i)] with
        mc_kind8 := S_SUBCURSOR } } }

/-- A leaf node whose duplicates are kept in a nested sub-tree. -/
def SubtreeDup (n : node_t) : Prop :=
  F_ISSET n.node_flags8 NODE_DUP = true ∧ tst n.node_flags8 NODE_SUBTREE = true

/-- A leaf node of a well-formed tree: a single value that can be read,
duplicates in an inline sub-page, or duplicates in a nested sub-tree. -/
def AnyNode (txn : MDBX_txn) (n : node_t) : Prop := DupSortNode txn n ∨ SubtreeDup n

/-- Storing a value of the range of `int` in an `int` keeps it. -/
theorem to_int_id (x : Int) (h1 : -2147483648 ≤ x) (h2 : x ≤ 2147483647) : to_int x = x := by
  unfold to_int
  omega

/-- Storing the result of a comparer whose results fit `int` keeps it. -/
theorem CmpInt.narrow {cmp : MDBX_comparer} (h : CmpInt cmp) (a b : MDBX_iov) :
    to_int (cmp a b) = cmp a b :=
  to_int_id _ (h a b).1 (h a b).2

theorem CmpOK.eq_symm {cmp : MDBX_comparer} (h : CmpOK cmp) (a b : MDBX_iov) :
    cmp a b = 0 ↔ cmp b a = 0 := by
  have h1 := h.symm a b
  have h2 := h.symm b a
  constructor <;> intro e <;> omega

theorem CmpOK.lt_of_lt_of_le {cmp : MDBX_comparer} (h : CmpOK cmp) {a b c : MDBX_iov}
    (h1 : cmp a b < 0) (h2 : cmp b c ≤ 0) : cmp a c < 0 := by
  by_contra hn
  have h3 : cmp c a ≤ 0 := by
    have := h.symm a c
    have := h.symm c a
    omega
  have h4 := h.trans b c a h2 h3
  have := h.symm a b
  omega

theorem CmpOK.lt_of_le_of_lt {cmp : MDBX_comparer} (h : CmpOK cmp) {a b c : MDBX_iov}
    (h1 : cmp a b ≤ 0) (h2 : cmp b c < 0) : cmp a c < 0 := by
  by_contra hn
  have h3 : cmp c a ≤ 0 := by
    have := h.symm a c
    have := h.symm c a
    omega
  have h4 := h.trans c a b h3 h1
  have := h.symm b c
  omega


theorem node_search_loop_spec {cmp : MDBX_comparer} (hc : CmpOK cmp) (hci : CmpInt cmp)
    (keyat : Nat → Option MDBX_iov) (k : Nat → MDBX_iov) (key : MDBX_iov) (low0 n : Nat)
    (hk : ∀ i, low0 ≤ i → i < n → keyat i = some (k i))
    (hs : ∀ i j, low0 ≤ i → i < j → j < n → cmp (k i) (k j) < 0) :
    ∀ (fuel : Nat) (low high : Int) (i : Nat) (rc : Int),
      (low0 : Int) ≤ low → high < n → high + 1 - low ≤ fuel →
      (∀ j : Nat, low0 ≤ j → (j : Int) < low → cmp key (k j) > 0) →
      (∀ j : Nat, high < (j : Int) → j < n → cmp key (k j) < 0) →
      (low ≤ high ∨ SearchPost cmp k key low0 n i rc) →
      ∃ i2 rc2, node_search_loop cmp keyat key fuel low high i rc = some (i2, rc2) ∧
        SearchPost cmp k key low0 n i2 rc2 := by
  intro fuel
  induction fuel with
  | zero =>
    intro low high i rc h0 h1 h2 hl hh hj
    have hlt : ¬ low ≤ high := by omega
    refine ⟨i, rc, ?_, ?_⟩
    · simp [node_search_loop, hlt]
    · rcases hj with hj | hj
      · exact absurd hj hlt
      · exact hj
  | succ fuel ih =>
    intro low high i rc h0 h1 h2 hl hh hj
    by_cases hle : low ≤ high
    · have hm1 : low ≤ (((low + high) / 2).toNat : Int) := by omega
      have hm2 : (((low + high) / 2).toNat : Int) ≤ high := by omega
      generalize hm : ((low + high) / 2).toNat = m at hm1 hm2
      have hmn : m < n := by omega
      have hm0 : low0 ≤ m := by omega
      have hkm := hk m hm0 hmn
      rw [node_search_loop]
      simp only [hle, if_true, hm, hkm, hci.narrow]
      by_cases hz : cmp key (k m) = 0
      · refine ⟨m, cmp key (k m), by simp [hz], ?_⟩
        unfold SearchPost
        simp only [hz, lt_self_iff_false, if_false, gt_iff_lt]
        refine ⟨hm0, le_of_lt hmn, ?_, fun _ => le_refl _, fun _ => by simp [hmn]⟩
        intro j hj0 hjm
        have h1 := hs j m hj0 hjm hmn
        have h2 : cmp (k m) key ≤ 0 := by
          have := (hc.eq_symm key (k m)).1 hz; omega
        have h3 := hc.lt_of_lt_of_le h1 h2
        have := hc.symm (k j) key
        omega
      · by_cases hp : cmp key (k m) > 0
        · simp only [hz, if_false, hp, if_true]
          apply ih
          · omega
          · exact h1
          · omega
          · intro j hj0 hjl
            by_cases hjm : j = m
            · subst hjm; exact hp
            · have hjm2 : j < m := by omega
              have h1 := hs j m hj0 hjm2 hmn
              have h2 : cmp (k m) key ≤ 0 := by
                have := hc.symm (k m) key; omega
              have h3 := hc.lt_of_lt_of_le h1 h2
              have := hc.symm (k j) key
              omega
          · exact hh
          · by_cases hle2 : (m : Int) + 1 ≤ high
            · exact Or.inl hle2
            · right
              unfold SearchPost
              simp only [hp, if_true, gt_iff_lt]
              refine ⟨by omega, by omega, ?_, ?_, ?_⟩
              · intro j hj0 hjl
                by_cases hjm : j = m
                · subst hjm; exact hp
                · have hjm2 : j < m := by omega
                  have h1 := hs j m hj0 hjm2 hmn
                  have h2 : cmp (k m) key ≤ 0 := by
                    have := hc.symm (k m) key; omega
                  have h3 := hc.lt_of_lt_of_le h1 h2
                  have := hc.symm (k j) key
                  omega
              · intro hlt
                exact le_of_lt (hh (m + 1) (by omega) hlt)
              · intro _
                constructor
                · intro h; omega
                · rintro ⟨hlt, he⟩
                  have := hh (m + 1) (by omega) hlt
                  omega
        · have hn : cmp key (k m) < 0 := by omega
          simp only [hz, if_false, hp]
          apply ih
          · exact h0
          · omega
          · omega
          · exact hl
          · intro j hjh hjn
            by_cases hjm : j = m
            · subst hjm; exact hn
            · have hjm2 : m < j := by omega
              have h1 := hs m j hm0 hjm2 hjn
              exact hc.lt_of_lt_of_le hn (le_of_lt h1)
          · by_cases hle2 : low ≤ (m : Int) - 1
            · exact Or.inl hle2
            · right
              unfold SearchPost
              simp only [hp, if_false, gt_iff_lt]
              refine ⟨hm0, le_of_lt hmn, ?_, fun _ => le_of_lt hn, ?_⟩
              · intro j hj0 hjl
                exact hl j hj0 (by omega)
              · intro _
                constructor
                · intro h; omega
                · rintro ⟨_, he⟩; omega
    · refine ⟨i, rc, ?_, ?_⟩
      · rw [node_search_loop]; simp [hle]
      · rcases hj with hj | hj
        · exact absurd hj hle
        · exact hj

theorem page_key_dfl (mc : cursor_t) (mp : page_t) (i : Nat) (h : IS_DFL mp = true) :
    page_key mc mp i = DFLKEY mp i mc.mc_aht.aa.xsize32 := by
  simp [page_key, h]

theorem page_key_node (mc : cursor_t) (mp : page_t) (i : Nat) (h : IS_DFL mp = false) :
    page_key mc mp i = NODEKEY (mp.mp_nodes.getD i default) := by
  simp [page_key, h]

theorem node_ptr_node {mp : page_t} {i : Nat} (h1 : i < page_numkeys mp)
    (h2 : page_numkeys mp ≤ mp.mp_nodes.length) :
    node_ptr mp i = some (.node (mp.mp_nodes.getD i default)) := by
  have h3 : i < mp.mp_nodes.length := by omega
  simp [node_ptr, h1, List.getElem?_eq_getElem h3, List.getD_eq_getElem _ _ h3]

theorem node_ptr_deref {mp : page_t} {i : Nat} (h1 : i < page_numkeys mp)
    (h2 : page_numkeys mp ≤ mp.mp_nodes.length) :
    (node_ptr mp i).bind node_ref.deref = some (mp.mp_nodes.getD i default) := by
  simp [node_ptr_node h1 h2, node_ref.deref]

theorem page_numkeys_lt {mp : page_t} (h : mp.mp_lower < 65536) : page_numkeys mp < 32768 := by
  unfold page_numkeys; rw [Nat.shiftRight_eq_div_pow]; omega

/-- The tail of node_search past the end of the page. -/
theorem node_search_finish_end {mc : cursor_t} {mp : page_t} (node : node_ref) (i : Nat)
    (rc : Int) (p : Nat) (hp : (if rc > 0 then i + 1 else i) = p)
    (htop : mc.mc_top < mc.mc_ki.length) (h65 : p ≤ 65535) (hge : page_numkeys mp ≤ p) :
    node_search_finish mc mp node i rc =
      some { node := .null, exact := if rc = 0 ∧ page_numkeys mp > 0 then 1 else 0,
             mc := { mc with mc_ki := mc.mc_ki.set mc.mc_top p } } := by
  have h1 : ¬ p > 65535 := by omega
  simp [node_search_finish, hp, h1, cursor_t.set_ki, htop, hge]

/-- The tail of node_search inside a dense-fixed page. -/
theorem node_search_finish_dfl {mc : cursor_t} {mp : page_t} (node : node_ref) (i : Nat)
    (rc : Int) (p : Nat) (hp : (if rc > 0 then i + 1 else i) = p)
    (htop : mc.mc_top < mc.mc_ki.length) (h65 : p ≤ 65535) (hlt : p < page_numkeys mp)
    (hd : IS_DFL mp = true) :
    node_search_finish mc mp node i rc =
      some { node := node, exact := if rc = 0 ∧ page_numkeys mp > 0 then 1 else 0,
             mc := { mc with mc_ki := mc.mc_ki.set mc.mc_top p } } := by
  have h1 : ¬ p > 65535 := by omega
  have h2 : ¬ p ≥ page_numkeys mp := by omega
  simp [node_search_finish, hp, h1, cursor_t.set_ki, htop, h2, hd]

/-- The tail of node_search inside an ordinary page. -/
theorem node_search_finish_node {mc : cursor_t} {mp : page_t} (node : node_ref) (i : Nat)
    (rc : Int) (p : Nat) (hp : (if rc > 0 then i + 1 else i) = p)
    (htop : mc.mc_top < mc.mc_ki.length) (h65 : p ≤ 65535) (hlt : p < page_numkeys mp)
    (hd : IS_DFL mp = false) (hn : page_numkeys mp ≤ mp.mp_nodes.length) :
    node_search_finish mc mp node i rc =
      some { node := .node (mp.mp_nodes.getD p default),
             exact := if rc = 0 ∧ page_numkeys mp > 0 then 1 else 0,
             mc := { mc with mc_ki := mc.mc_ki.set mc.mc_top p } } := by
  have h1 : ¬ p > 65535 := by omega
  have h2 : ¬ p ≥ page_numkeys mp := by omega
  simp [node_search_finish, hp, h1, cursor_t.set_ki, htop, h2, hd, node_ptr_node hlt hn]

/-- The search of a leaf page: what node_search returns and stores. -/
theorem node_search_leaf_spec {mc : cursor_t} {mp : page_t} (key : MDBX_iov)
    (hc : CmpOK (cursor_key_comparer mc)) (hci : CmpInt (cursor_key_comparer mc))
    (hpg : mc.pg mc.mc_top = some mp) (htop : mc.mc_top < mc.mc_ki.length)
    (hleaf : IS_LEAF mp = true) (hlow : mp.mp_lower < 65536)
    (hnodes : IS_DFL mp = false → page_numkeys mp ≤ mp.mp_nodes.length)
    (hne : IS_DFL mp = true → 0 < page_numkeys mp)
    (hs : ∀ i j, i < j → j < page_numkeys mp →
      cursor_key_comparer mc (page_key mc mp i) (page_key mc mp j) < 0) :
    ∃ (r : node_search_ret) (i : Nat), node_search mc key = some r ∧
      r.mc = { mc with mc_ki := mc.mc_ki.set mc.mc_top i } ∧
      i ≤ page_numkeys mp ∧
      (∀ j, j < i → cursor_key_comparer mc key (page_key mc mp j) > 0) ∧
      (i < page_numkeys mp → cursor_key_comparer mc key (page_key mc mp i) ≤ 0) ∧
      (r.node = .null ↔ i = page_numkeys mp) ∧
      (IS_DFL mp = false → i < page_numkeys mp →
        r.node = .node (mp.mp_nodes.getD i default)) ∧
      (r.exact = 1 ↔ (0 < page_numkeys mp ∧ i < page_numkeys mp ∧
        cursor_key_comparer mc key (page_key mc mp i) = 0)) ∧
      (r.exact = 1 ∨ r.exact = 0) := by
  have hnk := page_numkeys_lt hlow
  -- the loop, on either kind of page
  have hloop : ∀ keyat : Nat → Option MDBX_iov,
      (∀ i, i < page_numkeys mp → keyat i = some (page_key mc mp i)) →
      ∃ i2 rc2, node_search_loop (cursor_key_comparer mc) keyat key (page_numkeys mp + 1) 0
          ((page_numkeys mp : Int) - 1) 0 0 = some (i2, rc2) ∧
        SearchPost (cursor_key_comparer mc) (page_key mc mp) key 0 (page_numkeys mp) i2 rc2 := by
    intro keyat hk
    apply node_search_loop_spec hc hci keyat (page_key mc mp) key 0 (page_numkeys mp)
      (fun i _ hi => hk i hi) (fun i j _ hij hj => hs i j hij hj)
    · simp
    · omega
    · push_cast; omega
    · intro j _ hj; omega
    · intro j hj hjn; omega
    · by_cases h0 : 0 < page_numkeys mp
      · left; omega
      · right
        have h00 : page_numkeys mp = 0 := by omega
        unfold SearchPost
        simp [h00]
  -- the properties of the result, from the postcondition of the loop
  have hfin : ∀ (i2 : Nat) (rc2 : Int) (r : node_search_ret) (p : Nat),
      (if rc2 > 0 then i2 + 1 else i2) = p →
      SearchPost (cursor_key_comparer mc) (page_key mc mp) key 0 (page_numkeys mp) i2 rc2 →
      r.mc = { mc with mc_ki := mc.mc_ki.set mc.mc_top p } →
      r.exact = (if rc2 = 0 ∧ page_numkeys mp > 0 then 1 else 0) →
      (r.node = .null ↔ p = page_numkeys mp) →
      (IS_DFL mp = false → p < page_numkeys mp → r.node = .node (mp.mp_nodes.getD p default)) →
      r.mc = { mc with mc_ki := mc.mc_ki.set mc.mc_top p } ∧
      p ≤ page_numkeys mp ∧
      (∀ j, j < p → cursor_key_comparer mc key (page_key mc mp j) > 0) ∧
      (p < page_numkeys mp → cursor_key_comparer mc key (page_key mc mp p) ≤ 0) ∧
      (r.node = .null ↔ p = page_numkeys mp) ∧
      (IS_DFL mp = false → p < page_numkeys mp →
        r.node = .node (mp.mp_nodes.getD p default)) ∧
      (r.exact = 1 ↔ (0 < page_numkeys mp ∧ p < page_numkeys mp ∧
        cursor_key_comparer mc key (page_key mc mp p) = 0)) ∧
      (r.exact = 1 ∨ r.exact = 0) := by
    intro i2 rc2 r p hp hpost hmc hex hnull hnode
    unfold SearchPost at hpost
    rw [hp] at hpost
    obtain ⟨_, hp1, hp2, hp3, hp4⟩ := hpost
    refine ⟨hmc, hp1, fun j hj => hp2 j (Nat.zero_le _) hj, hp3, hnull, hnode, ?_, ?_⟩
    · rw [hex]
      constructor
      · intro h
        by_cases h2 : rc2 = 0 ∧ page_numkeys mp > 0
        · have h3 := (hp4 h2.2).1 h2.1
          exact ⟨h2.2, h3.1, h3.2⟩
        · rw [if_neg h2] at h; exact absurd h (by decide)
      · rintro ⟨h1, h2, h3⟩
        have h4 : rc2 = 0 := (hp4 h1).2 ⟨h2, h3⟩
        rw [if_pos ⟨h4, h1⟩]
    · rw [hex]
      by_cases h2 : rc2 = 0 ∧ page_numkeys mp > 0
      · left; rw [if_pos h2]
      · right; rw [if_neg h2]
  by_cases hd : IS_DFL mp = true
  · have hpos := hne hd
    obtain ⟨i2, rc2, hl, hpost⟩ := hloop
      (fun i => some (DFLKEY mp i mc.mc_aht.aa.xsize32))
      (fun i _ => by
        show some (DFLKEY mp i mc.mc_aht.aa.xsize32) = _
        rw [page_key_dfl mc mp i hd])
    have hnp : ∃ fk, node_ptr mp 0 = some fk ∧ fk ≠ .null := by
      unfold node_ptr
      rw [if_pos hpos]
      cases mp.mp_nodes[0]? <;> simp
    obtain ⟨fk, hnp, hfkn⟩ := hnp
    have hpb := hpost
    unfold SearchPost at hpb
    obtain ⟨p, hp⟩ : ∃ p, (if rc2 > 0 then i2 + 1 else i2) = p := ⟨_, rfl⟩
    rw [hp] at hpb
    have hp1 := hpb.2.1
    have hns : node_search mc key = node_search_finish mc mp fk i2 rc2 := by
      simp only [node_search, hpg, hd, hleaf, if_true, hnp, hl]
    by_cases hpn : page_numkeys mp ≤ p
    · rw [node_search_finish_end fk i2 rc2 p hp htop (by omega) hpn] at hns
      exact ⟨_, p, hns, hfin i2 rc2 _ p hp hpost rfl rfl
        (by simp; omega) (by intro _ h; omega)⟩
    · rw [node_search_finish_dfl fk i2 rc2 p hp htop (by omega) (by omega) hd] at hns
      exact ⟨_, p, hns, hfin i2 rc2 _ p hp hpost rfl rfl
        (by simp [hfkn]; omega) (by intro h; rw [hd] at h; exact absurd h (by decide))⟩
  · have hd2 : IS_DFL mp = false := by simpa using hd
    have hn := hnodes hd2
    obtain ⟨i2, rc2, hl, hpost⟩ := hloop
      (fun i => ((node_ptr mp i).bind node_ref.deref).map NODEKEY)
      (fun i hi => by
        show ((node_ptr mp i).bind node_ref.deref).map NODEKEY = _
        rw [node_ptr_deref hi hn, page_key_node mc mp i hd2]; rfl)
    have hpb := hpost
    unfold SearchPost at hpb
    obtain ⟨p, hp⟩ : ∃ p, (if rc2 > 0 then i2 + 1 else i2) = p := ⟨_, rfl⟩
    rw [hp] at hpb
    have hp1 := hpb.2.1
    have hns : node_search mc key = node_search_finish mc mp .null i2 rc2 := by
      simp only [node_search, hpg, hd2, hleaf, if_true, hl]
      simp
    by_cases hpn : page_numkeys mp ≤ p
    · rw [node_search_finish_end .null i2 rc2 p hp htop (by omega) hpn] at hns
      exact ⟨_, p, hns, hfin i2 rc2 _ p hp hpost rfl rfl
        (by simp; omega) (by intro _ h; omega)⟩
    · rw [node_search_finish_node .null i2 rc2 p hp htop (by omega) (by omega) hd2 hn] at hns
      exact ⟨_, p, hns, hfin i2 rc2 _ p hp hpost rfl rfl
        (by simp; omega) (by intro _ _; rfl)⟩

theorem cmp_lex_symm : ∀ a b : MDBX_iov, cmp_lex a b < 0 ↔ 0 < cmp_lex b a
  | [], [] => by simp [cmp_lex]
  | [], _ :: _ => by simp [cmp_lex]
  | _ :: _, [] => by simp [cmp_lex]
  | a :: as, b :: bs => by
    have ih := cmp_lex_symm as bs
    simp only [cmp_lex]
    by_cases h1 : a < b
    · have h2 : ¬ b < a := by omega
      simp [h1, h2]
    · by_cases h2 : b < a
      · simp [h1, h2]
      · simp [h1, h2, ih]

theorem cmp_lex_trans : ∀ a b c : MDBX_iov, cmp_lex a b ≤ 0 → cmp_lex b c ≤ 0 → cmp_lex a c ≤ 0
  | [], _, [] => by simp [cmp_lex]
  | [], _, _ :: _ => by simp [cmp_lex]
  | _ :: _, [], _ => by simp [cmp_lex]
  | _ :: _, _ :: _, [] => by simp [cmp_lex]
  | a :: as, b :: bs, c :: cs => by
    have ih := cmp_lex_trans as bs cs
    simp only [cmp_lex]
    by_cases h1 : a < b
    · by_cases h2 : b < c
      · have h3 : a < c := by omega
        simp [h1, h2, h3]
      · by_cases h4 : c < b
        · simp [h1, h2, h4]
        · have h3 : a < c := by omega
          simp [h1, h2, h3]
    · by_cases h5 : b < a
      · simp [h1, h5]
      · have hab : a = b := by omega
        subst hab
        by_cases h2 : a < c
        · simp [h2]
        · by_cases h4 : c < a
          · simp [h2, h4]
          · simpa [h2, h4] using ih

theorem cmp_lex_ok : CmpOK cmp_lex := ⟨cmp_lex_symm, cmp_lex_trans⟩

/-- The sample comparer returns -1, 0 or 1. -/
theorem cmp_lex_range : ∀ a b : MDBX_iov, -1 ≤ cmp_lex a b ∧ cmp_lex a b ≤ 1
  | [], [] => by simp [cmp_lex]
  | [], _ :: _ => by simp [cmp_lex]
  | _ :: _, [] => by simp [cmp_lex]
  | a :: as, b :: bs => by
    have ih := cmp_lex_range as bs
    simp only [cmp_lex]
    split
    · constructor <;> decide
    · split
      · constructor <;> decide
      · exact ih

theorem cmp_lex_int : CmpInt cmp_lex := fun a b =>
  ⟨by have := (cmp_lex_range a b).1; omega, by have := (cmp_lex_range a b).2; omega⟩

/-- The search of a leaf page as C4 states it: on an ordinary leaf page, or a
dense-fixed leaf page that holds at least one key, with keys sorted strictly
ascending under a comparer whose results fit `int`, node_search stores in the
top index the least index `i` whose key is not smaller than the
search key (`numkeys` when there is none), returns no node exactly when `i` is
`numkeys`, and reports exact = 1 exactly when `numkeys > 0` and the key at `i`
equals the search key; on an empty (ordinary) page it stores 0, reports
exact = 0 and returns no node. -/
theorem node_search_leaf_sorted {mc : cursor_t} {mp : page_t} (key : MDBX_iov)
    (hc : CmpOK (cursor_key_comparer mc)) (hci : CmpInt (cursor_key_comparer mc))
    (hpg : mc.pg mc.mc_top = some mp) (htop : mc.mc_top < mc.mc_ki.length)
    (hleaf : IS_LEAF mp = true) (hlow : mp.mp_lower < 65536)
    (hnodes : IS_DFL mp = false → page_numkeys mp ≤ mp.mp_nodes.length)
    (hne : IS_DFL mp = true → 0 < page_numkeys mp)
    (hs : ∀ i j, i < j → j < page_numkeys mp →
      cursor_key_comparer mc (page_key mc mp i) (page_key mc mp j) < 0) :
    ∃ (r : node_search_ret) (i : Nat), node_search mc key = some r ∧
      r.mc = { mc with mc_ki := mc.mc_ki.set mc.mc_top i } ∧
      i ≤ page_numkeys mp ∧
      (∀ j, j < i → cursor_key_comparer mc key (page_key mc mp j) > 0) ∧
      (i < page_numkeys mp → cursor_key_comparer mc key (page_key mc mp i) ≤ 0) ∧
      (r.node = .null ↔ i = page_numkeys mp) ∧
      (r.exact = 1 ↔ (0 < page_numkeys mp ∧ i < page_numkeys mp ∧
        cursor_key_comparer mc key (page_key mc mp i) = 0)) ∧
      (r.exact = 1 ∨ r.exact = 0) ∧
      (page_numkeys mp = 0 → i = 0 ∧ r.exact = 0 ∧ r.node = .null) := by
  obtain ⟨r, i, h1, h2, h3, h4, h5, h6, _, h8, h9⟩ :=
    node_search_leaf_spec key hc hci hpg htop hleaf hlow hnodes hne hs
  refine ⟨r, i, h1, h2, h3, h4, h5, h6, h8, h9, ?_⟩
  intro h0
  have hi : i = 0 := by
    rw [h0] at h3; exact Nat.le_zero.mp h3
  refine ⟨hi, ?_, h6.2 (by rw [hi, h0])⟩
  rcases h9 with h | h
  · have := (h8.1 h).1; rw [h0] at this; exact absurd this (by decide)
  · exact h

/-- The leaf alpha, beta, gamma searched for beta. -/
theorem node_search_leaf_sorted_sample :
    ∃ (r : node_search_ret) (i : Nat), node_search (sample_cursor (sample_aht 0 3) 0 [(abc_leaf, 0)]) k_beta = some r ∧
      r.mc = { sample_cursor (sample_aht 0 3) 0 [(abc_leaf, 0)] with
               mc_ki := (sample_cursor (sample_aht 0 3) 0 [(abc_leaf, 0)]).mc_ki.set
                 (sample_cursor (sample_aht 0 3) 0 [(abc_leaf, 0)]).mc_top i } ∧
      i ≤ page_numkeys abc_leaf ∧
      (∀ j, j < i → cursor_key_comparer (sample_cursor (sample_aht 0 3) 0 [(abc_leaf, 0)]) k_beta
        (page_key (sample_cursor (sample_aht 0 3) 0 [(abc_leaf, 0)]) abc_leaf j) > 0) ∧
      (i < page_numkeys abc_leaf →
        cursor_key_comparer (sample_cursor (sample_aht 0 3) 0 [(abc_leaf, 0)]) k_beta
          (page_key (sample_cursor (sample_aht 0 3) 0 [(abc_leaf, 0)]) abc_leaf i) ≤ 0) ∧
      (r.node = .null ↔ i = page_numkeys abc_leaf) ∧
      (r.exact = 1 ↔ (0 < page_numkeys abc_leaf ∧ i < page_numkeys abc_leaf ∧
        cursor_key_comparer (sample_cursor (sample_aht 0 3) 0 [(abc_leaf, 0)]) k_beta
          (page_key (sample_cursor (sample_aht 0 3) 0 [(abc_leaf, 0)]) abc_leaf i) = 0)) ∧
      (r.exact = 1 ∨ r.exact = 0) ∧
      (page_numkeys abc_leaf = 0 → i = 0 ∧ r.exact = 0 ∧ r.node = .null) :=
  node_search_leaf_sorted k_beta cmp_lex_ok cmp_lex_int (by rfl) (by decide) (by rfl) (by decide)
    (fun _ => by decide) (fun h => absurd h (by decide))
    (by
      intro i j hij hj
      have hj3 : j < 3 := hj
      interval_cases j <;> interval_cases i <;> decide)

/-- C4, failing input: an empty dense-fixed leaf page at the top of the
cursor.  node_search takes the fake node pointer `node_ptr(mp, 0)` before its
loop, and the assertion `page_numkeys(p) > i` of node_ptr fails on a page
without keys, so node_search does not return.  The code that follows handles
the empty page as the function documents: the loop ends at once with index 0
and `rc = 0`, and the code after the loop stores index 0, reports exact = 0 and
returns no node, whatever the fake pointer is. -/
theorem C4_empty_dfl_assert :
    IS_LEAF empty_dfl = true ∧ IS_DFL empty_dfl = true ∧ page_numkeys empty_dfl = 0 ∧
    node_ptr empty_dfl 0 = none ∧
    node_search (sample_cursor (sample_aht MDBX_DUPFIXED 5) 0 [(empty_dfl, 0)]) [1] = none ∧
    node_search_loop cmp_lex (fun i => some (DFLKEY empty_dfl i 0)) [1] 1 0 (-1) 0 0 =
      some (0, 0) ∧
    ∀ node : node_ref,
      (node_search_finish (sample_cursor (sample_aht MDBX_DUPFIXED 5) 0 [(empty_dfl, 0)])
        empty_dfl node 0 0).map (fun r => (r.node, r.exact, r.mc.mc_ki[0]?)) =
        some (.null, 0, some 0) :=
  ⟨by decide, by decide, by decide, by rfl, by rfl, by rfl, fun _ => by rfl⟩

/-! ## Frames, page_get and cursor_push -/

theorem page_get_txn {txn : MDBX_txn} {pgno : pgno_t}
    (h : (page_get txn pgno).rc = MDBX_SUCCESS) : (page_get txn pgno).txn = txn := by
  unfold page_get at h ⊢
  simp only at h ⊢
  generalize (if ¬ tst txn.mt_flags (MDBX_RDONLY ||| MDBX_WRITEMAP) = true then
      page_get_walk pgno
        ({ mt_spill_pages := txn.mt_spill_pages, mt_rw_dirtylist := txn.mt_rw_dirtylist }
          :: txn.mt_parent) 1
    else page_get_walk_t.fallthrough) = w at h ⊢
  cases w with
  | mapped l => rfl
  | done p l => rfl
  | fallthrough =>
    simp only at h ⊢
    by_cases hp : pgno ≥ txn.mt_next_pgno
    · rw [if_pos hp] at h
      have h2 : MDBX_PAGE_NOTFOUND = MDBX_SUCCESS := h
      exact absurd h2 (by decide)
    · rw [if_neg hp]

theorem Resolves.txn_eq {txn : MDBX_txn} {pgno : pgno_t} {pg : page_t}
    (h : Resolves txn pgno pg) : (page_get txn pgno).txn = txn := page_get_txn h.1

theorem frame_push_stack {mc : cursor_t} (h : StackOK mc) (mp : page_t) :
    StackOK (frame_push mc mp) := by
  unfold StackOK frame_push at *
  simpa using h

theorem frame_ki_stack {mc : cursor_t} (h : StackOK mc) (i : Nat) (k : indx_t) :
    StackOK (frame_ki mc i k) := by
  unfold StackOK frame_ki at *
  simpa using h

theorem set_ki_eq {mc : cursor_t} (h : StackOK mc) {i : Nat} (hi : i < CURSOR_STACK)
    (k : indx_t) : mc.set_ki i k = some (frame_ki mc i k) := by
  unfold cursor_t.set_ki frame_ki
  rw [if_pos (by rw [h.2]; exact hi)]

theorem cursor_push_ok {mc : cursor_t} (txn : MDBX_txn) (mp : page_t) (h : StackOK mc)
    (hs : mc.mc_snum < CURSOR_STACK) :
    cursor_push txn mc mp = some { rc := MDBX_SUCCESS, txn := txn, mc := frame_push mc mp } := by
  have h1 : ¬ mc.mc_snum ≥ CURSOR_STACK := by omega
  have h2 : ¬ mc.mc_snum ≥ 65535 := by unfold CURSOR_STACK at hs; omega
  have h3 : mc.mc_snum < mc.mc_pg.length := by rw [h.1]; exact hs
  have h4 : mc.mc_snum < mc.mc_ki.length := by rw [h.2]; exact hs
  simp [cursor_push, h1, h2, cursor_t.set_pg, cursor_t.set_ki, h3, h4, frame_push, bind,
    Option.bind]

theorem BranchOK.deref_node {cmp : MDBX_comparer} {pg : page_t} (hb : BranchOK cmp pg)
    {i : Nat} (hi : i < page_numkeys pg) :
    (node_ptr pg i).bind node_ref.deref = some (pg.mp_nodes.getD i default) :=
  Mdbx.node_ptr_deref hi (le_of_eq hb.nodes.symm)

/-- One descent of page_search_root: the child at index `i` is fetched and
pushed. -/
theorem page_search_root_descend_ok {cmp : MDBX_comparer} (page_touch : page_touch_t)
    {flags : Nat} {txn : MDBX_txn} {mc : cursor_t} {pg : page_t} {i : Nat}
    (hb : BranchOK cmp pg) (hi : i < page_numkeys pg)
    (hr : Resolves txn (node_get_pgno (pg.mp_nodes.getD i default)) (child_page txn pg i))
    (hst : StackOK mc) (hsn : mc.mc_snum < CURSOR_STACK) (htop : mc.mc_top < CURSOR_STACK)
    (hf : tst flags MDBX_PS_MODIFY = false) :
    page_search_root_descend page_touch flags txn mc pg i =
      some (.next txn (frame_push (frame_ki mc mc.mc_top i) (child_page txn pg i))
        (child_page txn pg i)) := by
  have h1 : (page_get txn (node_get_pgno (pg.mp_nodes.getD i default))).txn = txn := hr.txn_eq
  unfold page_search_root_descend
  rw [if_neg (by simpa using hi), hb.deref_node hi]
  simp only [hr.1, ne_eq, not_true_eq_false, if_false, hr.2, set_ki_eq hst htop, h1]
  rw [cursor_push_ok txn _ (frame_ki_stack hst _ _) (by simpa [frame_ki] using hsn)]
  simp [page_search_root_ready, hf]

/-! ## The descent of page_search_root -/

theorem frame_push_pg {mc : cursor_t} (hst : StackOK mc) (hs : mc.mc_snum < CURSOR_STACK)
    (mp : page_t) : (frame_push mc mp).pg (frame_push mc mp).mc_top = some mp := by
  have h3 : mc.mc_snum < mc.mc_pg.length := by rw [hst.1]; exact hs
  simp [frame_push, cursor_t.pg, List.getElem?_set, h3]

theorem WFTree.branch {txn : MDBX_txn} {cmp : MDBX_comparer} {P : node_t → Prop} {h : Nat}
    {pg : page_t} {lo hi : Option MDBX_iov} (hw : WFTree txn cmp P (h + 1) pg lo hi) :
    BranchOK cmp pg := hw.1

theorem WFTree.leaf {txn : MDBX_txn} {cmp : MDBX_comparer} {P : node_t → Prop}
    {pg : page_t} {lo hi : Option MDBX_iov} (hw : WFTree txn cmp P 0 pg lo hi) :
    LeafOK cmp pg := hw.1

theorem WFTree.child {txn : MDBX_txn} {cmp : MDBX_comparer} {P : node_t → Prop} {h : Nat}
    {pg : page_t} {lo hi : Option MDBX_iov} (hw : WFTree txn cmp P (h + 1) pg lo hi)
    {i : Nat} (hi2 : i < page_numkeys pg) :
    WFTree txn cmp P h (child_page txn pg i)
      (if i = 0 then lo else some (key_at pg i))
      (if i + 1 < page_numkeys pg then some (key_at pg (i + 1)) else hi) := (hw.2 i hi2).2

theorem WFTree.resolves {txn : MDBX_txn} {cmp : MDBX_comparer} {P : node_t → Prop} {h : Nat}
    {pg : page_t} {lo hi : Option MDBX_iov} (hw : WFTree txn cmp P (h + 1) pg lo hi)
    {i : Nat} (hi2 : i < page_numkeys pg) :
    Resolves txn (node_get_pgno (pg.mp_nodes.getD i default)) (child_page txn pg i) :=
  (hw.2 i hi2).1

theorem WFTree.is_branch_iff {txn : MDBX_txn} {cmp : MDBX_comparer} {P : node_t → Prop}
    {h : Nat} {pg : page_t} {lo hi : Option MDBX_iov} (hw : WFTree txn cmp P h pg lo hi) :
    IS_BRANCH pg = true ↔ 0 < h := by
  cases h with
  | zero => simp [hw.leaf.not_branch]
  | succ h => simp [hw.branch.is_branch]

/-- The loop of page_search_root on a well-formed tree, for any rule `pick`
of choosing the child that one iteration implements: it ends on the leaf of
the descent with the frames of the descent pushed. -/
theorem page_search_root_loop_descend {txn : MDBX_txn} {cmp : MDBX_comparer}
    {P : node_t → Prop} (page_touch : page_touch_t) (key : Option MDBX_iov) (flags : Nat)
    (pick : page_t → Nat) (s0 : Nat) (a0 : aht_t) (Q : cursor_t → Prop)
    (hQ : ∀ (mc : cursor_t) (i : Nat) (mp : page_t), StackOK mc → mc.mc_snum < CURSOR_STACK →
      Q (frame_push (frame_ki mc mc.mc_top i) mp))
    (hstep : ∀ (mc : cursor_t) (pg : page_t) (h : Nat) (lo hi : Option MDBX_iov),
      WFTree txn cmp P (h + 1) pg lo hi → StackOK mc → mc.mc_snum < CURSOR_STACK →
      mc.mc_top + 1 = mc.mc_snum → mc.pg mc.mc_top = some pg → mc.mc_state8 = s0 →
      mc.mc_aht = a0 → Q mc →
      pick pg < page_numkeys pg ∧
      page_search_root_step page_touch key flags txn mc pg =
        some (.next txn (frame_push (frame_ki mc mc.mc_top (pick pg))
          (child_page txn pg (pick pg))) (child_page txn pg (pick pg)))) :
    ∀ (h fuel : Nat) (mc : cursor_t) (pg : page_t) (lo hi : Option MDBX_iov),
      WFTree txn cmp P h pg lo hi → StackOK mc → mc.mc_snum + h ≤ CURSOR_STACK →
      mc.mc_top + 1 = mc.mc_snum → mc.pg mc.mc_top = some pg → mc.mc_state8 = s0 →
      mc.mc_aht = a0 → Q mc → h ≤ fuel →
      page_search_root_loop page_touch key flags fuel txn mc pg =
        some { rc := MDBX_SUCCESS, txn := txn,
               mc := { descend txn pick h mc pg with
                       mc_state8 := clr8 (s0 ||| C_INITIALIZED) C_EOF } } := by
  intro h
  induction h with
  | zero =>
    intro fuel mc pg lo hi hw hst hsn htop hpg hs ha _ hf
    have hl := hw.leaf
    cases fuel with
    | zero =>
      simp [page_search_root_loop, hl.not_branch, page_search_root_finish, hl.is_leaf, descend, hs]
    | succ fuel =>
      simp [page_search_root_loop, hl.not_branch, page_search_root_finish, hl.is_leaf, descend, hs]
  | succ h ih =>
    intro fuel mc pg lo hi hw hst hsn htop hpg hs ha hq hf
    have hb := hw.branch
    cases fuel with
    | zero => omega
    | succ fuel =>
      obtain ⟨hp, hstp⟩ := hstep mc pg h lo hi hw hst (by omega) htop hpg hs ha hq
      rw [page_search_root_loop, if_pos hb.is_branch, hstp]
      simp only
      have hsn2 : mc.mc_snum < CURSOR_STACK := by omega
      rw [ih fuel _ _ _ _ (hw.child hp) (frame_push_stack (frame_ki_stack hst _ _) _)
        (by simp [frame_push, frame_ki]; omega) (by simp [frame_push, frame_ki])
        (frame_push_pg (frame_ki_stack hst _ _) (by simpa [frame_ki] using hsn2) _)
        (by simpa [frame_push, frame_ki] using hs) (by simpa [frame_push, frame_ki] using ha)
        (hQ mc _ _ hst hsn2) (by omega)]
      rfl

/-- The search of a branch page: node_search looks at the keys from index 1
on and stores the least index from 1 on whose key is not smaller than the
search key, or the number of keys. -/
theorem node_search_branch_spec {mc : cursor_t} {mp : page_t} (key : MDBX_iov)
    (hc : CmpOK (cursor_key_comparer mc)) (hci : CmpInt (cursor_key_comparer mc))
    (hpg : mc.pg mc.mc_top = some mp) (htop : mc.mc_top < mc.mc_ki.length)
    (hb : BranchOK (cursor_key_comparer mc) mp) :
    ∃ (r : node_search_ret) (p : Nat), node_search mc key = some r ∧
      r.mc = { mc with mc_ki := mc.mc_ki.set mc.mc_top p } ∧
      1 ≤ p ∧ p ≤ page_numkeys mp ∧
      (∀ j, 1 ≤ j → j < p → cursor_key_comparer mc key (key_at mp j) > 0) ∧
      (p < page_numkeys mp → cursor_key_comparer mc key (key_at mp p) ≤ 0) ∧
      (r.node = .null ↔ p = page_numkeys mp) ∧
      (r.exact = 1 ↔ (p < page_numkeys mp ∧ cursor_key_comparer mc key (key_at mp p) = 0)) ∧
      (r.exact = 1 ∨ r.exact = 0) := by
  have hnk := page_numkeys_lt hb.lower
  have hn : page_numkeys mp ≤ mp.mp_nodes.length := le_of_eq hb.nodes.symm
  have htwo := hb.two
  obtain ⟨i2, rc2, hl, hpost⟩ :=
    node_search_loop_spec hc hci (fun i => ((node_ptr mp i).bind node_ref.deref).map NODEKEY)
      (key_at mp) key 1 (page_numkeys mp)
      (fun i _ hi => by
        show ((node_ptr mp i).bind node_ref.deref).map NODEKEY = _
        rw [node_ptr_deref hi hn]; rfl)
      (fun i j h1 hij hj => hb.sorted i j h1 hij hj)
      (page_numkeys mp + 1) 1 ((page_numkeys mp : Int) - 1) 0 0
      (by simp) (by omega) (by push_cast; omega) (by intro j h1 h2; omega)
      (by intro j hj hjn; omega) (Or.inl (by omega))
  have hpb := hpost
  unfold SearchPost at hpb
  obtain ⟨p, hp⟩ : ∃ p, (if rc2 > 0 then i2 + 1 else i2) = p := ⟨_, rfl⟩
  rw [hp] at hpb
  have hp0 := hpb.1
  have hp1 := hpb.2.1
  have h65 : p ≤ 65535 := by omega
  have hnull : page_numkeys mp ≤ p → p = page_numkeys mp := fun h => Nat.le_antisymm hp1 h
  have hnnull : ¬ page_numkeys mp ≤ p → p < page_numkeys mp ∧ p ≠ page_numkeys mp :=
    fun h => ⟨by omega, by omega⟩
  have h1n : 1 < page_numkeys mp := by omega
  have hn0 : page_numkeys mp > 0 := by omega
  obtain ⟨_, _, hp2, hp3, hp4⟩ := hpb
  have hp5 := hp4 h1n
  have hns : node_search mc key = node_search_finish mc mp .null i2 rc2 := by
    unfold node_search
    simp only [hpg, hb.not_dfl, hb.not_leaf, Bool.false_eq_true, if_false]
    rw [hl]
  have hex : (if rc2 = 0 ∧ page_numkeys mp > 0 then (1 : Int) else 0) = 1 ↔
      (p < page_numkeys mp ∧ cursor_key_comparer mc key (key_at mp p) = 0) := by
    constructor
    · intro h
      by_cases h2 : rc2 = 0 ∧ page_numkeys mp > 0
      · exact hp5.1 h2.1
      · rw [if_neg h2] at h; exact absurd h (by decide)
    · intro h
      rw [if_pos ⟨hp5.2 h, hn0⟩]
  have hex2 : (if rc2 = 0 ∧ page_numkeys mp > 0 then (1 : Int) else 0) = 1 ∨
      (if rc2 = 0 ∧ page_numkeys mp > 0 then (1 : Int) else 0) = 0 := by
    by_cases h2 : rc2 = 0 ∧ page_numkeys mp > 0
    · left; rw [if_pos h2]
    · right; rw [if_neg h2]
  by_cases hpn : page_numkeys mp ≤ p
  · rw [node_search_finish_end .null i2 rc2 p hp htop h65 hpn] at hns
    exact ⟨_, p, hns, rfl, hp0, hp1, hp2, hp3, by simpa using hnull hpn, hex, hex2⟩
  · rw [node_search_finish_node .null i2 rc2 p hp htop h65 (hnnull hpn).1 hb.not_dfl hn]
      at hns
    exact ⟨_, p, hns, rfl, hp0, hp1, hp2, hp3, by simpa using (hnnull hpn).2, hex, hex2⟩

/-- The child index of a key search in terms of the position `p` that
node_search finds on a branch page. -/
theorem search_pick_eq {cmp : MDBX_comparer} (hc : CmpOK cmp) {mp : page_t} (key : MDBX_iov)
    (hb : BranchOK cmp mp) {p : Nat} (hp0 : 1 ≤ p) (hp1 : p ≤ page_numkeys mp)
    (hlt : ∀ j, 1 ≤ j → j < p → cmp key (key_at mp j) > 0)
    (hge : p < page_numkeys mp → cmp key (key_at mp p) ≤ 0) :
    search_pick cmp key mp =
      if p < page_numkeys mp ∧ cmp key (key_at mp p) = 0 then p else p - 1 := by
  unfold search_pick
  rw [Nat.findGreatest_eq_iff]
  have htwo := hb.two
  by_cases hx : p < page_numkeys mp ∧ cmp key (key_at mp p) = 0
  · rw [if_pos hx]
    refine ⟨by omega, fun _ => by rw [hx.2], ?_⟩
    intro j hj hjn hcj
    have h1 := hb.sorted p j hp0 hj (by omega)
    have h2 : cmp key (key_at mp j) < 0 :=
      hc.lt_of_le_of_lt (le_of_eq hx.2) h1
    omega
  · rw [if_neg hx]
    refine ⟨by omega, fun h0 => le_of_lt (hlt _ (by omega) (by omega)), ?_⟩
    intro j hj hjn hcj
    have hpn : p < page_numkeys mp := by omega
    have h0 := hge hpn
    have h3 : cmp key (key_at mp p) < 0 := by
      rcases lt_or_eq_of_le h0 with h | h
      · exact h
      · exact absurd ⟨hpn, h⟩ hx
    by_cases hjp : j = p
    · subst hjp; omega
    · have h1 := hb.sorted p j hp0 (by omega) (by omega)
      have h2 : cmp key (key_at mp j) < 0 := hc.lt_of_lt_of_le h3 (le_of_lt h1)
      omega

theorem to_indx_pred (n : Nat) (h0 : 0 < n) (h1 : n ≤ 65536) :
    to_indx ((n : Int) - 1) = n - 1 := by
  unfold to_indx
  have h2 : ((n : Int) - 1) % 65536 = ((n - 1 : Nat) : Int) := by omega
  rw [h2, Int.toNat_natCast]

theorem to_indx_succ (n : Nat) (h1 : n + 1 < 65536) : to_indx ((n : Int) + 1) = n + 1 := by
  unfold to_indx
  have h2 : ((n : Int) + 1) % 65536 = ((n + 1 : Nat) : Int) := by omega
  rw [h2, Int.toNat_natCast]

theorem frame_ki_ki (mc : cursor_t) (i k k2 : Nat) :
    frame_ki (frame_ki mc i k) i k2 = frame_ki mc i k2 := by
  simp [frame_ki, List.set_set]

theorem frame_ki_get {mc : cursor_t} (hst : StackOK mc) {i : Nat} (hi : i < CURSOR_STACK)
    (k : Nat) : (frame_ki mc i k).ki i = some k := by
  have h3 : i < mc.mc_ki.length := by rw [hst.2]; exact hi
  simp [frame_ki, cursor_t.ki, List.getElem?_set, h3]

theorem frame_ki_pg (mc : cursor_t) (i k j : Nat) : (frame_ki mc i k).pg j = mc.pg j := rfl

/-- One descent of page_search_root, whatever the flags: the child at index
`i` is fetched and pushed, and the code at `ready` follows. -/
theorem page_search_root_descend_ready {cmp : MDBX_comparer} (page_touch : page_touch_t)
    (flags : Nat) {txn : MDBX_txn} {mc : cursor_t} {pg : page_t} {i : Nat}
    (hb : BranchOK cmp pg) (hi : i < page_numkeys pg)
    (hr : Resolves txn (node_get_pgno (pg.mp_nodes.getD i default)) (child_page txn pg i))
    (hst : StackOK mc) (hsn : mc.mc_snum < CURSOR_STACK) (htop : mc.mc_top < CURSOR_STACK) :
    page_search_root_descend page_touch flags txn mc pg i =
      page_search_root_ready page_touch flags txn
        (frame_push (frame_ki mc mc.mc_top i) (child_page txn pg i)) (child_page txn pg i) := by
  have h1 : (page_get txn (node_get_pgno (pg.mp_nodes.getD i default))).txn = txn := hr.txn_eq
  unfold page_search_root_descend
  rw [if_neg (by simpa using hi), hb.deref_node hi]
  simp only [hr.1, ne_eq, not_true_eq_false, if_false, hr.2, set_ki_eq hst htop, h1]
  rw [cursor_push_ok txn _ (frame_ki_stack hst _ _) (by simpa [frame_ki] using hsn)]
  simp

theorem page_search_root_ready_plain (page_touch : page_touch_t) {flags : Nat}
    (txn : MDBX_txn) (mc : cursor_t) (mp : page_t) (hf : tst flags MDBX_PS_MODIFY = false) :
    page_search_root_ready page_touch flags txn mc mp = some (.next txn mc mp) := by
  simp [page_search_root_ready, hf]

/-- One iteration of page_search_root with a search key on a branch page: the
child at `search_pick` is fetched and pushed. -/
theorem page_search_root_step_key (page_touch : page_touch_t) (flags : Nat) (key : MDBX_iov)
    {txn : MDBX_txn} {mc : cursor_t} {pg : page_t}
    (hc : CmpOK (cursor_key_comparer mc)) (hci : CmpInt (cursor_key_comparer mc)) (hb : BranchOK (cursor_key_comparer mc) pg)
    (hres : ∀ i, i < page_numkeys pg →
      Resolves txn (node_get_pgno (pg.mp_nodes.getD i default)) (child_page txn pg i))
    (hpg : mc.pg mc.mc_top = some pg)
    (hst : StackOK mc) (hsn : mc.mc_snum < CURSOR_STACK) (htop : mc.mc_top < CURSOR_STACK)
    (hfl : tst flags (MDBX_PS_FIRST ||| MDBX_PS_LAST) = false) :
    search_pick (cursor_key_comparer mc) key pg < page_numkeys pg ∧
    page_search_root_step page_touch (some key) flags txn mc pg =
      page_search_root_ready page_touch flags txn
        (frame_push (frame_ki mc mc.mc_top (search_pick (cursor_key_comparer mc) key pg))
          (child_page txn pg (search_pick (cursor_key_comparer mc) key pg)))
        (child_page txn pg (search_pick (cursor_key_comparer mc) key pg)) := by
  have htwo := hb.two
  have hnk := page_numkeys_lt hb.lower
  obtain ⟨r, p, hns, hmc, hp0, hp1, hlt, hge, hrest⟩ :=
    node_search_branch_spec key hc hci hpg (by rw [hst.2]; exact htop) hb
  have hmc2 : r.mc = frame_ki mc mc.mc_top p := hmc
  have hst2 : StackOK (frame_ki mc mc.mc_top p) := frame_ki_stack hst _ _
  have hlast : to_indx ((page_numkeys pg : Int) - 1) = page_numkeys pg - 1 :=
    to_indx_pred (page_numkeys pg) (by omega) (by omega)
  have hpm : to_indx ((p : Int) - 1) = p - 1 := to_indx_pred p (by omega) (by omega)
  have hgaco : ¬ (¬ cursor_is_gaco mc = true ∧ ¬ page_numkeys pg > 1) := by
    intro h; omega
  have hp00 : ¬ ¬ p > 0 := by omega
  have hnn : p ≠ page_numkeys pg → p < page_numkeys pg := by omega
  have hq : (if p < page_numkeys pg ∧ cursor_key_comparer mc key (key_at pg p) = 0
      then p else p - 1) < page_numkeys pg := by
    split <;> omega
  obtain ⟨hnull, hex, hex2⟩ := hrest
  have hpick := search_pick_eq hc key hb hp0 hp1 hlt hge
  have hpk : search_pick (cursor_key_comparer mc) key pg < page_numkeys pg := by
    rw [hpick]; exact hq
  refine ⟨hpk, ?_⟩
  have hdesc := page_search_root_descend_ready page_touch flags hb hpk (hres _ hpk) hst2
    (by simpa [frame_ki] using hsn) (by simpa [frame_ki] using htop)
  have e : (frame_ki mc mc.mc_top p).mc_top = mc.mc_top := rfl
  rw [e, frame_ki_ki] at hdesc
  unfold page_search_root_step
  rw [if_neg hgaco, hfl]
  simp only [Bool.false_eq_true, if_false, Option.some_bind, hns]
  by_cases hn : r.node = .null
  · have hpn := hnull.1 hn
    have hx : ¬ (p < page_numkeys pg ∧ cursor_key_comparer mc key (key_at pg p) = 0) := by
      intro h; exact absurd hpn (Nat.ne_of_lt h.1)
    rw [if_neg hx] at hpick
    have hpick2 : search_pick (cursor_key_comparer mc) key pg = page_numkeys pg - 1 := by
      rw [hpick, hpn]
    rw [hpick2] at hdesc
    rw [if_pos hn, hlast, hpick2, hmc2]
    exact hdesc
  · have hpn : p < page_numkeys pg := hnn (mt hnull.2 hn)
    rw [if_neg hn, hmc2, e, frame_ki_get hst htop]
    rcases hex2 with h1 | h0
    · have hx := hex.1 h1
      rw [if_pos hx] at hpick
      rw [hpick] at hdesc ⊢
      show (if r.exact = 0 then _ else _) = _
      rw [if_neg (by rw [h1]; decide)]
      exact hdesc
    · have hx : ¬ (p < page_numkeys pg ∧ cursor_key_comparer mc key (key_at pg p) = 0) := by
        intro h; rw [hex.2 h] at h0; exact absurd h0 (by decide)
      rw [if_neg hx] at hpick
      rw [hpick] at hdesc ⊢
      show (if r.exact = 0 then _ else _) = _
      rw [if_pos h0, if_neg hp00, hpm]
      exact hdesc

/-! ## Facts about the sample trees -/

theorem two_root_branch : BranchOK cmp_lex two_root where
  is_branch := by decide
  not_leaf := by decide
  not_dfl := by decide
  lower := by decide
  nodes := by decide
  two := by decide
  sorted := by
    intro i j h1 h2 h3
    have h4 : page_numkeys two_root = 2 := by decide
    omega

theorem two_root_resolves : ∀ i, i < page_numkeys two_root →
    Resolves (sample_txn two_pages) (node_get_pgno (two_root.mp_nodes.getD i default))
      (child_page (sample_txn two_pages) two_root i) := by
  intro i hi
  have h4 : page_numkeys two_root = 2 := by decide
  have h5 : i = 0 ∨ i = 1 := by omega
  rcases h5 with h | h <;> subst h <;> exact ⟨by rfl, by rfl⟩

/-- C5: on a branch page with at least two entries whose keys from index 1 on
are sorted strictly ascending, one iteration of page_search_root without
FIRST and LAST descends into the child at index `c`, the largest index from
1 on whose key is not greater than the search key, or 0 when there is none:
the child page is fetched and pushed and index `c` is left in the frame of the
branch page.  The assertion `i > 0` holds: without `MDBX_PS_MODIFY` the
iteration goes on with the child page. The comparer is taken to return values that fit an `int` (`CmpInt`): the
code stores its `ptrdiff_t` result in an `int`. -/
theorem C5_page_search_root_branch_child (page_touch : page_touch_t) (flags : Nat)
    (key : MDBX_iov) {txn : MDBX_txn} {mc : cursor_t} {pg : page_t}
    (hc : CmpOK (cursor_key_comparer mc)) (hci : CmpInt (cursor_key_comparer mc)) (hb : BranchOK (cursor_key_comparer mc) pg)
    (hres : ∀ i, i < page_numkeys pg →
      Resolves txn (node_get_pgno (pg.mp_nodes.getD i default)) (child_page txn pg i))
    (hpg : mc.pg mc.mc_top = some pg)
    (hst : StackOK mc) (hsn : mc.mc_snum < CURSOR_STACK) (htop : mc.mc_top < CURSOR_STACK)
    (hfl : tst flags (MDBX_PS_FIRST ||| MDBX_PS_LAST) = false) :
    ∃ c : Nat, c < page_numkeys pg ∧
      (c ≠ 0 → 0 ≤ cursor_key_comparer mc key (key_at pg c)) ∧
      (∀ j, c < j → j < page_numkeys pg → cursor_key_comparer mc key (key_at pg j) < 0) ∧
      page_search_root_step page_touch (some key) flags txn mc pg =
        page_search_root_ready page_touch flags txn
          (frame_push (frame_ki mc mc.mc_top c) (child_page txn pg c)) (child_page txn pg c) ∧
      (tst flags MDBX_PS_MODIFY = false →
        page_search_root_step page_touch (some key) flags txn mc pg =
          some (.next txn (frame_push (frame_ki mc mc.mc_top c) (child_page txn pg c))
            (child_page txn pg c))) := by
  obtain ⟨h1, h2⟩ := page_search_root_step_key page_touch flags key hc hci hb hres hpg hst hsn htop hfl
  have h3 := (Nat.findGreatest_eq_iff (P := fun i => 0 ≤ cursor_key_comparer mc key (key_at pg i))
    (k := page_numkeys pg - 1) (m := search_pick (cursor_key_comparer mc) key pg)).1 rfl
  refine ⟨search_pick (cursor_key_comparer mc) key pg, h1, h3.2.1, ?_, h2, ?_⟩
  · intro j hj hjn
    have h4 := h3.2.2 hj (by omega)
    simpa using h4
  · intro hf
    rw [h2, page_search_root_ready_plain page_touch txn _ _ hf]

theorem C5_page_search_root_branch_child_witness :
    ∃ c : Nat, c < page_numkeys two_root ∧
      (c ≠ 0 → 0 ≤ cmp_lex k_beta (key_at two_root c)) ∧
      (∀ j, c < j → j < page_numkeys two_root → cmp_lex k_beta (key_at two_root j) < 0) ∧
      page_search_root_step sample_touch (some k_beta) 0 (sample_txn two_pages)
          (sample_cursor (sample_aht 0 4) 0 [(two_root, 0)]) two_root =
        page_search_root_ready sample_touch 0 (sample_txn two_pages)
          (frame_push (frame_ki (sample_cursor (sample_aht 0 4) 0 [(two_root, 0)]) 0 c)
            (child_page (sample_txn two_pages) two_root c))
          (child_page (sample_txn two_pages) two_root c) ∧
      (tst 0 MDBX_PS_MODIFY = false →
        page_search_root_step sample_touch (some k_beta) 0 (sample_txn two_pages)
            (sample_cursor (sample_aht 0 4) 0 [(two_root, 0)]) two_root =
          some (.next (sample_txn two_pages)
            (frame_push (frame_ki (sample_cursor (sample_aht 0 4) 0 [(two_root, 0)]) 0 c)
              (child_page (sample_txn two_pages) two_root c))
            (child_page (sample_txn two_pages) two_root c))) :=
  @C5_page_search_root_branch_child sample_touch 0 k_beta (sample_txn two_pages)
    (sample_cursor (sample_aht 0 4) 0 [(two_root, 0)]) two_root
    cmp_lex_ok cmp_lex_int two_root_branch two_root_resolves (by rfl) ⟨by decide, by decide⟩
    (by decide) (by decide) (by decide)

/-! ## Stacks of frames -/

theorem HasStack.set_pg {pgs : List (Option page_t)} {kis : List indx_t} {fs : frames_t}
    (h : HasStack pgs kis fs) {n : Nat} (hn : fs.length ≤ n) (x : Option page_t) :
    HasStack (pgs.set n x) kis fs := by
  induction fs with
  | nil => trivial
  | cons f fs ih =>
    simp only [List.length_cons] at hn
    obtain ⟨h1, h2, h3⟩ := h
    refine ⟨?_, h2, ih h3 (by omega)⟩
    rw [List.getElem?_set_ne (by omega)]
    exact h1

theorem HasStack.set_ki {pgs : List (Option page_t)} {kis : List indx_t} {fs : frames_t}
    (h : HasStack pgs kis fs) {n : Nat} (hn : fs.length ≤ n) (x : indx_t) :
    HasStack pgs (kis.set n x) fs := by
  induction fs with
  | nil => trivial
  | cons f fs ih =>
    simp only [List.length_cons] at hn
    obtain ⟨h1, h2, h3⟩ := h
    refine ⟨h1, ?_, ih h3 (by omega)⟩
    rw [List.getElem?_set_ne (by omega)]
    exact h2

theorem OnStack.pg_top {mc : cursor_t} {f : page_t × Nat} {fs : frames_t}
    (h : OnStack mc (f :: fs)) : mc.pg mc.mc_top = some f.1 := by
  have h1 := h.top
  simp only [List.length_cons] at h1
  have h2 : mc.mc_top = fs.length := by omega
  unfold cursor_t.pg
  rw [h2, h.frames.1]
  rfl

theorem OnStack.ki_top {mc : cursor_t} {f : page_t × Nat} {fs : frames_t}
    (h : OnStack mc (f :: fs)) : mc.ki mc.mc_top = some f.2 := by
  have h1 := h.top
  simp only [List.length_cons] at h1
  have h2 : mc.mc_top = fs.length := by omega
  unfold cursor_t.ki
  rw [h2, h.frames.2.1]

theorem OnStack.top_lt {mc : cursor_t} {fs : frames_t} (h : OnStack mc fs) :
    mc.mc_top < CURSOR_STACK := by
  have h1 := h.top
  have h2 := h.le
  omega

/-- Storing an index in the top frame. -/
theorem OnStack.frame_ki {mc : cursor_t} {f : page_t × Nat} {fs : frames_t}
    (h : OnStack mc (f :: fs)) (k : Nat) :
    OnStack (Mdbx.frame_ki mc mc.mc_top k) ((f.1, k) :: fs) := by
  have h1 := h.top
  have h3 := h.le
  simp only [List.length_cons] at h1 h3
  have h2 : mc.mc_top = fs.length := by omega
  have hk := h.ok.2
  refine ⟨frame_ki_stack h.ok _ _, h.snum, h.top, h.le, ?_, ?_, ?_⟩
  · exact h.frames.1
  · show (mc.mc_ki.set mc.mc_top k)[fs.length]? = some k
    rw [h2, List.getElem?_set_self (by rw [hk]; omega)]
  · exact h.frames.2.2.set_ki (by omega) k

/-- Pushing a page. -/
theorem OnStack.frame_push {mc : cursor_t} {fs : frames_t} (h : OnStack mc fs)
    (hl : fs.length < CURSOR_STACK) (mp : page_t) :
    OnStack (Mdbx.frame_push mc mp) ((mp, 0) :: fs) := by
  have hk := h.ok.2
  have hp := h.ok.1
  have hs := h.snum
  refine ⟨frame_push_stack h.ok _, ?_, ?_, ?_, ?_, ?_, ?_⟩
  · simp [Mdbx.frame_push, hs]
  · simp [Mdbx.frame_push, hs]
  · simp only [List.length_cons]; omega
  · show (mc.mc_pg.set mc.mc_snum (some mp))[fs.length]? = some (some mp)
    rw [hs, List.getElem?_set_self (by rw [hp]; omega)]
  · show (mc.mc_ki.set mc.mc_snum 0)[fs.length]? = some 0
    rw [hs, List.getElem?_set_self (by rw [hk]; omega)]
  · exact (h.frames.set_pg (by omega) _).set_ki (by omega) _

/-- The cursor after a descent has the frames of the descent. -/
theorem OnStack.descend (txn : MDBX_txn) (pick : page_t → Nat) :
    ∀ (l : Nat) (mc : cursor_t) (pg : page_t) (k : Nat) (S : frames_t),
      OnStack mc ((pg, k) :: S) → S.length + 1 + l ≤ CURSOR_STACK →
      OnStack (Mdbx.descend txn pick l mc pg) (descend_stack txn pick l pg k S) ∧
      (Mdbx.descend txn pick l mc pg).mc_aht = mc.mc_aht ∧
      (Mdbx.descend txn pick l mc pg).mc_state8 = mc.mc_state8 ∧
      (Mdbx.descend txn pick l mc pg).mc_kind8 = mc.mc_kind8 := by
  intro l
  induction l with
  | zero => intro mc pg k S h _; exact ⟨h, rfl, rfl, rfl⟩
  | succ l ih =>
    intro mc pg k S h hl
    have h1 := (h.frame_ki (pick pg)).frame_push (by simp only [List.length_cons]; omega)
      (child_page txn pg (pick pg))
    have h2 := ih _ (child_page txn pg (pick pg)) 0 _ h1 (by simp only [List.length_cons]; omega)
    exact h2

/-! ## Paths in a tree -/

theorem Chain.wf {txn : MDBX_txn} {cmp : MDBX_comparer} {P : node_t → Prop} {root : page_t} :
    ∀ (fs : frames_t) (f : page_t × Nat) (l : Nat) (lo hi : Option MDBX_iov),
      Chain txn cmp P root l lo hi (f :: fs) → WFTree txn cmp P l f.1 lo hi := by
  intro fs
  induction fs with
  | nil =>
    intro f l lo hi h
    obtain ⟨h1, h2, h3, h4⟩ := h
    rw [h1, h2, h3]
    exact h4
  | cons g fs ih =>
    intro f l lo hi h
    obtain ⟨h1, h2, lo2, hi2, h3, h4, h5⟩ := h
    have h6 := ih g (l + 1) lo2 hi2 h3
    rw [h1, h4, h5]
    exact h6.child h2

/-- The index of the top frame does not matter for the path. -/
theorem Chain.top_ki {txn : MDBX_txn} {cmp : MDBX_comparer} {P : node_t → Prop}
    {root : page_t} {fs : frames_t} {pg : page_t} {k : Nat} {l : Nat} {lo hi : Option MDBX_iov}
    (h : Chain txn cmp P root l lo hi ((pg, k) :: fs)) (k2 : Nat) :
    Chain txn cmp P root l lo hi ((pg, k2) :: fs) := by
  cases fs with
  | nil => exact h
  | cons g fs => exact h

/-- Extending a path by the child at the index of the top frame. -/
theorem Chain.push {txn : MDBX_txn} {cmp : MDBX_comparer} {P : node_t → Prop}
    {root : page_t} {fs : frames_t} {pg : page_t} {i : Nat} {l : Nat} {lo hi : Option MDBX_iov}
    (h : Chain txn cmp P root (l + 1) lo hi ((pg, i) :: fs)) (hi2 : i < page_numkeys pg)
    (k : Nat) :
    Chain txn cmp P root l (if i = 0 then lo else some (key_at pg i))
      (if i + 1 < page_numkeys pg then some (key_at pg (i + 1)) else hi)
      ((child_page txn pg i, k) :: (pg, i) :: fs) :=
  ⟨rfl, hi2, lo, hi, h, rfl, rfl⟩

theorem Chain.tail {txn : MDBX_txn} {cmp : MDBX_comparer} {P : node_t → Prop}
    {root : page_t} {fs : frames_t} {f g : page_t × Nat} {l : Nat} {lo hi : Option MDBX_iov}
    (h : Chain txn cmp P root l lo hi (f :: g :: fs)) :
    ∃ lo2 hi2, Chain txn cmp P root (l + 1) lo2 hi2 (g :: fs) :=
  let ⟨_, _, lo2, hi2, h3, _, _⟩ := h
  ⟨lo2, hi2, h3⟩

/-- The shape of the frames after a move to the right sibling. -/
theorem right_sibling_shape {txn : MDBX_txn} {cmp : MDBX_comparer} {P : node_t → Prop}
    {root : page_t} :
    ∀ (S : frames_t) (f g : page_t × Nat) (l : Nat) (lo hi : Option MDBX_iov) (T : frames_t),
      Chain txn cmp P root (l + 1) lo hi (g :: S) →
      right_sibling txn (f :: g :: S) = some T →
      ∃ p ps, T = (child_page txn p.1 p.2, 0) :: p :: ps ∧ p.2 < page_numkeys p.1 ∧
        ps.length = S.length ∧
        ∃ lo2 hi2, Chain txn cmp P root (l + 1) lo2 hi2 (p :: ps) := by
  intro S
  induction S with
  | nil =>
    intro f g l lo hi T hc hr
    unfold right_sibling at hr
    by_cases hk : g.2 + 1 ≥ page_numkeys g.1
    · rw [if_pos hk] at hr
      simp [right_sibling] at hr
    · rw [if_neg hk] at hr
      injection hr with hr
      exact ⟨(g.1, g.2 + 1), [], hr.symm, by simp only; omega, rfl, lo, hi, hc.top_ki _⟩
  | cons g2 S ih =>
    intro f g l lo hi T hc hr
    unfold right_sibling at hr
    by_cases hk : g.2 + 1 ≥ page_numkeys g.1
    · rw [if_pos hk] at hr
      obtain ⟨lo2, hi2, hc2⟩ := hc.tail
      cases hrs : right_sibling txn (g :: g2 :: S) with
      | none => rw [hrs] at hr; simp at hr
      | some T2 =>
        obtain ⟨p, ps, hT, hp, hlen, lo3, hi3, hc3⟩ := ih g g2 (l + 1) lo2 hi2 T2 hc2 hrs
        rw [hrs, hT] at hr
        injection hr with hr
        refine ⟨(child_page txn p.1 p.2, 0), p :: ps, hr.symm, ?_, by simp [hlen], ?_⟩
        · have hb := (Chain.wf _ _ _ _ _ (hc3.push hp 0)).branch
          have h2 : 2 ≤ page_numkeys (child_page txn p.1 p.2) := hb.two
          show 0 < page_numkeys (child_page txn p.1 p.2)
          omega
        · exact ⟨_, _, hc3.push hp 0⟩
    · rw [if_neg hk] at hr
      injection hr with hr
      exact ⟨(g.1, g.2 + 1), g2 :: S, hr.symm, by simp only; omega, rfl, lo, hi, hc.top_ki _⟩

/-! ## cursor_sibling -/

theorem OnStack.pop {mc : cursor_t} {f g : page_t × Nat} {fs : frames_t}
    (h : OnStack mc (f :: g :: fs)) :
    cursor_pop mc = { mc with mc_snum := mc.mc_snum - 1, mc_top := mc.mc_top - 1 } ∧
    OnStack { mc with mc_snum := mc.mc_snum - 1, mc_top := mc.mc_top - 1 } (g :: fs) := by
  have h1 := h.snum
  have h2 := h.top
  have h3 := h.le
  simp only [List.length_cons] at h1 h2 h3
  constructor
  · unfold cursor_pop
    have h4 : mc.mc_snum ≠ 0 := by omega
    have h5 : mc.mc_snum - 1 ≠ 0 := by omega
    have h6 : to_unsigned ((mc.mc_top : Int) - 1) = mc.mc_top - 1 := by
      unfold to_unsigned
      have h7 : ((mc.mc_top : Int) - 1) % 4294967296 = ((mc.mc_top - 1 : Nat) : Int) := by
        unfold CURSOR_STACK at h3
        omega
      rw [h7, Int.toNat_natCast]
    simp only [h4, h5, ne_eq, not_false_eq_true, if_true, h6]
  · refine ⟨h.ok, ?_, ?_, ?_, h.frames.2.2⟩
    · simp only [List.length_cons]; omega
    · simp only [List.length_cons]; omega
    · simp only [List.length_cons]; omega

/-- The tail of cursor_sibling on a branch page: the child under the index of
the top frame is fetched and pushed. -/
theorem cursor_sibling_down_right {cmp : MDBX_comparer} {txn : MDBX_txn} {mc : cursor_t}
    {p : page_t × Nat} {ps : frames_t} (h : OnStack mc (p :: ps)) (hb : BranchOK cmp p.1)
    (hp : p.2 < page_numkeys p.1)
    (hr : Resolves txn (node_get_pgno (p.1.mp_nodes.getD p.2 default)) (child_page txn p.1 p.2))
    (hl : ps.length + 1 < CURSOR_STACK) :
    cursor_sibling_down true txn mc =
      some { rc := MDBX_SUCCESS, txn := txn, mc := frame_push mc (child_page txn p.1 p.2) } := by
  have h1 : (page_get txn (node_get_pgno (p.1.mp_nodes.getD p.2 default))).txn = txn := hr.txn_eq
  have hs := h.snum
  simp only [List.length_cons] at hs
  unfold cursor_sibling_down
  rw [h.pg_top, h.ki_top]
  simp only [hb.is_branch, not_true_eq_false, if_false, hb.deref_node hp, hr.1, ne_eq, hr.2, h1]
  rw [cursor_push_ok txn _ h.ok (by omega)]

/-- The frames after a move to the right sibling are a path again, of the
same length, with index 0 in the top frame. -/
theorem right_sibling_chain {txn : MDBX_txn} {cmp : MDBX_comparer} {P : node_t → Prop}
    {root : page_t} {fs T : frames_t} {l : Nat} {lo hi : Option MDBX_iov}
    (hc : Chain txn cmp P root l lo hi fs) (hr : right_sibling txn fs = some T) :
    ∃ q qs lo2 hi2, T = (q, 0) :: qs ∧ Chain txn cmp P root l lo2 hi2 T ∧
      T.length = fs.length := by
  cases fs with
  | nil => simp [right_sibling] at hr
  | cons f fs =>
    cases fs with
    | nil => simp [right_sibling] at hr
    | cons g S =>
      obtain ⟨lo2, hi2, hc2⟩ := hc.tail
      obtain ⟨p, ps, hT, hp, hlen, lo3, hi3, hc3⟩ := right_sibling_shape S f g l lo2 hi2 T hc2 hr
      subst hT
      exact ⟨child_page txn p.1 p.2, p :: ps, _, _, rfl, hc3.push hp 0, by simp [hlen]⟩

/-- The search of cursor_sibling for the right sibling: on a path in a
well-formed tree it ends with the frames `right_sibling` gives, and when
there is no sibling it returns `MDBX_NOTFOUND` and leaves the cursor as it
was. -/
theorem cursor_sibling_rec_right {txn : MDBX_txn} {cmp : MDBX_comparer} {P : node_t → Prop}
    {root : page_t} :
    ∀ (fs : frames_t) (mc : cursor_t) (fuel l : Nat) (lo hi : Option MDBX_iov),
      OnStack mc fs → Chain txn cmp P root l lo hi fs → fs.length ≤ fuel →
      (right_sibling txn fs = none ∧
        cursor_sibling_rec true fuel txn mc =
          some { rc := MDBX_NOTFOUND, txn := txn, mc := mc }) ∨
      (∃ T mc2, right_sibling txn fs = some T ∧
        cursor_sibling_rec true fuel txn mc =
          some { rc := MDBX_SUCCESS, txn := txn, mc := mc2 } ∧
        OnStack mc2 T ∧ mc2.mc_aht = mc.mc_aht ∧ mc2.mc_state8 = mc.mc_state8 ∧
        mc2.mc_kind8 = mc.mc_kind8) := by
  intro fs
  induction fs with
  | nil => intro mc fuel l lo hi _ hc _; exact absurd hc (by simp [Chain])
  | cons f fs ih =>
    intro mc fuel l lo hi hs hc hf
    cases fs with
    | nil =>
      left
      have h1 : mc.mc_snum < 2 := by rw [hs.snum]; simp
      refine ⟨rfl, ?_⟩
      cases fuel with
      | zero => simp [cursor_sibling_rec, h1]
      | succ fuel => simp [cursor_sibling_rec, h1]
    | cons g S =>
      have hsn := hs.snum
      have htp := hs.top
      have hle := hs.le
      simp only [List.length_cons] at hsn htp hle hf
      have h1 : ¬ mc.mc_snum < 2 := by omega
      obtain ⟨hpop, hs2⟩ := hs.pop
      obtain ⟨lo2, hi2, hc2⟩ := hc.tail
      have hb := (hc2.wf).branch
      cases fuel with
      | zero => omega
      | succ fuel =>
        rw [cursor_sibling_rec, if_neg h1]
        simp only [hpop, hs2.pg_top, hs2.ki_top, if_true]
        by_cases hk : g.2 + 1 ≥ page_numkeys g.1
        · simp only [hk, decide_True, if_true]
          rcases ih _ fuel (l + 1) lo2 hi2 hs2 hc2 (by simp only [List.length_cons]; omega) with
            ⟨hn, hrec⟩ | ⟨T, mc2, hT, hrec, hs3, ha, hst, hkd⟩
          · left
            refine ⟨by simp [right_sibling, hk, hn], ?_⟩
            rw [hrec]
            simp only [ne_eq, show ¬ MDBX_NOTFOUND = MDBX_SUCCESS by decide, not_false_eq_true,
              if_true]
            have e1 : mc.mc_top - 1 + 1 = mc.mc_top := by omega
            have e2 : mc.mc_snum - 1 + 1 = mc.mc_snum := by omega
            simp only [e1, e2]
          · right
            obtain ⟨q, qs, lo3, hi3, hTe, hc3, hlen⟩ := right_sibling_chain hc2 hT
            subst hTe
            have hw := hc3.wf
            have hb3 := hw.branch
            have h2 : 2 ≤ page_numkeys q := hb3.two
            have h0 : (0 : Nat) < page_numkeys q := by omega
            simp only [List.length_cons] at hlen
            have hdn := cursor_sibling_down_right (p := (q, 0)) hs3 hb3 h0 (hw.resolves h0)
              (by omega)
            refine ⟨(child_page txn q 0, 0) :: (q, 0) :: qs, _, by simp [right_sibling, hk, hT],
              ?_, hs3.frame_push (by simp only [List.length_cons]; omega) _, ?_, ?_, ?_⟩
            · rw [hrec]
              simp only [ne_eq, not_true_eq_false, if_false]
              exact hdn
            · exact ha
            · exact hst
            · exact hkd
        · right
          have hk2 : g.2 + 1 < page_numkeys g.1 := by omega
          simp only [hk, decide_False, Bool.false_eq_true, if_false]
          have hnk := page_numkeys_lt hb.lower
          rw [to_indx_succ g.2 (by omega), set_ki_eq hs2.ok hs2.top_lt]
          have hs3 := hs2.frame_ki (g.2 + 1)
          have hdn := cursor_sibling_down_right (p := (g.1, g.2 + 1)) hs3 hb hk2
            ((hc2.wf).resolves hk2) (by omega)
          refine ⟨(child_page txn g.1 (g.2 + 1), 0) :: (g.1, g.2 + 1) :: S, _,
            by simp [right_sibling, hk], hdn,
            hs3.frame_push (by simp only [List.length_cons]; omega) _, rfl, rfl, rfl⟩

/-! ## The entries after a position -/

theorem tree_nodes_succ (txn : MDBX_txn) (l : Nat) (pg : page_t) (h : 0 < page_numkeys pg) :
    tree_nodes txn (l + 1) pg =
      tree_nodes txn l (child_page txn pg 0) ++ after_frame txn (l + 1) (pg, 0) := by
  obtain ⟨n, hn⟩ : ∃ n, page_numkeys pg = n + 1 := ⟨page_numkeys pg - 1, by omega⟩
  show (List.range (page_numkeys pg)).flatMap _ =
    _ ++ (List.range' (0 + 1) (page_numkeys pg - (0 + 1))).flatMap _
  simp only [hn, List.range_eq_range', Nat.zero_add, Nat.add_sub_cancel]
  rw [List.range'_succ]
  simp

theorem after_frame_step (txn : MDBX_txn) (l : Nat) (pg : page_t) (k : Nat)
    (h : k + 1 < page_numkeys pg) :
    after_frame txn (l + 1) (pg, k) =
      tree_nodes txn l (child_page txn pg (k + 1)) ++ after_frame txn (l + 1) (pg, k + 1) := by
  unfold after_frame
  obtain ⟨n, hn⟩ : ∃ n, page_numkeys pg - (k + 1) = n + 1 :=
    ⟨page_numkeys pg - (k + 1) - 1, by omega⟩
  have h2 : page_numkeys pg - (k + 1 + 1) = n := by omega
  simp only [hn, h2]
  rw [List.range'_succ]
  simp

theorem after_frame_last (txn : MDBX_txn) (l : Nat) (pg : page_t) (k : Nat)
    (h : k + 1 ≥ page_numkeys pg) : after_frame txn (l + 1) (pg, k) = [] := by
  unfold after_frame
  have h2 : page_numkeys pg - (k + 1) = 0 := by omega
  simp [h2]

theorem after_leaf_step (txn : MDBX_txn) (pg : page_t) (k : Nat)
    (h : k + 1 < pg.mp_nodes.length) :
    after_frame txn 0 (pg, k) =
      pg.mp_nodes.getD (k + 1) default :: after_frame txn 0 (pg, k + 1) := by
  unfold after_frame
  simp only
  rw [List.drop_eq_getElem_cons h, List.getD_eq_getElem _ _ h]

theorem after_leaf_last (txn : MDBX_txn) (pg : page_t) (k : Nat)
    (h : k + 1 ≥ pg.mp_nodes.length) : after_frame txn 0 (pg, k) = [] := by
  unfold after_frame
  simp only
  exact List.drop_eq_nil_of_le h

theorem leaf_nodes_first (txn : MDBX_txn) (pg : page_t) (h : 0 < pg.mp_nodes.length) :
    tree_nodes txn 0 pg = pg.mp_nodes.getD 0 default :: after_frame txn 0 (pg, 0) := by
  unfold tree_nodes
  unfold after_frame
  simp only [Nat.zero_add]
  generalize pg.mp_nodes = xs at h
  cases xs with
  | nil => simp at h
  | cons a as => simp

/-- The entries from the position of a leftmost descent on: the entries of
the subtree, then the entries after the frames below. -/
theorem first_descent_entries {txn : MDBX_txn} {cmp : MDBX_comparer} {P : node_t → Prop} :
    ∀ (l : Nat) (pg : page_t) (k : Nat) (S : frames_t) (lo hi : Option MDBX_iov),
      WFTree txn cmp P l pg lo hi →
      ∃ leaf k2 R, descend_stack txn first_pick l pg k S = (leaf, k2) :: R ∧
        (l ≠ 0 → k2 = 0) ∧ (l = 0 → k2 = k) ∧
        leaf.mp_nodes.getD 0 default :: following txn 0 ((leaf, 0) :: R) =
          tree_nodes txn l pg ++ following txn (l + 1) S := by
  intro l
  induction l with
  | zero =>
    intro pg k S lo hi hw
    have hl := hw.leaf
    refine ⟨pg, k, S, rfl, fun h => absurd rfl h, fun _ => rfl, ?_⟩
    rw [leaf_nodes_first txn pg (by rw [hl.nodes]; exact hl.nonempty)]
    rfl
  | succ l ih =>
    intro pg k S lo hi hw
    have hb := hw.branch
    have h0 : 0 < page_numkeys pg := by have := hb.two; omega
    obtain ⟨leaf, k2, R, h1, h2, h3, h4⟩ :=
      ih (child_page txn pg 0) 0 ((pg, 0) :: S) _ _ (hw.child h0)
    refine ⟨leaf, k2, R, h1, ?_, fun h => absurd h (by omega), ?_⟩
    · intro _
      by_cases hl : l = 0
      · rw [h3 hl]
      · exact h2 hl
    · rw [h4, tree_nodes_succ txn l pg h0]
      simp [following]

/-- The entries after a position whose path turns to the right sibling. -/
theorem right_sibling_entries {txn : MDBX_txn} {cmp : MDBX_comparer} {P : node_t → Prop}
    {root : page_t} :
    ∀ (R : frames_t) (f : page_t × Nat) (l : Nat) (lo hi : Option MDBX_iov),
      (R ≠ [] → Chain txn cmp P root (l + 1) lo hi R) →
      (right_sibling txn (f :: R) = none → following txn (l + 1) R = []) ∧
      (∀ T, right_sibling txn (f :: R) = some T →
        ∃ q qs, T = (q, 0) :: qs ∧
          tree_nodes txn l q ++ following txn (l + 1) qs = following txn (l + 1) R) := by
  intro R
  induction R with
  | nil =>
    intro f l lo hi _
    exact ⟨fun _ => rfl, fun T h => by simp [right_sibling] at h⟩
  | cons g S ih =>
    intro f l lo hi hc
    have hc := hc (by simp)
    have hb := (hc.wf).branch
    have ih2 := ih g (l + 1)
    by_cases hk : g.2 + 1 ≥ page_numkeys g.1
    · have hfol : following txn (l + 1) (g :: S) = following txn (l + 2) S := by
        show after_frame txn (l + 1) (g.1, g.2) ++ _ = _
        rw [after_frame_last txn l g.1 g.2 hk]; rfl
      have hch : S ≠ [] → ∃ lo2 hi2, Chain txn cmp P root (l + 2) lo2 hi2 S := by
        intro hne
        cases S with
        | nil => exact absurd rfl hne
        | cons g2 S2 => exact hc.tail
      constructor
      · intro hr
        rw [hfol]
        cases hrs : right_sibling txn (g :: S) with
        | none =>
          by_cases hne : S = []
          · subst hne; rfl
          · obtain ⟨lo2, hi2, hc2⟩ := hch hne
            exact (ih2 lo2 hi2 (fun _ => hc2)).1 hrs
        | some T2 =>
          have hne : S ≠ [] := by
            intro h; subst h; simp [right_sibling] at hrs
          obtain ⟨lo2, hi2, hc2⟩ := hch hne
          obtain ⟨q, qs, hq, _⟩ := (ih2 lo2 hi2 (fun _ => hc2)).2 T2 hrs
          subst hq
          simp [right_sibling, hk, hrs] at hr
      · intro T hr
        cases hrs : right_sibling txn (g :: S) with
        | none => simp [right_sibling, hk, hrs] at hr
        | some T2 =>
          have hne : S ≠ [] := by
            intro h; subst h; simp [right_sibling] at hrs
          obtain ⟨lo2, hi2, hc2⟩ := hch hne
          obtain ⟨q, qs, hq, he⟩ := (ih2 lo2 hi2 (fun _ => hc2)).2 T2 hrs
          subst hq
          obtain ⟨q2, qs2, lo3, hi3, hT2, hc3, _⟩ := right_sibling_chain hc hrs
          have hq0 : 0 < page_numkeys q := by
            have h2 : 2 ≤ page_numkeys q := by
              injection hT2 with h5 h6
              injection h5 with h7 h8
              subst h7
              exact (hc3.wf).branch.two
            omega
          simp only [right_sibling, hk, hrs, ge_iff_le, if_true] at hr
          injection hr with hr
          refine ⟨child_page txn q 0, (q, 0) :: qs, hr.symm, ?_⟩
          rw [hfol, ← he, tree_nodes_succ txn l q hq0]
          simp [following]
    · have hk2 : g.2 + 1 < page_numkeys g.1 := by omega
      constructor
      · intro hr
        simp [right_sibling, hk] at hr
      · intro T hr
        simp only [right_sibling, hk, if_false] at hr
        injection hr with hr
        refine ⟨child_page txn g.1 (g.2 + 1), (g.1, g.2 + 1) :: S, hr.symm, ?_⟩
        show _ ++ (after_frame txn (l + 1) (g.1, g.2 + 1) ++ _) =
          after_frame txn (l + 1) (g.1, g.2) ++ _
        rw [after_frame_step txn l g.1 g.2 hk2]
        simp

/-! ## page_search on a well-formed tree -/

/-- A search from the root of a well-formed tree, for any rule `pick` of
choosing the child that one iteration of page_search_root implements: the
search succeeds and leaves the frames of the descent. -/
theorem page_search_ok {txn : MDBX_txn} {P : node_t → Prop} {h : Nat} {root : page_t}
    {mc : cursor_t} (page_touch : page_touch_t) (key : Option MDBX_iov) (flags : Nat)
    (pick : page_t → Nat)
    (hfm : tst flags MDBX_PS_MODIFY = false) (hfr : tst flags MDBX_PS_ROOTONLY = false)
    (hwf : WFAA txn mc.mc_aht P h root) (hst : StackOK mc) (hroot : RootOK mc root)
    (hstep : ∀ (mc2 : cursor_t) (pg : page_t) (h2 : Nat) (lo hi : Option MDBX_iov),
      WFTree txn mc.mc_aht.ahe.ax_kcmp P (h2 + 1) pg lo hi → StackOK mc2 →
      mc2.mc_snum < CURSOR_STACK → mc2.mc_top + 1 = mc2.mc_snum → mc2.pg mc2.mc_top = some pg →
      mc2.mc_state8 = mc.mc_state8 → mc2.mc_aht = mc.mc_aht →
      pick pg < page_numkeys pg ∧
      page_search_root_step page_touch key flags txn mc2 pg =
        some (.next txn (frame_push (frame_ki mc2 mc2.mc_top (pick pg))
          (child_page txn pg (pick pg))) (child_page txn pg (pick pg)))) :
    ∃ mc3 k0, page_search page_touch txn mc key flags =
        some { rc := MDBX_SUCCESS, txn := txn, mc := mc3 } ∧
      OnStack mc3 (descend_stack txn pick h root k0 []) ∧
      mc3.mc_aht = mc.mc_aht ∧
      mc3.mc_state8 = clr8 (mc.mc_state8 ||| C_INITIALIZED) C_EOF ∧
      mc3.mc_kind8 = mc.mc_kind8 := by
  have hlive := hwf.live
  have hvalid := hwf.valid
  have hge := hwf.root_ge
  have hdepth := hwf.depth
  have hne : ¬ mc.mc_aht.aa.root = P_INVALID := by
    intro he
    rw [he] at hge
    exact absurd hge (by decide)
  obtain ⟨k0, hk0⟩ : ∃ k0, mc.mc_ki[0]? = some k0 := by
    have hl : 0 < mc.mc_ki.length := by rw [hst.2]; decide
    exact ⟨mc.mc_ki[0], List.getElem?_eq_getElem hl⟩
  -- the cursor with the root page in frame 0
  have htail : ∀ mc1 : cursor_t, StackOK mc1 → mc1.mc_pg[0]? = some (some root) →
      mc1.mc_ki[0]? = some k0 → mc1.mc_aht = mc.mc_aht → mc1.mc_state8 = mc.mc_state8 →
      mc1.mc_kind8 = mc.mc_kind8 →
      ∃ mc3, page_search_tail page_touch txn mc1 key flags =
          some { rc := MDBX_SUCCESS, txn := txn, mc := mc3 } ∧
        OnStack mc3 (descend_stack txn pick h root k0 []) ∧
        mc3.mc_aht = mc.mc_aht ∧
        mc3.mc_state8 = clr8 (mc.mc_state8 ||| C_INITIALIZED) C_EOF ∧
        mc3.mc_kind8 = mc.mc_kind8 := by
    intro mc1 hst1 hpg1 hki1 ha1 hs1 hkd1
    have hon : OnStack { mc1 with mc_snum := 1, mc_top := 0 } [(root, k0)] :=
      ⟨hst1, rfl, rfl, by simp [CURSOR_STACK], hpg1, hki1, trivial⟩
    have hloop := page_search_root_loop_descend page_touch key flags pick mc.mc_state8
      mc.mc_aht (fun _ => True) (fun _ _ _ _ _ => trivial)
      (fun mc2 pg h2 lo hi hw hst2 hsn2 htop2 hpg2 hs2 ha2 _ =>
        hstep mc2 pg h2 lo hi hw hst2 hsn2 htop2 hpg2 hs2 ha2)
      h (CURSOR_STACK + 1) { mc1 with mc_snum := 1, mc_top := 0 } root none none
      hwf.tree hst1 (by show 1 + h ≤ CURSOR_STACK; omega) rfl hon.pg_top hs1 ha1 trivial
      (by omega)
    obtain ⟨hd1, hd2, hd3, hd4⟩ := OnStack.descend txn pick h _ root k0 [] hon
      (by simp only [List.length_nil]; omega)
    refine ⟨{ descend txn pick h { mc1 with mc_snum := 1, mc_top := 0 } root with
      mc_state8 := clr8 (mc.mc_state8 ||| C_INITIALIZED) C_EOF }, ?_, ?_⟩
    · unfold page_search_tail
      simp only [hfm, Bool.false_eq_true, if_false, pure, bind, Option.bind, ne_eq,
        not_true_eq_false, hfr]
      unfold page_search_root
      simp only [hon.pg_top, bind, Option.bind]
      exact hloop
    · exact ⟨⟨hd1.ok, hd1.snum, hd1.top, hd1.le, hd1.frames⟩, hd2.trans ha1, rfl,
        hd4.trans hkd1⟩
  unfold page_search
  rw [hlive]
  simp only [Bool.false_eq_true, if_false, hvalid, not_true_eq_false, hne, ge_iff_le, hge]
  by_cases hcache : page_search_cached mc mc.mc_aht.aa.root = true
  · rw [if_pos hcache]
    obtain ⟨mc3, h1, h2⟩ := htail mc hst (hroot hcache) hk0 rfl rfl rfl
    exact ⟨mc3, k0, h1, h2⟩
  · rw [if_neg hcache]
    have hr := hwf.root_pg
    have h0 : 0 < mc.mc_pg.length := by rw [hst.1]; decide
    simp only [hr.1, ne_eq, not_true_eq_false, if_false, hr.2, cursor_t.set_pg, h0, if_true,
      hr.txn_eq]
    obtain ⟨mc3, h1, h2⟩ := htail { mc with mc_pg := mc.mc_pg.set 0 (some root) }
      ⟨by simp [hst.1], hst.2⟩ (by simp [List.getElem?_set_self h0]) hk0 rfl rfl rfl
    exact ⟨mc3, k0, h1, h2⟩

/-- One iteration of page_search_root under `MDBX_PS_FIRST`: child 0. -/
theorem page_search_root_step_first {cmp : MDBX_comparer} (page_touch : page_touch_t)
    (key : Option MDBX_iov) {txn : MDBX_txn} {mc : cursor_t} {pg : page_t}
    (hb : BranchOK cmp pg)
    (hres : Resolves txn (node_get_pgno (pg.mp_nodes.getD 0 default)) (child_page txn pg 0))
    (hst : StackOK mc) (hsn : mc.mc_snum < CURSOR_STACK) (htop : mc.mc_top < CURSOR_STACK) :
    page_search_root_step page_touch key MDBX_PS_FIRST txn mc pg =
      some (.next txn (frame_push (frame_ki mc mc.mc_top 0) (child_page txn pg 0))
        (child_page txn pg 0)) := by
  have htwo := hb.two
  have hgaco : ¬ (¬ cursor_is_gaco mc = true ∧ ¬ page_numkeys pg > 1) := by
    intro h; omega
  unfold page_search_root_step
  rw [if_neg hgaco, if_pos (by decide), if_neg (by decide)]
  exact page_search_root_descend_ok page_touch hb (by omega) hres hst hsn htop (by decide)

/-- The search for the first leaf of a well-formed tree. -/
theorem page_search_first {txn : MDBX_txn} {P : node_t → Prop} {h : Nat} {root : page_t}
    {mc : cursor_t} (page_touch : page_touch_t) (key : Option MDBX_iov)
    (hwf : WFAA txn mc.mc_aht P h root) (hst : StackOK mc) (hroot : RootOK mc root) :
    ∃ mc3 k0, page_search page_touch txn mc key MDBX_PS_FIRST =
        some { rc := MDBX_SUCCESS, txn := txn, mc := mc3 } ∧
      OnStack mc3 (descend_stack txn first_pick h root k0 []) ∧
      mc3.mc_aht = mc.mc_aht ∧
      mc3.mc_state8 = clr8 (mc.mc_state8 ||| C_INITIALIZED) C_EOF ∧
      mc3.mc_kind8 = mc.mc_kind8 := by
  apply page_search_ok page_touch key MDBX_PS_FIRST first_pick (by decide) (by decide) hwf hst
    hroot
  intro mc2 pg h2 lo hi hw hst2 hsn htop hpg hs ha
  have hb := hw.branch
  have h0 : 0 < page_numkeys pg := by have := hb.two; omega
  exact ⟨h0, page_search_root_step_first page_touch key hb (hw.resolves h0) hst2 hsn
    (by omega)⟩

theorem node_read_plain {txn : MDBX_txn} {n : node_t} (h : PlainNode txn n) (d : MDBX_iov) :
    node_read txn n d = { rc := MDBX_SUCCESS, txn := txn, data := node_data txn n } := by
  unfold node_data node_read
  by_cases hb : tst n.node_flags8 NODE_BIG = true
  · obtain ⟨omp, hr⟩ := h.2 hb
    simp [hb, hr.1, hr.2, hr.txn_eq]
  · simp [hb]

theorem LeafOK.deref_leaf {cmp : MDBX_comparer} {pg : page_t} (hb : LeafOK cmp pg)
    {i : Nat} (hi : i < page_numkeys pg) :
    (node_ptr pg i).bind node_ref.deref = some (pg.mp_nodes.getD i default) :=
  Mdbx.node_ptr_deref hi (le_of_eq hb.nodes.symm)

theorem cur_primal (b : MDBX_cursor) : b.cur 2 = b.primal := rfl

theorem with_cur_primal (b : MDBX_cursor) (mc : cursor_t) :
    b.with_cur 2 mc = { b with primal := mc } := rfl

/-- Reading the entry under the index of the top frame, for an entry without
duplicates. -/
theorem cursor_fetch_plain {txn : MDBX_txn} {cmp : MDBX_comparer} (page_touch : page_touch_t)
    (last : Bool) {b : MDBX_cursor} {leaf : page_t} {k : Nat} {R : frames_t}
    (hon : OnStack b.primal ((leaf, k) :: R)) (hl : LeafOK cmp leaf)
    (hk : k < page_numkeys leaf) (hp : PlainNode txn (leaf.mp_nodes.getD k default))
    (key : Option MDBX_iov) (d : MDBX_iov) :
    cursor_fetch page_touch last 1 txn b leaf key (some d) =
      some { rc := MDBX_SUCCESS, txn := txn, bundle := b,
             key := MDBX_GET_KEY (leaf.mp_nodes.getD k default) key,
             data := some (node_data txn (leaf.mp_nodes.getD k default)) } := by
  have h1 := hl.deref_leaf hk
  generalize leaf.mp_nodes.getD k default = e0 at *
  cases hnp : node_ptr leaf k with
  | none => rw [hnp] at h1; simp at h1
  | some nr =>
    rw [hnp] at h1
    simp only [Option.some_bind] at h1
    have e : b.cur (1 + 1) = b.primal := rfl
    unfold cursor_fetch
    simp [e, hon.ki_top, hl.not_dfl, hl.is_leaf, bind, Option.bind, pure, hnp, h1,
      hp.1, node_read_plain hp]

/-! ## Flag bits -/

theorem tst_1 (x : Nat) : tst x 1 = x.testBit 0 := by
  unfold tst
  have h := Nat.and_two_pow x 0
  simp only [pow_zero] at h
  rw [h]
  cases x.testBit 0 <;> simp

theorem tst_2 (x : Nat) : tst x 2 = x.testBit 1 := by
  unfold tst
  have h := Nat.and_two_pow x 1
  simp only [pow_one] at h
  rw [h]
  cases x.testBit 1 <;> simp

theorem tst_4 (x : Nat) : tst x 4 = x.testBit 2 := by
  unfold tst
  have h := Nat.and_two_pow x 2
  rw [show (2 : Nat) ^ 2 = 4 by decide] at h
  rw [h]
  cases x.testBit 2 <;> simp

/-- The state flags after a search that initializes the cursor. -/
theorem state_init_flags (s : Nat) :
    tst (clr8 (s ||| C_INITIALIZED) C_EOF) C_INITIALIZED = true ∧
    tst (clr8 (s ||| C_INITIALIZED) C_EOF) C_EOF = false ∧
    tst (clr8 (s ||| C_INITIALIZED) C_EOF) C_AFTERDELETE = tst s C_AFTERDELETE := by
  simp only [C_INITIALIZED, C_EOF, C_AFTERDELETE, clr8, tst_1, tst_2, tst_4, Nat.testBit_and,
    Nat.testBit_or, Nat.testBit_xor]
  simp [Nat.testBit_to_div_mod]

theorem state_xor_eof_flags (s : Nat) (h : tst s C_EOF = true) :
    tst (s ^^^ C_EOF) C_INITIALIZED = tst s C_INITIALIZED ∧
    tst (s ^^^ C_EOF) C_EOF = false ∧
    tst (s ^^^ C_EOF) C_AFTERDELETE = tst s C_AFTERDELETE := by
  simp only [C_INITIALIZED, C_EOF, C_AFTERDELETE, clr8, tst_1, tst_2, tst_4, Nat.testBit_and,
    Nat.testBit_or, Nat.testBit_xor] at h ⊢
  simp [Nat.testBit_to_div_mod] at h ⊢
  omega

theorem state_xor_del_flags (s : Nat) (h : tst s C_AFTERDELETE = true) :
    tst (s ^^^ C_AFTERDELETE) C_INITIALIZED = tst s C_INITIALIZED ∧
    tst (s ^^^ C_AFTERDELETE) C_EOF = tst s C_EOF ∧
    tst (s ^^^ C_AFTERDELETE) C_AFTERDELETE = false := by
  simp only [C_INITIALIZED, C_EOF, C_AFTERDELETE, clr8, tst_1, tst_2, tst_4, Nat.testBit_and,
    Nat.testBit_or, Nat.testBit_xor] at h ⊢
  simp [Nat.testBit_to_div_mod] at h ⊢
  omega

theorem state_clr_del_flags (s : Nat) :
    tst (clr8 s C_AFTERDELETE) C_INITIALIZED = tst s C_INITIALIZED ∧
    tst (clr8 s C_AFTERDELETE) C_EOF = tst s C_EOF ∧
    tst (clr8 s C_AFTERDELETE) C_AFTERDELETE = false := by
  simp only [C_INITIALIZED, C_EOF, C_AFTERDELETE, clr8, tst_1, tst_2, tst_4, Nat.testBit_and,
    Nat.testBit_or, Nat.testBit_xor]
  simp [Nat.testBit_to_div_mod]

/-- The frames of a descent from a path are a path that ends on a leaf. -/
theorem descend_chain {txn : MDBX_txn} {cmp : MDBX_comparer} {P : node_t → Prop}
    {root : page_t} (pick : page_t → Nat)
    (hpick : ∀ pg, 2 ≤ page_numkeys pg → pick pg < page_numkeys pg) :
    ∀ (l : Nat) (pg : page_t) (k : Nat) (S : frames_t) (lo hi : Option MDBX_iov),
      Chain txn cmp P root l lo hi ((pg, k) :: S) →
      ∃ lo2 hi2, Chain txn cmp P root 0 lo2 hi2 (descend_stack txn pick l pg k S) := by
  intro l
  induction l with
  | zero => intro pg k S lo hi hc; exact ⟨lo, hi, hc⟩
  | succ l ih =>
    intro pg k S lo hi hc
    have hb := (hc.wf).branch
    have hp := hpick pg hb.two
    exact ih _ 0 _ _ _ ((hc.top_ki (pick pg)).push hp 0)

theorem first_pick_lt (pg : page_t) (h : 2 ≤ page_numkeys pg) : first_pick pg < page_numkeys pg := by
  unfold first_pick; omega

/-- cursor_first on a cursor that is not initialized, over a well-formed
tree without duplicates: the cursor is put on the first entry of the tree,
which is returned. -/
theorem cursor_first_plain {txn : MDBX_txn} {h : Nat} {root : page_t} {b : MDBX_cursor}
    (page_touch : page_touch_t) (key : Option MDBX_iov) (d : MDBX_iov)
    (hk : tst b.primal.mc_kind8 S_HAVESUB = false)
    (hinit : tst b.primal.mc_state8 C_INITIALIZED = false)
    (hwf : WFAA txn b.primal.mc_aht (PlainNode txn) h root) (hst : StackOK b.primal)
    (hroot : RootOK b.primal root) :
    ∃ mc4 leaf R lo hi,
      cursor_first page_touch 2 txn b key (some d) =
        some { rc := MDBX_SUCCESS, txn := txn, bundle := { b with primal := mc4 },
               key := MDBX_GET_KEY (leaf.mp_nodes.getD 0 default) key,
               data := some (node_data txn (leaf.mp_nodes.getD 0 default)) } ∧
      OnStack mc4 ((leaf, 0) :: R) ∧
      Chain txn b.primal.mc_aht.ahe.ax_kcmp (PlainNode txn) root 0 lo hi ((leaf, 0) :: R) ∧
      leaf.mp_nodes.getD 0 default :: following txn 0 ((leaf, 0) :: R) = tree_nodes txn h root ∧
      mc4.mc_aht = b.primal.mc_aht ∧ mc4.mc_kind8 = b.primal.mc_kind8 ∧
      tst mc4.mc_state8 C_INITIALIZED = true ∧ tst mc4.mc_state8 C_EOF = false ∧
      tst mc4.mc_state8 C_AFTERDELETE = tst b.primal.mc_state8 C_AFTERDELETE := by
  obtain ⟨mc3, k0, hps, hon, ha, hs, hkd⟩ := page_search_first page_touch none hwf hst hroot
  obtain ⟨leaf, k2, R, hds, _, _, hent⟩ :=
    first_descent_entries h root k0 [] none none hwf.tree
  obtain ⟨lo, hi, hch⟩ := descend_chain first_pick first_pick_lt h root k0 [] none none
    (show Chain txn b.primal.mc_aht.ahe.ax_kcmp (PlainNode txn) root h none none [(root, k0)]
      from ⟨rfl, rfl, rfl, hwf.tree⟩)
  rw [hds] at hon hch
  have hw := hch.wf
  have hl := hw.leaf
  have h0 := hl.nonempty
  have hpl := hw.2.1 0 h0
  have hon2 : OnStack { mc3 with mc_state8 := clr8 (mc3.mc_state8 ||| C_INITIALIZED) C_EOF }
      ((leaf, k2) :: R) := ⟨hon.ok, hon.snum, hon.top, hon.le, hon.frames⟩
  have hon3 := hon2.frame_ki 0
  have hfl := state_init_flags mc3.mc_state8
  have hfl0 := state_init_flags b.primal.mc_state8
  refine ⟨_, leaf, R, lo, hi, ?_, hon3, hch.top_ki 0, ?_, ha, hkd, hfl.1, hfl.2.1, ?_⟩
  · have h1 := hl.deref_leaf h0
    generalize leaf.mp_nodes.getD 0 default = e0 at *
    cases hnp : node_ptr leaf 0 with
    | none => rw [hnp] at h1; simp at h1
    | some nr =>
      rw [hnp] at h1
      simp only [Option.some_bind] at h1
      have e : b.cur (1 + 1) = b.primal := rfl
      have e2 : ∀ mc, b.with_cur (1 + 1) mc = { b with primal := mc } := fun _ => rfl
      unfold cursor_first
      simp [e, e2, hk, hinit, hps, hon.pg_top, hl.is_leaf, hl.not_dfl, hnp, h1,
        set_ki_eq hon2.ok hon2.top_lt, bind, Option.bind, pure, hpl.1, node_read_plain hpl]
  · rw [hent]; simp [following]
  · exact hfl.2.2.trans (by rw [hs]; exact hfl0.2.2)

/-- The bounds of the frames below the top frame of a path. -/
theorem Chain.tail_chain {txn : MDBX_txn} {cmp : MDBX_comparer} {P : node_t → Prop}
    {root : page_t} {R : frames_t} {f : page_t × Nat} {l : Nat} {lo hi : Option MDBX_iov}
    (h : Chain txn cmp P root l lo hi (f :: R)) :
    ∃ lo2 hi2, R ≠ [] → Chain txn cmp P root (l + 1) lo2 hi2 R := by
  cases R with
  | nil => exact ⟨none, none, fun h => absurd rfl h⟩
  | cons g S =>
    obtain ⟨lo2, hi2, h2⟩ := h.tail
    exact ⟨lo2, hi2, fun _ => h2⟩

/-- The move of cursor_next to the following entry, for a cursor on a path of
a tree without duplicates whose `C_AFTERDELETE` flag is clear: when an entry
follows, the cursor moves to it and it is returned; otherwise the result is
`MDBX_NOTFOUND`, the flag `C_EOF` is set and the frames stay. -/
theorem cursor_next_advance_plain {txn : MDBX_txn} {cmp : MDBX_comparer} {root : page_t}
    {b : MDBX_cursor} {leaf : page_t} {k : Nat} {R : frames_t} {lo hi : Option MDBX_iov}
    (page_touch : page_touch_t) (key : Option MDBX_iov) (d : MDBX_iov)
    (hdel : tst b.primal.mc_state8 C_AFTERDELETE = false)
    (hon : OnStack b.primal ((leaf, k) :: R))
    (hch : Chain txn cmp (PlainNode txn) root 0 lo hi ((leaf, k) :: R)) :
    (following txn 0 ((leaf, k) :: R) = [] →
      cursor_next_advance page_touch 1 leaf key txn b (some d) =
        some { rc := MDBX_NOTFOUND, txn := txn,
               bundle := { b with primal :=
                 { b.primal with mc_state8 := b.primal.mc_state8 ||| C_EOF } },
               key := key, data := some d }) ∧
    (∀ e L, following txn 0 ((leaf, k) :: R) = e :: L →
      ∃ mc2 leaf2 k2 R2 lo2 hi2,
        cursor_next_advance page_touch 1 leaf key txn b (some d) =
          some { rc := MDBX_SUCCESS, txn := txn, bundle := { b with primal := mc2 },
                 key := MDBX_GET_KEY e key, data := some (node_data txn e) } ∧
        OnStack mc2 ((leaf2, k2) :: R2) ∧
        Chain txn cmp (PlainNode txn) root 0 lo2 hi2 ((leaf2, k2) :: R2) ∧
        k2 < page_numkeys leaf2 ∧ e = leaf2.mp_nodes.getD k2 default ∧
        following txn 0 ((leaf2, k2) :: R2) = L ∧
        mc2.mc_aht = b.primal.mc_aht ∧ mc2.mc_kind8 = b.primal.mc_kind8 ∧
        mc2.mc_state8 = b.primal.mc_state8) := by
  have hw := hch.wf
  have hl : LeafOK cmp leaf := hw.leaf
  have hnk := page_numkeys_lt hl.lower
  have hnodes : leaf.mp_nodes.length = page_numkeys leaf := hl.nodes
  have e1 : b.cur (1 + 1) = b.primal := rfl
  have e2 : ∀ mc, b.with_cur (1 + 1) mc = { b with primal := mc } := fun _ => rfl
  have hfol : following txn 0 ((leaf, k) :: R) =
      after_frame txn 0 (leaf, k) ++ following txn 1 R := rfl
  by_cases hk1 : k + 1 ≥ page_numkeys leaf
  · -- the last entry of the page: cursor_sibling
    have hal := after_leaf_last txn leaf k (by rw [hnodes]; exact hk1)
    rw [hal, List.nil_append] at hfol
    obtain ⟨lo3, hi3, hchR⟩ := hch.tail_chain
    have hent := right_sibling_entries R (leaf, k) 0 _ _ hchR
    have hadv : cursor_next_advance page_touch 1 leaf key txn b (some d) =
        match cursor_sibling txn b.primal true with
        | none => none
        | some r =>
          if r.rc ≠ MDBX_SUCCESS then
            some { rc := r.rc, txn := r.txn,
                   bundle := { b with primal := { r.mc with mc_state8 := r.mc.mc_state8 ||| C_EOF } },
                   key := key, data := some d }
          else
            match r.mc.pg r.mc.mc_top with
            | none => none
            | some mp => cursor_fetch page_touch false 1 r.txn { b with primal := r.mc } mp key
                (some d) := by
      unfold cursor_next_advance
      simp only [e1, e2, hon.ki_top, hdel, Bool.false_eq_true, if_false, hk1, if_true]
    rw [hadv]
    unfold cursor_sibling
    rcases cursor_sibling_rec_right _ _ b.primal.mc_snum 0 lo hi hon hch
        (by rw [hon.snum]) with ⟨hn, hrec⟩ | ⟨T, mc2, hT, hrec, hon2, ha, hs, hkd⟩
    · constructor
      · intro _
        rw [hrec]
        simp only [ne_eq, show ¬ MDBX_NOTFOUND = MDBX_SUCCESS by decide, not_false_eq_true,
          if_true]
      · intro e L he
        rw [hfol, hent.1 hn] at he
        exact absurd he (by simp)
    · obtain ⟨q, qs, hTe, hqe⟩ := hent.2 T hT
      obtain ⟨q2, qs2, lo2, hi2, hTe2, hc2, _⟩ := right_sibling_chain hch hT
      subst hTe
      have hwq := hc2.wf
      have hlq : LeafOK cmp q := hwq.leaf
      have hq0 := hlq.nonempty
      have hfq := leaf_nodes_first txn q (by rw [hlq.nodes]; exact hq0)
      have hfol2 : following txn 0 ((leaf, k) :: R) =
          q.mp_nodes.getD 0 default :: following txn 0 ((q, 0) :: qs) := by
        rw [hfol, ← hqe, hfq]; rfl
      constructor
      · intro he
        rw [hfol2] at he
        exact absurd he (by simp)
      · intro e L he
        rw [hfol2] at he
        injection he with he1 he2
        subst he1
        refine ⟨mc2, q, 0, qs, lo2, hi2, ?_, hon2, hc2, hq0, rfl, he2, ha, hkd, hs⟩
        rw [hrec]
        simp only [ne_eq, not_true_eq_false, if_false, hon2.pg_top]
        exact cursor_fetch_plain page_touch false (b := { b with primal := mc2 }) hon2 hlq hq0
          (hwq.2.1 0 hq0) key d
  · -- inside the page
    have hk2 : k + 1 < page_numkeys leaf := by omega
    have has := after_leaf_step txn leaf k (by rw [hnodes]; exact hk2)
    have hfol2 : following txn 0 ((leaf, k) :: R) =
        leaf.mp_nodes.getD (k + 1) default :: following txn 0 ((leaf, k + 1) :: R) := by
      rw [hfol, has]; rfl
    have hon2 := hon.frame_ki (k + 1)
    constructor
    · intro he
      rw [hfol2] at he
      exact absurd he (by simp)
    · intro e L he
      rw [hfol2] at he
      injection he with he1 he2
      subst he1
      refine ⟨_, leaf, k + 1, R, lo, hi, ?_, hon2, hch.top_ki _, hk2, rfl, he2, rfl, rfl, rfl⟩
      unfold cursor_next_advance
      simp only [e1, e2, hon.ki_top, hdel, Bool.false_eq_true, if_false, hk1,
        to_indx_succ k (by omega), set_ki_eq hon.ok hon.top_lt]
      exact cursor_fetch_plain page_touch false
        (b := { b with primal := frame_ki b.primal b.primal.mc_top (k + 1) }) hon2 hl hk2
        (hw.2.1 (k + 1) hk2) key d

theorem OnStack.state {mc : cursor_t} {fs : frames_t} (h : OnStack mc fs) (s : Nat) :
    OnStack { mc with mc_state8 := s } fs := ⟨h.ok, h.snum, h.top, h.le, h.frames⟩

theorem cursor_subordinate_none {b : MDBX_cursor}
    (hk : tst b.primal.mc_kind8 S_HAVESUB = false) : cursor_subordinate b 2 = some none := by
  unfold cursor_subordinate
  rw [cur_primal, hk]
  rfl

/-- cursor_next on an initialized cursor without sub-cursor whose `C_EOF`
flag is clear: the code that moves the index is reached. -/
theorem cursor_next_no_sub {b : MDBX_cursor} {leaf : page_t} {k : Nat}
    {R : frames_t} (page_touch : page_touch_t) (txn : MDBX_txn) (key data : Option MDBX_iov)
    (op : MDBX_cursor_op)
    (hk : tst b.primal.mc_kind8 S_HAVESUB = false)
    (hinit : tst b.primal.mc_state8 C_INITIALIZED = true)
    (heof : tst b.primal.mc_state8 C_EOF = false)
    (hdel : ¬ (tst b.primal.mc_state8 C_AFTERDELETE = true ∧ op = MDBX_NEXT_DUP))
    (hon : OnStack b.primal ((leaf, k) :: R)) :
    cursor_next page_touch 2 txn b key data op =
      cursor_next_advance page_touch 1 leaf key txn b data := by
  have e1 : b.cur (1 + 1) = b.primal := rfl
  have e2 : b.with_cur (1 + 1) b.primal = b := rfl
  unfold cursor_next
  simp only [e1, hdel, if_false, hinit, not_true_eq_false, hon.pg_top, hon.ki_top, heof,
    Bool.false_eq_true, false_and, e2, hk]

theorem cursor_get_next_eq {b : MDBX_cursor} (page_touch : page_touch_t) (txn : MDBX_txn)
    (key data : Option MDBX_iov) (hk : tst b.primal.mc_kind8 S_HAVESUB = false) :
    cursor_get page_touch 2 txn b key data MDBX_NEXT =
      (cursor_next page_touch 2 txn b key data MDBX_NEXT).map (cursor_get_break 2) := by
  rw [show cursor_get page_touch 2 txn b key data MDBX_NEXT =
    (match cursor_subordinate b 2 with
     | none => none
     | some _ => (cursor_next page_touch 2 txn b key data MDBX_NEXT).map (cursor_get_break 2))
    from rfl, cursor_subordinate_none hk]

theorem cursor_get_first_eq {b : MDBX_cursor} (page_touch : page_touch_t) (txn : MDBX_txn)
    (key data : Option MDBX_iov) (hk : tst b.primal.mc_kind8 S_HAVESUB = false) :
    cursor_get page_touch 2 txn b key data MDBX_FIRST =
      (cursor_first page_touch 2 txn b key data).map (cursor_get_break 2) := by
  rw [show cursor_get page_touch 2 txn b key data MDBX_FIRST =
    (match cursor_subordinate b 2 with
     | none => none
     | some _ => (cursor_first page_touch 2 txn b key data).map (cursor_get_break 2))
    from rfl, cursor_subordinate_none hk]

theorem cursor_walk_cons (page_touch : page_touch_t) (op : MDBX_cursor_op) (k : MDBX_iov)
    (rest : List (MDBX_cursor_op × MDBX_iov)) (txn : MDBX_txn) (b : MDBX_cursor) :
    cursor_walk page_touch ((op, k) :: rest) txn b =
      match cursor_get page_touch 2 txn b (some k) (some []) op with
      | none => none
      | some r =>
        (cursor_walk page_touch rest r.txn r.bundle).map (fun l => (r.rc, r.key, r.data) :: l) :=
  rfl

/-- A run of `MDBX_NEXT` operations from a position in a tree without
duplicates delivers the entries after the position in order, and then
`MDBX_NOTFOUND`. -/
theorem cursor_walk_next {txn : MDBX_txn} {cmp : MDBX_comparer} {root : page_t}
    (page_touch : page_touch_t) :
    ∀ (L : List node_t) (b : MDBX_cursor) (leaf : page_t) (k : Nat) (R : frames_t)
      (lo hi : Option MDBX_iov),
      tst b.primal.mc_kind8 S_HAVESUB = false →
      tst b.primal.mc_state8 C_INITIALIZED = true →
      tst b.primal.mc_state8 C_EOF = false →
      tst b.primal.mc_state8 C_AFTERDELETE = false →
      OnStack b.primal ((leaf, k) :: R) →
      Chain txn cmp (PlainNode txn) root 0 lo hi ((leaf, k) :: R) →
      following txn 0 ((leaf, k) :: R) = L →
      cursor_walk page_touch (List.replicate (L.length + 1) (MDBX_NEXT, [])) txn b =
        some (L.map (fun e => (MDBX_SUCCESS, some (NODEKEY e), some (node_data txn e))) ++
          [(MDBX_NOTFOUND, some [], some [])]) := by
  intro L
  induction L with
  | nil =>
    intro b leaf k R lo hi hk hinit heof hdel hon hch hfol
    have hadv := (cursor_next_advance_plain page_touch (some []) [] hdel hon hch).1 hfol
    have hnx := cursor_next_no_sub page_touch txn (some []) (some []) MDBX_NEXT hk hinit
      heof (by simp [hdel]) hon
    rw [List.length_nil, Nat.zero_add, List.replicate_one, cursor_walk_cons,
      cursor_get_next_eq page_touch txn _ _ hk, hnx, hadv]
    rfl
  | cons e L ih =>
    intro b leaf k R lo hi hk hinit heof hdel hon hch hfol
    obtain ⟨mc2, leaf2, k2, R2, lo2, hi2, hadv, hon2, hch2, _, _, hfol2, _, hkd, hs⟩ :=
      (cursor_next_advance_plain page_touch (some []) [] hdel hon hch).2 e L hfol
    have hnx := cursor_next_no_sub page_touch txn (some []) (some []) MDBX_NEXT hk hinit
      heof (by simp [hdel]) hon
    have hfl := state_clr_del_flags mc2.mc_state8
    have hrec := ih { b with primal := { mc2 with mc_state8 := clr8 mc2.mc_state8 C_AFTERDELETE } }
      leaf2 k2 R2 lo2 hi2 (by rw [← hk]; exact congrArg (fun x => tst x S_HAVESUB) hkd)
      (by rw [hfl.1, hs]; exact hinit) (by rw [hfl.2.1, hs]; exact heof) hfl.2.2
      (hon2.state _) hch2 hfol2
    rw [List.length_cons, List.replicate_succ, cursor_walk_cons,
      cursor_get_next_eq page_touch txn _ _ hk, hnx, hadv]
    show Option.map _ (cursor_walk page_touch _ txn
      { b with primal := { mc2 with mc_state8 := clr8 mc2.mc_state8 C_AFTERDELETE } }) = _
    rw [hrec]
    rfl

/-! ## The order of the entries of a tree -/

theorem CmpOK.refl {cmp : MDBX_comparer} (h : CmpOK cmp) (a : MDBX_iov) : cmp a a = 0 := by
  have h1 := h.symm a a
  omega

theorem BranchOK.key_le {cmp : MDBX_comparer} (hc : CmpOK cmp) {pg : page_t}
    (hb : BranchOK cmp pg) {i j : Nat} (h1 : 1 ≤ i) (hij : i ≤ j) (hj : j < page_numkeys pg) :
    cmp (key_at pg i) (key_at pg j) ≤ 0 := by
  rcases Nat.lt_or_eq_of_le hij with h | h
  · exact le_of_lt (hb.sorted i j h1 h hj)
  · rw [h]; exact le_of_eq (hc.refl _)

theorem tree_nodes_ne {txn : MDBX_txn} {cmp : MDBX_comparer} {P : node_t → Prop} :
    ∀ (h : Nat) (pg : page_t) (lo hi : Option MDBX_iov),
      WFTree txn cmp P h pg lo hi → ∃ e, e ∈ tree_nodes txn h pg := by
  intro h
  induction h with
  | zero =>
    intro pg lo hi hw
    have hl := hw.leaf
    have h0 : 0 < pg.mp_nodes.length := by rw [hl.nodes]; exact hl.nonempty
    exact ⟨pg.mp_nodes[0], List.getElem_mem h0⟩
  | succ h ih =>
    intro pg lo hi hw
    have hb := hw.branch
    have h0 : 0 < page_numkeys pg := by have := hb.two; omega
    obtain ⟨e, he⟩ := ih _ _ _ (hw.child h0)
    refine ⟨e, ?_⟩
    rw [tree_nodes_succ txn h pg h0]
    exact List.mem_append_left _ he

theorem tree_nodes_mem_succ {txn : MDBX_txn} {h : Nat} {pg : page_t} {e : node_t} :
    e ∈ tree_nodes txn (h + 1) pg ↔
      ∃ i, i < page_numkeys pg ∧ e ∈ tree_nodes txn h (child_page txn pg i) := by
  show e ∈ (List.range (page_numkeys pg)).flatMap _ ↔ _
  simp [List.mem_flatMap]

/-- The keys of the entries of a well-formed tree lie within its bounds. -/
theorem tree_nodes_bounds {txn : MDBX_txn} {cmp : MDBX_comparer} {P : node_t → Prop}
    (hc : CmpOK cmp) :
    ∀ (h : Nat) (pg : page_t) (lo hi : Option MDBX_iov),
      WFTree txn cmp P h pg lo hi → ∀ e, e ∈ tree_nodes txn h pg →
      (∀ l, lo = some l → cmp l (NODEKEY e) ≤ 0) ∧ (∀ u, hi = some u → cmp (NODEKEY e) u < 0) := by
  intro h
  induction h with
  | zero =>
    intro pg lo hi hw e he
    have hl := hw.leaf
    change e ∈ pg.mp_nodes at he
    obtain ⟨i, hi2, hie⟩ := List.mem_iff_getElem.1 he
    have hi3 : i < page_numkeys pg := by rw [← hl.nodes]; exact hi2
    have hk : key_at pg i = NODEKEY e := by
      unfold key_at
      rw [List.getD_eq_getElem _ _ hi2, hie]
    rw [← hk]
    exact ⟨fun l hl2 => hw.2.2.1 l hl2 i hi3, fun u hu => hw.2.2.2 u hu i hi3⟩
  | succ h ih =>
    intro pg lo hi hw e he
    have hb := hw.branch
    have htwo := hb.two
    obtain ⟨i, hi2, hie⟩ := tree_nodes_mem_succ.1 he
    have hbi := ih _ _ _ (hw.child hi2) e hie
    constructor
    · intro l hl2
      by_cases hi0 : i = 0
      · exact hbi.1 l (by rw [if_pos hi0]; exact hl2)
      · have h1 := hbi.1 (key_at pg i) (by rw [if_neg hi0])
        have h0 : 0 < page_numkeys pg := by omega
        obtain ⟨e0, he0⟩ := tree_nodes_ne h _ _ _ (hw.child h0)
        have hb0 := ih _ _ _ (hw.child h0) e0 he0
        have h2 := hb0.1 l (by rw [if_pos rfl]; exact hl2)
        have h3 := hb0.2 (key_at pg 1) (by rw [if_pos (by omega)])
        have h4 := hb.key_le hc (show 1 ≤ 1 from le_refl _) (show 1 ≤ i by omega) hi2
        exact hc.trans _ _ _ h2 (hc.trans _ _ _ (le_of_lt h3) (hc.trans _ _ _ h4 h1))
    · intro u hu
      by_cases hin : i + 1 < page_numkeys pg
      · have h1 := hbi.2 (key_at pg (i + 1)) (by rw [if_pos hin])
        have hn : page_numkeys pg - 1 < page_numkeys pg := by omega
        obtain ⟨e0, he0⟩ := tree_nodes_ne h _ _ _ (hw.child hn)
        have hb0 := ih _ _ _ (hw.child hn) e0 he0
        have h2 := hb0.1 (key_at pg (page_numkeys pg - 1)) (by rw [if_neg (by omega)])
        have h3 := hb0.2 u (by rw [if_neg (by omega)]; exact hu)
        have h4 := hb.key_le hc (show 1 ≤ i + 1 by omega)
          (show i + 1 ≤ page_numkeys pg - 1 by omega) hn
        exact hc.lt_of_lt_of_le h1 (hc.trans _ _ _ h4 (hc.trans _ _ _ h2 (le_of_lt h3)))
      · exact hbi.2 u (by rw [if_neg hin]; exact hu)

/-- The entries of a well-formed tree are in strictly ascending key order. -/
theorem tree_nodes_sorted {txn : MDBX_txn} {cmp : MDBX_comparer} {P : node_t → Prop}
    (hc : CmpOK cmp) :
    ∀ (h : Nat) (pg : page_t) (lo hi : Option MDBX_iov),
      WFTree txn cmp P h pg lo hi →
      (tree_nodes txn h pg).Pairwise (fun a b => cmp (NODEKEY a) (NODEKEY b) < 0) := by
  intro h
  induction h with
  | zero =>
    intro pg lo hi hw
    have hl := hw.leaf
    show pg.mp_nodes.Pairwise _
    rw [List.pairwise_iff_getElem]
    intro i j hi2 hj hij
    have h1 := hl.sorted i j hij (by rw [← hl.nodes]; exact hj)
    unfold key_at at h1
    rw [List.getD_eq_getElem _ _ hi2, List.getD_eq_getElem _ _ hj] at h1
    exact h1
  | succ h ih =>
    intro pg lo hi hw
    have hb := hw.branch
    show ((List.range (page_numkeys pg)).flatMap _).Pairwise _
    rw [List.pairwise_flatMap]
    constructor
    · intro i hi2
      exact ih _ _ _ (hw.child (List.mem_range.1 hi2))
    · refine List.Pairwise.imp_of_mem ?_ (List.pairwise_lt_range _)
      intro i j hi2 hj hij x hx y hy
      have hi3 := List.mem_range.1 hi2
      have hj3 := List.mem_range.1 hj
      have h1 := (tree_nodes_bounds hc h _ _ _ (hw.child hi3) x hx).2 (key_at pg (i + 1))
        (by rw [if_pos (by omega)])
      have h2 := (tree_nodes_bounds hc h _ _ _ (hw.child hj3) y hy).1 (key_at pg j)
        (by rw [if_neg (by omega)])
      have h3 := hb.key_le hc (show 1 ≤ i + 1 by omega) (show i + 1 ≤ j by omega) hj3
      exact hc.lt_of_lt_of_le h1 (hc.trans _ _ _ h3 h2)

/-! ## A fresh cursor -/

/-- The cursor after cursor_init on an AA without duplicates. -/
theorem cursor_init_plain {b0 b : MDBX_cursor} {aht : aht_t}
    (hnd : tst aht.aa.flags16 MDBX_DUPSORT = false) (hst : StackOK b0.primal)
    (hb : cursor_init b0 aht = some b) :
    b.primal.mc_aht = aht ∧ b.primal.mc_kind8 = 0 ∧ b.primal.mc_state8 = 0 ∧
    StackOK b.primal ∧ b.primal.mc_pg[0]? = some none := by
  have h1 : 0 < b0.primal.mc_pg.length := by rw [hst.1]; decide
  have h2 : 0 < b0.primal.mc_ki.length := by rw [hst.2]; decide
  unfold cursor_init at hb
  by_cases hv : tst aht.kind_and_state16 MDBX_AAH_VALID = true
  · simp only [hv, not_true_eq_false, if_false, cursor_t.set_pg, h1, if_true, cursor_t.set_ki,
      List.length_set, h2, hnd, Bool.false_eq_true] at hb
    injection hb with hb
    subst hb
    refine ⟨rfl, rfl, rfl, ⟨?_, ?_⟩, ?_⟩
    · simp [hst.1]
    · simp [hst.2]
    · simp [List.getElem?_set_self h1]
  · simp [hv] at hb

theorem RootOK_of_none {mc : cursor_t} (root : page_t) (h : mc.mc_pg[0]? = some none) :
    RootOK mc root := by
  intro hc
  unfold page_search_cached at hc
  rw [h] at hc
  exact absurd hc (by simp)

/-! ## Facts about the sample trees, continued -/

theorem two_left_leaf : LeafOK cmp_lex two_left where
  is_leaf := by decide
  not_branch := by decide
  not_dfl := by decide
  lower := by decide
  nodes := by decide
  nonempty := by decide
  sorted := by
    intro i j h1 h2
    have h4 : page_numkeys two_left = 2 := by decide
    have hj : j = 1 := by omega
    have hi : i = 0 := by omega
    subst hj hi
    decide

theorem two_right_leaf : LeafOK cmp_lex two_right where
  is_leaf := by decide
  not_branch := by decide
  not_dfl := by decide
  lower := by decide
  nodes := by decide
  nonempty := by decide
  sorted := by
    intro i j h1 h2
    have h4 : page_numkeys two_right = 1 := by decide
    omega

theorem sample_plain (txn : MDBX_txn) (kv : List (MDBX_iov × MDBX_iov)) (pgno i : Nat) :
    PlainNode txn ((sample_leaf pgno kv).mp_nodes.getD i default) := by
  have h : ∀ n : node_t, n.node_flags8 = 0 → PlainNode txn n := by
    intro n hn
    unfold PlainNode
    rw [hn]
    exact ⟨by decide, fun h => absurd h (by decide)⟩
  apply h
  unfold sample_leaf
  simp only [List.getD_eq_getElem?_getD, List.getElem?_map]
  cases kv[i]? <;> rfl

theorem two_tree (P : node_t → Prop)
    (hP : ∀ kv pgno i, P ((sample_leaf pgno kv).mp_nodes.getD i default)) :
    WFTree (sample_txn two_pages) cmp_lex P 1 two_root none none := by
  refine ⟨two_root_branch, ?_⟩
  intro i hi
  have h4 : page_numkeys two_root = 2 := by decide
  have h5 : i = 0 ∨ i = 1 := by omega
  refine ⟨two_root_resolves i hi, ?_⟩
  rcases h5 with h | h <;> subst h
  · refine ⟨two_left_leaf, fun i _ => hP _ _ i, fun l hl => by simp at hl, ?_⟩
    intro u hu i hi2
    have h6 : page_numkeys two_left = 2 := by decide
    have hu2 : u = k_gamma := by
      have : (if 0 + 1 < page_numkeys two_root then some (key_at two_root (0 + 1)) else none) =
          some k_gamma := by decide
      rw [this] at hu
      injection hu with hu
      exact hu.symm
    subst hu2
    have h7 : i = 0 ∨ i = 1 := by
      have : page_numkeys (child_page (sample_txn two_pages) two_root 0) = 2 := by decide
      omega
    rcases h7 with h | h <;> subst h <;> decide
  · refine ⟨two_right_leaf, fun i _ => hP _ _ i, ?_, fun u hu => by simp [h4] at hu⟩
    intro l hl i hi2
    have hl2 : l = k_gamma := by
      have : (if 1 = 0 then none else some (key_at two_root 1)) = some k_gamma := by decide
      rw [this] at hl
      injection hl with hl
      exact hl.symm
    subst hl2
    have h7 : i = 0 := by
      have : page_numkeys (child_page (sample_txn two_pages) two_root 1) = 1 := by decide
      omega
    subst h7
    decide

theorem two_aa (P : node_t → Prop)
    (hP : ∀ kv pgno i, P ((sample_leaf pgno kv).mp_nodes.getD i default)) :
    WFAA (sample_txn two_pages) (sample_aht 0 4) P 1 two_root where
  live := by decide
  valid := by decide
  root_ge := by decide
  root_pg := ⟨by rfl, by rfl⟩
  root_no := by decide
  depth := by decide
  tree := two_tree P hP
  cmp_ok := cmp_lex_ok

/-- C1: over a well-formed tree of an AA without duplicates, a fresh cursor
(just set up by cursor_init) that is run through `MDBX_FIRST` and then as many
`MDBX_NEXT` as the tree has entries delivers, with `MDBX_SUCCESS`, the key
and data of every entry of the tree from left to right, and the last
`MDBX_NEXT` returns `MDBX_NOTFOUND`; the tree has at least one entry and the
entries are in strictly ascending key order. -/
theorem C1_first_next_in_key_order (page_touch : page_touch_t) {txn : MDBX_txn} {aht : aht_t}
    {h : Nat} {root : page_t} {b0 b : MDBX_cursor}
    (hwf : WFAA txn aht (PlainNode txn) h root)
    (hnd : tst aht.aa.flags16 MDBX_DUPSORT = false) (hst : StackOK b0.primal)
    (hb : cursor_init b0 aht = some b) :
    1 ≤ (tree_nodes txn h root).length ∧
    (tree_nodes txn h root).Pairwise
      (fun x y => aht.ahe.ax_kcmp (NODEKEY x) (NODEKEY y) < 0) ∧
    cursor_walk page_touch
        ((MDBX_FIRST, []) :: List.replicate (tree_nodes txn h root).length (MDBX_NEXT, []))
        txn b =
      some ((tree_nodes txn h root).map
          (fun e => (MDBX_SUCCESS, some (NODEKEY e), some (node_data txn e))) ++
        [(MDBX_NOTFOUND, some [], some [])]) := by
  obtain ⟨ha, hkd, hs, hst2, hpg⟩ := cursor_init_plain hnd hst hb
  have hk : tst b.primal.mc_kind8 S_HAVESUB = false := by rw [hkd]; decide
  have hinit : tst b.primal.mc_state8 C_INITIALIZED = false := by rw [hs]; decide
  have hdel : tst b.primal.mc_state8 C_AFTERDELETE = false := by rw [hs]; decide
  have hwf2 : WFAA txn b.primal.mc_aht (PlainNode txn) h root := by rw [ha]; exact hwf
  obtain ⟨mc4, leaf, R, lo, hi, hfirst, hon, hch, hent, ha4, hkd4, hi4, he4, hd4⟩ :=
    cursor_first_plain page_touch (some []) [] hk hinit hwf2 hst2 (RootOK_of_none root hpg)
  have hfl := state_clr_del_flags mc4.mc_state8
  have hwalk := cursor_walk_next page_touch (following txn 0 ((leaf, 0) :: R))
    { b with primal := { mc4 with mc_state8 := clr8 mc4.mc_state8 C_AFTERDELETE } }
    leaf 0 R lo hi (by rw [← hk]; exact congrArg (fun x => tst x S_HAVESUB) hkd4)
    (by rw [hfl.1]; exact hi4) (by rw [hfl.2.1]; exact he4) hfl.2.2 (hon.state _) hch rfl
  refine ⟨?_, ?_, ?_⟩
  · rw [← hent]; simp
  · have := tree_nodes_sorted hwf.cmp_ok h root none none hwf.tree
    exact this
  · rw [cursor_walk_cons, cursor_get_first_eq page_touch txn _ _ hk, hfirst, ← hent]
    show Option.map _ (cursor_walk page_touch _ txn
      { b with primal := { mc4 with mc_state8 := clr8 mc4.mc_state8 C_AFTERDELETE } }) = _
    rw [List.length_cons, hwalk]
    rfl

theorem C1_first_next_in_key_order_witness :
    1 ≤ (tree_nodes (sample_txn two_pages) 1 two_root).length ∧
    (tree_nodes (sample_txn two_pages) 1 two_root).Pairwise
      (fun x y => cmp_lex (NODEKEY x) (NODEKEY y) < 0) ∧
    cursor_walk sample_touch
        [(MDBX_FIRST, []), (MDBX_NEXT, []), (MDBX_NEXT, []), (MDBX_NEXT, [])]
        (sample_txn two_pages)
        { primal := { sample_bundle.primal with mc_aht := sample_aht 0 4 },
          subordinate := sample_bundle.subordinate } =
      some [(MDBX_SUCCESS, some k_alpha, some v_1), (MDBX_SUCCESS, some k_beta, some v_2),
        (MDBX_SUCCESS, some k_gamma, some v_3), (MDBX_NOTFOUND, some [], some [])] :=
  C1_first_next_in_key_order sample_touch
    (two_aa (PlainNode (sample_txn two_pages)) (sample_plain (sample_txn two_pages)))
    (by decide) (⟨by decide, by decide⟩ : StackOK sample_bundle.primal) (by rfl)

/-! ## cursor_next after a deletion -/

theorem cur_two (x : MDBX_cursor) : x.cur (1 + 1) = x.primal := rfl

theorem with_cur_two (x : MDBX_cursor) (mc : cursor_t) :
    x.with_cur (1 + 1) mc = { x with primal := mc } := rfl

/-- The code of cursor_next after the sub-cursor block, with
`C_AFTERDELETE` set: the entry under the index is read, the index does not
move, the flag is cleared. -/
theorem cursor_next_advance_skip {cmp : MDBX_comparer} {b : MDBX_cursor}
    {leaf : page_t} {k : Nat} {R : frames_t} (page_touch : page_touch_t) (txn : MDBX_txn)
    (key : Option MDBX_iov) (d : MDBX_iov)
    (hdel : tst b.primal.mc_state8 C_AFTERDELETE = true)
    (hon : OnStack b.primal ((leaf, k) :: R)) (hl : LeafOK cmp leaf)
    (hkn : k < page_numkeys leaf) (hp : PlainNode txn (leaf.mp_nodes.getD k default)) :
    cursor_next_advance page_touch 1 leaf key txn b (some d) =
      some { rc := MDBX_SUCCESS, txn := txn,
             bundle := { b with primal := { b.primal with mc_state8 :=
               b.primal.mc_state8 ^^^ C_AFTERDELETE } },
             key := MDBX_GET_KEY (leaf.mp_nodes.getD k default) key,
             data := some (node_data txn (leaf.mp_nodes.getD k default)) } := by
  unfold cursor_next_advance
  simp only [cur_two, with_cur_two, hon.ki_top, hdel, if_true]
  exact cursor_fetch_plain page_touch false
    (b := { b with primal := { b.primal with mc_state8 :=
      b.primal.mc_state8 ^^^ C_AFTERDELETE } }) (hon.state _) hl hkn hp key d

/-- cursor_next on an initialized cursor without sub-cursor, up to the code
that moves the index: `C_EOF` is cleared on the way. -/
theorem cursor_next_to_advance {b : MDBX_cursor} {leaf : page_t} {k : Nat} {R : frames_t}
    (page_touch : page_touch_t) (txn : MDBX_txn) (key data : Option MDBX_iov)
    (op : MDBX_cursor_op)
    (hk : tst b.primal.mc_kind8 S_HAVESUB = false)
    (hinit : tst b.primal.mc_state8 C_INITIALIZED = true)
    (heof : tst b.primal.mc_state8 C_EOF = true → k + 1 < page_numkeys leaf)
    (hdel : ¬ (tst b.primal.mc_state8 C_AFTERDELETE = true ∧ op = MDBX_NEXT_DUP))
    (hon : OnStack b.primal ((leaf, k) :: R)) :
    cursor_next page_touch 2 txn b key data op =
      cursor_next_advance page_touch 1 leaf key txn
        { b with primal := { b.primal with mc_state8 :=
          (if tst b.primal.mc_state8 C_EOF then b.primal.mc_state8 ^^^ C_EOF
           else b.primal.mc_state8) } } data := by
  have hne : ¬ (tst b.primal.mc_state8 C_EOF = true ∧ k + 1 ≥ page_numkeys leaf) := by
    intro h; have := heof h.1; omega
  unfold cursor_next
  simp only [cur_two, with_cur_two, hdel, if_false, hinit, not_true_eq_false, hon.pg_top,
    hon.ki_top, hne]
  by_cases he : tst b.primal.mc_state8 C_EOF = true
  · simp only [he, if_true, hk, Bool.false_eq_true, if_false]
  · simp only [he, if_false, hk, Bool.false_eq_true]

theorem two_left_on (s k : Nat) :
    OnStack (sample_cursor (sample_aht 0 4) s [(two_root, 0), (two_left, k)])
      [(two_left, k), (two_root, 0)] :=
  ⟨⟨by rfl, by rfl⟩, by rfl, by rfl, by simp [CURSOR_STACK], by rfl, by rfl, by rfl, by rfl, trivial⟩

theorem two_left_chain (P : node_t → Prop)
    (hP : ∀ kv pgno i, P ((sample_leaf pgno kv).mp_nodes.getD i default)) (k : Nat) :
    Chain (sample_txn two_pages) cmp_lex P two_root 0 none (some k_gamma)
      [(two_left, k), (two_root, 0)] :=
  ⟨by rfl, by decide, none, none, ⟨rfl, rfl, rfl, two_tree P hP⟩, by rfl, by rfl⟩

/-- C9, divergence: on an initialized cursor of an AA without duplicates (no
sub-cursor) that stands on index 0 of the leaf holding alpha and beta,
cursor_get with `MDBX_NEXT_DUP` returns `MDBX_SUCCESS` with the key beta and
leaves the top index at 1; from index 1, `MDBX_PREV_DUP` returns
`MDBX_SUCCESS` with the key alpha and leaves the top index at 0.  The primary
cursor has moved to another key. -/
theorem C9_next_dup_moves_primary :
    tst C_INITIALIZED C_INITIALIZED = true ∧
    (sample_cursor (sample_aht 0 4) C_INITIALIZED [(two_root, 0), (two_left, 0)]).mc_ki[1]? =
      some 0 ∧
    (cursor_get sample_touch 2 (sample_txn two_pages)
        { primal := sample_cursor (sample_aht 0 4) C_INITIALIZED [(two_root, 0), (two_left, 0)],
          subordinate := sample_bundle.subordinate } (some []) (some []) MDBX_NEXT_DUP).map
      (fun r => (r.rc, r.key, r.bundle.primal.mc_ki[1]?)) =
      some (MDBX_SUCCESS, some k_beta, some 1) ∧
    (cursor_get sample_touch 2 (sample_txn two_pages)
        { primal := sample_cursor (sample_aht 0 4) C_INITIALIZED [(two_root, 0), (two_left, 1)],
          subordinate := sample_bundle.subordinate } (some []) (some []) MDBX_PREV_DUP).map
      (fun r => (r.rc, r.key, r.bundle.primal.mc_ki[1]?)) =
      some (MDBX_SUCCESS, some k_alpha, some 0) :=
  ⟨by decide, by rfl, by rfl, by rfl⟩

/-! ## page_search with `MDBX_PS_LAST` -/

theorem last_pick_lt (pg : page_t) (h : 2 ≤ page_numkeys pg) : last_pick pg < page_numkeys pg := by
  unfold last_pick; omega

/-- One iteration of page_search_root under `MDBX_PS_LAST`, when the frame is
not taken for being in place already: the last child is fetched and pushed. -/
theorem page_search_root_step_last {cmp : MDBX_comparer} (page_touch : page_touch_t)
    (key : Option MDBX_iov) {txn : MDBX_txn} {mc : cursor_t} {pg : page_t}
    (hb : BranchOK cmp pg)
    (hres : Resolves txn (node_get_pgno (pg.mp_nodes.getD (last_pick pg) default))
      (child_page txn pg (last_pick pg)))
    (hst : StackOK mc) (hsn : mc.mc_snum < CURSOR_STACK) (htop : mc.mc_top < CURSOR_STACK)
    (hq : ¬ (tst mc.mc_state8 C_INITIALIZED = true ∧ mc.ki mc.mc_top = some (last_pick pg))) :
    page_search_root_step page_touch key MDBX_PS_LAST txn mc pg =
      some (.next txn (frame_push (frame_ki mc mc.mc_top (last_pick pg))
        (child_page txn pg (last_pick pg))) (child_page txn pg (last_pick pg))) := by
  have htwo := hb.two
  have hnk := page_numkeys_lt hb.lower
  have hgaco : ¬ (¬ cursor_is_gaco mc = true ∧ ¬ page_numkeys pg > 1) := by
    intro h; omega
  have hlast : to_indx ((page_numkeys pg : Int) - 1) = last_pick pg :=
    to_indx_pred (page_numkeys pg) (by omega) (by omega)
  unfold page_search_root_step
  rw [if_neg hgaco, if_pos (by decide), if_pos (by decide)]
  simp only [hlast]
  rw [if_neg hq]
  exact page_search_root_descend_ok page_touch hb (last_pick_lt pg htwo) hres hst hsn htop
    (by decide)

/-- One iteration of page_search_root under `MDBX_PS_LAST` on an initialized
cursor whose frame holds the last index already: the frame above is taken
as it is. -/
theorem page_search_root_step_last_kept {cmp : MDBX_comparer} (page_touch : page_touch_t)
    (key : Option MDBX_iov) (txn : MDBX_txn) {mc : cursor_t} {pg g : page_t}
    (hb : BranchOK cmp pg)
    (hinit : tst mc.mc_state8 C_INITIALIZED = true)
    (hki : mc.ki mc.mc_top = some (last_pick pg)) (hg : mc.pg mc.mc_snum = some g) :
    page_search_root_step page_touch key MDBX_PS_LAST txn mc pg =
      some (.next txn { mc with mc_top := mc.mc_snum, mc_snum := mc.mc_snum + 1 } g) := by
  have htwo := hb.two
  have hnk := page_numkeys_lt hb.lower
  have hgaco : ¬ (¬ cursor_is_gaco mc = true ∧ ¬ page_numkeys pg > 1) := by
    intro h; omega
  have hlast : to_indx ((page_numkeys pg : Int) - 1) = last_pick pg :=
    to_indx_pred (page_numkeys pg) (by omega) (by omega)
  unfold page_search_root_step
  rw [if_neg hgaco, if_pos (by decide), if_pos (by decide)]
  simp only [hlast]
  rw [if_pos ⟨hinit, hki⟩]
  have hg2 : ({ mc with mc_top := mc.mc_snum, mc_snum := mc.mc_snum + 1 } : cursor_t).pg
      ({ mc with mc_top := mc.mc_snum, mc_snum := mc.mc_snum + 1 } : cursor_t).mc_top = some g := hg
  simp only [hg2]
  exact page_search_root_ready_plain page_touch txn _ _ (by decide)

theorem descend_stack_tail (txn : MDBX_txn) (pick : page_t → Nat) :
    ∀ (l : Nat) (pg : page_t) (k : Nat) (S : frames_t) (f : page_t × Nat),
      f ∈ (descend_stack txn pick l pg k S).tail → f ∈ S ∨ f.2 = pick f.1 := by
  intro l
  induction l with
  | zero => intro pg k S f hf; exact Or.inl hf
  | succ l ih =>
    intro pg k S f hf
    rcases ih _ 0 _ f hf with h | h
    · rcases List.mem_cons.1 h with h2 | h2
      · right; rw [h2]
      · exact Or.inl h2
    · exact Or.inr h

theorem frame_push_ki {mc : cursor_t} (hst : StackOK mc) (hs : mc.mc_snum < CURSOR_STACK)
    (mp : page_t) : (frame_push mc mp).ki (frame_push mc mp).mc_top = some 0 := by
  have h3 : mc.mc_snum < mc.mc_ki.length := by rw [hst.2]; exact hs
  simp [frame_push, cursor_t.ki, List.getElem?_set, h3]

/-- The loop of page_search_root under `MDBX_PS_LAST` from a frame that is not
taken for being in place: the rightmost descent. -/
theorem page_search_root_loop_last {txn : MDBX_txn} {cmp : MDBX_comparer} {P : node_t → Prop}
    (page_touch : page_touch_t) (key : Option MDBX_iov) {l : Nat} {mc : cursor_t}
    {pg : page_t} {k : Nat} {S : frames_t} {lo hi : Option MDBX_iov}
    (hw : WFTree txn cmp P l pg lo hi) (hon : OnStack mc ((pg, k) :: S))
    (hd : S.length + 1 + l ≤ CURSOR_STACK) (fuel : Nat) (hf : l ≤ fuel)
    (hq : l ≠ 0 → tst mc.mc_state8 C_INITIALIZED = false ∨ k ≠ last_pick pg) :
    page_search_root_loop page_touch key MDBX_PS_LAST fuel txn mc pg =
      some { rc := MDBX_SUCCESS, txn := txn,
             mc := { descend txn last_pick l mc pg with
                     mc_state8 := clr8 (mc.mc_state8 ||| C_INITIALIZED) C_EOF } } := by
  have hsn := hon.snum
  have htp := hon.top
  simp only [List.length_cons] at hsn htp
  apply page_search_root_loop_descend page_touch key MDBX_PS_LAST last_pick mc.mc_state8
    mc.mc_aht
    (fun m => tst mc.mc_state8 C_INITIALIZED = false ∨ m.ki m.mc_top = some 0 ∨
      m.ki m.mc_top = some k ∧ m.pg m.mc_top = some pg)
    (fun m i mp hst hs => Or.inr (Or.inl (by
      have h1 : (frame_ki m m.mc_top i).mc_snum = m.mc_snum := rfl
      exact frame_push_ki (frame_ki_stack hst _ _) (by rw [h1]; exact hs) mp)))
    ?_ l fuel mc pg lo hi hw hon.ok (by omega) (by omega) hon.pg_top rfl rfl
    (Or.inr (Or.inr ⟨hon.ki_top, hon.pg_top⟩)) hf
  intro m pg2 h2 lo2 hi2 hw2 hst2 hsn2 htop2 hpg2 hs2 ha2 hQ
  have hb := hw2.branch
  have htwo := hb.two
  refine ⟨last_pick_lt pg2 htwo, ?_⟩
  apply page_search_root_step_last page_touch key hb (hw2.resolves (last_pick_lt pg2 htwo)) hst2
    hsn2 (by omega)
  rintro ⟨hi1, hi2⟩
  rw [hs2] at hi1
  rcases hQ with h | h | ⟨h3, h4⟩
  · rw [h] at hi1; exact absurd hi1 (by decide)
  · rw [h] at hi2
    injection hi2 with hi2
    have h5 : last_pick pg2 = 0 := hi2.symm
    unfold last_pick at h5
    omega
  · rw [hpg2] at h4
    injection h4 with h4
    subst h4
    rw [h3] at hi2
    injection hi2 with hi2
    have hl0 : l ≠ 0 := by
      intro h0
      subst h0
      have := hw.leaf.not_branch
      rw [hb.is_branch] at this
      exact absurd this (by decide)
    rcases hq hl0 with h | h
    · rw [h] at hi1; exact absurd hi1 (by decide)
    · exact h hi2

theorem HasStack.drop_frames {pgs : List (Option page_t)} {kis : List indx_t} :
    ∀ (A B : frames_t), HasStack pgs kis (A ++ B) → HasStack pgs kis B := by
  intro A
  induction A with
  | nil => intro B h; exact h
  | cons a A ih => intro B h; exact ih B h.2.2

theorem Chain.drop_frames_chain {txn : MDBX_txn} {cmp : MDBX_comparer} {P : node_t → Prop}
    {root : page_t} :
    ∀ (A : frames_t) (f : page_t × Nat) (B : frames_t) (l : Nat) (lo hi : Option MDBX_iov),
      Chain txn cmp P root l lo hi (A ++ f :: B) →
      ∃ lo2 hi2, Chain txn cmp P root (l + A.length) lo2 hi2 (f :: B) := by
  intro A
  induction A with
  | nil => intro f B l lo hi h; exact ⟨lo, hi, h⟩
  | cons a A ih =>
    intro f B l lo hi h
    have h2 : ∃ g fs, A ++ f :: B = g :: fs := by
      cases A with
      | nil => exact ⟨f, B, rfl⟩
      | cons g A2 => exact ⟨g, A2 ++ f :: B, rfl⟩
    obtain ⟨g, fs, hg⟩ := h2
    have h3 : Chain txn cmp P root l lo hi (a :: g :: fs) := by
      rw [← hg]; exact h
    obtain ⟨lo2, hi2, h4⟩ := h3.tail
    rw [← hg] at h4
    obtain ⟨lo3, hi3, h5⟩ := ih f B (l + 1) lo2 hi2 h4
    refine ⟨lo3, hi3, ?_⟩
    have e : l + (a :: A).length = l + 1 + A.length := by
      simp only [List.length_cons]; omega
    rw [e]
    exact h5

theorem Chain.root_pg {txn : MDBX_txn} {cmp : MDBX_comparer} {P : node_t → Prop}
    {root : page_t} {pgs : List (Option page_t)} {kis : List indx_t} :
    ∀ (F : frames_t) (l : Nat) (lo hi : Option MDBX_iov),
      Chain txn cmp P root l lo hi F → HasStack pgs kis F → pgs[0]? = some (some root) := by
  intro F
  induction F with
  | nil => intro l lo hi h _; exact absurd h (by simp [Chain])
  | cons f F ih =>
    intro l lo hi h hs
    cases F with
    | nil =>
      have h1 := hs.1
      rw [h.1] at h1
      exact h1
    | cons g fs =>
      obtain ⟨lo2, hi2, h2⟩ := h.tail
      exact ih (l + 1) lo2 hi2 h2 hs.2.2

/-- The loop of page_search_root under `MDBX_PS_LAST` on an initialized
cursor whose arrays hold a path to a leaf (the frames above the current one
are the rest of that path): the loop keeps the frames that are in place and
descends to the right from the first frame that is not; it ends on a path to
a leaf whose frames above `B` hold the last index. -/
theorem page_search_root_loop_last_kept {txn : MDBX_txn} {cmp : MDBX_comparer}
    {P : node_t → Prop} {root : page_t} (page_touch : page_touch_t) (key : Option MDBX_iov) :
    ∀ (l : Nat) (A : frames_t), A.length = l →
      ∀ (mc : cursor_t) (pg : page_t) (k : Nat) (B : frames_t) (lo hi : Option MDBX_iov)
        (fuel : Nat),
      Chain txn cmp P root 0 lo hi (A ++ (pg, k) :: B) →
      HasStack mc.mc_pg mc.mc_ki (A ++ (pg, k) :: B) → OnStack mc ((pg, k) :: B) →
      (A ++ (pg, k) :: B).length ≤ CURSOR_STACK → l ≤ fuel →
      ∃ mc2 T lo2 hi2,
        page_search_root_loop page_touch key MDBX_PS_LAST fuel txn mc pg =
          some { rc := MDBX_SUCCESS, txn := txn, mc := mc2 } ∧
        OnStack mc2 T ∧ Chain txn cmp P root 0 lo2 hi2 T ∧
        (∀ f ∈ T.tail, f ∈ B ∨ f.2 = last_pick f.1) ∧
        mc2.mc_aht = mc.mc_aht ∧
        mc2.mc_state8 = clr8 (mc.mc_state8 ||| C_INITIALIZED) C_EOF ∧
        mc2.mc_kind8 = mc.mc_kind8 := by
  intro l
  induction l with
  | zero =>
    intro A hA mc pg k B lo hi fuel hc hs hon hlen hf
    have hA0 : A = [] := List.length_eq_zero.1 hA
    subst hA0
    have hw := hc.wf
    have hlen2 : B.length + 1 + 0 ≤ CURSOR_STACK := by simpa using hlen
    have hB := page_search_root_loop_last page_touch key hw hon hlen2 fuel hf
      (fun h => absurd rfl h)
    exact ⟨_, (pg, k) :: B, lo, hi, hB, hon.state _, hc, fun f hf => Or.inl hf, rfl, rfl, rfl⟩
  | succ l ih =>
    intro A hA mc pg k B lo hi fuel hc hs hon hlen hf
    obtain ⟨lo1, hi1, hc1⟩ := Chain.drop_frames_chain A (pg, k) B 0 lo hi hc
    rw [Nat.zero_add, hA] at hc1
    have hw := hc1.wf
    have hb : BranchOK cmp pg := hw.branch
    have hlen1 : B.length + 1 + (l + 1) ≤ CURSOR_STACK := by
      simp only [List.length_append, List.length_cons] at hlen
      omega
    by_cases hq : tst mc.mc_state8 C_INITIALIZED = true ∧ k = last_pick pg
    · -- the frame is in place: the frame above is kept
      rcases List.eq_nil_or_concat A with hA0 | ⟨A2, g, hAg⟩
      · rw [hA0] at hA; simp at hA
      · rw [List.concat_eq_append] at hAg
        subst hAg
        have hA2 : A2.length = l := by simpa using hA
        have hF : A2 ++ [g] ++ (pg, k) :: B = A2 ++ g :: (pg, k) :: B := by simp
        rw [hF] at hc hs hlen
        have hs2 := HasStack.drop_frames A2 _ hs
        have hsn := hon.snum
        have htp := hon.top
        simp only [List.length_cons] at hsn htp
        have hg : mc.pg mc.mc_snum = some g.1 := by
          unfold cursor_t.pg
          rw [hsn]
          have := hs2.1
          simp only [List.length_cons] at this
          rw [this]; rfl
        have hki : mc.ki mc.mc_top = some (last_pick pg) := by
          rw [hon.ki_top]; exact congrArg some hq.2
        have hstep := page_search_root_step_last_kept page_touch key txn hb hq.1 hki hg
        have hon2 : OnStack { mc with mc_top := mc.mc_snum, mc_snum := mc.mc_snum + 1 }
            (g :: (pg, k) :: B) := by
          refine ⟨hon.ok, ?_, ?_, ?_, hs2⟩
          · simp only [List.length_cons]; omega
          · simp only [List.length_cons]; omega
          · simp only [List.length_cons, List.length_append] at hlen ⊢; omega
        cases fuel with
        | zero => omega
        | succ fuel =>
          obtain ⟨mc2, T, lo2, hi2, hloop, hT, hcT, htail, ha, hst, hkd⟩ :=
            ih A2 hA2 { mc with mc_top := mc.mc_snum, mc_snum := mc.mc_snum + 1 } g.1 g.2
              ((pg, k) :: B) lo hi fuel hc hs hon2 hlen (by omega)
          refine ⟨mc2, T, lo2, hi2, ?_, hT, hcT, ?_, ha, hst, hkd⟩
          · rw [page_search_root_loop, if_pos hb.is_branch, hstep]
            exact hloop
          · intro f hf2
            rcases htail f hf2 with h | h
            · rcases List.mem_cons.1 h with h2 | h2
              · right; rw [h2]; exact hq.2
              · exact Or.inl h2
            · exact Or.inr h
    · -- the descent to the right
      have hq2 : l + 1 ≠ 0 → tst mc.mc_state8 C_INITIALIZED = false ∨ k ≠ last_pick pg := by
        intro _
        by_cases hi2 : tst mc.mc_state8 C_INITIALIZED = true
        · right; intro hk; exact hq ⟨hi2, hk⟩
        · left; simpa using hi2
      have hB := page_search_root_loop_last page_touch key hw hon hlen1 fuel hf hq2
      obtain ⟨hd1, hd2, hd3, hd4⟩ := OnStack.descend txn last_pick (l + 1) mc pg k B hon hlen1
      obtain ⟨lo2, hi2, hcd⟩ := descend_chain last_pick last_pick_lt (l + 1) pg k B _ _ hc1
      exact ⟨_, _, lo2, hi2, hB, hd1.state _, hcd, descend_stack_tail txn last_pick _ _ _ _, hd2,
        rfl, hd4⟩

theorem HasStack.length_le {pgs : List (Option page_t)} {kis : List indx_t} {F : frames_t}
    (h : HasStack pgs kis F) : F.length ≤ pgs.length := by
  cases F with
  | nil => exact Nat.zero_le _
  | cons f fs =>
    have h1 := h.1
    have h2 : fs.length < pgs.length := by
      by_contra hn
      rw [List.getElem?_eq_none (by omega)] at h1
      exact absurd h1 (by simp)
    simp only [List.length_cons]
    omega

/-- page_search without `MDBX_PS_MODIFY` and `MDBX_PS_ROOTONLY` over a
well-formed tree comes down to the loop of page_search_root, started with the
root page in frame 0. -/
theorem page_search_reduce {txn : MDBX_txn} {P : node_t → Prop} {h : Nat} {root : page_t}
    {mc : cursor_t} (page_touch : page_touch_t) (key : Option MDBX_iov) (flags : Nat)
    (hfm : tst flags MDBX_PS_MODIFY = false) (hfr : tst flags MDBX_PS_ROOTONLY = false)
    (hwf : WFAA txn mc.mc_aht P h root) (hst : StackOK mc) (hroot : RootOK mc root) :
    ∃ mc1, page_search page_touch txn mc key flags =
        page_search_root_loop page_touch key flags (CURSOR_STACK + 1) txn mc1 root ∧
      StackOK mc1 ∧ mc1.mc_snum = 1 ∧ mc1.mc_top = 0 ∧ mc1.mc_pg[0]? = some (some root) ∧
      mc1.mc_ki = mc.mc_ki ∧ (∀ j, 0 < j → mc1.mc_pg[j]? = mc.mc_pg[j]?) ∧
      mc1.mc_aht = mc.mc_aht ∧ mc1.mc_state8 = mc.mc_state8 ∧ mc1.mc_kind8 = mc.mc_kind8 := by
  have hlive := hwf.live
  have hvalid := hwf.valid
  have hge := hwf.root_ge
  have hne : ¬ mc.mc_aht.aa.root = P_INVALID := by
    intro he
    rw [he] at hge
    exact absurd hge (by decide)
  have htail : ∀ mc0 : cursor_t, mc0.mc_pg[0]? = some (some root) →
      page_search_tail page_touch txn mc0 key flags =
        page_search_root_loop page_touch key flags (CURSOR_STACK + 1) txn
          { mc0 with mc_snum := 1, mc_top := 0 } root := by
    intro mc0 hpg
    have hp : ({ mc0 with mc_snum := 1, mc_top := 0 } : cursor_t).pg 0 = some root := by
      unfold cursor_t.pg
      show (mc0.mc_pg[0]?).join = some root
      rw [hpg]; rfl
    unfold page_search_tail
    simp only [hfm, Bool.false_eq_true, if_false, pure, bind, Option.bind, ne_eq,
      not_true_eq_false, hfr]
    unfold page_search_root
    simp only [hp, bind, Option.bind]
  unfold page_search
  rw [hlive]
  simp only [Bool.false_eq_true, if_false, hvalid, not_true_eq_false, hne, ge_iff_le, hge]
  by_cases hcache : page_search_cached mc mc.mc_aht.aa.root = true
  · rw [if_pos hcache, htail mc (hroot hcache)]
    exact ⟨_, rfl, hst, rfl, rfl, hroot hcache, rfl, fun _ _ => rfl, rfl, rfl, rfl⟩
  · rw [if_neg hcache]
    have hr := hwf.root_pg
    have h0 : 0 < mc.mc_pg.length := by rw [hst.1]; decide
    have hpg : ({ mc with mc_pg := mc.mc_pg.set 0 (some root) } : cursor_t).mc_pg[0]? =
        some (some root) := by simp [List.getElem?_set_self h0]
    simp only [hr.1, ne_eq, not_true_eq_false, if_false, hr.2, cursor_t.set_pg, h0, if_true,
      hr.txn_eq]
    rw [htail _ hpg]
    refine ⟨_, rfl, ⟨by simp [hst.1], hst.2⟩, rfl, rfl, hpg, rfl, ?_, rfl, rfl, rfl⟩
    intro j hj
    show (mc.mc_pg.set 0 (some root))[j]? = _
    rw [List.getElem?_set_ne (by omega)]

/-- The search for the last leaf of a well-formed tree, for a cursor that is
either not initialized or holds a path to a leaf in its arrays. -/
theorem page_search_last {txn : MDBX_txn} {P : node_t → Prop} {h : Nat} {root : page_t}
    {mc : cursor_t} (page_touch : page_touch_t) (key : Option MDBX_iov)
    (hwf : WFAA txn mc.mc_aht P h root) (hst : StackOK mc) (hroot : RootOK mc root)
    (hval : tst mc.mc_state8 C_INITIALIZED = true →
      ∃ F lo hi, HasStack mc.mc_pg mc.mc_ki F ∧
        Chain txn mc.mc_aht.ahe.ax_kcmp P root 0 lo hi F) :
    ∃ mc2 T lo hi, page_search page_touch txn mc key MDBX_PS_LAST =
        some { rc := MDBX_SUCCESS, txn := txn, mc := mc2 } ∧
      OnStack mc2 T ∧ Chain txn mc.mc_aht.ahe.ax_kcmp P root 0 lo hi T ∧
      (∀ f ∈ T.tail, f.2 = last_pick f.1) ∧
      mc2.mc_aht = mc.mc_aht ∧
      mc2.mc_state8 = clr8 (mc.mc_state8 ||| C_INITIALIZED) C_EOF ∧
      mc2.mc_kind8 = mc.mc_kind8 := by
  obtain ⟨mc1, hred, hst1, hsn1, htp1, hpg1, hki1, hpgj, ha1, hs1, hkd1⟩ :=
    page_search_reduce page_touch key MDBX_PS_LAST (by decide) (by decide) hwf hst hroot
  have hdepth := hwf.depth
  obtain ⟨k0, hk0⟩ : ∃ k0, mc1.mc_ki[0]? = some k0 := by
    have hl : 0 < mc1.mc_ki.length := by rw [hst1.2]; decide
    exact ⟨mc1.mc_ki[0], List.getElem?_eq_getElem hl⟩
  have hon1 : OnStack mc1 [(root, k0)] :=
    ⟨hst1, hsn1, by rw [htp1]; rfl, by simp [CURSOR_STACK], hpg1, hk0, trivial⟩
  rw [hred]
  by_cases hinit : tst mc.mc_state8 C_INITIALIZED = true
  · obtain ⟨F, lo, hi, hsF, hcF⟩ := hval hinit
    have hp0 := Chain.root_pg F 0 lo hi hcF hsF
    -- the arrays of `mc1` are those of `mc`
    have hpgs : mc1.mc_pg = mc.mc_pg := by
      apply List.ext_getElem?
      intro j
      by_cases hj : j = 0
      · rw [hj, hpg1, hp0]
      · exact hpgj j (by omega)
    have hsF1 : HasStack mc1.mc_pg mc1.mc_ki F := by rw [hpgs, hki1]; exact hsF
    have hlen : F.length ≤ CURSOR_STACK := by
      have := hsF.length_le
      rw [hst.1] at this
      exact this
    rcases List.eq_nil_or_concat F with hF0 | ⟨A, g, hAg⟩
    · rw [hF0] at hcF; exact absurd hcF (by simp [Chain])
    · rw [List.concat_eq_append] at hAg
      subst hAg
      obtain ⟨lo1, hi1, hc1⟩ := Chain.drop_frames_chain A g [] 0 lo hi hcF
      have hgr : g.1 = root := hc1.1
      have hgk : g.2 = k0 := by
        have h2 := (HasStack.drop_frames A [g] hsF1).2.1
        simp only [List.length_nil] at h2
        rw [hk0] at h2
        injection h2 with h2
        exact h2.symm
      have hg : g = (root, k0) := Prod.ext hgr hgk
      subst hg
      obtain ⟨mc2, T, lo2, hi2, hloop, hT, hcT, htail, ha, hs, hkd⟩ :=
        page_search_root_loop_last_kept page_touch key A.length A rfl mc1 root k0 [] lo hi
          (CURSOR_STACK + 1) hcF hsF1 hon1 hlen
          (by simp only [List.length_append, List.length_cons, List.length_nil] at hlen; omega)
      refine ⟨mc2, T, lo2, hi2, hloop, hT, hcT, ?_, ha.trans ha1,
        by rw [hs, hs1], hkd.trans hkd1⟩
      intro f hf
      rcases htail f hf with h2 | h2
      · exact absurd h2 (by simp)
      · exact h2
  · have hinit1 : tst mc1.mc_state8 C_INITIALIZED = false := by rw [hs1]; simpa using hinit
    have hB := page_search_root_loop_last page_touch key hwf.tree hon1
      (by simp only [List.length_nil]; omega) (CURSOR_STACK + 1) (by omega)
      (fun _ => Or.inl hinit1)
    obtain ⟨hd1, hd2, hd3, hd4⟩ := OnStack.descend txn last_pick h mc1 root k0 [] hon1
      (by simp only [List.length_nil]; omega)
    obtain ⟨lo2, hi2, hcd⟩ := descend_chain last_pick last_pick_lt h root k0 [] none none
      (show Chain txn mc.mc_aht.ahe.ax_kcmp P root h none none [(root, k0)]
        from ⟨rfl, rfl, rfl, hwf.tree⟩)
    refine ⟨_, _, lo2, hi2, hB, hd1.state _, hcd, ?_, hd2.trans ha1, by rw [hs1],
      hd4.trans hkd1⟩
    intro f hf
    rcases descend_stack_tail txn last_pick _ _ _ _ f hf with h2 | h2
    · exact absurd h2 (by simp)
    · exact h2

/-- C6: over a non-empty well-formed tree, for a cursor that is either not
initialized or initialized with a path to a leaf in its arrays, page_search
with `MDBX_PS_FIRST` succeeds and ends with index 0 in every branch frame,
and page_search with `MDBX_PS_LAST` succeeds and ends with the index
`numkeys - 1` in every branch frame; in both cases the frames are a path
from the root (every frame above the bottom one holds the child page that the
index of the frame below selects) and the top frame holds a leaf. -/
theorem C6_page_search_first_last {txn : MDBX_txn} {P : node_t → Prop} {h : Nat}
    {root : page_t} {mc : cursor_t} (page_touch : page_touch_t) (key : Option MDBX_iov)
    (hwf : WFAA txn mc.mc_aht P h root) (hst : StackOK mc) (hroot : RootOK mc root)
    (hval : tst mc.mc_state8 C_INITIALIZED = true →
      ∃ F lo hi, HasStack mc.mc_pg mc.mc_ki F ∧
        Chain txn mc.mc_aht.ahe.ax_kcmp P root 0 lo hi F) :
    (∃ mc2 T lo hi, page_search page_touch txn mc key MDBX_PS_FIRST =
        some { rc := MDBX_SUCCESS, txn := txn, mc := mc2 } ∧
      OnStack mc2 T ∧ Chain txn mc.mc_aht.ahe.ax_kcmp P root 0 lo hi T ∧
      (∀ f ∈ T.tail, f.2 = 0) ∧ (∀ f ∈ T.head?, IS_LEAF f.1 = true)) ∧
    (∃ mc2 T lo hi, page_search page_touch txn mc key MDBX_PS_LAST =
        some { rc := MDBX_SUCCESS, txn := txn, mc := mc2 } ∧
      OnStack mc2 T ∧ Chain txn mc.mc_aht.ahe.ax_kcmp P root 0 lo hi T ∧
      (∀ f ∈ T.tail, f.2 = page_numkeys f.1 - 1) ∧ (∀ f ∈ T.head?, IS_LEAF f.1 = true)) := by
  have hleaf : ∀ (T : frames_t) (lo hi : Option MDBX_iov),
      Chain txn mc.mc_aht.ahe.ax_kcmp P root 0 lo hi T → ∀ f ∈ T.head?, IS_LEAF f.1 = true := by
    intro T lo hi hc f hf
    cases T with
    | nil => simp at hf
    | cons t ts =>
      simp only [List.head?_cons, Option.mem_def, Option.some.injEq] at hf
      subst hf
      exact (hc.wf).leaf.is_leaf
  constructor
  · obtain ⟨mc3, k0, hps, hon, _⟩ := page_search_first page_touch key hwf hst hroot
    obtain ⟨lo, hi, hch⟩ := descend_chain first_pick first_pick_lt h root k0 [] none none
      (show Chain txn mc.mc_aht.ahe.ax_kcmp P root h none none [(root, k0)]
        from ⟨rfl, rfl, rfl, hwf.tree⟩)
    refine ⟨mc3, _, lo, hi, hps, hon, hch, ?_, hleaf _ lo hi hch⟩
    intro f hf
    rcases descend_stack_tail txn first_pick _ _ _ _ f hf with h2 | h2
    · exact absurd h2 (by simp)
    · exact h2
  · obtain ⟨mc2, T, lo, hi, hps, hon, hch, htail, _⟩ :=
      page_search_last page_touch key hwf hst hroot hval
    exact ⟨mc2, T, lo, hi, hps, hon, hch, htail, hleaf T lo hi hch⟩

theorem C6_page_search_first_last_witness :
    (∃ mc2 T lo hi, page_search sample_touch (sample_txn two_pages)
        (sample_cursor (sample_aht 0 4) C_INITIALIZED [(two_root, 0), (two_left, 1)]) none
        MDBX_PS_FIRST =
        some { rc := MDBX_SUCCESS, txn := sample_txn two_pages, mc := mc2 } ∧
      OnStack mc2 T ∧
      Chain (sample_txn two_pages) cmp_lex (PlainNode (sample_txn two_pages)) two_root 0 lo hi T ∧
      (∀ f ∈ T.tail, f.2 = 0) ∧ (∀ f ∈ T.head?, IS_LEAF f.1 = true)) ∧
    (∃ mc2 T lo hi, page_search sample_touch (sample_txn two_pages)
        (sample_cursor (sample_aht 0 4) C_INITIALIZED [(two_root, 0), (two_left, 1)]) none
        MDBX_PS_LAST =
        some { rc := MDBX_SUCCESS, txn := sample_txn two_pages, mc := mc2 } ∧
      OnStack mc2 T ∧
      Chain (sample_txn two_pages) cmp_lex (PlainNode (sample_txn two_pages)) two_root 0 lo hi T ∧
      (∀ f ∈ T.tail, f.2 = page_numkeys f.1 - 1) ∧ (∀ f ∈ T.head?, IS_LEAF f.1 = true)) :=
  C6_page_search_first_last sample_touch none
    (two_aa (PlainNode (sample_txn two_pages)) (sample_plain (sample_txn two_pages)))
    (two_left_on C_INITIALIZED 1).ok (fun _ => by rfl)
    (fun _ => ⟨[(two_left, 1), (two_root, 0)], none, some k_gamma,
      (two_left_on C_INITIALIZED 1).frames,
      two_left_chain (PlainNode (sample_txn two_pages)) (sample_plain (sample_txn two_pages)) 1⟩)

/-! ## Key ranges along a path -/

theorem CmpOK.le_of_ge {cmp : MDBX_comparer} (h : CmpOK cmp) {a b : MDBX_iov}
    (h1 : 0 ≤ cmp a b) : cmp b a ≤ 0 := by
  have h2 := h.symm b a
  have h3 := h.symm a b
  by_contra hn
  have h4 : 0 < cmp b a := by omega
  have h5 := h3.2 h4
  omega

/-- The lower bound of a branch page is not greater than its keys. -/
theorem WFTree.lo_le_key {txn : MDBX_txn} {cmp : MDBX_comparer} {P : node_t → Prop}
    (hc : CmpOK cmp) {l : Nat} {pg : page_t} {lo hi : Option MDBX_iov}
    (hw : WFTree txn cmp P (l + 1) pg lo hi) {a : MDBX_iov} (ha : lo = some a) {i : Nat}
    (h1 : 1 ≤ i) (hi2 : i < page_numkeys pg) : cmp a (key_at pg i) ≤ 0 := by
  have hb := hw.branch
  have h0 : 0 < page_numkeys pg := by omega
  obtain ⟨e0, he0⟩ := tree_nodes_ne l _ _ _ (hw.child h0)
  have hb0 := tree_nodes_bounds hc l _ _ _ (hw.child h0) e0 he0
  have h2 := hb0.1 a (by rw [if_pos rfl]; exact ha)
  have h3 := hb0.2 (key_at pg 1) (by rw [if_pos (by omega)])
  have h4 := hb.key_le hc (show 1 ≤ 1 from le_refl _) h1 hi2
  exact hc.trans _ _ _ h2 (hc.trans _ _ _ (le_of_lt h3) h4)

/-- The keys of a branch page are smaller than its upper bound. -/
theorem WFTree.key_lt_hi {txn : MDBX_txn} {cmp : MDBX_comparer} {P : node_t → Prop}
    (hc : CmpOK cmp) {l : Nat} {pg : page_t} {lo hi : Option MDBX_iov}
    (hw : WFTree txn cmp P (l + 1) pg lo hi) {u : MDBX_iov} (hu : hi = some u) {i : Nat}
    (h1 : 1 ≤ i) (hi2 : i < page_numkeys pg) : cmp (key_at pg i) u < 0 := by
  have hb := hw.branch
  have hn : page_numkeys pg - 1 < page_numkeys pg := by omega
  obtain ⟨e0, he0⟩ := tree_nodes_ne l _ _ _ (hw.child hn)
  have hb0 := tree_nodes_bounds hc l _ _ _ (hw.child hn) e0 he0
  have h2 := hb0.1 (key_at pg (page_numkeys pg - 1)) (by rw [if_neg (by omega)])
  have h3 := hb0.2 u (by rw [if_neg (by omega)]; exact hu)
  have h4 := hb.key_le hc h1 (show i ≤ page_numkeys pg - 1 by omega) hn
  exact hc.lt_of_le_of_lt (hc.trans _ _ _ h4 h2) h3

/-- An entry of the tree lies in the page of the top frame of a path, or
below the lower bound of that page, or not below its upper bound. -/
theorem Chain.partition {txn : MDBX_txn} {cmp : MDBX_comparer} {P : node_t → Prop}
    {root : page_t} (hc : CmpOK cmp) :
    ∀ (fs : frames_t) (f : page_t × Nat) (l : Nat) (lo hi : Option MDBX_iov),
      Chain txn cmp P root l lo hi (f :: fs) →
      ∀ x, x ∈ tree_nodes txn (l + fs.length) root →
        x ∈ tree_nodes txn l f.1 ∨ (∃ a, lo = some a ∧ cmp (NODEKEY x) a < 0) ∨
          (∃ u, hi = some u ∧ cmp u (NODEKEY x) ≤ 0) := by
  intro fs
  induction fs with
  | nil =>
    intro f l lo hi h x hx
    left
    rw [h.1]
    exact hx
  | cons g fs ih =>
    intro f l lo hi h x hx
    obtain ⟨h1, h2, lo2, hi2, h3, h4, h5⟩ := h
    have hw := h3.wf
    have hb := hw.branch
    have e : l + (g :: fs).length = l + 1 + fs.length := by
      simp only [List.length_cons]; omega
    rw [e] at hx
    rcases ih g (l + 1) lo2 hi2 h3 x hx with hin | ⟨a, ha, hxa⟩ | ⟨u, hu, hxu⟩
    · obtain ⟨i, hi3, hxi⟩ := tree_nodes_mem_succ.1 hin
      have hbi := tree_nodes_bounds hc l _ _ _ (hw.child hi3) x hxi
      rcases Nat.lt_trichotomy i g.2 with hlt | heq | hgt
      · right; left
        refine ⟨key_at g.1 g.2, by rw [h4, if_neg (by omega)], ?_⟩
        have h6 := hbi.2 (key_at g.1 (i + 1)) (by rw [if_pos (by omega)])
        have h7 := hb.key_le hc (show 1 ≤ i + 1 by omega) (show i + 1 ≤ g.2 by omega) h2
        exact hc.lt_of_lt_of_le h6 h7
      · left; rw [h1, ← heq]; exact hxi
      · right; right
        refine ⟨key_at g.1 (g.2 + 1), by rw [h5, if_pos (by omega)], ?_⟩
        have h6 := hbi.1 (key_at g.1 i) (by rw [if_neg (by omega)])
        have h7 := hb.key_le hc (show 1 ≤ g.2 + 1 by omega) (show g.2 + 1 ≤ i by omega) hi3
        exact hc.trans _ _ _ h7 h6
    · right; left
      by_cases hg0 : g.2 = 0
      · exact ⟨a, by rw [h4, if_pos hg0]; exact ha, hxa⟩
      · refine ⟨key_at g.1 g.2, by rw [h4, if_neg hg0], ?_⟩
        exact hc.lt_of_lt_of_le hxa (hw.lo_le_key hc ha (by omega) h2)
    · right; right
      by_cases hgn : g.2 + 1 < page_numkeys g.1
      · refine ⟨key_at g.1 (g.2 + 1), by rw [h5, if_pos hgn], ?_⟩
        exact hc.trans _ _ _ (le_of_lt (hw.key_lt_hi hc hu (by omega) hgn)) hxu
      · exact ⟨u, by rw [h5, if_neg hgn]; exact hu, hxu⟩

/-- The height of the tree in terms of a path. -/
theorem Chain.root_tree {txn : MDBX_txn} {cmp : MDBX_comparer} {P : node_t → Prop}
    {root : page_t} :
    ∀ (fs : frames_t) (f : page_t × Nat) (l : Nat) (lo hi : Option MDBX_iov),
      Chain txn cmp P root l lo hi (f :: fs) →
      WFTree txn cmp P (l + fs.length) root none none := by
  intro fs
  induction fs with
  | nil => intro f l lo hi h; exact h.2.2.2
  | cons g fs ih =>
    intro f l lo hi h
    obtain ⟨lo2, hi2, h3⟩ := h.tail
    have e : l + (g :: fs).length = l + 1 + fs.length := by
      simp only [List.length_cons]; omega
    rw [e]
    exact ih g (l + 1) lo2 hi2 h3

/-- The child that a key search takes on a branch page holds the range of the
key. -/
theorem search_pick_in {txn : MDBX_txn} {cmp : MDBX_comparer} {P : node_t → Prop}
    (hc : CmpOK cmp) {l : Nat} {pg : page_t} {lo hi : Option MDBX_iov} (key : MDBX_iov)
    (hw : WFTree txn cmp P (l + 1) pg lo hi) (hk : KeyIn cmp key lo hi) :
    search_pick cmp key pg < page_numkeys pg ∧
    KeyIn cmp key
      (if search_pick cmp key pg = 0 then lo else some (key_at pg (search_pick cmp key pg)))
      (if search_pick cmp key pg + 1 < page_numkeys pg
        then some (key_at pg (search_pick cmp key pg + 1)) else hi) := by
  have hb := hw.branch
  have htwo := hb.two
  have h3 := (Nat.findGreatest_eq_iff (P := fun i => 0 ≤ cmp key (key_at pg i))
    (k := page_numkeys pg - 1) (m := search_pick cmp key pg)).1 rfl
  obtain ⟨h4, h5, h6⟩ := h3
  refine ⟨by omega, ?_, ?_⟩
  · intro a ha
    by_cases h0 : search_pick cmp key pg = 0
    · rw [if_pos h0] at ha; exact hk.1 a ha
    · rw [if_neg h0] at ha
      injection ha with ha
      rw [← ha]
      exact hc.le_of_ge (h5 h0)
  · intro u hu
    by_cases hn : search_pick cmp key pg + 1 < page_numkeys pg
    · rw [if_pos hn] at hu
      injection hu with hu
      rw [← hu]
      have h7 : ¬ 0 ≤ cmp key (key_at pg (search_pick cmp key pg + 1)) :=
        h6 (Nat.lt_succ_self _) (by omega)
      omega
    · rw [if_neg hn] at hu; exact hk.2 u hu

/-- The frames of a descent by key from a path are a path to a leaf whose
bounds hold the key. -/
theorem descend_chain_key {txn : MDBX_txn} {cmp : MDBX_comparer} {P : node_t → Prop}
    {root : page_t} (hc : CmpOK cmp) (key : MDBX_iov) :
    ∀ (l : Nat) (pg : page_t) (k : Nat) (S : frames_t) (lo hi : Option MDBX_iov),
      Chain txn cmp P root l lo hi ((pg, k) :: S) → KeyIn cmp key lo hi →
      ∃ lo2 hi2, Chain txn cmp P root 0 lo2 hi2
          (descend_stack txn (search_pick cmp key) l pg k S) ∧ KeyIn cmp key lo2 hi2 := by
  intro l
  induction l with
  | zero => intro pg k S lo hi hch hk; exact ⟨lo, hi, hch, hk⟩
  | succ l ih =>
    intro pg k S lo hi hch hk
    obtain ⟨hp, hk2⟩ := search_pick_in hc key hch.wf hk
    exact ih _ 0 _ _ _ ((hch.top_ki (search_pick cmp key pg)).push hp 0) hk2

/-- The bounds after a move to the right sibling: the lower bound of the new
leaf is the upper bound of the old one; without a right sibling the old leaf
has no upper bound. -/
theorem right_sibling_bounds {txn : MDBX_txn} {cmp : MDBX_comparer} {P : node_t → Prop}
    {root : page_t} :
    ∀ (R : frames_t) (f : page_t × Nat) (l : Nat) (lo hi : Option MDBX_iov),
      Chain txn cmp P root l lo hi (f :: R) →
      (right_sibling txn (f :: R) = none → hi = none) ∧
      (∀ T, right_sibling txn (f :: R) = some T →
        ∃ q qs hi2, T = (q, 0) :: qs ∧ Chain txn cmp P root l hi hi2 T) := by
  intro R
  induction R with
  | nil =>
    intro f l lo hi h
    exact ⟨fun _ => h.2.2.1, fun T hT => by simp [right_sibling] at hT⟩
  | cons g S ih =>
    intro f l lo hi h
    obtain ⟨h1, h2, lo2, hi2, h3, h4, h5⟩ := h
    have hw := h3.wf
    have hb := hw.branch
    by_cases hk : g.2 + 1 ≥ page_numkeys g.1
    · have hhi : hi = hi2 := by rw [h5, if_neg (by omega)]
      obtain ⟨ih1, ih2⟩ := ih g (l + 1) lo2 hi2 h3
      constructor
      · intro hr
        cases hrs : right_sibling txn (g :: S) with
        | none => rw [hhi]; exact ih1 hrs
        | some T2 =>
          obtain ⟨q, qs, hi3, hq, _⟩ := ih2 T2 hrs
          subst hq
          simp [right_sibling, hk, hrs] at hr
      · intro T hr
        cases hrs : right_sibling txn (g :: S) with
        | none => simp [right_sibling, hk, hrs] at hr
        | some T2 =>
          obtain ⟨q, qs, hi3, hq, hc3⟩ := ih2 T2 hrs
          subst hq
          simp only [right_sibling, hk, hrs, ge_iff_le, if_true] at hr
          injection hr with hr
          have hq2 : 2 ≤ page_numkeys q := (hc3.wf).branch.two
          have hp := hc3.push (show 0 < page_numkeys q by omega) 0
          rw [if_pos rfl] at hp
          rw [hhi, ← hr]
          exact ⟨child_page txn q 0, (q, 0) :: qs, _, rfl, hp⟩
    · have hk2 : g.2 + 1 < page_numkeys g.1 := by omega
      constructor
      · intro hr
        simp [right_sibling, hk] at hr
      · intro T hr
        simp only [right_sibling, hk, if_false] at hr
        injection hr with hr
        have hp := (h3.top_ki (g.2 + 1)).push hk2 0
        rw [if_neg (by omega)] at hp
        rw [h5, if_pos hk2, ← hr]
        exact ⟨child_page txn g.1 (g.2 + 1), (g.1, g.2 + 1) :: S, _, rfl, hp⟩

/-! ## The scan of cursor_set over the parents -/

theorem Chain.branch_mem {txn : MDBX_txn} {cmp : MDBX_comparer} {P : node_t → Prop}
    {root : page_t} :
    ∀ (S : frames_t) (f : page_t × Nat) (l : Nat) (lo hi : Option MDBX_iov),
      Chain txn cmp P root l lo hi (f :: S) →
      ∀ g ∈ S, BranchOK cmp g.1 ∧ g.2 < page_numkeys g.1 := by
  intro S
  induction S with
  | nil => intro f l lo hi _ g hg; simp at hg
  | cons g0 S ih =>
    intro f l lo hi h g hg
    obtain ⟨_, h2, lo2, hi2, h3, _, _⟩ := h
    rcases List.mem_cons.1 hg with h4 | h4
    · rw [h4]; exact ⟨(h3.wf).branch, h2⟩
    · exact ih g0 (l + 1) lo2 hi2 h3 g h4

/-- There is no right sibling exactly when every frame below the top one
holds the last index of its page. -/
theorem right_sibling_none_iff {txn : MDBX_txn} {cmp : MDBX_comparer} {P : node_t → Prop}
    {root : page_t} :
    ∀ (S : frames_t) (f : page_t × Nat) (l : Nat) (lo hi : Option MDBX_iov),
      Chain txn cmp P root l lo hi (f :: S) →
      (right_sibling txn (f :: S) = none ↔ AllLast S) := by
  intro S
  induction S with
  | nil =>
    intro f l lo hi _
    exact ⟨fun _ g hg => by simp at hg, fun _ => rfl⟩
  | cons g S ih =>
    intro f l lo hi h
    obtain ⟨lo2, hi2, h3⟩ := h.tail
    have ih2 := ih g (l + 1) lo2 hi2 h3
    by_cases hk : g.2 + 1 ≥ page_numkeys g.1
    · cases hrs : right_sibling txn (g :: S) with
      | none =>
        have hal := ih2.1 hrs
        constructor
        · intro _ x hx
          rcases List.mem_cons.1 hx with h4 | h4
          · rw [h4]; exact hk
          · exact hal x h4
        · intro _
          simp [right_sibling, hk, hrs]
      | some T2 =>
        obtain ⟨q, qs, _, _, hq, _, _⟩ := right_sibling_chain h3 hrs
        subst hq
        constructor
        · intro hr
          simp [right_sibling, hk, hrs] at hr
        · intro hal
          have h5 : AllLast S := fun x hx => hal x (List.mem_cons_of_mem _ hx)
          have h6 := ih2.2 h5
          rw [hrs] at h6
          exact absurd h6 (by simp)
    · constructor
      · intro hr
        simp [right_sibling, hk] at hr
      · intro hal
        exact absurd (hal g (List.mem_cons_self _ _)) hk

theorem to_unsigned_pred (n : Nat) (h0 : 0 < n) (h1 : n ≤ 65536) :
    to_unsigned ((n : Int) - 1) = n - 1 := by
  unfold to_unsigned
  have h2 : ((n : Int) - 1) % 4294967296 = ((n - 1 : Nat) : Int) := by omega
  rw [h2, Int.toNat_natCast]

/-- The loop of cursor_set over the parent frames: it ends at the top index
exactly when every parent frame holds the last index of its page. -/
theorem cursor_set_scan_spec {cmp : MDBX_comparer} {mc : cursor_t} {f : page_t × Nat} :
    ∀ (n : Nat) (S1 S2 : frames_t) (fuel : Nat), S1.length = n →
      HasStack mc.mc_pg mc.mc_ki (f :: S1 ++ S2) → mc.mc_top = S1.length + S2.length →
      (∀ g ∈ S1, BranchOK cmp g.1) → S1.length ≤ fuel →
      ∃ i, cursor_set_scan mc fuel S2.length = some i ∧ (i = mc.mc_top ↔ AllLast S1) := by
  intro n
  induction n with
  | zero =>
    intro S1 S2 fuel hn hs htop _ _
    have h0 : S1 = [] := List.length_eq_zero.1 hn
    subst h0
    have h1 : ¬ S2.length < mc.mc_top := by rw [htop]; simp
    refine ⟨S2.length, ?_, ?_⟩
    · cases fuel with
      | zero => rfl
      | succ fuel => simp [cursor_set_scan, h1]
    · constructor
      · intro _ g hg; simp at hg
      · intro _; rw [htop]; simp
  | succ n ih =>
    intro S1 S2 fuel hn hs htop hbr hf
    rcases List.eq_nil_or_concat S1 with h0 | ⟨A, g, hAg⟩
    · rw [h0] at hn; simp at hn
    · rw [List.concat_eq_append] at hAg
      subst hAg
      have hA : A.length = n := by simpa using hn
      have hfr : f :: (A ++ [g]) ++ S2 = (f :: A) ++ g :: S2 := by simp
      rw [hfr] at hs
      have hs2 := HasStack.drop_frames (f :: A) (g :: S2) hs
      have hb := hbr g (by simp)
      have hnk := page_numkeys_lt hb.lower
      have htwo := hb.two
      have hlt : S2.length < mc.mc_top := by rw [htop]; simp
      have hpg : mc.pg S2.length = some g.1 := by
        unfold cursor_t.pg; rw [hs2.1]; rfl
      have hki : mc.ki S2.length = some g.2 := by
        unfold cursor_t.ki; rw [hs2.2.1]
      have hun := to_unsigned_pred (page_numkeys g.1) (by omega) (by omega)
      cases fuel with
      | zero => simp at hf
      | succ fuel =>
        by_cases hk : g.2 < page_numkeys g.1 - 1
        · refine ⟨S2.length, ?_, ?_⟩
          · simp [cursor_set_scan, hlt, hpg, hki, hun, hk, bind, Option.bind]
          · constructor
            · intro h; omega
            · intro hal
              have := hal g (by simp)
              omega
        · have hfr2 : f :: A ++ (g :: S2) = (f :: A) ++ g :: S2 := by simp
          obtain ⟨i, hi, hiff⟩ := ih A (g :: S2) fuel hA (by rw [hfr2]; exact hs)
            (by rw [htop]; simp; omega) (fun x hx => hbr x (by simp [hx]))
            (by simp at hf; omega)
          refine ⟨i, ?_, ?_⟩
          · simp only [List.length_cons] at hi
            simp [cursor_set_scan, hlt, hpg, hki, hun, hk, bind, Option.bind, hi]
          · rw [hiff]
            constructor
            · intro hal x hx
              rcases List.mem_append.1 hx with h4 | h4
              · exact hal x h4
              · simp at h4; rw [h4]; omega
            · intro hal x hx
              exact hal x (List.mem_append_left _ hx)

/-! ## cursor_set on a tree without duplicates -/

theorem WFTree.height_unique {txn : MDBX_txn} {cmp : MDBX_comparer} {P : node_t → Prop} :
    ∀ (h h2 : Nat) (pg : page_t) (lo hi lo2 hi2 : Option MDBX_iov),
      WFTree txn cmp P h pg lo hi → WFTree txn cmp P h2 pg lo2 hi2 → h = h2 := by
  intro h
  induction h with
  | zero =>
    intro h2 pg lo hi lo2 hi2 hw hw2
    cases h2 with
    | zero => rfl
    | succ h2 =>
      have h1 := hw.leaf.not_branch
      rw [hw2.branch.is_branch] at h1
      exact absurd h1 (by decide)
  | succ h ih =>
    intro h2 pg lo hi lo2 hi2 hw hw2
    cases h2 with
    | zero =>
      have h1 := hw2.leaf.not_branch
      rw [hw.branch.is_branch] at h1
      exact absurd h1 (by decide)
    | succ h2 =>
      have h0 : 0 < page_numkeys pg := by have := hw.branch.two; omega
      rw [ih h2 _ _ _ _ _ (hw.child h0) (hw2.child h0)]

/-- A path to a leaf in a tree of height `h` has `h + 1` frames. -/
theorem Chain.length_eq {txn : MDBX_txn} {cmp : MDBX_comparer} {P : node_t → Prop}
    {root : page_t} {f : page_t × Nat} {R : frames_t} {l h : Nat} {lo hi : Option MDBX_iov}
    (hc : Chain txn cmp P root l lo hi (f :: R)) (hw : WFTree txn cmp P h root none none) :
    l + R.length = h :=
  WFTree.height_unique _ _ _ _ _ _ _ (Chain.root_tree R f l lo hi hc) hw

/-- The entries of the page of the top frame of a path are entries of the
tree. -/
theorem Chain.mem_tree {txn : MDBX_txn} {cmp : MDBX_comparer} {P : node_t → Prop}
    {root : page_t} :
    ∀ (fs : frames_t) (f : page_t × Nat) (l : Nat) (lo hi : Option MDBX_iov),
      Chain txn cmp P root l lo hi (f :: fs) →
      ∀ x, x ∈ tree_nodes txn l f.1 → x ∈ tree_nodes txn (l + fs.length) root := by
  intro fs
  induction fs with
  | nil =>
    intro f l lo hi h x hx
    rw [h.1] at hx
    exact hx
  | cons g fs ih =>
    intro f l lo hi h x hx
    obtain ⟨h1, h2, lo2, hi2, h3, _, _⟩ := h
    have e : l + (g :: fs).length = l + 1 + fs.length := by
      simp only [List.length_cons]; omega
    rw [e]
    apply ih g (l + 1) lo2 hi2 h3
    rw [tree_nodes_mem_succ]
    exact ⟨g.2, h2, by rw [← h1]; exact hx⟩

theorem leaf_getD_mem {cmp : MDBX_comparer} {leaf : page_t} (hl : LeafOK cmp leaf) {k : Nat}
    (hk : k < page_numkeys leaf) : leaf.mp_nodes.getD k default ∈ leaf.mp_nodes := by
  have h : k < leaf.mp_nodes.length := by rw [hl.nodes]; exact hk
  rw [List.getD_eq_getElem _ _ h]
  exact List.getElem_mem h

theorem leaf_mem_getD {cmp : MDBX_comparer} {leaf : page_t} (hl : LeafOK cmp leaf)
    {x : node_t} (hx : x ∈ leaf.mp_nodes) :
    ∃ j, j < page_numkeys leaf ∧ x = leaf.mp_nodes.getD j default := by
  obtain ⟨j, hj, hje⟩ := List.mem_iff_getElem.1 hx
  refine ⟨j, by rw [← hl.nodes]; exact hj, ?_⟩
  rw [List.getD_eq_getElem _ _ hj, hje]

/-- The code of cursor_set from `set1` on an entry without duplicates, for
`MDBX_SET`, `MDBX_SET_KEY` and `MDBX_SET_RANGE` on a cursor without
sub-cursor. -/
theorem cursor_set_set1_plain (sub_first : sub_call_t) (sub_set : Option Int → sub_call_t)
    (keyp : Option MDBX_iov) (d : MDBX_iov) {op : MDBX_cursor_op}
    (hop : op = MDBX_SET ∨ op = MDBX_SET_RANGE) {txn : MDBX_txn} (b : MDBX_cursor)
    {mp : page_t} {n : node_t} (rc : Int) (exactp : Option Int)
    (hk : tst b.primal.mc_kind8 S_HAVESUB = false) (hl : IS_DFL mp = false)
    (hp : PlainNode txn n) :
    cursor_set_set1 sub_first sub_set 2 keyp (some d) op txn b mp (.node n) rc exactp =
      some { rc := MDBX_SUCCESS, txn := txn,
             bundle :=
               { b with primal :=
                   { b.primal with
                     mc_state8 := clr8 (b.primal.mc_state8 ||| C_INITIALIZED) C_EOF } },
             key := (if op = MDBX_SET_RANGE ∨ op = MDBX_SET_KEY then MDBX_GET_KEY n keyp
                     else keyp),
             data := some (node_data txn n), exact := exactp } := by
  have h1 : ¬ (op = MDBX_GET_BOTH ∨ op = MDBX_GET_BOTH_RANGE) := by
    rcases hop with h | h <;> rw [h] <;> decide
  unfold cursor_set_set1
  simp only [cur_primal, with_cur_primal, hl, Bool.false_eq_true, if_false, node_ref.deref, hp.1,
    h1, hk, node_read_plain hp, ne_eq, not_true_eq_false]

theorem right_sibling_hi_some {txn : MDBX_txn} {cmp : MDBX_comparer} {P : node_t → Prop}
    {root : page_t} :
    ∀ (R : frames_t) (f : page_t × Nat) (l : Nat) (lo hi : Option MDBX_iov) (T : frames_t),
      Chain txn cmp P root l lo hi (f :: R) → right_sibling txn (f :: R) = some T →
      ∃ u, hi = some u := by
  intro R
  induction R with
  | nil => intro f l lo hi T _ hT; simp [right_sibling] at hT
  | cons g S ih =>
    intro f l lo hi T h hr
    obtain ⟨_, _, lo2, hi2, h3, _, h5⟩ := h
    by_cases hk : g.2 + 1 ≥ page_numkeys g.1
    · cases hrs : right_sibling txn (g :: S) with
      | none => simp [right_sibling, hk, hrs] at hr
      | some T2 =>
        obtain ⟨u, hu⟩ := ih g (l + 1) lo2 hi2 T2 h3 hrs
        exact ⟨u, by rw [h5, if_neg (by omega)]; exact hu⟩
    · exact ⟨_, by rw [h5, if_pos (by omega)]⟩

/-- The search of a leaf page of a tree in terms of the keys of its nodes. -/
theorem node_search_leaf_ok {mc : cursor_t} {leaf : page_t} {k : Nat} {R : frames_t}
    (key : MDBX_iov) (hc : CmpOK (cursor_key_comparer mc)) (hci : CmpInt (cursor_key_comparer mc))
    (hon : OnStack mc ((leaf, k) :: R)) (hl : LeafOK (cursor_key_comparer mc) leaf) :
    ∃ (r : node_search_ret) (p : Nat), node_search mc key = some r ∧
      r.mc = frame_ki mc mc.mc_top p ∧ p ≤ page_numkeys leaf ∧
      (∀ j, j < p → cursor_key_comparer mc key (key_at leaf j) > 0) ∧
      (p < page_numkeys leaf → cursor_key_comparer mc key (key_at leaf p) ≤ 0) ∧
      (r.node = .null ↔ p = page_numkeys leaf) ∧
      (p < page_numkeys leaf → r.node = .node (leaf.mp_nodes.getD p default)) ∧
      (r.exact = 1 ↔ (p < page_numkeys leaf ∧ cursor_key_comparer mc key (key_at leaf p) = 0)) ∧
      (r.exact = 1 ∨ r.exact = 0) := by
  have hpk : ∀ i, page_key mc leaf i = key_at leaf i := fun i => page_key_node mc leaf i hl.not_dfl
  obtain ⟨r, p, h1, h2, h3, h4, h5, h6, h7, h8, h9⟩ :=
    node_search_leaf_spec key hc hci hon.pg_top (by rw [hon.ok.2]; exact hon.top_lt) hl.is_leaf
      hl.lower (fun _ => le_of_eq hl.nodes.symm)
      (fun h => by rw [hl.not_dfl] at h; exact absurd h (by decide))
      (fun i j hij hj => by rw [hpk, hpk]; exact hl.sorted i j hij hj)
  refine ⟨r, p, h1, h2, h3, ?_, ?_, h6, h7 hl.not_dfl, ?_, h9⟩
  · intro j hj; rw [← hpk]; exact h4 j hj
  · intro hp; rw [← hpk]; exact h5 hp
  · rw [h8, hpk]
    constructor
    · intro h; exact ⟨h.2.1, h.2.2⟩
    · intro h; exact ⟨hl.nonempty, h.1, h.2⟩

theorem CmpOK.gt_of_lt {cmp : MDBX_comparer} (h : CmpOK cmp) {a b : MDBX_iov}
    (h1 : cmp a b < 0) : cmp b a > 0 := (h.symm a b).1 h1

/-- Every entry of the tree either lies before the key or not before the upper
bound of the leaf of the path, when the lower bound of the leaf is not above
the key and all keys of the leaf are smaller than it. -/
theorem set_leaf_split {txn : MDBX_txn} {cmp : MDBX_comparer} {P : node_t → Prop}
    {root : page_t} (hc : CmpOK cmp) {leaf : page_t} {k : Nat} {R : frames_t}
    {lo hi : Option MDBX_iov} (key : MDBX_iov)
    (hch : Chain txn cmp P root 0 lo hi ((leaf, k) :: R))
    (hlo : ∀ a, lo = some a → cmp a key ≤ 0)
    (hlt : ∀ j, j < page_numkeys leaf → cmp key (key_at leaf j) > 0) :
    ∀ x ∈ tree_nodes txn R.length root,
      cmp key (NODEKEY x) > 0 ∨ ∃ u, hi = some u ∧ cmp u (NODEKEY x) ≤ 0 := by
  intro x hx
  have hl : LeafOK cmp leaf := (Chain.wf _ _ _ _ _ hch).leaf
  have hx2 : x ∈ tree_nodes txn (0 + R.length) root := by rw [Nat.zero_add]; exact hx
  rcases Chain.partition hc R (leaf, k) 0 lo hi hch x hx2 with h1 | ⟨a, ha, h2⟩ | h3
  · obtain ⟨j, hj, rfl⟩ := leaf_mem_getD hl h1
    exact Or.inl (hlt j hj)
  · exact Or.inl (hc.gt_of_lt (hc.lt_of_lt_of_le h2 (hlo a ha)))
  · exact Or.inr h3

/-- The entry at the position that the search of the leaf of a path gives is
the least entry of the tree that is not smaller than the key, when all
entries before the lower bound of the leaf are smaller than the key. -/
theorem set_found_least {txn : MDBX_txn} {cmp : MDBX_comparer} {P : node_t → Prop}
    {root : page_t} (hc : CmpOK cmp) {leaf : page_t} {k : Nat} {R : frames_t}
    {lo hi : Option MDBX_iov} (key : MDBX_iov)
    (hch : Chain txn cmp P root 0 lo hi ((leaf, k) :: R)) (hk : k < page_numkeys leaf)
    (hle : cmp key (key_at leaf k) ≤ 0) (hlt : ∀ j, j < k → cmp key (key_at leaf j) > 0)
    (hbefore : ∀ x ∈ tree_nodes txn R.length root, ∀ a, lo = some a →
      cmp (NODEKEY x) a < 0 → cmp key (NODEKEY x) > 0) :
    IsLeast cmp key (tree_nodes txn R.length root) (leaf.mp_nodes.getD k default) := by
  have hw := Chain.wf _ _ _ _ _ hch
  have hl : LeafOK cmp leaf := hw.leaf
  refine ⟨?_, hle, ?_⟩
  · have := Chain.mem_tree R (leaf, k) 0 lo hi hch _ (leaf_getD_mem hl hk)
    rw [Nat.zero_add] at this
    exact this
  · intro x hx hkx
    have hx2 : x ∈ tree_nodes txn (0 + R.length) root := by rw [Nat.zero_add]; exact hx
    rcases Chain.partition hc R (leaf, k) 0 lo hi hch x hx2 with h1 | ⟨a, ha, h2⟩ | ⟨u, hu, h3⟩
    · obtain ⟨j, hj, rfl⟩ := leaf_mem_getD hl h1
      rcases Nat.lt_trichotomy j k with h4 | h4 | h4
      · have := hlt j h4
        have e : key_at leaf j = NODEKEY (leaf.mp_nodes.getD j default) := rfl
        rw [e] at this
        omega
      · subst h4
        exact le_of_eq (hc.refl _)
      · exact le_of_lt (hl.sorted k j h4 hj)
    · have := hbefore x hx a ha h2
      omega
    · have h5 : cmp (key_at leaf k) u < 0 := hw.2.2.2 u hu k hk
      exact le_of_lt (hc.lt_of_lt_of_le h5 h3)

/-- No entry of the tree has the key, when the key lies within the bounds of
the leaf of the path and the leaf does not hold it. -/
theorem set_none_equal {txn : MDBX_txn} {cmp : MDBX_comparer} {P : node_t → Prop}
    {root : page_t} (hc : CmpOK cmp) {leaf : page_t} {k : Nat} {R : frames_t}
    {lo hi : Option MDBX_iov} (key : MDBX_iov)
    (hch : Chain txn cmp P root 0 lo hi ((leaf, k) :: R)) (hin : KeyIn cmp key lo hi)
    (p : Nat) (hlt : ∀ j, j < p → cmp key (key_at leaf j) > 0)
    (hle : p < page_numkeys leaf → cmp key (key_at leaf p) < 0) :
    ∀ x ∈ tree_nodes txn R.length root, cmp key (NODEKEY x) ≠ 0 := by
  intro x hx
  have hw := Chain.wf _ _ _ _ _ hch
  have hl : LeafOK cmp leaf := hw.leaf
  have hx2 : x ∈ tree_nodes txn (0 + R.length) root := by rw [Nat.zero_add]; exact hx
  rcases Chain.partition hc R (leaf, k) 0 lo hi hch x hx2 with h1 | ⟨a, ha, h2⟩ | ⟨u, hu, h3⟩
  · obtain ⟨j, hj, rfl⟩ := leaf_mem_getD hl h1
    have e : key_at leaf j = NODEKEY (leaf.mp_nodes.getD j default) := rfl
    rcases Nat.lt_trichotomy j p with h4 | h4 | h4
    · have := hlt j h4
      rw [e] at this
      omega
    · subst h4
      have := hle hj
      rw [e] at this
      omega
    · have h5 := hle (by omega)
      have h6 := hl.sorted p j h4 hj
      have := hc.lt_of_lt_of_le h5 (le_of_lt h6)
      rw [e] at this
      omega
  · have := hc.gt_of_lt (hc.lt_of_lt_of_le h2 (hin.1 a ha))
    omega
  · have := hc.lt_of_lt_of_le (hin.2 u hu) h3
    omega

/-- The code of cursor_set from the label `set2` on a path to a leaf whose key
bounds enclose the key, in a tree without duplicates. -/
theorem cursor_set_set2_plain (sub_first : sub_call_t) (sub_set : Option Int → sub_call_t)
    {txn : MDBX_txn} {root : page_t} {b : MDBX_cursor} {leaf : page_t} {k : Nat} {R : frames_t}
    {lo hi : Option MDBX_iov} (key : MDBX_iov) (keyp : Option MDBX_iov) (d : MDBX_iov)
    {op : MDBX_cursor_op} (hop : op = MDBX_SET ∨ op = MDBX_SET_RANGE) (exactp : Option Int)
    (hc : CmpOK (cursor_key_comparer b.primal))
    (hci : CmpInt (cursor_key_comparer b.primal))
    (hk : tst b.primal.mc_kind8 S_HAVESUB = false)
    (hon : OnStack b.primal ((leaf, k) :: R))
    (hch : Chain txn (cursor_key_comparer b.primal) (PlainNode txn) root 0 lo hi
      ((leaf, k) :: R))
    (hin : KeyIn (cursor_key_comparer b.primal) key lo hi) :
    ∃ r, cursor_set_set2 sub_first sub_set 2 key keyp (some d) op exactp txn b leaf = some r ∧
      SetOutcome txn (cursor_key_comparer b.primal) root R.length key keyp op exactp.isSome
        r := by
  have hw := Chain.wf _ _ _ _ _ hch
  have hl : LeafOK (cursor_key_comparer b.primal) leaf := hw.leaf
  obtain ⟨s, p, hs, hmc, hp, hlt, hle, hnull, hnode, hex, hex01⟩ :=
    node_search_leaf_ok key hc hci hon hl
  have hon1 : OnStack s.mc ((leaf, p) :: R) := by rw [hmc]; exact hon.frame_ki p
  have hch1 := hch.top_ki p
  have hbefore : ∀ x ∈ tree_nodes txn R.length root, ∀ a, lo = some a →
      cursor_key_comparer b.primal (NODEKEY x) a < 0 →
      cursor_key_comparer b.primal key (NODEKEY x) > 0 := by
    intro x _ a ha h2
    exact hc.gt_of_lt (hc.lt_of_lt_of_le h2 (hin.1 a ha))
  have hks : tst s.mc.mc_kind8 S_HAVESUB = false := by rw [hmc]; exact hk
  have hmap : (Option.map (fun _ => s.exact) exactp).isSome = exactp.isSome := by
    cases exactp <;> rfl
  unfold cursor_set_set2
  simp only [cur_primal, with_cur_primal, hs, hmap]
  by_cases hA : exactp.isSome = true ∧ s.exact = 0
  · rw [if_pos hA]
    refine ⟨_, rfl, rfl, Or.inr ⟨rfl, Or.inr ⟨hA.1, ?_⟩⟩⟩
    refine set_none_equal hc key hch hin p hlt ?_
    intro hpn
    have h1 := hle hpn
    have h2 : ¬ s.exact = 1 := by omega
    rw [hex] at h2
    have h3 : cursor_key_comparer b.primal key (key_at leaf p) ≠ 0 := fun h => h2 ⟨hpn, h⟩
    omega
  · rw [if_neg hA]
    by_cases hB : s.node = .null
    · rw [if_pos hB]
      have hpn : p = page_numkeys leaf := hnull.1 hB
      have hex0 : s.exact = 0 := by
        rcases hex01 with h | h
        · rw [hex] at h; omega
        · exact h
      have hns : exactp.isSome = false := by
        cases hh : exactp.isSome with
        | false => rfl
        | true => exact absurd ⟨hh, hex0⟩ hA
      have hlt2 : ∀ j, j < page_numkeys leaf →
          cursor_key_comparer b.primal key (key_at leaf j) > 0 := fun j hj => hlt j (by omega)
      have hsplit := set_leaf_split hc key hch hin.1 hlt2
      unfold cursor_sibling
      rcases cursor_sibling_rec_right _ _ s.mc.mc_snum 0 lo hi hon1 hch1
          (by rw [hon1.snum]) with ⟨hn, hrec⟩ | ⟨T, mc2, hT, hrec, hon2, ha, hst, hkd⟩
      · rw [hrec]
        simp only [ne_eq, show ¬ MDBX_NOTFOUND = MDBX_SUCCESS by decide, not_false_eq_true,
          if_true]
        refine ⟨_, rfl, rfl, Or.inr ⟨rfl, Or.inl ?_⟩⟩
        have hnone := (right_sibling_bounds R (leaf, p) 0 lo hi hch1).1 hn
        intro x hx
        rcases hsplit x hx with h | ⟨u, hu, _⟩
        · exact (hc.symm _ _).2 h
        · rw [hnone] at hu; exact absurd hu (by simp)
      · obtain ⟨q, qs, hi2, hTe, hc2⟩ := (right_sibling_bounds R (leaf, p) 0 lo hi hch1).2 T hT
        obtain ⟨u, hu⟩ := right_sibling_hi_some R (leaf, p) 0 lo hi T hch1 hT
        obtain ⟨_, _, _, _, _, _, hlen⟩ := right_sibling_chain hch1 hT
        subst hTe
        have hlen2 : qs.length = R.length := by
          simp only [List.length_cons] at hlen; omega
        have hwq := Chain.wf _ _ _ _ _ hc2
        have hlq : LeafOK (cursor_key_comparer b.primal) q := hwq.leaf
        have hq0 := hlq.nonempty
        rw [hrec]
        simp only [ne_eq, not_true_eq_false, if_false, hon2.pg_top, hlq.is_leaf,
          node_ptr_node hq0 (le_of_eq hlq.nodes.symm)]
        have hks2 : tst ({ b with primal := mc2 } : MDBX_cursor).primal.mc_kind8 S_HAVESUB
            = false := by
          show tst mc2.mc_kind8 S_HAVESUB = false
          rw [hkd]; exact hks
        rw [cursor_set_set1_plain sub_first sub_set keyp d hop { b with primal := mc2 }
          MDBX_SUCCESS (exactp.map (fun _ => s.exact)) hks2 hlq.not_dfl (hwq.2.1 0 hq0)]
        refine ⟨_, rfl, rfl, Or.inl ⟨rfl, q, 0, qs, hi, hi2, ?_, hc2, hlen2, hq0, ?_, ?_, rfl,
          rfl, ?_⟩⟩
        · exact hon2.state _
        · rw [← hlen2]
          refine set_found_least hc key hc2 hq0 ?_ (fun j hj => absurd hj (by omega)) ?_
          · have h1 := hin.2 u hu
            have h2 := hwq.2.2.1 u hu 0 hq0
            exact le_of_lt (hc.lt_of_lt_of_le h1 h2)
          · intro x hx a ha hxa
            rw [hlen2] at hx
            rcases hsplit x hx with h | ⟨u2, hu2, h⟩
            · exact h
            · rw [ha] at hu2
              injection hu2 with hu3
              subst hu3
              have := hc.gt_of_lt hxa
              omega
        · intro he; rw [hns] at he; exact absurd he (by decide)
        · exact (state_init_flags _).1
    · rw [if_neg hB]
      have hpn : p < page_numkeys leaf := by
        rcases Nat.lt_or_eq_of_le hp with h | h
        · exact h
        · exact absurd (hnull.2 h) hB
      rw [hnode hpn]
      have hks1 : tst ({ b with primal := s.mc } : MDBX_cursor).primal.mc_kind8 S_HAVESUB
          = false := hks
      rw [cursor_set_set1_plain sub_first sub_set keyp d hop { b with primal := s.mc }
        0 (exactp.map (fun _ => s.exact)) hks1 hl.not_dfl (hw.2.1 p hpn)]
      refine ⟨_, rfl, rfl, Or.inl ⟨rfl, leaf, p, R, lo, hi, ?_, hch1, rfl, hpn, ?_, ?_, rfl,
        rfl, ?_⟩⟩
      · exact hon1.state _
      · exact set_found_least hc key hch1 hpn (hle hpn) hlt hbefore
      · intro he
        have h1 : s.exact = 1 := by
          rcases hex01 with h | h
          · exact h
          · exact absurd ⟨he, h⟩ hA
        exact (hex.1 h1).2
      · exact (state_init_flags _).1

theorem descend_stack_ne_nil (txn : MDBX_txn) (pick : page_t → Nat) :
    ∀ (l : Nat) (pg : page_t) (k : Nat) (S : frames_t),
      ∃ leaf k2 R, descend_stack txn pick l pg k S = (leaf, k2) :: R := by
  intro l
  induction l with
  | zero => intro pg k S; exact ⟨pg, k, S, rfl⟩
  | succ l ih => intro pg k S; exact ih _ _ _

/-- The code of cursor_set from the call of page_search on, in a tree without
duplicates. -/
theorem cursor_set_search_plain (page_touch : page_touch_t) (sub_first : sub_call_t)
    (sub_set : Option Int → sub_call_t)
    {txn : MDBX_txn} {root : page_t} {h : Nat} {b : MDBX_cursor}
    (key : MDBX_iov) (d : MDBX_iov)
    {op : MDBX_cursor_op} (hop : op = MDBX_SET ∨ op = MDBX_SET_RANGE) (exactp : Option Int)
    (hk : tst b.primal.mc_kind8 S_HAVESUB = false)
    (hwf : WFAA txn b.primal.mc_aht (PlainNode txn) h root)
    (hci : CmpInt (cursor_key_comparer b.primal)) (hst : StackOK b.primal)
    (hroot : RootOK b.primal root) :
    ∃ r, cursor_set_search page_touch sub_first sub_set 2 key (some key) (some d) op exactp
        txn b = some r ∧
      SetOutcome txn (cursor_key_comparer b.primal) root h key (some key) op exactp.isSome
        r := by
  have hc : CmpOK (cursor_key_comparer b.primal) := hwf.cmp_ok
  have htree : WFTree txn (cursor_key_comparer b.primal) (PlainNode txn) h root none none :=
    hwf.tree
  obtain ⟨mc3, k0, hps, hon, ha, hs, hkd⟩ :=
    page_search_ok page_touch (some key) 0 (search_pick (cursor_key_comparer b.primal) key)
      (by decide) (by decide) hwf hst hroot (by
        intro mc2 pg h2 lo hi hw hst2 hsn htop hpg hs ha
        have e : cursor_key_comparer mc2 = cursor_key_comparer b.primal := by
          unfold cursor_key_comparer; rw [ha]
        have hw2 : WFTree txn (cursor_key_comparer mc2) (PlainNode txn) (h2 + 1) pg lo hi := by
          rw [e]; exact hw
        have h1 := page_search_root_step_key page_touch 0 key (e ▸ hc) (e ▸ hci) hw2.branch
          (fun i hi2 => hw2.resolves hi2) hpg hst2 hsn (by omega) (by decide)
        rw [page_search_root_ready_plain page_touch txn _ _ (by decide), e] at h1
        exact h1)
  obtain ⟨lo, hi, hch, hin⟩ := descend_chain_key hc key h root k0 [] none none
    (show Chain txn (cursor_key_comparer b.primal) (PlainNode txn) root h none none [(root, k0)]
      from ⟨rfl, rfl, rfl, htree⟩)
    ⟨fun a ha => absurd ha (by simp), fun a ha => absurd ha (by simp)⟩
  obtain ⟨leaf, k2, R, hds⟩ :=
    descend_stack_ne_nil txn (search_pick (cursor_key_comparer b.primal) key) h root k0 []
  rw [hds] at hon hch
  have hlen : R.length = h := by
    have := Chain.length_eq hch htree
    omega
  have hl : LeafOK (cursor_key_comparer b.primal) leaf := (Chain.wf _ _ _ _ _ hch).leaf
  have e : cursor_key_comparer mc3 = cursor_key_comparer b.primal := by
    unfold cursor_key_comparer; rw [ha]
  unfold cursor_set_search
  simp only [cur_primal, with_cur_primal, hps, ne_eq, not_true_eq_false, if_false, hon.pg_top,
    hl.is_leaf]
  rw [← hlen, ← e]
  rw [← e] at hc hci hch hin
  exact cursor_set_set2_plain sub_first sub_set (b := { b with primal := mc3 }) key (some key) d
    hop exactp hc hci (by show tst mc3.mc_kind8 S_HAVESUB = false; rw [hkd]; exact hk) hon hch hin

theorem tst_pow (x k : Nat) : tst x (2 ^ k) = x.testBit k := by
  unfold tst
  rw [Nat.and_two_pow x k]
  cases x.testBit k <;> simp

theorem F_ISSET_pow (x k : Nat) : F_ISSET x (2 ^ k) = x.testBit k := by
  unfold F_ISSET
  rw [Nat.and_two_pow x k]
  have := Nat.pos_pow_of_pos k (show 0 < 2 by decide)
  cases x.testBit k with
  | false => simp; omega
  | true => simp

theorem tst_dfl (mp : page_t) : tst mp.mp_flags16 P_DFL = IS_DFL mp := by
  have h1 := tst_pow mp.mp_flags16 4
  have h2 := F_ISSET_pow mp.mp_flags16 4
  rw [show (2 : Nat) ^ 4 = 16 by decide] at h1 h2
  simp only [IS_DFL, P_DFL, h1, h2]

theorem cursor_set_key_at_plain {cmp : MDBX_comparer} (mc : cursor_t) {leaf : page_t}
    (hl : LeafOK cmp leaf) {i : Nat} (hi : i < page_numkeys leaf) (r : node_ref) :
    cursor_set_key_at mc leaf i r =
      some (key_at leaf i, .node (leaf.mp_nodes.getD i default)) := by
  unfold cursor_set_key_at
  rw [tst_dfl, hl.not_dfl]
  simp only [Bool.false_eq_true, if_false, node_ptr_node hi (le_of_eq hl.nodes.symm), key_at]
  rfl

/-- The code of cursor_set from the label `set1` for the entry at an index
of the leaf of a path that the key search designates. -/
theorem cursor_set_set1_found (sub_first : sub_call_t) (sub_set : Option Int → sub_call_t)
    {txn : MDBX_txn} {root : page_t} {cmp : MDBX_comparer} {b : MDBX_cursor} {leaf : page_t}
    {j : Nat} {R : frames_t} {lo hi : Option MDBX_iov} (key : MDBX_iov)
    (keyp : Option MDBX_iov) (d : MDBX_iov)
    {op : MDBX_cursor_op} (hop : op = MDBX_SET ∨ op = MDBX_SET_RANGE) (rc : Int)
    (ex : Option Int) (exact : Bool) (hc : CmpOK cmp)
    (hk : tst b.primal.mc_kind8 S_HAVESUB = false)
    (hon : OnStack b.primal ((leaf, j) :: R))
    (hch : Chain txn cmp (PlainNode txn) root 0 lo hi ((leaf, j) :: R))
    (hj : j < page_numkeys leaf) (hle : cmp key (key_at leaf j) ≤ 0)
    (hlt : ∀ i, i < j → cmp key (key_at leaf i) > 0)
    (hlo : ∀ a, lo = some a → cmp a key ≤ 0)
    (hexact : exact = true → cmp key (key_at leaf j) = 0) :
    ∃ r, cursor_set_set1 sub_first sub_set 2 keyp (some d) op txn b leaf
        (.node (leaf.mp_nodes.getD j default)) rc ex = some r ∧
      SetOutcome txn cmp root R.length key keyp op exact r := by
  have hw := Chain.wf _ _ _ _ _ hch
  have hl : LeafOK cmp leaf := hw.leaf
  rw [cursor_set_set1_plain sub_first sub_set keyp d hop b rc ex hk hl.not_dfl (hw.2.1 j hj)]
  refine ⟨_, rfl, rfl, Or.inl ⟨rfl, leaf, j, R, lo, hi, hon.state _, hch, rfl, hj, ?_, hexact,
    rfl, rfl, (state_init_flags _).1⟩⟩
  refine set_found_least hc key hch hj hle hlt ?_
  intro x _ a ha h2
  exact hc.gt_of_lt (hc.lt_of_lt_of_le h2 (hlo a ha))

theorem cursor_set_inited_plain (page_touch : page_touch_t) (sub_first : sub_call_t)
    (sub_set : Option Int → sub_call_t)
    {txn : MDBX_txn} {root : page_t} {h : Nat} {b : MDBX_cursor} {leaf : page_t} {k : Nat}
    {R : frames_t} {lo hi : Option MDBX_iov}
    (key : MDBX_iov) (d : MDBX_iov)
    {op : MDBX_cursor_op} (hop : op = MDBX_SET ∨ op = MDBX_SET_RANGE) (exactp : Option Int)
    (hex : op = MDBX_SET → exactp.isSome = true)
    (hk : tst b.primal.mc_kind8 S_HAVESUB = false)
    (hwf : WFAA txn b.primal.mc_aht (PlainNode txn) h root)
    (hci : CmpInt (cursor_key_comparer b.primal))
    (hroot : RootOK b.primal root)
    (hon : OnStack b.primal ((leaf, k) :: R))
    (hch : Chain txn (cursor_key_comparer b.primal) (PlainNode txn) root 0 lo hi
      ((leaf, k) :: R)) :
    ∃ r, cursor_set_inited page_touch sub_first sub_set 2 key (some key) (some d) op exactp
        txn b = some r ∧
      SetOutcome txn (cursor_key_comparer b.primal) root h key (some key) op exactp.isSome
        r := by
  have hc : CmpOK (cursor_key_comparer b.primal) := hwf.cmp_ok
  have htree : WFTree txn (cursor_key_comparer b.primal) (PlainNode txn) h root none none :=
    hwf.tree
  have hlen : R.length = h := by
    have := Chain.length_eq hch htree
    omega
  subst hlen
  have hw := Chain.wf _ _ _ _ _ hch
  have hl : LeafOK (cursor_key_comparer b.primal) leaf := hw.leaf
  have hn0 := hl.nonempty
  have hnlt := page_numkeys_lt hl.lower
  have hset : ∀ i : Nat, b.primal.set_ki b.primal.mc_top i =
      some (frame_ki b.primal b.primal.mc_top i) := fun i => set_ki_eq hon.ok hon.top_lt i
  have htopR : b.primal.mc_top = R.length := by
    have := hon.top
    simp only [List.length_cons] at this
    omega
  obtain ⟨i, hscan, hiff⟩ : ∃ i, cursor_set_scan b.primal b.primal.mc_top 0 = some i ∧
      (i = b.primal.mc_top ↔ AllLast R) := by
    have hfr : HasStack b.primal.mc_pg b.primal.mc_ki ((leaf, k) :: R ++ []) := by
      rw [List.append_nil]; exact hon.frames
    exact cursor_set_scan_spec R.length R [] b.primal.mc_top rfl hfr (by simpa using htopR)
      (fun g hg => (Chain.branch_mem R (leaf, k) 0 lo hi hch g hg).1) (le_of_eq htopR.symm)
  have hsearch := cursor_set_search_plain page_touch sub_first sub_set key d hop exactp hk hwf hci
    hon.ok hroot
  have hks : ∀ j, tst ({ b with primal := frame_ki b.primal b.primal.mc_top j } :
      MDBX_cursor).primal.mc_kind8 S_HAVESUB = false := fun _ => hk
  have hexm : (Option.map (fun _ => (1 : Int)) exactp).isSome = exactp.isSome := by
    cases exactp <;> rfl
  -- the key is smaller than the first key of the page
  have hnosib : cursor_key_comparer b.primal key (key_at leaf 0) < 0 →
      ∃ r, (if b.primal.mc_top = 0 then
              if op = MDBX_SET_RANGE ∧ exactp.isNone = true then
                cursor_set_set1 sub_first sub_set 2 (some key) (some d) op txn
                  { b with primal := frame_ki b.primal b.primal.mc_top 0 } leaf
                  (node_ref.node (leaf.mp_nodes.getD 0 default)) 0 exactp
              else
                some ({ rc := MDBX_NOTFOUND, txn := txn,
                        bundle := { b with primal := frame_ki b.primal b.primal.mc_top 0 },
                        key := some key, data := some d, exact := exactp } : gres)
            else cursor_set_search page_touch sub_first sub_set 2 key (some key) (some d) op
              exactp txn b) = some r ∧
        SetOutcome txn (cursor_key_comparer b.primal) root R.length key (some key) op
          exactp.isSome r := by
    intro hlt0
    by_cases ht : b.primal.mc_top = 0
    · rw [if_pos ht]
      have hR : R = [] := List.eq_nil_of_length_eq_zero (by omega)
      subst hR
      have hlo : lo = none := hch.2.1
      have hhi : hi = none := hch.2.2.1
      by_cases hr : op = MDBX_SET_RANGE ∧ exactp.isNone = true
      · rw [if_pos hr]
        refine cursor_set_set1_found sub_first sub_set key (some key) d hop 0 exactp
          exactp.isSome hc (hks 0) (hon.frame_ki 0) (hch.top_ki 0) hn0 (le_of_lt hlt0)
          (fun j hj => absurd hj (by omega)) (fun a ha => ?_) (fun he => ?_)
        · rw [hlo] at ha; exact absurd ha (by simp)
        · have := hr.2
          rw [Option.isNone_iff_eq_none] at this
          rw [this] at he
          exact absurd he (by decide)
      · rw [if_neg hr]
        have hsome : exactp.isSome = true := by
          rcases hop with h1 | h1
          · exact hex h1
          · cases hx : exactp with
            | none => exact absurd ⟨h1, by rw [hx]; rfl⟩ hr
            | some _ => rfl
        refine ⟨_, rfl, rfl, Or.inr ⟨rfl, Or.inr ⟨hsome, ?_⟩⟩⟩
        exact set_none_equal hc key hch
          ⟨fun a ha => by rw [hlo] at ha; exact absurd ha (by simp),
           fun a ha => by rw [hhi] at ha; exact absurd ha (by simp)⟩ 0
          (fun j hj => absurd hj (by omega)) (fun _ => hlt0)
    · rw [if_neg ht]
      exact hsearch
  -- the key is greater than all keys of the page
  have hpar : (∀ j, j < page_numkeys leaf →
        cursor_key_comparer b.primal key (key_at leaf j) > 0) → ∀ lf : node_ref,
      ∃ r, (if i = b.primal.mc_top then
              if page_numkeys leaf > 65535 then none
              else
                some ({ rc := MDBX_NOTFOUND, txn := txn,
                        bundle := { b with primal := (frame_ki b.primal b.primal.mc_top (page_numkeys leaf)) },
                        key := some key, data := some d, exact := exactp } : gres)
            else
              if b.primal.mc_top = 0 then
                if op = MDBX_SET_RANGE ∧ exactp.isNone = true then
                  cursor_set_set1 sub_first sub_set 2 (some key) (some d) op txn
                    { b with primal := frame_ki b.primal b.primal.mc_top 0 } leaf lf 0 exactp
                else
                  some ({ rc := MDBX_NOTFOUND, txn := txn,
                          bundle := { b with primal := frame_ki b.primal b.primal.mc_top 0 },
                          key := some key, data := some d, exact := exactp } : gres)
              else cursor_set_search page_touch sub_first sub_set 2 key (some key) (some d) op
                exactp txn b) = some r ∧
        SetOutcome txn (cursor_key_comparer b.primal) root R.length key (some key) op
          exactp.isSome r := by
    intro hgt lf
    by_cases hi2 : i = b.primal.mc_top
    · rw [if_pos hi2, if_neg (by omega)]
      refine ⟨_, rfl, rfl, Or.inr ⟨rfl, Or.inl ?_⟩⟩
      have hnone : hi = none :=
        (right_sibling_bounds R (leaf, k) 0 lo hi hch).1
          ((right_sibling_none_iff R (leaf, k) 0 lo hi hch).2 (hiff.1 hi2))
      have hlo : ∀ a, lo = some a → cursor_key_comparer b.primal a key ≤ 0 := fun a ha =>
        le_of_lt (hc.lt_of_le_of_lt (hw.2.2.1 a ha 0 hn0) ((hc.symm _ _).2 (hgt 0 hn0)))
      intro x hx
      rcases set_leaf_split hc key hch hlo hgt x hx with h1 | ⟨u, hu, _⟩
      · exact (hc.symm _ _).2 h1
      · rw [hnone] at hu; exact absurd hu (by simp)
    · rw [if_neg hi2]
      have ht : ¬ b.primal.mc_top = 0 := by
        intro ht
        have hR : R = [] := List.eq_nil_of_length_eq_zero (by omega)
        apply hi2
        apply hiff.2
        rw [hR]
        intro g hg
        exact absurd hg (by simp)
      rw [if_neg ht]
      exact hsearch
  unfold cursor_set_inited
  simp only [cur_primal, with_cur_primal, hon.pg_top, hset, Option.map_some',
    Option.some_bind, show ¬ page_numkeys leaf = 0 by omega, if_false,
    cursor_set_key_at_plain b.primal hl hn0, cursor_compare_keys, hci.narrow, hscan,
    hon.ki_top]
  by_cases h0 : cursor_key_comparer b.primal key (key_at leaf 0) = 0
  · rw [if_pos h0]
    have := cursor_set_set1_found sub_first sub_set key (some key) d hop
      (cursor_key_comparer b.primal key (key_at leaf 0)) (Option.map (fun _ => (1 : Int)) exactp)
      exactp.isSome hc (hks 0) (hon.frame_ki 0) (hch.top_ki 0) hn0 (le_of_eq h0)
      (fun j hj => absurd hj (by omega))
      (fun a ha => hc.trans _ _ _ (hw.2.2.1 a ha 0 hn0) (le_of_eq ((hc.eq_symm _ _).1 h0)))
      (fun _ => h0)
    exact this
  · rw [if_neg h0]
    by_cases h1 : cursor_key_comparer b.primal key (key_at leaf 0) > 0
    · rw [if_pos h1]
      have hk0 : cursor_key_comparer b.primal (key_at leaf 0) key < 0 := (hc.symm _ _).2 h1
      have hlo : ∀ a, lo = some a → cursor_key_comparer b.primal a key ≤ 0 := fun a ha =>
        le_of_lt (hc.lt_of_le_of_lt (hw.2.2.1 a ha 0 hn0) hk0)
      by_cases hn1 : page_numkeys leaf > 1
      · rw [if_pos hn1]
        have hlast : page_numkeys leaf - 1 < page_numkeys leaf := by omega
        simp only [cursor_set_key_at_plain b.primal hl hlast,
          to_indx_pred (page_numkeys leaf) hn0 (by omega)]
        by_cases h2 : cursor_key_comparer b.primal key (key_at leaf (page_numkeys leaf - 1)) = 0
        · rw [if_pos h2]
          have := cursor_set_set1_found sub_first sub_set key (some key) d hop
            (cursor_key_comparer b.primal key (key_at leaf (page_numkeys leaf - 1)))
            (Option.map (fun _ => (1 : Int)) exactp)
            exactp.isSome hc (hks (page_numkeys leaf - 1))
            (hon.frame_ki (page_numkeys leaf - 1)) (hch.top_ki (page_numkeys leaf - 1)) hlast
            (le_of_eq h2)
            (fun j hj => hc.gt_of_lt (hc.lt_of_lt_of_le (hl.sorted j _ hj hlast)
              (le_of_eq ((hc.eq_symm _ _).1 h2))))
            hlo (fun _ => h2)
          exact this
        · rw [if_neg h2]
          by_cases h3 : cursor_key_comparer b.primal key (key_at leaf (page_numkeys leaf - 1)) < 0
          · rw [if_pos h3]
            have hin : KeyIn (cursor_key_comparer b.primal) key lo hi :=
              ⟨hlo, fun u hu => hc.lt_of_lt_of_le h3 (le_of_lt (hw.2.2.2 u hu _ hlast))⟩
            have hs2 := cursor_set_set2_plain sub_first sub_set
              (b := { b with primal := { b.primal with
                mc_state8 := clr8 b.primal.mc_state8 C_EOF } })
              key (some key) d hop exactp hc hci hk (hon.state _) hch hin
            by_cases hkn : k < page_numkeys leaf
            · rw [if_pos hkn]
              simp only [cursor_set_key_at_plain b.primal hl hkn]
              by_cases h4 : cursor_key_comparer b.primal key (key_at leaf k) = 0
              · rw [if_pos h4]
                have := cursor_set_set1_found sub_first sub_set key (some key) d hop 0
                  (Option.map (fun _ => (1 : Int)) exactp) exactp.isSome hc hk hon hch hkn
                  (le_of_eq h4)
                  (fun j hj => hc.gt_of_lt (hc.lt_of_lt_of_le (hl.sorted j _ hj hkn)
                    (le_of_eq ((hc.eq_symm _ _).1 h4))))
                  hlo (fun _ => h4)
                exact this
              · rw [if_neg h4]
                exact hs2
            · rw [if_neg hkn]
              exact hs2
          · rw [if_neg h3]
            refine hpar (fun j hj => ?_) _
            have h5 : cursor_key_comparer b.primal (key_at leaf (page_numkeys leaf - 1)) key
                < 0 := (hc.symm _ _).2 (by omega)
            rcases Nat.lt_or_ge j (page_numkeys leaf - 1) with h6 | h6
            · exact hc.gt_of_lt (hc.lt_of_lt_of_le (hl.sorted j _ h6 hlast) (le_of_lt h5))
            · have h7 : j = page_numkeys leaf - 1 := by omega
              rw [h7]; exact hc.gt_of_lt h5
      · rw [if_neg hn1]
        refine hpar (fun j hj => ?_) _
        have h7 : j = 0 := by omega
        rw [h7]; exact h1
    · rw [if_neg h1]
      exact hnosib (by omega)

/-- cursor_set with `MDBX_SET` or `MDBX_SET_RANGE` on a valid cursor of a tree
without duplicates. -/
theorem cursor_set_plain (page_touch : page_touch_t)
    {txn : MDBX_txn} {root : page_t} {h : Nat} {b : MDBX_cursor}
    (key : MDBX_iov) (d : MDBX_iov)
    {op : MDBX_cursor_op} (hop : op = MDBX_SET ∨ op = MDBX_SET_RANGE) (exactp : Option Int)
    (hex : op = MDBX_SET → exactp.isSome = true)
    (hk : tst b.primal.mc_kind8 S_HAVESUB = false)
    (hwf : WFAA txn b.primal.mc_aht (PlainNode txn) h root)
    (hci : CmpInt (cursor_key_comparer b.primal))
    (hcur : CursorOK txn (cursor_key_comparer b.primal) (PlainNode txn) root b.primal)
    (hsz : tst b.primal.mc_aht.aa.flags16 MDBX_INTEGERKEY = true →
      key.length = 4 ∨ key.length = 8) :
    ∃ r, cursor_set page_touch 2 txn b (some key) (some d) op exactp = some r ∧
      SetOutcome txn (cursor_key_comparer b.primal) root h key (some key) op exactp.isSome
        r := by
  have hsz2 : ¬ (tst b.primal.mc_aht.aa.flags16 MDBX_INTEGERKEY = true ∧ key.length ≠ 4 ∧
      key.length ≠ 8) := by
    intro ⟨h1, h2, h3⟩
    rcases hsz h1 with h4 | h4
    · exact h2 h4
    · exact h3 h4
  rw [show cursor_set page_touch 2 txn b (some key) (some d) op exactp =
    cursor_set_body page_touch (fun txn b data => cursor_first page_touch 1 txn b data none)
      (fun ex2p txn b data => cursor_set page_touch 1 txn b data none MDBX_SET_RANGE ex2p)
      2 txn b (some key) (some d) op exactp from rfl]
  unfold cursor_set_body
  simp only [cur_primal, with_cur_primal, hsz2, if_false, hk, Bool.false_eq_true]
  by_cases hinit : tst b.primal.mc_state8 C_INITIALIZED = true
  · obtain ⟨leaf, k, R, lo, hi, hon, hch⟩ := hcur.2 hinit
    have hroot : RootOK b.primal root := fun _ => Chain.root_pg _ _ _ _ hch hon.frames
    simp only [hinit, if_true]
    exact cursor_set_inited_plain page_touch _ _ key d hop exactp hex hk hwf hci hroot hon hch
  · have h0 : 0 < b.primal.mc_pg.length := by rw [hcur.1.1]; decide
    simp only [hinit, if_false, cursor_t.set_pg, h0, if_true]
    refine cursor_set_search_plain page_touch _ _
      (b := { b with primal := { b.primal with mc_pg := b.primal.mc_pg.set 0 none } })
      key d hop exactp hk hwf hci ⟨by simp [hcur.1.1], hcur.1.2⟩ (RootOK_of_none root ?_)
    simp [h0]

theorem cursor_get_set_eq {b : MDBX_cursor} (page_touch : page_touch_t) (txn : MDBX_txn)
    (key : MDBX_iov) (data : Option MDBX_iov) (hk : tst b.primal.mc_kind8 S_HAVESUB = false) :
    cursor_get page_touch 2 txn b (some key) data MDBX_SET =
      (cursor_set page_touch 2 txn b (some key) data MDBX_SET (some 0)).map
        (cursor_get_break 2) := by
  rw [show cursor_get page_touch 2 txn b (some key) data MDBX_SET =
    (match cursor_subordinate b 2 with
     | none => none
     | some _ => (cursor_set page_touch 2 txn b (some key) data MDBX_SET (some 0)).map
        (cursor_get_break 2))
    from rfl, cursor_subordinate_none hk]

theorem cursor_get_set_range_eq {b : MDBX_cursor} (page_touch : page_touch_t) (txn : MDBX_txn)
    (key : MDBX_iov) (data : Option MDBX_iov) (hk : tst b.primal.mc_kind8 S_HAVESUB = false) :
    cursor_get page_touch 2 txn b (some key) data MDBX_SET_RANGE =
      (cursor_set page_touch 2 txn b (some key) data MDBX_SET_RANGE none).map
        (cursor_get_break 2) := by
  rw [show cursor_get page_touch 2 txn b (some key) data MDBX_SET_RANGE =
    (match cursor_subordinate b 2 with
     | none => none
     | some _ => (cursor_set page_touch 2 txn b (some key) data MDBX_SET_RANGE none).map
        (cursor_get_break 2))
    from rfl, cursor_subordinate_none hk]

/-- C2 (as amended): over a well-formed tree of an AA without duplicates, for
a valid cursor (not initialized, or initialized on a path of the tree) and a
key whose size is 4 or 8 when the AA has integer keys, cursor_get with
`MDBX_SET` returns `MDBX_SUCCESS` exactly when the tree holds an entry whose
key compares equal to the given key, and `MDBX_NOTFOUND` otherwise; on
`MDBX_SUCCESS` the cursor stands on a path of the tree to an entry with an
equal key, the data of that entry is returned and the key of the caller is
not replaced. The comparer is taken to return values that fit an `int` (`CmpInt`): the
code stores its `ptrdiff_t` result in an `int`. -/
theorem C2_set_exact_match (page_touch : page_touch_t) {txn : MDBX_txn} {root : page_t}
    {h : Nat} {b : MDBX_cursor} (key d : MDBX_iov)
    (hk : tst b.primal.mc_kind8 S_HAVESUB = false)
    (hwf : WFAA txn b.primal.mc_aht (PlainNode txn) h root)
    (hci : CmpInt b.primal.mc_aht.ahe.ax_kcmp)
    (hcur : CursorOK txn b.primal.mc_aht.ahe.ax_kcmp (PlainNode txn) root b.primal)
    (hsz : tst b.primal.mc_aht.aa.flags16 MDBX_INTEGERKEY = true →
      key.length = 4 ∨ key.length = 8) :
    ∃ r, cursor_get page_touch 2 txn b (some key) (some d) MDBX_SET = some r ∧
      (r.rc = MDBX_SUCCESS ↔
        ∃ x ∈ tree_nodes txn h root, b.primal.mc_aht.ahe.ax_kcmp key (NODEKEY x) = 0) ∧
      (r.rc ≠ MDBX_SUCCESS → r.rc = MDBX_NOTFOUND) ∧
      (r.rc = MDBX_SUCCESS →
        ∃ (leaf : page_t) (k : Nat) (R : frames_t) (lo hi : Option MDBX_iov),
          OnStack r.bundle.primal ((leaf, k) :: R) ∧
          Chain txn b.primal.mc_aht.ahe.ax_kcmp (PlainNode txn) root 0 lo hi
            ((leaf, k) :: R) ∧
          k < page_numkeys leaf ∧
          b.primal.mc_aht.ahe.ax_kcmp key (NODEKEY (leaf.mp_nodes.getD k default)) = 0 ∧
          r.key = some key ∧
          r.data = some (node_data txn (leaf.mp_nodes.getD k default))) := by
  have hc : CmpOK b.primal.mc_aht.ahe.ax_kcmp := hwf.cmp_ok
  obtain ⟨r, hr, _, hout⟩ := cursor_set_plain page_touch key d (Or.inl rfl) (some 0)
    (fun _ => rfl) hk hwf hci hcur hsz
  rw [cursor_get_set_eq page_touch txn key (some d) hk, hr]
  refine ⟨_, rfl, ?_⟩
  show (r.rc = MDBX_SUCCESS ↔ _) ∧ (r.rc ≠ MDBX_SUCCESS → r.rc = MDBX_NOTFOUND) ∧
    (r.rc = MDBX_SUCCESS → _)
  rcases hout with ⟨hrc, leaf, k, R, lo, hi, hon, hch, _, hkn, hleast, hex, hkey, hdata, _⟩ |
    ⟨hrc, hnf⟩
  · have he := hex rfl
    refine ⟨⟨fun _ => ⟨_, hleast.1, he⟩, fun _ => hrc⟩, fun hn => absurd hrc hn, fun _ => ?_⟩
    refine ⟨leaf, k, R, lo, hi, hon.state _, hch, hkn, he, ?_, hdata⟩
    show r.key = some key
    rw [hkey]
    simp
  · have hne : r.rc ≠ MDBX_SUCCESS := by rw [hrc]; decide
    refine ⟨⟨fun hs => absurd hs hne, fun ⟨x, hx, hxe⟩ => ?_⟩, fun _ => hrc,
      fun hs => absurd hs hne⟩
    exfalso
    rcases hnf with hall | ⟨_, hnone⟩
    · have h1 := hall x hx
      have h2 := (hc.eq_symm _ _).1 hxe
      unfold cursor_key_comparer at h1
      omega
    · exact hnone x hx hxe

/-- C3 (as amended): over a well-formed tree of an AA without duplicates, for
a valid cursor and a key whose size is 4 or 8 when the AA has integer keys,
cursor_get with `MDBX_SET_RANGE` returns `MDBX_NOTFOUND` exactly when every key
of the tree is smaller than the given key; otherwise it returns `MDBX_SUCCESS`,
the cursor stands on a path of the tree to the entry with the least key that
is not smaller than the given key, the key of the caller is replaced by the
key of that entry and its data is returned. The comparer is taken to return values that fit an `int` (`CmpInt`): the
code stores its `ptrdiff_t` result in an `int`. -/
theorem C3_set_range_least (page_touch : page_touch_t) {txn : MDBX_txn} {root : page_t}
    {h : Nat} {b : MDBX_cursor} (key d : MDBX_iov)
    (hk : tst b.primal.mc_kind8 S_HAVESUB = false)
    (hwf : WFAA txn b.primal.mc_aht (PlainNode txn) h root)
    (hci : CmpInt b.primal.mc_aht.ahe.ax_kcmp)
    (hcur : CursorOK txn b.primal.mc_aht.ahe.ax_kcmp (PlainNode txn) root b.primal)
    (hsz : tst b.primal.mc_aht.aa.flags16 MDBX_INTEGERKEY = true →
      key.length = 4 ∨ key.length = 8) :
    ∃ r, cursor_get page_touch 2 txn b (some key) (some d) MDBX_SET_RANGE = some r ∧
      (r.rc = MDBX_NOTFOUND ↔
        ∀ x ∈ tree_nodes txn h root, b.primal.mc_aht.ahe.ax_kcmp (NODEKEY x) key < 0) ∧
      (r.rc ≠ MDBX_NOTFOUND →
        r.rc = MDBX_SUCCESS ∧
        ∃ (leaf : page_t) (k : Nat) (R : frames_t) (lo hi : Option MDBX_iov),
          OnStack r.bundle.primal ((leaf, k) :: R) ∧
          Chain txn b.primal.mc_aht.ahe.ax_kcmp (PlainNode txn) root 0 lo hi
            ((leaf, k) :: R) ∧
          k < page_numkeys leaf ∧
          IsLeast b.primal.mc_aht.ahe.ax_kcmp key (tree_nodes txn h root)
            (leaf.mp_nodes.getD k default) ∧
          r.key = some (NODEKEY (leaf.mp_nodes.getD k default)) ∧
          r.data = some (node_data txn (leaf.mp_nodes.getD k default))) := by
  have hc : CmpOK b.primal.mc_aht.ahe.ax_kcmp := hwf.cmp_ok
  obtain ⟨r, hr, _, hout⟩ := cursor_set_plain page_touch key d (Or.inr rfl) none
    (fun h => absurd h (by decide)) hk hwf hci hcur hsz
  rw [cursor_get_set_range_eq page_touch txn key (some d) hk, hr]
  refine ⟨_, rfl, ?_⟩
  show (r.rc = MDBX_NOTFOUND ↔ _) ∧ (r.rc ≠ MDBX_NOTFOUND → r.rc = MDBX_SUCCESS ∧ _)
  rcases hout with ⟨hrc, leaf, k, R, lo, hi, hon, hch, _, hkn, hleast, _, hkey, hdata, _⟩ |
    ⟨hrc, hnf⟩
  · have hne : r.rc ≠ MDBX_NOTFOUND := by rw [hrc]; decide
    refine ⟨⟨fun hs => absurd hs hne, fun hall => ?_⟩, fun _ => ⟨hrc, ?_⟩⟩
    · exfalso
      have h1 := hall _ hleast.1
      have h2 := hc.gt_of_lt h1
      have h3 := hleast.2.1
      unfold cursor_key_comparer at h3
      omega
    · refine ⟨leaf, k, R, lo, hi, hon.state _, hch, hkn, hleast, ?_, hdata⟩
      show r.key = _
      rw [hkey]
      simp [MDBX_GET_KEY]
  · refine ⟨⟨fun _ => ?_, fun _ => hrc⟩, fun hn => absurd hrc hn⟩
    rcases hnf with hall | ⟨he, _⟩
    · exact hall
    · exact absurd he (by decide)

theorem int_leaf_ok : LeafOK cmp_lex int_leaf where
  is_leaf := by decide
  not_branch := by decide
  not_dfl := by decide
  lower := by decide
  nodes := by decide
  nonempty := by decide
  sorted := by
    intro i j h1 h2
    have h4 : page_numkeys int_leaf = 2 := by decide
    have hj : j = 1 := by omega
    have hi : i = 0 := by omega
    subst hj hi
    decide

theorem int_aa (flags : Nat) :
    WFAA (sample_txn int_pages) (sample_aht flags 3) (PlainNode (sample_txn int_pages)) 0
      int_leaf where
  live := by decide
  valid := by
    show tst MDBX_AAH_VALID MDBX_AAH_VALID = true
    decide
  root_ge := by
    show NUM_METAS ≤ 3
    decide
  root_pg := ⟨by rfl, by rfl⟩
  root_no := by rfl
  depth := by decide
  tree := ⟨int_leaf_ok, fun i _ => sample_plain _ _ _ i,
    fun l hl => absurd hl (by simp), fun u hu => absurd hu (by simp)⟩
  cmp_ok := cmp_lex_ok

theorem sample_fresh_ok (txn : MDBX_txn) (P : node_t → Prop) (root : page_t) (aht : aht_t) :
    CursorOK txn cmp_lex P root (sample_bundle_at aht 0 []).primal :=
  ⟨⟨by rfl, by rfl⟩, fun h => absurd h (by show ¬ tst 0 C_INITIALIZED = true; decide)⟩

theorem two_left_cursor_ok (k : Nat) :
    CursorOK (sample_txn two_pages) cmp_lex (PlainNode (sample_txn two_pages)) two_root
      (sample_bundle_at (sample_aht 0 4) C_INITIALIZED [(two_root, 0), (two_left, k)]).primal :=
  ⟨⟨by rfl, by rfl⟩, fun _ => ⟨two_left, k, [(two_root, 0)], none, some k_gamma,
    two_left_on C_INITIALIZED k,
    two_left_chain (PlainNode (sample_txn two_pages)) (sample_plain (sample_txn two_pages)) k⟩⟩

theorem C2_set_exact_match_witness :
    ∃ r, cursor_get sample_touch 2 (sample_txn two_pages)
        (sample_bundle_at (sample_aht 0 4) C_INITIALIZED [(two_root, 0), (two_left, 0)])
        (some k_gamma) (some []) MDBX_SET = some r ∧
      (r.rc = MDBX_SUCCESS ↔
        ∃ x ∈ tree_nodes (sample_txn two_pages) 1 two_root, cmp_lex k_gamma (NODEKEY x) = 0) ∧
      (r.rc ≠ MDBX_SUCCESS → r.rc = MDBX_NOTFOUND) :=
  (C2_set_exact_match sample_touch k_gamma [] (by decide)
    (two_aa (PlainNode (sample_txn two_pages)) (sample_plain (sample_txn two_pages)))
    cmp_lex_int (two_left_cursor_ok 0) (fun h => absurd h (by decide))).imp
    (fun _ h => ⟨h.1, h.2.1, h.2.2.1⟩)

/-- C2, counterexample: over the well-formed tree of an AA with integer keys
and without duplicates that holds the four-byte keys 1 and 2, cursor_get with
`MDBX_SET` and a key of three bytes does not return: the assertion on the key
size in cursor_set fails (without assertions the return code is
`MDBX_BAD_VALSIZE`); the result is neither `MDBX_SUCCESS` nor `MDBX_NOTFOUND`. -/
theorem C2_counterexample_integerkey :
    WFAA (sample_txn int_pages) (sample_aht MDBX_INTEGERKEY 3)
      (PlainNode (sample_txn int_pages)) 0 int_leaf ∧
    CursorOK (sample_txn int_pages) cmp_lex (PlainNode (sample_txn int_pages)) int_leaf
      (sample_bundle_at (sample_aht MDBX_INTEGERKEY 3) 0 []).primal ∧
    cursor_get sample_touch 2 (sample_txn int_pages)
      (sample_bundle_at (sample_aht MDBX_INTEGERKEY 3) 0 []) (some [0, 0, 1]) (some [])
      MDBX_SET = none :=
  ⟨int_aa _, sample_fresh_ok _ _ _ _, by rfl⟩

theorem C3_set_range_least_witness :
    ∃ r, cursor_get sample_touch 2 (sample_txn two_pages)
        (sample_bundle_at (sample_aht 0 4) C_INITIALIZED [(two_root, 0), (two_left, 0)])
        (some k_beta) (some []) MDBX_SET_RANGE = some r ∧
      (r.rc = MDBX_NOTFOUND ↔
        ∀ x ∈ tree_nodes (sample_txn two_pages) 1 two_root, cmp_lex (NODEKEY x) k_beta < 0) :=
  (C3_set_range_least sample_touch k_beta [] (by decide)
    (two_aa (PlainNode (sample_txn two_pages)) (sample_plain (sample_txn two_pages)))
    cmp_lex_int (two_left_cursor_ok 0) (fun h => absurd h (by decide))).imp
    (fun _ h => ⟨h.1, h.2.1⟩)

/-- C3, counterexample: over the well-formed tree of an AA with integer keys
and without duplicates that holds the four-byte keys 1 and 2, cursor_get with
`MDBX_SET_RANGE` and a key of five bytes does not return: the assertion on the
key size in cursor_set fails (without assertions the return code is
`MDBX_BAD_VALSIZE`), although the tree holds keys and not every key is
smaller than the given one. -/
theorem C3_counterexample_integerkey :
    WFAA (sample_txn int_pages) (sample_aht MDBX_INTEGERKEY 3)
      (PlainNode (sample_txn int_pages)) 0 int_leaf ∧
    CursorOK (sample_txn int_pages) cmp_lex (PlainNode (sample_txn int_pages)) int_leaf
      (sample_bundle_at (sample_aht MDBX_INTEGERKEY 3) 0 []).primal ∧
    cmp_lex k_one [0, 0, 0, 0, 1] > 0 ∧
    cursor_get sample_touch 2 (sample_txn int_pages)
      (sample_bundle_at (sample_aht MDBX_INTEGERKEY 3) 0 []) (some [0, 0, 0, 0, 1]) (some [])
      MDBX_SET_RANGE = none :=
  ⟨int_aa _, sample_fresh_ok _ _ _ _, by decide, by rfl⟩

theorem pnl_search_hit (pn : Nat) :
    ∀ (sl : List Nat), sl.Pairwise (fun a b => b < a) →
      (decide (mdbx_pnl_search sl pn ≤ sl.length) && (sl[mdbx_pnl_search sl pn - 1]? == some pn))
        = sl.contains pn := by
  intro sl
  induction sl with
  | nil => intro _; rfl
  | cons a l ih =>
    intro hs
    rw [List.pairwise_cons] at hs
    have ih2 := ih hs.2
    unfold mdbx_pnl_search at ih2 ⊢
    rw [List.findIdx_cons]
    by_cases ha : a ≤ pn
    · simp only [ha, decide_True, cond_true, Nat.zero_add, List.length_cons, Nat.sub_self,
        List.getElem?_cons_zero]
      by_cases he : a = pn
      · subst he; simp
      · have hnot : ¬ pn ∈ l := by
          intro hm
          have := hs.1 pn hm
          omega
        have hne : ¬ pn = a := fun h => he h.symm
        simp [hnot, he, hne]
    · have hne : ¬ pn = a := by omega
      simp only [ha, decide_False, cond_false, List.length_cons, Nat.add_sub_cancel,
        List.getElem?_cons_succ, Nat.add_le_add_iff_right] at ih2 ⊢
      rw [ih2]
      simp [hne]

theorem mid2l_search_hit (pgno : Nat) :
    ∀ (dl : List MDBX_ID2), dl.Pairwise (fun a b => a.mid < b.mid) →
      (∀ e, dl.find? (fun e => e.mid == pgno) = some e →
        (if dl.length ≠ 0 ∧ mdbx_mid2l_search dl pgno ≤ dl.length
          then dl[mdbx_mid2l_search dl pgno - 1]? else none) = some e ∧ e.mid = pgno) ∧
      (dl.find? (fun e => e.mid == pgno) = none →
        ∀ e, (if dl.length ≠ 0 ∧ mdbx_mid2l_search dl pgno ≤ dl.length
          then dl[mdbx_mid2l_search dl pgno - 1]? else none) = some e → e.mid ≠ pgno) := by
  intro dl
  induction dl with
  | nil =>
    intro _
    exact ⟨fun e h => by simp at h, fun _ e h => by simp at h⟩
  | cons a l ih =>
    intro hs
    rw [List.pairwise_cons] at hs
    have ih2 := ih hs.2
    unfold mdbx_mid2l_search at ih2 ⊢
    rw [List.findIdx_cons, List.find?_cons]
    by_cases ha : pgno ≤ a.mid
    · simp only [ha, decide_True, cond_true, Nat.zero_add, List.length_cons, Nat.sub_self,
        List.getElem?_cons_zero, ne_eq, Nat.add_one_ne_zero, not_false_eq_true,
        Nat.le_add_left, and_self, if_true]
      by_cases he : a.mid = pgno
      · have he2 : (a.mid == pgno) = true := by simpa using he
        simp only [he2]
        constructor
        · intro e h; injection h with h; subst h; exact ⟨rfl, he⟩
        · intro h; exact absurd h (by simp)
      · have he2 : (a.mid == pgno) = false := by simpa using he
        simp only [he2]
        have hnone : l.find? (fun e => e.mid == pgno) = none := by
          rw [List.find?_eq_none]
          intro x hx hp
          have h1 : a.mid < x.mid := hs.1 x hx
          have h2 : x.mid = pgno := by simpa using hp
          rw [h2] at h1
          exact absurd (Nat.lt_of_lt_of_le h1 ha) (Nat.lt_irrefl _)
        constructor
        · intro e h; rw [hnone] at h; exact absurd h (by simp)
        · intro _ e h; injection h with h; subst h; exact he
    · have he : ¬ a.mid = pgno := by
        intro h
        rw [h] at ha
        exact ha (Nat.le_refl _)
      have he2 : (a.mid == pgno) = false := by simpa using he
      simp only [ha, decide_False, cond_false, he2, List.length_cons, Nat.add_sub_cancel,
        List.getElem?_cons_succ, ne_eq, Nat.add_one_ne_zero, not_false_eq_true, true_and,
        Nat.add_le_add_iff_right]
      have hprobe : (if l.length ≠ 0 ∧ List.findIdx (fun e => decide (pgno ≤ e.mid)) l + 1
            ≤ l.length then l[List.findIdx (fun e => decide (pgno ≤ e.mid)) l + 1 - 1]? else none)
          = (if List.findIdx (fun e => decide (pgno ≤ e.mid)) l + 1 ≤ l.length
              then l[List.findIdx (fun e => decide (pgno ≤ e.mid)) l]? else none) := by
        by_cases h : List.findIdx (fun e => decide (pgno ≤ e.mid)) l + 1 ≤ l.length
        · have h0 : l.length ≠ 0 := by omega
          simp [h, h0]
        · simp [h]
      rw [hprobe] at ih2
      exact ih2

/-- The walk of page_get finds the owner that the description names, when the
lists of the chain are in order. -/
theorem page_get_walk_owner (pgno : pgno_t) :
    ∀ (chain : List txn_lists) (level : Nat), (∀ t ∈ chain, ListsOK t) →
      (page_get_walk pgno chain level).owner = page_get_owner_spec pgno chain := by
  intro chain
  induction chain with
  | nil => intro _ _; rfl
  | cons t rest ih =>
    intro level hs
    have ht := hs t (List.mem_cons_self _ _)
    have hrest : ∀ x ∈ rest, ListsOK x := fun x hx => hs x (List.mem_cons_of_mem _ hx)
    have hsp : (match t.mt_spill_pages with
        | none => false
        | some sl =>
          decide (mdbx_pnl_search sl ((pgno <<< 1) % 4294967296) ≤ sl.length) &&
            (sl[mdbx_pnl_search sl ((pgno <<< 1) % 4294967296) - 1]? ==
              some ((pgno <<< 1) % 4294967296))) =
        (t.mt_spill_pages.getD []).contains (spill_key pgno) := by
      cases hsl : t.mt_spill_pages with
      | none => rfl
      | some sl => exact pnl_search_hit _ sl (ht.1 sl hsl)
    unfold page_get_walk page_get_owner_spec
    simp only [hsp]
    by_cases hc : (t.mt_spill_pages.getD []).contains (spill_key pgno) = true
    · simp only [hc, if_true]
      rfl
    · simp only [hc, Bool.false_eq_true, if_false]
      have hd := mid2l_search_hit pgno t.mt_rw_dirtylist ht.2
      cases hf : t.mt_rw_dirtylist.find? (fun e => e.mid == pgno) with
      | some e =>
        obtain ⟨h1, h2⟩ := hd.1 e hf
        simp only [h1, h2, if_true]
        rfl
      | none =>
        have h3 := hd.2 hf
        cases hp : (if t.mt_rw_dirtylist.length ≠ 0 ∧
            mdbx_mid2l_search t.mt_rw_dirtylist pgno ≤ t.mt_rw_dirtylist.length
            then t.mt_rw_dirtylist[mdbx_mid2l_search t.mt_rw_dirtylist pgno - 1]? else none) with
        | none => exact ih (level + 1) hrest
        | some e =>
          simp only [h3 e hp, if_false]
          exact ih (level + 1) hrest

/-- C19: for a write transaction that is not in write-map mode whose lists are
in order, page_get resolves a page number as its description says: the chain
of the transaction and its ancestors is walked up to the first owner of the
page; when the owner has the key `pgno << 1` (low bit clear) in its spill list
the page of the memory map is returned, whatever the dirty lists hold; when
the owner has the page number in its dirty list the dirty copy is returned;
when nobody owns the page the bounds check against the next free page number
decides.  For a read-only or write-map transaction only the bounds check
decides, no list is consulted. -/
theorem C19_page_get_owner (txn : MDBX_txn) (pgno : pgno_t)
    (hs : ∀ t ∈ txn_own_lists txn :: txn.mt_parent, ListsOK t) :
    spill_key pgno % 2 = 0 ∧
    (tst txn.mt_flags (MDBX_RDONLY ||| MDBX_WRITEMAP) = false →
      (page_get_owner_spec pgno (txn_own_lists txn :: txn.mt_parent) = .spilled →
        (page_get txn pgno).rc = MDBX_SUCCESS ∧
        (page_get txn pgno).ret = some (pgno2page txn.mt_book pgno) ∧
        (page_get txn pgno).txn = txn) ∧
      (∀ p, page_get_owner_spec pgno (txn_own_lists txn :: txn.mt_parent) = .dirty p →
        (page_get txn pgno).rc = MDBX_SUCCESS ∧ (page_get txn pgno).ret = some p ∧
        (page_get txn pgno).txn = txn) ∧
      (page_get_owner_spec pgno (txn_own_lists txn :: txn.mt_parent) = .nobody →
        page_get txn pgno = page_get_unowned_spec txn pgno)) ∧
    (tst txn.mt_flags (MDBX_RDONLY ||| MDBX_WRITEMAP) = true →
      page_get txn pgno = page_get_unowned_spec txn pgno) := by
  refine ⟨?_, ?_, ?_⟩
  · have h : ∀ n : Nat, (n <<< 1) % 4294967296 % 2 = 0 := by
      intro n
      rw [Nat.shiftLeft_eq, pow_one]
      omega
    exact h pgno
  · intro hw
    have ho := page_get_walk_owner pgno (txn_own_lists txn :: txn.mt_parent) 1 hs
    have hpg : page_get txn pgno =
        match page_get_walk pgno (txn_own_lists txn :: txn.mt_parent) 1 with
        | .done p level => { rc := MDBX_SUCCESS, txn := txn, ret := some p, lvl := some level }
        | .mapped level =>
          { rc := MDBX_SUCCESS, txn := txn, ret := some (pgno2page txn.mt_book pgno),
            lvl := some level }
        | .fallthrough => page_get_unowned_spec txn pgno := by
      unfold page_get
      simp only [hw, Bool.false_eq_true, not_false_eq_true, if_true]
      rfl
    rw [hpg]
    cases hwalk : page_get_walk pgno (txn_own_lists txn :: txn.mt_parent) 1 with
    | mapped level =>
      rw [hwalk] at ho
      rw [← ho]
      refine ⟨?_, ?_, ?_⟩
      · intro _; exact ⟨rfl, rfl, rfl⟩
      · intro p h; simp [page_get_walk_t.owner] at h
      · intro h; simp [page_get_walk_t.owner] at h
    | done q level =>
      rw [hwalk] at ho
      rw [← ho]
      refine ⟨?_, ?_, ?_⟩
      · intro h; simp [page_get_walk_t.owner] at h
      · intro p h
        have : q = p := by
          simp only [page_get_walk_t.owner] at h
          injection h
        subst this
        exact ⟨rfl, rfl, rfl⟩
      · intro h; simp [page_get_walk_t.owner] at h
    | fallthrough =>
      rw [hwalk] at ho
      rw [← ho]
      refine ⟨?_, ?_, ?_⟩
      · intro h; simp [page_get_walk_t.owner] at h
      · intro p h; simp [page_get_walk_t.owner] at h
      · intro _; rfl
  · intro hw
    unfold page_get
    simp only [hw, not_true_eq_false, if_false]
    rfl

theorem sample_child_lists : ∀ t ∈ txn_own_lists sample_child_txn :: sample_child_txn.mt_parent,
    ListsOK t := by
  have h1 : ListsOK (txn_own_lists sample_child_txn) := by
    refine ⟨fun sl hsl => ?_, by decide⟩
    have h2 : some [10] = some sl := hsl
    injection h2 with h2
    rw [← h2]
    decide
  have h2 : ListsOK { mt_rw_dirtylist :=
      [{ mid := 5, mptr := two_left }, { mid := 7, mptr := two_right }] } := by
    refine ⟨fun sl hsl => ?_, ?_⟩
    · exact absurd hsl (by simp)
    · show List.Pairwise _ [_, _]
      simp
  intro t ht
  rcases List.mem_cons.1 ht with h | ht2
  · rw [h]; exact h1
  · have h3 : t ∈ [({ mt_rw_dirtylist :=
        [{ mid := 5, mptr := two_left }, { mid := 7, mptr := two_right }] } : txn_lists)] := ht2
    rw [List.mem_singleton] at h3
    rw [h3]; exact h2

theorem C19_page_get_owner_witness :
    (∀ t ∈ txn_own_lists sample_child_txn :: sample_child_txn.mt_parent, ListsOK t) ∧
    page_get_owner_spec 5 (txn_own_lists sample_child_txn :: sample_child_txn.mt_parent)
      = .spilled ∧
    (page_get sample_child_txn 5).ret = some two_left ∧
    page_get_owner_spec 7 (txn_own_lists sample_child_txn :: sample_child_txn.mt_parent)
      = .dirty two_right ∧
    (page_get sample_child_txn 7).ret = some two_right :=
  ⟨sample_child_lists, by rfl,
    (((C19_page_get_owner sample_child_txn 5 sample_child_lists).2.1 (by decide)).1
      (by rfl)).2.1,
    by rfl,
    (((C19_page_get_owner sample_child_txn 7 sample_child_lists).2.1 (by decide)).2.1
      two_right (by rfl)).2.1⟩

theorem page_get_rc (txn : MDBX_txn) (pgno : pgno_t) :
    (page_get txn pgno).rc = MDBX_SUCCESS ∨ (page_get txn pgno).rc = MDBX_PAGE_NOTFOUND := by
  unfold page_get
  simp only
  generalize (if ¬ tst txn.mt_flags (MDBX_RDONLY ||| MDBX_WRITEMAP) = true then
      page_get_walk pgno
        ({ mt_spill_pages := txn.mt_spill_pages, mt_rw_dirtylist := txn.mt_rw_dirtylist }
          :: txn.mt_parent) 1
    else page_get_walk_t.fallthrough) = w
  cases w with
  | mapped l => exact Or.inl rfl
  | done p l => exact Or.inl rfl
  | fallthrough =>
    by_cases hp : pgno ≥ txn.mt_next_pgno
    · right; show (if pgno ≥ txn.mt_next_pgno then _ else _ : page_get_ret).rc = _
      rw [if_pos hp]
    · left; show (if pgno ≥ txn.mt_next_pgno then _ else _ : page_get_ret).rc = _
      rw [if_neg hp]

/-- The tail of cursor_sibling never returns `MDBX_NOTFOUND`. -/
theorem cursor_sibling_down_rc {move_right : Bool} {txn : MDBX_txn} {mc : cursor_t} {r : cres}
    (h : cursor_sibling_down move_right txn mc = some r) : r.rc ≠ MDBX_NOTFOUND := by
  unfold cursor_sibling_down at h
  cases hpg : mc.pg mc.mc_top with
  | none => simp [hpg] at h
  | some pg =>
    cases hki : mc.ki mc.mc_top with
    | none => simp [hpg, hki] at h
    | some ki =>
      simp only [hpg, hki] at h
      by_cases hb : IS_BRANCH pg = true
      · simp only [hb, not_true_eq_false, if_false] at h
        cases hn : (node_ptr pg ki).bind node_ref.deref with
        | none => simp [hn] at h
        | some indx =>
          simp only [hn] at h
          by_cases hrc : (page_get txn (node_get_pgno indx)).rc = MDBX_SUCCESS
          · simp only [hrc, ne_eq, not_true_eq_false, if_false] at h
            cases hret : (page_get txn (node_get_pgno indx)).ret with
            | none => simp [hret] at h
            | some mp =>
              simp only [hret] at h
              cases hpush : cursor_push (page_get txn (node_get_pgno indx)).txn mc mp with
              | none => simp [hpush] at h
              | some p =>
                simp only [hpush] at h
                by_cases hm : move_right = true
                · simp only [hm, not_true_eq_false, if_false] at h
                  injection h with h
                  rw [← h]
                  show MDBX_SUCCESS ≠ MDBX_NOTFOUND
                  decide
                · simp only [hm, not_false_eq_true, if_true] at h
                  cases hset : p.mc.set_ki p.mc.mc_top (to_indx ((page_numkeys mp : Int) - 1)) with
                  | none => simp [hset] at h
                  | some m =>
                    rw [hset] at h
                    simp only [Option.map_some'] at h
                    injection h with h
                    rw [← h]
                    show MDBX_SUCCESS ≠ MDBX_NOTFOUND
                    decide
          · simp only [hrc, ne_eq, not_false_eq_true, if_true] at h
            injection h with h
            rw [← h]
            rcases page_get_rc txn (node_get_pgno indx) with h1 | h1
            · exact absurd h1 hrc
            · show (page_get txn (node_get_pgno indx)).rc ≠ MDBX_NOTFOUND
              rw [h1]; decide
      · simp [hb] at h

theorem cursor_restore (mc : cursor_t) (h1 : 1 ≤ mc.mc_top) (h2 : 1 ≤ mc.mc_snum) :
    ({ ({ mc with mc_snum := mc.mc_snum - 1, mc_top := mc.mc_top - 1 } : cursor_t) with
        mc_top := mc.mc_top - 1 + 1, mc_snum := mc.mc_snum - 1 + 1 } : cursor_t) = mc := by
  have e1 : mc.mc_top - 1 + 1 = mc.mc_top := by omega
  have e2 : mc.mc_snum - 1 + 1 = mc.mc_snum := by omega
  rw [e1, e2]

/-- The recursion of cursor_sibling: a result `MDBX_NOTFOUND` comes with the
cursor and the transaction as they were, and every frame below the top one is
at the edge of its page in the direction of the move. -/
theorem cursor_sibling_rec_notfound (move_right : Bool) (txn : MDBX_txn) :
    ∀ (fuel : Nat) (mc : cursor_t) (r : cres),
      mc.mc_top = mc.mc_snum - 1 → mc.mc_snum ≤ CURSOR_STACK →
      cursor_sibling_rec move_right fuel txn mc = some r → r.rc = MDBX_NOTFOUND →
      r.mc = mc ∧ r.txn = txn ∧
      ∀ i, i < mc.mc_top → ∃ pg ki, mc.pg i = some pg ∧ mc.ki i = some ki ∧
        (if move_right then ki + 1 ≥ page_numkeys pg else ki = 0) := by
  intro fuel
  induction fuel with
  | zero =>
    intro mc r htop _ hr _
    unfold cursor_sibling_rec at hr
    by_cases h2 : mc.mc_snum < 2
    · rw [if_pos h2] at hr
      injection hr with hr
      rw [← hr]
      exact ⟨rfl, rfl, fun i hi => absurd hi (by omega)⟩
    · rw [if_neg h2] at hr
      exact absurd hr (by simp)
  | succ fuel ih =>
    intro mc r htop hsz hr hrc
    unfold cursor_sibling_rec at hr
    by_cases h2 : mc.mc_snum < 2
    · rw [if_pos h2] at hr
      injection hr with hr
      rw [← hr]
      exact ⟨rfl, rfl, fun i hi => absurd hi (by omega)⟩
    · rw [if_neg h2] at hr
      have hpop : cursor_pop mc =
          { mc with mc_snum := mc.mc_snum - 1, mc_top := mc.mc_top - 1 } := by
        unfold cursor_pop
        have h4 : mc.mc_snum ≠ 0 := by omega
        have h5 : mc.mc_snum - 1 ≠ 0 := by omega
        have h6 : to_unsigned ((mc.mc_top : Int) - 1) = mc.mc_top - 1 := by
          unfold to_unsigned
          have h7 : ((mc.mc_top : Int) - 1) % 4294967296 = ((mc.mc_top - 1 : Nat) : Int) := by
            unfold CURSOR_STACK at hsz
            omega
          rw [h7, Int.toNat_natCast]
        simp only [h4, h5, ne_eq, not_false_eq_true, if_true, h6]
      simp only [hpop] at hr
      cases hpg : mc.pg (mc.mc_top - 1) with
      | none =>
        have e : ({ mc with mc_snum := mc.mc_snum - 1, mc_top := mc.mc_top - 1 } : cursor_t).pg
            (mc.mc_top - 1) = none := hpg
        simp [e] at hr
      | some pg =>
        have e : ({ mc with mc_snum := mc.mc_snum - 1, mc_top := mc.mc_top - 1 } : cursor_t).pg
            (mc.mc_top - 1) = some pg := hpg
        cases hki : mc.ki (mc.mc_top - 1) with
        | none =>
          have e2 : ({ mc with mc_snum := mc.mc_snum - 1, mc_top := mc.mc_top - 1 } : cursor_t).ki
              (mc.mc_top - 1) = none := hki
          simp [e, e2] at hr
        | some ki =>
          have e2 : ({ mc with mc_snum := mc.mc_snum - 1, mc_top := mc.mc_top - 1 } : cursor_t).ki
              (mc.mc_top - 1) = some ki := hki
          simp only [e, e2] at hr
          by_cases hc : (if move_right = true then decide (ki + 1 ≥ page_numkeys pg)
              else decide (ki = 0)) = true
          · rw [if_pos hc] at hr
            cases hrec : cursor_sibling_rec move_right fuel txn
                { mc with mc_snum := mc.mc_snum - 1, mc_top := mc.mc_top - 1 } with
            | none => simp [hrec] at hr
            | some r2 =>
              simp only [hrec] at hr
              by_cases hs : r2.rc = MDBX_SUCCESS
              · simp only [hs, ne_eq, not_true_eq_false, if_false] at hr
                exact absurd hrc (cursor_sibling_down_rc hr)
              · simp only [hs, ne_eq, not_false_eq_true, if_true] at hr
                injection hr with hr
                have hrc2 : r2.rc = MDBX_NOTFOUND := by rw [← hr] at hrc; exact hrc
                obtain ⟨hmc, htx, hanc⟩ := ih _ r2
                  (show mc.mc_top - 1 = mc.mc_snum - 1 - 1 by omega)
                  (show mc.mc_snum - 1 ≤ CURSOR_STACK by omega) hrec hrc2
                rw [← hr]
                refine ⟨?_, htx, ?_⟩
                · show ({ r2.mc with mc_top := r2.mc.mc_top + 1,
                                     mc_snum := r2.mc.mc_snum + 1 } : cursor_t) = mc
                  rw [hmc]
                  exact cursor_restore mc (by omega) (by omega)
                · intro i hi
                  by_cases hi2 : i < mc.mc_top - 1
                  · exact hanc i hi2
                  · have hi3 : i = mc.mc_top - 1 := by omega
                    rw [hi3]
                    refine ⟨pg, ki, hpg, hki, ?_⟩
                    cases move_right with
                    | true => simpa using hc
                    | false => simpa using hc
          · rw [if_neg hc] at hr
            cases hset : ({ mc with mc_snum := mc.mc_snum - 1, mc_top := mc.mc_top - 1 } :
                cursor_t).set_ki (mc.mc_top - 1)
                (if move_right = true then to_indx ((ki : Int) + 1)
                  else to_indx ((ki : Int) - 1)) with
            | none => simp [hset] at hr
            | some m =>
              simp only [hset] at hr
              exact absurd hrc (cursor_sibling_down_rc hr)

/-- C17: whenever cursor_sibling returns `MDBX_NOTFOUND`, on a cursor whose
top is its depth minus one, the cursor is exactly as before the call (depth,
top, the page and index of every frame, state flags), the transaction is as
before, and the stack has fewer than 2 frames or every frame below the top one
is at the last index of its page (moving right) or at index 0 (moving left). -/
theorem C17_sibling_notfound_keeps_cursor (move_right : Bool) (txn : MDBX_txn) (mc : cursor_t)
    (r : cres) (htop : mc.mc_top = mc.mc_snum - 1) (hsz : mc.mc_snum ≤ CURSOR_STACK)
    (hr : cursor_sibling txn mc move_right = some r) (hrc : r.rc = MDBX_NOTFOUND) :
    r.mc = mc ∧ r.txn = txn ∧
    (mc.mc_snum < 2 ∨
      ∀ i, i < mc.mc_top → ∃ pg ki, mc.pg i = some pg ∧ mc.ki i = some ki ∧
        (if move_right then ki + 1 ≥ page_numkeys pg else ki = 0)) := by
  obtain ⟨h1, h2, h3⟩ := cursor_sibling_rec_notfound move_right txn mc.mc_snum mc r htop hsz hr hrc
  exact ⟨h1, h2, Or.inr h3⟩

theorem C17_sibling_notfound_keeps_cursor_witness :
    cursor_sibling (sample_txn two_pages)
        (sample_cursor (sample_aht 0 4) C_INITIALIZED [(two_root, 1), (two_right, 0)]) true =
      some { rc := MDBX_NOTFOUND, txn := sample_txn two_pages,
             mc := sample_cursor (sample_aht 0 4) C_INITIALIZED [(two_root, 1), (two_right, 0)] } ∧
    (∀ i, i < 1 → ∃ pg ki,
      (sample_cursor (sample_aht 0 4) C_INITIALIZED [(two_root, 1), (two_right, 0)]).pg i
        = some pg ∧
      (sample_cursor (sample_aht 0 4) C_INITIALIZED [(two_root, 1), (two_right, 0)]).ki i
        = some ki ∧ ki + 1 ≥ page_numkeys pg) :=
  ⟨by rfl,
   ((C17_sibling_notfound_keeps_cursor true (sample_txn two_pages)
      (sample_cursor (sample_aht 0 4) C_INITIALIZED [(two_root, 1), (two_right, 0)])
      { rc := MDBX_NOTFOUND, txn := sample_txn two_pages,
        mc := sample_cursor (sample_aht 0 4) C_INITIALIZED [(two_root, 1), (two_right, 0)] }
      (by rfl) (by decide) (by rfl) (by rfl)).2.2).resolve_left (by decide)⟩

theorem WFTree.numkeys_pos {txn : MDBX_txn} {cmp : MDBX_comparer} {P : node_t → Prop}
    {l : Nat} {pg : page_t} {lo hi : Option MDBX_iov} (hw : WFTree txn cmp P l pg lo hi) :
    0 < page_numkeys pg ∧ pg.mp_lower < 65536 := by
  cases l with
  | zero => exact ⟨hw.leaf.nonempty, hw.leaf.lower⟩
  | succ l =>
    have := hw.branch.two
    exact ⟨by omega, hw.branch.lower⟩

theorem Chain.linked {txn : MDBX_txn} {cmp : MDBX_comparer} {P : node_t → Prop}
    {root : page_t} :
    ∀ (fs : frames_t) (l : Nat) (lo hi : Option MDBX_iov),
      Chain txn cmp P root l lo hi fs → Linked txn fs := by
  intro fs
  induction fs with
  | nil => intro l lo hi h; exact absurd h (by simp [Chain])
  | cons f fs ih =>
    intro l lo hi h
    cases fs with
    | nil => trivial
    | cons g S =>
      obtain ⟨h1, _, lo2, hi2, h3, _, _⟩ := h
      exact ⟨h1, ih (l + 1) lo2 hi2 h3⟩

/-- The tail of cursor_sibling on a branch page: the child under the index of
the top frame is fetched and pushed, at index 0 when moving right and at its
last index when moving left. -/
theorem cursor_sibling_down_ok (move_right : Bool) {cmp : MDBX_comparer} {txn : MDBX_txn}
    {mc : cursor_t} {p : page_t × Nat} {ps : frames_t} (h : OnStack mc (p :: ps))
    (hb : BranchOK cmp p.1) (hp : p.2 < page_numkeys p.1)
    (hr : Resolves txn (node_get_pgno (p.1.mp_nodes.getD p.2 default)) (child_page txn p.1 p.2))
    (hl : ps.length + 1 < CURSOR_STACK)
    (hn : 0 < page_numkeys (child_page txn p.1 p.2) ∧ (child_page txn p.1 p.2).mp_lower < 65536) :
    ∃ mc2, cursor_sibling_down move_right txn mc =
        some { rc := MDBX_SUCCESS, txn := txn, mc := mc2 } ∧
      OnStack mc2
        ((child_page txn p.1 p.2, entry_index move_right (child_page txn p.1 p.2)) :: p :: ps) ∧
      mc2.mc_aht = mc.mc_aht ∧ mc2.mc_state8 = mc.mc_state8 ∧ mc2.mc_kind8 = mc.mc_kind8 := by
  have h1 : (page_get txn (node_get_pgno (p.1.mp_nodes.getD p.2 default))).txn = txn := hr.txn_eq
  have hs := h.snum
  simp only [List.length_cons] at hs
  have hpush := h.frame_push (by simp only [List.length_cons]; omega) (child_page txn p.1 p.2)
  cases move_right with
  | true =>
    exact ⟨_, cursor_sibling_down_right h hb hp hr hl, hpush, rfl, rfl, rfl⟩
  | false =>
    have hnk := page_numkeys_lt hn.2
    refine ⟨frame_ki (frame_push mc (child_page txn p.1 p.2))
        (frame_push mc (child_page txn p.1 p.2)).mc_top
        (page_numkeys (child_page txn p.1 p.2) - 1), ?_, hpush.frame_ki _, rfl, rfl, rfl⟩
    unfold cursor_sibling_down
    rw [h.pg_top, h.ki_top]
    simp only [hb.is_branch, not_true_eq_false, if_false, hb.deref_node hp, hr.1, ne_eq, hr.2, h1]
    rw [cursor_push_ok txn _ h.ok (by omega)]
    simp only [Bool.false_eq_true, not_false_eq_true, if_true,
      to_indx_pred (page_numkeys (child_page txn p.1 p.2)) hn.1 (by omega),
      set_ki_eq hpush.ok hpush.top_lt, Option.map_some']

theorem at_edge_cond (move_right : Bool) (g : page_t × Nat) :
    ((if move_right = true then decide (g.2 + 1 ≥ page_numkeys g.1) else decide (g.2 = 0)) = true)
      ↔ AtEdge move_right g := by
  unfold AtEdge
  cases move_right <;> simp

/-- The recursion of cursor_sibling on a path of a well-formed tree whose
frames `A` below the top frame are at the edge and whose next frame `g` has a
neighbour: the index of `g` moves by one, the frames beneath `g` stay, and the
frames above `g` are replaced by as many frames that follow the child
pointers and stand at the entry index of their pages. -/
theorem cursor_sibling_rec_moves (move_right : Bool) {txn : MDBX_txn} {cmp : MDBX_comparer}
    {P : node_t → Prop} {root : page_t} {g : page_t × Nat} {B : frames_t}
    (hg : ¬ AtEdge move_right g) :
    ∀ (A : frames_t) (f : page_t × Nat) (mc : cursor_t) (fuel l : Nat)
      (lo hi : Option MDBX_iov),
      OnStack mc (f :: A ++ g :: B) → Chain txn cmp P root l lo hi (f :: A ++ g :: B) →
      (∀ a ∈ A, AtEdge move_right a) → A.length + 1 ≤ fuel →
      ∃ (mc2 : cursor_t) (T : frames_t) (lo2 hi2 : Option MDBX_iov),
        cursor_sibling_rec move_right fuel txn mc =
          some { rc := MDBX_SUCCESS, txn := txn, mc := mc2 } ∧
        OnStack mc2 (T ++ (g.1, neighbour_index move_right g.2) :: B) ∧
        Chain txn cmp P root l lo2 hi2 (T ++ (g.1, neighbour_index move_right g.2) :: B) ∧
        T.length = A.length + 1 ∧ (∀ t ∈ T, t.2 = entry_index move_right t.1) ∧
        mc2.mc_aht = mc.mc_aht ∧ mc2.mc_state8 = mc.mc_state8 ∧
        mc2.mc_kind8 = mc.mc_kind8 := by
  intro A
  induction A with
  | nil =>
    intro f mc fuel l lo hi hs hc _ hf
    simp only [List.nil_append, List.cons_append] at hs hc
    have hsn := hs.snum
    have hle := hs.le
    simp only [List.length_cons] at hsn hle
    have h1 : ¬ mc.mc_snum < 2 := by omega
    obtain ⟨hpop, hs2⟩ := hs.pop
    obtain ⟨lo2, hi2, hc2⟩ := hc.tail
    have hgk : g.2 < page_numkeys g.1 := hc.2.1
    have hw2 := Chain.wf _ _ _ _ _ hc2
    have hb := hw2.branch
    have hnk := page_numkeys_lt hb.lower
    cases fuel with
    | zero => simp at hf
    | succ fuel =>
      rw [cursor_sibling_rec, if_neg h1]
      simp only [hpop, hs2.pg_top, hs2.ki_top]
      have hcond : ¬ (if move_right = true then decide (g.2 + 1 ≥ page_numkeys g.1)
          else decide (g.2 = 0)) = true := fun h => hg ((at_edge_cond move_right g).1 h)
      rw [if_neg hcond]
      have hnb : neighbour_index move_right g.2 < page_numkeys g.1 ∧
          (if move_right = true then to_indx ((g.2 : Int) + 1) else to_indx ((g.2 : Int) - 1)) =
            neighbour_index move_right g.2 := by
        unfold AtEdge at hg
        unfold neighbour_index
        cases move_right with
        | true =>
          simp only [if_true] at hg ⊢
          exact ⟨by omega, to_indx_succ g.2 (by omega)⟩
        | false =>
          simp only [Bool.false_eq_true, if_false] at hg ⊢
          exact ⟨by omega, to_indx_pred g.2 (by omega) (by omega)⟩
      rw [hnb.2, set_ki_eq hs2.ok hs2.top_lt]
      have hs3 := hs2.frame_ki (neighbour_index move_right g.2)
      have hc3 := hc2.top_ki (neighbour_index move_right g.2)
      have hc4 := hc3.push hnb.1 (entry_index move_right
        (child_page txn g.1 (neighbour_index move_right g.2)))
      obtain ⟨mc2, hdn, hs4, ha, hst, hkd⟩ := cursor_sibling_down_ok move_right
        (p := (g.1, neighbour_index move_right g.2)) hs3 hb hnb.1 (hw2.resolves hnb.1)
        (by omega) (Chain.wf _ _ _ _ _ hc4).numkeys_pos
      refine ⟨mc2, [(child_page txn g.1 (neighbour_index move_right g.2),
        entry_index move_right (child_page txn g.1 (neighbour_index move_right g.2)))], _, _,
        hdn, hs4, hc4, rfl, ?_, ha, hst, hkd⟩
      intro t ht
      rw [List.mem_singleton] at ht
      rw [ht]
  | cons a A ih =>
    intro f mc fuel l lo hi hs hc hA hf
    simp only [List.cons_append] at hs hc
    have hsn := hs.snum
    have hle := hs.le
    simp only [List.length_cons, List.length_append] at hsn hle hf
    have h1 : ¬ mc.mc_snum < 2 := by omega
    obtain ⟨hpop, hs2⟩ := hs.pop
    obtain ⟨lo2, hi2, hc2⟩ := hc.tail
    cases fuel with
    | zero => omega
    | succ fuel =>
      rw [cursor_sibling_rec, if_neg h1]
      simp only [hpop, hs2.pg_top, hs2.ki_top]
      have hcond : (if move_right = true then decide (a.2 + 1 ≥ page_numkeys a.1)
          else decide (a.2 = 0)) = true :=
        (at_edge_cond move_right a).2 (hA a (List.mem_cons_self _ _))
      rw [if_pos hcond]
      obtain ⟨mc1, T1, lo3, hi3, hrec, hs3, hc3, hlen, hedge, ha, hst, hkd⟩ :=
        ih a _ fuel (l + 1) lo2 hi2 hs2 hc2 (fun x hx => hA x (List.mem_cons_of_mem _ hx))
          (by omega)
      rw [hrec]
      simp only [ne_eq, not_true_eq_false, if_false]
      cases T1 with
      | nil => simp at hlen
      | cons t T1 =>
        simp only [List.cons_append] at hs3 hc3
        have hw3 := Chain.wf _ _ _ _ _ hc3
        have hb3 := hw3.branch
        have h2 : 2 ≤ page_numkeys t.1 := hb3.two
        have ht2 : t.2 < page_numkeys t.1 := by
          rw [hedge t (List.mem_cons_self _ _)]
          unfold entry_index
          cases move_right with
          | true => simp only [if_true]; omega
          | false => simp only [Bool.false_eq_true, if_false]; omega
        have hc4 := (hc3.top_ki t.2).push ht2 (entry_index move_right (child_page txn t.1 t.2))
        simp only [List.length_cons] at hlen
        obtain ⟨mc2, hdn, hs4, ha2, hst2, hkd2⟩ := cursor_sibling_down_ok move_right
          (p := t) hs3 hb3 ht2 (hw3.resolves ht2)
          (by simp only [List.length_append, List.length_cons]; omega)
          (Chain.wf _ _ _ _ _ hc4).numkeys_pos
        refine ⟨mc2, (child_page txn t.1 t.2, entry_index move_right (child_page txn t.1 t.2))
          :: t :: T1, _, _, hdn, hs4, hc4, by simp only [List.length_cons]; omega, ?_,
          ha2.trans ha, hst2.trans hst, hkd2.trans hkd⟩
        intro x hx
        rcases List.mem_cons.1 hx with h | h
        · rw [h]
        · exact hedge x h

/-- C18: on a cursor that stands on a path of a well-formed tree, when the
frames `A` between the top frame and the frame `g` are at the edge of their
pages in the direction of the move and `g` has a neighbour, cursor_sibling
returns `MDBX_SUCCESS` with the depth and the top of the stack unchanged: the
index of `g` has moved by exactly one (+1 to the right, -1 to the left), the
frames `B` beneath `g` (towards the root) are unchanged, the frames above `g`
are replaced by as many frames, each of which holds the page that the child
pointer at the index of the frame beneath it refers to and stands at index 0
(moving right) or at the last index of its page (moving left); the state
flags are unchanged. -/
theorem C18_sibling_moves (move_right : Bool) {txn : MDBX_txn} {cmp : MDBX_comparer}
    {P : node_t → Prop} {root : page_t} {mc : cursor_t} {f g : page_t × Nat}
    {A B : frames_t} {l : Nat} {lo hi : Option MDBX_iov}
    (hon : OnStack mc (f :: A ++ g :: B))
    (hch : Chain txn cmp P root l lo hi (f :: A ++ g :: B))
    (hA : ∀ a ∈ A, AtEdge move_right a) (hg : ¬ AtEdge move_right g) :
    ∃ (mc2 : cursor_t) (T : frames_t),
      cursor_sibling txn mc move_right = some { rc := MDBX_SUCCESS, txn := txn, mc := mc2 } ∧
      mc2.mc_snum = mc.mc_snum ∧ mc2.mc_top = mc.mc_top ∧
      OnStack mc2 (T ++ (g.1, neighbour_index move_right g.2) :: B) ∧
      T.length = A.length + 1 ∧
      (∀ t ∈ T, t.2 = entry_index move_right t.1) ∧
      Linked txn (T ++ (g.1, neighbour_index move_right g.2) :: B) ∧
      mc2.mc_state8 = mc.mc_state8 := by
  have hsn := hon.snum
  have htp := hon.top
  simp only [List.length_cons, List.length_append] at hsn htp
  obtain ⟨mc2, T, lo2, hi2, hrec, hs2, hc2, hlen, hedge, _, hst, _⟩ :=
    cursor_sibling_rec_moves move_right hg A f mc mc.mc_snum l lo hi hon hch hA (by omega)
  have hsn2 := hs2.snum
  have htp2 := hs2.top
  simp only [List.length_cons, List.length_append] at hsn2 htp2
  exact ⟨mc2, T, hrec, by omega, by omega, hs2, hlen, hedge, Chain.linked _ _ _ _ hc2, hst⟩

theorem C18_sibling_moves_witness :
    ∃ (mc2 : cursor_t) (T : frames_t),
      cursor_sibling (sample_txn two_pages)
          (sample_cursor (sample_aht 0 4) C_INITIALIZED [(two_root, 0), (two_left, 1)]) true =
        some { rc := MDBX_SUCCESS, txn := sample_txn two_pages, mc := mc2 } ∧
      OnStack mc2 (T ++ [(two_root, 1)]) ∧ T.length = 1 ∧
      (∀ t ∈ T, t.2 = 0) ∧ Linked (sample_txn two_pages) (T ++ [(two_root, 1)]) :=
  (C18_sibling_moves true (f := (two_left, 1)) (g := (two_root, 0)) (A := []) (B := [])
    (two_left_on C_INITIALIZED 1)
    (two_left_chain (PlainNode (sample_txn two_pages)) (sample_plain (sample_txn two_pages)) 1)
    (fun a ha => absurd ha (by simp)) (by unfold AtEdge; decide)).imp
    (fun _ h => h.imp (fun _ h2 => ⟨h2.1, h2.2.2.2.1, h2.2.2.2.2.1, h2.2.2.2.2.2.1,
      h2.2.2.2.2.2.2.1⟩))

/-- C20, divergence: in a write transaction whose next free page number is 16
and whose spill list holds the key 10 of the spilled page 5, page_get of the
page number 2147483653 (2^31 + 5), which is not below the next free page
number, returns `MDBX_SUCCESS`, stores the page of the memory map at that page
number and leaves the flags of the transaction as they are: `pgno << 1` is
computed in 32 bits and gives the key 10 of page 5. -/
theorem C20_page_get_spill_wrap :
    sample_child_txn.mt_next_pgno = 16 ∧ sample_child_txn.mt_spill_pages = some [10] ∧
    tst sample_child_txn.mt_flags (MDBX_RDONLY ||| MDBX_WRITEMAP) = false ∧
    spill_key 2147483653 = 10 ∧ spill_key 5 = 10 ∧
    (page_get sample_child_txn 2147483653).rc = MDBX_SUCCESS ∧
    (page_get sample_child_txn 2147483653).ret =
      some (pgno2page sample_child_txn.mt_book 2147483653) ∧
    (page_get sample_child_txn 2147483653).txn.mt_flags = sample_child_txn.mt_flags ∧
    tst (page_get sample_child_txn 2147483653).txn.mt_flags MDBX_TXN_ERROR = false :=
  ⟨by rfl, by rfl, by decide, by decide, by decide, by rfl, by rfl, by rfl, by rfl⟩

theorem cursor_subordinate_some (b : MDBX_cursor) : ∃ s, cursor_subordinate b 2 = some s := by
  unfold cursor_subordinate cursor_subcursor
  by_cases h : tst (b.cur 2).mc_kind8 S_HAVESUB = true
  · simp [h]
  · simp [h]

/-- C16: on the primal cursor of a bundle, with a key and a data item given
and the cursor initialized: `MDBX_GET_BOTH`, `MDBX_GET_BOTH_RANGE`,
`MDBX_FIRST_DUP` and `MDBX_LAST_DUP` on a cursor without sub-cursor, and
`MDBX_GET_MULTIPLE`, `MDBX_NEXT_MULTIPLE` and `MDBX_PREV_MULTIPLE` on a cursor
that is not dup-fixed, return `MDBX_INCOMPATIBLE`; the bundle (stack, indices
and state flags of the cursor), the transaction with its flags, the key and
the data are as given. -/
theorem C16_incompatible_ops (page_touch : page_touch_t) (txn : MDBX_txn) (b : MDBX_cursor)
    (key d : MDBX_iov) (hinit : tst b.primal.mc_state8 C_INITIALIZED = true) :
    (tst b.primal.mc_kind8 S_HAVESUB = false →
      ∀ op, op = MDBX_GET_BOTH ∨ op = MDBX_GET_BOTH_RANGE ∨ op = MDBX_FIRST_DUP ∨
          op = MDBX_LAST_DUP →
        cursor_get page_touch 2 txn b (some key) (some d) op =
          some { rc := MDBX_INCOMPATIBLE, txn := txn, bundle := b, key := some key,
                 data := some d }) ∧
    (tst b.primal.mc_kind8 S_DUPFIXED = false →
      ∀ op, op = MDBX_GET_MULTIPLE ∨ op = MDBX_NEXT_MULTIPLE ∨ op = MDBX_PREV_MULTIPLE →
        cursor_get page_touch 2 txn b (some key) (some d) op =
          some { rc := MDBX_INCOMPATIBLE, txn := txn, bundle := b, key := some key,
                 data := some d }) := by
  obtain ⟨s, hs⟩ := cursor_subordinate_some b
  constructor
  · intro hk op hop
    have hsn := cursor_subordinate_none hk
    rcases hop with h | h | h | h
    · subst h
      rw [show cursor_get page_touch 2 txn b (some key) (some d) MDBX_GET_BOTH =
        (match cursor_subordinate b 2 with
         | none => none
         | some _ =>
           if ¬ tst b.primal.mc_kind8 S_HAVESUB then
             some { rc := MDBX_INCOMPATIBLE, txn := txn, bundle := b, key := some key,
                    data := some d }
           else (cursor_set page_touch 2 txn b (some key) (some d) MDBX_GET_BOTH (some 0)).map
             (cursor_get_break 2)) from rfl, hsn]
      simp only [hk, Bool.false_eq_true, not_false_eq_true, if_true]
    · subst h
      rw [show cursor_get page_touch 2 txn b (some key) (some d) MDBX_GET_BOTH_RANGE =
        (match cursor_subordinate b 2 with
         | none => none
         | some _ =>
           if ¬ tst b.primal.mc_kind8 S_HAVESUB then
             some { rc := MDBX_INCOMPATIBLE, txn := txn, bundle := b, key := some key,
                    data := some d }
           else (cursor_set page_touch 2 txn b (some key) (some d) MDBX_GET_BOTH_RANGE
             (some 0)).map (cursor_get_break 2)) from rfl, hsn]
      simp only [hk, Bool.false_eq_true, not_false_eq_true, if_true]
    · subst h
      rw [show cursor_get page_touch 2 txn b (some key) (some d) MDBX_FIRST_DUP =
        (match cursor_subordinate b 2 with
         | none => none
         | some _ =>
           (cursor_get_edge_dup (fun txn b data => cursor_first page_touch 1 txn b data none)
             2 txn b (some key) (some d)).map
             (fun x => if x.2 then cursor_get_break 2 x.1 else x.1)) from rfl, hsn]
      simp only [cursor_get_edge_dup, cur_primal, hinit, not_true_eq_false, if_false, hsn,
        Option.map_some']
      rfl
    · subst h
      rw [show cursor_get page_touch 2 txn b (some key) (some d) MDBX_LAST_DUP =
        (match cursor_subordinate b 2 with
         | none => none
         | some _ =>
           (cursor_get_edge_dup (fun txn b data => cursor_last page_touch 1 txn b data none)
             2 txn b (some key) (some d)).map
             (fun x => if x.2 then cursor_get_break 2 x.1 else x.1)) from rfl, hsn]
      simp only [cursor_get_edge_dup, cur_primal, hinit, not_true_eq_false, if_false, hsn,
        Option.map_some']
      rfl
  · intro hf op hop
    rcases hop with h | h | h
    · subst h
      rw [show cursor_get page_touch 2 txn b (some key) (some d) MDBX_GET_MULTIPLE =
        (match cursor_subordinate b 2 with
         | none => none
         | some _ =>
           if (some d).isNone ∨ ¬ tst b.primal.mc_state8 C_INITIALIZED then
             some { rc := MDBX_EINVAL, txn := txn, bundle := b, key := some key,
                    data := some d }
           else if ¬ tst b.primal.mc_kind8 S_DUPFIXED then
             some { rc := MDBX_INCOMPATIBLE, txn := txn, bundle := b, key := some key,
                    data := some d }
           else (cursor_get_fetch_multiple 2 txn b (some key) (some d)).map
             (cursor_get_break 2)) from rfl, hs]
      simp [hinit, hf]
    · subst h
      rw [show cursor_get page_touch 2 txn b (some key) (some d) MDBX_NEXT_MULTIPLE =
        (match cursor_subordinate b 2 with
         | none => none
         | some _ =>
           if ¬ tst b.primal.mc_kind8 S_DUPFIXED then
             some { rc := MDBX_INCOMPATIBLE, txn := txn, bundle := b, key := some key,
                    data := some d }
           else
             match cursor_next page_touch 2 txn b (some key) (some d) MDBX_NEXT_DUP with
             | none => none
             | some r =>
               if r.rc = MDBX_SUCCESS then
                 (cursor_get_fetch_multiple 2 r.txn r.bundle r.key r.data).map
                   (cursor_get_break 2)
               else (some r).map (cursor_get_break 2)) from rfl, hs]
      simp [hf]
    · subst h
      rw [show cursor_get page_touch 2 txn b (some key) (some d) MDBX_PREV_MULTIPLE =
        (match cursor_subordinate b 2 with
         | none => none
         | some _ =>
           if ¬ tst b.primal.mc_kind8 S_DUPFIXED then
             some { rc := MDBX_INCOMPATIBLE, txn := txn, bundle := b, key := some key,
                    data := some d }
           else
             match (if ¬ tst b.primal.mc_state8 C_INITIALIZED then
                      cursor_last page_touch 2 txn b (some key) (some d)
                    else some { rc := MDBX_SUCCESS, txn := txn, bundle := b, key := some key,
                                data := some d }) with
             | none => none
             | some r =>
               if r.rc ≠ MDBX_SUCCESS then (some r).map (cursor_get_break 2)
               else
                 match (cursor_subordinate r.bundle 2).join with
                 | none => none
                 | some sub =>
                   if ¬ tst sub.mc_state8 C_INITIALIZED then
                     (some { r with rc := MDBX_NOTFOUND }).map (cursor_get_break 2)
                   else
                     match cursor_sibling r.txn sub false with
                     | none => none
                     | some s =>
                       if s.rc = MDBX_SUCCESS then
                         (cursor_get_fetch_multiple 2 s.txn
                           { r.bundle with subordinate := { mx_cursor := s.mc } }
                           r.key r.data).map (cursor_get_break 2)
                       else (some { rc := s.rc, txn := s.txn,
                                    bundle := { r.bundle with subordinate :=
                                      { mx_cursor := s.mc } },
                                    key := r.key, data := r.data }).map (cursor_get_break 2))
        from rfl, hs]
      simp [hf]

theorem C16_incompatible_ops_witness :
    cursor_get sample_touch 2 (sample_txn two_pages)
        (sample_bundle_at (sample_aht 0 4) C_INITIALIZED [(two_root, 0), (two_left, 0)])
        (some k_alpha) (some v_1) MDBX_GET_BOTH =
      some { rc := MDBX_INCOMPATIBLE, txn := sample_txn two_pages,
             bundle := sample_bundle_at (sample_aht 0 4) C_INITIALIZED
               [(two_root, 0), (two_left, 0)],
             key := some k_alpha, data := some v_1 } ∧
    cursor_get sample_touch 2 (sample_txn two_pages)
        (sample_bundle_at (sample_aht 0 4) C_INITIALIZED [(two_root, 0), (two_left, 0)])
        (some k_alpha) (some v_1) MDBX_PREV_MULTIPLE =
      some { rc := MDBX_INCOMPATIBLE, txn := sample_txn two_pages,
             bundle := sample_bundle_at (sample_aht 0 4) C_INITIALIZED
               [(two_root, 0), (two_left, 0)],
             key := some k_alpha, data := some v_1 } :=
  ⟨(C16_incompatible_ops sample_touch (sample_txn two_pages)
      (sample_bundle_at (sample_aht 0 4) C_INITIALIZED [(two_root, 0), (two_left, 0)])
      k_alpha v_1 (by decide)).1 (by decide) MDBX_GET_BOTH (Or.inl rfl),
   (C16_incompatible_ops sample_touch (sample_txn two_pages)
      (sample_bundle_at (sample_aht 0 4) C_INITIALIZED [(two_root, 0), (two_left, 0)])
      k_alpha v_1 (by decide)).2 (by decide) MDBX_PREV_MULTIPLE (Or.inr (Or.inr rfl))⟩

theorem set_reduces_found (sub_first : sub_call_t) (sub_set : Option Int → sub_call_t)
    {txn : MDBX_txn} {root : page_t} {cmp : MDBX_comparer} {P : node_t → Prop}
    {b0 c : MDBX_cursor} {leaf : page_t}
    {j : Nat} {R : frames_t} {lo hi : Option MDBX_iov} (key : MDBX_iov)
    (keyp data : Option MDBX_iov) (op : MDBX_cursor_op) (rc : Int)
    (ex : Option Int) (exact : Bool) (hc : CmpOK cmp)
    (hon : OnStack c.primal ((leaf, j) :: R))
    (hch : Chain txn cmp P root 0 lo hi ((leaf, j) :: R))
    (hj : j < page_numkeys leaf) (hle : cmp key (key_at leaf j) ≤ 0)
    (hlt : ∀ i, i < j → cmp key (key_at leaf i) > 0)
    (hbefore : ∀ x ∈ tree_nodes txn R.length root, ∀ a, lo = some a →
      cmp (NODEKEY x) a < 0 → cmp key (NODEKEY x) > 0)
    (hexact : exact = true → cmp key (key_at leaf j) = 0)
    (hsub : c.subordinate = b0.subordinate) (haht : c.primal.mc_aht = b0.primal.mc_aht)
    (hkind : c.primal.mc_kind8 = b0.primal.mc_kind8) (hex : ex.isSome = exact)
    (hrc : rc = 0) :
    SetReduces sub_first sub_set txn cmp P root R.length key keyp data op exact b0
      (cursor_set_set1 sub_first sub_set 2 keyp data op txn c leaf
        (.node (leaf.mp_nodes.getD j default)) rc ex) :=
  Or.inl ⟨leaf, j, R, lo, hi, c, rc, ex, hon, hch, rfl, hj,
    set_found_least hc key hch hj hle hlt hbefore, hexact, hsub, haht, hkind, hex, hrc, rfl⟩

theorem before_of_lo {t : MDBX_txn} {cmp : MDBX_comparer} (hc : CmpOK cmp) {r : page_t}
    {n : Nat} {key : MDBX_iov} {lo : Option MDBX_iov}
    (hlo : ∀ a, lo = some a → cmp a key ≤ 0) :
    ∀ x ∈ tree_nodes t n r, ∀ a, lo = some a →
      cmp (NODEKEY x) a < 0 → cmp key (NODEKEY x) > 0 := by
  intro x _ a ha h2
  exact hc.gt_of_lt (hc.lt_of_lt_of_le h2 (hlo a ha))

/-- The code of cursor_set from the label `set2` on a path to a leaf whose key
bounds enclose the key: it ends in the code from `set1` at the entry that the
search designates, or in `MDBX_NOTFOUND`. -/
theorem cursor_set_set2_reduce (sub_first : sub_call_t) (sub_set : Option Int → sub_call_t)
    {txn : MDBX_txn} {root : page_t} {P : node_t → Prop} {b : MDBX_cursor} {leaf : page_t}
    {k : Nat} {R : frames_t}
    {lo hi : Option MDBX_iov} (key : MDBX_iov) (keyp data : Option MDBX_iov)
    (op : MDBX_cursor_op) (exactp : Option Int)
    (hc : CmpOK (cursor_key_comparer b.primal))
    (hci : CmpInt (cursor_key_comparer b.primal))
    (hon : OnStack b.primal ((leaf, k) :: R))
    (hch : Chain txn (cursor_key_comparer b.primal) P root 0 lo hi ((leaf, k) :: R))
    (hin : KeyIn (cursor_key_comparer b.primal) key lo hi) :
    SetReduces sub_first sub_set txn (cursor_key_comparer b.primal) P root R.length key keyp
      data op exactp.isSome b
      (cursor_set_set2 sub_first sub_set 2 key keyp data op exactp txn b leaf) := by
  have hw := Chain.wf _ _ _ _ _ hch
  have hl : LeafOK (cursor_key_comparer b.primal) leaf := hw.leaf
  obtain ⟨s, p, hs, hmc, hp, hlt, hle, hnull, hnode, hex, hex01⟩ :=
    node_search_leaf_ok key hc hci hon hl
  have hon1 : OnStack s.mc ((leaf, p) :: R) := by rw [hmc]; exact hon.frame_ki p
  have hch1 := hch.top_ki p
  have hbefore := before_of_lo (t := txn) (r := root) (n := R.length) hc hin.1
  have hmap : (Option.map (fun _ => s.exact) exactp).isSome = exactp.isSome := by
    cases exactp <;> rfl
  have ha1 : s.mc.mc_aht = b.primal.mc_aht := by rw [hmc]; rfl
  have hk1 : s.mc.mc_kind8 = b.primal.mc_kind8 := by rw [hmc]; rfl
  unfold cursor_set_set2
  simp only [cur_primal, with_cur_primal, hs, hmap]
  by_cases hA : exactp.isSome = true ∧ s.exact = 0
  · rw [if_pos hA]
    refine Or.inr ⟨_, rfl, rfl, rfl, Or.inr ⟨hA.1, ?_⟩⟩
    refine set_none_equal hc key hch hin p hlt ?_
    intro hpn
    have h1 := hle hpn
    have h2 : ¬ s.exact = 1 := by omega
    rw [hex] at h2
    have h3 : cursor_key_comparer b.primal key (key_at leaf p) ≠ 0 := fun h => h2 ⟨hpn, h⟩
    omega
  · rw [if_neg hA]
    by_cases hB : s.node = .null
    · rw [if_pos hB]
      have hpn : p = page_numkeys leaf := hnull.1 hB
      have hex0 : s.exact = 0 := by
        rcases hex01 with h | h
        · rw [hex] at h; omega
        · exact h
      have hns : exactp.isSome = false := by
        cases hh : exactp.isSome with
        | false => rfl
        | true => exact absurd ⟨hh, hex0⟩ hA
      have hlt2 : ∀ j, j < page_numkeys leaf →
          cursor_key_comparer b.primal key (key_at leaf j) > 0 := fun j hj => hlt j (by omega)
      have hsplit := set_leaf_split hc key hch hin.1 hlt2
      unfold cursor_sibling
      rcases cursor_sibling_rec_right _ _ s.mc.mc_snum 0 lo hi hon1 hch1
          (by rw [hon1.snum]) with ⟨hn, hrec⟩ | ⟨T, mc2, hT, hrec, hon2, ha, hst, hkd⟩
      · rw [hrec]
        simp only [ne_eq, show ¬ MDBX_NOTFOUND = MDBX_SUCCESS by decide, not_false_eq_true,
          if_true]
        refine Or.inr ⟨_, rfl, rfl, rfl, Or.inl ?_⟩
        have hnone := (right_sibling_bounds R (leaf, p) 0 lo hi hch1).1 hn
        intro x hx
        rcases hsplit x hx with h | ⟨u, hu, _⟩
        · exact (hc.symm _ _).2 h
        · rw [hnone] at hu; exact absurd hu (by simp)
      · obtain ⟨q, qs, hi2, hTe, hc2⟩ := (right_sibling_bounds R (leaf, p) 0 lo hi hch1).2 T hT
        obtain ⟨u, hu⟩ := right_sibling_hi_some R (leaf, p) 0 lo hi T hch1 hT
        obtain ⟨_, _, _, _, _, _, hlen⟩ := right_sibling_chain hch1 hT
        subst hTe
        have hlen2 : qs.length = R.length := by
          simp only [List.length_cons] at hlen; omega
        have hwq := Chain.wf _ _ _ _ _ hc2
        have hlq : LeafOK (cursor_key_comparer b.primal) q := hwq.leaf
        have hq0 := hlq.nonempty
        rw [hrec]
        simp only [ne_eq, not_true_eq_false, if_false, hon2.pg_top, hlq.is_leaf,
          node_ptr_node hq0 (le_of_eq hlq.nodes.symm)]
        rw [← hlen2]
        refine set_reduces_found sub_first sub_set (c := { b with primal := mc2 }) key keyp
          data op MDBX_SUCCESS (exactp.map (fun _ => s.exact)) exactp.isSome hc hon2 hc2 hq0
          ?_ (fun j hj => absurd hj (by omega)) ?_ ?_ rfl (ha.trans ha1) (hkd.trans hk1) hmap
          rfl
        · have h1 := hin.2 u hu
          have h2 := hwq.2.2.1 u hu 0 hq0
          exact le_of_lt (hc.lt_of_lt_of_le h1 h2)
        · intro x hx a ha2 hxa
          rw [hlen2] at hx
          rcases hsplit x hx with h | ⟨u2, hu2, h⟩
          · exact h
          · rw [ha2] at hu2
            injection hu2 with hu3
            subst hu3
            have := hc.gt_of_lt hxa
            omega
        · intro he; rw [hns] at he; exact absurd he (by decide)
    · rw [if_neg hB]
      have hpn : p < page_numkeys leaf := by
        rcases Nat.lt_or_eq_of_le hp with h | h
        · exact h
        · exact absurd (hnull.2 h) hB
      rw [hnode hpn]
      refine set_reduces_found sub_first sub_set (c := { b with primal := s.mc }) key keyp
        data op 0 (exactp.map (fun _ => s.exact)) exactp.isSome hc hon1 hch1 hpn (hle hpn) hlt
        hbefore ?_ rfl ha1 hk1 hmap rfl
      intro he
      have h1 : s.exact = 1 := by
        rcases hex01 with h | h
        · exact h
        · exact absurd ⟨he, h⟩ hA
      exact (hex.1 h1).2

/-- The code of cursor_set from the call of page_search on: it ends in the
code from `set1` at the entry that the search designates, or in
`MDBX_NOTFOUND`. -/
theorem cursor_set_search_reduce (page_touch : page_touch_t) (sub_first : sub_call_t)
    (sub_set : Option Int → sub_call_t)
    {txn : MDBX_txn} {root : page_t} {h : Nat} {P : node_t → Prop} {b : MDBX_cursor}
    (key : MDBX_iov) (data : Option MDBX_iov) (op : MDBX_cursor_op) (exactp : Option Int)
    (hwf : WFAA txn b.primal.mc_aht P h root)
    (hci : CmpInt (cursor_key_comparer b.primal)) (hst : StackOK b.primal)
    (hroot : RootOK b.primal root) :
    SetReduces sub_first sub_set txn (cursor_key_comparer b.primal) P root h key (some key)
      data op exactp.isSome b
      (cursor_set_search page_touch sub_first sub_set 2 key (some key) data op exactp
        txn b) := by
  have hc : CmpOK (cursor_key_comparer b.primal) := hwf.cmp_ok
  have htree : WFTree txn (cursor_key_comparer b.primal) P h root none none := hwf.tree
  obtain ⟨mc3, k0, hps, hon, ha, hs, hkd⟩ :=
    page_search_ok page_touch (some key) 0 (search_pick (cursor_key_comparer b.primal) key)
      (by decide) (by decide) hwf hst hroot (by
        intro mc2 pg h2 lo hi hw hst2 hsn htop hpg hs ha
        have e : cursor_key_comparer mc2 = cursor_key_comparer b.primal := by
          unfold cursor_key_comparer; rw [ha]
        have hw2 : WFTree txn (cursor_key_comparer mc2) P (h2 + 1) pg lo hi := by
          rw [e]; exact hw
        have h1 := page_search_root_step_key page_touch 0 key (e ▸ hc) (e ▸ hci) hw2.branch
          (fun i hi2 => hw2.resolves hi2) hpg hst2 hsn (by omega) (by decide)
        rw [page_search_root_ready_plain page_touch txn _ _ (by decide), e] at h1
        exact h1)
  obtain ⟨lo, hi, hch, hin⟩ := descend_chain_key hc key h root k0 [] none none
    (show Chain txn (cursor_key_comparer b.primal) P root h none none [(root, k0)]
      from ⟨rfl, rfl, rfl, htree⟩)
    ⟨fun a ha => absurd ha (by simp), fun a ha => absurd ha (by simp)⟩
  obtain ⟨leaf, k2, R, hds⟩ :=
    descend_stack_ne_nil txn (search_pick (cursor_key_comparer b.primal) key) h root k0 []
  rw [hds] at hon hch
  have hlen : R.length = h := by
    have := Chain.length_eq hch htree
    omega
  have hl : LeafOK (cursor_key_comparer b.primal) leaf := (Chain.wf _ _ _ _ _ hch).leaf
  have e : cursor_key_comparer mc3 = cursor_key_comparer b.primal := by
    unfold cursor_key_comparer; rw [ha]
  unfold cursor_set_search
  simp only [cur_primal, with_cur_primal, hps, ne_eq, not_true_eq_false, if_false, hon.pg_top,
    hl.is_leaf]
  rw [← hlen, ← e]
  rw [← e] at hc hci hch hin
  have h2 := cursor_set_set2_reduce sub_first sub_set (b := { b with primal := mc3 }) key
    (some key) data op exactp hc hci hon hch hin
  rcases h2 with ⟨lf, k, R2, lo2, hi2, b1, rc, ex, h3, h4, h5, h6, h7, h8, h9, h10, h11, h12⟩ |
    h2
  · exact Or.inl ⟨lf, k, R2, lo2, hi2, b1, rc, ex, h3, h4, h5, h6, h7, h8, h9, h10.trans ha,
      h11.trans hkd, h12⟩
  · exact Or.inr h2

/-- The block of cursor_set for an initialized cursor that stands on a path of
the tree: it ends in the code from `set1` at the entry that the search
designates, or in `MDBX_NOTFOUND`. -/
theorem cursor_set_inited_reduce (page_touch : page_touch_t) (sub_first : sub_call_t)
    (sub_set : Option Int → sub_call_t)
    {txn : MDBX_txn} {root : page_t} {h : Nat} {P : node_t → Prop} {b : MDBX_cursor}
    {leaf : page_t} {k : Nat}
    {R : frames_t} {lo hi : Option MDBX_iov}
    (key : MDBX_iov) (data : Option MDBX_iov)
    (op : MDBX_cursor_op) (exactp : Option Int)
    (hex : exactp = none → op = MDBX_SET_RANGE)
    (hwf : WFAA txn b.primal.mc_aht P h root)
    (hci : CmpInt (cursor_key_comparer b.primal))
    (hroot : RootOK b.primal root)
    (hon : OnStack b.primal ((leaf, k) :: R))
    (hch : Chain txn (cursor_key_comparer b.primal) P root 0 lo hi
      ((leaf, k) :: R)) :
    SetReduces sub_first sub_set txn (cursor_key_comparer b.primal) P root h key (some key)
      data op exactp.isSome b
      (cursor_set_inited page_touch sub_first sub_set 2 key (some key) data op exactp
        txn b) := by
  have hc : CmpOK (cursor_key_comparer b.primal) := hwf.cmp_ok
  have htree : WFTree txn (cursor_key_comparer b.primal) P h root none none :=
    hwf.tree
  have hlen : R.length = h := by
    have := Chain.length_eq hch htree
    omega
  subst hlen
  have hw := Chain.wf _ _ _ _ _ hch
  have hl : LeafOK (cursor_key_comparer b.primal) leaf := hw.leaf
  have hn0 := hl.nonempty
  have hnlt := page_numkeys_lt hl.lower
  have hset : ∀ i : Nat, b.primal.set_ki b.primal.mc_top i =
      some (frame_ki b.primal b.primal.mc_top i) := fun i => set_ki_eq hon.ok hon.top_lt i
  have htopR : b.primal.mc_top = R.length := by
    have := hon.top
    simp only [List.length_cons] at this
    omega
  obtain ⟨i, hscan, hiff⟩ : ∃ i, cursor_set_scan b.primal b.primal.mc_top 0 = some i ∧
      (i = b.primal.mc_top ↔ AllLast R) := by
    have hfr : HasStack b.primal.mc_pg b.primal.mc_ki ((leaf, k) :: R ++ []) := by
      rw [List.append_nil]; exact hon.frames
    exact cursor_set_scan_spec R.length R [] b.primal.mc_top rfl hfr (by simpa using htopR)
      (fun g hg => (Chain.branch_mem R (leaf, k) 0 lo hi hch g hg).1) (le_of_eq htopR.symm)
  have hsearch := cursor_set_search_reduce page_touch sub_first sub_set key data op exactp hwf hci
    hon.ok hroot
  have hexm : (Option.map (fun _ => (1 : Int)) exactp).isSome = exactp.isSome := by
    cases exactp <;> rfl
  have hfound : ∀ (j : Nat) (rc : Int) (ex : Option Int),
      j < page_numkeys leaf → cursor_key_comparer b.primal key (key_at leaf j) ≤ 0 →
      (∀ i, i < j → cursor_key_comparer b.primal key (key_at leaf i) > 0) →
      (∀ a, lo = some a → cursor_key_comparer b.primal a key ≤ 0) →
      (exactp.isSome = true → cursor_key_comparer b.primal key (key_at leaf j) = 0) →
      ex.isSome = exactp.isSome → rc = 0 →
      SetReduces sub_first sub_set txn (cursor_key_comparer b.primal) P root R.length key
        (some key) data op exactp.isSome b
        (cursor_set_set1 sub_first sub_set 2 (some key) data op txn
          { b with primal := frame_ki b.primal b.primal.mc_top j } leaf
          (node_ref.node (leaf.mp_nodes.getD j default)) rc ex) :=
    fun j rc ex hj hle hlt hlo hexact hex2 hrc =>
      set_reduces_found sub_first sub_set
        (c := { b with primal := frame_ki b.primal b.primal.mc_top j }) key (some key) data op
        rc ex exactp.isSome hc (hon.frame_ki j) (hch.top_ki j) hj hle hlt (before_of_lo hc hlo)
        hexact rfl rfl rfl hex2 hrc
  -- the key is smaller than the first key of the page
  have hnosib : cursor_key_comparer b.primal key (key_at leaf 0) < 0 →
      SetReduces sub_first sub_set txn (cursor_key_comparer b.primal) P root R.length key
        (some key) data op exactp.isSome b
        (if b.primal.mc_top = 0 then
              if op = MDBX_SET_RANGE ∧ exactp.isNone = true then
                cursor_set_set1 sub_first sub_set 2 (some key) data op txn
                  { b with primal := frame_ki b.primal b.primal.mc_top 0 } leaf
                  (node_ref.node (leaf.mp_nodes.getD 0 default)) 0 exactp
              else
                some ({ rc := MDBX_NOTFOUND, txn := txn,
                        bundle := { b with primal := frame_ki b.primal b.primal.mc_top 0 },
                        key := some key, data := data, exact := exactp } : gres)
            else cursor_set_search page_touch sub_first sub_set 2 key (some key) data op
              exactp txn b) := by
    intro hlt0
    by_cases ht : b.primal.mc_top = 0
    · rw [if_pos ht]
      have hR : R = [] := List.eq_nil_of_length_eq_zero (by omega)
      subst hR
      have hlo : lo = none := hch.2.1
      have hhi : hi = none := hch.2.2.1
      by_cases hr : op = MDBX_SET_RANGE ∧ exactp.isNone = true
      · rw [if_pos hr]
        refine hfound 0 0 exactp hn0 (le_of_lt hlt0) (fun j hj => absurd hj (by omega))
          (fun a ha => ?_) (fun he => ?_) rfl rfl
        · rw [hlo] at ha; exact absurd ha (by simp)
        · have := hr.2
          rw [Option.isNone_iff_eq_none] at this
          rw [this] at he
          exact absurd he (by decide)
      · rw [if_neg hr]
        have hsome : exactp.isSome = true := by
          cases hx : exactp with
          | none => exact absurd ⟨hex hx, by rw [hx]; rfl⟩ hr
          | some _ => rfl
        refine Or.inr ⟨_, rfl, rfl, rfl, Or.inr ⟨hsome, ?_⟩⟩
        exact set_none_equal hc key hch
          ⟨fun a ha => by rw [hlo] at ha; exact absurd ha (by simp),
           fun a ha => by rw [hhi] at ha; exact absurd ha (by simp)⟩ 0
          (fun j hj => absurd hj (by omega)) (fun _ => hlt0)
    · rw [if_neg ht]
      exact hsearch
  -- the key is greater than all keys of the page
  have hpar : (∀ j, j < page_numkeys leaf →
        cursor_key_comparer b.primal key (key_at leaf j) > 0) → ∀ lf : node_ref,
      SetReduces sub_first sub_set txn (cursor_key_comparer b.primal) P root R.length key
        (some key) data op exactp.isSome b
        (if i = b.primal.mc_top then
              if page_numkeys leaf > 65535 then none
              else
                some ({ rc := MDBX_NOTFOUND, txn := txn,
                        bundle := { b with primal := (frame_ki b.primal b.primal.mc_top (page_numkeys leaf)) },
                        key := some key, data := data, exact := exactp } : gres)
            else
              if b.primal.mc_top = 0 then
                if op = MDBX_SET_RANGE ∧ exactp.isNone = true then
                  cursor_set_set1 sub_first sub_set 2 (some key) data op txn
                    { b with primal := frame_ki b.primal b.primal.mc_top 0 } leaf lf 0 exactp
                else
                  some ({ rc := MDBX_NOTFOUND, txn := txn,
                          bundle := { b with primal := frame_ki b.primal b.primal.mc_top 0 },
                          key := some key, data := data, exact := exactp } : gres)
              else cursor_set_search page_touch sub_first sub_set 2 key (some key) data op
                exactp txn b) := by
    intro hgt lf
    by_cases hi2 : i = b.primal.mc_top
    · rw [if_pos hi2, if_neg (by omega)]
      refine Or.inr ⟨_, rfl, rfl, rfl, Or.inl ?_⟩
      have hnone : hi = none :=
        (right_sibling_bounds R (leaf, k) 0 lo hi hch).1
          ((right_sibling_none_iff R (leaf, k) 0 lo hi hch).2 (hiff.1 hi2))
      have hlo : ∀ a, lo = some a → cursor_key_comparer b.primal a key ≤ 0 := fun a ha =>
        le_of_lt (hc.lt_of_le_of_lt (hw.2.2.1 a ha 0 hn0) ((hc.symm _ _).2 (hgt 0 hn0)))
      intro x hx
      rcases set_leaf_split hc key hch hlo hgt x hx with h1 | ⟨u, hu, _⟩
      · exact (hc.symm _ _).2 h1
      · rw [hnone] at hu; exact absurd hu (by simp)
    · rw [if_neg hi2]
      have ht : ¬ b.primal.mc_top = 0 := by
        intro ht
        have hR : R = [] := List.eq_nil_of_length_eq_zero (by omega)
        apply hi2
        apply hiff.2
        rw [hR]
        intro g hg
        exact absurd hg (by simp)
      rw [if_neg ht]
      exact hsearch
  unfold cursor_set_inited
  simp only [cur_primal, with_cur_primal, hon.pg_top, hset, Option.map_some',
    Option.some_bind, show ¬ page_numkeys leaf = 0 by omega, if_false,
    cursor_set_key_at_plain b.primal hl hn0, cursor_compare_keys, hci.narrow, hscan,
    hon.ki_top]
  by_cases h0 : cursor_key_comparer b.primal key (key_at leaf 0) = 0
  · rw [if_pos h0]
    exact hfound 0 _ _ hn0 (le_of_eq h0) (fun j hj => absurd hj (by omega))
      (fun a ha => hc.trans _ _ _ (hw.2.2.1 a ha 0 hn0) (le_of_eq ((hc.eq_symm _ _).1 h0)))
      (fun _ => h0) hexm h0
  · rw [if_neg h0]
    by_cases h1 : cursor_key_comparer b.primal key (key_at leaf 0) > 0
    · rw [if_pos h1]
      have hk0 : cursor_key_comparer b.primal (key_at leaf 0) key < 0 := (hc.symm _ _).2 h1
      have hlo : ∀ a, lo = some a → cursor_key_comparer b.primal a key ≤ 0 := fun a ha =>
        le_of_lt (hc.lt_of_le_of_lt (hw.2.2.1 a ha 0 hn0) hk0)
      by_cases hn1 : page_numkeys leaf > 1
      · rw [if_pos hn1]
        have hlast : page_numkeys leaf - 1 < page_numkeys leaf := by omega
        simp only [cursor_set_key_at_plain b.primal hl hlast,
          to_indx_pred (page_numkeys leaf) hn0 (by omega)]
        by_cases h2 : cursor_key_comparer b.primal key (key_at leaf (page_numkeys leaf - 1)) = 0
        · rw [if_pos h2]
          exact hfound (page_numkeys leaf - 1) _ _ hlast (le_of_eq h2)
            (fun j hj => hc.gt_of_lt (hc.lt_of_lt_of_le (hl.sorted j _ hj hlast)
              (le_of_eq ((hc.eq_symm _ _).1 h2))))
            hlo (fun _ => h2) hexm h2
        · rw [if_neg h2]
          by_cases h3 : cursor_key_comparer b.primal key (key_at leaf (page_numkeys leaf - 1)) < 0
          · rw [if_pos h3]
            have hin : KeyIn (cursor_key_comparer b.primal) key lo hi :=
              ⟨hlo, fun u hu => hc.lt_of_lt_of_le h3 (le_of_lt (hw.2.2.2 u hu _ hlast))⟩
            have hs2 := cursor_set_set2_reduce sub_first sub_set
              (b := { b with primal := { b.primal with
                mc_state8 := clr8 b.primal.mc_state8 C_EOF } })
              key (some key) data op exactp hc hci (hon.state _) hch hin
            have hs3 : SetReduces sub_first sub_set txn (cursor_key_comparer b.primal) P root
                R.length key (some key) data op exactp.isSome b
                (cursor_set_set2 sub_first sub_set 2 key (some key) data op exactp txn
                  { b with primal := { b.primal with
                    mc_state8 := clr8 b.primal.mc_state8 C_EOF } } leaf) := hs2
            by_cases hkn : k < page_numkeys leaf
            · rw [if_pos hkn]
              simp only [cursor_set_key_at_plain b.primal hl hkn]
              by_cases h4 : cursor_key_comparer b.primal key (key_at leaf k) = 0
              · rw [if_pos h4]
                exact set_reduces_found sub_first sub_set (c := b) key (some key) data op 0
                  (Option.map (fun _ => (1 : Int)) exactp) exactp.isSome hc hon hch hkn
                  (le_of_eq h4)
                  (fun j hj => hc.gt_of_lt (hc.lt_of_lt_of_le (hl.sorted j _ hj hkn)
                    (le_of_eq ((hc.eq_symm _ _).1 h4))))
                  (before_of_lo hc hlo) (fun _ => h4) rfl rfl rfl hexm rfl
              · rw [if_neg h4]
                exact hs3
            · rw [if_neg hkn]
              exact hs3
          · rw [if_neg h3]
            refine hpar (fun j hj => ?_) _
            have h5 : cursor_key_comparer b.primal (key_at leaf (page_numkeys leaf - 1)) key
                < 0 := (hc.symm _ _).2 (by omega)
            rcases Nat.lt_or_ge j (page_numkeys leaf - 1) with h6 | h6
            · exact hc.gt_of_lt (hc.lt_of_lt_of_le (hl.sorted j _ h6 hlast) (le_of_lt h5))
            · have h7 : j = page_numkeys leaf - 1 := by omega
              rw [h7]; exact hc.gt_of_lt h5
      · rw [if_neg hn1]
        refine hpar (fun j hj => ?_) _
        have h7 : j = 0 := by omega
        rw [h7]; exact h1
    · rw [if_neg h1]
      exact hnosib (by omega)

theorem subcursor_reset_primal {b : MDBX_cursor}
    (hk : tst b.primal.mc_kind8 S_HAVESUB = true) :
    subcursor_reset b 2 = some (sub_cleared b) := by
  unfold subcursor_reset cursor_subcursor sub_cleared
  simp [hk, cur_primal, bind, Option.bind, pure]

theorem sub_cleared_primal (b : MDBX_cursor) : (sub_cleared b).primal = b.primal := by
  unfold sub_cleared
  by_cases hk : tst b.primal.mc_kind8 S_HAVESUB = true
  · rw [if_pos hk]
  · rw [if_neg hk]

/-- The search part of cursor_set on a valid primal cursor of a well-formed
tree: the call ends in the code from `set1` at the entry with the least key not
smaller than the given key, or in `MDBX_NOTFOUND`. -/
theorem cursor_set_reduce (page_touch : page_touch_t)
    {txn : MDBX_txn} {root : page_t} {h : Nat} {P : node_t → Prop} {b : MDBX_cursor}
    (key : MDBX_iov) (data : Option MDBX_iov) (op : MDBX_cursor_op) (exactp : Option Int)
    (hex : exactp = none → op = MDBX_SET_RANGE)
    (hwf : WFAA txn b.primal.mc_aht P h root)
    (hci : CmpInt (cursor_key_comparer b.primal))
    (hcur : CursorOK txn (cursor_key_comparer b.primal) P root b.primal)
    (hsz : tst b.primal.mc_aht.aa.flags16 MDBX_INTEGERKEY = true →
      key.length = 4 ∨ key.length = 8) :
    SetReduces (fun txn b data => cursor_first page_touch 1 txn b data none)
      (fun ex2p txn b data => cursor_set page_touch 1 txn b data none MDBX_SET_RANGE ex2p)
      txn (cursor_key_comparer b.primal) P root h key (some key) data op exactp.isSome
      (sub_cleared b) (cursor_set page_touch 2 txn b (some key) data op exactp) := by
  have hsz2 : ¬ (tst b.primal.mc_aht.aa.flags16 MDBX_INTEGERKEY = true ∧ key.length ≠ 4 ∧
      key.length ≠ 8) := by
    intro ⟨h1, h2, h3⟩
    rcases hsz h1 with h4 | h4
    · exact h2 h4
    · exact h3 h4
  rw [show cursor_set page_touch 2 txn b (some key) data op exactp =
    cursor_set_body page_touch (fun txn b data => cursor_first page_touch 1 txn b data none)
      (fun ex2p txn b data => cursor_set page_touch 1 txn b data none MDBX_SET_RANGE ex2p)
      2 txn b (some key) data op exactp from rfl]
  have hreset : (if tst b.primal.mc_kind8 S_HAVESUB = true then subcursor_reset b 2
      else some b) = some (sub_cleared b) := by
    by_cases hk : tst b.primal.mc_kind8 S_HAVESUB = true
    · rw [if_pos hk, subcursor_reset_primal hk]
    · rw [if_neg hk]; unfold sub_cleared; rw [if_neg hk]
  have hp := sub_cleared_primal b
  unfold cursor_set_body
  simp only [cur_primal, with_cur_primal, hsz2, if_false, hreset, hp]
  rw [← hp] at hwf hcur hci ⊢
  by_cases hinit : tst (sub_cleared b).primal.mc_state8 C_INITIALIZED = true
  · obtain ⟨leaf, k, R, lo, hi, hon, hch⟩ := hcur.2 hinit
    have hroot : RootOK (sub_cleared b).primal root :=
      fun _ => Chain.root_pg _ _ _ _ hch hon.frames
    simp only [hinit, if_true]
    exact cursor_set_inited_reduce page_touch _ _ key data op exactp hex hwf hci hroot hon hch
  · have h0 : 0 < (sub_cleared b).primal.mc_pg.length := by rw [hcur.1.1]; decide
    simp only [hinit, if_false, cursor_t.set_pg, h0, if_true]
    have := cursor_set_search_reduce page_touch
      (fun txn b data => cursor_first page_touch 1 txn b data none)
      (fun ex2p txn b data => cursor_set page_touch 1 txn b data none MDBX_SET_RANGE ex2p)
      (b := { sub_cleared b with primal := { (sub_cleared b).primal with
        mc_pg := (sub_cleared b).primal.mc_pg.set 0 none } })
      key data op exactp hwf hci ⟨by simp [hcur.1.1], hcur.1.2⟩
      (RootOK_of_none root (by simp [h0]))
    exact this

/-- The sub-cursor after subordinate_setup on a node with an inline sub-page. -/
theorem subordinate_setup_inline {b : MDBX_cursor} {n : node_t}
    (hk : tst b.primal.mc_kind8 S_HAVESUB = true) (hs : SubOK b) (hd : DupInline n) :
    ∃ sub, subordinate_setup b 2 n = some { b with subordinate := { mx_cursor := sub } } ∧
      SubAt sub (NODEDATA_page n) 0 (sub_xsize b.primal.mc_aht.aa.flags16 (NODEDATA_page n)) ∧
      sub.mc_state8 = C_INITIALIZED ∧
      sub.mc_aht.ahe = b.subordinate.mx_cursor.mc_aht.ahe ∧
      sub.mc_kind8 = b.subordinate.mx_cursor.mc_kind8 ∧
      sub.mc_aht.aa.entries = page_numkeys (NODEDATA_page n) ∧
      sub.mc_aht.aa.flags16 =
        (if tst b.primal.mc_aht.aa.flags16 MDBX_DUPFIXED then
          (if tst b.primal.mc_aht.aa.flags16 MDBX_INTEGERDUP
            then MDBX_DUPFIXED ||| MDBX_INTEGERKEY else MDBX_DUPFIXED)
         else 0) := by
  have h0 : 0 < b.subordinate.mx_cursor.mc_pg.length := by rw [hs.1.1]; decide
  have h1 : 0 < b.subordinate.mx_cursor.mc_ki.length := by rw [hs.1.2]; decide
  unfold subordinate_setup cursor_subcursor
  simp only [cur_primal, hk, and_self, if_true, hd.2.1, Bool.false_eq_true, if_false,
    cursor_t.set_pg, cursor_t.set_ki, h0, h1, List.length_set, bind, Option.bind, pure]
  refine ⟨_, rfl, ⟨⟨⟨?_, ?_⟩, rfl, rfl, by simp [CURSOR_STACK], ?_, ?_, trivial⟩, hs.2, ?_⟩, rfl,
    ?_, rfl, ?_, ?_⟩
  · simp [hs.1.1]
  · simp [hs.1.2]
  · simp [h0]
  · simp [h1]
  all_goals
    by_cases hf : tst b.primal.mc_aht.aa.flags16 MDBX_DUPFIXED = true
    · simp [hf, sub_xsize]
    · simp [hf, sub_xsize]

theorem cur_one (x : MDBX_cursor) : x.cur (0 + 1) = x.subordinate.mx_cursor := rfl

theorem with_cur_one (x : MDBX_cursor) (mc : cursor_t) :
    x.with_cur (0 + 1) mc = { x with subordinate := { mx_cursor := mc } } := rfl

theorem SubAt.with_state {sub : cursor_t} {fp : page_t} {i xs : Nat} (h : SubAt sub fp i xs)
    (s : Nat) : SubAt { sub with mc_state8 := s } fp i xs :=
  ⟨h.stack.state s, h.nosub, h.xsize⟩

theorem SubAt.at_index {sub : cursor_t} {fp : page_t} {i xs : Nat} (h : SubAt sub fp i xs)
    (j : Nat) : SubAt (Mdbx.frame_ki sub sub.mc_top j) fp j xs :=
  ⟨h.stack.frame_ki j, h.nosub, h.xsize⟩

/-- Reading the duplicate at an index of a sub-page through node_ptr. -/
theorem sub_node_ptr {fp : page_t} (hp : SubPageOK fp) (hd : IS_DFL fp = false) {i : Nat}
    (hi : i < page_numkeys fp) :
    node_ptr fp i = some (.node (fp.mp_nodes.getD i default)) ∧
    F_ISSET (fp.mp_nodes.getD i default).node_flags8 NODE_DUP = false := by
  have hn := hp.nodes hd
  refine ⟨node_ptr_node hi (le_of_eq hn.symm), hp.plain _ ?_⟩
  have h3 : i < fp.mp_nodes.length := by omega
  rw [List.getD_eq_getElem _ _ h3]
  exact List.getElem_mem h3

/-- The call of cursor_first on a sub-cursor that stands on an inline
sub-page: it moves to the first duplicate and returns it as the key. -/
theorem cursor_first_sub (page_touch : page_touch_t) (txn : MDBX_txn) {b : MDBX_cursor}
    {fp : page_t} {i xs : Nat} (d : MDBX_iov)
    (hs : SubAt b.subordinate.mx_cursor fp i xs)
    (hinit : tst b.subordinate.mx_cursor.mc_state8 C_INITIALIZED = true)
    (hp : SubPageOK fp) :
    ∃ sub2, cursor_first page_touch 1 txn b (some d) none =
        some { rc := MDBX_SUCCESS, txn := txn,
               bundle := { b with subordinate := { mx_cursor := sub2 } },
               key := some (dup_at fp xs 0), data := none } ∧
      SubAt sub2 fp 0 xs ∧
      sub2.mc_state8 = clr8 (b.subordinate.mx_cursor.mc_state8 ||| C_INITIALIZED) C_EOF ∧
      sub2.mc_aht = b.subordinate.mx_cursor.mc_aht ∧
      sub2.mc_kind8 = b.subordinate.mx_cursor.mc_kind8 := by
  have htop : b.subordinate.mx_cursor.mc_top = 0 := by
    have := hs.stack.top
    simp only [List.length_cons, List.length_nil] at this
    omega
  have hs2 := (hs.with_state (clr8 (b.subordinate.mx_cursor.mc_state8 ||| C_INITIALIZED) C_EOF))
  have hs3 := hs2.at_index 0
  refine ⟨_, ?_, hs3, rfl, rfl, rfl⟩
  have hcond : ¬ (¬ tst b.subordinate.mx_cursor.mc_state8 C_INITIALIZED = true ∨
      b.subordinate.mx_cursor.mc_top ≠ 0) := by
    intro h
    rcases h with h | h
    · exact h hinit
    · exact h htop
  have hnp : ∃ r, node_ptr fp 0 = some r ∧ (IS_DFL fp = false →
      r = .node (fp.mp_nodes.getD 0 default)) := by
    by_cases hd : IS_DFL fp = true
    · unfold node_ptr
      rw [if_pos hp.nonempty]
      exact ⟨_, rfl, fun h => by rw [hd] at h; exact absurd h (by decide)⟩
    · have hd2 : IS_DFL fp = false := by simpa using hd
      exact ⟨_, (sub_node_ptr hp hd2 hp.nonempty).1, fun _ => rfl⟩
  obtain ⟨r, hr, hrn⟩ := hnp
  unfold cursor_first
  simp only [cur_one, with_cur_one, hs.nosub, Bool.false_eq_true, if_false, hcond, bind,
    Option.bind, pure, ne_eq, not_true_eq_false, hs.stack.pg_top, hp.is_leaf, hr,
    set_ki_eq hs2.stack.ok hs2.stack.top_lt]
  by_cases hd : IS_DFL fp = true
  · simp only [hd, if_true, set_dfl_key, dup_at]
    rw [show (frame_ki { b.subordinate.mx_cursor with
        mc_state8 := clr8 (b.subordinate.mx_cursor.mc_state8 ||| C_INITIALIZED) C_EOF }
        b.subordinate.mx_cursor.mc_top 0).mc_aht.aa.xsize32 = xs from hs.xsize]
  · have hd2 : IS_DFL fp = false := by simpa using hd
    simp only [hd2, Bool.false_eq_true, if_false, hrn hd2, node_ref.deref, MDBX_GET_KEY, dup_at,
      NODEKEY]

/-- The call of cursor_next with `MDBX_NEXT` on a sub-cursor that stands on an
inline sub-page: it moves to the next duplicate and returns it as the key, or
returns `MDBX_NOTFOUND` and sets `C_EOF` when it stands on the last one. -/
theorem cursor_next_sub (page_touch : page_touch_t) (txn : MDBX_txn) {b : MDBX_cursor}
    {fp : page_t} {i xs : Nat} (d : MDBX_iov)
    (hs : SubAt b.subordinate.mx_cursor fp i xs)
    (hinit : tst b.subordinate.mx_cursor.mc_state8 C_INITIALIZED = true)
    (heof : tst b.subordinate.mx_cursor.mc_state8 C_EOF = false)
    (hdel : tst b.subordinate.mx_cursor.mc_state8 C_AFTERDELETE = false)
    (hp : SubPageOK fp) :
    (i + 1 < page_numkeys fp →
      ∃ sub2, cursor_next page_touch 1 txn b (some d) none MDBX_NEXT =
          some { rc := MDBX_SUCCESS, txn := txn,
                 bundle := { b with subordinate := { mx_cursor := sub2 } },
                 key := some (dup_at fp xs (i + 1)), data := none } ∧
        SubAt sub2 fp (i + 1) xs ∧
        sub2.mc_state8 = b.subordinate.mx_cursor.mc_state8 ∧
        sub2.mc_aht = b.subordinate.mx_cursor.mc_aht ∧
        sub2.mc_kind8 = b.subordinate.mx_cursor.mc_kind8) ∧
    (i + 1 ≥ page_numkeys fp →
      cursor_next page_touch 1 txn b (some d) none MDBX_NEXT =
        some { rc := MDBX_NOTFOUND, txn := txn,
               bundle := { b with subordinate := { mx_cursor :=
                 { b.subordinate.mx_cursor with
                   mc_state8 := b.subordinate.mx_cursor.mc_state8 ||| C_EOF } } },
               key := some d, data := none }) := by
  have hnk := page_numkeys_lt hp.lower
  have hsn : b.subordinate.mx_cursor.mc_snum = 1 := hs.stack.snum
  have hbb : ({ b with subordinate := { mx_cursor := b.subordinate.mx_cursor } } : MDBX_cursor)
      = b := rfl
  have hnext : cursor_next page_touch 1 txn b (some d) none MDBX_NEXT =
      cursor_next_advance page_touch 0 fp (some d) txn b none := by
    rw [show cursor_next page_touch 1 txn b (some d) none MDBX_NEXT =
      cursor_next page_touch (0 + 1) txn b (some d) none MDBX_NEXT from rfl]
    unfold cursor_next
    simp only [cur_one, with_cur_one, hdel, Bool.false_eq_true, false_and, if_false, hinit,
      not_true_eq_false, hs.stack.pg_top, hs.stack.ki_top, heof, hs.nosub, hbb]
  rw [hnext]
  unfold cursor_next_advance
  simp only [cur_one, with_cur_one, hs.stack.ki_top, hdel, Bool.false_eq_true, if_false]
  constructor
  · intro hi
    have hs3 := hs.at_index (i + 1)
    refine ⟨_, ?_, hs3, rfl, rfl, rfl⟩
    rw [if_neg (show ¬ i + 1 ≥ page_numkeys fp by omega), to_indx_succ i (by omega),
      set_ki_eq hs.stack.ok hs.stack.top_lt]
    simp only
    unfold cursor_fetch
    simp only [cur_one, with_cur_one, hs3.stack.ki_top, bind, Option.bind, pure]
    by_cases hd : IS_DFL fp = true
    · simp only [hd, if_true, set_dfl_key, dup_at]
      rw [show (frame_ki b.subordinate.mx_cursor b.subordinate.mx_cursor.mc_top
        (i + 1)).mc_aht.aa.xsize32 = xs from hs.xsize]
    · have hd2 : IS_DFL fp = false := by simpa using hd
      obtain ⟨h1, h2⟩ := sub_node_ptr hp hd2 hi
      simp only [hd2, Bool.false_eq_true, if_false, hp.is_leaf, not_true_eq_false, h1,
        node_ref.deref, h2, MDBX_GET_KEY, dup_at, NODEKEY]
  · intro hi
    rw [if_pos hi]
    have hsib : cursor_sibling txn b.subordinate.mx_cursor true =
        some { rc := MDBX_NOTFOUND, txn := txn, mc := b.subordinate.mx_cursor } := by
      unfold cursor_sibling
      rw [hsn]
      unfold cursor_sibling_rec
      rw [if_pos (by rw [hsn]; decide)]
    rw [hsib]
    simp only [ne_eq, show ¬ MDBX_NOTFOUND = MDBX_SUCCESS by decide, not_false_eq_true, if_true]

theorem SubOK.primal_state {b : MDBX_cursor} (h : SubOK b) (mc : cursor_t) :
    SubOK { b with primal := mc } := h

/-- The code of cursor_set from the label `set1` for a node that carries its
duplicates in an inline sub-page, with `MDBX_SET`, `MDBX_SET_KEY` or
`MDBX_SET_RANGE`: the sub-cursor is set up on the sub-page and the first
duplicate is returned as the data. -/
theorem cursor_set_set1_dup (page_touch : page_touch_t) (sub_set : Option Int → sub_call_t)
    (keyp : Option MDBX_iov) (d : MDBX_iov) {op : MDBX_cursor_op}
    (hop : op = MDBX_SET ∨ op = MDBX_SET_KEY ∨ op = MDBX_SET_RANGE) {txn : MDBX_txn}
    (b : MDBX_cursor) {mp : page_t} {n : node_t} (rc : Int) (exactp : Option Int)
    (hk : tst b.primal.mc_kind8 S_HAVESUB = true) (hs : SubOK b) (hl : IS_DFL mp = false)
    (hd : DupInline n) :
    ∃ sub2,
      cursor_set_set1 (fun txn b data => cursor_first page_touch 1 txn b data none) sub_set 2
          keyp (some d) op txn b mp (.node n) rc exactp =
        some { rc := MDBX_SUCCESS, txn := txn,
               bundle := { primal := { b.primal with
                             mc_state8 := clr8 (b.primal.mc_state8 ||| C_INITIALIZED) C_EOF },
                           subordinate := { mx_cursor := sub2 } },
               key := (if op = MDBX_SET_RANGE ∨ op = MDBX_SET_KEY then MDBX_GET_KEY n keyp
                       else keyp),
               data := some (dup_at (NODEDATA_page n)
                 (sub_xsize b.primal.mc_aht.aa.flags16 (NODEDATA_page n)) 0),
               exact := exactp } ∧
      SubAt sub2 (NODEDATA_page n) 0 (sub_xsize b.primal.mc_aht.aa.flags16 (NODEDATA_page n)) ∧
      sub2.mc_state8 = C_INITIALIZED ∧
      sub2.mc_aht.ahe = b.subordinate.mx_cursor.mc_aht.ahe ∧
      sub2.mc_kind8 = b.subordinate.mx_cursor.mc_kind8 ∧
      sub2.mc_aht.aa.entries = page_numkeys (NODEDATA_page n) := by
  obtain ⟨sub1, hsetup, hat1, hst1, hahe1, hkd1, hent1, _⟩ :=
    subordinate_setup_inline
      (b := { b with primal := { b.primal with
        mc_state8 := clr8 (b.primal.mc_state8 ||| C_INITIALIZED) C_EOF } }) hk hs hd
  obtain ⟨sub2, hfirst, hat2, hst2, haht2, hkd2⟩ :=
    cursor_first_sub page_touch txn
      (b := { primal := { b.primal with
                mc_state8 := clr8 (b.primal.mc_state8 ||| C_INITIALIZED) C_EOF },
              subordinate := { mx_cursor := sub1 } }) d hat1
      (by show tst sub1.mc_state8 C_INITIALIZED = true; rw [hst1]; decide) hd.2.2
  refine ⟨sub2, ?_, hat2, ?_, ?_, hkd2.trans hkd1, ?_⟩
  · unfold cursor_set_set1
    simp only [cur_primal, with_cur_primal, hl, Bool.false_eq_true, if_false, node_ref.deref,
      hd.1, if_true, hsetup, hop, hfirst, Option.map_some']
  · rw [hst2]
    show clr8 (sub1.mc_state8 ||| C_INITIALIZED) C_EOF = C_INITIALIZED
    rw [hst1]; decide
  · rw [haht2]; exact hahe1
  · rw [haht2]; exact hent1

theorem cursor_subcursor_primal {b : MDBX_cursor}
    (hk : tst b.primal.mc_kind8 S_HAVESUB = true) :
    cursor_subcursor b 2 = some b.subordinate.mx_cursor := by
  unfold cursor_subcursor
  simp [hk, cur_primal]

/-- The block of cursor_next for a cursor with a sub-cursor that stands on an
entry with duplicates, with `MDBX_NEXT_DUP`: the sub-cursor moves to the next
duplicate of the inline sub-page, which is returned with the key of the
entry; on the last duplicate the result is `MDBX_NOTFOUND`, the primal cursor
stays and the sub-cursor gets `C_EOF`. -/
theorem cursor_next_dup_step (page_touch : page_touch_t) (txn : MDBX_txn) {cmp : MDBX_comparer}
    {b : MDBX_cursor} {leaf : page_t} {k : Nat} {R : frames_t} {i xs : Nat}
    (key : Option MDBX_iov) (d : MDBX_iov)
    (hk : tst b.primal.mc_kind8 S_HAVESUB = true)
    (hinit : tst b.primal.mc_state8 C_INITIALIZED = true)
    (heof : tst b.primal.mc_state8 C_EOF = false)
    (hdel : tst b.primal.mc_state8 C_AFTERDELETE = false)
    (hon : OnStack b.primal ((leaf, k) :: R)) (hl : LeafOK cmp leaf)
    (hkn : k < page_numkeys leaf) (hd : DupInline (leaf.mp_nodes.getD k default))
    (hs : SubAt b.subordinate.mx_cursor (NODEDATA_page (leaf.mp_nodes.getD k default)) i xs)
    (hsinit : tst b.subordinate.mx_cursor.mc_state8 C_INITIALIZED = true)
    (hseof : tst b.subordinate.mx_cursor.mc_state8 C_EOF = false)
    (hsdel : tst b.subordinate.mx_cursor.mc_state8 C_AFTERDELETE = false) :
    (i + 1 < page_numkeys (NODEDATA_page (leaf.mp_nodes.getD k default)) →
      ∃ sub2, cursor_next page_touch 2 txn b key (some d) MDBX_NEXT_DUP =
          some { rc := MDBX_SUCCESS, txn := txn,
                 bundle := { b with subordinate := { mx_cursor := sub2 } },
                 key := MDBX_GET_KEY (leaf.mp_nodes.getD k default) key,
                 data := some (dup_at (NODEDATA_page (leaf.mp_nodes.getD k default)) xs
                   (i + 1)) } ∧
        SubAt sub2 (NODEDATA_page (leaf.mp_nodes.getD k default)) (i + 1) xs ∧
        sub2.mc_state8 = b.subordinate.mx_cursor.mc_state8 ∧
        sub2.mc_aht = b.subordinate.mx_cursor.mc_aht ∧
        sub2.mc_kind8 = b.subordinate.mx_cursor.mc_kind8) ∧
    (i + 1 ≥ page_numkeys (NODEDATA_page (leaf.mp_nodes.getD k default)) →
      cursor_next page_touch 2 txn b key (some d) MDBX_NEXT_DUP =
        some { rc := MDBX_NOTFOUND, txn := txn,
               bundle := { b with subordinate := { mx_cursor :=
                 { b.subordinate.mx_cursor with
                   mc_state8 := b.subordinate.mx_cursor.mc_state8 ||| C_EOF } } },
               key := key, data := some d }) := by
  have hbb : ({ b with primal := b.primal } : MDBX_cursor) = b := rfl
  have hnext : ∀ X, X = cursor_next page_touch 1 txn b (some d) none MDBX_NEXT →
      cursor_next page_touch 2 txn b key (some d) MDBX_NEXT_DUP =
      match X with
      | none => none
      | some r =>
        some { rc := r.rc, txn := r.txn, bundle := r.bundle,
               key := if r.rc = MDBX_SUCCESS
                 then MDBX_GET_KEY (leaf.mp_nodes.getD k default) key else key,
               data := r.key } := by
    intro X hX
    unfold cursor_next
    simp only [cur_two, with_cur_two, hdel, Bool.false_eq_true, false_and, if_false, hinit,
      not_true_eq_false, hon.pg_top, hon.ki_top, heof, hk, if_true, hbb, hl.deref_leaf hkn,
      hd.1, cursor_subcursor_primal hk, Option.some_bind, or_true, ne_eq, true_or,
      show ¬ MDBX_NEXT_DUP = MDBX_NEXT by decide, not_false_eq_true, ← hX]
  rw [hnext _ rfl]
  obtain ⟨h1, h2⟩ := cursor_next_sub page_touch txn d hs hsinit hseof hsdel hd.2.2
  constructor
  · intro hi
    obtain ⟨sub2, hn, hat, hst, haht, hkd⟩ := h1 hi
    refine ⟨sub2, ?_, hat, hst, haht, hkd⟩
    rw [hn]
    simp only [if_true]
  · intro hi
    rw [h2 hi]
    simp only [show ¬ MDBX_NOTFOUND = MDBX_SUCCESS by decide, if_false]

theorem cursor_get_next_dup_eq (page_touch : page_touch_t) (txn : MDBX_txn) (b : MDBX_cursor)
    (key data : Option MDBX_iov) :
    cursor_get page_touch 2 txn b key data MDBX_NEXT_DUP =
      (cursor_next page_touch 2 txn b key data MDBX_NEXT_DUP).map (cursor_get_break 2) := by
  obtain ⟨s, hs⟩ := cursor_subordinate_some b
  rw [show cursor_get page_touch 2 txn b key data MDBX_NEXT_DUP =
    (match cursor_subordinate b 2 with
     | none => none
     | some _ => (cursor_next page_touch 2 txn b key data MDBX_NEXT_DUP).map
        (cursor_get_break 2))
    from rfl, hs]

theorem cursor_get_set_any (page_touch : page_touch_t) (txn : MDBX_txn) (b : MDBX_cursor)
    (key : MDBX_iov) (data : Option MDBX_iov) :
    cursor_get page_touch 2 txn b (some key) data MDBX_SET =
      (cursor_set page_touch 2 txn b (some key) data MDBX_SET (some 0)).map
        (cursor_get_break 2) := by
  obtain ⟨s, hs⟩ := cursor_subordinate_some b
  rw [show cursor_get page_touch 2 txn b (some key) data MDBX_SET =
    (match cursor_subordinate b 2 with
     | none => none
     | some _ => (cursor_set page_touch 2 txn b (some key) data MDBX_SET (some 0)).map
        (cursor_get_break 2))
    from rfl, hs]

/-- One `MDBX_NEXT_DUP` through cursor_get on a bundle that stands on a
duplicate. -/
theorem cursor_get_next_dup_step (page_touch : page_touch_t) (txn : MDBX_txn)
    {cmp : MDBX_comparer} {b : MDBX_cursor} {leaf : page_t} {k : Nat} {R : frames_t}
    {i xs : Nat} (key : Option MDBX_iov) (d : MDBX_iov)
    (h : DupCursor cmp b leaf k R i xs) :
    (i + 1 < page_numkeys (NODEDATA_page (leaf.mp_nodes.getD k default)) →
      ∃ b2, cursor_get page_touch 2 txn b key (some d) MDBX_NEXT_DUP =
          some { rc := MDBX_SUCCESS, txn := txn, bundle := b2,
                 key := MDBX_GET_KEY (leaf.mp_nodes.getD k default) key,
                 data := some (dup_at (NODEDATA_page (leaf.mp_nodes.getD k default)) xs
                   (i + 1)) } ∧
        DupCursor cmp b2 leaf k R (i + 1) xs) ∧
    (i + 1 ≥ page_numkeys (NODEDATA_page (leaf.mp_nodes.getD k default)) →
      ∃ b2, cursor_get page_touch 2 txn b key (some d) MDBX_NEXT_DUP =
        some { rc := MDBX_NOTFOUND, txn := txn, bundle := b2, key := key, data := some d } ∧
        b2.primal.mc_pg = b.primal.mc_pg ∧ b2.primal.mc_ki = b.primal.mc_ki ∧
        b2.primal.mc_snum = b.primal.mc_snum ∧ b2.primal.mc_top = b.primal.mc_top) := by
  obtain ⟨h1, h2⟩ := cursor_next_dup_step page_touch txn key d h.havesub h.init h.eof h.del
    h.stack h.leaf_ok h.index h.dup h.sub h.sub_init h.sub_eof h.sub_del
  have hfl := state_clr_del_flags b.primal.mc_state8
  rw [cursor_get_next_dup_eq]
  constructor
  · intro hi
    obtain ⟨sub2, hn, hat, hst, haht, hkd⟩ := h1 hi
    rw [hn]
    refine ⟨_, rfl, ?_⟩
    exact { havesub := h.havesub
            init := hfl.1.trans h.init
            eof := hfl.2.1.trans h.eof
            del := hfl.2.2
            stack := h.stack.state _
            leaf_ok := h.leaf_ok
            index := h.index
            dup := h.dup
            sub := hat
            sub_init := by show tst sub2.mc_state8 C_INITIALIZED = true; rw [hst]; exact h.sub_init
            sub_eof := by show tst sub2.mc_state8 C_EOF = false; rw [hst]; exact h.sub_eof
            sub_del := by
              show tst sub2.mc_state8 C_AFTERDELETE = false; rw [hst]; exact h.sub_del }
  · intro hi
    rw [h2 hi]
    exact ⟨_, rfl, rfl, rfl, rfl, rfl⟩

theorem pairwise_trichotomy {α : Type} {r : α → α → Prop} :
    ∀ {l : List α}, l.Pairwise r → ∀ {x y : α}, x ∈ l → y ∈ l → x = y ∨ r x y ∨ r y x := by
  intro l
  induction l with
  | nil => intro _ x y hx _; exact absurd hx (by simp)
  | cons a l ih =>
    intro hp x y hx hy
    rw [List.pairwise_cons] at hp
    rcases List.mem_cons.1 hx with h1 | h1
    · rcases List.mem_cons.1 hy with h2 | h2
      · left; rw [h1, h2]
      · right; left; rw [h1]; exact hp.1 y h2
    · rcases List.mem_cons.1 hy with h2 | h2
      · right; right; rw [h2]; exact hp.1 x h1
      · exact ih hp.2 h1 h2

/-- Two entries of a well-formed tree whose keys compare equal are the same
entry. -/
theorem tree_key_unique {txn : MDBX_txn} {cmp : MDBX_comparer} {P : node_t → Prop}
    (hc : CmpOK cmp) {h : Nat} {root : page_t} {lo hi : Option MDBX_iov}
    (hw : WFTree txn cmp P h root lo hi) {x y : node_t}
    (hx : x ∈ tree_nodes txn h root) (hy : y ∈ tree_nodes txn h root)
    (hxy : cmp (NODEKEY x) (NODEKEY y) = 0) : x = y := by
  rcases pairwise_trichotomy (tree_nodes_sorted hc h root lo hi hw) hx hy with h1 | h1 | h1
  · exact h1
  · omega
  · have := (hc.symm _ _).1 h1
    omega

/-- The walk over the duplicates of an entry with `MDBX_NEXT_DUP`: from the
duplicate at index `i` of an inline sub-page that holds `i + 1 + m`
duplicates, `m + 1` calls return the `m` following duplicates with the key of
the entry, and then `MDBX_NOTFOUND`. -/
theorem cursor_walk_next_dups (page_touch : page_touch_t) (txn : MDBX_txn)
    {cmp : MDBX_comparer} {leaf : page_t} {k : Nat} {R : frames_t} {xs : Nat} (key : MDBX_iov) :
    ∀ (m i : Nat) (b : MDBX_cursor), DupCursor cmp b leaf k R i xs →
      i + 1 + m = page_numkeys (NODEDATA_page (leaf.mp_nodes.getD k default)) →
      cursor_walk page_touch (List.replicate (m + 1) (MDBX_NEXT_DUP, key)) txn b =
        some ((List.range' (i + 1) m).map
            (fun j => (MDBX_SUCCESS, some (NODEKEY (leaf.mp_nodes.getD k default)),
              some (dup_at (NODEDATA_page (leaf.mp_nodes.getD k default)) xs j))) ++
          [(MDBX_NOTFOUND, some key, some [])]) := by
  intro m
  induction m with
  | zero =>
    intro i b h hn
    obtain ⟨b2, hg, _⟩ := (cursor_get_next_dup_step page_touch txn (some key) [] h).2 (by omega)
    rw [show List.replicate (0 + 1) (MDBX_NEXT_DUP, key) = [(MDBX_NEXT_DUP, key)] from rfl,
      cursor_walk_cons, hg]
    rfl
  | succ m ih =>
    intro i b h hn
    obtain ⟨b2, hg, h2⟩ :=
      (cursor_get_next_dup_step page_touch txn (some key) [] h).1 (by omega)
    rw [List.replicate_succ, cursor_walk_cons, hg]
    simp only
    rw [ih (i + 1) b2 h2 (by omega)]
    rw [List.range'_succ]
    rfl

theorem sub_cleared_ok {b : MDBX_cursor} (h : SubOK b) : SubOK (sub_cleared b) := by
  unfold sub_cleared
  by_cases hk : tst b.primal.mc_kind8 S_HAVESUB = true
  · rw [if_pos hk]; exact h
  · rw [if_neg hk]; exact h

/-- `MDBX_SET` through cursor_get on the key of an entry that carries its
duplicates in an inline sub-page: the primal cursor is put on the entry, the
sub-cursor on the first duplicate, which is returned. -/
theorem cursor_get_set_dup (page_touch : page_touch_t) {txn : MDBX_txn} {root : page_t}
    {h : Nat} {b : MDBX_cursor} {e : node_t} (d : MDBX_iov)
    (hk : tst b.primal.mc_kind8 S_HAVESUB = true) (hsub : SubOK b)
    (hwf : WFAA txn b.primal.mc_aht (DupSortNode txn) h root)
    (hci : CmpInt b.primal.mc_aht.ahe.ax_kcmp)
    (hcur : CursorOK txn b.primal.mc_aht.ahe.ax_kcmp (DupSortNode txn) root b.primal)
    (he : e ∈ tree_nodes txn h root) (hd : DupInline e)
    (hsz : tst b.primal.mc_aht.aa.flags16 MDBX_INTEGERKEY = true →
      (NODEKEY e).length = 4 ∨ (NODEKEY e).length = 8) :
    ∃ (r : gres) (leaf : page_t) (k : Nat) (R : frames_t) (lo hi : Option MDBX_iov),
      cursor_get page_touch 2 txn b (some (NODEKEY e)) (some d) MDBX_SET = some r ∧
      r.rc = MDBX_SUCCESS ∧ r.txn = txn ∧ r.key = some (NODEKEY e) ∧
      r.data = some (dup_at (NODEDATA_page e)
        (sub_xsize b.primal.mc_aht.aa.flags16 (NODEDATA_page e)) 0) ∧
      leaf.mp_nodes.getD k default = e ∧
      DupCursor b.primal.mc_aht.ahe.ax_kcmp r.bundle leaf k R 0
        (sub_xsize b.primal.mc_aht.aa.flags16 (NODEDATA_page e)) ∧
      Chain txn b.primal.mc_aht.ahe.ax_kcmp (DupSortNode txn) root 0 lo hi ((leaf, k) :: R) ∧
      r.bundle.subordinate.mx_cursor.mc_aht.aa.entries = page_numkeys (NODEDATA_page e) ∧
      r.bundle.primal.mc_aht = b.primal.mc_aht ∧
      r.bundle.primal.mc_kind8 = b.primal.mc_kind8 := by
  have hc : CmpOK b.primal.mc_aht.ahe.ax_kcmp := hwf.cmp_ok
  have hred := cursor_set_reduce page_touch (NODEKEY e) (some d) MDBX_SET (some 0)
    (fun h => absurd h (by simp)) hwf hci hcur hsz
  rw [cursor_get_set_any]
  rcases hred with ⟨leaf, k, R, lo, hi, b1, rc, ex, hon, hch, hlen, hkn, hleast, hex, hsb, haht,
    hkd, _, _, hres⟩ | ⟨r, _, hrc, _, hnf⟩
  · have hxe : leaf.mp_nodes.getD k default = e :=
      tree_key_unique hc hwf.tree hleast.1 he ((hc.eq_symm _ _).1 (hex rfl))
    have hp1 := sub_cleared_primal b
    have hk1 : tst b1.primal.mc_kind8 S_HAVESUB = true := by rw [hkd, hp1]; exact hk
    have hs1 : SubOK b1 := by
      have := sub_cleared_ok hsub
      unfold SubOK at this ⊢
      rw [hsb]; exact this
    have hw := Chain.wf _ _ _ _ _ hch
    have hl : LeafOK b.primal.mc_aht.ahe.ax_kcmp leaf := hw.leaf
    have hd1 : DupInline (leaf.mp_nodes.getD k default) := by rw [hxe]; exact hd
    obtain ⟨sub2, hset, hat, hst, _, _, hent⟩ := cursor_set_set1_dup page_touch
      (fun ex2p txn b data => cursor_set page_touch 1 txn b data none MDBX_SET_RANGE ex2p)
      (some (NODEKEY e)) d (Or.inl rfl) b1 rc ex hk1 hs1 hl.not_dfl hd1
    rw [hres, hset]
    have hfl := state_init_flags b1.primal.mc_state8
    have hfl2 := state_clr_del_flags (clr8 (b1.primal.mc_state8 ||| C_INITIALIZED) C_EOF)
    have ha1 : b1.primal.mc_aht = b.primal.mc_aht := by rw [haht, hp1]
    rw [ha1, hxe] at hat
    refine ⟨_, leaf, k, R, lo, hi, rfl, rfl, rfl, ?_, ?_, hxe, ?_, hch, ?_, ha1, ?_⟩
    · show (if MDBX_SET = MDBX_SET_RANGE ∨ MDBX_SET = MDBX_SET_KEY
        then MDBX_GET_KEY (leaf.mp_nodes.getD k default) (some (NODEKEY e))
        else some (NODEKEY e)) = some (NODEKEY e)
      rw [if_neg (by decide)]
    · show some (dup_at _ _ 0) = _
      rw [ha1, hxe]
    · exact { havesub := hk1
              init := hfl2.1.trans hfl.1
              eof := hfl2.2.1.trans hfl.2.1
              del := hfl2.2.2
              stack := (hon.state _).state _
              leaf_ok := hl
              index := hkn
              dup := hd1
              sub := by rw [hxe]; exact hat
              sub_init := by
                show tst sub2.mc_state8 C_INITIALIZED = true; rw [hst]; decide
              sub_eof := by show tst sub2.mc_state8 C_EOF = false; rw [hst]; decide
              sub_del := by show tst sub2.mc_state8 C_AFTERDELETE = false; rw [hst]; decide }
    · show sub2.mc_aht.aa.entries = _
      rw [hent, hxe]
    · show b1.primal.mc_kind8 = _
      rw [hkd, hp1]
  · exfalso
    rcases hnf with hall | ⟨_, hnone⟩
    · have := hall e he
      have h0 := hc.refl (NODEKEY e)
      unfold cursor_key_comparer at this
      omega
    · exact hnone e he (hc.refl _)

theorem node_dups_cons (flags16 : Nat) (n : node_t) (h : 0 < page_numkeys (NODEDATA_page n)) :
    node_dups flags16 n =
      dup_at (NODEDATA_page n) (sub_xsize flags16 (NODEDATA_page n)) 0 ::
        (List.range' 1 (page_numkeys (NODEDATA_page n) - 1)).map
          (dup_at (NODEDATA_page n) (sub_xsize flags16 (NODEDATA_page n))) := by
  unfold node_dups
  obtain ⟨m, hm⟩ : ∃ m, page_numkeys (NODEDATA_page n) = m + 1 :=
    ⟨page_numkeys (NODEDATA_page n) - 1, by omega⟩
  rw [hm, List.range_eq_range', List.range'_succ]
  simp

/-- C7: over a well-formed tree of a dup-sorted AA, for an entry that carries
its duplicates in an inline sub-page, `MDBX_SET` on the key of the entry
followed by as many `MDBX_NEXT_DUP` as the entry has duplicates returns, with
`MDBX_SUCCESS` and the key of the entry, the duplicates of the sub-page one
after the other from the first on, and the last `MDBX_NEXT_DUP` returns
`MDBX_NOTFOUND`; when the duplicates are sorted ascending the first one is the
smallest. The comparer is taken to return values that fit an `int` (`CmpInt`): the
code stores its `ptrdiff_t` result in an `int`. -/
theorem C7_set_then_next_dup (page_touch : page_touch_t) {txn : MDBX_txn} {root : page_t}
    {h : Nat} {b : MDBX_cursor} {e : node_t}
    (hk : tst b.primal.mc_kind8 S_HAVESUB = true) (hsub : SubOK b)
    (hwf : WFAA txn b.primal.mc_aht (DupSortNode txn) h root)
    (hci : CmpInt b.primal.mc_aht.ahe.ax_kcmp)
    (hcur : CursorOK txn b.primal.mc_aht.ahe.ax_kcmp (DupSortNode txn) root b.primal)
    (he : e ∈ tree_nodes txn h root) (hd : DupInline e)
    (hsz : tst b.primal.mc_aht.aa.flags16 MDBX_INTEGERKEY = true →
      (NODEKEY e).length = 4 ∨ (NODEKEY e).length = 8) :
    1 ≤ (node_dups b.primal.mc_aht.aa.flags16 e).length ∧
    cursor_walk page_touch
        ((MDBX_SET, NODEKEY e) ::
          List.replicate (node_dups b.primal.mc_aht.aa.flags16 e).length
            (MDBX_NEXT_DUP, NODEKEY e)) txn b =
      some ((node_dups b.primal.mc_aht.aa.flags16 e).map
          (fun v => (MDBX_SUCCESS, some (NODEKEY e), some v)) ++
        [(MDBX_NOTFOUND, some (NODEKEY e), some [])]) ∧
    ((node_dups b.primal.mc_aht.aa.flags16 e).Pairwise
        (fun x y => b.primal.mc_aht.ahe.ax_dcmp x y < 0) →
      ∀ v ∈ node_dups b.primal.mc_aht.aa.flags16 e,
        v = (node_dups b.primal.mc_aht.aa.flags16 e).headD [] ∨
        b.primal.mc_aht.ahe.ax_dcmp ((node_dups b.primal.mc_aht.aa.flags16 e).headD []) v
          < 0) := by
  have hn0 := hd.2.2.nonempty
  have hlen : (node_dups b.primal.mc_aht.aa.flags16 e).length =
      page_numkeys (NODEDATA_page e) - 1 + 1 := by
    unfold node_dups
    simp only [List.length_map, List.length_range]
    omega
  have hcons := node_dups_cons b.primal.mc_aht.aa.flags16 e hn0
  refine ⟨by omega, ?_, ?_⟩
  · obtain ⟨r, leaf, k, R, lo, hi, hset, hrc, htx, hkey, hdata, hxe, hdc, _, _, _, _⟩ :=
      cursor_get_set_dup page_touch [] hk hsub hwf hci hcur he hd hsz
    rw [cursor_walk_cons, hset]
    simp only
    rw [hlen, htx]
    have hw := cursor_walk_next_dups page_touch txn (NODEKEY e)
      (page_numkeys (NODEDATA_page e) - 1) 0 r.bundle hdc (by rw [hxe]; omega)
    rw [hw, hrc, hkey, hdata, hcons, hxe]
    simp
  · intro hp v hv
    rw [hcons] at hp hv ⊢
    rw [List.pairwise_cons] at hp
    rcases List.mem_cons.1 hv with h1 | h1
    · left; rw [h1]; rfl
    · right; exact hp.1 v h1

theorem dup_subpage_ok : SubPageOK (NODEDATA_page dup_node) where
  is_leaf := by decide
  lower := by decide
  nonempty := by decide
  nodes := fun _ => by decide
  plain := by decide

theorem dup_node_inline : DupInline dup_node := ⟨by decide, by decide, dup_subpage_ok⟩

theorem dup_leaf_ok : LeafOK cmp_lex dup_leaf where
  is_leaf := by decide
  not_branch := by decide
  not_dfl := by decide
  lower := by decide
  nodes := by decide
  nonempty := by decide
  sorted := by
    intro i j h1 h2
    have h4 : page_numkeys dup_leaf = 1 := by decide
    omega

theorem dup_aa (flags : Nat) :
    WFAA (sample_txn dup_pages) (sample_aht flags 3) (DupSortNode (sample_txn dup_pages)) 0
      dup_leaf where
  live := by decide
  valid := by
    show tst MDBX_AAH_VALID MDBX_AAH_VALID = true
    decide
  root_ge := by
    show NUM_METAS ≤ 3
    decide
  root_pg := ⟨by rfl, by rfl⟩
  root_no := by rfl
  depth := by decide
  tree := by
    refine ⟨dup_leaf_ok, fun i hi => ?_, fun l hl => absurd hl (by simp),
      fun u hu => absurd hu (by simp)⟩
    have h4 : page_numkeys dup_leaf = 1 := by decide
    have h0 : i = 0 := by omega
    subst h0
    exact Or.inr dup_node_inline
  cmp_ok := cmp_lex_ok

theorem sample_dup_sub_ok (aht : aht_t) (state : Nat) (frames : List (page_t × indx_t)) :
    SubOK (sample_dup_bundle aht state frames) :=
  ⟨⟨by rfl, by rfl⟩, by show tst S_SUBCURSOR S_HAVESUB = false; decide⟩

theorem sample_dup_fresh (txn : MDBX_txn) (P : node_t → Prop) (root : page_t) (aht : aht_t) :
    CursorOK txn cmp_lex P root (sample_dup_bundle aht 0 []).primal :=
  ⟨⟨by rfl, by rfl⟩, fun h => absurd h (by show ¬ tst 0 C_INITIALIZED = true; decide)⟩

theorem C7_set_then_next_dup_witness :
    cursor_walk sample_touch
        [(MDBX_SET, k_k), (MDBX_NEXT_DUP, k_k), (MDBX_NEXT_DUP, k_k), (MDBX_NEXT_DUP, k_k)]
        (sample_txn dup_pages) (sample_dup_bundle (sample_aht MDBX_DUPSORT 3) 0 []) =
      some [(MDBX_SUCCESS, some k_k, some v_a), (MDBX_SUCCESS, some k_k, some v_b),
            (MDBX_SUCCESS, some k_k, some v_c), (MDBX_NOTFOUND, some k_k, some [])] :=
  (C7_set_then_next_dup sample_touch (e := dup_node)
    (b := sample_dup_bundle (sample_aht MDBX_DUPSORT 3) 0 []) (by decide)
    (sample_dup_sub_ok _ _ _) (dup_aa _) cmp_lex_int (sample_dup_fresh _ _ _ _)
    (by show dup_node ∈ [dup_node]; simp) dup_node_inline
    (fun h => absurd h (by decide))).2.1

theorem subtree_leaf_ok : LeafOK cmp_lex subtree_leaf where
  is_leaf := by decide
  not_branch := by decide
  not_dfl := by decide
  lower := by decide
  nodes := by decide
  nonempty := by decide
  sorted := by
    intro i j h1 h2
    have h4 : page_numkeys subtree_leaf = 3 := by decide
    have hj : j = 1 ∨ j = 2 := by omega
    rcases hj with hj | hj
    · have hi : i = 0 := by omega
      subst hj hi
      decide
    · have hi : i = 0 ∨ i = 1 := by omega
      rcases hi with hi | hi
      · subst hj hi
        decide
      · subst hj hi
        decide

/-- C14, divergence: for the entry with key k that is flagged `NODE_DUP` and
`NODE_SUBTREE` and whose nested sub-tree (root page 5, a well-formed leaf with
the three duplicates a, b, c, which resolves) is not empty, cursor_get with
`MDBX_SET` on its key does not return, and neither does `MDBX_FIRST`:
subordinate_setup leaves the sub-cursor with `C_INITIALIZED`, `mc_top` 0 and a
null page in frame 0, so cursor_first on the sub-cursor skips page_search and
reads the page of frame 0. -/
theorem C14_subtree_dup_reads_empty_stack :
    F_ISSET subtree_node.node_flags8 NODE_DUP = true ∧
    tst subtree_node.node_flags8 NODE_SUBTREE = true ∧
    Resolves (sample_txn subtree_pages) subtree_node.data_aatree.root subtree_leaf ∧
    LeafOK cmp_lex subtree_leaf ∧ page_numkeys subtree_leaf = 3 ∧
    (subordinate_setup (sample_dup_bundle (sample_aht MDBX_DUPSORT 3) 0 []) 2
        subtree_node).map
      (fun b => (b.subordinate.mx_cursor.mc_state8, b.subordinate.mx_cursor.mc_top,
        b.subordinate.mx_cursor.mc_snum, b.subordinate.mx_cursor.mc_pg[0]?)) =
      some (C_INITIALIZED, 0, 0, some none) ∧
    cursor_get sample_touch 2 (sample_txn subtree_pages)
      (sample_dup_bundle (sample_aht MDBX_DUPSORT 3) 0 []) (some k_k) (some []) MDBX_SET
      = none ∧
    cursor_get sample_touch 2 (sample_txn subtree_pages)
      (sample_dup_bundle (sample_aht MDBX_DUPSORT 3) 0 []) (some []) (some []) MDBX_FIRST
      = none :=
  ⟨by decide, by decide, ⟨by rfl, by rfl⟩, subtree_leaf_ok, by decide, by rfl, by rfl, by rfl⟩

/-- Every entry of a well-formed tree satisfies the node predicate of the tree. -/
theorem tree_nodes_pred {txn : MDBX_txn} {cmp : MDBX_comparer} {P : node_t → Prop} :
    ∀ (h : Nat) (pg : page_t) (lo hi : Option MDBX_iov),
      WFTree txn cmp P h pg lo hi → ∀ e, e ∈ tree_nodes txn h pg → P e := by
  intro h
  induction h with
  | zero =>
    intro pg lo hi hw e he
    have he2 : e ∈ pg.mp_nodes := he
    obtain ⟨i, hi2, hie⟩ := List.getElem_of_mem he2
    have hl : LeafOK cmp pg := hw.1
    have := hw.2.1 i (by rw [← hl.nodes]; exact hi2)
    rw [List.getD_eq_getElem _ _ hi2, hie] at this
    exact this
  | succ h ih =>
    intro pg lo hi hw e he
    obtain ⟨i, hi2, hie⟩ := tree_nodes_mem_succ.1 he
    exact ih _ _ _ (hw.child hi2) e hie

/-- The code of cursor_set from the label `set1` for a node with a single
value, with `MDBX_SET`, `MDBX_SET_KEY` or `MDBX_SET_RANGE`: the value is read
and only the state flags of the primal cursor change. -/
theorem cursor_set_set1_single (sub_first : sub_call_t) (sub_set : Option Int → sub_call_t)
    (keyp : Option MDBX_iov) (d : MDBX_iov) {op : MDBX_cursor_op}
    (hop : op = MDBX_SET ∨ op = MDBX_SET_KEY ∨ op = MDBX_SET_RANGE) {txn : MDBX_txn}
    (b : MDBX_cursor) {mp : page_t} {n : node_t} (rc : Int) (exactp : Option Int)
    (hl : IS_DFL mp = false) (hn : PlainNode txn n) :
    ∃ b2,
      cursor_set_set1 sub_first sub_set 2 keyp (some d) op txn b mp (.node n) rc exactp =
        some { rc := MDBX_SUCCESS, txn := txn, bundle := b2,
               key := (if op = MDBX_SET_RANGE ∨ op = MDBX_SET_KEY then MDBX_GET_KEY n keyp
                       else keyp),
               data := some (node_data txn n), exact := exactp } ∧
      b2.primal = { b.primal with
        mc_state8 := clr8 (b.primal.mc_state8 ||| C_INITIALIZED) C_EOF } := by
  have hop2 : ¬ (op = MDBX_GET_BOTH ∨ op = MDBX_GET_BOTH_RANGE) := by
    rcases hop with h | h | h <;> subst h <;> decide
  unfold cursor_set_set1
  simp only [cur_primal, with_cur_primal, hl, Bool.false_eq_true, if_false, node_ref.deref,
    hn.1, hop2, node_read_plain hn]
  by_cases hk : tst b.primal.mc_kind8 S_HAVESUB = true
  · simp only [hk, if_true]
    rw [subcursor_reset_primal (b := { b with primal := { b.primal with
      mc_state8 := clr8 (b.primal.mc_state8 ||| C_INITIALIZED) C_EOF } }) hk]
    refine ⟨sub_cleared { b with primal := { b.primal with
      mc_state8 := clr8 (b.primal.mc_state8 ||| C_INITIALIZED) C_EOF } }, ?_,
      sub_cleared_primal _⟩
    simp
  · simp only [hk, if_false]
    refine ⟨{ b with primal := { b.primal with
      mc_state8 := clr8 (b.primal.mc_state8 ||| C_INITIALIZED) C_EOF } }, ?_, rfl⟩
    simp

/-- `MDBX_SET` through cursor_get on the key of an entry, where a cursor has a
usable sub-cursor when the entry carries duplicates: the primal cursor is put
on the entry; when the entry carries duplicates the sub-cursor is initialized
and its entry count is that of the sub-page. -/
theorem cursor_get_set_entry (page_touch : page_touch_t) {txn : MDBX_txn} {root : page_t}
    {h : Nat} {b : MDBX_cursor} {e : node_t} (d : MDBX_iov)
    (hk : F_ISSET e.node_flags8 NODE_DUP = true →
      tst b.primal.mc_kind8 S_HAVESUB = true ∧ SubOK b)
    (hwf : WFAA txn b.primal.mc_aht (DupSortNode txn) h root)
    (hci : CmpInt b.primal.mc_aht.ahe.ax_kcmp)
    (hcur : CursorOK txn b.primal.mc_aht.ahe.ax_kcmp (DupSortNode txn) root b.primal)
    (he : e ∈ tree_nodes txn h root)
    (hsz : tst b.primal.mc_aht.aa.flags16 MDBX_INTEGERKEY = true →
      (NODEKEY e).length = 4 ∨ (NODEKEY e).length = 8) :
    ∃ (r : gres) (leaf : page_t) (k : Nat) (R : frames_t),
      cursor_get page_touch 2 txn b (some (NODEKEY e)) (some d) MDBX_SET = some r ∧
      r.rc = MDBX_SUCCESS ∧ r.key = some (NODEKEY e) ∧
      OnStack r.bundle.primal ((leaf, k) :: R) ∧
      LeafOK b.primal.mc_aht.ahe.ax_kcmp leaf ∧ k < page_numkeys leaf ∧
      leaf.mp_nodes.getD k default = e ∧
      tst r.bundle.primal.mc_state8 C_EOF = false ∧
      (F_ISSET e.node_flags8 NODE_DUP = true →
        tst r.bundle.subordinate.mx_cursor.mc_state8 C_INITIALIZED = true ∧
        r.bundle.subordinate.mx_cursor.mc_aht.aa.entries = page_numkeys (NODEDATA_page e)) := by
  have hc : CmpOK b.primal.mc_aht.ahe.ax_kcmp := hwf.cmp_ok
  rcases tree_nodes_pred h root none none hwf.tree e he with hp | hd
  · have hred := cursor_set_reduce page_touch (NODEKEY e) (some d) MDBX_SET (some 0)
      (fun h => absurd h (by simp)) hwf hci hcur hsz
    rw [cursor_get_set_any]
    rcases hred with ⟨leaf, k, R, lo, hi, b1, rc, ex, hon, hch, hlen, hkn, hleast, hex, hsb,
      haht, hkd, _, _, hres⟩ | ⟨r, _, hrc, _, hnf⟩
    · have hxe : leaf.mp_nodes.getD k default = e :=
        tree_key_unique hc hwf.tree hleast.1 he ((hc.eq_symm _ _).1 (hex rfl))
      have hw := Chain.wf _ _ _ _ _ hch
      have hl : LeafOK b.primal.mc_aht.ahe.ax_kcmp leaf := hw.leaf
      have hp1 : PlainNode txn (leaf.mp_nodes.getD k default) := by rw [hxe]; exact hp
      obtain ⟨b2, hset, hb2⟩ := cursor_set_set1_single
        (fun txn b data => cursor_first page_touch 1 txn b data none)
        (fun ex2p txn b data => cursor_set page_touch 1 txn b data none MDBX_SET_RANGE ex2p)
        (some (NODEKEY e)) d (Or.inl rfl) b1 rc ex hl.not_dfl hp1
      rw [hres, hset]
      have hfl := state_init_flags b1.primal.mc_state8
      have hfl2 := state_clr_del_flags (clr8 (b1.primal.mc_state8 ||| C_INITIALIZED) C_EOF)
      refine ⟨_, leaf, k, R, rfl, rfl, ?_, ?_, hl, hkn, hxe, ?_, ?_⟩
      · show (if MDBX_SET = MDBX_SET_RANGE ∨ MDBX_SET = MDBX_SET_KEY
          then MDBX_GET_KEY (leaf.mp_nodes.getD k default) (some (NODEKEY e))
          else some (NODEKEY e)) = some (NODEKEY e)
        rw [if_neg (by decide)]
      · show OnStack { b2.primal with
          mc_state8 := clr8 b2.primal.mc_state8 C_AFTERDELETE } ((leaf, k) :: R)
        rw [hb2]
        exact (hon.state _).state _
      · show tst (clr8 b2.primal.mc_state8 C_AFTERDELETE) C_EOF = false
        rw [hb2]
        exact hfl2.2.1.trans hfl.2.1
      · intro hdup
        rw [hp.1] at hdup
        exact absurd hdup (by decide)
    · exfalso
      rcases hnf with hall | ⟨_, hnone⟩
      · have := hall e he
        have h0 := hc.refl (NODEKEY e)
        unfold cursor_key_comparer at this
        omega
      · exact hnone e he (hc.refl _)
  · obtain ⟨r, leaf, k, R, lo, hi, hg, hrc, _, hkey, _, hxe, hdc, _, hent, _, _⟩ :=
      cursor_get_set_dup page_touch d (hk hd.1).1 (hk hd.1).2 hwf hci hcur he hd hsz
    exact ⟨r, leaf, k, R, hg, hrc, hkey, hdc.stack, hdc.leaf_ok, hdc.index, hxe, hdc.eof,
      fun _ => ⟨hdc.sub_init, hent⟩⟩

/-- The count that mdbx_cursor_count stores for a cursor that stands on an
entry of a leaf. -/
theorem cursor_count_at (validate : MDBX_cursor → Int) (SIZE_MAX : Nat) {c : MDBX_cursor}
    {cmp : MDBX_comparer} {leaf : page_t} {k : Nat} {R : frames_t}
    (hv : validate c = MDBX_SUCCESS) (hon : OnStack c.primal ((leaf, k) :: R))
    (hl : LeafOK cmp leaf) (hkn : k < page_numkeys leaf)
    (heof : tst c.primal.mc_state8 C_EOF = false) :
    mdbx_cursor_count validate SIZE_MAX c true =
      some { rc := MDBX_SUCCESS,
             count := some (
               if tst c.subordinate.mx_cursor.mc_state8 C_INITIALIZED = true ∧
                  F_ISSET (leaf.mp_nodes.getD k default).node_flags8 NODE_DUP = true
               then (if c.subordinate.mx_cursor.mc_aht.aa.entries > SIZE_MAX then SIZE_MAX
                     else c.subordinate.mx_cursor.mc_aht.aa.entries)
               else 1) } := by
  have hsn : c.primal.mc_snum ≠ 0 := by
    have := hon.snum
    simp only [List.length_cons] at this
    omega
  have hpg := hon.pg_top
  have hki := hon.ki_top
  have hpg2 : c.primal.mc_pg[c.primal.mc_top]? = some (some leaf) := by
    unfold cursor_t.pg at hpg
    cases hx : c.primal.mc_pg[c.primal.mc_top]? with
    | none => rw [hx] at hpg; simp at hpg
    | some v =>
      rw [hx] at hpg
      cases v with
      | none => simp at hpg
      | some w =>
        exact congrArg some hpg
  unfold mdbx_cursor_count
  by_cases h1 : tst c.subordinate.mx_cursor.mc_state8 C_INITIALIZED = true
  · by_cases h2 : F_ISSET (leaf.mp_nodes.getD k default).node_flags8 NODE_DUP = true
    · simp only [hv, hsn, hpg2, heof, hki, bind, Option.bind, pure, Bool.true_eq_false,
        if_false, ne_eq, not_true_eq_false, Bool.false_eq_true,
        node_ptr_node hkn (le_of_eq hl.nodes.symm), node_ref.deref, h1, h2, if_true, and_self]
    · simp only [hv, hsn, hpg2, heof, hki, bind, Option.bind, pure, Bool.true_eq_false,
        if_false, ne_eq, not_true_eq_false, Bool.false_eq_true,
        node_ptr_node hkn (le_of_eq hl.nodes.symm), node_ref.deref, h1, h2, if_true, and_false]
  · simp only [hv, hsn, hpg2, heof, hki, bind, Option.bind, pure, Bool.true_eq_false,
      if_false, ne_eq, not_true_eq_false, Bool.false_eq_true, h1, false_and]

theorem node_dups_length (flags16 : Nat) (n : node_t) :
    (node_dups flags16 n).length = page_numkeys (NODEDATA_page n) := by
  unfold node_dups
  rw [List.length_map, List.length_range]

/-- C13: mdbx_cursor_count returns `MDBX_EINVAL` for a null count pointer; on
a cursor that passes the validity check it returns `MDBX_NOTFOUND` and stores
0 when the stack of the cursor is empty, or when the cursor has `C_EOF` set
and its index is not below the number of entries of the page; and on the
cursor that `MDBX_SET` has put on an entry of a well-formed tree it returns
`MDBX_SUCCESS` and stores the number of duplicates of the entry, saturated at
`SIZE_MAX`, when the entry carries duplicates, and 1 when it is a single
value. The comparer is taken to return values that fit an `int` (`CmpInt`): the
code stores its `ptrdiff_t` result in an `int`. -/
theorem C13_cursor_count (page_touch : page_touch_t) (validate : MDBX_cursor → Int)
    (SIZE_MAX : Nat) {txn : MDBX_txn} {root : page_t} {h : Nat} {b : MDBX_cursor} {e : node_t}
    (d : MDBX_iov)
    (hk : F_ISSET e.node_flags8 NODE_DUP = true →
      tst b.primal.mc_kind8 S_HAVESUB = true ∧ SubOK b)
    (hwf : WFAA txn b.primal.mc_aht (DupSortNode txn) h root)
    (hci : CmpInt b.primal.mc_aht.ahe.ax_kcmp)
    (hcur : CursorOK txn b.primal.mc_aht.ahe.ax_kcmp (DupSortNode txn) root b.primal)
    (he : e ∈ tree_nodes txn h root)
    (hsz : tst b.primal.mc_aht.aa.flags16 MDBX_INTEGERKEY = true →
      (NODEKEY e).length = 4 ∨ (NODEKEY e).length = 8) :
    (∀ c, mdbx_cursor_count validate SIZE_MAX c false =
      some { rc := MDBX_EINVAL, count := none }) ∧
    (∀ c, validate c = MDBX_SUCCESS → c.primal.mc_snum = 0 →
      mdbx_cursor_count validate SIZE_MAX c true =
        some { rc := MDBX_NOTFOUND, count := some 0 }) ∧
    (∀ c leaf k R, validate c = MDBX_SUCCESS → OnStack c.primal ((leaf, k) :: R) →
      tst c.primal.mc_state8 C_EOF = true → page_numkeys leaf ≤ k →
      mdbx_cursor_count validate SIZE_MAX c true =
        some { rc := MDBX_NOTFOUND, count := some 0 }) ∧
    ∃ r, cursor_get page_touch 2 txn b (some (NODEKEY e)) (some d) MDBX_SET = some r ∧
      r.rc = MDBX_SUCCESS ∧
      (validate r.bundle = MDBX_SUCCESS →
        mdbx_cursor_count validate SIZE_MAX r.bundle true =
          some { rc := MDBX_SUCCESS,
                 count := some (if F_ISSET e.node_flags8 NODE_DUP = true
                                then min (node_dups b.primal.mc_aht.aa.flags16 e).length SIZE_MAX
                                else 1) }) := by
  refine ⟨fun c => rfl, ?_, ?_, ?_⟩
  · intro c hv hs
    unfold mdbx_cursor_count
    simp only [hv, hs, Bool.true_eq_false, if_false, ne_eq, not_true_eq_false, if_true]
  · intro c leaf k R hv hon heof hle
    have hsn : c.primal.mc_snum ≠ 0 := by
      have := hon.snum
      simp only [List.length_cons] at this
      omega
    have hpg := hon.pg_top
    have hki := hon.ki_top
    have hpg2 : c.primal.mc_pg[c.primal.mc_top]? = some (some leaf) := by
      unfold cursor_t.pg at hpg
      cases hx : c.primal.mc_pg[c.primal.mc_top]? with
      | none => rw [hx] at hpg; simp at hpg
      | some v =>
        rw [hx] at hpg
        cases v with
        | none => simp at hpg
        | some w => exact congrArg some hpg
    have hge : decide (k ≥ page_numkeys leaf) = true := decide_eq_true hle
    unfold mdbx_cursor_count
    simp only [hv, hsn, hpg2, heof, hki, bind, Option.bind, pure, Bool.true_eq_false,
      if_false, ne_eq, not_true_eq_false, if_true, hge]
  · obtain ⟨r, leaf, k, R, hg, hrc, _, hon, hl, hkn, hxe, heof, hdup⟩ :=
      cursor_get_set_entry page_touch d hk hwf hci hcur he hsz
    refine ⟨r, hg, hrc, fun hv => ?_⟩
    rw [cursor_count_at validate SIZE_MAX hv hon hl hkn heof, hxe, node_dups_length]
    by_cases h2 : F_ISSET e.node_flags8 NODE_DUP = true
    · obtain ⟨h3, h4⟩ := hdup h2
      rw [if_pos ⟨h3, h2⟩, if_pos h2, h4]
      by_cases h5 : page_numkeys (NODEDATA_page e) > SIZE_MAX
      · rw [if_pos h5, Nat.min_eq_right (Nat.le_of_lt h5)]
      · rw [if_neg h5, Nat.min_eq_left (Nat.le_of_not_gt h5)]
    · rw [if_neg (fun h6 => h2 h6.2), if_neg h2]

theorem C13_cursor_count_witness :
    ∃ r, cursor_get sample_touch 2 (sample_txn dup_pages)
        (sample_dup_bundle (sample_aht MDBX_DUPSORT 3) 0 []) (some k_k) (some []) MDBX_SET =
        some r ∧
      mdbx_cursor_count (fun _ => MDBX_SUCCESS) 18446744073709551615 r.bundle true =
        some { rc := MDBX_SUCCESS, count := some 3 } := by
  obtain ⟨r, hg, _, hc⟩ := (C13_cursor_count sample_touch (fun _ => MDBX_SUCCESS)
    18446744073709551615 (e := dup_node)
    (b := sample_dup_bundle (sample_aht MDBX_DUPSORT 3) 0 []) []
    (fun _ => ⟨by decide, sample_dup_sub_ok _ _ _⟩) (dup_aa _) cmp_lex_int
    (sample_dup_fresh _ _ _ _)
    (by show dup_node ∈ [dup_node]; simp) (fun h => absurd h (by decide))).2.2.2
  exact ⟨r, hg, (hc rfl).trans (by decide)⟩

theorem state_init_only (s : Nat) :
    (s &&& (C_INITIALIZED ||| C_EOF)) = C_INITIALIZED ↔
      (tst s C_INITIALIZED = true ∧ tst s C_EOF = false) := by
  have h3 : (C_INITIALIZED ||| C_EOF) = 2 ^ 2 - 1 := by decide
  rw [h3, Nat.and_pow_two_sub_one_eq_mod]
  simp only [C_INITIALIZED, C_EOF, tst_1, tst_2, Nat.testBit_to_div_mod]
  simp only [pow_zero, Nat.div_one, pow_one, decide_eq_true_eq, decide_eq_false_iff_not]
  omega

theorem cursor_get_multiple_eq (page_touch : page_touch_t) (txn : MDBX_txn) (b : MDBX_cursor)
    (key : Option MDBX_iov) (d : MDBX_iov)
    (hi : tst b.primal.mc_state8 C_INITIALIZED = true)
    (hf : tst b.primal.mc_kind8 S_DUPFIXED = true) :
    cursor_get page_touch 2 txn b key (some d) MDBX_GET_MULTIPLE =
      (cursor_get_fetch_multiple 2 txn b key (some d)).map (cursor_get_break 2) := by
  obtain ⟨s, hs⟩ := cursor_subordinate_some b
  rw [show cursor_get page_touch 2 txn b key (some d) MDBX_GET_MULTIPLE =
    (match cursor_subordinate b 2 with
     | none => none
     | some _ =>
       if (some d).isNone ∨ ¬ tst (b.cur 2).mc_state8 C_INITIALIZED then
         (some { rc := MDBX_EINVAL, txn := txn, bundle := b, key := key, data := some d } :
           Option gres)
       else if ¬ tst (b.cur 2).mc_kind8 S_DUPFIXED then
         some { rc := MDBX_INCOMPATIBLE, txn := txn, bundle := b, key := key, data := some d }
       else (cursor_get_fetch_multiple 2 txn b key (some d)).map (cursor_get_break 2))
    from rfl, hs]
  simp only [cur_primal, hi, hf, Option.isNone_some, Bool.false_eq_true, not_true_eq_false,
    or_self, if_false]

/-- The code of cursor_get from `fetch_multiple` on a sub-cursor that stands on
a sub-page: the packed values of the whole sub-page are returned as one slice
and the sub-cursor is left on the last of them. -/
theorem fetch_multiple_at (txn : MDBX_txn) {b : MDBX_cursor} (key : Option MDBX_iov)
    (d : MDBX_iov) {fp : page_t} {i xs : Nat}
    (hk : tst b.primal.mc_kind8 S_HAVESUB = true)
    (hs : SubAt b.subordinate.mx_cursor fp i xs) (hp : SubPageOK fp)
    (hi : tst b.subordinate.mx_cursor.mc_state8 C_INITIALIZED = true)
    (he : tst b.subordinate.mx_cursor.mc_state8 C_EOF = false) :
    cursor_get_fetch_multiple 2 txn b key (some d) =
      some { rc := MDBX_SUCCESS, txn := txn,
             bundle := b.with_cur 1 (frame_ki b.subordinate.mx_cursor
               b.subordinate.mx_cursor.mc_top (page_numkeys fp - 1)),
             key := key, data := some (fp.mp_data.take (page_numkeys fp * xs)) } := by
  have hsub : cursor_subordinate b 2 = some (some b.subordinate.mx_cursor) := by
    unfold cursor_subordinate
    rw [cur_primal, if_pos hk, cursor_subcursor_primal hk]
    rfl
  have hst := (state_init_only b.subordinate.mx_cursor.mc_state8).2 ⟨hi, he⟩
  have htop := hs.stack.top_lt
  have hlen : b.subordinate.mx_cursor.mc_top < b.subordinate.mx_cursor.mc_ki.length := by
    rw [hs.stack.ok.2]; exact htop
  have hnk := page_numkeys_lt hp.lower
  unfold cursor_get_fetch_multiple
  simp only [hsub, Option.join, Option.some_bind, id, hst, ne_eq, not_true_eq_false, if_false,
    hs.stack.pg_top, cursor_t.set_ki, hlen, if_true, Option.map_some',
    to_indx_pred _ hp.nonempty (by omega), hs.xsize]
  rfl

/-- The code of cursor_get from `fetch_multiple` on a sub-cursor that is not
initialized or stands at the end: `MDBX_NOTFOUND`, nothing changes. -/
theorem fetch_multiple_none (txn : MDBX_txn) {b : MDBX_cursor} (key : Option MDBX_iov)
    (d : MDBX_iov) (hk : tst b.primal.mc_kind8 S_HAVESUB = true)
    (hn : tst b.subordinate.mx_cursor.mc_state8 C_INITIALIZED = false ∨
      tst b.subordinate.mx_cursor.mc_state8 C_EOF = true) :
    cursor_get_fetch_multiple 2 txn b key (some d) =
      some { rc := MDBX_NOTFOUND, txn := txn, bundle := b, key := key, data := some d } := by
  have hsub : cursor_subordinate b 2 = some (some b.subordinate.mx_cursor) := by
    unfold cursor_subordinate
    rw [cur_primal, if_pos hk, cursor_subcursor_primal hk]
    rfl
  have hst : (b.subordinate.mx_cursor.mc_state8 &&& (C_INITIALIZED ||| C_EOF)) ≠
      C_INITIALIZED := by
    intro h
    have h2 := (state_init_only _).1 h
    rcases hn with hn | hn
    · rw [h2.1] at hn; exact absurd hn (by decide)
    · rw [h2.2] at hn; exact absurd hn (by decide)
  unfold cursor_get_fetch_multiple
  simp only [hsub, Option.join, Option.some_bind, id, hst, ne_eq, not_false_eq_true, if_true]

theorem fixed_subpage_ok : SubPageOK (NODEDATA_page fixed_node) where
  is_leaf := by decide
  lower := by decide
  nonempty := by decide
  nodes := fun h => absurd h (by decide)
  plain := by decide

theorem fixed_node_inline : DupInline fixed_node := ⟨by decide, by decide, fixed_subpage_ok⟩

theorem fixed_leaf_ok : LeafOK cmp_lex fixed_leaf where
  is_leaf := by decide
  not_branch := by decide
  not_dfl := by decide
  lower := by decide
  nodes := by decide
  nonempty := by decide
  sorted := by
    intro i j h1 h2
    have h4 : page_numkeys fixed_leaf = 1 := by decide
    omega

theorem fixed_aa (flags : Nat) :
    WFAA (sample_txn fixed_pages) (sample_aht flags 3) (DupSortNode (sample_txn fixed_pages)) 0
      fixed_leaf where
  live := by decide
  valid := by
    show tst MDBX_AAH_VALID MDBX_AAH_VALID = true
    decide
  root_ge := by
    show NUM_METAS ≤ 3
    decide
  root_pg := ⟨by rfl, by rfl⟩
  root_no := by rfl
  depth := by decide
  tree := by
    refine ⟨fixed_leaf_ok, fun i hi => ?_, fun l hl => absurd hl (by simp),
      fun u hu => absurd hu (by simp)⟩
    have h4 : page_numkeys fixed_leaf = 1 := by decide
    have h0 : i = 0 := by omega
    subst h0
    exact Or.inr fixed_node_inline
  cmp_ok := cmp_lex_ok

theorem sample_fixed_sub_ok (aht : aht_t) (state : Nat) (frames : List (page_t × indx_t)) :
    SubOK (sample_fixed_bundle aht state frames) :=
  ⟨⟨by rfl, by rfl⟩, by show tst S_SUBCURSOR S_HAVESUB = false; decide⟩

theorem sample_fixed_fresh (txn : MDBX_txn) (P : node_t → Prop) (root : page_t) (aht : aht_t) :
    CursorOK txn cmp_lex P root (sample_fixed_bundle aht 0 []).primal :=
  ⟨⟨by rfl, by rfl⟩, fun h => absurd h (by show ¬ tst 0 C_INITIALIZED = true; decide)⟩

/-- C15: on the cursor of a dup-fixed AA that `MDBX_SET` has put on an entry
whose duplicates lie in an inline sub-page of `m` values of the fixed size `s`,
cursor_get with `MDBX_GET_MULTIPLE` returns `MDBX_SUCCESS` and as the data the
first `m * s` bytes of the sub-page, a slice of length `m * s` (the sub-page
holding that many bytes) that begins with the first packed value; the
sub-cursor is left at index `m - 1` and the stack of the primal cursor is not
changed.  On an initialized dup-fixed cursor whose sub-cursor is not
initialized or is at the end, `MDBX_GET_MULTIPLE` returns `MDBX_NOTFOUND`. The comparer is taken to return values that fit an `int` (`CmpInt`): the
code stores its `ptrdiff_t` result in an `int`. -/
theorem C15_get_multiple (page_touch : page_touch_t) {txn : MDBX_txn} {root : page_t}
    {h : Nat} {b : MDBX_cursor} {e : node_t} (d d2 : MDBX_iov) (key2 : Option MDBX_iov)
    (hk : tst b.primal.mc_kind8 S_HAVESUB = true)
    (hkf : tst b.primal.mc_kind8 S_DUPFIXED = true)
    (hfl : tst b.primal.mc_aht.aa.flags16 MDBX_DUPFIXED = true) (hsub : SubOK b)
    (hwf : WFAA txn b.primal.mc_aht (DupSortNode txn) h root)
    (hci : CmpInt b.primal.mc_aht.ahe.ax_kcmp)
    (hcur : CursorOK txn b.primal.mc_aht.ahe.ax_kcmp (DupSortNode txn) root b.primal)
    (he : e ∈ tree_nodes txn h root) (hd : DupInline e)
    (hsz : tst b.primal.mc_aht.aa.flags16 MDBX_INTEGERKEY = true →
      (NODEKEY e).length = 4 ∨ (NODEKEY e).length = 8) :
    (∃ (r1 r2 : gres) (leaf : page_t) (k : Nat) (R : frames_t) (v : MDBX_iov),
      cursor_get page_touch 2 txn b (some (NODEKEY e)) (some d) MDBX_SET = some r1 ∧
      r1.rc = MDBX_SUCCESS ∧ OnStack r1.bundle.primal ((leaf, k) :: R) ∧
      leaf.mp_nodes.getD k default = e ∧
      cursor_get page_touch 2 r1.txn r1.bundle key2 (some d2) MDBX_GET_MULTIPLE = some r2 ∧
      r2.rc = MDBX_SUCCESS ∧ r2.key = key2 ∧ r2.data = some v ∧
      v = (NODEDATA_page e).mp_data.take
        (page_numkeys (NODEDATA_page e) * (NODEDATA_page e).mp_leaf2_ksize16) ∧
      (page_numkeys (NODEDATA_page e) * (NODEDATA_page e).mp_leaf2_ksize16 ≤
          (NODEDATA_page e).mp_data.length →
        v.length = page_numkeys (NODEDATA_page e) * (NODEDATA_page e).mp_leaf2_ksize16) ∧
      v.take (NODEDATA_page e).mp_leaf2_ksize16 =
        DFLKEY (NODEDATA_page e) 0 (NODEDATA_page e).mp_leaf2_ksize16 ∧
      SubAt r2.bundle.subordinate.mx_cursor (NODEDATA_page e)
        (page_numkeys (NODEDATA_page e) - 1) (NODEDATA_page e).mp_leaf2_ksize16 ∧
      OnStack r2.bundle.primal ((leaf, k) :: R)) ∧
    (∀ (c : MDBX_cursor) (t : MDBX_txn),
      tst c.primal.mc_state8 C_INITIALIZED = true → tst c.primal.mc_kind8 S_HAVESUB = true →
      tst c.primal.mc_kind8 S_DUPFIXED = true →
      (tst c.subordinate.mx_cursor.mc_state8 C_INITIALIZED = false ∨
        tst c.subordinate.mx_cursor.mc_state8 C_EOF = true) →
      ∃ r, cursor_get page_touch 2 t c key2 (some d2) MDBX_GET_MULTIPLE = some r ∧
        r.rc = MDBX_NOTFOUND ∧ r.key = key2 ∧ r.data = some d2) := by
  constructor
  · obtain ⟨r1, leaf, k, R, lo, hi, hg, hrc, htx, _, _, hxe, hdc, _, _, _, hkd⟩ :=
      cursor_get_set_dup page_touch d hk hsub hwf hci hcur he hd hsz
    have hxs : sub_xsize b.primal.mc_aht.aa.flags16 (NODEDATA_page e) =
        (NODEDATA_page e).mp_leaf2_ksize16 := by
      unfold sub_xsize; rw [if_pos hfl]
    have hsa := hdc.sub
    rw [hxe, hxs] at hsa
    have hm := cursor_get_multiple_eq page_touch r1.txn r1.bundle key2 d2 hdc.init
      (by rw [hkd]; exact hkf)
    rw [fetch_multiple_at r1.txn key2 d2 hdc.havesub hsa hd.2.2 hdc.sub_init hdc.sub_eof] at hm
    refine ⟨r1, _, leaf, k, R, _, hg, hrc, hdc.stack, hxe, hm, rfl, rfl, rfl, rfl, ?_, ?_, ?_, ?_⟩
    · intro hle
      rw [List.length_take, Nat.min_eq_left hle]
    · unfold DFLKEY
      rw [List.take_take, Nat.zero_mul, List.drop_zero]
      have hpos := hd.2.2.nonempty
      have : min (NODEDATA_page e).mp_leaf2_ksize16
          (page_numkeys (NODEDATA_page e) * (NODEDATA_page e).mp_leaf2_ksize16) =
          (NODEDATA_page e).mp_leaf2_ksize16 :=
        Nat.min_eq_left (Nat.le_mul_of_pos_left _ hpos)
      rw [this]
    · exact hsa.at_index _
    · exact hdc.stack.state _
  · intro c t hi hks hkf2 hn
    rw [cursor_get_multiple_eq page_touch t c key2 d2 hi hkf2,
      fetch_multiple_none t key2 d2 hks hn]
    exact ⟨_, rfl, rfl, rfl, rfl⟩

theorem C15_get_multiple_witness :
    ∃ r1 r2, cursor_get sample_touch 2 (sample_txn fixed_pages)
        (sample_fixed_bundle (sample_aht (MDBX_DUPSORT ||| MDBX_DUPFIXED) 3) 0 [])
        (some k_k) (some []) MDBX_SET = some r1 ∧
      cursor_get sample_touch 2 r1.txn r1.bundle (some k_k) (some []) MDBX_GET_MULTIPLE =
        some r2 ∧
      r2.rc = MDBX_SUCCESS ∧ r2.data = some [97, 97, 98, 98, 99, 99] := by
  obtain ⟨r1, r2, _, _, _, v, h1, _, _, _, h2, h3, _, h4, h5, _⟩ :=
    (C15_get_multiple sample_touch (e := fixed_node)
      (b := sample_fixed_bundle (sample_aht (MDBX_DUPSORT ||| MDBX_DUPFIXED) 3) 0 [])
      [] [] (some k_k) (by decide) (by decide) (by decide) (sample_fixed_sub_ok _ _ _)
      (fixed_aa _) cmp_lex_int (sample_fixed_fresh _ _ _ _)
      (by show fixed_node ∈ [fixed_node]; simp) fixed_node_inline
      (fun h => absurd h (by decide))).1
  exact ⟨r1, r2, h1, h2, h3, h4.trans (congrArg some h5)⟩

theorem SubAt.page_key_eq {sub : cursor_t} {fp : page_t} {i xs : Nat} (h : SubAt sub fp i xs)
    (j : Nat) : page_key sub fp j = dup_at fp xs j := by
  unfold page_key dup_at
  rw [h.xsize]

theorem SubAt.top_zero {sub : cursor_t} {fp : page_t} {i xs : Nat} (h : SubAt sub fp i xs) :
    sub.mc_top = 0 := by
  have := h.stack.top
  simp only [List.length_cons, List.length_nil] at this
  omega

/-- The key at an index of an inline sub-page as cursor_set reads it. -/
theorem cursor_set_key_at_sub {sub : cursor_t} {fp : page_t} {i xs : Nat}
    (hs : SubAt sub fp i xs) (hp : SubPageOK fp) {j : Nat} (hj : j < page_numkeys fp)
    (leaf : node_ref) :
    ∃ lf, cursor_set_key_at sub fp j leaf = some (dup_at fp xs j, lf) ∧
      (IS_DFL fp = false → lf = .node (fp.mp_nodes.getD j default)) := by
  unfold cursor_set_key_at dup_at
  rw [tst_dfl]
  by_cases hd : IS_DFL fp = true
  · rw [if_pos hd, if_pos hd, hs.xsize]
    exact ⟨_, rfl, fun h => by rw [hd] at h; exact absurd h (by decide)⟩
  · have hd2 : IS_DFL fp = false := by simpa using hd
    rw [if_neg hd, if_neg hd]
    simp only [(sub_node_ptr hp hd2 hj).1, bind, Option.bind, node_ref.deref, pure]
    exact ⟨_, rfl, fun _ => rfl⟩

/-- The code of cursor_set from the label `set1` on the sub-cursor, which
stands at an index of an inline sub-page: the duplicate at the index is
returned as the key. -/
theorem cursor_set_set1_sub (sub_first : sub_call_t) (sub_set : Option Int → sub_call_t)
    (d : MDBX_iov) (txn : MDBX_txn) {b : MDBX_cursor} {fp : page_t} {p xs : Nat}
    (leaf : node_ref) (rc : Int) (ex : Option Int)
    (hs : SubAt b.subordinate.mx_cursor fp p xs) (hp : SubPageOK fp)
    (hpn : p < page_numkeys fp)
    (hleaf : IS_DFL fp = false → leaf = .node (fp.mp_nodes.getD p default)) (hrc : rc = 0) :
    cursor_set_set1 sub_first sub_set 1 (some d) none MDBX_SET_RANGE txn b fp leaf rc ex =
      some { rc := MDBX_SUCCESS, txn := txn,
             bundle := b.with_cur 1 { b.subordinate.mx_cursor with
               mc_state8 := clr8 (b.subordinate.mx_cursor.mc_state8 ||| C_INITIALIZED) C_EOF },
             key := some (dup_at fp xs p), data := none, exact := ex } := by
  subst hrc
  have hs2 := hs.with_state (clr8 (b.subordinate.mx_cursor.mc_state8 ||| C_INITIALIZED) C_EOF)
  unfold cursor_set_set1 dup_at
  by_cases hd : IS_DFL fp = true
  · simp only [cur_one, with_cur_one, hd, if_true, true_or, hs2.stack.ki_top]
    rw [show ({ b.subordinate.mx_cursor with
        mc_state8 := clr8 (b.subordinate.mx_cursor.mc_state8 ||| C_INITIALIZED) C_EOF } :
        cursor_t).mc_aht.aa.xsize32 = xs from hs.xsize]
  · have hd2 : IS_DFL fp = false := by simpa using hd
    simp only [cur_one, with_cur_one, hd2, Bool.false_eq_true, if_false, hleaf hd2,
      node_ref.deref, (sub_node_ptr hp hd2 hpn).2, true_or, if_true, MDBX_GET_KEY, NODEKEY]
    rfl

/-- The code of cursor_set from the label `set2` on the sub-cursor over an
inline sub-page whose last duplicate is not smaller than the data item. -/
theorem cursor_set_set2_sub (sub_first : sub_call_t) (sub_set : Option Int → sub_call_t)
    (d : MDBX_iov) (ex2p : Option Int) (txn : MDBX_txn) {b : MDBX_cursor} {fp : page_t}
    {i xs : Nat} (hs : SubAt b.subordinate.mx_cursor fp i xs) (hp : SubPageOK fp)
    (hc : CmpOK (cursor_key_comparer b.subordinate.mx_cursor))
    (hci : CmpInt (cursor_key_comparer b.subordinate.mx_cursor))
    (hsort : ∀ i j, i < j → j < page_numkeys fp →
      cursor_key_comparer b.subordinate.mx_cursor (dup_at fp xs i) (dup_at fp xs j) < 0)
    (hlast : cursor_key_comparer b.subordinate.mx_cursor d
      (dup_at fp xs (page_numkeys fp - 1)) ≤ 0) :
    ∃ r, cursor_set_set2 sub_first sub_set 1 d (some d) none MDBX_SET_RANGE ex2p txn b fp =
        some r ∧
      SubSetOutcome (cursor_key_comparer b.subordinate.mx_cursor) fp xs d ex2p.isSome txn b
        r := by
  have hm := hp.nonempty
  obtain ⟨s, p, hns, hmc, hple, hlt, hle, hnull, hnode, hex, hex01⟩ :=
    node_search_leaf_spec d hc hci hs.stack.pg_top (by rw [hs.stack.ok.2]; exact hs.stack.top_lt)
      hp.is_leaf hp.lower (fun h => le_of_eq (hp.nodes h).symm) (fun _ => hm)
      (fun i j hij hj => by rw [hs.page_key_eq, hs.page_key_eq]; exact hsort i j hij hj)
  simp only [hs.page_key_eq] at hlt hle hex
  have hpn : p < page_numkeys fp := by
    rcases Nat.lt_or_eq_of_le hple with h | h
    · exact h
    · exfalso
      have := hlt (page_numkeys fp - 1) (by rw [h]; exact Nat.sub_lt hm Nat.one_pos)
      omega
  have hmc2 : s.mc = frame_ki b.subordinate.mx_cursor b.subordinate.mx_cursor.mc_top p := hmc
  have hmap : (Option.map (fun _ => s.exact) ex2p).isSome = ex2p.isSome := by
    cases ex2p <;> rfl
  unfold cursor_set_set2
  simp only [cur_one, with_cur_one, hns]
  by_cases hA : (Option.map (fun _ => s.exact) ex2p).isSome = true ∧ s.exact = 0
  · rw [if_pos hA]
    refine ⟨_, rfl, rfl, rfl, Or.inr ⟨rfl, rfl, Or.inr ⟨by rw [← hmap]; exact hA.1, ?_⟩⟩⟩
    have hne : cursor_key_comparer b.subordinate.mx_cursor d (dup_at fp xs p) ≠ 0 := by
      intro h0
      have := hex.2 ⟨hm, hpn, h0⟩
      have := hA.2
      omega
    intro j hj h0
    rcases Nat.lt_trichotomy j p with h | h | h
    · have := hlt j h; omega
    · subst h; exact hne h0
    · have h1 := hsort p j h hj
      have h2 := hle hpn
      have h3 := hc.lt_of_le_of_lt h2 h1
      omega
  · rw [if_neg hA]
    have hnn : ¬ s.node = .null := fun h => absurd (hnull.1 h) (Nat.ne_of_lt hpn)
    rw [if_neg hnn, hmc2]
    have hs2 := hs.at_index p
    have h1 := cursor_set_set1_sub sub_first sub_set d txn
      (b := b.with_cur 1 (frame_ki b.subordinate.mx_cursor b.subordinate.mx_cursor.mc_top p))
      s.node 0 (Option.map (fun _ => s.exact) ex2p) hs2 hp hpn (fun hd => hnode hd hpn) rfl
    have hfl := state_init_flags
      (frame_ki b.subordinate.mx_cursor b.subordinate.mx_cursor.mc_top p).mc_state8
    refine ⟨_, h1, rfl, rfl, Or.inl ⟨p, hpn, hlt, hle hpn, ?_, rfl, rfl, hs2.with_state _,
      hfl.1, hfl.2.1⟩⟩
    intro he
    have h2 : s.exact = 1 := by
      rcases hex01 with h | h
      · exact h
      · exact absurd ⟨by rw [hmap]; exact he, h⟩ hA
    exact (hex.1 h2).2.2

/-- The call of cursor_set with `MDBX_SET_RANGE` on the sub-cursor that
subordinate_setup has put on an inline sub-page with sorted duplicates. -/
theorem cursor_set_sub (page_touch : page_touch_t) (d : MDBX_iov) (ex2p : Option Int)
    (txn : MDBX_txn) {b : MDBX_cursor} {fp : page_t} {xs : Nat}
    (hs : SubAt b.subordinate.mx_cursor fp 0 xs) (hp : SubPageOK fp)
    (hinit : tst b.subordinate.mx_cursor.mc_state8 C_INITIALIZED = true)
    (hc : CmpOK (cursor_key_comparer b.subordinate.mx_cursor))
    (hci : CmpInt (cursor_key_comparer b.subordinate.mx_cursor))
    (hsort : ∀ i j, i < j → j < page_numkeys fp →
      cursor_key_comparer b.subordinate.mx_cursor (dup_at fp xs i) (dup_at fp xs j) < 0)
    (hsz : tst b.subordinate.mx_cursor.mc_aht.aa.flags16 MDBX_INTEGERKEY = true →
      d.length = 4 ∨ d.length = 8) :
    ∃ r, cursor_set page_touch 1 txn b (some d) none MDBX_SET_RANGE ex2p = some r ∧
      SubSetOutcome (cursor_key_comparer b.subordinate.mx_cursor) fp xs d ex2p.isSome txn b
        r := by
  have hm := hp.nonempty
  have hnlt := page_numkeys_lt hp.lower
  have hsz2 : ¬ (tst b.subordinate.mx_cursor.mc_aht.aa.flags16 MDBX_INTEGERKEY = true ∧
      d.length ≠ 4 ∧ d.length ≠ 8) := by
    intro ⟨h1, h2, h3⟩
    rcases hsz h1 with h4 | h4
    · exact h2 h4
    · exact h3 h4
  have htop := hs.top_zero
  have hpg := hs.stack.pg_top
  have hki := hs.stack.ki_top
  have hset : ∀ i : Nat, b.subordinate.mx_cursor.set_ki b.subordinate.mx_cursor.mc_top i =
      some (frame_ki b.subordinate.mx_cursor b.subordinate.mx_cursor.mc_top i) :=
    fun i => set_ki_eq hs.stack.ok hs.stack.top_lt i
  have hscan : cursor_set_scan b.subordinate.mx_cursor b.subordinate.mx_cursor.mc_top 0 =
      some b.subordinate.mx_cursor.mc_top := by
    rw [htop]; rfl
  obtain ⟨lf0, hk0, hlf0⟩ := cursor_set_key_at_sub hs hp hm .null
  have hlastlt : page_numkeys fp - 1 < page_numkeys fp := Nat.sub_lt hm Nat.one_pos
  obtain ⟨lfL, hkL, hlfL⟩ := cursor_set_key_at_sub hs hp hlastlt lf0
  obtain ⟨lfC, hkC, hlfC⟩ := cursor_set_key_at_sub hs hp hm lfL
  have hexm : (Option.map (fun _ => (1 : Int)) ex2p).isSome = ex2p.isSome := by
    cases ex2p <;> rfl
  have hfound : ∀ (p : Nat) (lf : node_ref) (rc : Int) (ex : Option Int),
      p < page_numkeys fp → (IS_DFL fp = false → lf = .node (fp.mp_nodes.getD p default)) →
      rc = 0 →
      (∀ j, j < p → cursor_key_comparer b.subordinate.mx_cursor d (dup_at fp xs j) > 0) →
      cursor_key_comparer b.subordinate.mx_cursor d (dup_at fp xs p) ≤ 0 →
      (ex2p.isSome = true →
        cursor_key_comparer b.subordinate.mx_cursor d (dup_at fp xs p) = 0) →
      ∃ r, cursor_set_set1 (fun txn b data => cursor_first page_touch 0 txn b data none)
          (fun ex2p txn b data => cursor_set page_touch 0 txn b data none MDBX_SET_RANGE ex2p)
          1 (some d) none MDBX_SET_RANGE txn
          (b.with_cur 1 (frame_ki b.subordinate.mx_cursor b.subordinate.mx_cursor.mc_top p))
          fp lf rc ex = some r ∧
        SubSetOutcome (cursor_key_comparer b.subordinate.mx_cursor) fp xs d ex2p.isSome txn b
          r := by
    intro p lf rc ex hpn hlf hrc hlt hle hex
    have hs2 := hs.at_index p
    have h1 := cursor_set_set1_sub
      (fun txn b data => cursor_first page_touch 0 txn b data none)
      (fun ex2p txn b data => cursor_set page_touch 0 txn b data none MDBX_SET_RANGE ex2p)
      d txn
      (b := b.with_cur 1 (frame_ki b.subordinate.mx_cursor b.subordinate.mx_cursor.mc_top p))
      lf rc ex hs2 hp hpn hlf hrc
    have hfl := state_init_flags
      (frame_ki b.subordinate.mx_cursor b.subordinate.mx_cursor.mc_top p).mc_state8
    exact ⟨_, h1, rfl, rfl, Or.inl ⟨p, hpn, hlt, hle, hex, rfl, rfl, hs2.with_state _,
      hfl.1, hfl.2.1⟩⟩
  rw [show cursor_set page_touch 1 txn b (some d) none MDBX_SET_RANGE ex2p =
    cursor_set_body page_touch (fun txn b data => cursor_first page_touch 0 txn b data none)
      (fun ex2p txn b data => cursor_set page_touch 0 txn b data none MDBX_SET_RANGE ex2p)
      1 txn b (some d) none MDBX_SET_RANGE ex2p from rfl]
  unfold cursor_set_body
  simp only [cur_one, hsz2, if_false, hs.nosub, Bool.false_eq_true, hinit, if_true]
  unfold cursor_set_inited
  simp only [cur_one, hpg, hki, hset, Option.map_some', Option.some_bind,
    show ¬ page_numkeys fp = 0 by omega, if_false, hk0, hkL, hkC, cursor_compare_keys, hci.narrow,
    hscan, to_indx_pred (page_numkeys fp) hm (by omega), hm, if_true, true_and,
    show ¬ page_numkeys fp > 65535 by omega, eq_true htop]
  by_cases h0 : cursor_key_comparer b.subordinate.mx_cursor d (dup_at fp xs 0) = 0
  · rw [if_pos h0]
    exact hfound 0 lf0 _ _ hm hlf0 h0 (fun j hj => absurd hj (by omega)) (le_of_eq h0)
      (fun _ => h0)
  · rw [if_neg h0]
    by_cases h1 : cursor_key_comparer b.subordinate.mx_cursor d (dup_at fp xs 0) > 0
    · rw [if_pos h1]
      by_cases hn1 : page_numkeys fp > 1
      · rw [if_pos hn1]
        by_cases hL : cursor_key_comparer b.subordinate.mx_cursor d
            (dup_at fp xs (page_numkeys fp - 1)) = 0
        · rw [if_pos hL]
          refine hfound (page_numkeys fp - 1) lfL _ _ hlastlt hlfL hL ?_ (le_of_eq hL)
            (fun _ => hL)
          intro j hj
          have h2 := hsort j (page_numkeys fp - 1) hj hlastlt
          have h3 : cursor_key_comparer b.subordinate.mx_cursor
              (dup_at fp xs (page_numkeys fp - 1)) d ≤ 0 := le_of_eq ((hc.eq_symm _ _).1 hL)
          exact hc.gt_of_lt (hc.lt_of_lt_of_le h2 h3)
        · rw [if_neg hL]
          by_cases hL2 : cursor_key_comparer b.subordinate.mx_cursor d
              (dup_at fp xs (page_numkeys fp - 1)) < 0
          · rw [if_pos hL2, if_neg h0]
            exact cursor_set_set2_sub _ _ d ex2p txn
              (b := b.with_cur 1 { b.subordinate.mx_cursor with
                mc_state8 := clr8 b.subordinate.mx_cursor.mc_state8 C_EOF })
              (hs.with_state _) hp hc hci hsort (le_of_lt hL2)
          · rw [if_neg hL2]
            refine ⟨_, rfl, rfl, rfl, Or.inr ⟨rfl, rfl, Or.inl ?_⟩⟩
            have hL3 : cursor_key_comparer b.subordinate.mx_cursor
                (dup_at fp xs (page_numkeys fp - 1)) d < 0 := by
              have := hc.symm (dup_at fp xs (page_numkeys fp - 1)) d
              apply this.2
              omega
            intro j hj
            by_cases hj2 : j = page_numkeys fp - 1
            · subst hj2; omega
            · have h2 := hsort j (page_numkeys fp - 1)
                (Nat.lt_of_le_of_ne (Nat.le_sub_one_of_lt hj) hj2) hlastlt
              exact hc.gt_of_lt (hc.lt_of_lt_of_le h2 (le_of_lt hL3))
      · rw [if_neg hn1]
        refine ⟨_, rfl, rfl, rfl, Or.inr ⟨rfl, rfl, Or.inl ?_⟩⟩
        intro j hj
        have hj0 : j = 0 := Nat.lt_one_iff.1 (Nat.lt_of_lt_of_le hj (Nat.le_of_not_gt hn1))
        subst hj0
        exact h1
    · rw [if_neg h1]
      have hlt0 : cursor_key_comparer b.subordinate.mx_cursor d (dup_at fp xs 0) < 0 := by
        omega
      by_cases hx : ex2p.isNone = true
      · rw [if_pos hx]
        refine hfound 0 lf0 0 ex2p hm hlf0 rfl (fun j hj => absurd hj (by omega))
          (le_of_lt hlt0) (fun he => ?_)
        rw [Option.isNone_iff_eq_none] at hx
        rw [hx] at he
        exact absurd he (by decide)
      · rw [if_neg hx]
        refine ⟨_, rfl, rfl, rfl, Or.inr ⟨rfl, rfl, Or.inr ⟨?_, ?_⟩⟩⟩
        · cases ex2p with
          | none => exact absurd rfl hx
          | some _ => rfl
        · intro j hj h2
          by_cases hj0 : j = 0
          · subst hj0; omega
          · have h3 := hsort 0 j (Nat.pos_of_ne_zero hj0) hj
            have h4 := hc.lt_of_lt_of_le hlt0 (le_of_lt h3)
            omega

theorem mem_node_dups {flags16 : Nat} {n : node_t} {v : MDBX_iov} :
    v ∈ node_dups flags16 n ↔
      ∃ j, j < page_numkeys (NODEDATA_page n) ∧
        v = dup_at (NODEDATA_page n) (sub_xsize flags16 (NODEDATA_page n)) j := by
  unfold node_dups
  simp only [List.mem_map, List.mem_range]
  constructor
  · rintro ⟨j, hj, rfl⟩; exact ⟨j, hj, rfl⟩
  · rintro ⟨j, hj, rfl⟩; exact ⟨j, hj, rfl⟩

/-- The code of cursor_set from the label `set1` with `MDBX_GET_BOTH` or
`MDBX_GET_BOTH_RANGE`, at an entry of a dup-sorted AA: the data item is
searched among the values of the entry. -/
theorem cursor_set_set1_both (page_touch : page_touch_t) (keyp : Option MDBX_iov)
    (d : MDBX_iov) {op : MDBX_cursor_op}
    (hop : op = MDBX_GET_BOTH ∨ op = MDBX_GET_BOTH_RANGE) {txn : MDBX_txn}
    (b : MDBX_cursor) {mp : page_t} {n : node_t} (rc : Int) (exactp : Option Int)
    (hk : tst b.primal.mc_kind8 S_HAVESUB = true) (hs : SubOK b) (hl : IS_DFL mp = false)
    (hcmp : b.subordinate.mx_cursor.mc_aht.ahe.ax_kcmp = b.primal.mc_aht.ahe.ax_dcmp)
    (hdc : CmpOK b.primal.mc_aht.ahe.ax_dcmp)
    (hdi : CmpInt b.primal.mc_aht.ahe.ax_dcmp)
    (hn : SortedDupNode txn b.primal.mc_aht.ahe.ax_dcmp b.primal.mc_aht.aa.flags16 n)
    (hszd : tst b.primal.mc_aht.aa.flags16 MDBX_DUPFIXED = true →
      tst b.primal.mc_aht.aa.flags16 MDBX_INTEGERDUP = true → d.length = 4 ∨ d.length = 8) :
    ∃ r, cursor_set_set1 (fun txn b data => cursor_first page_touch 1 txn b data none)
        (fun ex2p txn b data => cursor_set page_touch 1 txn b data none MDBX_SET_RANGE ex2p) 2
        keyp (some d) op txn b mp (.node n) rc exactp = some r ∧
      r.txn = txn ∧ r.key = keyp ∧
      BothOutcome b.primal.mc_aht.ahe.ax_dcmp (node_values txn b.primal.mc_aht.aa.flags16 n) d
        (op = MDBX_GET_BOTH) r := by
  have hop1 : ¬ (op = MDBX_SET ∨ op = MDBX_SET_KEY ∨ op = MDBX_SET_RANGE) := by
    rcases hop with h | h <;> subst h <;> decide
  have hop2 : ¬ (op = MDBX_SET_RANGE ∨ op = MDBX_SET_KEY) := by
    rcases hop with h | h <;> subst h <;> decide
  rcases hn with hp | ⟨hd, hsort⟩
  · -- a single value
    unfold cursor_set_set1
    simp only [cur_primal, with_cur_primal, hl, Bool.false_eq_true, if_false, node_ref.deref,
      hp.1, hop, if_true, node_read_plain hp, ne_eq, not_true_eq_false, cursor_compare_data,
      cursor_data_comparer, hdi.narrow, hop2]
    have hv : node_values txn b.primal.mc_aht.aa.flags16 n = [node_data txn n] := by
      unfold node_values; rw [hp.1]; rfl
    rw [hv]
    by_cases hc : ¬ b.primal.mc_aht.ahe.ax_dcmp d (node_data txn n) = 0 ∧
        (op = MDBX_GET_BOTH ∨ b.primal.mc_aht.ahe.ax_dcmp d (node_data txn n) > 0)
    · rw [if_pos hc]
      refine ⟨_, rfl, rfl, rfl, Or.inr ⟨rfl, rfl, ?_⟩⟩
      rcases hc.2 with h | h
      · exact Or.inr ⟨h, fun w hw => by rw [List.mem_singleton.1 hw]; exact hc.1⟩
      · exact Or.inl (fun w hw => by rw [List.mem_singleton.1 hw]; exact h)
    · rw [if_neg hc]
      refine ⟨_, rfl, rfl, rfl, Or.inl ⟨rfl, node_data txn n, List.mem_singleton.2 rfl, rfl,
        ?_, ?_, ?_⟩⟩
      · by_contra h
        apply hc
        exact ⟨by omega, Or.inr (by omega)⟩
      · intro he
        by_contra h
        exact hc ⟨h, Or.inl he⟩
      · intro w hw _
        rw [List.mem_singleton.1 hw]
        exact le_of_eq (hdc.refl _)
  · -- duplicates in an inline sub-page
    obtain ⟨sub, hsetup, hat, hst, hahe, _, _, hflags⟩ := subordinate_setup_inline
      (b := { b with primal := { b.primal with
        mc_state8 := clr8 (b.primal.mc_state8 ||| C_INITIALIZED) C_EOF } }) hk hs hd
    have hkc : cursor_key_comparer sub = b.primal.mc_aht.ahe.ax_dcmp := by
      unfold cursor_key_comparer
      rw [hahe]
      exact hcmp
    have hszs : tst sub.mc_aht.aa.flags16 MDBX_INTEGERKEY = true →
        d.length = 4 ∨ d.length = 8 := by
      intro h
      rw [hflags] at h
      by_cases hf : tst b.primal.mc_aht.aa.flags16 MDBX_DUPFIXED = true
      · by_cases hi : tst b.primal.mc_aht.aa.flags16 MDBX_INTEGERDUP = true
        · exact hszd hf hi
        · rw [if_pos hf, if_neg hi] at h
          exact absurd h (by decide)
      · rw [if_neg hf] at h
        exact absurd h (by decide)
    have hv : node_values txn b.primal.mc_aht.aa.flags16 n =
        node_dups b.primal.mc_aht.aa.flags16 n := by
      unfold node_values; rw [hd.1]; rfl
    obtain ⟨r, hr, htx, hpr, hout⟩ := cursor_set_sub page_touch d
      (if op = MDBX_GET_BOTH then some 0 else none) txn
      (b := { primal := { b.primal with
                mc_state8 := clr8 (b.primal.mc_state8 ||| C_INITIALIZED) C_EOF },
              subordinate := { mx_cursor := sub } })
      hat hd.2.2 (by show tst sub.mc_state8 C_INITIALIZED = true; rw [hst]; decide)
      (by show CmpOK (cursor_key_comparer sub); rw [hkc]; exact hdc)
      (by show CmpInt (cursor_key_comparer sub); rw [hkc]; exact hdi)
      (by
        show ∀ i j, i < j → j < _ → cursor_key_comparer sub _ _ < 0
        rw [hkc]; exact hsort)
      hszs
    have hex : (if op = MDBX_GET_BOTH then some (0 : Int) else none).isSome = true ↔
        op = MDBX_GET_BOTH := by
      by_cases h : op = MDBX_GET_BOTH
      · simp [h]
      · simp [h]
    unfold cursor_set_set1
    simp only [cur_primal, with_cur_primal, hl, Bool.false_eq_true, if_false, node_ref.deref,
      hd.1, if_true, hsetup, hop1, hr, Option.map_some', hop2]
    rw [hv]
    have hkc2 : ∀ x y, cursor_key_comparer
        ({ primal := { b.primal with
             mc_state8 := clr8 (b.primal.mc_state8 ||| C_INITIALIZED) C_EOF },
           subordinate := { mx_cursor := sub } } : MDBX_cursor).subordinate.mx_cursor x y =
        b.primal.mc_aht.ahe.ax_dcmp x y := fun x y => by
      show cursor_key_comparer sub x y = _
      rw [hkc]
    rcases hout with ⟨p, hpn, hlt, hle, hexact, hrc, hkey, _, _, _⟩ | ⟨hrc, hkey, hnf⟩
    · simp only [hkc2] at hlt hle hexact
      rw [if_neg (by rw [hrc]; decide)]
      refine ⟨_, rfl, htx, rfl, Or.inl ⟨hrc, _, mem_node_dups.2 ⟨p, hpn, rfl⟩, hkey, hle,
        fun he => hexact (hex.2 he), ?_⟩⟩
      intro w hw hdw
      obtain ⟨j, hj, rfl⟩ := mem_node_dups.1 hw
      rcases Nat.lt_trichotomy j p with h | h | h
      · have := hlt j h; omega
      · subst h; exact le_of_eq (hdc.refl _)
      · exact le_of_lt (hsort p j h hj)
    · simp only [hkc2] at hnf
      rw [if_pos (by rw [hrc]; decide)]
      refine ⟨_, rfl, htx, rfl, Or.inr ⟨hrc, hkey, ?_⟩⟩
      rcases hnf with h | ⟨h1, h2⟩
      · left
        intro w hw
        obtain ⟨j, hj, rfl⟩ := mem_node_dups.1 hw
        exact h j hj
      · right
        refine ⟨hex.1 h1, ?_⟩
        intro w hw
        obtain ⟨j, hj, rfl⟩ := mem_node_dups.1 hw
        exact h2 j hj

theorem sub_cleared_aht (b : MDBX_cursor) :
    (sub_cleared b).subordinate.mx_cursor.mc_aht = b.subordinate.mx_cursor.mc_aht := by
  unfold sub_cleared
  by_cases hk : tst b.primal.mc_kind8 S_HAVESUB = true
  · rw [if_pos hk]
  · rw [if_neg hk]

theorem cursor_get_both_eq (page_touch : page_touch_t) (txn : MDBX_txn) (b : MDBX_cursor)
    (key d : MDBX_iov) {op : MDBX_cursor_op}
    (hop : op = MDBX_GET_BOTH ∨ op = MDBX_GET_BOTH_RANGE)
    (hk : tst b.primal.mc_kind8 S_HAVESUB = true) :
    cursor_get page_touch 2 txn b (some key) (some d) op =
      (cursor_set page_touch 2 txn b (some key) (some d) op (some 0)).map
        (cursor_get_break 2) := by
  obtain ⟨s, hs⟩ := cursor_subordinate_some b
  rcases hop with h | h
  · subst h
    rw [show cursor_get page_touch 2 txn b (some key) (some d) MDBX_GET_BOTH =
      (match cursor_subordinate b 2 with
       | none => none
       | some _ =>
         if (some d).isNone then
           (some { rc := MDBX_EINVAL, txn := txn, bundle := b, key := some key,
                   data := some d } : Option gres)
         else if ¬ tst (b.cur 2).mc_kind8 S_HAVESUB then
           some { rc := MDBX_INCOMPATIBLE, txn := txn, bundle := b, key := some key,
                  data := some d }
         else if (some key).isNone then
           some { rc := MDBX_EINVAL, txn := txn, bundle := b, key := some key, data := some d }
         else (cursor_set page_touch 2 txn b (some key) (some d) MDBX_GET_BOTH (some 0)).map
           (cursor_get_break 2))
      from rfl, hs]
    simp only [cur_primal, hk, Option.isNone_some, Bool.false_eq_true, not_true_eq_false,
      if_false]
  · subst h
    rw [show cursor_get page_touch 2 txn b (some key) (some d) MDBX_GET_BOTH_RANGE =
      (match cursor_subordinate b 2 with
       | none => none
       | some _ =>
         if (some d).isNone then
           (some { rc := MDBX_EINVAL, txn := txn, bundle := b, key := some key,
                   data := some d } : Option gres)
         else if ¬ tst (b.cur 2).mc_kind8 S_HAVESUB then
           some { rc := MDBX_INCOMPATIBLE, txn := txn, bundle := b, key := some key,
                  data := some d }
         else if (some key).isNone then
           some { rc := MDBX_EINVAL, txn := txn, bundle := b, key := some key, data := some d }
         else
           (cursor_set page_touch 2 txn b (some key) (some d) MDBX_GET_BOTH_RANGE (some 0)).map
             (cursor_get_break 2))
      from rfl, hs]
    simp only [cur_primal, hk, Option.isNone_some, Bool.false_eq_true, not_true_eq_false,
      if_false]

/-- `MDBX_GET_BOTH` and `MDBX_GET_BOTH_RANGE` through cursor_get over a
well-formed tree of a dup-sorted AA: when the tree holds an entry with an
equal key, the data item is searched among the values of that entry;
otherwise the result is `MDBX_NOTFOUND`. -/
theorem cursor_get_both (page_touch : page_touch_t) {txn : MDBX_txn} {root : page_t}
    {h : Nat} {b : MDBX_cursor} (key d : MDBX_iov) {op : MDBX_cursor_op}
    (hop : op = MDBX_GET_BOTH ∨ op = MDBX_GET_BOTH_RANGE)
    (hk : tst b.primal.mc_kind8 S_HAVESUB = true) (hsub : SubOK b)
    (hcmp : b.subordinate.mx_cursor.mc_aht.ahe.ax_kcmp = b.primal.mc_aht.ahe.ax_dcmp)
    (hdc : CmpOK b.primal.mc_aht.ahe.ax_dcmp)
    (hdi : CmpInt b.primal.mc_aht.ahe.ax_dcmp)
    (hwf : WFAA txn b.primal.mc_aht
      (SortedDupNode txn b.primal.mc_aht.ahe.ax_dcmp b.primal.mc_aht.aa.flags16) h root)
    (hci : CmpInt b.primal.mc_aht.ahe.ax_kcmp)
    (hcur : CursorOK txn b.primal.mc_aht.ahe.ax_kcmp
      (SortedDupNode txn b.primal.mc_aht.ahe.ax_dcmp b.primal.mc_aht.aa.flags16) root
      b.primal)
    (hsz : tst b.primal.mc_aht.aa.flags16 MDBX_INTEGERKEY = true →
      key.length = 4 ∨ key.length = 8)
    (hszd : tst b.primal.mc_aht.aa.flags16 MDBX_DUPFIXED = true →
      tst b.primal.mc_aht.aa.flags16 MDBX_INTEGERDUP = true → d.length = 4 ∨ d.length = 8) :
    ∃ r, cursor_get page_touch 2 txn b (some key) (some d) op = some r ∧
      ((∃ e ∈ tree_nodes txn h root, b.primal.mc_aht.ahe.ax_kcmp key (NODEKEY e) = 0 ∧
          BothOutcome b.primal.mc_aht.ahe.ax_dcmp
            (node_values txn b.primal.mc_aht.aa.flags16 e) d (op = MDBX_GET_BOTH) r) ∨
       (r.rc = MDBX_NOTFOUND ∧
          ∀ x ∈ tree_nodes txn h root, b.primal.mc_aht.ahe.ax_kcmp key (NODEKEY x) ≠ 0)) := by
  have hc : CmpOK b.primal.mc_aht.ahe.ax_kcmp := hwf.cmp_ok
  have hred := cursor_set_reduce page_touch key (some d) op (some 0)
    (fun h => absurd h (by simp)) hwf hci hcur hsz
  rw [cursor_get_both_eq page_touch txn b key d hop hk]
  rcases hred with ⟨leaf, k, R, lo, hi, b1, rc, ex, hon, hch, hlen, hkn, hleast, hex, hsb, haht,
    hkd, _, _, hres⟩ | ⟨r, hr, hrc, _, hnf⟩
  · have hp1 := sub_cleared_primal b
    have ha1 : b1.primal.mc_aht = b.primal.mc_aht := by rw [haht, hp1]
    have hk1 : tst b1.primal.mc_kind8 S_HAVESUB = true := by rw [hkd, hp1]; exact hk
    have hs1 : SubOK b1 := by
      have := sub_cleared_ok hsub
      unfold SubOK at this ⊢
      rw [hsb]; exact this
    have hw := Chain.wf _ _ _ _ _ hch
    have hl : LeafOK (cursor_key_comparer b.primal) leaf := hw.leaf
    have hcmp1 : b1.subordinate.mx_cursor.mc_aht.ahe.ax_kcmp = b1.primal.mc_aht.ahe.ax_dcmp := by
      rw [hsb, sub_cleared_aht, ha1]; exact hcmp
    have hn1 := hw.2.1 k hkn
    obtain ⟨r0, hset, _, _, hout⟩ := cursor_set_set1_both page_touch (some key) d hop b1
      rc ex hk1 hs1 hl.not_dfl hcmp1
      (by rw [ha1]; exact hdc) (by rw [ha1]; exact hdi) (by rw [ha1]; exact hn1) (by rw [ha1]; exact hszd)
    rw [ha1] at hout
    rw [hres, hset]
    exact ⟨_, rfl, Or.inl ⟨_, hleast.1, hex rfl, hout⟩⟩
  · rw [hr]
    refine ⟨_, rfl, Or.inr ⟨hrc, ?_⟩⟩
    rcases hnf with hall | ⟨_, hnone⟩
    · intro x hx h0
      have h1 := hall x hx
      have h2 := (hc.eq_symm _ _).1 h0
      unfold cursor_key_comparer at h1
      omega
    · exact hnone

theorem cmp_eq_of_eq_eq {cmp : MDBX_comparer} (hc : CmpOK cmp) {a b c : MDBX_iov}
    (h1 : cmp a b = 0) (h2 : cmp a c = 0) : cmp b c = 0 := by
  have h3 : cmp b a ≤ 0 := le_of_eq ((hc.eq_symm _ _).1 h1)
  have h4 : cmp b c ≤ 0 := hc.trans _ _ _ h3 (le_of_eq h2)
  have h5 : cmp c a ≤ 0 := le_of_eq ((hc.eq_symm _ _).1 h2)
  have h6 : cmp c b ≤ 0 := hc.trans _ _ _ h5 (le_of_eq h1)
  have h7 := hc.symm b c
  by_contra hne
  have h8 : cmp b c < 0 := by omega
  have := h7.1 h8
  omega

/-- C11 (amended): over a well-formed tree of a dup-sorted AA whose duplicates
are sorted, with a key of 4 or 8 bytes when the AA has integer keys and a data
item of 4 or 8 bytes when the AA has fixed-size integer duplicates, cursor_get
with `MDBX_GET_BOTH` returns `MDBX_SUCCESS` exactly when the tree holds an
entry with an equal key that has a value (its single value, or a duplicate of
its inline sub-page) equal to the data item under the data comparer, and
`MDBX_NOTFOUND` otherwise; on `MDBX_SUCCESS` the returned data is a value equal
to the given one. The comparer is taken to return values that fit an `int` (`CmpInt`): the
code stores its `ptrdiff_t` result in an `int`. -/
theorem C11_get_both (page_touch : page_touch_t) {txn : MDBX_txn} {root : page_t}
    {h : Nat} {b : MDBX_cursor} (key d : MDBX_iov)
    (hk : tst b.primal.mc_kind8 S_HAVESUB = true) (hsub : SubOK b)
    (hcmp : b.subordinate.mx_cursor.mc_aht.ahe.ax_kcmp = b.primal.mc_aht.ahe.ax_dcmp)
    (hdc : CmpOK b.primal.mc_aht.ahe.ax_dcmp)
    (hdi : CmpInt b.primal.mc_aht.ahe.ax_dcmp)
    (hwf : WFAA txn b.primal.mc_aht
      (SortedDupNode txn b.primal.mc_aht.ahe.ax_dcmp b.primal.mc_aht.aa.flags16) h root)
    (hci : CmpInt b.primal.mc_aht.ahe.ax_kcmp)
    (hcur : CursorOK txn b.primal.mc_aht.ahe.ax_kcmp
      (SortedDupNode txn b.primal.mc_aht.ahe.ax_dcmp b.primal.mc_aht.aa.flags16) root
      b.primal)
    (hsz : tst b.primal.mc_aht.aa.flags16 MDBX_INTEGERKEY = true →
      key.length = 4 ∨ key.length = 8)
    (hszd : tst b.primal.mc_aht.aa.flags16 MDBX_DUPFIXED = true →
      tst b.primal.mc_aht.aa.flags16 MDBX_INTEGERDUP = true → d.length = 4 ∨ d.length = 8) :
    ∃ r, cursor_get page_touch 2 txn b (some key) (some d) MDBX_GET_BOTH = some r ∧
      (r.rc = MDBX_SUCCESS ↔
        ∃ e ∈ tree_nodes txn h root, b.primal.mc_aht.ahe.ax_kcmp key (NODEKEY e) = 0 ∧
          ∃ v ∈ node_values txn b.primal.mc_aht.aa.flags16 e,
            b.primal.mc_aht.ahe.ax_dcmp d v = 0) ∧
      (r.rc ≠ MDBX_SUCCESS → r.rc = MDBX_NOTFOUND) ∧
      (r.rc = MDBX_SUCCESS → ∃ v, r.data = some v ∧ b.primal.mc_aht.ahe.ax_dcmp d v = 0) := by
  have hc : CmpOK b.primal.mc_aht.ahe.ax_kcmp := hwf.cmp_ok
  have hnf : ¬ MDBX_NOTFOUND = MDBX_SUCCESS := by decide
  obtain ⟨r, hg, hr⟩ := cursor_get_both page_touch key d (Or.inl rfl) hk hsub hcmp hdc hdi hwf hci hcur
    hsz hszd
  refine ⟨r, hg, ?_⟩
  rcases hr with ⟨e, he, hke, hout⟩ | ⟨hrc, hnone⟩
  · rcases hout with ⟨hrc, v, hv, hdata, _, hex, _⟩ | ⟨hrc, _, hall⟩
    · exact ⟨⟨fun _ => ⟨e, he, hke, v, hv, hex rfl⟩, fun _ => hrc⟩, fun hn => absurd hrc hn,
        fun _ => ⟨v, hdata, hex rfl⟩⟩
    · refine ⟨⟨fun hs => ?_, ?_⟩, fun _ => hrc, fun hs => ?_⟩
      · rw [hrc] at hs; exact absurd hs hnf
      · rintro ⟨e2, he2, hke2, v, hv, hdv⟩
        have hee : e2 = e := tree_key_unique hc hwf.tree he2 he (cmp_eq_of_eq_eq hc hke2 hke)
        subst hee
        rcases hall with h1 | ⟨_, h1⟩
        · have := h1 v hv; omega
        · exact absurd hdv (h1 v hv)
      · rw [hrc] at hs; exact absurd hs hnf
  · refine ⟨⟨fun hs => ?_, ?_⟩, fun _ => hrc, fun hs => ?_⟩
    · rw [hrc] at hs; exact absurd hs hnf
    · rintro ⟨e2, he2, hke2, _⟩
      exact absurd hke2 (hnone e2 he2)
    · rw [hrc] at hs; exact absurd hs hnf

/-- C12 (amended): over a well-formed tree of a dup-sorted AA whose duplicates
are sorted, with a key of 4 or 8 bytes when the AA has integer keys and a data
item `d` of 4 or 8 bytes when the AA has fixed-size integer duplicates,
cursor_get with `MDBX_GET_BOTH_RANGE` returns `MDBX_SUCCESS` or
`MDBX_NOTFOUND`; it returns `MDBX_NOTFOUND` exactly when the tree holds no
entry with an equal key or every value of the entry with an equal key is
smaller than `d`; on `MDBX_SUCCESS` the returned data is the smallest value of
that entry that is not smaller than `d`. The comparer is taken to return values that fit an `int` (`CmpInt`): the
code stores its `ptrdiff_t` result in an `int`. -/
theorem C12_get_both_range (page_touch : page_touch_t) {txn : MDBX_txn} {root : page_t}
    {h : Nat} {b : MDBX_cursor} (key d : MDBX_iov)
    (hk : tst b.primal.mc_kind8 S_HAVESUB = true) (hsub : SubOK b)
    (hcmp : b.subordinate.mx_cursor.mc_aht.ahe.ax_kcmp = b.primal.mc_aht.ahe.ax_dcmp)
    (hdc : CmpOK b.primal.mc_aht.ahe.ax_dcmp)
    (hdi : CmpInt b.primal.mc_aht.ahe.ax_dcmp)
    (hwf : WFAA txn b.primal.mc_aht
      (SortedDupNode txn b.primal.mc_aht.ahe.ax_dcmp b.primal.mc_aht.aa.flags16) h root)
    (hci : CmpInt b.primal.mc_aht.ahe.ax_kcmp)
    (hcur : CursorOK txn b.primal.mc_aht.ahe.ax_kcmp
      (SortedDupNode txn b.primal.mc_aht.ahe.ax_dcmp b.primal.mc_aht.aa.flags16) root
      b.primal)
    (hsz : tst b.primal.mc_aht.aa.flags16 MDBX_INTEGERKEY = true →
      key.length = 4 ∨ key.length = 8)
    (hszd : tst b.primal.mc_aht.aa.flags16 MDBX_DUPFIXED = true →
      tst b.primal.mc_aht.aa.flags16 MDBX_INTEGERDUP = true → d.length = 4 ∨ d.length = 8) :
    ∃ r, cursor_get page_touch 2 txn b (some key) (some d) MDBX_GET_BOTH_RANGE = some r ∧
      (r.rc = MDBX_SUCCESS ∨ r.rc = MDBX_NOTFOUND) ∧
      (r.rc = MDBX_NOTFOUND ↔
        ((∀ x ∈ tree_nodes txn h root, b.primal.mc_aht.ahe.ax_kcmp key (NODEKEY x) ≠ 0) ∨
         ∃ e ∈ tree_nodes txn h root, b.primal.mc_aht.ahe.ax_kcmp key (NODEKEY e) = 0 ∧
           ∀ w ∈ node_values txn b.primal.mc_aht.aa.flags16 e,
             b.primal.mc_aht.ahe.ax_dcmp d w > 0)) ∧
      (r.rc = MDBX_SUCCESS →
        ∃ e ∈ tree_nodes txn h root, b.primal.mc_aht.ahe.ax_kcmp key (NODEKEY e) = 0 ∧
          ∃ v ∈ node_values txn b.primal.mc_aht.aa.flags16 e, r.data = some v ∧
            b.primal.mc_aht.ahe.ax_dcmp d v ≤ 0 ∧
            ∀ w ∈ node_values txn b.primal.mc_aht.aa.flags16 e,
              b.primal.mc_aht.ahe.ax_dcmp d w ≤ 0 → b.primal.mc_aht.ahe.ax_dcmp v w ≤ 0) := by
  have hc : CmpOK b.primal.mc_aht.ahe.ax_kcmp := hwf.cmp_ok
  have hnf : ¬ MDBX_NOTFOUND = MDBX_SUCCESS := by decide
  have hnf2 : ¬ MDBX_SUCCESS = MDBX_NOTFOUND := by decide
  have hne : ¬ MDBX_GET_BOTH_RANGE = MDBX_GET_BOTH := by decide
  obtain ⟨r, hg, hr⟩ := cursor_get_both page_touch key d (Or.inr rfl) hk hsub hcmp hdc hdi hwf hci hcur
    hsz hszd
  refine ⟨r, hg, ?_⟩
  rcases hr with ⟨e, he, hke, hout⟩ | ⟨hrc, hnone⟩
  · rcases hout with ⟨hrc, v, hv, hdata, hle, _, hleast⟩ | ⟨hrc, _, hall⟩
    · refine ⟨Or.inl hrc, ⟨fun hs => ?_, ?_⟩, fun _ => ⟨e, he, hke, v, hv, hdata, hle, hleast⟩⟩
      · rw [hrc] at hs; exact absurd hs hnf2
      · rintro (h1 | ⟨e2, he2, hke2, h2⟩)
        · exact absurd hke (h1 e he)
        · have hee : e2 = e := tree_key_unique hc hwf.tree he2 he (cmp_eq_of_eq_eq hc hke2 hke)
          subst hee
          have := h2 v hv
          omega
    · refine ⟨Or.inr hrc, ⟨fun _ => Or.inr ⟨e, he, hke, ?_⟩, fun _ => hrc⟩, fun hs => ?_⟩
      · rcases hall with h1 | ⟨h1, _⟩
        · exact h1
        · exact absurd h1 hne
      · rw [hrc] at hs; exact absurd hs hnf
  · refine ⟨Or.inr hrc, ⟨fun _ => Or.inl hnone, fun _ => hrc⟩, fun hs => ?_⟩
    rw [hrc] at hs; exact absurd hs hnf

theorem dup_at_node {fp : page_t} (h : IS_DFL fp = false) (xs i : Nat) :
    dup_at fp xs i = NODEKEY (fp.mp_nodes.getD i default) := by
  unfold dup_at
  rw [h]
  rfl

theorem dup_subpage_sorted (xs : Nat) :
    ∀ i j, i < j → j < page_numkeys (NODEDATA_page dup_node) →
      cmp_lex (dup_at (NODEDATA_page dup_node) xs i) (dup_at (NODEDATA_page dup_node) xs j)
        < 0 := by
  intro i j h1 h2
  have hd : IS_DFL (NODEDATA_page dup_node) = false := by decide
  rw [dup_at_node hd, dup_at_node hd]
  have h4 : page_numkeys (NODEDATA_page dup_node) = 3 := by decide
  have hj : j = 1 ∨ j = 2 := by omega
  rcases hj with hj | hj
  · have hi : i = 0 := by omega
    subst hj hi
    decide
  · have hi : i = 0 ∨ i = 1 := by omega
    rcases hi with hi | hi
    · subst hj hi
      decide
    · subst hj hi
      decide

theorem dup_aa_sorted (flags : Nat) :
    WFAA (sample_txn dup_pages) (sample_aht flags 3)
      (SortedDupNode (sample_txn dup_pages) cmp_lex flags) 0 dup_leaf where
  live := by decide
  valid := by
    show tst MDBX_AAH_VALID MDBX_AAH_VALID = true
    decide
  root_ge := by
    show NUM_METAS ≤ 3
    decide
  root_pg := ⟨by rfl, by rfl⟩
  root_no := by rfl
  depth := by decide
  tree := by
    refine ⟨dup_leaf_ok, fun i hi => ?_, fun l hl => absurd hl (by simp),
      fun u hu => absurd hu (by simp)⟩
    have h4 : page_numkeys dup_leaf = 1 := by decide
    have h0 : i = 0 := by omega
    subst h0
    exact Or.inr ⟨dup_node_inline, dup_subpage_sorted _⟩
  cmp_ok := cmp_lex_ok

theorem intk_leaf_ok : LeafOK cmp_lex intk_leaf where
  is_leaf := by decide
  not_branch := by decide
  not_dfl := by decide
  lower := by decide
  nodes := by decide
  nonempty := by decide
  sorted := by
    intro i j h1 h2
    have h4 : page_numkeys intk_leaf = 1 := by decide
    omega

theorem intk_aa (flags : Nat) :
    WFAA (sample_txn intk_pages) (sample_aht flags 3)
      (SortedDupNode (sample_txn intk_pages) cmp_lex flags) 0 intk_leaf where
  live := by decide
  valid := by
    show tst MDBX_AAH_VALID MDBX_AAH_VALID = true
    decide
  root_ge := by
    show NUM_METAS ≤ 3
    decide
  root_pg := ⟨by rfl, by rfl⟩
  root_no := by rfl
  depth := by decide
  tree := by
    refine ⟨intk_leaf_ok, fun i hi => ?_, fun l hl => absurd hl (by simp),
      fun u hu => absurd hu (by simp)⟩
    have h4 : page_numkeys intk_leaf = 1 := by decide
    have h0 : i = 0 := by omega
    subst h0
    exact Or.inr ⟨⟨by decide, by decide, dup_subpage_ok⟩, dup_subpage_sorted _⟩
  cmp_ok := cmp_lex_ok

theorem intd_subpage_ok : SubPageOK (NODEDATA_page intd_node) where
  is_leaf := by decide
  lower := by decide
  nonempty := by decide
  nodes := fun h => absurd h (by decide)
  plain := by decide

theorem intd_leaf_ok : LeafOK cmp_lex intd_leaf where
  is_leaf := by decide
  not_branch := by decide
  not_dfl := by decide
  lower := by decide
  nodes := by decide
  nonempty := by decide
  sorted := by
    intro i j h1 h2
    have h4 : page_numkeys intd_leaf = 1 := by decide
    omega

theorem intd_aa :
    WFAA (sample_txn intd_pages)
      (sample_aht (MDBX_DUPSORT ||| MDBX_DUPFIXED ||| MDBX_INTEGERDUP) 3)
      (SortedDupNode (sample_txn intd_pages) cmp_lex
        (MDBX_DUPSORT ||| MDBX_DUPFIXED ||| MDBX_INTEGERDUP)) 0 intd_leaf where
  live := by decide
  valid := by
    show tst MDBX_AAH_VALID MDBX_AAH_VALID = true
    decide
  root_ge := by
    show NUM_METAS ≤ 3
    decide
  root_pg := ⟨by rfl, by rfl⟩
  root_no := by rfl
  depth := by decide
  tree := by
    refine ⟨intd_leaf_ok, fun i hi => ?_, fun l hl => absurd hl (by simp),
      fun u hu => absurd hu (by simp)⟩
    have h4 : page_numkeys intd_leaf = 1 := by decide
    have h0 : i = 0 := by omega
    subst h0
    refine Or.inr ⟨⟨by decide, by decide, intd_subpage_ok⟩, ?_⟩
    intro i j h1 h2
    have h5 : page_numkeys (NODEDATA_page (intd_leaf.mp_nodes.getD 0 default)) = 2 := by decide
    have hj : j = 1 := by omega
    have hi : i = 0 := by omega
    subst hj hi
    decide
  cmp_ok := cmp_lex_ok

theorem C11_get_both_witness :
    ∃ r, cursor_get sample_touch 2 (sample_txn dup_pages)
        (sample_dup_bundle (sample_aht MDBX_DUPSORT 3) 0 []) (some k_k) (some v_b)
        MDBX_GET_BOTH = some r ∧
      r.rc = MDBX_SUCCESS := by
  obtain ⟨r, hg, hiff, _, _⟩ := C11_get_both sample_touch
    (b := sample_dup_bundle (sample_aht MDBX_DUPSORT 3) 0 []) k_k v_b (by decide)
    (sample_dup_sub_ok _ _ _) rfl cmp_lex_ok cmp_lex_int (dup_aa_sorted _) cmp_lex_int
    (sample_dup_fresh _ _ _ _)
    (fun h => absurd h (by decide)) (fun h => absurd h (by decide))
  exact ⟨r, hg, hiff.2 ⟨dup_node, by show dup_node ∈ [dup_node]; simp, by decide, v_b,
    by decide, by decide⟩⟩

/-- C11, counterexample: over the well-formed tree of a dup-sorted AA with
integer keys that holds the four-byte key 1 with the duplicates a, b, c,
cursor_get with `MDBX_GET_BOTH` and a key of three bytes does not return: the
assertion on the key size in cursor_set fails (without assertions the return
code is `MDBX_BAD_VALSIZE`); the result is neither `MDBX_SUCCESS` nor
`MDBX_NOTFOUND`. -/
theorem C11_counterexample_keysize :
    WFAA (sample_txn intk_pages) (sample_aht (MDBX_DUPSORT ||| MDBX_INTEGERKEY) 3)
      (SortedDupNode (sample_txn intk_pages) cmp_lex (MDBX_DUPSORT ||| MDBX_INTEGERKEY)) 0
      intk_leaf ∧
    CursorOK (sample_txn intk_pages) cmp_lex
      (SortedDupNode (sample_txn intk_pages) cmp_lex (MDBX_DUPSORT ||| MDBX_INTEGERKEY))
      intk_leaf (sample_dup_bundle (sample_aht (MDBX_DUPSORT ||| MDBX_INTEGERKEY) 3) 0 []).primal ∧
    cursor_get sample_touch 2 (sample_txn intk_pages)
      (sample_dup_bundle (sample_aht (MDBX_DUPSORT ||| MDBX_INTEGERKEY) 3) 0 [])
      (some [0, 0, 1]) (some v_a) MDBX_GET_BOTH = none :=
  ⟨intk_aa _, sample_dup_fresh _ _ _ _, by rfl⟩

theorem C12_get_both_range_witness :
    ∃ r, cursor_get sample_touch 2 (sample_txn dup_pages)
        (sample_dup_bundle (sample_aht MDBX_DUPSORT 3) 0 []) (some k_k) (some [97, 0])
        MDBX_GET_BOTH_RANGE = some r ∧
      r.rc = MDBX_SUCCESS ∧ r.data = some v_b := by
  obtain ⟨r, hg, hor, hiff, hs⟩ := C12_get_both_range sample_touch
    (b := sample_dup_bundle (sample_aht MDBX_DUPSORT 3) 0 []) k_k [97, 0] (by decide)
    (sample_dup_sub_ok _ _ _) rfl cmp_lex_ok cmp_lex_int (dup_aa_sorted _) cmp_lex_int
    (sample_dup_fresh _ _ _ _)
    (fun h => absurd h (by decide)) (fun h => absurd h (by decide))
  have hmem : ∀ e, e ∈ tree_nodes (sample_txn dup_pages) 0 dup_leaf → e = dup_node := by
    intro e he
    have he2 : e ∈ [dup_node] := he
    exact List.mem_singleton.1 he2
  have hvals : ∀ v, v ∈ node_values (sample_txn dup_pages) MDBX_DUPSORT dup_node →
      v = v_a ∨ v = v_b ∨ v = v_c := by
    intro v hv
    have hv2 : v ∈ [v_a, v_b, v_c] := hv
    simpa using hv2
  have hrc : r.rc = MDBX_SUCCESS := by
    rcases hor with h | h
    · exact h
    · exfalso
      rcases hiff.1 h with h1 | ⟨e, he, _, h2⟩
      · exact h1 dup_node (by show dup_node ∈ [dup_node]; simp) (by decide)
      · have := hmem e he
        subst this
        have h3 := h2 v_b (by decide)
        exact absurd h3 (by decide)
  refine ⟨r, hg, hrc, ?_⟩
  obtain ⟨e, he, _, v, hv, hdata, hle, hleast⟩ := hs hrc
  have := hmem e he
  subst this
  rw [hdata]
  rcases hvals v hv with h | h | h
  · subst h; exact absurd hle (by decide)
  · subst h; rfl
  · subst h
    have := hleast v_b (by decide) (by decide)
    exact absurd this (by decide)

/-- C12, counterexample: over the well-formed tree of a dup-fixed AA with
integer duplicates that holds the key k with the four-byte duplicates 1 and 2,
cursor_get with `MDBX_GET_BOTH_RANGE`, the key k, which is present, and a data
item of three bytes does not return: the assertion on the key size fails in
the cursor_set of the sub-cursor (without assertions the return code is
`MDBX_BAD_VALSIZE`); the result is neither `MDBX_SUCCESS` nor
`MDBX_NOTFOUND`. -/
theorem C12_counterexample_datasize :
    WFAA (sample_txn intd_pages)
      (sample_aht (MDBX_DUPSORT ||| MDBX_DUPFIXED ||| MDBX_INTEGERDUP) 3)
      (SortedDupNode (sample_txn intd_pages) cmp_lex
        (MDBX_DUPSORT ||| MDBX_DUPFIXED ||| MDBX_INTEGERDUP)) 0 intd_leaf ∧
    CursorOK (sample_txn intd_pages) cmp_lex
      (SortedDupNode (sample_txn intd_pages) cmp_lex
        (MDBX_DUPSORT ||| MDBX_DUPFIXED ||| MDBX_INTEGERDUP))
      intd_leaf
      (sample_fixed_bundle (sample_aht (MDBX_DUPSORT ||| MDBX_DUPFIXED ||| MDBX_INTEGERDUP) 3)
        0 []).primal ∧
    (intd_node ∈ tree_nodes (sample_txn intd_pages) 0 intd_leaf ∧
      cmp_lex k_k (NODEKEY intd_node) = 0) ∧
    cursor_get sample_touch 2 (sample_txn intd_pages)
      (sample_fixed_bundle (sample_aht (MDBX_DUPSORT ||| MDBX_DUPFIXED ||| MDBX_INTEGERDUP) 3)
        0 [])
      (some k_k) (some [0, 0, 1]) MDBX_GET_BOTH_RANGE = none :=
  ⟨intd_aa, sample_fixed_fresh _ _ _ _, ⟨by show intd_node ∈ [intd_node]; simp, by decide⟩,
    by rfl⟩

/-- C8, divergence: over the tree of a dup-sorted AA whose only entry holds the
key k with the duplicates a, b, c, `MDBX_LAST` puts the cursor on the entry
and sets `C_EOF` on the primal cursor, `MDBX_FIRST_DUP` moves the sub-cursor
to the first duplicate a and leaves `C_EOF` set, and the following `MDBX_NEXT`
returns `MDBX_NOTFOUND` instead of the next duplicate b: cursor_next gives up
on `C_EOF` at the last index of the page before it looks at the sub-cursor.
From the same position reached with `MDBX_SET`, `MDBX_NEXT` returns b. -/
theorem C8_next_stale_eof :
    cursor_walk sample_touch [(MDBX_LAST, k_k), (MDBX_FIRST_DUP, k_k), (MDBX_NEXT, k_k)]
        (sample_txn dup_pages) (sample_dup_bundle (sample_aht MDBX_DUPSORT 3) 0 []) =
      some [(MDBX_SUCCESS, some k_k, some v_c), (MDBX_SUCCESS, some k_k, some v_a),
            (MDBX_NOTFOUND, some k_k, some [])] ∧
    cursor_walk sample_touch [(MDBX_SET, k_k), (MDBX_NEXT, k_k)]
        (sample_txn dup_pages) (sample_dup_bundle (sample_aht MDBX_DUPSORT 3) 0 []) =
      some [(MDBX_SUCCESS, some k_k, some v_a), (MDBX_SUCCESS, some k_k, some v_b)] :=
  ⟨by rfl, by rfl⟩

theorem reset_or_keep (b : MDBX_cursor) :
    (if tst b.primal.mc_kind8 S_HAVESUB = true then subcursor_reset b 2 else some b) =
      some (sub_cleared b) := by
  by_cases hk : tst b.primal.mc_kind8 S_HAVESUB = true
  · rw [if_pos hk, subcursor_reset_primal hk]
  · rw [if_neg hk]; unfold sub_cleared; rw [if_neg hk]

theorem page_search_blocked (page_touch : page_touch_t) {txn : MDBX_txn}
    (hb : tst txn.mt_flags MDBX_TXN_BLOCKED = true) (mc : cursor_t) (keyp : Option MDBX_iov)
    (flags : Nat) :
    page_search page_touch txn mc keyp flags =
      some { rc := MDBX_BAD_TXN, txn := txn, mc := mc } := by
  unfold page_search
  rw [if_pos hb]

theorem eof_clear_ne (s : Nat) (h : tst s C_EOF = false) :
    (s &&& (C_EOF ||| C_AFTERDELETE)) ≠ C_EOF := by
  intro h2
  have h3 : (s &&& (C_EOF ||| C_AFTERDELETE)) &&& C_EOF = C_EOF := by rw [h2]; decide
  rw [Nat.land_assoc, show (C_EOF ||| C_AFTERDELETE) &&& C_EOF = C_EOF by decide] at h3
  unfold tst at h
  rw [h3] at h
  exact absurd h (by decide)

theorem cursor_first_blocked (page_touch : page_touch_t) {txn : MDBX_txn}
    (hb : tst txn.mt_flags MDBX_TXN_BLOCKED = true) (b : MDBX_cursor)
    (key data : Option MDBX_iov) (hi : tst b.primal.mc_state8 C_INITIALIZED = false) :
    cursor_first page_touch 2 txn b key data =
      some { rc := MDBX_BAD_TXN, txn := txn, bundle := sub_cleared b, key := key,
             data := data } := by
  have hp := sub_cleared_primal b
  have e : ∀ x : MDBX_cursor, x.cur (1 + 1) = x.primal := fun _ => rfl
  have e2 : ∀ (x : MDBX_cursor) mc, x.with_cur (1 + 1) mc = { x with primal := mc } :=
    fun _ _ => rfl
  have hnb : ¬ MDBX_BAD_TXN = MDBX_SUCCESS := by decide
  unfold cursor_first
  by_cases hk : tst b.primal.mc_kind8 S_HAVESUB = true
  · have hr : subcursor_reset b (1 + 1) = some (sub_cleared b) := subcursor_reset_primal hk
    simp only [e, e2, hk, if_true, hr, bind, Option.bind, hp, hi, Bool.false_eq_true,
      not_false_eq_true, true_or, page_search_blocked page_touch hb, gres.of_cres, ne_eq, hnb]
    rw [← hp]
    rfl
  · have hs : sub_cleared b = b := by unfold sub_cleared; rw [if_neg hk]
    simp only [e, e2, hk, if_false, pure, bind, Option.bind, hi, Bool.false_eq_true,
      not_false_eq_true, true_or, if_true, page_search_blocked page_touch hb, gres.of_cres,
      ne_eq, hnb, hs]

theorem cursor_last_blocked (page_touch : page_touch_t) {txn : MDBX_txn}
    (hb : tst txn.mt_flags MDBX_TXN_BLOCKED = true) (b : MDBX_cursor)
    (key data : Option MDBX_iov) (hi : tst b.primal.mc_state8 C_INITIALIZED = false)
    (he : (b.primal.mc_state8 &&& (C_EOF ||| C_AFTERDELETE)) ≠ C_EOF) :
    cursor_last page_touch 2 txn b key data =
      some { rc := MDBX_BAD_TXN, txn := txn, bundle := sub_cleared b, key := key,
             data := data } := by
  have hp := sub_cleared_primal b
  have e : ∀ x : MDBX_cursor, x.cur (1 + 1) = x.primal := fun _ => rfl
  have e2 : ∀ (x : MDBX_cursor) mc, x.with_cur (1 + 1) mc = { x with primal := mc } :=
    fun _ _ => rfl
  have hnb : ¬ MDBX_BAD_TXN = MDBX_SUCCESS := by decide
  unfold cursor_last
  by_cases hk : tst b.primal.mc_kind8 S_HAVESUB = true
  · have hr : subcursor_reset b (1 + 1) = some (sub_cleared b) := subcursor_reset_primal hk
    simp only [e, e2, hk, if_true, hr, bind, Option.bind, hp, hi, Bool.false_eq_true,
      not_false_eq_true, true_or, page_search_blocked page_touch hb, gres.of_cres, ne_eq, hnb,
      he]
    rw [← hp]
    rfl
  · have hs : sub_cleared b = b := by unfold sub_cleared; rw [if_neg hk]
    simp only [e, e2, hk, if_false, pure, bind, Option.bind, hi, Bool.false_eq_true,
      not_false_eq_true, true_or, if_true, page_search_blocked page_touch hb, gres.of_cres,
      ne_eq, hnb, hs, he]

theorem cursor_set_blocked (page_touch : page_touch_t) {txn : MDBX_txn}
    (hb : tst txn.mt_flags MDBX_TXN_BLOCKED = true) (b : MDBX_cursor)
    (key : MDBX_iov) (data : Option MDBX_iov) (op : MDBX_cursor_op) (exactp : Option Int)
    (hst : StackOK b.primal) (hi : tst b.primal.mc_state8 C_INITIALIZED = false)
    (hsz : tst b.primal.mc_aht.aa.flags16 MDBX_INTEGERKEY = true →
      key.length = 4 ∨ key.length = 8) :
    ∃ r, cursor_set page_touch 2 txn b (some key) data op exactp = some r ∧
      r.rc = MDBX_BAD_TXN ∧ r.txn = txn := by
  have hsz2 : ¬ (tst b.primal.mc_aht.aa.flags16 MDBX_INTEGERKEY = true ∧ key.length ≠ 4 ∧
      key.length ≠ 8) := by
    intro ⟨h1, h2, h3⟩
    rcases hsz h1 with h4 | h4
    · exact h2 h4
    · exact h3 h4
  have hp := sub_cleared_primal b
  have h0 : 0 < (sub_cleared b).primal.mc_pg.length := by rw [hp, hst.1]; decide
  rw [show cursor_set page_touch 2 txn b (some key) data op exactp =
    cursor_set_body page_touch (fun txn b data => cursor_first page_touch 1 txn b data none)
      (fun ex2p txn b data => cursor_set page_touch 1 txn b data none MDBX_SET_RANGE ex2p)
      2 txn b (some key) data op exactp from rfl]
  unfold cursor_set_body
  simp only [cur_primal, with_cur_primal, hsz2, if_false, reset_or_keep]
  rw [show tst (sub_cleared b).primal.mc_state8 C_INITIALIZED = false by rw [hp]; exact hi]
  simp only [Bool.false_eq_true, if_false, cursor_t.set_pg, h0, if_true]
  unfold cursor_set_search
  simp only [cur_primal, with_cur_primal, page_search_blocked page_touch hb, ne_eq,
    show ¬ MDBX_BAD_TXN = MDBX_SUCCESS by decide, not_false_eq_true, if_true]
  exact ⟨_, rfl, rfl, rfl⟩

/-- C30 (amended): in a transaction with a blocking flag latched, page_search
returns `MDBX_BAD_TXN` at once, with the transaction and the cursor as they
were; and cursor_get with `MDBX_FIRST`, `MDBX_LAST`, `MDBX_SET`,
`MDBX_SET_RANGE`, `MDBX_NEXT` or `MDBX_PREV` on a cursor that is not
initialized returns `MDBX_BAD_TXN`, provided that for `MDBX_LAST` and
`MDBX_PREV` the cursor does not have `C_EOF` set with `C_AFTERDELETE` clear,
and that for `MDBX_SET` and `MDBX_SET_RANGE` the key has 4 or 8 bytes when the
AA has integer keys. -/
theorem C30_blocked_txn (page_touch : page_touch_t) (txn : MDBX_txn)
    (hb : tst txn.mt_flags MDBX_TXN_BLOCKED = true) :
    (∀ (mc : cursor_t) (keyp : Option MDBX_iov) (flags : Nat),
      page_search page_touch txn mc keyp flags =
        some { rc := MDBX_BAD_TXN, txn := txn, mc := mc }) ∧
    (∀ (b : MDBX_cursor) (key d : MDBX_iov) (op : MDBX_cursor_op),
      (op = MDBX_FIRST ∨ op = MDBX_LAST ∨ op = MDBX_SET ∨ op = MDBX_SET_RANGE ∨
        op = MDBX_NEXT ∨ op = MDBX_PREV) →
      StackOK b.primal → tst b.primal.mc_state8 C_INITIALIZED = false →
      (op = MDBX_LAST ∨ op = MDBX_PREV →
        (b.primal.mc_state8 &&& (C_EOF ||| C_AFTERDELETE)) ≠ C_EOF) →
      (op = MDBX_SET ∨ op = MDBX_SET_RANGE →
        tst b.primal.mc_aht.aa.flags16 MDBX_INTEGERKEY = true →
        key.length = 4 ∨ key.length = 8) →
      ∃ r, cursor_get page_touch 2 txn b (some key) (some d) op = some r ∧
        r.rc = MDBX_BAD_TXN ∧ r.txn = txn) := by
  refine ⟨page_search_blocked page_touch hb, ?_⟩
  intro b key d op hop hst hi he hsz
  obtain ⟨s, hs⟩ := cursor_subordinate_some b
  have hnb : ¬ MDBX_BAD_TXN = MDBX_SUCCESS := by decide
  rcases hop with h | h | h | h | h | h
  · subst h
    rw [show cursor_get page_touch 2 txn b (some key) (some d) MDBX_FIRST =
      (match cursor_subordinate b 2 with
       | none => none
       | some _ => (cursor_first page_touch 2 txn b (some key) (some d)).map
          (cursor_get_break 2))
      from rfl, hs, cursor_first_blocked page_touch hb b _ _ hi]
    exact ⟨_, rfl, rfl, rfl⟩
  · subst h
    rw [show cursor_get page_touch 2 txn b (some key) (some d) MDBX_LAST =
      (match cursor_subordinate b 2 with
       | none => none
       | some _ => (cursor_last page_touch 2 txn b (some key) (some d)).map
          (cursor_get_break 2))
      from rfl, hs, cursor_last_blocked page_touch hb b _ _ hi (he (Or.inl rfl))]
    exact ⟨_, rfl, rfl, rfl⟩
  · subst h
    obtain ⟨r, hr, hrc, htx⟩ := cursor_set_blocked page_touch hb b key (some d) MDBX_SET
      (some 0) hst hi (hsz (Or.inl rfl))
    rw [cursor_get_set_any, hr]
    exact ⟨_, rfl, hrc, htx⟩
  · subst h
    obtain ⟨r, hr, hrc, htx⟩ := cursor_set_blocked page_touch hb b key (some d)
      MDBX_SET_RANGE none hst hi (hsz (Or.inr rfl))
    rw [show cursor_get page_touch 2 txn b (some key) (some d) MDBX_SET_RANGE =
      (match cursor_subordinate b 2 with
       | none => none
       | some _ => (cursor_set page_touch 2 txn b (some key) (some d) MDBX_SET_RANGE
          none).map (cursor_get_break 2))
      from rfl, hs, hr]
    exact ⟨_, rfl, hrc, htx⟩
  · subst h
    have hn : cursor_next page_touch 2 txn b (some key) (some d) MDBX_NEXT =
        cursor_first page_touch 2 txn b (some key) (some d) := by
      unfold cursor_next
      simp only [cur_two, hi, Bool.false_eq_true, false_and, if_false, not_false_eq_true,
        if_true]
      rw [if_neg (fun h => absurd h.2 (by decide))]
    rw [show cursor_get page_touch 2 txn b (some key) (some d) MDBX_NEXT =
      (match cursor_subordinate b 2 with
       | none => none
       | some _ => (cursor_next page_touch 2 txn b (some key) (some d) MDBX_NEXT).map
          (cursor_get_break 2))
      from rfl, hs, hn, cursor_first_blocked page_touch hb b _ _ hi]
    exact ⟨_, rfl, rfl, rfl⟩
  · subst h
    have he := he (Or.inr rfl)
    have hn : cursor_prev page_touch 2 txn b (some key) (some d) MDBX_PREV =
        cursor_last page_touch 2 txn b (some key) (some d) := by
      rw [cursor_last_blocked page_touch hb b _ _ hi he]
      unfold cursor_prev
      simp only [cur_two, hi, Bool.false_eq_true, false_and, if_false, not_false_eq_true,
        if_true, cursor_last_blocked page_touch hb b _ _ hi he, ne_eq, hnb]
      rw [if_neg (fun h => absurd h.2 (by decide))]
    rw [show cursor_get page_touch 2 txn b (some key) (some d) MDBX_PREV =
      (match cursor_subordinate b 2 with
       | none => none
       | some _ => (cursor_prev page_touch 2 txn b (some key) (some d) MDBX_PREV).map
          (cursor_get_break 2))
      from rfl, hs, hn, cursor_last_blocked page_touch hb b _ _ hi he]
    exact ⟨_, rfl, rfl, rfl⟩

/-- Witness of C30: `MDBX_SET` and `MDBX_LAST` on fresh cursors of a
transaction with `MDBX_TXN_ERROR` latched. -/
theorem C30_blocked_txn_witness :
    (∃ r, cursor_get sample_touch 2 { sample_txn dup_pages with mt_flags := MDBX_TXN_ERROR }
        (sample_dup_bundle (sample_aht MDBX_DUPSORT 3) 0 []) (some k_k) (some [])
        MDBX_SET = some r ∧
      r.rc = MDBX_BAD_TXN) ∧
    (∃ r, cursor_get sample_touch 2 { sample_txn dup_pages with mt_flags := MDBX_TXN_ERROR }
        (sample_dup_bundle (sample_aht MDBX_DUPSORT 3) 0 []) (some k_k) (some [])
        MDBX_LAST = some r ∧
      r.rc = MDBX_BAD_TXN) :=
  ⟨((C30_blocked_txn sample_touch { sample_txn dup_pages with mt_flags := MDBX_TXN_ERROR }
      (by decide)).2 (sample_dup_bundle (sample_aht MDBX_DUPSORT 3) 0 []) k_k []
      MDBX_SET (by decide) ⟨by rfl, by rfl⟩ (by decide) (fun _ => by decide)
      (fun _ h => absurd h (by decide))).imp (fun _ h => ⟨h.1, h.2.1⟩),
   ((C30_blocked_txn sample_touch { sample_txn dup_pages with mt_flags := MDBX_TXN_ERROR }
      (by decide)).2 (sample_dup_bundle (sample_aht MDBX_DUPSORT 3) 0 []) k_k []
      MDBX_LAST (by decide) ⟨by rfl, by rfl⟩ (by decide) (fun _ => by decide)
      (fun h => absurd h (by decide))).imp (fun _ h => ⟨h.1, h.2.1⟩)⟩

/-- C30, counterexample.  In the tree of `two_pages` the transaction cannot
resolve page 6, the right leaf (`mt_next_pgno = 6`).  `MDBX_NEXT` from the last
entry of the left leaf fails in cursor_sibling: page_get latches
`MDBX_TXN_ERROR` and returns `MDBX_PAGE_NOTFOUND`, cursor_sibling clears
`C_INITIALIZED` and cursor_next sets `C_EOF`.  The cursor is now not
initialized, in a transaction with a blocking flag; `MDBX_LAST` on it skips
page_search, since `C_EOF` is set without `C_AFTERDELETE`, and returns
`MDBX_SUCCESS`, and `MDBX_PREV`, which starts with cursor_last, does not return
`MDBX_BAD_TXN` either: it fails an assertion.  On a fresh cursor of a blocked
transaction over an AA with integer keys, `MDBX_SET` with a key of three bytes
fails the assertion on the key size (without assertions it returns
`MDBX_BAD_VALSIZE`) before page_search is called. -/
theorem C30_counterexample_eof :
    ∃ r, cursor_get sample_touch 2 { sample_txn two_pages with mt_next_pgno := 6 }
        (sample_bundle_at (sample_aht 0 4) C_INITIALIZED [(two_root, 0), (two_left, 1)])
        (some []) (some []) MDBX_NEXT = some r ∧
      r.rc = MDBX_PAGE_NOTFOUND ∧
      tst r.txn.mt_flags MDBX_TXN_BLOCKED = true ∧
      tst r.bundle.primal.mc_state8 C_INITIALIZED = false ∧
      StackOK r.bundle.primal ∧
      (cursor_get sample_touch 2 r.txn r.bundle (some []) (some []) MDBX_LAST).map
        (fun r2 => r2.rc) = some MDBX_SUCCESS ∧
      cursor_get sample_touch 2 r.txn r.bundle (some []) (some []) MDBX_PREV = none ∧
      tst (sample_aht MDBX_INTEGERKEY 3).aa.flags16 MDBX_INTEGERKEY = true ∧
      cursor_get sample_touch 2 { sample_txn int_pages with mt_flags := MDBX_TXN_ERROR }
        (sample_bundle_at (sample_aht MDBX_INTEGERKEY 3) 0 []) (some [0, 0, 1]) (some [])
        MDBX_SET = none :=
  ⟨_, rfl, by decide, by decide, by decide, ⟨by rfl, by rfl⟩, by rfl, by rfl, by decide, by rfl⟩

namespace Shadow

/-- C29, divergence: the cursor `dup_cursor` of a dup-sorted AA (its kind has
`S_HAVESUB`) is shadowed by txn_shadow_cursors, the child transaction moves
its sub-cursor, and cursor_unshadow with `commit = 0` follows.  The primal
cursor and the links `mc_next` and `mc_backup` are as before shadowing, the
backup is freed, but the sub-cursor is not: it still belongs to the child
transaction (address 2) and stands where the child left it.  Both functions
test `S_HAVESUB` in `mc_state8`, where the bit is never set (it is a bit of
`mc_kind8`), so the sub-cursor is neither saved nor restored. -/
theorem C29_unshadow_keeps_subcursor :
    tst dup_cursor.primal.mc_kind8 S_HAVESUB = true ∧
    ∃ m1 m3, txn_shadow_cursors sample_malloc {} 2 1 1 sample_mem = some (MDBX_SUCCESS, m1) ∧
      cursor_unshadow (fun _ _ => true) (move_sub m1 10) 10 0 = some m3 ∧
      (m3.obj 10).map (fun c => (c.primal, c.mc_next, c.mc_backup)) =
        some (dup_cursor.primal, dup_cursor.mc_next, dup_cursor.mc_backup) ∧
      m3.obj 20 = none ∧
      (m3.obj 10).map (fun c => c.subordinate.mx_cursor.mc_txn) = some 2 ∧
      (m3.obj 10).map (fun c => c.subordinate.mx_cursor.mc_ki) = some [2] ∧
      dup_cursor.subordinate.mx_cursor.mc_txn = 1 ∧
      dup_cursor.subordinate.mx_cursor.mc_ki = [1] ∧
      (cursor_unshadow (fun _ _ => true) m1 10 0).bind (fun m => m.obj 10) ≠
        some dup_cursor := by
  refine ⟨by decide, _, _, rfl, rfl, by decide, by decide, by decide, by decide, rfl, rfl, ?_⟩
  decide

end Shadow

namespace Cow

theorem isset_or_self (f g : Nat) : F_ISSET (f ||| g) g = true := by
  have h : (f ||| g) &&& g = g := by
    apply Nat.eq_of_testBit_eq
    intro i
    simp only [Nat.testBit_and, Nat.testBit_or]
    cases f.testBit i <;> cases g.testBit i <;> rfl
  simp [F_ISSET, h]

theorem isset_or_other (f g h : Nat) (hd : g &&& h = 0) :
    F_ISSET (f ||| g) h = F_ISSET f h := by
  have e : (f ||| g) &&& h = f &&& h := by
    apply Nat.eq_of_testBit_eq
    intro i
    have hi : (g &&& h).testBit i = false := by rw [hd]; simp
    simp only [Nat.testBit_and, Nat.testBit_or] at hi ⊢
    cases hf : f.testBit i <;> cases hg : g.testBit i <;> cases hh : h.testBit i <;>
      simp_all
  simp [F_ISSET, e]

theorem or_of_isset (f g : Nat) (h : F_ISSET f g = true) : f ||| g = f := by
  have e : f &&& g = g := by simpa [F_ISSET] using h
  apply Nat.eq_of_testBit_eq
  intro i
  have hi : (f &&& g).testBit i = g.testBit i := by rw [e]
  simp only [Nat.testBit_and, Nat.testBit_or] at hi ⊢
  cases hf : f.testBit i <;> cases hg : g.testBit i <;> simp_all

theorem tst_or_self (f g : Nat) (hg : g ≠ 0) : tst (f ||| g) g = true := by
  have h : (f ||| g) &&& g = g := by
    apply Nat.eq_of_testBit_eq
    intro i
    simp only [Nat.testBit_and, Nat.testBit_or]
    cases f.testBit i <;> cases g.testBit i <;> rfl
  simp [tst, h, hg]

/-- The entries in front of the position found by the search have smaller page
numbers. -/
theorem search_take (dl : List MDBX_ID2) (id : pgno_t) :
    ∀ e ∈ dl.take (mdbx_mid2l_search dl id - 1), e.mid < id := by
  unfold mdbx_mid2l_search
  simp only [Nat.add_sub_cancel]
  induction dl with
  | nil => intro e he; simp at he
  | cons a rest ih =>
    intro e he
    rw [List.findIdx_cons] at he
    by_cases ha : id ≤ a.mid
    · simp [ha] at he
    · simp only [ha, decide_False, cond_false, List.take_succ_cons, List.mem_cons] at he
      rcases he with rfl | he
      · exact Nat.lt_of_not_le ha
      · exact ih e he

/-- The search finds the pair that mdbx_mid2l_insert has put in. -/
theorem search_insert (dl : List MDBX_ID2) (id : MDBX_ID2) :
    let k := mdbx_mid2l_search dl id.mid - 1
    let dl2 := dl.take k ++ id :: dl.drop k
    mdbx_mid2l_search dl2 id.mid = k + 1 ∧ dl2[k]? = some id ∧ k + 1 ≤ dl2.length := by
  intro k dl2
  have hk : k ≤ dl.length := by
    show mdbx_mid2l_search dl id.mid - 1 ≤ dl.length
    unfold mdbx_mid2l_search
    simp only [Nat.add_sub_cancel]
    exact List.findIdx_le_length _
  have hlen : (dl.take k).length = k := by simp [hk]
  refine ⟨?_, ?_, ?_⟩
  · show List.findIdx _ (dl.take k ++ id :: dl.drop k) + 1 = k + 1
    congr 1
    rw [List.findIdx_append]
    have hnone : ∀ e ∈ dl.take k, ¬ (decide (id.mid ≤ e.mid) = true) := by
      intro e he
      have h0 : e.mid < id.mid := search_take dl id.mid e he
      simp only [decide_eq_true_eq, not_le]
      exact h0
    have h1 : List.findIdx (fun e => decide (id.mid ≤ e.mid)) (dl.take k) = (dl.take k).length := by
      rw [List.findIdx_eq_length]
      intro e he
      simpa using hnone e he
    rw [if_neg (by rw [h1]; exact Nat.lt_irrefl _)]
    rw [List.findIdx_cons]
    simp [hlen]
  · show (dl.take k ++ id :: dl.drop k)[k]? = some id
    rw [List.getElem?_append_right (by rw [hlen])]
    simp [hlen]
  · show k + 1 ≤ (dl.take k ++ id :: dl.drop k).length
    simp [hk]

end Cow

namespace Cow

theorem touch_done_spec {st st2 : state_t} {mp : page_ref} {np : Nat} {rc : Int}
    (h : touch_done st mp np = some (rc, st2)) :
    st.mc.mc_top < st.mc.mc_pg.length ∧ rc = MDBX_SUCCESS ∧
    ∃ tr, touch_fixups st.pages (retarget st.mc np) mp np st.tracked = some tr ∧
      st2 = { st with mc := retarget st.mc np, tracked := tr } := by
  unfold touch_done at h
  by_cases hl : st.mc.mc_top < st.mc.mc_pg.length
  · rw [if_pos hl] at h
    refine ⟨hl, ?_⟩
    change (match touch_fixups st.pages (retarget st.mc np) mp np st.tracked with
      | none => none
      | some tracked =>
        some (MDBX_SUCCESS, { st with mc := retarget st.mc np, tracked := tracked })) =
      some (rc, st2) at h
    cases hf : touch_fixups st.pages (retarget st.mc np) mp np st.tracked with
    | none => rw [hf] at h; cases h
    | some tr =>
      rw [hf] at h
      simp only [Option.some.injEq, Prod.mk.injEq] at h
      exact ⟨h.1.symm, tr, rfl, h.2.symm⟩
  · rw [if_neg hl] at h; cases h

theorem touch_copy_spec {st st2 : state_t} {mp : page_ref} {np : Nat} {pgno : pgno_t}
    {rc : Int} (h : touch_copy st mp np pgno = some (rc, st2)) :
    st.mc.mc_top < st.mc.mc_pg.length ∧ rc = MDBX_SUCCESS ∧
    ∃ tr, touch_fixups (put_page st.pages np (dirty_copy (deref st.pages mp) pgno))
        (retarget st.mc np) mp np st.tracked = some tr ∧
      st2 = { st with pages := put_page st.pages np (dirty_copy (deref st.pages mp) pgno),
                      mc := retarget st.mc np, tracked := tr } := by
  obtain ⟨h1, h2, tr, h3, h4⟩ := touch_done_spec (show touch_done
    { st with pages := put_page st.pages np (dirty_copy (deref st.pages mp) pgno) } mp np =
      some (rc, st2) from h)
  exact ⟨h1, h2, tr, h3, h4⟩

theorem touch_fail_spec {st st2 : state_t} {rc rc2 : Int}
    (h : touch_fail st rc = some (rc2, st2)) :
    rc2 = rc ∧ st2 = { st with txn := { st.txn with
      mt_flags := st.txn.mt_flags ||| MDBX_TXN_ERROR } } := by
  unfold touch_fail at h
  simp only [Option.some.injEq, Prod.mk.injEq] at h
  exact ⟨h.1.symm, h.2.symm⟩

end Cow

namespace Cow

/-- The outcomes of the part of page_touch that replaces a page that is not
dirty by a new page. -/
theorem touch_alloc_spec {ext : ext_t} {st st2 : state_t} {mp : page_ref} {rc : Int}
    (h : touch_alloc ext st mp = some (rc, st2)) :
    (rc ≠ 0 ∧ tst st2.txn.mt_flags MDBX_TXN_ERROR = true) ∨
    (rc = MDBX_SUCCESS ∧ ext.mdbx_pnl_need st.txn.mt_befree_pages = 0 ∧
      ∃ np txn2 pages2,
        ext.page_alloc st.txn st.pages st.mc = (MDBX_SUCCESS, some np, txn2, pages2) ∧
        (deref pages2 mp).mp_pgno ≠ (pages2 np).mp_pgno ∧
        ∃ pages3 root3,
          ((st.mc.mc_top ≠ 0 ∧ root3 = st.root ∧ ∃ pa ki node,
              st.mc.mc_pg[st.mc.mc_top - 1]? = some (some (page_ref.page pa)) ∧
              st.mc.mc_ki[st.mc.mc_top - 1]? = some ki ∧
              (node_ptr (pages2 pa) ki).bind node_ref.deref = some node ∧
              pages3 = put_page pages2 pa { pages2 pa with
                mp_nodes := (pages2 pa).mp_nodes.set ki
                  (node_set_pgno node (pages2 np).mp_pgno) }) ∨
            (st.mc.mc_top = 0 ∧ root3 = (pages2 np).mp_pgno ∧ pages3 = pages2)) ∧
          ∃ tr,
            touch_fixups
              (put_page pages3 np (dirty_copy (deref pages3 mp) (pages2 np).mp_pgno))
              (retarget st.mc np) mp np st.tracked = some tr ∧
            st2 =
              { pages := put_page pages3 np (dirty_copy (deref pages3 mp) (pages2 np).mp_pgno),
                txn := { txn2 with mt_befree_pages :=
                  txn2.mt_befree_pages ++ [(deref pages2 mp).mp_pgno] },
                root := root3, mc := retarget st.mc np, tracked := tr }) := by
  unfold touch_alloc at h
  rcases ha : ext.page_alloc st.txn st.pages st.mc with ⟨rc1, np, txn2, pages2⟩
  rw [ha] at h
  by_cases hn : ext.mdbx_pnl_need st.txn.mt_befree_pages = 0
  · simp only [hn, ne_eq, not_true_eq_false, if_false] at h
    by_cases h1 : rc1 = 0
    · subst h1
      simp only [not_true_eq_false, if_false] at h
      cases np with
      | none => cases h
      | some np =>
        simp only at h
        by_cases hp : (deref pages2 mp).mp_pgno = (pages2 np).mp_pgno
        · rw [if_pos hp] at h; cases h
        · rw [if_neg hp] at h
          by_cases ht : st.mc.mc_top = 0
          · simp only [ht, not_true_eq_false, if_false] at h
            obtain ⟨_, h2, tr, h3, h4⟩ := touch_copy_spec h
            refine Or.inr ⟨h2, hn, np, txn2, pages2, rfl, hp, pages2, (pages2 np).mp_pgno,
              Or.inr ⟨ht, rfl, rfl⟩, tr, h3, h4⟩
          · simp only [ht, not_false_eq_true, if_true] at h
            split at h
            · rename_i pa ki hpa hki
              split at h
              · cases h
              · rename_i node hnode
                obtain ⟨_, h2, tr, h3, h4⟩ := touch_copy_spec h
                refine Or.inr ⟨h2, hn, np, txn2, pages2, rfl, hp, _, st.root,
                  Or.inl ⟨ht, rfl, pa, ki, node, hpa, hki, hnode, rfl⟩, tr, h3, h4⟩
            · cases h
    · simp only [h1, not_false_eq_true, if_true] at h
      obtain ⟨h2, h3⟩ := touch_fail_spec h
      subst h2 h3
      exact Or.inl ⟨h1, tst_or_self _ _ (by decide)⟩
  · simp only [hn, ne_eq, not_false_eq_true, if_true] at h
    obtain ⟨h2, h3⟩ := touch_fail_spec h
    subst h2 h3
    exact Or.inl ⟨hn, tst_or_self _ _ (by decide)⟩

end Cow

namespace Cow

/-- The paths of page_touch. -/
theorem page_touch_spec {ext : ext_t} {st st2 : state_t} {rc : Int}
    (h : page_touch ext st = some (rc, st2)) :
    ∃ mp, st.mc.mc_pg[st.mc.mc_top]? = some (some mp) ∧
      IS_OVERFLOW (deref st.pages mp) = false ∧
      ((F_ISSET (deref st.pages mp).mp_flags16 P_DIRTY = false ∧
          ((∃ st1,
              ((tst st.txn.mt_flags MDBX_TXN_SPILLS = false ∧ st1 = st) ∨
                (tst st.txn.mt_flags MDBX_TXN_SPILLS = true ∧ ∃ txn1 pages1,
                  ext.page_unspill st.txn st.pages mp = (MDBX_SUCCESS, none, txn1, pages1) ∧
                  st1 = { st with txn := txn1, pages := pages1 })) ∧
              touch_alloc ext st1 mp = some (rc, st2)) ∨
            (tst st.txn.mt_flags MDBX_TXN_SPILLS = true ∧ rc ≠ 0 ∧
              tst st2.txn.mt_flags MDBX_TXN_ERROR = true) ∨
            (tst st.txn.mt_flags MDBX_TXN_SPILLS = true ∧ ∃ np txn1 pages1,
              ext.page_unspill st.txn st.pages mp = (MDBX_SUCCESS, some np, txn1, pages1) ∧
              touch_done { st with txn := txn1, pages := pages1 } mp np = some (rc, st2)))) ∨
        (F_ISSET (deref st.pages mp).mp_flags16 P_DIRTY = true ∧
          ((DirtyHere st.pages st.txn mp ∧ rc = MDBX_SUCCESS ∧ st2 = st) ∨
            (rc = MDBX_PROBLEM ∧
              st2 = { st with
                mc := { st.mc with
                  mc_state8 := clr8 st.mc.mc_state8 (C_INITIALIZED ||| C_EOF) },
                txn := { st.txn with mt_flags := st.txn.mt_flags ||| MDBX_TXN_ERROR } }) ∨
            (st.txn.mt_parent.isSome = true ∧ IS_SUBP (deref st.pages mp) = false ∧
              Unlisted st.txn.mt_rw_dirtylist (deref st.pages mp).mp_pgno ∧
              page_touch.touch_clone ext st mp st.txn.mt_rw_dirtylist
                (deref st.pages mp).mp_pgno = some (rc, st2))))) := by
  unfold page_touch at h
  split at h
  · rename_i mp hmp
    refine ⟨mp, hmp, ?_⟩
    by_cases hov : IS_OVERFLOW (deref st.pages mp) = true
    · rw [if_pos hov] at h; cases h
    · rw [if_neg hov] at h
      refine ⟨by simpa using hov, ?_⟩
      by_cases hd : F_ISSET (deref st.pages mp).mp_flags16 P_DIRTY = true
      · rw [if_neg (not_not.mpr hd)] at h
        refine Or.inr ⟨hd, ?_⟩
        by_cases hp : st.txn.mt_parent.isSome = true ∧ ¬ IS_SUBP (deref st.pages mp) = true
        · rw [if_pos hp] at h
          have hsub : IS_SUBP (deref st.pages mp) = false := by simpa using hp.2
          simp only at h
          split at h
          · rename_i e he
            have hc : (st.txn.mt_rw_dirtylist.length ≠ 0 ∧
                mdbx_mid2l_search st.txn.mt_rw_dirtylist (deref st.pages mp).mp_pgno ≤
                  st.txn.mt_rw_dirtylist.length) ∧
                st.txn.mt_rw_dirtylist[mdbx_mid2l_search st.txn.mt_rw_dirtylist
                  (deref st.pages mp).mp_pgno - 1]? = some e := by
              split at he
              · rename_i hc; exact ⟨hc, he⟩
              · cases he
            by_cases hm : e.mid = (deref st.pages mp).mp_pgno
            · rw [if_pos hm] at h
              by_cases hq : mp ≠ page_ref.page e.mptr
              · rw [if_pos hq] at h
                simp only [Option.some.injEq, Prod.mk.injEq] at h
                exact Or.inr (Or.inl ⟨h.1.symm, h.2.symm⟩)
              · rw [if_neg hq] at h
                simp only [Option.some.injEq, Prod.mk.injEq] at h
                refine Or.inl ⟨⟨hd, Or.inr (Or.inr ?_)⟩, h.1.symm, h.2.symm⟩
                have hq2 : mp = page_ref.page e.mptr := not_not.mp hq
                subst hq2
                refine ⟨hc.1.2, ?_⟩
                rw [hc.2, ← hm]
            · rw [if_neg hm] at h
              refine Or.inr (Or.inr ⟨hp.1, hsub, ?_, h⟩)
              intro e2 he2 _
              rw [hc.2] at he2
              cases he2
              exact hm
          · rename_i he
            refine Or.inr (Or.inr ⟨hp.1, hsub, ?_, h⟩)
            intro e2 he2 hx
            exfalso
            split at he
            · rw [he2] at he; cases he
            · rename_i hc
              apply hc
              refine ⟨?_, hx⟩
              intro h0
              rw [List.getElem?_eq_none (by omega)] at he2
              cases he2
        · rw [if_neg hp] at h
          simp only [Option.some.injEq, Prod.mk.injEq] at h
          refine Or.inl ⟨⟨hd, ?_⟩, h.1.symm, h.2.symm⟩
          by_cases h1 : st.txn.mt_parent = none
          · exact Or.inl h1
          · refine Or.inr (Or.inl ?_)
            by_contra h2
            apply hp
            refine ⟨?_, h2⟩
            cases hq : st.txn.mt_parent with
            | none => exact absurd hq h1
            | some _ => rfl
      · rw [if_pos hd] at h
        refine Or.inl ⟨by simpa using hd, ?_⟩
        by_cases hs : tst st.txn.mt_flags MDBX_TXN_SPILLS = true
        · rw [if_pos hs] at h
          rcases hu : ext.page_unspill st.txn st.pages mp with ⟨rc1, np, txn1, pages1⟩
          rw [hu] at h
          simp only at h
          by_cases h1 : rc1 = MDBX_SUCCESS
          · subst h1
            simp only [ne_eq, not_true_eq_false, if_false] at h
            cases np with
            | none => exact Or.inl ⟨_, Or.inr ⟨hs, txn1, pages1, rfl, rfl⟩, h⟩
            | some np => exact Or.inr (Or.inr ⟨hs, np, txn1, pages1, rfl, h⟩)
          · simp only [ne_eq, h1, not_false_eq_true, if_true] at h
            obtain ⟨h2, h3⟩ := touch_fail_spec h
            subst h2 h3
            exact Or.inr (Or.inl ⟨hs, h1, tst_or_self _ _ (by decide)⟩)
        · rw [if_neg hs] at h
          exact Or.inl ⟨st, Or.inl ⟨by simpa using hs, rfl⟩, h⟩
  · cases h

end Cow

namespace Cow

/-- The outcomes of the part of page_touch that copies a dirty page of a parent
transaction. -/
theorem touch_clone_spec {ext : ext_t} {st st2 : state_t} {mp : page_ref} {pgno : pgno_t}
    {rc : Int}
    (h : page_touch.touch_clone ext st mp st.txn.mt_rw_dirtylist pgno = some (rc, st2)) :
    st.txn.mt_rw_dirtylist.length < MDBX_PNL_UM_MAX ∧
    ((rc = MDBX_ENOMEM ∧ ∃ fl, ext.page_malloc st.txn = (none, fl) ∧
        st2 = { st with txn := { st.txn with mt_flags := fl } }) ∨
      (rc = MDBX_SUCCESS ∧ ∃ np fl, ext.page_malloc st.txn = (some np, fl) ∧
        ∃ tr,
          touch_fixups (put_page st.pages np (dirty_copy (deref st.pages mp) pgno))
            (retarget st.mc np) mp np st.tracked = some tr ∧
          st2 =
            { pages := put_page st.pages np (dirty_copy (deref st.pages mp) pgno),
              txn := { st.txn with
                mt_flags := fl,
                mt_rw_dirtylist :=
                  st.txn.mt_rw_dirtylist.take
                      (mdbx_mid2l_search st.txn.mt_rw_dirtylist pgno - 1) ++
                    { mid := pgno, mptr := np } ::
                      st.txn.mt_rw_dirtylist.drop
                        (mdbx_mid2l_search st.txn.mt_rw_dirtylist pgno - 1) },
              root := st.root, mc := retarget st.mc np, tracked := tr })) := by
  unfold page_touch.touch_clone at h
  by_cases hl : st.txn.mt_rw_dirtylist.length < MDBX_PNL_UM_MAX
  · rw [if_neg (not_not.mpr hl)] at h
    refine ⟨hl, ?_⟩
    rcases hm : ext.page_malloc st.txn with ⟨np, fl⟩
    rw [hm] at h
    cases np with
    | none =>
      simp only [Option.some.injEq, Prod.mk.injEq] at h
      exact Or.inl ⟨h.1.symm, fl, rfl, h.2.symm⟩
    | some np =>
      simp only at h
      unfold mdbx_mid2l_insert at h
      simp only at h
      split at h
      · simp at h
      · split at h
        · simp at h
        · simp only [ne_eq, not_true_eq_false, if_false] at h
          obtain ⟨_, h2, tr, h3, h4⟩ := touch_copy_spec h
          exact Or.inr ⟨h2, np, fl, rfl, tr, h3, h4⟩
  · rw [if_pos hl] at h; cases h

end Cow

namespace Cow

theorem search_pos (dl : List MDBX_ID2) (id : pgno_t) : 1 ≤ mdbx_mid2l_search dl id := by
  unfold mdbx_mid2l_search; omega

theorem retarget_top {mc : cursor_t} {mp : Option page_ref} (np : Nat)
    (h : mc.mc_pg[mc.mc_top]? = some mp) :
    (retarget mc np).mc_pg[(retarget mc np).mc_top]? = some (some (page_ref.page np)) := by
  have hl : mc.mc_top < mc.mc_pg.length := by
    by_contra hc
    rw [List.getElem?_eq_none (by omega)] at h
    cases h
  show (mc.mc_pg.set mc.mc_top (some (page_ref.page np)))[mc.mc_top]? = _
  simp [hl]

theorem put_page_same (pages : Nat → page_t) (a : Nat) (p : page_t) :
    put_page pages a p a = p := by
  simp [put_page]

theorem put_page_other (pages : Nat → page_t) {a b : Nat} (p : page_t) (h : b ≠ a) :
    put_page pages a p b = pages b := by
  simp [put_page, h]

/-- A page that is dirty in the transaction already is left alone. -/
theorem touch_dirty (ext : ext_t) {st : state_t} {mp : page_ref}
    (hmp : st.mc.mc_pg[st.mc.mc_top]? = some (some mp))
    (hov : IS_OVERFLOW (deref st.pages mp) = false)
    (hd : DirtyHere st.pages st.txn mp) :
    page_touch ext st = some (MDBX_SUCCESS, st) := by
  unfold page_touch
  rw [hmp]
  simp only
  rw [if_neg (by rw [hov]; decide), if_neg (not_not.mpr hd.1)]
  by_cases hp : st.txn.mt_parent.isSome = true ∧ ¬ IS_SUBP (deref st.pages mp) = true
  · rw [if_pos hp]
    rcases hd.2 with h1 | h1 | h1
    · rw [h1] at hp; exact absurd hp.1 (by decide)
    · exact absurd h1 hp.2
    · cases mp with
      | subpage a i => exact absurd h1 (by simp)
      | page a =>
        have hr : Registered st.txn (deref st.pages (page_ref.page a)).mp_pgno a := h1
        have h0 : st.txn.mt_rw_dirtylist.length ≠ 0 := by
          have := search_pos st.txn.mt_rw_dirtylist (deref st.pages (page_ref.page a)).mp_pgno
          have := hr.1
          omega
        rw [if_pos ⟨h0, hr.1⟩, hr.2]
        simp
  · rw [if_neg hp]

end Cow

namespace Cow

/-- C25: whenever page_touch returns a code other than 0 (page_unspill,
mdbx_pnl_need or page_alloc failed, a wrong entry of the dirty list gave
`MDBX_PROBLEM`, page_malloc gave no page for the copy), the transaction has
`MDBX_TXN_ERROR` set on return.  On the last path page_touch returns
`MDBX_ENOMEM` at once: the flag is the one page_malloc, which is defined
outside the sources at hand, has set (`MallocOK`). -/
theorem C25_touch_error (ext : ext_t) (hm : MallocOK ext) (st st2 : state_t) (rc : Int)
    (h : page_touch ext st = some (rc, st2)) (hrc : rc ≠ 0) :
    tst st2.txn.mt_flags MDBX_TXN_ERROR = true := by
  obtain ⟨mp, _, _, hc⟩ := page_touch_spec h
  rcases hc with ⟨_, hc⟩ | ⟨_, hc⟩
  · rcases hc with ⟨st1, _, ha⟩ | ⟨_, _, hf⟩ | ⟨_, np, txn1, pages1, _, hdone⟩
    · rcases touch_alloc_spec ha with ⟨_, hf⟩ | ⟨h0, _⟩
      · exact hf
      · exact absurd h0 hrc
    · exact hf
    · exact absurd (touch_done_spec hdone).2.1 hrc
  · rcases hc with ⟨_, h0, _⟩ | ⟨_, h2⟩ | ⟨_, _, _, hcl⟩
    · exact absurd h0 hrc
    · rw [h2]
      exact tst_or_self _ _ (by decide)
    · rcases (touch_clone_spec hcl).2 with ⟨_, fl, hfl, h2⟩ | ⟨h0, _⟩
      · rw [h2]
        have := hm st.txn (by rw [hfl])
        rw [hfl] at this
        exact this
      · exact absurd h0 hrc

theorem C25_touch_error_witness :
    page_touch nomem_ext nested_state =
      some (MDBX_ENOMEM, { nested_state with
        txn := { nested_state.txn with mt_flags := MDBX_TXN_ERROR } }) ∧
    tst MDBX_TXN_ERROR MDBX_TXN_ERROR = true :=
  ⟨by rfl,
   C25_touch_error nomem_ext
    (fun txn _ => tst_or_self _ _ (by decide)) nested_state
    { nested_state with txn := { nested_state.txn with mt_flags := MDBX_TXN_ERROR } }
    MDBX_ENOMEM (by rfl) (by decide)⟩

end Cow

namespace Cow

theorem registered_insert (txn : MDBX_txn) (fl : Nat) (befree : List pgno_t) (pgno : pgno_t)
    (np : Nat) :
    Registered
      { txn with
        mt_flags := fl,
        mt_befree_pages := befree,
        mt_rw_dirtylist :=
          txn.mt_rw_dirtylist.take (mdbx_mid2l_search txn.mt_rw_dirtylist pgno - 1) ++
            { mid := pgno, mptr := np } ::
              txn.mt_rw_dirtylist.drop (mdbx_mid2l_search txn.mt_rw_dirtylist pgno - 1) }
      pgno np := by
  obtain ⟨h1, h2, h3⟩ := search_insert txn.mt_rw_dirtylist { mid := pgno, mptr := np }
  simp only at h1 h2 h3
  unfold Registered
  simp only
  rw [h1]
  exact ⟨h3, by rw [Nat.add_sub_cancel]; exact h2⟩

theorem dirty_copy_flags (p : page_t) (pgno : pgno_t) :
    F_ISSET (dirty_copy p pgno).mp_flags16 P_DIRTY = true ∧
    IS_OVERFLOW (dirty_copy p pgno) = IS_OVERFLOW p ∧
    (dirty_copy p pgno).mp_pgno = pgno :=
  ⟨isset_or_self _ _, isset_or_other _ _ _ (by decide), rfl⟩

/-- The page that a successful page_touch leaves in the top frame of the
cursor is dirty in the transaction. -/
theorem touch_leaves_dirty {ext : ext_t} (ha : AllocOK ext) (hu : UnspillOK ext)
    {st st2 : state_t} (h : page_touch ext st = some (MDBX_SUCCESS, st2))
    (hsub : ∀ a i, st.mc.mc_pg[st.mc.mc_top]? = some (some (page_ref.subpage a i)) →
      F_ISSET (deref st.pages (page_ref.subpage a i)).mp_flags16 P_DIRTY = true) :
    ∃ mp2, st2.mc.mc_pg[st2.mc.mc_top]? = some (some mp2) ∧
      IS_OVERFLOW (deref st2.pages mp2) = false ∧ DirtyHere st2.pages st2.txn mp2 := by
  obtain ⟨mp, hmp, hov, hc⟩ := page_touch_spec h
  rcases hc with ⟨hcl, hc⟩ | ⟨_, hc⟩
  · rcases hc with ⟨st1, h1, hal⟩ | ⟨_, h0, _⟩ | ⟨_, np, txn1, pages1, hun, hdone⟩
    · -- a new page
      have hmc : st1.mc = st.mc := by
        rcases h1 with ⟨_, rfl⟩ | ⟨_, _, _, _, rfl⟩ <;> rfl
      have hpg : st1.pages = st.pages := by
        rcases h1 with ⟨_, rfl⟩ | ⟨_, txn1, pages1, hun, rfl⟩
        · rfl
        · exact ((hu st.txn st.pages mp txn1 pages1).2 hun)
      rcases touch_alloc_spec hal with ⟨h0, _⟩ | ⟨_, _, np, txn2, pages2, hpa, hne, pages3,
        root3, hpar, tr, _, hst2⟩
      · exact absurd rfl h0
      · obtain ⟨hsame, hreg⟩ := ha _ _ _ _ _ _ hpa
        rw [hpg] at hsame
        rw [hmc] at hst2
        obtain ⟨a, rfl⟩ : ∃ a, mp = page_ref.page a := by
          cases mp with
          | page a => exact ⟨a, rfl⟩
          | subpage a i => rw [hsub a i hmp] at hcl; cases hcl
        have han : a ≠ np := by
          intro e; subst e; exact hne rfl
        have hfl : (deref pages3 (page_ref.page a)).mp_flags16 = (st.pages a).mp_flags16 := by
          rcases hpar with ⟨_, _, pa, ki, node, _, _, _, rfl⟩ | ⟨_, _, e3⟩
          · show (put_page pages2 pa _ a).mp_flags16 = _
            by_cases e : a = pa
            · subst e; rw [put_page_same, hsame a han]
            · rw [put_page_other _ _ e, hsame a han]
          · rw [e3]
            show (pages2 a).mp_flags16 = _
            rw [hsame a han]
        refine ⟨page_ref.page np, ?_, ?_, ?_⟩
        · rw [hst2]; exact retarget_top np hmp
        · rw [hst2]
          show IS_OVERFLOW (put_page pages3 np _ np) = false
          rw [put_page_same, (dirty_copy_flags _ _).2.1]
          show F_ISSET (deref pages3 (page_ref.page a)).mp_flags16 P_OVERFLOW = false
          rw [hfl]; exact hov
        · rw [hst2]
          refine ⟨?_, ?_⟩
          · show F_ISSET (put_page pages3 np _ np).mp_flags16 P_DIRTY = true
            rw [put_page_same]; exact (dirty_copy_flags _ _).1
          · rcases hreg with hreg | hreg
            · exact Or.inl hreg
            · refine Or.inr (Or.inr ?_)
              show Registered _ (put_page pages3 np _ np).mp_pgno np
              rw [put_page_same, (dirty_copy_flags _ _).2.2]
              exact hreg
    · exact absurd rfl h0
    · -- a page brought back by page_unspill
      obtain ⟨_, _, tr, _, hst2⟩ := touch_done_spec hdone
      obtain ⟨h1, h2⟩ := (hu st.txn st.pages mp txn1 pages1).1 np hun
      refine ⟨page_ref.page np, ?_, ?_, ?_⟩
      · rw [hst2]; exact retarget_top np hmp
      · rw [hst2]; exact h1
      · rw [hst2]; exact h2
  · rcases hc with ⟨hd, _, h2⟩ | ⟨h0, _⟩ | ⟨_, _, _, hcl⟩
    · rw [h2]; exact ⟨mp, hmp, hov, hd⟩
    · exact absurd h0 (by decide)
    · rcases (touch_clone_spec hcl).2 with ⟨h0, _⟩ | ⟨_, np, fl, _, tr, _, hst2⟩
      · exact absurd h0 (by decide)
      · refine ⟨page_ref.page np, ?_, ?_, ?_⟩
        · rw [hst2]; exact retarget_top np hmp
        · rw [hst2]
          show IS_OVERFLOW (put_page st.pages np _ np) = false
          rw [put_page_same, (dirty_copy_flags _ _).2.1]; exact hov
        · rw [hst2]
          refine ⟨?_, Or.inr (Or.inr ?_)⟩
          · show F_ISSET (put_page st.pages np _ np).mp_flags16 P_DIRTY = true
            rw [put_page_same]; exact (dirty_copy_flags _ _).1
          · show Registered _ (put_page st.pages np _ np).mp_pgno np
            rw [put_page_same, (dirty_copy_flags _ _).2.2]
            exact registered_insert st.txn fl st.txn.mt_befree_pages _ np

end Cow

namespace Cow

theorem cow_ext_alloc : AllocOK cow_ext := by
  intro txn pages mc np txn2 pages2 h
  have e : cow_ext.page_alloc txn pages mc =
      (match mdbx_mid2l_insert txn.mt_rw_dirtylist { mid := 7, mptr := 9 } with
      | (0, dl2) =>
        (MDBX_SUCCESS, some 9, { txn with mt_rw_dirtylist := dl2 },
          put_page pages 9 { mp_pgno := 7, mp_flags16 := P_DIRTY })
      | _ => (MDBX_ENOMEM, none, txn, pages)) := rfl
  rw [e] at h
  unfold mdbx_mid2l_insert at h
  simp only at h
  split at h
  · rename_i dl2 hins
    simp only [Prod.mk.injEq, Option.some.injEq] at h
    obtain ⟨_, h1, h2, h3⟩ := h
    subst h1 h2 h3
    split at hins
    · simp at hins
    · split at hins
      · simp at hins
      · simp only [Prod.mk.injEq, true_and] at hins
        subst hins
        refine ⟨fun a ha => put_page_other _ _ ha, Or.inr ?_⟩
        rw [put_page_same]
        exact registered_insert txn txn.mt_flags txn.mt_befree_pages 7 9
  · simp [MDBX_ENOMEM, MDBX_SUCCESS] at h

theorem cow_ext_unspill : UnspillOK cow_ext := by
  intro txn pages mp txn2 pages2
  refine ⟨fun np h => ?_, fun h => ?_⟩
  · have e : cow_ext.page_unspill txn pages mp = (MDBX_SUCCESS, none, txn, pages) := rfl
    rw [e] at h
    simp at h
  · have e : cow_ext.page_unspill txn pages mp = (MDBX_SUCCESS, none, txn, pages) := rfl
    rw [e] at h
    simp only [Prod.mk.injEq, true_and] at h
    exact h.2.symm

/-- C23: if the top page of the cursor is dirty in this transaction already
(it has the flag `P_DIRTY`, and the transaction has no parent, or the page is
a sub-page, or the dirty list of the transaction maps the page number to this
very page: `DirtyHere`), page_touch returns `MDBX_SUCCESS` and changes
nothing; hence a second page_touch directly after a successful one is a no-op,
page_alloc and page_unspill giving dirty pages of the transaction (`AllocOK`,
`UnspillOK`) and a sub-page being dirty. -/
theorem C23_touch_dirty_noop (ext : ext_t) :
    (∀ (st : state_t) (mp : page_ref),
      st.mc.mc_pg[st.mc.mc_top]? = some (some mp) →
      IS_OVERFLOW (deref st.pages mp) = false →
      DirtyHere st.pages st.txn mp →
      page_touch ext st = some (MDBX_SUCCESS, st)) ∧
    (AllocOK ext → UnspillOK ext → ∀ (st st2 : state_t),
      page_touch ext st = some (MDBX_SUCCESS, st2) →
      (∀ a i, st.mc.mc_pg[st.mc.mc_top]? = some (some (page_ref.subpage a i)) →
        F_ISSET (deref st.pages (page_ref.subpage a i)).mp_flags16 P_DIRTY = true) →
      page_touch ext st2 = some (MDBX_SUCCESS, st2)) := by
  refine ⟨fun st mp hmp hov hd => touch_dirty ext hmp hov hd, ?_⟩
  intro ha hu st st2 h hsub
  obtain ⟨mp2, h1, h2, h3⟩ := touch_leaves_dirty ha hu h hsub
  exact touch_dirty ext h1 h2 h3

theorem C23_touch_dirty_noop_witness :
    page_touch cow_ext nested_root = some (MDBX_SUCCESS, nested_root) ∧
    ∃ st2, page_touch cow_ext cow_state = some (MDBX_SUCCESS, st2) ∧
      st2.mc.mc_pg[1]? = some (some (page_ref.page 9)) ∧
      page_touch cow_ext st2 = some (MDBX_SUCCESS, st2) :=
  ⟨(C23_touch_dirty_noop cow_ext).1 nested_root (page_ref.page 1) (by rfl) (by rfl)
      ⟨by rfl, Or.inr (Or.inr ⟨by decide, by rfl⟩)⟩,
    _, by rfl, by rfl,
    (C23_touch_dirty_noop cow_ext).2 cow_ext_alloc cow_ext_unspill cow_state _ (by rfl)
      (fun a i h => by
        have h2 : some (some (page_ref.page 2)) = some (some (page_ref.subpage a i)) := h
        cases h2)⟩

end Cow

namespace Cow

theorem retarget_get {mc : cursor_t} {mp : Option page_ref} (np : Nat)
    (h : mc.mc_pg[mc.mc_top]? = some mp) :
    (retarget mc np).mc_pg[mc.mc_top]? = some (some (page_ref.page np)) :=
  retarget_top np h

/-- C21: when the top page of the cursor is not dirty and page_unspill does
not bring it back, a successful page_touch obtains one new page from
page_alloc whose number differs from the old one, appends the old page number
once to the list of pages to be freed, sets the page number in the node of the
parent frame at the index of that frame (or the root of the AA when the page
is in frame 0) to the new number, gives the new page that number with the flag
`P_DIRTY`, the new page being a copy of the old one otherwise, and makes the
top frame of the cursor refer to the new page with its index unchanged. -/
theorem C21_touch_cow (ext : ext_t) (st st2 : state_t) (mp : page_ref)
    (hmp : st.mc.mc_pg[st.mc.mc_top]? = some (some mp))
    (hcl : F_ISSET (deref st.pages mp).mp_flags16 P_DIRTY = false)
    (hnb : tst st.txn.mt_flags MDBX_TXN_SPILLS = true → ∀ np txn1 pages1,
      ext.page_unspill st.txn st.pages mp ≠ (MDBX_SUCCESS, some np, txn1, pages1))
    (h : page_touch ext st = some (MDBX_SUCCESS, st2)) :
    ∃ txn1 pages1 np txn2 pages2,
      ext.page_alloc txn1 pages1 st.mc = (MDBX_SUCCESS, some np, txn2, pages2) ∧
      (pages2 np).mp_pgno ≠ (deref pages2 mp).mp_pgno ∧
      st2.txn = { txn2 with
        mt_befree_pages := txn2.mt_befree_pages ++ [(deref pages2 mp).mp_pgno] } ∧
      (st.mc.mc_top ≠ 0 → st2.root = st.root ∧ ∃ pa ki node,
        st.mc.mc_pg[st.mc.mc_top - 1]? = some (some (page_ref.page pa)) ∧
        st.mc.mc_ki[st.mc.mc_top - 1]? = some ki ∧
        (node_ptr (pages2 pa) ki).bind node_ref.deref = some node ∧
        node_get_pgno (node_set_pgno node (pages2 np).mp_pgno) = (pages2 np).mp_pgno ∧
        (pa ≠ np → st2.pages pa = { pages2 pa with
          mp_nodes := (pages2 pa).mp_nodes.set ki
            (node_set_pgno node (pages2 np).mp_pgno) }) ∧
        (∀ a, a ≠ pa → a ≠ np → st2.pages a = pages2 a) ∧
        (∀ a, mp = page_ref.page a → a ≠ pa →
          st2.pages np = dirty_copy (pages2 a) (pages2 np).mp_pgno)) ∧
      (st.mc.mc_top = 0 → st2.root = (pages2 np).mp_pgno ∧
        (∀ a, a ≠ np → st2.pages a = pages2 a) ∧
        st2.pages np = dirty_copy (deref pages2 mp) (pages2 np).mp_pgno) ∧
      (st2.pages np).mp_pgno = (pages2 np).mp_pgno ∧
      F_ISSET (st2.pages np).mp_flags16 P_DIRTY = true ∧
      st2.mc.mc_pg[st.mc.mc_top]? = some (some (page_ref.page np)) ∧
      st2.mc.mc_ki = st.mc.mc_ki ∧ st2.mc.mc_top = st.mc.mc_top ∧
      st2.mc.mc_snum = st.mc.mc_snum := by
  obtain ⟨mp1, hmp1, _, hc⟩ := page_touch_spec h
  rw [hmp] at hmp1
  cases hmp1
  rcases hc with ⟨_, hc⟩ | ⟨hd, _⟩
  · rcases hc with ⟨st1, h1, hal⟩ | ⟨_, h0, _⟩ | ⟨hs, np, txn1, pages1, hun, _⟩
    · have hmc : st1.mc = st.mc := by
        rcases h1 with ⟨_, rfl⟩ | ⟨_, _, _, _, rfl⟩ <;> rfl
      rcases touch_alloc_spec hal with ⟨h0, _⟩ | ⟨_, _, np, txn2, pages2, hpa, hne, pages3,
        root3, hpar, tr, _, hst2⟩
      · exact absurd rfl h0
      · have hrt : st1.root = st.root := by
          rcases h1 with ⟨_, rfl⟩ | ⟨_, _, _, _, rfl⟩ <;> rfl
        rw [hmc] at hst2 hpa hpar
        rw [hrt] at hpar
        refine ⟨st1.txn, st1.pages, np, txn2, pages2, hpa, fun e => hne e.symm, ?_, ?_, ?_,
          ?_, ?_, ?_, ?_, ?_, ?_⟩
        · rw [hst2]
        · intro ht
          rcases hpar with ⟨_, hr, pa, ki, node, h2, h3, h4, h5⟩ | ⟨h0, _⟩
          · refine ⟨by rw [hst2]; exact hr, pa, ki, node, h2, h3, h4, rfl, ?_, ?_, ?_⟩
            · intro hpn
              rw [hst2, h5]
              show put_page (put_page pages2 pa _) np _ pa = _
              rw [put_page_other _ _ hpn, put_page_same]
            · intro a ha1 ha2
              rw [hst2, h5]
              show put_page (put_page pages2 pa _) np _ a = _
              rw [put_page_other _ _ ha2, put_page_other _ _ ha1]
            · intro a ha1 ha2
              rw [hst2, h5, ha1]
              show put_page (put_page pages2 pa _) np _ np = _
              rw [put_page_same]
              show dirty_copy (put_page pages2 pa _ a) _ = _
              rw [put_page_other _ _ ha2]
          · exact absurd h0 ht
        · intro ht
          rcases hpar with ⟨h0, _⟩ | ⟨_, hr, h5⟩
          · exact absurd ht h0
          · refine ⟨by rw [hst2]; exact hr, ?_, ?_⟩
            · intro a ha
              rw [hst2, h5]
              show put_page pages2 np _ a = _
              rw [put_page_other _ _ ha]
            · rw [hst2, h5]
              show put_page pages2 np _ np = _
              rw [put_page_same]
        · rw [hst2]
          show (put_page pages3 np _ np).mp_pgno = _
          rw [put_page_same]; rfl
        · rw [hst2]
          show F_ISSET (put_page pages3 np _ np).mp_flags16 P_DIRTY = true
          rw [put_page_same]; exact (dirty_copy_flags _ _).1
        · rw [hst2]; exact retarget_get np hmp
        · rw [hst2]; rfl
        · rw [hst2]; rfl
        · rw [hst2]; rfl
    · exact absurd rfl h0
    · exact absurd hun (hnb hs np txn1 pages1)
  · rw [hcl] at hd; cases hd

theorem C21_touch_cow_witness :
    ∃ st2, page_touch cow_ext cow_state = some (MDBX_SUCCESS, st2) ∧
      st2.txn.mt_befree_pages = [5] ∧
      (st2.pages 1).mp_nodes.map node_get_pgno = [7, 6] ∧
      st2.pages 9 = { cow_leaf with mp_pgno := 7, mp_flags16 := P_LEAF ||| P_DIRTY } ∧
      st2.mc.mc_pg[1]? = some (some (page_ref.page 9)) ∧
      ∃ txn1 pages1 np txn2 pages2,
        cow_ext.page_alloc txn1 pages1 cow_state.mc = (MDBX_SUCCESS, some np, txn2, pages2) ∧
        (pages2 np).mp_pgno ≠ (deref pages2 (page_ref.page 2)).mp_pgno ∧
        st2.txn = { txn2 with mt_befree_pages :=
          txn2.mt_befree_pages ++ [(deref pages2 (page_ref.page 2)).mp_pgno] } :=
  ⟨_, by rfl, by rfl, by rfl, by rfl, by rfl,
    (C21_touch_cow cow_ext cow_state _ (page_ref.page 2) (by rfl) (by rfl)
      (fun h => absurd h (by decide)) (by rfl)).imp fun _ h1 =>
      h1.imp fun _ h2 => h2.imp fun _ h3 => h3.imp fun _ h4 => h4.imp fun _ h5 =>
        ⟨h5.1, h5.2.1, h5.2.2.1⟩⟩

end Cow

namespace Cow

/-- The list stays sorted when mdbx_mid2l_insert puts in a pair whose page
number is not in the list. -/
theorem insert_sorted (dl : List MDBX_ID2) (id : MDBX_ID2) (hs : SortedDL dl)
    (hn : ∀ e ∈ dl, e.mid ≠ id.mid) :
    SortedDL (dl.take (mdbx_mid2l_search dl id.mid - 1) ++
      id :: dl.drop (mdbx_mid2l_search dl id.mid - 1)) := by
  unfold mdbx_mid2l_search
  simp only [Nat.add_sub_cancel]
  unfold SortedDL at hs ⊢
  induction dl with
  | nil => simp
  | cons a rest ih =>
    rw [List.pairwise_cons] at hs
    rw [List.findIdx_cons]
    by_cases ha : id.mid ≤ a.mid
    · simp only [ha, decide_True, cond_true, List.take_zero, List.drop_zero, List.nil_append]
      have hlt : id.mid < a.mid :=
        Nat.lt_of_le_of_ne ha (fun e => hn a (List.mem_cons_self _ _) e.symm)
      rw [List.pairwise_cons]
      refine ⟨?_, List.pairwise_cons.mpr hs⟩
      intro b hb
      rcases List.mem_cons.mp hb with rfl | hb
      · exact hlt
      · exact Nat.lt_trans hlt (hs.1 b hb)
    · simp only [ha, decide_False, cond_false, List.take_succ_cons, List.drop_succ_cons,
        List.cons_append]
      rw [List.pairwise_cons]
      refine ⟨?_, ih hs.2 (fun e he => hn e (List.mem_cons_of_mem _ he))⟩
      intro b hb
      rcases List.mem_append.mp hb with hb | hb
      · exact hs.1 b (List.mem_of_mem_take hb)
      · rcases List.mem_cons.mp hb with rfl | hb
        · exact Nat.lt_of_not_le ha
        · exact hs.1 b (List.mem_of_mem_drop hb)

theorem dirty_copy_self (p : page_t) (h : F_ISSET p.mp_flags16 P_DIRTY = true) :
    dirty_copy p p.mp_pgno = p := by
  unfold dirty_copy
  rw [or_of_isset _ _ h]

/-- C24: in a nested transaction, page_touch on a dirty page that is not in
the dirty list of the transaction itself (a page of the parent) inserts a copy
of the page under the same page number into the dirty list of the nested
transaction, which stays sorted ascending by page number, makes the top frame
of the cursor refer to the copy, and leaves the page of the parent, the dirty
list of the parent, the list of pages to be freed and the page numbers in the
parent page and the root unchanged. -/
theorem C24_touch_nested (ext : ext_t) (st st2 : state_t) (mp : page_ref)
    (hmp : st.mc.mc_pg[st.mc.mc_top]? = some (some mp))
    (hd : F_ISSET (deref st.pages mp).mp_flags16 P_DIRTY = true)
    (hpar : st.txn.mt_parent.isSome = true)
    (hsub : IS_SUBP (deref st.pages mp) = false)
    (hown : ∀ e ∈ st.txn.mt_rw_dirtylist, e.mid ≠ (deref st.pages mp).mp_pgno)
    (h : page_touch ext st = some (MDBX_SUCCESS, st2)) :
    ∃ np fl, ext.page_malloc st.txn = (some np, fl) ∧
      st2.txn.mt_rw_dirtylist =
        st.txn.mt_rw_dirtylist.take
            (mdbx_mid2l_search st.txn.mt_rw_dirtylist (deref st.pages mp).mp_pgno - 1) ++
          { mid := (deref st.pages mp).mp_pgno, mptr := np } ::
            st.txn.mt_rw_dirtylist.drop
              (mdbx_mid2l_search st.txn.mt_rw_dirtylist (deref st.pages mp).mp_pgno - 1) ∧
      (SortedDL st.txn.mt_rw_dirtylist → SortedDL st2.txn.mt_rw_dirtylist) ∧
      st2.pages np = deref st.pages mp ∧
      (∀ a, a ≠ np → st2.pages a = st.pages a) ∧
      st2.mc.mc_pg[st.mc.mc_top]? = some (some (page_ref.page np)) ∧
      st2.mc.mc_ki = st.mc.mc_ki ∧ st2.mc.mc_top = st.mc.mc_top ∧
      st2.mc.mc_snum = st.mc.mc_snum ∧
      st2.txn.mt_parent = st.txn.mt_parent ∧
      st2.txn.mt_befree_pages = st.txn.mt_befree_pages ∧
      st2.root = st.root := by
  obtain ⟨mp1, hmp1, _, hc⟩ := page_touch_spec h
  rw [hmp] at hmp1
  cases hmp1
  rcases hc with ⟨hcl, _⟩ | ⟨_, hc⟩
  · rw [hd] at hcl; cases hcl
  · rcases hc with ⟨hk, _, _⟩ | ⟨h0, _⟩ | ⟨_, _, _, hcl⟩
    · exfalso
      rcases hk.2 with h1 | h1 | h1
      · rw [h1] at hpar; cases hpar
      · rw [hsub] at h1; cases h1
      · cases mp with
        | subpage a i => exact h1
        | page a =>
          have hr : Registered st.txn (deref st.pages (page_ref.page a)).mp_pgno a := h1
          exact hown _ (List.getElem?_mem hr.2) rfl
    · exact absurd h0 (by decide)
    · rcases (touch_clone_spec hcl).2 with ⟨h0, _⟩ | ⟨_, np, fl, hm, tr, _, hst2⟩
      · exact absurd h0 (by decide)
      · refine ⟨np, fl, hm, by rw [hst2], ?_, ?_, ?_, ?_, by rw [hst2]; rfl, by rw [hst2]; rfl,
          by rw [hst2]; rfl, by rw [hst2], by rw [hst2], by rw [hst2]⟩
        · intro hs
          rw [hst2]
          exact insert_sorted st.txn.mt_rw_dirtylist
            { mid := (deref st.pages mp).mp_pgno, mptr := np } hs hown
        · rw [hst2]
          show put_page st.pages np _ np = _
          rw [put_page_same, dirty_copy_self _ hd]
        · intro a ha
          rw [hst2]
          show put_page st.pages np _ a = _
          rw [put_page_other _ _ ha]
        · rw [hst2]; exact retarget_get np hmp

theorem C24_touch_nested_witness :
    ∃ st2, page_touch cow_ext nested_state = some (MDBX_SUCCESS, st2) ∧
      st2.txn.mt_rw_dirtylist =
        [{ mid := 4, mptr := 1 }, { mid := 5, mptr := 8 }, { mid := 6, mptr := 3 }] ∧
      st2.txn.mt_parent = some [{ mid := 5, mptr := 2 }] ∧
      st2.pages 8 = nested_pages 2 ∧ st2.pages 2 = nested_pages 2 ∧
      st2.mc.mc_pg[1]? = some (some (page_ref.page 8)) ∧
      SortedDL st2.txn.mt_rw_dirtylist :=
  ⟨_, by rfl, by rfl, by rfl, by rfl, by rfl, by rfl,
    (C24_touch_nested cow_ext nested_state _ (page_ref.page 2) (by rfl) (by rfl) (by rfl)
      (by rfl) (by decide) (by rfl)).elim fun _ h1 => h1.elim fun _ h2 =>
        h2.2.2.1 (by unfold SortedDL; decide)⟩

end Cow

namespace Layout

theorem numkeys_eq (mp : page_t) : page_numkeys mp = mp.mp_lower / 2 := by
  simp [page_numkeys, Nat.shiftRight_eq_div_pow]

/-- What the loop of update_key does to the array `mp_ptrs`. -/
theorem update_key_loop_spec (ptr : Nat) (delta : Int) :
    ∀ (fuel i : Nat) (ptrs : Nat → Nat),
      (∀ x, i ≤ x → x < i + fuel → ptrs x ≤ ptr → (ptrs x : Int) ≥ delta) →
      ∃ ptrs2, update_key_loop ptr delta fuel i ptrs = some ptrs2 ∧
        ∀ x, ptrs2 x =
          if i ≤ x ∧ x < i + fuel ∧ ptrs x ≤ ptr then
            (((ptrs x : Int) - delta) % 65536).toNat
          else ptrs x := by
  intro fuel
  induction fuel with
  | zero =>
    intro i ptrs _
    refine ⟨ptrs, rfl, fun x => ?_⟩
    rw [if_neg (by omega)]
  | succ fuel ih =>
    intro i ptrs ha
    unfold update_key_loop
    by_cases h1 : ptrs i ≤ ptr
    · rw [if_pos h1, if_pos (ha i (Nat.le_refl _) (by omega) h1)]
      obtain ⟨ptrs2, h2, h3⟩ := ih (i + 1)
        (set_ptr ptrs i (((ptrs i : Int) - delta) % 65536).toNat) (by
          intro x hx1 hx2 hx3
          have e : set_ptr ptrs i (((ptrs i : Int) - delta) % 65536).toNat x = ptrs x := by
            unfold set_ptr; rw [if_neg (by omega)]
          rw [e] at hx3 ⊢
          exact ha x (by omega) (by omega) hx3)
      refine ⟨ptrs2, h2, fun x => ?_⟩
      rw [h3 x]
      by_cases hx : x = i
      · subst hx
        rw [if_neg (by omega), if_pos ⟨Nat.le_refl _, by omega, h1⟩]
        unfold set_ptr; rw [if_pos rfl]
      · have e : set_ptr ptrs i (((ptrs i : Int) - delta) % 65536).toNat x = ptrs x := by
          unfold set_ptr; rw [if_neg hx]
        rw [e]
        by_cases hc : i + 1 ≤ x ∧ x < i + 1 + fuel ∧ ptrs x ≤ ptr
        · rw [if_pos hc, if_pos ⟨by omega, by omega, hc.2.2⟩]
        · rw [if_neg hc, if_neg (fun hc2 => hc ⟨by omega, by omega, hc2.2.2⟩)]
    · rw [if_neg h1]
      obtain ⟨ptrs2, h2, h3⟩ := ih (i + 1) ptrs (fun x hx1 hx2 hx3 =>
        ha x (by omega) (by omega) hx3)
      refine ⟨ptrs2, h2, fun x => ?_⟩
      rw [h3 x]
      by_cases hx : x = i
      · subst hx
        rw [if_neg (by omega), if_neg (fun hc => h1 hc.2.2)]
      · by_cases hc : i + 1 ≤ x ∧ x < i + 1 + fuel ∧ ptrs x ≤ ptr
        · rw [if_pos hc, if_pos ⟨by omega, by omega, hc.2.2⟩]
        · rw [if_neg hc, if_neg (fun hc2 => hc ⟨by omega, by omega, hc2.2.2⟩)]

/-- What the second loop of node_shrink does to the array `mp_ptrs`. -/
theorem node_shrink_loop_spec (ptr delta : Nat) :
    ∀ (n : Nat) (ptrs : Nat → Nat),
      (∀ x, x < n → ptrs x ≤ ptr → ptrs x + delta ≤ 65535) →
      ∃ ptrs2, node_shrink_loop ptr delta n ptrs = some ptrs2 ∧
        ∀ x, ptrs2 x = if x < n ∧ ptrs x ≤ ptr then ptrs x + delta else ptrs x := by
  intro n
  induction n with
  | zero =>
    intro ptrs _
    refine ⟨ptrs, rfl, fun x => ?_⟩
    rw [if_neg (by omega)]
  | succ n ih =>
    intro ptrs ha
    unfold node_shrink_loop
    by_cases h1 : ptrs n ≤ ptr
    · have h0 := ha n (by omega) h1
      rw [if_pos h1, if_pos (by omega)]
      have hv : (ptrs n + delta % 65536) % 65536 = ptrs n + delta := by omega
      rw [hv]
      obtain ⟨ptrs2, h2, h3⟩ := ih (set_ptr ptrs n (ptrs n + delta)) (by
        intro x hx1 hx3
        have e : set_ptr ptrs n (ptrs n + delta) x = ptrs x := by
          unfold set_ptr; rw [if_neg (by omega)]
        rw [e] at hx3 ⊢
        exact ha x (by omega) hx3)
      refine ⟨ptrs2, h2, fun x => ?_⟩
      rw [h3 x]
      by_cases hx : x = n
      · subst hx
        rw [if_neg (by omega), if_pos ⟨by omega, h1⟩]
        unfold set_ptr; rw [if_pos rfl]
      · have e : set_ptr ptrs n (ptrs n + delta) x = ptrs x := by
          unfold set_ptr; rw [if_neg hx]
        rw [e]
        by_cases hc : x < n ∧ ptrs x ≤ ptr
        · rw [if_pos hc, if_pos ⟨by omega, hc.2⟩]
        · rw [if_neg hc, if_neg (fun hc2 => hc ⟨by omega, hc2.2⟩)]
    · rw [if_neg h1]
      obtain ⟨ptrs2, h2, h3⟩ := ih ptrs (fun x hx1 hx3 => ha x (by omega) hx3)
      refine ⟨ptrs2, h2, fun x => ?_⟩
      rw [h3 x]
      by_cases hx : x = n
      · subst hx
        rw [if_neg (by omega), if_neg (fun hc => h1 hc.2)]
      · by_cases hc : x < n ∧ ptrs x ≤ ptr
        · rw [if_pos hc, if_pos ⟨by omega, hc.2⟩]
        · rw [if_neg hc, if_neg (fun hc2 => hc ⟨by omega, hc2.2⟩)]

end Layout

namespace Layout

theorem del_src_lt {indx x : Nat} (h : x < indx) : del_src indx x = x := by
  unfold del_src; rw [if_pos h]

theorem del_src_ge {indx x : Nat} (h : indx ≤ x) : del_src indx x = x + 1 := by
  unfold del_src; rw [if_neg (by omega)]

/-- What the loop of node_del does to the array `mp_ptrs`. -/
theorem node_del_loop_spec (indx ptr sz : Nat) :
    ∀ (fuel i j : Nat) (ptrs : Nat → Nat),
      ((j = i ∧ i ≤ indx) ∨ (j + 1 = i ∧ indx < i)) →
      (∀ x, i ≤ x → x < i + fuel → x ≠ indx → ptrs x < ptr → ptrs x + sz ≤ 65535) →
      ∃ ptrs2, node_del_loop indx ptr sz fuel i j ptrs = some ptrs2 ∧
        ∀ x, ptrs2 x =
          if j ≤ x ∧ del_src indx x < i + fuel then del_shift ptr sz (ptrs (del_src indx x))
          else ptrs x := by
  intro fuel
  induction fuel with
  | zero =>
    intro i j ptrs hij _
    refine ⟨ptrs, rfl, fun x => ?_⟩
    rw [if_neg]
    intro hc
    by_cases hx : x < indx
    · rw [del_src_lt hx] at hc; omega
    · rw [del_src_ge (by omega)] at hc; omega
  | succ fuel ih =>
    intro i j ptrs hij ha
    unfold node_del_loop
    by_cases hi : i = indx
    · subst hi
      rw [if_neg (by simp)]
      have hj : j = i := by omega
      subst hj
      obtain ⟨ptrs2, h2, h3⟩ := ih (j + 1) j ptrs (Or.inr ⟨rfl, by omega⟩)
        (fun x hx1 hx2 hx3 hx4 => ha x (by omega) (by omega) hx3 hx4)
      refine ⟨ptrs2, h2, fun x => ?_⟩
      rw [h3 x]
      have e : j + 1 + fuel = j + (fuel + 1) := by omega
      rw [e]
    · rw [if_pos hi]
      have hsrc : del_src indx j = i := by
        rcases hij with ⟨h1, h2⟩ | ⟨h1, h2⟩
        · rw [del_src_lt (by omega)]; exact h1
        · rw [del_src_ge (by omega)]; exact h1
      have hji : j ≤ i := by omega
      have hp1 : ∀ v, set_ptr ptrs j v i = if i = j then v else ptrs i := fun v => rfl
      have hinv : (j + 1 = i + 1 ∧ i + 1 ≤ indx) ∨ (j + 1 + 1 = i + 1 ∧ indx < i + 1) := by
        omega
      have hsg : ∀ x, j + 1 ≤ x → i + 1 ≤ del_src indx x := by
        intro x hx
        by_cases hxi : x < indx
        · rw [del_src_lt hxi]; omega
        · rw [del_src_ge (by omega)]; omega
      -- the value read at `i` after the store at `j`
      have hread : set_ptr ptrs j (ptrs i) i = ptrs i := by
        rw [hp1]; split <;> rfl
      simp only [hread]
      have hsame : set_ptr ptrs j (ptrs i) j = ptrs i := by
        unfold set_ptr; rw [if_pos rfl]
      by_cases hlt : ptrs i < ptr
      · have hb := ha i (Nat.le_refl _) (by omega) hi hlt
        rw [if_pos hlt, hsame, if_pos (by omega)]
        have hv : (ptrs i + sz % 65536) % 65536 = ptrs i + sz := by omega
        rw [hv]
        obtain ⟨ptrs2, h2, h3⟩ := ih (i + 1) (j + 1)
          (set_ptr (set_ptr ptrs j (ptrs i)) j (ptrs i + sz)) hinv (by
            intro x hx1 hx2 hx3 hx4
            have e : set_ptr (set_ptr ptrs j (ptrs i)) j (ptrs i + sz) x = ptrs x := by
              unfold set_ptr; rw [if_neg (by omega), if_neg (by omega)]
            rw [e] at hx4 ⊢
            exact ha x (by omega) (by omega) hx3 hx4)
        refine ⟨ptrs2, h2, fun x => ?_⟩
        rw [h3 x]
        by_cases hxj : x = j
        · subst hxj
          rw [if_neg (by omega), if_pos ⟨Nat.le_refl _, by rw [hsrc]; omega⟩, hsrc]
          unfold set_ptr del_shift
          rw [if_pos rfl, if_pos hlt]
        · by_cases hx : j + 1 ≤ x
          · have hs := hsg x hx
            have e : set_ptr (set_ptr ptrs j (ptrs i)) j (ptrs i + sz) (del_src indx x) =
                ptrs (del_src indx x) := by
              unfold set_ptr; rw [if_neg (by omega), if_neg (by omega)]
            have e2 : set_ptr (set_ptr ptrs j (ptrs i)) j (ptrs i + sz) x = ptrs x := by
              unfold set_ptr; rw [if_neg hxj, if_neg hxj]
            rw [e, e2]
            by_cases hc : del_src indx x < i + 1 + fuel
            · rw [if_pos ⟨hx, hc⟩, if_pos ⟨by omega, by omega⟩]
            · rw [if_neg (fun h => hc h.2), if_neg (fun h => hc (by omega))]
          · have e2 : set_ptr (set_ptr ptrs j (ptrs i)) j (ptrs i + sz) x = ptrs x := by
              unfold set_ptr; rw [if_neg hxj, if_neg hxj]
            rw [if_neg (fun h => hx h.1), if_neg (fun h => hx (by omega)), e2]
      · rw [if_neg hlt]
        obtain ⟨ptrs2, h2, h3⟩ := ih (i + 1) (j + 1) (set_ptr ptrs j (ptrs i)) hinv (by
            intro x hx1 hx2 hx3 hx4
            have e : set_ptr ptrs j (ptrs i) x = ptrs x := by
              unfold set_ptr; rw [if_neg (by omega)]
            rw [e] at hx4 ⊢
            exact ha x (by omega) (by omega) hx3 hx4)
        refine ⟨ptrs2, h2, fun x => ?_⟩
        rw [h3 x]
        by_cases hxj : x = j
        · subst hxj
          rw [if_neg (by omega), if_pos ⟨Nat.le_refl _, by rw [hsrc]; omega⟩, hsrc]
          unfold set_ptr del_shift
          rw [if_pos rfl, if_neg hlt]
        · by_cases hx : j + 1 ≤ x
          · have hs := hsg x hx
            have e : set_ptr ptrs j (ptrs i) (del_src indx x) = ptrs (del_src indx x) := by
              unfold set_ptr; rw [if_neg (by omega)]
            have e2 : set_ptr ptrs j (ptrs i) x = ptrs x := by
              unfold set_ptr; rw [if_neg hxj]
            rw [e, e2]
            by_cases hc : del_src indx x < i + 1 + fuel
            · rw [if_pos ⟨hx, hc⟩, if_pos ⟨by omega, by omega⟩]
            · rw [if_neg (fun h => hc h.2), if_neg (fun h => hc (by omega))]
          · have e2 : set_ptr ptrs j (ptrs i) x = ptrs x := by
              unfold set_ptr; rw [if_neg hxj]
            rw [if_neg (fun h => hx h.1), if_neg (fun h => hx (by omega)), e2]

end Layout

namespace Layout

theorem even_le (n : Nat) : n ≤ EVEN n ∧ EVEN n ≤ n + 1 ∧ EVEN n % 2 = 0 := by
  unfold EVEN; omega

theorem node_size_ge (mp : page_t) (node : Nat) :
    NODESIZE + EVEN (mn_ksize16 mp.mem node) ≤ node_size mp node := by
  unfold node_size NODESIZE EVEN
  split
  · split <;> omega
  · omega

theorem get_set_le16 (m : Nat → Nat) (o v : Nat) :
    get_le16 (set_le16 m o v) o = v % 65536 := by
  unfold get_le16 set_le16
  simp only [if_true]
  rw [if_neg (by omega)]
  omega

/-- The finish of update_key stores the length and the bytes of the key. -/
theorem key_mem_eq (m : Nat → Nat) (hb : ∀ o, m o < 256) (node : Nat) (key : List Nat) (o : Nat) :
    (if key.length ≠ 0 then
      memcpy (if mn_ksize16 m node ≠ key.length then
        set_le16 m (node + 6) (key.length % 65536) else m) (NODEKEY node) key
     else
      (if mn_ksize16 m node ≠ key.length then
        set_le16 m (node + 6) (key.length % 65536) else m)) o =
    key_mem m node key o := by
  have h1 : ∀ x, (if mn_ksize16 m node ≠ key.length then
        set_le16 m (node + 6) (key.length % 65536) else m) x =
      set_le16 m (node + 6) (key.length % 65536) x := by
    intro x
    by_cases hk : mn_ksize16 m node ≠ key.length
    · rw [if_pos hk]
    · rw [if_neg hk]
      have hk2 : mn_ksize16 m node = key.length := not_not.mp hk
      unfold mn_ksize16 get_le16 at hk2
      have b1 := hb (node + 6)
      have b2 := hb (node + 6 + 1)
      unfold set_le16
      by_cases hx1 : x = node + 6
      · rw [if_pos hx1, hx1]; omega
      · rw [if_neg hx1]
        by_cases hx2 : x = node + 6 + 1
        · rw [if_pos hx2, hx2]; omega
        · rw [if_neg hx2]
  unfold key_mem
  by_cases hl : key.length ≠ 0
  · rw [if_pos hl]
    unfold memcpy
    by_cases hc : NODEKEY node ≤ o ∧ o < NODEKEY node + key.length
    · rw [if_pos hc, if_pos hc]
    · rw [if_neg hc, if_neg hc, h1]
  · rw [if_neg hl, h1]
    unfold memcpy
    rw [if_neg (by omega)]

end Layout

namespace Layout

theorem node_ptr_ok {L : Nat} {mp : page_t} (hwf : WF L mp) (hn : IS_DFL mp = false)
    {indx : Nat} (hi : indx < page_numkeys mp) :
    node_ptr mp indx = some (mp.mp_ptrs indx) := by
  unfold node_ptr
  have := (hwf.inside hn indx hi).1
  have := hwf.lower_le
  rw [if_pos ⟨hi, by omega⟩]

/-- The in-place path of update_key on a well-formed page: the result. -/
theorem update_key_inplace {L : Nat} {mp : page_t} (hwf : WF L mp) (hn : IS_DFL mp = false)
    (page_split : page_split_t) {indx : Nat} (hi : indx < page_numkeys mp) (key : List Nat)
    (hd : key_delta mp indx key ≤ (mp.mp_upper : Int) - mp.mp_lower) :
    ∃ mp2, update_key page_split mp indx key = some (MDBX_SUCCESS, mp2) ∧
      mp2.mp_lower = mp.mp_lower ∧ mp2.mp_flags16 = mp.mp_flags16 ∧
      mp2.mp_pgno = mp.mp_pgno ∧ mp2.mp_leaf2_ksize16 = mp.mp_leaf2_ksize16 ∧
      (mp2.mp_upper : Int) = mp.mp_upper - key_delta mp indx key ∧
      (∀ x, (mp2.mp_ptrs x : Int) =
        if x < page_numkeys mp ∧ mp.mp_ptrs x ≤ mp.mp_ptrs indx then
          (mp.mp_ptrs x : Int) - key_delta mp indx key
        else mp.mp_ptrs x) ∧
      ∀ o, mp2.mem o =
        key_mem
          (memmove mp.mem ((mp.mp_upper : Int) - key_delta mp indx key).toNat mp.mp_upper
            (mp.mp_ptrs indx + NODESIZE - mp.mp_upper))
          ((mp.mp_ptrs indx : Int) - key_delta mp indx key).toNat key o := by
  have hin := hwf.inside hn indx hi
  have hsz := node_size_ge mp (mp.mp_ptrs indx)
  have hlim := hwf.limit
  have hlow := hwf.lower_le
  have hev1 := even_le key.length
  have hev2 := even_le (mn_ksize16 mp.mem (mp.mp_ptrs indx))
  have hns : NODESIZE = 8 := rfl
  unfold update_key
  rw [node_ptr_ok hwf hn hi]
  simp only
  have hdd : ((EVEN key.length : Nat) : Int) -
      ((EVEN (mn_ksize16 mp.mem (mp.mp_ptrs indx)) : Nat) : Int) = key_delta mp indx key := rfl
  simp only [hdd]
  have hdlo : -(key_delta mp indx key) ≤ (EVEN (mn_ksize16 mp.mem (mp.mp_ptrs indx)) : Nat) := by
    rw [← hdd]; omega
  have hbm : ∀ a b c o, memmove mp.mem a b c o < 256 := by
    intro a b c o
    unfold memmove
    split <;> exact hwf.bytes _
  by_cases hd0 : key_delta mp indx key = 0
  · rw [if_neg (by rw [hd0]; simp)]
    refine ⟨_, rfl, rfl, rfl, rfl, rfl, by simp only; rw [hd0]; simp, ?_, ?_⟩
    · intro x
      simp only
      rw [hd0]
      split <;> simp
    · intro o
      simp only
      rw [key_mem_eq mp.mem hwf.bytes, hd0]
      have e1 : ((mp.mp_ptrs indx : Int) - 0).toNat = mp.mp_ptrs indx := by simp
      have e2 : ((mp.mp_upper : Int) - 0).toNat = mp.mp_upper := by simp
      rw [e1, e2]
      unfold key_mem memcpy set_le16
      have e3 : ∀ y, memmove mp.mem mp.mp_upper mp.mp_upper
          (mp.mp_ptrs indx + NODESIZE - mp.mp_upper) y = mp.mem y := by
        intro y
        unfold memmove
        split
        · congr 1; omega
        · rfl
      simp only [e3]
  · rw [if_pos hd0]
    have hsp : (if key_delta mp indx key > 0 then page_spaceleft mp else some 0) =
        some (if key_delta mp indx key > 0 then mp.mp_upper - mp.mp_lower else 0) := by
      by_cases hp : key_delta mp indx key > 0
      · rw [if_pos hp, if_pos hp]
        unfold page_spaceleft
        have := hwf.upper_le
        rw [if_pos ⟨hlow, by omega⟩]
      · rw [if_neg hp, if_neg hp]
    rw [hsp]
    simp only
    rw [if_neg (by
      intro hc
      rw [if_pos hc.1] at hc
      have := hc.2
      omega)]
    obtain ⟨ptrs2, hl1, hl2⟩ := update_key_loop_spec (mp.mp_ptrs indx) (key_delta mp indx key)
      (page_numkeys mp) 0 mp.mp_ptrs (by
        intro x _ hx _
        have := (hwf.inside hn x (by omega)).1
        omega)
    rw [hl1]
    simp only
    rw [if_neg (by omega), if_neg (by omega)]
    have hup : (((mp.mp_upper : Int) - key_delta mp indx key) % 65536).toNat =
        ((mp.mp_upper : Int) - key_delta mp indx key).toNat := by
      congr 1
      apply Int.emod_eq_of_lt <;> omega
    have hpi : ptrs2 indx = ((mp.mp_ptrs indx : Int) - key_delta mp indx key).toNat := by
      rw [hl2 indx, if_pos ⟨Nat.zero_le _, by omega, Nat.le_refl _⟩]
      congr 1
      apply Int.emod_eq_of_lt <;> omega
    have hnp : ∀ u m, node_ptr
        { mp_leaf2_ksize16 := mp.mp_leaf2_ksize16, mp_flags16 := mp.mp_flags16,
          mp_lower := mp.mp_lower, mp_upper := u, mp_pgno := mp.mp_pgno, mp_ptrs := ptrs2,
          mem := m } indx = some (ptrs2 indx) := by
      intro u m
      unfold node_ptr
      rw [if_pos ⟨hi, by show mp.mp_lower ≤ ptrs2 indx; rw [hpi]; omega⟩]
    rw [hnp]
    simp only
    refine ⟨_, rfl, rfl, rfl, rfl, rfl, ?_, ?_, ?_⟩
    · simp only
      rw [hup]
      omega
    · intro x
      simp only
      rw [hl2 x]
      by_cases hc : x < page_numkeys mp ∧ mp.mp_ptrs x ≤ mp.mp_ptrs indx
      · rw [if_pos ⟨Nat.zero_le _, by omega, hc.2⟩, if_pos hc]
        have := (hwf.inside hn x hc.1).1
        have e : ((mp.mp_ptrs x : Int) - key_delta mp indx key) % 65536 =
            (mp.mp_ptrs x : Int) - key_delta mp indx key := by
          apply Int.emod_eq_of_lt <;> omega
        rw [e]
        omega
      · rw [if_neg (fun h => hc ⟨by omega, h.2.2⟩), if_neg hc]
    · intro o
      simp only
      rw [key_mem_eq _ (hbm _ _ _), hpi]

end Layout

namespace Layout

/-- The result of node_del on a well-formed page with nodes. -/
theorem node_del_nodes {L : Nat} {mp : page_t} (hwf : WF L mp) (hn : IS_DFL mp = false)
    {indx : Nat} (hi : indx < page_numkeys mp) (keysize : Nat) :
    ∃ mp2, node_del mp indx keysize = some mp2 ∧
      mp2.mp_lower + 2 = mp.mp_lower ∧ mp2.mp_flags16 = mp.mp_flags16 ∧
      mp2.mp_upper = mp.mp_upper + node_size mp (mp.mp_ptrs indx) ∧
      (∀ x, mp2.mp_ptrs x =
        if del_src indx x < page_numkeys mp then
          del_shift (mp.mp_ptrs indx) (node_size mp (mp.mp_ptrs indx))
            (mp.mp_ptrs (del_src indx x))
        else mp.mp_ptrs x) ∧
      ∀ o, mp2.mem o =
        memmove mp.mem (mp.mp_upper + node_size mp (mp.mp_ptrs indx)) mp.mp_upper
          (mp.mp_ptrs indx - mp.mp_upper) o := by
  have hin := hwf.inside hn indx hi
  have hlim := hwf.limit
  have hlow := hwf.lower_le
  have hnk := numkeys_eq mp
  unfold node_del
  simp only
  rw [if_neg (not_not.mpr hi), hn]
  simp only [Bool.false_eq_true, if_false]
  rw [node_ptr_ok hwf hn hi]
  simp only
  have hsz : EVEN
      (if IS_LEAF mp = true then
        if node_flags8 mp.mem (mp.mp_ptrs indx) &&& NODE_BIG ≠ 0 then
          NODESIZE + mn_ksize16 mp.mem (mp.mp_ptrs indx) + 4
        else NODESIZE + mn_ksize16 mp.mem (mp.mp_ptrs indx) +
          node_get_datasize mp.mem (mp.mp_ptrs indx)
      else NODESIZE + mn_ksize16 mp.mem (mp.mp_ptrs indx)) =
      node_size mp (mp.mp_ptrs indx) := rfl
  simp only [hsz]
  obtain ⟨ptrs2, hl1, hl2⟩ := node_del_loop_spec indx (mp.mp_ptrs indx)
    (node_size mp (mp.mp_ptrs indx)) (page_numkeys mp) 0 0 mp.mp_ptrs
    (Or.inl ⟨rfl, Nat.zero_le _⟩) (by
      intro x _ hx hxi hlt
      have hx2 : x < page_numkeys mp := by omega
      rcases hwf.apart hn x indx hx2 hi hxi with h | h
      · omega
      · omega)
  rw [hl1]
  simp only
  rw [if_neg (by omega), if_neg (by omega), if_neg (by omega)]
  refine ⟨_, rfl, ?_, rfl, ?_, ?_, ?_⟩
  · simp only; omega
  · simp only; omega
  · intro x
    simp only
    rw [hl2 x]
    by_cases hc : del_src indx x < page_numkeys mp
    · rw [if_pos ⟨Nat.zero_le _, by omega⟩, if_pos hc]
    · rw [if_neg (fun h => hc (by omega)), if_neg hc]
  · intro o
    rfl

/-- The result of node_del on a well-formed dense-fixed page. -/
theorem node_del_packed {L : Nat} {mp : page_t} (hwf : WF L mp) (hn : IS_DFL mp = true)
    {indx : Nat} (hi : indx < page_numkeys mp) :
    ∃ mp2, node_del mp indx mp.mp_leaf2_ksize16 = some mp2 ∧
      mp2.mp_lower + 2 = mp.mp_lower ∧ mp2.mp_flags16 = mp.mp_flags16 ∧
      mp2.mp_leaf2_ksize16 = mp.mp_leaf2_ksize16 ∧
      mp2.mp_upper = mp.mp_upper + (mp.mp_leaf2_ksize16 - 2) := by
  have hp := hwf.packed hn
  have hlim := hwf.limit
  have hnk := numkeys_eq mp
  have hmul : mp.mp_leaf2_ksize16 - 2 ≤ page_numkeys mp * (mp.mp_leaf2_ksize16 - 2) :=
    Nat.le_mul_of_pos_left _ (by omega)
  unfold node_del
  simp only
  rw [if_neg (not_not.mpr hi), hn]
  simp only [if_true]
  rw [if_neg (by omega), if_neg (by omega), if_neg (by omega)]
  refine ⟨_, rfl, ?_, rfl, rfl, ?_⟩
  · simp only; omega
  · simp only; omega

end Layout

namespace Layout

theorem memmove_in (m : Nat → Nat) {dst src len o : Nat} (h : dst ≤ o ∧ o < dst + len) :
    memmove m dst src len o = m (o - dst + src) := by
  unfold memmove; rw [if_pos h]

theorem memmove_out (m : Nat → Nat) {dst src len o : Nat} (h : o < dst ∨ dst + len ≤ o) :
    memmove m dst src len o = m o := by
  unfold memmove; rw [if_neg (by omega)]

theorem set_le16_out (m : Nat → Nat) {o v x : Nat} (h : x < o ∨ o + 2 ≤ x) :
    set_le16 m o v x = m x := by
  unfold set_le16; rw [if_neg (by omega), if_neg (by omega)]

theorem set_le32_out (m : Nat → Nat) {o v x : Nat} (h : x < o ∨ o + 4 ≤ x) :
    set_le32 m o v x = m x := by
  unfold set_le32; rw [if_neg (by omega), if_neg (by omega), if_neg (by omega), if_neg (by omega)]

theorem get_set_le32 (m : Nat → Nat) (o v : Nat) :
    get_le32 (set_le32 m o v) o = v % 4294967296 := by
  unfold get_le32 set_le32
  simp only [if_true]
  rw [if_neg (by omega), if_neg (by omega), if_neg (by omega), if_neg (by omega),
    if_neg (by omega), if_neg (by omega)]
  omega

theorem get_le16_lt (m : Nat → Nat) (hb : ∀ o, m o < 256) (o : Nat) : get_le16 m o < 65536 := by
  unfold get_le16
  have := hb o
  have := hb (o + 1)
  omega

theorem get_le32_lt (m : Nat → Nat) (hb : ∀ o, m o < 256) (o : Nat) :
    get_le32 m o < 4294967296 := by
  unfold get_le32
  have := hb o
  have := hb (o + 1)
  have := hb (o + 2)
  have := hb (o + 3)
  omega

/-- The first loop of node_shrink runs through and leaves the bytes below the
array of the destination sub-page alone. -/
theorem node_shrink_subloop_spec (sp xp delta : Nat) (hx : sp ≤ xp) :
    ∀ (n : Nat) (m : Nat → Nat),
      (∀ i, i < n → delta ≤ get_le16 m (sp + PAGEHDRSZ + 2 * i)) →
      ∃ m2, node_shrink_subloop sp xp delta n m = some m2 ∧
        ∀ o, o < xp + PAGEHDRSZ → m2 o = m o := by
  intro n
  induction n with
  | zero =>
    intro m _
    exact ⟨m, rfl, fun _ _ => rfl⟩
  | succ n ih =>
    intro m ha
    unfold node_shrink_subloop
    rw [if_pos (ha n (by omega))]
    obtain ⟨m2, h1, h2⟩ := ih
      (set_le16 m (xp + PAGEHDRSZ + 2 * n) (get_le16 m (sp + PAGEHDRSZ + 2 * n) - delta)) (by
        intro i hi
        have e : get_le16 (set_le16 m (xp + PAGEHDRSZ + 2 * n)
            (get_le16 m (sp + PAGEHDRSZ + 2 * n) - delta)) (sp + PAGEHDRSZ + 2 * i) =
            get_le16 m (sp + PAGEHDRSZ + 2 * i) := by
          unfold get_le16
          rw [set_le16_out _ (by omega), set_le16_out _ (by omega)]
        rw [e]
        exact ha i (by omega))
    refine ⟨m2, h1, fun o ho => ?_⟩
    rw [h2 o ho, set_le16_out _ (by omega)]

end Layout

namespace Layout

theorem get_le16_set_le32 (f : Nat → Nat) {o v a : Nat} (h : a + 2 ≤ o ∨ o + 4 ≤ a) :
    get_le16 (set_le32 f o v) a = get_le16 f a := by
  unfold get_le16
  rw [set_le32_out _ (by omega), set_le32_out _ (by omega)]

theorem get_le16_set_le16 (f : Nat → Nat) {o v a : Nat} (h : a + 2 ≤ o ∨ o + 2 ≤ a) :
    get_le16 (set_le16 f o v) a = get_le16 f a := by
  unfold get_le16
  rw [set_le16_out _ (by omega), set_le16_out _ (by omega)]

theorem get_le16_congr {f g : Nat → Nat} {a : Nat} (h : ∀ o, a ≤ o → o < a + 2 → f o = g o) :
    get_le16 f a = get_le16 g a := by
  unfold get_le16
  rw [h a (by omega) (by omega), h (a + 1) (by omega) (by omega)]

theorem get_le32_congr {f g : Nat → Nat} {a : Nat} (h : ∀ o, a ≤ o → o < a + 4 → f o = g o) :
    get_le32 f a = get_le32 g a := by
  unfold get_le32
  rw [h a (by omega) (by omega), h (a + 1) (by omega) (by omega),
    h (a + 2) (by omega) (by omega), h (a + 3) (by omega) (by omega)]

/-- A 16-bit value read where memmove has put it. -/
theorem get_le16_memmove (f : Nat → Nat) {dst src len a : Nat}
    (h : src ≤ a ∧ a + 2 ≤ src + len) :
    get_le16 (memmove f dst src len) (a - src + dst) = get_le16 f a := by
  unfold get_le16
  have e0 : memmove f dst src len (a - src + dst) = f a := by
    rw [memmove_in f (by omega)]; congr 1; omega
  have e1 : memmove f dst src len (a - src + dst + 1) = f (a + 1) := by
    rw [memmove_in f (by omega)]; congr 1; omega
  rw [e0, e1]

/-- A 32-bit value read where memmove has put it. -/
theorem get_le32_memmove (f : Nat → Nat) {dst src len a : Nat}
    (h : src ≤ a ∧ a + 4 ≤ src + len) :
    get_le32 (memmove f dst src len) (a - src + dst) = get_le32 f a := by
  unfold get_le32
  have e0 : memmove f dst src len (a - src + dst) = f a := by
    rw [memmove_in f (by omega)]; congr 1; omega
  have e1 : memmove f dst src len (a - src + dst + 1) = f (a + 1) := by
    rw [memmove_in f (by omega)]; congr 1; omega
  have e2 : memmove f dst src len (a - src + dst + 2) = f (a + 2) := by
    rw [memmove_in f (by omega)]; congr 1; omega
  have e3 : memmove f dst src len (a - src + dst + 3) = f (a + 3) := by
    rw [memmove_in f (by omega)]; congr 1; omega
  rw [e0, e1, e2, e3]

/-- The header of the node and of its sub-page after the stores and the copy
of node_shrink. -/
theorem shrink_reads (m mem1 : Nat → Nat) (hb : ∀ o, m o < 256)
    (node sp delta len upper pgno nsize : Nat)
    (h1 : ∀ o, o < sp + delta + PAGEHDRSZ → mem1 o = m o) (hlen : 20 ≤ len)
    (hup : upper ≤ node) (hsp : node + 8 ≤ sp) (hnsz : nsize < 4294967296) :
    get_le16 (memmove (set_le32 (set_le32 (set_le16 mem1 (sp + 14) (get_le16 mem1 (sp + 12)))
        (sp + 16) pgno) node nsize) (upper + delta) upper (sp + len - upper))
        (node + delta + 6) = get_le16 m (node + 6) ∧
    get_le32 (memmove (set_le32 (set_le32 (set_le16 mem1 (sp + 14) (get_le16 mem1 (sp + 12)))
        (sp + 16) pgno) node nsize) (upper + delta) upper (sp + len - upper))
        (node + delta) = nsize ∧
    get_le16 (memmove (set_le32 (set_le32 (set_le16 mem1 (sp + 14) (get_le16 mem1 (sp + 12)))
        (sp + 16) pgno) node nsize) (upper + delta) upper (sp + len - upper))
        (sp + delta + 12) = get_le16 m (sp + 12) ∧
    get_le16 (memmove (set_le32 (set_le32 (set_le16 mem1 (sp + 14) (get_le16 mem1 (sp + 12)))
        (sp + 16) pgno) node nsize) (upper + delta) upper (sp + len - upper))
        (sp + delta + 14) = get_le16 m (sp + 12) := by
  have hph : PAGEHDRSZ = 20 := rfl
  have e12 : get_le16 mem1 (sp + 12) = get_le16 m (sp + 12) :=
    get_le16_congr (fun o _ _ => h1 o (by omega))
  refine ⟨?_, ?_, ?_, ?_⟩
  · have a1 : node + delta + 6 = (node + 6) - upper + (upper + delta) := by omega
    rw [a1, get_le16_memmove _ (by omega), get_le16_set_le32 _ (by omega),
      get_le16_set_le32 _ (by omega), get_le16_set_le16 _ (by omega)]
    exact get_le16_congr (fun o _ _ => h1 o (by omega))
  · have a1 : node + delta = node - upper + (upper + delta) := by omega
    rw [a1, get_le32_memmove _ (by omega), get_set_le32]
    omega
  · have a1 : sp + delta + 12 = (sp + 12) - upper + (upper + delta) := by omega
    rw [a1, get_le16_memmove _ (by omega), get_le16_set_le32 _ (by omega),
      get_le16_set_le32 _ (by omega), get_le16_set_le16 _ (by omega)]
    exact e12
  · have a1 : sp + delta + 14 = (sp + 14) - upper + (upper + delta) := by omega
    rw [a1, get_le16_memmove _ (by omega), get_le16_set_le32 _ (by omega),
      get_le16_set_le32 _ (by omega), get_set_le16, e12]
    have := get_le16_lt m hb (sp + 12)
    omega

end Layout

namespace Layout

/-- The result of node_shrink on the node of a well-formed leaf page that holds
a well-formed sub-page. -/
theorem node_shrink_spec {L : Nat} {mp : page_t} (hwf : WF L mp) (hn : IS_DFL mp = false)
    {indx : Nat} (hi : indx < page_numkeys mp) (hs : SubWF mp indx) :
    ∃ mp2, node_shrink mp indx = some mp2 ∧
      ((F_ISSET (sub_flags mp indx) P_DFL = true ∧
          (node_get_datasize mp.mem (mp.mp_ptrs indx) -
            (sub_upper mp indx - sub_lower mp indx)) % 2 = 1 ∧ mp2 = mp) ∨
        (mp2.mp_lower = mp.mp_lower ∧ mp2.mp_flags16 = mp.mp_flags16 ∧
          mp2.mp_upper = mp.mp_upper + (sub_upper mp indx - sub_lower mp indx) ∧
          (∀ x, mp2.mp_ptrs x =
            if x < page_numkeys mp ∧ mp.mp_ptrs x ≤ mp.mp_ptrs indx then
              mp.mp_ptrs x + (sub_upper mp indx - sub_lower mp indx)
            else mp.mp_ptrs x) ∧
          mn_ksize16 mp2.mem (mp2.mp_ptrs indx) = mn_ksize16 mp.mem (mp.mp_ptrs indx) ∧
          node_get_datasize mp2.mem (mp2.mp_ptrs indx) =
            node_get_datasize mp.mem (mp.mp_ptrs indx) -
              (sub_upper mp indx - sub_lower mp indx) ∧
          sub_lower mp2 indx = sub_lower mp indx ∧ sub_upper mp2 indx = sub_lower mp indx)) := by
  have hin := hwf.inside hn indx hi
  have hlim := hwf.limit
  have hlow := hwf.lower_le
  have hph : PAGEHDRSZ = 20 := rfl
  have hns : NODESIZE = 8 := rfl
  have hds := get_le32_lt mp.mem hwf.bytes (mp.mp_ptrs indx)
  have hsl := hs.lower_le
  have hsu := hs.upper_le
  have hsize : node_size mp (mp.mp_ptrs indx) =
      EVEN (NODESIZE + mn_ksize16 mp.mem (mp.mp_ptrs indx) +
        node_get_datasize mp.mem (mp.mp_ptrs indx)) := by
    unfold node_size
    rw [if_pos hs.leaf, if_neg (by rw [hs.plain]; simp)]
  have hev := even_le (NODESIZE + mn_ksize16 mp.mem (mp.mp_ptrs indx) +
        node_get_datasize mp.mem (mp.mp_ptrs indx))
  have hsz := node_size_ge mp (mp.mp_ptrs indx)
  have hsp : NODEDATA mp.mem (mp.mp_ptrs indx) = subpage_at mp indx := rfl
  have hspv : subpage_at mp indx = mp.mp_ptrs indx + 8 + mn_ksize16 mp.mem (mp.mp_ptrs indx) := rfl
  have e12 : get_le16 mp.mem (subpage_at mp indx + 12) = sub_lower mp indx := rfl
  have e14 : get_le16 mp.mem (subpage_at mp indx + 14) = sub_upper mp indx := rfl
  have e10 : get_le16 mp.mem (subpage_at mp indx + 10) = sub_flags mp indx := rfl
  have hnsz : (node_get_datasize mp.mem (mp.mp_ptrs indx) +
      (2 ^ 64 - (sub_upper mp indx - sub_lower mp indx))) % 2 ^ 64 =
      node_get_datasize mp.mem (mp.mp_ptrs indx) - (sub_upper mp indx - sub_lower mp indx) := by
    omega
  -- the part of node_shrink after the first loop
  have tail : ∀ (mem1 : Nat → Nat) (len : Nat),
      (∀ o, o < subpage_at mp indx + (sub_upper mp indx - sub_lower mp indx) + PAGEHDRSZ →
        mem1 o = mp.mem o) → 20 ≤ len →
      ∃ mp2,
        (if ¬ node_get_datasize mp.mem (mp.mp_ptrs indx) -
              (sub_upper mp indx - sub_lower mp indx) < 2147483647 then none
          else
            if subpage_at mp indx + len < mp.mp_upper ∨
                mp.mp_upper + (sub_upper mp indx - sub_lower mp indx) < mp.mp_lower then none
            else
              match node_shrink_loop (mp.mp_ptrs indx) (sub_upper mp indx - sub_lower mp indx)
                  (page_numkeys mp) mp.mp_ptrs with
              | none => none
              | some ptrs =>
                if ¬ 65535 - mp.mp_upper ≥ sub_upper mp indx - sub_lower mp indx then none
                else
                  some
                    { mp_leaf2_ksize16 := mp.mp_leaf2_ksize16, mp_flags16 := mp.mp_flags16,
                      mp_lower := mp.mp_lower,
                      mp_upper := (mp.mp_upper +
                        (sub_upper mp indx - sub_lower mp indx) % 65536) % 65536,
                      mp_pgno := mp.mp_pgno, mp_ptrs := ptrs,
                      mem :=
                        memmove
                          (set_le32
                            (set_le32
                              (set_le16 mem1 (subpage_at mp indx + 14)
                                (get_le16 mem1 (subpage_at mp indx + 12)))
                              (subpage_at mp indx + 16) mp.mp_pgno)
                            (mp.mp_ptrs indx)
                            (node_get_datasize mp.mem (mp.mp_ptrs indx) -
                              (sub_upper mp indx - sub_lower mp indx)))
                          (mp.mp_upper + (sub_upper mp indx - sub_lower mp indx)) mp.mp_upper
                          (subpage_at mp indx + len - mp.mp_upper) }) = some mp2 ∧
        (mp2.mp_lower = mp.mp_lower ∧ mp2.mp_flags16 = mp.mp_flags16 ∧
          mp2.mp_upper = mp.mp_upper + (sub_upper mp indx - sub_lower mp indx) ∧
          (∀ x, mp2.mp_ptrs x =
            if x < page_numkeys mp ∧ mp.mp_ptrs x ≤ mp.mp_ptrs indx then
              mp.mp_ptrs x + (sub_upper mp indx - sub_lower mp indx)
            else mp.mp_ptrs x) ∧
          mn_ksize16 mp2.mem (mp2.mp_ptrs indx) = mn_ksize16 mp.mem (mp.mp_ptrs indx) ∧
          node_get_datasize mp2.mem (mp2.mp_ptrs indx) =
            node_get_datasize mp.mem (mp.mp_ptrs indx) -
              (sub_upper mp indx - sub_lower mp indx) ∧
          sub_lower mp2 indx = sub_lower mp indx ∧ sub_upper mp2 indx = sub_lower mp indx) := by
    intro mem1 len h1 hlen
    rw [if_neg (by omega), if_neg (by omega)]
    obtain ⟨ptrs2, hl1, hl2⟩ := node_shrink_loop_spec (mp.mp_ptrs indx)
      (sub_upper mp indx - sub_lower mp indx) (page_numkeys mp) mp.mp_ptrs (by
        intro x _ hx
        omega)
    rw [hl1]
    simp only
    rw [if_neg (by omega)]
    have hpi : ptrs2 indx = mp.mp_ptrs indx + (sub_upper mp indx - sub_lower mp indx) := by
      rw [hl2 indx, if_pos ⟨hi, Nat.le_refl _⟩]
    obtain ⟨r1, r2, r3, r4⟩ := shrink_reads mp.mem mem1 hwf.bytes (mp.mp_ptrs indx)
      (subpage_at mp indx) (sub_upper mp indx - sub_lower mp indx) len mp.mp_upper mp.mp_pgno
      (node_get_datasize mp.mem (mp.mp_ptrs indx) - (sub_upper mp indx - sub_lower mp indx))
      h1 hlen hin.1 (by omega) (by omega)
    have hk : mn_ksize16
        (memmove
          (set_le32
            (set_le32
              (set_le16 mem1 (subpage_at mp indx + 14) (get_le16 mem1 (subpage_at mp indx + 12)))
              (subpage_at mp indx + 16) mp.mp_pgno)
            (mp.mp_ptrs indx)
            (node_get_datasize mp.mem (mp.mp_ptrs indx) -
              (sub_upper mp indx - sub_lower mp indx)))
          (mp.mp_upper + (sub_upper mp indx - sub_lower mp indx)) mp.mp_upper
          (subpage_at mp indx + len - mp.mp_upper)) (ptrs2 indx) =
        mn_ksize16 mp.mem (mp.mp_ptrs indx) := by
      rw [hpi]; exact r1
    refine ⟨_, rfl, rfl, rfl, ?_, ?_, hk, ?_, ?_, ?_⟩
    · simp only; omega
    · intro x; simp only; rw [hl2 x]
    · simp only; rw [hpi]; exact r2
    · show get_le16 _ (NODEDATA _ (ptrs2 indx) + 12) = _
      unfold NODEDATA
      rw [hk, hpi]
      have a : mp.mp_ptrs indx + (sub_upper mp indx - sub_lower mp indx) + NODESIZE +
          mn_ksize16 mp.mem (mp.mp_ptrs indx) + 12 =
          subpage_at mp indx + (sub_upper mp indx - sub_lower mp indx) + 12 := by omega
      rw [a]; exact r3
    · show get_le16 _ (NODEDATA _ (ptrs2 indx) + 14) = _
      unfold NODEDATA
      rw [hk, hpi]
      have a : mp.mp_ptrs indx + (sub_upper mp indx - sub_lower mp indx) + NODESIZE +
          mn_ksize16 mp.mem (mp.mp_ptrs indx) + 14 =
          subpage_at mp indx + (sub_upper mp indx - sub_lower mp indx) + 14 := by omega
      rw [a]; exact r4
  unfold node_shrink
  rw [node_ptr_ok hwf hn hi]
  simp only [hsp, e12, e14, e10, hnsz]
  rw [if_neg (not_not.mpr hsl)]
  by_cases hdfl : F_ISSET (sub_flags mp indx) P_DFL = true
  · by_cases hodd : (node_get_datasize mp.mem (mp.mp_ptrs indx) -
        (sub_upper mp indx - sub_lower mp indx)) % 2 = 1
    · rw [if_pos ⟨hdfl, hodd⟩]
      exact ⟨mp, rfl, Or.inl ⟨hdfl, hodd, rfl⟩⟩
    · rw [if_neg (fun h => hodd h.2)]
      simp only [hdfl, if_true]
      obtain ⟨mp2, h2, h3⟩ := tail mp.mem (node_get_datasize mp.mem (mp.mp_ptrs indx) -
        (sub_upper mp indx - sub_lower mp indx)) (fun _ _ => rfl) (by omega)
      exact ⟨mp2, h2, Or.inr h3⟩
  · rw [if_neg (fun h => hdfl h.1)]
    simp only [hdfl, if_false]
    obtain ⟨m2, hm1, hm2⟩ := node_shrink_subloop_spec (subpage_at mp indx)
      (subpage_at mp indx + (sub_upper mp indx - sub_lower mp indx))
      (sub_upper mp indx - sub_lower mp indx) (by omega) (sub_lower mp indx >>> 1) mp.mem (by
        intro i hi2
        have := hs.inside (by simpa using hdfl) i hi2
        omega)
    rw [hm1]
    simp only [Option.map]
    obtain ⟨mp2, h2, h3⟩ := tail m2 PAGEHDRSZ hm2 (by omega)
    exact ⟨mp2, h2, Or.inr h3⟩

end Layout

namespace Layout

theorem shelf_wf : WF 64 shelf := by
  have hn : page_numkeys shelf = 2 := by decide
  refine ⟨by decide, ?_, by decide, by decide, by decide, ?_, ?_, ?_⟩
  · intro o
    show shelf_bytes.getD o 0 < 256
    by_cases h : o < 64
    · revert o; decide
    · rw [List.getD_eq_default _ _ (by simpa [shelf_bytes] using h)]
      decide
  · intro _ i hi
    rw [hn] at hi
    interval_cases i <;> decide
  · intro _ i j hi hj hij
    rw [hn] at hi hj
    interval_cases i <;> interval_cases j <;> first | exact absurd rfl hij | decide
  · intro h
    exact absurd h (by decide)

theorem shelf_sub : SubWF shelf 0 := by
  refine ⟨by decide, by decide, by decide, by decide, ?_⟩
  intro _ i hi
  have hn : sub_lower shelf 0 >>> 1 = 1 := by decide
  rw [hn] at hi
  interval_cases i
  decide

end Layout

namespace Layout

/-- C27: on a well-formed page (`WF`, with `mp_lower ≤ mp_upper ≤ L`, `L` the
page size less the header), each of node_del on any valid index, the in-place
path of update_key (the growth of the even-rounded key length is not larger
than the free space) and node_shrink on a node that holds a well-formed
sub-page returns and leaves the page with `mp_lower ≤ mp_upper ≤ L`, the new
bounds being the old ones less 2, plus the size of the node, less the growth,
plus the free space of the sub-page, without 16-bit wrap-around; the sub-page
that node_shrink has compacted has `mp_lower ≤ mp_upper` within its new
size. -/
theorem C27_bounds (L : Nat) (mp : page_t) (hwf : WF L mp) :
    (∀ indx keysize, indx < page_numkeys mp →
      (IS_DFL mp = true → keysize = mp.mp_leaf2_ksize16) →
      ∃ mp2, node_del mp indx keysize = some mp2 ∧
        mp2.mp_lower + 2 = mp.mp_lower ∧
        mp2.mp_upper = mp.mp_upper +
          (if IS_DFL mp then keysize - 2 else node_size mp (mp.mp_ptrs indx)) ∧
        mp2.mp_lower ≤ mp2.mp_upper ∧ mp2.mp_upper ≤ L) ∧
    (∀ (page_split : page_split_t) indx key, IS_DFL mp = false → indx < page_numkeys mp →
      key_delta mp indx key ≤ (mp.mp_upper : Int) - mp.mp_lower →
      ∃ mp2, update_key page_split mp indx key = some (MDBX_SUCCESS, mp2) ∧
        mp2.mp_lower = mp.mp_lower ∧
        (mp2.mp_upper : Int) = mp.mp_upper - key_delta mp indx key ∧
        mp2.mp_lower ≤ mp2.mp_upper ∧ mp2.mp_upper ≤ L) ∧
    (∀ indx, IS_DFL mp = false → indx < page_numkeys mp → SubWF mp indx →
      ∃ mp2, node_shrink mp indx = some mp2 ∧
        mp2.mp_lower = mp.mp_lower ∧
        (mp2.mp_upper = mp.mp_upper ∨
          mp2.mp_upper = mp.mp_upper + (sub_upper mp indx - sub_lower mp indx)) ∧
        mp2.mp_lower ≤ mp2.mp_upper ∧ mp2.mp_upper ≤ L ∧
        sub_lower mp2 indx ≤ sub_upper mp2 indx ∧
        PAGEHDRSZ + sub_upper mp2 indx ≤ node_get_datasize mp2.mem (mp2.mp_ptrs indx)) := by
  have hlow := hwf.lower_le
  have hupl := hwf.upper_le
  refine ⟨?_, ?_, ?_⟩
  · intro indx keysize hi hks
    cases hn : IS_DFL mp with
    | true =>
      rw [hks hn]
      obtain ⟨mp2, h1, h2, _, _, h5⟩ := node_del_packed hwf hn hi
      have hp := hwf.packed hn
      have hmul : mp.mp_leaf2_ksize16 - 2 ≤ page_numkeys mp * (mp.mp_leaf2_ksize16 - 2) :=
        Nat.le_mul_of_pos_left _ (by omega)
      refine ⟨mp2, h1, h2, by simpa using h5, by omega, by omega⟩
    | false =>
      obtain ⟨mp2, h1, h2, _, h4, _, _⟩ := node_del_nodes hwf hn hi keysize
      have hin := hwf.inside hn indx hi
      refine ⟨mp2, h1, h2, by simpa using h4, by omega, by omega⟩
  · intro page_split indx key hn hi hd
    obtain ⟨mp2, h1, h2, _, _, _, h6, _, _⟩ := update_key_inplace hwf hn page_split hi key hd
    have hin := hwf.inside hn indx hi
    have hsz := node_size_ge mp (mp.mp_ptrs indx)
    have hev1 := even_le key.length
    have hdlo : -(key_delta mp indx key) ≤
        (EVEN (mn_ksize16 mp.mem (mp.mp_ptrs indx)) : Nat) := by
      unfold key_delta; omega
    have hns : NODESIZE = 8 := rfl
    refine ⟨mp2, h1, h2, h6, by omega, by omega⟩
  · intro indx hn hi hs
    obtain ⟨mp2, h1, h2⟩ := node_shrink_spec hwf hn hi hs
    have hin := hwf.inside hn indx hi
    have hsl := hs.lower_le
    have hsu := hs.upper_le
    have hph : PAGEHDRSZ = 20 := rfl
    have hns : NODESIZE = 8 := rfl
    have hsize : node_size mp (mp.mp_ptrs indx) =
        EVEN (NODESIZE + mn_ksize16 mp.mem (mp.mp_ptrs indx) +
          node_get_datasize mp.mem (mp.mp_ptrs indx)) := by
      unfold node_size
      rw [if_pos hs.leaf, if_neg (by rw [hs.plain]; simp)]
    have hev := even_le (NODESIZE + mn_ksize16 mp.mem (mp.mp_ptrs indx) +
          node_get_datasize mp.mem (mp.mp_ptrs indx))
    rcases h2 with ⟨_, _, h3⟩ | ⟨h3, _, h5, _, _, h8, h9, h10⟩
    · subst h3
      exact ⟨mp2, h1, rfl, Or.inl rfl, hlow, hupl, hsl, hsu⟩
    · refine ⟨mp2, h1, h3, Or.inr h5, by omega, by omega, by omega, by omega⟩

theorem C27_bounds_witness :
    (∃ mp2, node_del shelf 1 0 = some mp2 ∧ mp2.mp_lower = 2 ∧ mp2.mp_upper = 18) ∧
    (∃ mp2, update_key no_split shelf 1 [98, 98, 98, 98] = some (MDBX_SUCCESS, mp2) ∧
      mp2.mp_lower = 4 ∧ mp2.mp_upper = 4) ∧
    (∃ mp2, node_shrink shelf 0 = some mp2 ∧ mp2.mp_lower = 4 ∧ mp2.mp_upper = 10 ∧
      sub_lower mp2 0 = 2 ∧ sub_upper mp2 0 = 2 ∧
      node_get_datasize mp2.mem (mp2.mp_ptrs 0) = 32) ∧
    ((∃ mp2, node_del shelf 1 0 = some mp2 ∧
        mp2.mp_lower + 2 = shelf.mp_lower ∧
        mp2.mp_upper = shelf.mp_upper +
          (if IS_DFL shelf then 0 - 2 else node_size shelf (shelf.mp_ptrs 1)) ∧
        mp2.mp_lower ≤ mp2.mp_upper ∧ mp2.mp_upper ≤ 64) ∧
      (∃ mp2, update_key no_split shelf 1 [98, 98, 98, 98] = some (MDBX_SUCCESS, mp2) ∧
        mp2.mp_lower = shelf.mp_lower ∧
        (mp2.mp_upper : Int) = shelf.mp_upper - key_delta shelf 1 [98, 98, 98, 98] ∧
        mp2.mp_lower ≤ mp2.mp_upper ∧ mp2.mp_upper ≤ 64) ∧
      (∃ mp2, node_shrink shelf 0 = some mp2 ∧
        mp2.mp_lower = shelf.mp_lower ∧
        (mp2.mp_upper = shelf.mp_upper ∨
          mp2.mp_upper = shelf.mp_upper + (sub_upper shelf 0 - sub_lower shelf 0)) ∧
        mp2.mp_lower ≤ mp2.mp_upper ∧ mp2.mp_upper ≤ 64 ∧
        sub_lower mp2 0 ≤ sub_upper mp2 0 ∧
        PAGEHDRSZ + sub_upper mp2 0 ≤ node_get_datasize mp2.mem (mp2.mp_ptrs 0))) :=
  ⟨⟨_, rfl, by decide, by decide⟩, ⟨_, rfl, by decide, by decide⟩,
    ⟨_, rfl, by decide, by decide, by decide, by decide, by decide⟩,
    (C27_bounds 64 shelf shelf_wf).1 1 0 (by decide) (fun h => absurd h (by decide)),
    (C27_bounds 64 shelf shelf_wf).2.1 no_split 1 [98, 98, 98, 98] (by decide) (by decide)
      (by decide),
    (C27_bounds 64 shelf shelf_wf).2.2 0 (by decide) (by decide) shelf_sub⟩

end Layout

namespace Layout

theorem C28_counterexample_below_upper :
    (∀ i, i < page_numkeys low_page →
      PAGEHDRSZ ≤ low_page.mp_ptrs i ∧ low_page.mp_ptrs i < low_page.mp_upper) ∧
    low_page.mp_lower ≤ low_page.mp_upper ∧
    key_delta low_page 0 [1, 2] = 2 ∧
    ∃ mp2, update_key no_split low_page 0 [1, 2] = some (MDBX_SUCCESS, mp2) ∧
      page_numkeys mp2 = 2 ∧ mp2.mp_upper = 40 ∧ mp2.mp_ptrs 1 = 40 ∧
      ¬ (mp2.mp_ptrs 1 < mp2.mp_upper) := by
  refine ⟨?_, by decide, by decide, _, rfl, by decide, by decide, by decide, by decide⟩
  intro i hi
  have hn : page_numkeys low_page = 2 := by decide
  rw [hn] at hi
  interval_cases i <;> decide

/-- C28, amended: on a well-formed branch or leaf page (`WF`: every node lies
within `[mp_upper, L)`, `L` the page size less the header, and no two nodes
overlap), after node_del on any valid index and after the in-place path of
update_key every remaining entry of the array `mp_ptrs` lies within
`[mp_upper, L)` for the new `mp_upper` of the page. -/
theorem C28_offsets (L : Nat) (mp : page_t) (hwf : WF L mp) (hn : IS_DFL mp = false) :
    (∀ indx keysize, indx < page_numkeys mp →
      ∃ mp2, node_del mp indx keysize = some mp2 ∧
        page_numkeys mp2 + 1 = page_numkeys mp ∧
        ∀ i, i < page_numkeys mp2 → mp2.mp_upper ≤ mp2.mp_ptrs i ∧ mp2.mp_ptrs i < L) ∧
    (∀ (page_split : page_split_t) indx key, indx < page_numkeys mp →
      key_delta mp indx key ≤ (mp.mp_upper : Int) - mp.mp_lower →
      ∃ mp2, update_key page_split mp indx key = some (MDBX_SUCCESS, mp2) ∧
        page_numkeys mp2 = page_numkeys mp ∧
        ∀ i, i < page_numkeys mp2 → mp2.mp_upper ≤ mp2.mp_ptrs i ∧ mp2.mp_ptrs i < L) := by
  have hns : NODESIZE = 8 := rfl
  refine ⟨?_, ?_⟩
  · intro indx keysize hi
    obtain ⟨mp2, h1, h2, _, h4, h5, _⟩ := node_del_nodes hwf hn hi keysize
    have hk1 := numkeys_eq mp
    have hk2 := numkeys_eq mp2
    have hle := hwf.lower_even
    have hin := hwf.inside hn indx hi
    have hsz := node_size_ge mp (mp.mp_ptrs indx)
    refine ⟨mp2, h1, by omega, ?_⟩
    intro i hi2
    have hs : del_src indx i < page_numkeys mp ∧ del_src indx i ≠ indx := by
      by_cases hx : i < indx
      · rw [del_src_lt hx]; omega
      · rw [del_src_ge (by omega)]; omega
    have hin2 := hwf.inside hn _ hs.1
    have hsz2 := node_size_ge mp (mp.mp_ptrs (del_src indx i))
    have hap := hwf.apart hn _ _ hs.1 hi hs.2
    rw [h5 i, if_pos hs.1, h4]
    unfold del_shift
    by_cases hlt : mp.mp_ptrs (del_src indx i) < mp.mp_ptrs indx
    · rw [if_pos hlt]; omega
    · rw [if_neg hlt]; omega
  · intro page_split indx key hi hd
    obtain ⟨mp2, h1, h2, _, _, _, h6, h7, _⟩ := update_key_inplace hwf hn page_split hi key hd
    have hk1 := numkeys_eq mp
    have hk2 := numkeys_eq mp2
    have hin := hwf.inside hn indx hi
    have hsz := node_size_ge mp (mp.mp_ptrs indx)
    have hev1 := even_le key.length
    have hdlo : -(key_delta mp indx key) ≤
        (EVEN (mn_ksize16 mp.mem (mp.mp_ptrs indx)) : Nat) := by
      unfold key_delta; omega
    refine ⟨mp2, h1, by omega, ?_⟩
    intro i hi2
    have hi3 : i < page_numkeys mp := by omega
    have hin2 := hwf.inside hn i hi3
    have hsz2 := node_size_ge mp (mp.mp_ptrs i)
    have h7i := h7 i
    by_cases hc : mp.mp_ptrs i ≤ mp.mp_ptrs indx
    · rw [if_pos ⟨hi3, hc⟩] at h7i
      omega
    · rw [if_neg (fun h => hc h.2)] at h7i
      have hne : i ≠ indx := by
        intro e; subst e; exact hc (Nat.le_refl _)
      have hap := hwf.apart hn i indx hi3 hi hne
      omega

theorem C28_offsets_witness :
    (∃ mp2, node_del shelf 1 0 = some mp2 ∧ page_numkeys mp2 = 1 ∧ mp2.mp_upper = 18 ∧
      mp2.mp_ptrs 0 = 18) ∧
    (∃ mp2, update_key no_split shelf 1 [98, 98, 98, 98] = some (MDBX_SUCCESS, mp2) ∧
      mp2.mp_upper = 4 ∧ mp2.mp_ptrs 0 = 4 ∧ mp2.mp_ptrs 1 = 50) ∧
    ((∃ mp2, node_del shelf 1 0 = some mp2 ∧
        page_numkeys mp2 + 1 = page_numkeys shelf ∧
        ∀ i, i < page_numkeys mp2 → mp2.mp_upper ≤ mp2.mp_ptrs i ∧ mp2.mp_ptrs i < 64) ∧
      (∃ mp2, update_key no_split shelf 1 [98, 98, 98, 98] = some (MDBX_SUCCESS, mp2) ∧
        page_numkeys mp2 = page_numkeys shelf ∧
        ∀ i, i < page_numkeys mp2 → mp2.mp_upper ≤ mp2.mp_ptrs i ∧ mp2.mp_ptrs i < 64)) :=
  ⟨⟨_, rfl, by decide, by decide, by decide⟩, ⟨_, rfl, by decide, by decide, by decide⟩,
    (C28_offsets 64 shelf shelf_wf (by decide)).1 1 0 (by decide),
    (C28_offsets 64 shelf shelf_wf (by decide)).2 no_split 1 [98, 98, 98, 98] (by decide)
      (by decide)⟩

end Layout

namespace Layout

theorem memcpy_out (m : Nat → Nat) {dst : Nat} {bytes : List Nat} {o : Nat}
    (h : o < dst ∨ dst + bytes.length ≤ o) : memcpy m dst bytes o = m o := by
  unfold memcpy; rw [if_neg (by omega)]

theorem key_mem_out (m : Nat → Nat) {node : Nat} {key : List Nat} {o : Nat}
    (h : o < node + 6 ∨ node + NODESIZE + key.length ≤ o) : key_mem m node key o = m o := by
  have hns : NODESIZE = 8 := rfl
  unfold key_mem NODEKEY
  by_cases hk : key.length = 0
  · rw [memcpy_out _ (by omega)]
    rcases h with h | h
    · rw [set_le16_out _ (by omega)]
    · rw [set_le16_out _ (by omega)]
  · rw [memcpy_out _ (by omega), set_le16_out _ (by omega)]

theorem key_mem_key (m : Nat → Nat) (node : Nat) (key : List Nat) {j : Nat}
    (h : j < key.length) : key_mem m node key (NODEKEY node + j) = key.getD j 0 := by
  unfold key_mem memcpy
  rw [if_pos ⟨by omega, by omega⟩]
  congr 1
  omega

theorem key_mem_ksize (m : Nat → Nat) (node : Nat) (key : List Nat) :
    mn_ksize16 (key_mem m node key) node = key.length % 65536 := by
  have hns : NODESIZE = 8 := rfl
  unfold mn_ksize16 key_mem NODEKEY
  have e : get_le16 (memcpy (set_le16 m (node + 6) (key.length % 65536)) (node + NODESIZE) key)
      (node + 6) = get_le16 (set_le16 m (node + 6) (key.length % 65536)) (node + 6) :=
    get_le16_congr (fun o _ _ => memcpy_out _ (by omega))
  rw [e, get_set_le16]
  omega

theorem range_map_getD (l : List Nat) :
    (List.range l.length).map (fun j => l.getD j 0) = l := by
  apply List.ext_getElem
  · simp
  · intro i h1 h2
    simp [List.getD_eq_getElem?_getD, List.getElem?_eq_getElem h2]

/-- The bytes of the nodes below the node whose key update_key replaces, and of
the first 6 bytes of that node, after the copy. -/
theorem update_mem_low (mem : Nat → Nat) {U upper p P : Nat} {d : Int} (key : List Nat)
    (hU : (U : Int) = upper - d) (hP : (P : Int) = p - d) {o a : Nat}
    (ho1 : upper ≤ o) (ho2 : o < p + 6) (ha : (a : Int) = o - d) :
    key_mem (memmove mem U upper (p + NODESIZE - upper)) P key a = mem o := by
  have hns : NODESIZE = 8 := rfl
  rw [key_mem_out _ (by omega), memmove_in _ (by omega)]
  congr 1
  omega

/-- The bytes that update_key leaves alone. -/
theorem update_mem_high (mem : Nat → Nat) {U upper p P : Nat} {d : Int} (key : List Nat)
    (hU : (U : Int) = upper - d) (hP : (P : Int) = p - d) {o : Nat}
    (h1 : (P : Int) + 8 + key.length ≤ o) :
    key_mem (memmove mem U upper (p + NODESIZE - upper)) P key o = mem o := by
  have hns : NODESIZE = 8 := rfl
  rw [key_mem_out _ (by omega), memmove_out _ (by omega)]

/-- Reading a node through bytes that agree. -/
theorem node_reads_congr {f g : Nat → Nat} {a b n : Nat}
    (h : ∀ x, x < n → f (a + x) = g (b + x)) (hn : 8 ≤ n) :
    mn_ksize16 f a = mn_ksize16 g b ∧ node_flags8 f a = node_flags8 g b ∧
    get_le32 f a = get_le32 g b := by
  have h0 := h 0 (by omega)
  have h1 := h 1 (by omega)
  have h2 := h 2 (by omega)
  have h3 := h 3 (by omega)
  have h5 := h 5 (by omega)
  have h6 := h 6 (by omega)
  have h7 := h 7 (by omega)
  refine ⟨?_, ?_, ?_⟩
  · unfold mn_ksize16 get_le16
    rw [h6, show a + 6 + 1 = a + 7 from rfl, show b + 6 + 1 = b + 7 from rfl, h7]
  · unfold node_flags8
    exact h5
  · unfold get_le32
    rw [Nat.add_zero, Nat.add_zero] at h0
    rw [h0, h1, h2, h3]

theorem node_key_congr {f g : Nat → Nat} {a b n : Nat}
    (h : ∀ x, x < n → f (a + x) = g (b + x)) (hk : mn_ksize16 f a = mn_ksize16 g b)
    (hn : NODESIZE + mn_ksize16 g b ≤ n) : node_key f a = node_key g b := by
  unfold node_key
  rw [hk]
  apply List.map_congr_left
  intro j hj
  have hj2 : j < mn_ksize16 g b := List.mem_range.mp hj
  unfold NODEKEY
  rw [Nat.add_assoc, Nat.add_assoc]
  exact h _ (by omega)

theorem node_data_congr {f g : Nat → Nat} {a b n : Nat}
    (h : ∀ x, x < n → f (a + x) = g (b + x)) (hn8 : 8 ≤ n)
    (hn : NODESIZE + mn_ksize16 g b + node_datalen g b ≤ n) :
    node_data f a = node_data g b := by
  obtain ⟨hk, hf, hd⟩ := node_reads_congr h hn8
  have hl : node_datalen f a = node_datalen g b := by
    unfold node_datalen node_get_datasize
    rw [hf, hd]
  unfold node_data
  rw [hl]
  apply List.map_congr_left
  intro j hj
  have hj2 : j < node_datalen g b := List.mem_range.mp hj
  unfold NODEDATA
  rw [hk, Nat.add_assoc, Nat.add_assoc, Nat.add_assoc, Nat.add_assoc]
  exact h _ (by omega)

end Layout

namespace Layout

theorem C26_counterexample_leaf_data :
    IS_LEAF shelf = true ∧ key_delta shelf 1 [99] = 0 ∧
    node_key shelf.mem (shelf.mp_ptrs 1) = [98, 98] ∧
    node_data shelf.mem (shelf.mp_ptrs 1) = [120] ∧
    ∃ mp2, update_key no_split shelf 1 [99] = some (MDBX_SUCCESS, mp2) ∧
      node_key mp2.mem (mp2.mp_ptrs 1) = [99] ∧
      node_data mp2.mem (mp2.mp_ptrs 1) = [98] :=
  ⟨by decide, by decide, by decide, by decide, _, rfl, by decide, by decide⟩

/-- C26, amended: for every well-formed page with nodes, every index of it and
every new key whose even-rounded length exceeds the old one by at most the
free space of the page, the new key having a length of the same parity as the
old one if the page is a leaf page, update_key returns `MDBX_SUCCESS`;
afterwards the node at the index has the new key (length and bytes) with the
same page number or data size, the same flags and, on a leaf page, the same
data bytes as before, the node at every other index has the same key, page
number or data size, flags and data as before, and the number of entries is
unchanged.  `mp_upper` moves by `delta = EVEN(new_len) - EVEN(old_len)` and
`mp_lower` is unchanged. -/
theorem C26_update_key (L : Nat) (mp : page_t) (hwf : WF L mp) (hn : IS_DFL mp = false)
    (page_split : page_split_t) (indx : Nat) (key : List Nat)
    (hi : indx < page_numkeys mp)
    (hd : key_delta mp indx key ≤ (mp.mp_upper : Int) - mp.mp_lower)
    (hpar : IS_LEAF mp = true → key.length % 2 = mn_ksize16 mp.mem (mp.mp_ptrs indx) % 2) :
    ∃ mp2, update_key page_split mp indx key = some (MDBX_SUCCESS, mp2) ∧
      page_numkeys mp2 = page_numkeys mp ∧ mp2.mp_lower = mp.mp_lower ∧
      (mp2.mp_upper : Int) = mp.mp_upper - key_delta mp indx key ∧
      mn_ksize16 mp2.mem (mp2.mp_ptrs indx) = key.length ∧
      node_key mp2.mem (mp2.mp_ptrs indx) = key ∧
      node_get_pgno mp2.mem (mp2.mp_ptrs indx) = node_get_pgno mp.mem (mp.mp_ptrs indx) ∧
      node_get_datasize mp2.mem (mp2.mp_ptrs indx) =
        node_get_datasize mp.mem (mp.mp_ptrs indx) ∧
      node_flags8 mp2.mem (mp2.mp_ptrs indx) = node_flags8 mp.mem (mp.mp_ptrs indx) ∧
      (IS_LEAF mp = true →
        node_data mp2.mem (mp2.mp_ptrs indx) = node_data mp.mem (mp.mp_ptrs indx)) ∧
      ∀ i, i < page_numkeys mp → i ≠ indx →
        node_key mp2.mem (mp2.mp_ptrs i) = node_key mp.mem (mp.mp_ptrs i) ∧
        node_get_pgno mp2.mem (mp2.mp_ptrs i) = node_get_pgno mp.mem (mp.mp_ptrs i) ∧
        node_get_datasize mp2.mem (mp2.mp_ptrs i) = node_get_datasize mp.mem (mp.mp_ptrs i) ∧
        node_flags8 mp2.mem (mp2.mp_ptrs i) = node_flags8 mp.mem (mp.mp_ptrs i) ∧
        (IS_LEAF mp = true →
          node_data mp2.mem (mp2.mp_ptrs i) = node_data mp.mem (mp.mp_ptrs i)) := by
  obtain ⟨mp2, h1, h2, _, _, _, h6, h7, h8⟩ := update_key_inplace hwf hn page_split hi key hd
  have hns : NODESIZE = 8 := rfl
  have hk1 := numkeys_eq mp
  have hk2 := numkeys_eq mp2
  have hin := hwf.inside hn indx hi
  have hlim := hwf.limit
  have hlow := hwf.lower_le
  have hsz := node_size_ge mp (mp.mp_ptrs indx)
  have hev1 := even_le key.length
  have hev2 := even_le (mn_ksize16 mp.mem (mp.mp_ptrs indx))
  have hdd : key_delta mp indx key = (EVEN key.length : Int) -
      (EVEN (mn_ksize16 mp.mem (mp.mp_ptrs indx)) : Int) := rfl
  -- the new addresses
  obtain ⟨U, hU⟩ : ∃ U : Nat, (U : Int) = mp.mp_upper - key_delta mp indx key :=
    ⟨((mp.mp_upper : Int) - key_delta mp indx key).toNat, Int.toNat_of_nonneg (by omega)⟩
  obtain ⟨P, hP⟩ : ∃ P : Nat, (P : Int) = mp.mp_ptrs indx - key_delta mp indx key :=
    ⟨((mp.mp_ptrs indx : Int) - key_delta mp indx key).toNat,
      Int.toNat_of_nonneg (by omega)⟩
  have hUt : ((mp.mp_upper : Int) - key_delta mp indx key).toNat = U := by omega
  have hPt : ((mp.mp_ptrs indx : Int) - key_delta mp indx key).toNat = P := by omega
  rw [hUt, hPt] at h8
  have hpi : mp2.mp_ptrs indx = P := by
    have := h7 indx
    rw [if_pos ⟨hi, Nat.le_refl _⟩] at this
    omega
  have hmem : mp2.mem = key_mem (memmove mp.mem U mp.mp_upper
      (mp.mp_ptrs indx + NODESIZE - mp.mp_upper)) P key := funext h8
  -- the first 6 bytes of the node
  have hhead : ∀ x, x < 6 → mp2.mem (P + x) = mp.mem (mp.mp_ptrs indx + x) := by
    intro x hx
    rw [hmem]
    exact update_mem_low mp.mem key hU hP (by omega) (by omega) (by omega)
  have hks : mn_ksize16 mp2.mem P = key.length := by
    rw [hmem, key_mem_ksize]
    omega
  refine ⟨mp2, h1, by omega, h2, h6, ?_, ?_, ?_, ?_, ?_, ?_, ?_⟩
  · rw [hpi]; exact hks
  · rw [hpi]
    unfold node_key
    rw [hks, hmem]
    have e : (List.range key.length).map (fun j => key_mem (memmove mp.mem U mp.mp_upper
        (mp.mp_ptrs indx + NODESIZE - mp.mp_upper)) P key (NODEKEY P + j)) =
        (List.range key.length).map (fun j => key.getD j 0) := by
      apply List.map_congr_left
      intro j hj
      exact key_mem_key _ _ _ (List.mem_range.mp hj)
    rw [e, range_map_getD]
  · rw [hpi]
    unfold node_get_pgno get_le32
    have h0 := hhead 0 (by omega)
    rw [Nat.add_zero, Nat.add_zero] at h0
    rw [h0, hhead 1 (by omega), hhead 2 (by omega), hhead 3 (by omega)]
  · rw [hpi]
    unfold node_get_datasize get_le32
    have h0 := hhead 0 (by omega)
    rw [Nat.add_zero, Nat.add_zero] at h0
    rw [h0, hhead 1 (by omega), hhead 2 (by omega), hhead 3 (by omega)]
  · rw [hpi]
    unfold node_flags8
    exact hhead 5 (by omega)
  · intro hl
    have hp := hpar hl
    have hfl : node_flags8 mp2.mem P = node_flags8 mp.mem (mp.mp_ptrs indx) := by
      unfold node_flags8; exact hhead 5 (by omega)
    have hds : node_get_datasize mp2.mem P = node_get_datasize mp.mem (mp.mp_ptrs indx) := by
      unfold node_get_datasize get_le32
      have h0 := hhead 0 (by omega)
      rw [Nat.add_zero, Nat.add_zero] at h0
      rw [h0, hhead 1 (by omega), hhead 2 (by omega), hhead 3 (by omega)]
    have hl2 : node_datalen mp2.mem P = node_datalen mp.mem (mp.mp_ptrs indx) := by
      unfold node_datalen
      rw [hfl, hds]
    have hev : (EVEN key.length : Int) - key.length =
        (EVEN (mn_ksize16 mp.mem (mp.mp_ptrs indx)) : Int) -
          mn_ksize16 mp.mem (mp.mp_ptrs indx) := by
      unfold EVEN; omega
    have hnd : NODEDATA mp2.mem P = NODEDATA mp.mem (mp.mp_ptrs indx) := by
      unfold NODEDATA
      rw [hks]
      omega
    rw [hpi]
    unfold node_data
    rw [hl2, hnd]
    apply List.map_congr_left
    intro j _
    rw [hmem]
    apply update_mem_high mp.mem key hU hP
    unfold NODEDATA
    omega
  · intro i hi2 hne
    have hin2 := hwf.inside hn i hi2
    have hsz2 := node_size_ge mp (mp.mp_ptrs i)
    have hev3 := even_le (mn_ksize16 mp.mem (mp.mp_ptrs i))
    have hap := hwf.apart hn i indx hi2 hi hne
    have h7i := h7 i
    -- the bytes of the node are where they were, or moved along with the node
    have hreg : ∀ x, x < node_size mp (mp.mp_ptrs i) →
        mp2.mem (mp2.mp_ptrs i + x) = mp.mem (mp.mp_ptrs i + x) := by
      intro x hx
      rw [hmem]
      by_cases hc : mp.mp_ptrs i ≤ mp.mp_ptrs indx
      · rw [if_pos ⟨hi2, hc⟩] at h7i
        exact update_mem_low mp.mem key hU hP (by omega) (by omega) (by omega)
      · rw [if_neg (fun h => hc h.2)] at h7i
        have e : mp2.mp_ptrs i = mp.mp_ptrs i := by omega
        rw [e]
        exact update_mem_high mp.mem key hU hP (by omega)
    have hsize : 8 ≤ node_size mp (mp.mp_ptrs i) := by omega
    obtain ⟨r1, r2, r3⟩ := node_reads_congr hreg hsize
    refine ⟨node_key_congr hreg r1 (by omega), r3, r3, r2, ?_⟩
    intro hl
    apply node_data_congr hreg hsize
    have hev := even_le (NODESIZE + mn_ksize16 mp.mem (mp.mp_ptrs i) +
      node_datalen mp.mem (mp.mp_ptrs i))
    have hsz3 : node_size mp (mp.mp_ptrs i) =
        EVEN (NODESIZE + mn_ksize16 mp.mem (mp.mp_ptrs i) +
          node_datalen mp.mem (mp.mp_ptrs i)) := by
      unfold node_size node_datalen
      rw [if_pos hl]
      split <;> rfl
    omega

theorem C26_update_key_witness :
    (∃ mp2, update_key no_split shelf 1 [120, 121, 122, 119] = some (MDBX_SUCCESS, mp2) ∧
      mp2.mp_upper = 4 ∧ node_key mp2.mem (mp2.mp_ptrs 1) = [120, 121, 122, 119] ∧
      node_data mp2.mem (mp2.mp_ptrs 1) = [120] ∧
      node_key mp2.mem (mp2.mp_ptrs 0) = [97]) ∧
    ∃ mp2, update_key no_split shelf 1 [120, 121, 122, 119] = some (MDBX_SUCCESS, mp2) ∧
      page_numkeys mp2 = page_numkeys shelf ∧ mp2.mp_lower = shelf.mp_lower ∧
      (mp2.mp_upper : Int) = shelf.mp_upper - key_delta shelf 1 [120, 121, 122, 119] ∧
      mn_ksize16 mp2.mem (mp2.mp_ptrs 1) = [120, 121, 122, 119].length :=
  ⟨⟨_, rfl, by decide, by decide, by decide, by decide⟩,
    (C26_update_key 64 shelf shelf_wf (by decide) no_split 1 [120, 121, 122, 119] (by decide)
      (by decide) (fun _ => by decide)).imp fun _ h =>
        ⟨h.1, h.2.1, h.2.2.1, h.2.2.2.1, h.2.2.2.2.1⟩⟩

end Layout

/-- C31: on a cursor whose arrays have `CURSOR_STACK` = 32 entries and that
holds at most 32 frames, cursor_push returns; it returns `MDBX_CURSOR_FULL`
exactly when the cursor holds 32 frames, and then the transaction is the old one
with `MDBX_TXN_ERROR` set in its flags and the cursor (depth, top and every
frame) is unchanged; otherwise it returns `MDBX_SUCCESS`, the transaction is
unchanged, the depth is the old depth plus one, the top is the old depth, the
frame at the top is the given page with index 0, every other frame is
unchanged, and so are the handle, the state and the kind of the cursor. -/
theorem C31_cursor_push (txn : MDBX_txn) (mc : cursor_t) (mp : page_t) (h : StackOK mc)
    (hs : mc.mc_snum ≤ CURSOR_STACK) :
    ∃ r, cursor_push txn mc mp = some r ∧
      (r.rc = MDBX_CURSOR_FULL ↔ mc.mc_snum = 32) ∧
      (mc.mc_snum = 32 →
        r.txn = { txn with mt_flags := txn.mt_flags ||| MDBX_TXN_ERROR } ∧
        tst r.txn.mt_flags MDBX_TXN_ERROR = true ∧ r.mc = mc) ∧
      (mc.mc_snum ≠ 32 →
        r.rc = MDBX_SUCCESS ∧ r.txn = txn ∧ r.mc.mc_snum = mc.mc_snum + 1 ∧
        r.mc.mc_top = mc.mc_snum ∧
        r.mc.mc_pg[mc.mc_snum]? = some (some mp) ∧ r.mc.mc_ki[mc.mc_snum]? = some 0 ∧
        (∀ i, i ≠ mc.mc_snum →
          r.mc.mc_pg[i]? = mc.mc_pg[i]? ∧ r.mc.mc_ki[i]? = mc.mc_ki[i]?) ∧
        r.mc.mc_aht = mc.mc_aht ∧ r.mc.mc_state8 = mc.mc_state8 ∧
        r.mc.mc_kind8 = mc.mc_kind8) := by
  by_cases hf : mc.mc_snum = 32
  · have h1 : mc.mc_snum ≥ CURSOR_STACK := by unfold CURSOR_STACK; omega
    refine ⟨_, by unfold cursor_push; rw [if_pos h1], ⟨fun _ => hf, fun _ => rfl⟩,
      fun _ => ⟨rfl, ?_, rfl⟩, fun hn => absurd hf hn⟩
    show tst (txn.mt_flags ||| MDBX_TXN_ERROR) MDBX_TXN_ERROR = true
    unfold tst
    have : (txn.mt_flags ||| MDBX_TXN_ERROR) &&& MDBX_TXN_ERROR = MDBX_TXN_ERROR := by
      apply Nat.eq_of_testBit_eq
      intro i
      simp only [Nat.testBit_and, Nat.testBit_or]
      cases txn.mt_flags.testBit i <;> simp
    rw [this]
    decide
  · have h1 : mc.mc_snum < CURSOR_STACK := by
      unfold CURSOR_STACK at hs ⊢; omega
    have h3 : mc.mc_snum < mc.mc_pg.length := by rw [h.1]; exact h1
    have h4 : mc.mc_snum < mc.mc_ki.length := by rw [h.2]; exact h1
    refine ⟨_, cursor_push_ok txn mp h h1, ⟨fun hc => ?_, fun he => absurd he hf⟩,
      fun he => absurd he hf, fun _ => ⟨rfl, rfl, rfl, rfl, ?_, ?_, fun i hi => ⟨?_, ?_⟩,
        rfl, rfl, rfl⟩⟩
    · have hc2 : MDBX_SUCCESS = MDBX_CURSOR_FULL := hc
      exact absurd hc2 (by decide)
    · show (frame_push mc mp).mc_pg[mc.mc_snum]? = some (some mp)
      unfold frame_push
      simp [h3]
    · show (frame_push mc mp).mc_ki[mc.mc_snum]? = some 0
      unfold frame_push
      simp [h4]
    · show (frame_push mc mp).mc_pg[i]? = mc.mc_pg[i]?
      unfold frame_push
      simp [List.getElem?_set, Ne.symm hi]
    · show (frame_push mc mp).mc_ki[i]? = mc.mc_ki[i]?
      unfold frame_push
      simp [List.getElem?_set, Ne.symm hi]

theorem C31_cursor_push_witness :
    ∃ r, cursor_push (sample_txn two_pages) (sample_cursor (sample_aht 0 1) 0 []) (two_pages 1)
        = some r ∧ r.rc = MDBX_SUCCESS ∧ r.mc.mc_snum = 1 ∧ r.mc.mc_top = 0 ∧
      r.mc.mc_pg[0]? = some (some (two_pages 1)) :=
  (C31_cursor_push (sample_txn two_pages) (sample_cursor (sample_aht 0 1) 0 []) (two_pages 1)
    ⟨by decide, by decide⟩ (by decide)).imp
    fun _ h => ⟨h.1, (h.2.2.2 (by decide)).1, (h.2.2.2 (by decide)).2.2.1,
      (h.2.2.2 (by decide)).2.2.2.1, (h.2.2.2 (by decide)).2.2.2.2.1⟩

namespace Layout

/-- C33: for every positive page size, so for every power of two from 512 to
65536, and every value size for which `PAGEHDRSZ - 1 + size` is a `size_t`,
`OVPAGES` (with bytes2pgno as division by the page size) is the least number
`n` of pages with `n * page_size ≥ PAGEHDRSZ + size`; with pages of 4096 bytes
a value of 10000 bytes takes 3 overflow pages. -/
theorem C33_ovpages (psize size : Nat) (hp : 0 < psize)
    (hsz : PAGEHDRSZ - 1 + size < 2 ^ 64) :
    PAGEHDRSZ + size ≤ OVPAGES psize size * psize ∧
    (∀ n, PAGEHDRSZ + size ≤ n * psize → OVPAGES psize size ≤ n) ∧
    OVPAGES 4096 10000 = 3 := by
  unfold OVPAGES bytes2pgno
  rw [Nat.mod_eq_of_lt hsz]
  unfold PAGEHDRSZ at *
  have h1 := Nat.div_add_mod (20 - 1 + size) psize
  have h2 := Nat.mod_lt (20 - 1 + size) hp
  refine ⟨?_, fun n hn => ?_, by decide⟩
  · rw [Nat.add_mul, Nat.mul_comm]
    omega
  · by_contra hc
    have h3 : n ≤ (20 - 1 + size) / psize := by omega
    have h4 : n * psize ≤ (20 - 1 + size) / psize * psize := Nat.mul_le_mul_right _ h3
    rw [Nat.mul_comm ((20 - 1 + size) / psize)] at h4
    omega

theorem C33_ovpages_witness :
    PAGEHDRSZ + 10000 ≤ OVPAGES 4096 10000 * 4096 ∧
    (∀ n, PAGEHDRSZ + 10000 ≤ n * 4096 → OVPAGES 4096 10000 ≤ n) ∧
    OVPAGES 4096 10000 = 3 :=
  C33_ovpages 4096 10000 (by decide) (by decide)

end Layout

/-- One step of the walk of page_get over a transaction whose lists are in
order, in terms of the membership in the lists. -/
theorem page_get_walk_cons (pgno : pgno_t) (t : txn_lists) (rest : List txn_lists) (level : Nat)
    (ht : ListsOK t) :
    page_get_walk pgno (t :: rest) level =
      if (t.mt_spill_pages.getD []).contains (spill_key pgno) = true then .mapped level
      else match t.mt_rw_dirtylist.find? (fun e => e.mid == pgno) with
        | some e => .done e.mptr level
        | none => page_get_walk pgno rest (level + 1) := by
  have hd := mid2l_search_hit pgno t.mt_rw_dirtylist ht.2
  have hstep : page_get_walk pgno (t :: rest) level =
      if (match t.mt_spill_pages with
        | none => false
        | some sl =>
          decide (mdbx_pnl_search sl ((pgno <<< 1) % 4294967296) ≤ sl.length) &&
            (sl[mdbx_pnl_search sl ((pgno <<< 1) % 4294967296) - 1]? ==
              some ((pgno <<< 1) % 4294967296))) = true then .mapped level
      else
        match (if t.mt_rw_dirtylist.length ≠ 0 ∧
            mdbx_mid2l_search t.mt_rw_dirtylist pgno ≤ t.mt_rw_dirtylist.length
            then t.mt_rw_dirtylist[mdbx_mid2l_search t.mt_rw_dirtylist pgno - 1]? else none) with
        | some e => if e.mid = pgno then .done e.mptr level
            else page_get_walk pgno rest (level + 1)
        | none => page_get_walk pgno rest (level + 1) := rfl
  have hsp : (match t.mt_spill_pages with
      | none => false
      | some sl =>
        decide (mdbx_pnl_search sl ((pgno <<< 1) % 4294967296) ≤ sl.length) &&
          (sl[mdbx_pnl_search sl ((pgno <<< 1) % 4294967296) - 1]? ==
            some ((pgno <<< 1) % 4294967296))) =
      (t.mt_spill_pages.getD []).contains (spill_key pgno) := by
    cases hsl : t.mt_spill_pages with
    | none => rfl
    | some sl => exact pnl_search_hit _ sl (ht.1 sl hsl)
  rw [hstep, hsp]
  by_cases hc : (t.mt_spill_pages.getD []).contains (spill_key pgno) = true
  · rw [if_pos hc, if_pos hc]
  · rw [if_neg hc, if_neg hc]
    cases hf : t.mt_rw_dirtylist.find? (fun e => e.mid == pgno) with
    | some e =>
      obtain ⟨h1, h2⟩ := hd.1 e hf
      rw [h1]
      show (if e.mid = pgno then _ else _) = _
      rw [if_pos h2]
    | none =>
      have h3 := hd.2 hf
      cases hp : (if t.mt_rw_dirtylist.length ≠ 0 ∧
          mdbx_mid2l_search t.mt_rw_dirtylist pgno ≤ t.mt_rw_dirtylist.length
          then t.mt_rw_dirtylist[mdbx_mid2l_search t.mt_rw_dirtylist pgno - 1]? else none) with
      | none => rfl
      | some e =>
        show (if e.mid = pgno then _ else _) = _
        rw [if_neg (h3 e hp)]
/-- The first owner of a page is at a position from 1 on, owns the page, and
no transaction before it in the chain does. -/
theorem first_owner_spec (pgno : pgno_t) :
    ∀ (chain : List txn_lists) (k : Nat), first_owner pgno chain = some k →
      1 ≤ k ∧ (∃ t, chain[k - 1]? = some t ∧ owns_page t pgno = true) ∧
      ∀ j t, j < k - 1 → chain[j]? = some t → owns_page t pgno = false := by
  intro chain
  induction chain with
  | nil => intro k h; exact absurd h (by simp [first_owner])
  | cons t rest ih =>
    intro k h
    unfold first_owner at h
    by_cases ho : owns_page t pgno = true
    · rw [if_pos ho] at h
      injection h with h
      subst h
      exact ⟨le_refl _, ⟨t, List.getElem?_cons_zero, ho⟩, fun j _ hj => absurd hj (by omega)⟩
    · rw [if_neg ho] at h
      cases hr : first_owner pgno rest with
      | none => rw [hr] at h; exact absurd h (by simp)
      | some k2 =>
        rw [hr] at h
        have hk : k2 + 1 = k := by simpa using h
        subst hk
        obtain ⟨h1, ⟨t2, h2, h3⟩, h4⟩ := ih k2 hr
        refine ⟨by omega, ⟨t2, ?_, h3⟩, fun j t3 hj hg => ?_⟩
        · have e : k2 + 1 - 1 = (k2 - 1) + 1 := by omega
          rw [e, List.getElem?_cons_succ]
          exact h2
        · cases j with
          | zero =>
            have : t = t3 := by simpa using hg
            subst this
            simpa using ho
          | succ j2 =>
            rw [List.getElem?_cons_succ] at hg
            exact h4 j2 t3 (by omega) hg

/-- Where the walk of page_get ends and the level it has counted, when the
lists of the chain are in order. -/
theorem page_get_walk_level (pgno : pgno_t) :
    ∀ (chain : List txn_lists) (level : Nat), (∀ t ∈ chain, ListsOK t) →
      match page_get_walk pgno chain level with
      | .mapped l => ∃ k t, first_owner pgno chain = some k ∧ l + 1 = level + k ∧
          chain[k - 1]? = some t ∧
          (t.mt_spill_pages.getD []).contains (spill_key pgno) = true
      | .done p l => ∃ k t e, first_owner pgno chain = some k ∧ l + 1 = level + k ∧
          chain[k - 1]? = some t ∧
          (t.mt_spill_pages.getD []).contains (spill_key pgno) = false ∧
          t.mt_rw_dirtylist.find? (fun e => e.mid == pgno) = some e ∧ e.mptr = p
      | .fallthrough => first_owner pgno chain = none := by
  intro chain
  induction chain with
  | nil => intro _ _; rfl
  | cons t rest ih =>
    intro level hs
    have ht := hs t (List.mem_cons_self _ _)
    have hrest : ∀ x ∈ rest, ListsOK x := fun x hx => hs x (List.mem_cons_of_mem _ hx)
    have hnext : ∀ (hno : owns_page t pgno = false),
        match page_get_walk pgno rest (level + 1) with
        | .mapped l => ∃ k t2, first_owner pgno (t :: rest) = some k ∧ l + 1 = level + k ∧
            (t :: rest)[k - 1]? = some t2 ∧
            (t2.mt_spill_pages.getD []).contains (spill_key pgno) = true
        | .done p l => ∃ k t2 e, first_owner pgno (t :: rest) = some k ∧ l + 1 = level + k ∧
            (t :: rest)[k - 1]? = some t2 ∧
            (t2.mt_spill_pages.getD []).contains (spill_key pgno) = false ∧
            t2.mt_rw_dirtylist.find? (fun e => e.mid == pgno) = some e ∧ e.mptr = p
        | .fallthrough => first_owner pgno (t :: rest) = none := by
      intro hno
      have h1 := ih (level + 1) hrest
      have hfo : first_owner pgno (t :: rest) = (first_owner pgno rest).map (· + 1) := by
        show (if owns_page t pgno = true then _ else _) = _
        rw [hno]; rfl
      cases hw : page_get_walk pgno rest (level + 1) with
      | mapped l =>
        rw [hw] at h1
        obtain ⟨k, t2, e1, e2, e3, e4⟩ := h1
        have hk := (first_owner_spec pgno rest k e1).1
        refine ⟨k + 1, t2, by rw [hfo, e1]; rfl, by omega, ?_, e4⟩
        have e : k + 1 - 1 = (k - 1) + 1 := by omega
        rw [e, List.getElem?_cons_succ]
        exact e3
      | done p l =>
        rw [hw] at h1
        obtain ⟨k, t2, e, e1, e2, e3, e4, e5, e6⟩ := h1
        have hk := (first_owner_spec pgno rest k e1).1
        refine ⟨k + 1, t2, e, by rw [hfo, e1]; rfl, by omega, ?_, e4, e5, e6⟩
        have e : k + 1 - 1 = (k - 1) + 1 := by omega
        rw [e, List.getElem?_cons_succ]
        exact e3
      | fallthrough =>
        rw [hw] at h1
        show first_owner pgno (t :: rest) = none
        rw [hfo, h1]; rfl
    suffices hsuf : ∀ w, page_get_walk pgno (t :: rest) level = w →
        match w with
        | .mapped l => ∃ k t2, first_owner pgno (t :: rest) = some k ∧ l + 1 = level + k ∧
            (t :: rest)[k - 1]? = some t2 ∧
            (t2.mt_spill_pages.getD []).contains (spill_key pgno) = true
        | .done p l => ∃ k t2 e, first_owner pgno (t :: rest) = some k ∧ l + 1 = level + k ∧
            (t :: rest)[k - 1]? = some t2 ∧
            (t2.mt_spill_pages.getD []).contains (spill_key pgno) = false ∧
            t2.mt_rw_dirtylist.find? (fun e => e.mid == pgno) = some e ∧ e.mptr = p
        | .fallthrough => first_owner pgno (t :: rest) = none from hsuf _ rfl
    intro w hw
    rw [page_get_walk_cons pgno t rest level ht] at hw
    by_cases hc : (t.mt_spill_pages.getD []).contains (spill_key pgno) = true
    · rw [if_pos hc] at hw
      subst hw
      refine ⟨1, t, ?_, rfl, List.getElem?_cons_zero, hc⟩
      show (if owns_page t pgno = true then _ else _) = _
      rw [if_pos (by unfold owns_page; rw [hc]; rfl)]
    · rw [if_neg hc] at hw
      have hc2 : (t.mt_spill_pages.getD []).contains (spill_key pgno) = false := by
        simpa using hc
      cases hf : t.mt_rw_dirtylist.find? (fun e => e.mid == pgno) with
      | some e =>
        rw [hf] at hw
        subst hw
        refine ⟨1, t, e, ?_, rfl, List.getElem?_cons_zero, hc2, hf, rfl⟩
        show (if owns_page t pgno = true then _ else _) = _
        rw [if_pos (by unfold owns_page; rw [hf]; simp)]
      | none =>
        rw [hf] at hw
        have hno : owns_page t pgno = false := by
          unfold owns_page; rw [hc2, hf]; rfl
        subst hw
        exact hnext hno
/-- C35, counterexample: in a write transaction without parent whose spill
list holds the key 10 of page 5 and whose dirty list is empty, page_get of page
5 returns the page of the memory map and reports level 1: the level is not 0
although the mapped copy is returned, and no dirty list holds the page. -/
theorem C35_counterexample_spilled :
    sample_spilled_txn.mt_parent = [] ∧ sample_spilled_txn.mt_rw_dirtylist = [] ∧
    sample_spilled_txn.mt_spill_pages = some [spill_key 5] ∧
    tst sample_spilled_txn.mt_flags (MDBX_RDONLY ||| MDBX_WRITEMAP) = false ∧
    (page_get sample_spilled_txn 5).rc = MDBX_SUCCESS ∧
    (page_get sample_spilled_txn 5).ret = some (pgno2page sample_spilled_txn.mt_book 5) ∧
    (page_get sample_spilled_txn 5).lvl = some 1 :=
  ⟨by rfl, by rfl, by rfl, by decide, by rfl, by rfl, by rfl⟩

/-- C35 (as amended): for a write transaction that is not in write-map mode
whose lists are in order, page_get reports level 0 exactly when no transaction
of the chain owns the page and the page number is below the next free page
number, and then it returns the page of the memory map; it reports a level
`k ≥ 1` exactly when the `k`-th transaction of the chain (1 = the transaction
itself, 2 = its parent, and so on) is the first one that owns the page, and
then it returns the page of the memory map when that transaction holds the
key of the page in its spill list, and otherwise the dirty copy held in the
dirty list of that transaction. -/
theorem C35_page_get_level (txn : MDBX_txn) (pgno : pgno_t)
    (hs : ∀ t ∈ txn_own_lists txn :: txn.mt_parent, ListsOK t)
    (hw : tst txn.mt_flags (MDBX_RDONLY ||| MDBX_WRITEMAP) = false) :
    ((page_get txn pgno).lvl = some 0 ↔
      first_owner pgno (txn_own_lists txn :: txn.mt_parent) = none ∧
        pgno < txn.mt_next_pgno) ∧
    ((page_get txn pgno).lvl = some 0 →
      (page_get txn pgno).rc = MDBX_SUCCESS ∧
      (page_get txn pgno).ret = some (pgno2page txn.mt_book pgno)) ∧
    (∀ k, 1 ≤ k → ((page_get txn pgno).lvl = some k ↔
      first_owner pgno (txn_own_lists txn :: txn.mt_parent) = some k)) ∧
    (∀ k, first_owner pgno (txn_own_lists txn :: txn.mt_parent) = some k →
      1 ≤ k ∧ (page_get txn pgno).rc = MDBX_SUCCESS ∧
      (∀ j t, j < k - 1 → (txn_own_lists txn :: txn.mt_parent)[j]? = some t →
        owns_page t pgno = false) ∧
      ∃ t, (txn_own_lists txn :: txn.mt_parent)[k - 1]? = some t ∧
        owns_page t pgno = true ∧
        ((t.mt_spill_pages.getD []).contains (spill_key pgno) = true →
          (page_get txn pgno).ret = some (pgno2page txn.mt_book pgno)) ∧
        ((t.mt_spill_pages.getD []).contains (spill_key pgno) = false →
          ∃ e ∈ t.mt_rw_dirtylist, e.mid = pgno ∧
            (page_get txn pgno).ret = some e.mptr)) := by
  have hl := page_get_walk_level pgno (txn_own_lists txn :: txn.mt_parent) 1 hs
  have hpg : page_get txn pgno =
      match page_get_walk pgno (txn_own_lists txn :: txn.mt_parent) 1 with
      | .done p level => { rc := MDBX_SUCCESS, txn := txn, ret := some p, lvl := some level }
      | .mapped level =>
        { rc := MDBX_SUCCESS, txn := txn, ret := some (pgno2page txn.mt_book pgno),
          lvl := some level }
      | .fallthrough => page_get_unowned_spec txn pgno := by
    unfold page_get
    simp only [hw, Bool.false_eq_true, not_false_eq_true, if_true]
    rfl
  rw [hpg]
  cases hwalk : page_get_walk pgno (txn_own_lists txn :: txn.mt_parent) 1 with
  | mapped l =>
    rw [hwalk] at hl
    obtain ⟨k, t, e1, e2, e3, e4⟩ := hl
    have hk := first_owner_spec pgno _ k e1
    have hlk : l = k := by omega
    subst hlk
    rw [e1]
    refine ⟨⟨fun h => ?_, fun h => absurd h.1 (by simp)⟩, fun h => ?_, fun k2 _ => ?_,
      fun k2 h2 => ?_⟩
    · have : l = 0 := by simpa using h
      omega
    · have : l = 0 := by simpa using h
      omega
    · show some l = some k2 ↔ some l = some k2
      exact Iff.rfl
    · have h3 : l = k2 := by simpa using h2
      subst h3
      refine ⟨hk.1, rfl, hk.2.2, t, e3, ?_, fun _ => rfl, fun hc => ?_⟩
      · unfold owns_page; rw [e4]; rfl
      · rw [e4] at hc; exact absurd hc (by decide)
  | done p l =>
    rw [hwalk] at hl
    obtain ⟨k, t, e, e1, e2, e3, e4, e5, e6⟩ := hl
    have hk := first_owner_spec pgno _ k e1
    have hlk : l = k := by omega
    subst hlk
    rw [e1]
    refine ⟨⟨fun h => ?_, fun h => absurd h.1 (by simp)⟩, fun h => ?_, fun k2 _ => ?_,
      fun k2 h2 => ?_⟩
    · have : l = 0 := by simpa using h
      omega
    · have : l = 0 := by simpa using h
      omega
    · show some l = some k2 ↔ some l = some k2
      exact Iff.rfl
    · have h3 : l = k2 := by simpa using h2
      subst h3
      refine ⟨hk.1, rfl, hk.2.2, t, e3, ?_, fun hc => ?_, fun _ => ⟨e, ?_, ?_, ?_⟩⟩
      · unfold owns_page; rw [e5]; simp
      · rw [e4] at hc; exact absurd hc (by decide)
      · exact List.mem_of_find?_eq_some e5
      · have := List.find?_some e5
        simpa using this
      · show some p = some e.mptr
        rw [e6]
  | fallthrough =>
    rw [hwalk] at hl
    rw [hl]
    show (_ ∧ _ ∧ _ ∧ _ : Prop)
    unfold page_get_unowned_spec
    by_cases hp : pgno ≥ txn.mt_next_pgno
    · rw [if_pos hp]
      refine ⟨⟨fun h => absurd h (by simp), fun h => absurd h.2 (Nat.not_lt.mpr hp)⟩,
        fun h => absurd h (by simp), fun k2 _ => ⟨fun h => absurd h (by simp),
          fun h => absurd h (by simp)⟩, fun k2 h => absurd h (by simp)⟩
    · rw [if_neg hp]
      refine ⟨⟨fun _ => ⟨rfl, Nat.lt_of_not_le hp⟩, fun _ => rfl⟩, fun _ => ⟨rfl, rfl⟩,
        fun k2 hk2 => ⟨fun h => ?_, fun h => absurd h (by simp)⟩, fun k2 h => absurd h (by simp)⟩
      have : 0 = k2 := by simpa using h
      omega

theorem C35_page_get_level_witness :
    first_owner 7 (txn_own_lists sample_child_txn :: sample_child_txn.mt_parent) = some 2 ∧
    (page_get sample_child_txn 7).lvl = some 2 ∧
    first_owner 5 (txn_own_lists sample_child_txn :: sample_child_txn.mt_parent) = some 1 ∧
    (page_get sample_child_txn 5).lvl = some 1 ∧
    (page_get sample_child_txn 6).lvl = some 0 :=
  ⟨by rfl,
    ((C35_page_get_level sample_child_txn 7 sample_child_lists (by decide)).2.2.1 2
      (by decide)).2 (by rfl),
    by rfl,
    ((C35_page_get_level sample_child_txn 5 sample_child_lists (by decide)).2.2.1 1
      (by decide)).2 (by rfl),
    (C35_page_get_level sample_child_txn 6 sample_child_lists (by decide)).1.2
      ⟨by rfl, by decide⟩⟩

namespace Layout

theorem packed_shelf_wf : WF 64 packed_shelf := by
  refine ⟨by decide, ?_, by decide, by decide, by decide, ?_, ?_, ?_⟩
  · intro o
    show ([1, 0, 0, 0, 2, 0, 0, 0, 3, 0, 0, 0] : List Nat).getD o 0 < 256
    by_cases h : o < 12
    · revert o; decide
    · rw [List.getD_eq_default _ _ (by simpa using h)]
      decide
  · intro h
    exact absurd h (by decide)
  · intro h
    exact absurd h (by decide)
  · intro _
    decide

/-- The bytes of a node that node_del keeps are read back at its new offset. -/
theorem node_del_read {L : Nat} {mp mp2 : page_t} (hwf : WF L mp) (hn : IS_DFL mp = false)
    {indx : Nat} (hi : indx < page_numkeys mp)
    (hp : ∀ x, mp2.mp_ptrs x =
      if del_src indx x < page_numkeys mp then
        del_shift (mp.mp_ptrs indx) (node_size mp (mp.mp_ptrs indx))
          (mp.mp_ptrs (del_src indx x))
      else mp.mp_ptrs x)
    (hm : ∀ o, mp2.mem o =
      memmove mp.mem (mp.mp_upper + node_size mp (mp.mp_ptrs indx)) mp.mp_upper
        (mp.mp_ptrs indx - mp.mp_upper) o)
    {x : Nat} (hx : x + 1 < page_numkeys mp) :
    ∀ t, t < node_size mp (mp.mp_ptrs (del_src indx x)) →
      mp2.mem (mp2.mp_ptrs x + t) = mp.mem (mp.mp_ptrs (del_src indx x) + t) := by
  intro t ht
  have hy : del_src indx x < page_numkeys mp := by
    unfold del_src; split <;> omega
  have hne : del_src indx x ≠ indx := by
    unfold del_src; split <;> omega
  have h1 := hwf.inside hn indx hi
  have h2 := hwf.inside hn _ hy
  have h3 := hwf.apart hn _ indx hy hi hne
  have h4 := node_size_ge mp (mp.mp_ptrs indx)
  have h5 := node_size_ge mp (mp.mp_ptrs (del_src indx x))
  unfold NODESIZE at h4 h5
  rw [hp x, if_pos hy, hm]
  unfold del_shift
  by_cases hc : mp.mp_ptrs (del_src indx x) < mp.mp_ptrs indx
  · rw [if_pos hc, memmove_in _ (by omega)]
    congr 1
    omega
  · rw [if_neg hc, memmove_out _ (by omega)]

/-- The node that node_del leaves at an index reads back as the node that was
at the index `del_src indx x` before. -/
theorem node_del_entry {L : Nat} {mp mp2 : page_t} (hwf : WF L mp) (hn : IS_DFL mp = false)
    {indx : Nat} (hi : indx < page_numkeys mp)
    (hp : ∀ x, mp2.mp_ptrs x =
      if del_src indx x < page_numkeys mp then
        del_shift (mp.mp_ptrs indx) (node_size mp (mp.mp_ptrs indx))
          (mp.mp_ptrs (del_src indx x))
      else mp.mp_ptrs x)
    (hm : ∀ o, mp2.mem o =
      memmove mp.mem (mp.mp_upper + node_size mp (mp.mp_ptrs indx)) mp.mp_upper
        (mp.mp_ptrs indx - mp.mp_upper) o)
    {x : Nat} (hx : x + 1 < page_numkeys mp) :
    node_key mp2.mem (mp2.mp_ptrs x) = node_key mp.mem (mp.mp_ptrs (del_src indx x)) ∧
    node_flags8 mp2.mem (mp2.mp_ptrs x) = node_flags8 mp.mem (mp.mp_ptrs (del_src indx x)) ∧
    node_get_pgno mp2.mem (mp2.mp_ptrs x) =
      node_get_pgno mp.mem (mp.mp_ptrs (del_src indx x)) ∧
    node_get_datasize mp2.mem (mp2.mp_ptrs x) =
      node_get_datasize mp.mem (mp.mp_ptrs (del_src indx x)) ∧
    (IS_LEAF mp = true →
      node_data mp2.mem (mp2.mp_ptrs x) = node_data mp.mem (mp.mp_ptrs (del_src indx x))) := by
  have hr := node_del_read hwf hn hi hp hm hx
  have h5 := node_size_ge mp (mp.mp_ptrs (del_src indx x))
  have hev := even_le (mn_ksize16 mp.mem (mp.mp_ptrs (del_src indx x)))
  have h8 : 8 ≤ node_size mp (mp.mp_ptrs (del_src indx x)) := by
    unfold NODESIZE at h5; omega
  obtain ⟨e1, e2, e3⟩ := node_reads_congr hr h8
  refine ⟨node_key_congr hr e1 (by omega), e2, e3, e3, fun hl => ?_⟩
  refine node_data_congr hr h8 ?_
  have hs : node_size mp (mp.mp_ptrs (del_src indx x)) =
      EVEN (NODESIZE + mn_ksize16 mp.mem (mp.mp_ptrs (del_src indx x)) +
        node_datalen mp.mem (mp.mp_ptrs (del_src indx x))) := by
    unfold node_size node_datalen
    rw [if_pos hl]
    split <;> rfl
  rw [hs]
  exact (even_le _).1

end Layout
namespace Layout

/-- The bytes of a dense-fixed page after node_del. -/
theorem node_del_packed_mem {L : Nat} {mp : page_t} (hwf : WF L mp) (hn : IS_DFL mp = true)
    {indx : Nat} (hi : indx < page_numkeys mp) :
    ∃ mp2, node_del mp indx mp.mp_leaf2_ksize16 = some mp2 ∧
      mp2.mp_lower + 2 = mp.mp_lower ∧ mp2.mp_flags16 = mp.mp_flags16 ∧
      mp2.mp_leaf2_ksize16 = mp.mp_leaf2_ksize16 ∧
      mp2.mp_upper = mp.mp_upper + (mp.mp_leaf2_ksize16 - 2) ∧
      ∀ o, mp2.mem o = memmove mp.mem (indx * mp.mp_leaf2_ksize16)
        (indx * mp.mp_leaf2_ksize16 + mp.mp_leaf2_ksize16)
        ((page_numkeys mp - 1 - indx) * mp.mp_leaf2_ksize16) o := by
  have hp := hwf.packed hn
  have hlim := hwf.limit
  have hnk := numkeys_eq mp
  have hmul : mp.mp_leaf2_ksize16 - 2 ≤ page_numkeys mp * (mp.mp_leaf2_ksize16 - 2) :=
    Nat.le_mul_of_pos_left _ (by omega)
  unfold node_del
  simp only
  rw [if_neg (not_not.mpr hi), hn]
  simp only [if_true]
  rw [if_neg (by omega), if_neg (by omega), if_neg (by omega)]
  refine ⟨_, rfl, ?_, rfl, rfl, ?_, fun o => ?_⟩
  · simp only; omega
  · simp only; omega
  · simp only
    by_cases hd : page_numkeys mp - 1 - indx ≠ 0
    · rw [if_pos hd]
    · rw [if_neg hd]
      have h0 : page_numkeys mp - 1 - indx = 0 := by omega
      rw [h0, memmove_out _ (by omega)]

/-- C34: node_del on a well-formed page with `n` entries, at an index
`indx < n`, returns a page with `n - 1` entries whose lower bound is less by
2.  On an ordinary page the upper bound is greater by the even-rounded size of
the removed node (header and key, and on a leaf the data or the number of the
overflow page), and the entry at every index `x` reads back as the entry that
was at `x` (before `indx`) or at `x + 1` (from `indx` on), with the same key,
flags, child page number or data size, and on a leaf the same data bytes; so
any order between the keys of the entries is kept.  On a dense-fixed page with
keys of `s = mp_leaf2_ksize16` bytes the upper bound is greater by `s - 2`
and the key at every index `x` is the key that was at `x` (before `indx`) or
at `x + 1` (from `indx` on). -/
theorem C34_node_del (L : Nat) (mp : page_t) (hwf : WF L mp) (indx : Nat)
    (hi : indx < page_numkeys mp) :
    (IS_DFL mp = false → ∀ keysize,
      ∃ mp2, node_del mp indx keysize = some mp2 ∧
        page_numkeys mp2 + 1 = page_numkeys mp ∧ mp2.mp_lower + 2 = mp.mp_lower ∧
        mp2.mp_upper = mp.mp_upper + node_size mp (mp.mp_ptrs indx) ∧
        mp2.mp_flags16 = mp.mp_flags16 ∧
        (∀ x, x < page_numkeys mp2 →
          node_key mp2.mem (mp2.mp_ptrs x) = node_key mp.mem (mp.mp_ptrs (del_src indx x)) ∧
          node_flags8 mp2.mem (mp2.mp_ptrs x) =
            node_flags8 mp.mem (mp.mp_ptrs (del_src indx x)) ∧
          node_get_pgno mp2.mem (mp2.mp_ptrs x) =
            node_get_pgno mp.mem (mp.mp_ptrs (del_src indx x)) ∧
          node_get_datasize mp2.mem (mp2.mp_ptrs x) =
            node_get_datasize mp.mem (mp.mp_ptrs (del_src indx x)) ∧
          (IS_LEAF mp = true →
            node_data mp2.mem (mp2.mp_ptrs x) =
              node_data mp.mem (mp.mp_ptrs (del_src indx x)))) ∧
        ∀ lt : List Nat → List Nat → Prop,
          (∀ a b, a < b → b < page_numkeys mp →
            lt (node_key mp.mem (mp.mp_ptrs a)) (node_key mp.mem (mp.mp_ptrs b))) →
          ∀ a b, a < b → b < page_numkeys mp2 →
            lt (node_key mp2.mem (mp2.mp_ptrs a)) (node_key mp2.mem (mp2.mp_ptrs b))) ∧
    (IS_DFL mp = true →
      ∃ mp2, node_del mp indx mp.mp_leaf2_ksize16 = some mp2 ∧
        page_numkeys mp2 + 1 = page_numkeys mp ∧ mp2.mp_lower + 2 = mp.mp_lower ∧
        mp2.mp_upper = mp.mp_upper + (mp.mp_leaf2_ksize16 - 2) ∧
        mp2.mp_flags16 = mp.mp_flags16 ∧ mp2.mp_leaf2_ksize16 = mp.mp_leaf2_ksize16 ∧
        ∀ x, x < page_numkeys mp2 →
          dfl_key mp2.mem mp.mp_leaf2_ksize16 x =
            dfl_key mp.mem mp.mp_leaf2_ksize16 (del_src indx x)) := by
  have hnk := numkeys_eq mp
  refine ⟨fun hn keysize => ?_, fun hn => ?_⟩
  · obtain ⟨mp2, h1, h2, h3, h4, h5, h6⟩ := node_del_nodes hwf hn hi keysize
    have hnk2 := numkeys_eq mp2
    have hk : page_numkeys mp2 + 1 = page_numkeys mp := by omega
    have hent := fun x (hx : x < page_numkeys mp2) =>
      node_del_entry hwf hn hi h5 h6 (x := x) (by omega)
    refine ⟨mp2, h1, hk, h2, h4, h3, hent, fun lt hs a b hab hb => ?_⟩
    rw [(hent a (by omega)).1, (hent b hb).1]
    refine hs _ _ ?_ ?_
    · unfold del_src; split <;> split <;> omega
    · unfold del_src; split <;> omega
  · obtain ⟨mp2, h1, h2, h3, h4, h5, h6⟩ := node_del_packed_mem hwf hn hi
    have hnk2 := numkeys_eq mp2
    have hk : page_numkeys mp2 + 1 = page_numkeys mp := by omega
    refine ⟨mp2, h1, hk, h2, h5, h3, h4, fun x hx => ?_⟩
    unfold dfl_key
    apply List.map_congr_left
    intro t ht
    have ht2 : t < mp.mp_leaf2_ksize16 := List.mem_range.1 ht
    rw [h6]
    by_cases hc : x < indx
    · rw [del_src_lt hc, memmove_out _ (Or.inl ?_)]
      have : (x + 1) * mp.mp_leaf2_ksize16 ≤ indx * mp.mp_leaf2_ksize16 :=
        Nat.mul_le_mul_right _ hc
      rw [Nat.add_mul] at this
      omega
    · have hc2 : indx ≤ x := Nat.le_of_not_lt hc
      rw [del_src_ge hc2]
      have e1 : indx * mp.mp_leaf2_ksize16 ≤ x * mp.mp_leaf2_ksize16 :=
        Nat.mul_le_mul_right _ hc2
      have e2 : (x + 1) * mp.mp_leaf2_ksize16 ≤
          (page_numkeys mp - 1) * mp.mp_leaf2_ksize16 := Nat.mul_le_mul_right _ (by omega)
      have e3 : (page_numkeys mp - 1 - indx) * mp.mp_leaf2_ksize16 =
          (page_numkeys mp - 1) * mp.mp_leaf2_ksize16 - indx * mp.mp_leaf2_ksize16 :=
        Nat.sub_mul _ _ _
      have e4 : indx * mp.mp_leaf2_ksize16 ≤ (page_numkeys mp - 1) * mp.mp_leaf2_ksize16 :=
        Nat.mul_le_mul_right _ (by omega)
      rw [Nat.add_mul] at e2
      rw [memmove_in _ (by omega), Nat.add_mul]
      congr 1
      omega

theorem C34_node_del_witness :
    (∃ mp2, node_del shelf 0 0 = some mp2 ∧ page_numkeys mp2 = 1 ∧ mp2.mp_upper = 52 ∧
      node_key mp2.mem (mp2.mp_ptrs 0) = [98, 98] ∧ node_data mp2.mem (mp2.mp_ptrs 0) = [120]) ∧
    (∃ mp2, node_del packed_shelf 1 4 = some mp2 ∧ page_numkeys mp2 = 2 ∧
      mp2.mp_upper = 60 ∧ dfl_key mp2.mem 4 0 = [1, 0, 0, 0] ∧
      dfl_key mp2.mem 4 1 = [3, 0, 0, 0]) :=
  ⟨((C34_node_del 64 shelf shelf_wf 0 (by decide)).1 (by decide) 0).imp fun mp2 h =>
      ⟨h.1, by have := h.2.1; have e : page_numkeys shelf = 2 := by decide
               omega,
        h.2.2.2.1.trans (by decide),
        ((h.2.2.2.2.2.1 0 (by have := h.2.1; have e : page_numkeys shelf = 2 := by decide
                              omega)).1).trans (by decide),
        ((h.2.2.2.2.2.1 0 (by have := h.2.1; have e : page_numkeys shelf = 2 := by decide
                              omega)).2.2.2.2 (by decide)).trans (by decide)⟩,
    ((C34_node_del 64 packed_shelf packed_shelf_wf 1 (by decide)).2 (by decide)).imp
      fun mp2 h =>
      ⟨h.1, by have := h.2.1; have e : page_numkeys packed_shelf = 3 := by decide
               omega,
        h.2.2.2.1.trans (by decide),
        (h.2.2.2.2.2.2 0 (by have := h.2.1; have e : page_numkeys packed_shelf = 3 := by decide
                             omega)).trans (by decide),
        (h.2.2.2.2.2.2 1 (by have := h.2.1; have e : page_numkeys packed_shelf = 3 := by decide
                             omega)).trans (by decide)⟩⟩

end Layout

namespace Layout

/-- The first loop of node_shrink stores every entry of `mp_ptrs` of the
sub-page at `sp`, less `delta`, in the sub-page at `xp`, and leaves the other
bytes as they are. -/
theorem node_shrink_subloop_full (sp xp delta : Nat) (hx : sp ≤ xp) :
    ∀ (n : Nat) (m : Nat → Nat),
      (∀ i, i < n → delta ≤ get_le16 m (sp + PAGEHDRSZ + 2 * i)) → (∀ o, m o < 256) →
      ∃ m2, node_shrink_subloop sp xp delta n m = some m2 ∧
        (∀ i, i < n → get_le16 m2 (xp + PAGEHDRSZ + 2 * i) =
          get_le16 m (sp + PAGEHDRSZ + 2 * i) - delta) ∧
        ∀ o, o < xp + PAGEHDRSZ ∨ xp + PAGEHDRSZ + 2 * n ≤ o → m2 o = m o := by
  intro n
  induction n with
  | zero =>
    intro m _ _
    exact ⟨m, rfl, fun i hi => absurd hi (by omega), fun _ _ => rfl⟩
  | succ n ih =>
    intro m ha hb
    unfold node_shrink_subloop
    rw [if_pos (ha n (by omega))]
    have hv := get_le16_lt m hb (sp + PAGEHDRSZ + 2 * n)
    have hkeep : ∀ i, i < n →
        get_le16 (set_le16 m (xp + PAGEHDRSZ + 2 * n)
          (get_le16 m (sp + PAGEHDRSZ + 2 * n) - delta)) (sp + PAGEHDRSZ + 2 * i) =
        get_le16 m (sp + PAGEHDRSZ + 2 * i) := by
      intro i hi
      exact get_le16_set_le16 m (Or.inl (by omega))
    obtain ⟨m2, h1, h2, h3⟩ := ih
      (set_le16 m (xp + PAGEHDRSZ + 2 * n) (get_le16 m (sp + PAGEHDRSZ + 2 * n) - delta))
      (by
        intro i hi
        rw [hkeep i hi]
        exact ha i (by omega))
      (by
        intro o
        unfold set_le16
        split
        · omega
        · split
          · omega
          · exact hb o)
    refine ⟨m2, h1, fun i hi => ?_, fun o ho => ?_⟩
    · by_cases hc : i < n
      · rw [h2 i hc, hkeep i hc]
      · have e : i = n := by omega
        subst e
        have e1 : get_le16 m2 (xp + PAGEHDRSZ + 2 * i) =
            get_le16 (set_le16 m (xp + PAGEHDRSZ + 2 * i)
              (get_le16 m (sp + PAGEHDRSZ + 2 * i) - delta)) (xp + PAGEHDRSZ + 2 * i) :=
          get_le16_congr (fun o h4 h5 => h3 o (Or.inr h4))
        rw [e1, get_set_le16]
        omega
    · rw [h3 o (by omega), set_le16_out _ (by omega)]

/-- The bytes of the page after node_shrink on a node whose sub-page is not
dense-fixed. -/
theorem node_shrink_plain {L : Nat} {mp : page_t} (hwf : WF L mp) (hn : IS_DFL mp = false)
    {indx : Nat} (hi : indx < page_numkeys mp) (hs : SubWF mp indx)
    (hdfl : F_ISSET (sub_flags mp indx) P_DFL = false) :
    ∃ mp2 m1, node_shrink mp indx = some mp2 ∧
      (∀ i, i < sub_lower mp indx >>> 1 →
        get_le16 m1 (subpage_at mp indx + (sub_upper mp indx - sub_lower mp indx) +
            PAGEHDRSZ + 2 * i) =
          get_le16 mp.mem (subpage_at mp indx + PAGEHDRSZ + 2 * i) -
            (sub_upper mp indx - sub_lower mp indx)) ∧
      (∀ o, o < subpage_at mp indx + (sub_upper mp indx - sub_lower mp indx) + PAGEHDRSZ ∨
          subpage_at mp indx + (sub_upper mp indx - sub_lower mp indx) + PAGEHDRSZ +
            2 * (sub_lower mp indx >>> 1) ≤ o → m1 o = mp.mem o) ∧
      ∀ o, mp2.mem o =
        memmove
          (set_le32
            (set_le32
              (set_le16 m1 (subpage_at mp indx + 14) (get_le16 m1 (subpage_at mp indx + 12)))
              (subpage_at mp indx + 16) mp.mp_pgno)
            (mp.mp_ptrs indx)
            (node_get_datasize mp.mem (mp.mp_ptrs indx) -
              (sub_upper mp indx - sub_lower mp indx)))
          (mp.mp_upper + (sub_upper mp indx - sub_lower mp indx)) mp.mp_upper
          (subpage_at mp indx + PAGEHDRSZ - mp.mp_upper) o := by
  have hin := hwf.inside hn indx hi
  have hlim := hwf.limit
  have hlow := hwf.lower_le
  have hph : PAGEHDRSZ = 20 := rfl
  have hns : NODESIZE = 8 := rfl
  have hds := get_le32_lt mp.mem hwf.bytes (mp.mp_ptrs indx)
  have hsl := hs.lower_le
  have hsu := hs.upper_le
  have hsize : node_size mp (mp.mp_ptrs indx) =
      EVEN (NODESIZE + mn_ksize16 mp.mem (mp.mp_ptrs indx) +
        node_get_datasize mp.mem (mp.mp_ptrs indx)) := by
    unfold node_size
    rw [if_pos hs.leaf, if_neg (by rw [hs.plain]; simp)]
  have hev := even_le (NODESIZE + mn_ksize16 mp.mem (mp.mp_ptrs indx) +
        node_get_datasize mp.mem (mp.mp_ptrs indx))
  have hsz := node_size_ge mp (mp.mp_ptrs indx)
  have hsp : NODEDATA mp.mem (mp.mp_ptrs indx) = subpage_at mp indx := rfl
  have hspv : subpage_at mp indx = mp.mp_ptrs indx + 8 + mn_ksize16 mp.mem (mp.mp_ptrs indx) := rfl
  have e12 : get_le16 mp.mem (subpage_at mp indx + 12) = sub_lower mp indx := rfl
  have e14 : get_le16 mp.mem (subpage_at mp indx + 14) = sub_upper mp indx := rfl
  have e10 : get_le16 mp.mem (subpage_at mp indx + 10) = sub_flags mp indx := rfl
  have hnsz : (node_get_datasize mp.mem (mp.mp_ptrs indx) +
      (2 ^ 64 - (sub_upper mp indx - sub_lower mp indx))) % 2 ^ 64 =
      node_get_datasize mp.mem (mp.mp_ptrs indx) - (sub_upper mp indx - sub_lower mp indx) := by
    omega
  unfold node_shrink
  rw [node_ptr_ok hwf hn hi]
  simp only [hsp, e12, e14, e10, hnsz]
  rw [if_neg (not_not.mpr hsl)]
  rw [if_neg (fun h => absurd h.1 (by rw [hdfl]; decide))]
  simp only [hdfl, Bool.false_eq_true, if_false]
  obtain ⟨m1, hm1, hm2, hm3⟩ := node_shrink_subloop_full (subpage_at mp indx)
    (subpage_at mp indx + (sub_upper mp indx - sub_lower mp indx))
    (sub_upper mp indx - sub_lower mp indx) (by omega) (sub_lower mp indx >>> 1) mp.mem (by
      intro i hi2
      have := hs.inside hdfl i hi2
      omega) hwf.bytes
  rw [hm1]
  simp only [Option.map]
  rw [if_neg (by omega), if_neg (by omega)]
  obtain ⟨ptrs2, hl1, hl2⟩ := node_shrink_loop_spec (mp.mp_ptrs indx)
    (sub_upper mp indx - sub_lower mp indx) (page_numkeys mp) mp.mp_ptrs (by
      intro x _ hx
      omega)
  rw [hl1]
  simp only
  rw [if_neg (by omega)]
  exact ⟨_, m1, rfl, hm2, hm3, fun _ => rfl⟩

end Layout
namespace Layout

/-- Where the bytes of the page are after node_shrink on a node whose sub-page
is not dense-fixed, `delta` being the free space of the sub-page: the bytes
from the nodes of the sub-page on stay, the bytes between `mp_upper` and the
node and those of the node from its byte 4 up to the field `mp_upper` of the
sub-page move up by `delta`, and the entries of `mp_ptrs` of the sub-page are
less by `delta`. -/
theorem node_shrink_bytes {L : Nat} {mp : page_t} (hwf : WF L mp) (hn : IS_DFL mp = false)
    {indx : Nat} (hi : indx < page_numkeys mp) (hs : SubWF mp indx)
    (hdfl : F_ISSET (sub_flags mp indx) P_DFL = false) :
    ∃ mp2, node_shrink mp indx = some mp2 ∧
      (∀ o, subpage_at mp indx + PAGEHDRSZ + sub_upper mp indx ≤ o → mp2.mem o = mp.mem o) ∧
      (∀ o, mp.mp_upper ≤ o → o < mp.mp_ptrs indx →
        mp2.mem (o + (sub_upper mp indx - sub_lower mp indx)) = mp.mem o) ∧
      (∀ o, mp.mp_ptrs indx + 4 ≤ o → o < subpage_at mp indx + 14 →
        mp2.mem (o + (sub_upper mp indx - sub_lower mp indx)) = mp.mem o) ∧
      ∀ i, i < sub_lower mp indx >>> 1 →
        get_le16 mp2.mem (subpage_at mp indx + (sub_upper mp indx - sub_lower mp indx) +
            PAGEHDRSZ + 2 * i) =
          get_le16 mp.mem (subpage_at mp indx + PAGEHDRSZ + 2 * i) -
            (sub_upper mp indx - sub_lower mp indx) := by
  obtain ⟨mp2, m1, h1, h2, h3, h4⟩ := node_shrink_plain hwf hn hi hs hdfl
  have hin := hwf.inside hn indx hi
  have hph : PAGEHDRSZ = 20 := rfl
  have hsl := hs.lower_le
  have hspv : subpage_at mp indx = mp.mp_ptrs indx + 8 + mn_ksize16 mp.mem (mp.mp_ptrs indx) := rfl
  have hhalf : 2 * (sub_lower mp indx >>> 1) ≤ sub_lower mp indx := by
    rw [Nat.shiftRight_eq_div_pow]
    omega
  refine ⟨mp2, h1, fun o ho => ?_, fun o ho1 ho2 => ?_, fun o ho1 ho2 => ?_, fun i hi2 => ?_⟩
  · rw [h4, memmove_out _ (by omega), set_le32_out _ (by omega), set_le32_out _ (by omega),
      set_le16_out _ (by omega), h3 o (by omega)]
  · rw [h4, memmove_in _ (by omega), set_le32_out _ (by omega), set_le32_out _ (by omega),
      set_le16_out _ (by omega), h3 _ (by omega)]
    congr 1
    omega
  · rw [h4, memmove_in _ (by omega), set_le32_out _ (by omega), set_le32_out _ (by omega),
      set_le16_out _ (by omega), h3 _ (by omega)]
    congr 1
    omega
  · rw [← h2 i hi2]
    refine get_le16_congr (fun o ho1 ho2 => ?_)
    rw [h4, memmove_out _ (by omega), set_le32_out _ (by omega), set_le32_out _ (by omega),
      set_le16_out _ (by omega)]

end Layout
namespace Layout

/-- On a dense-fixed sub-page whose size without the free space is odd
node_shrink returns at once. -/
theorem node_shrink_odd {L : Nat} {mp : page_t} (hwf : WF L mp) (hn : IS_DFL mp = false)
    {indx : Nat} (hi : indx < page_numkeys mp) (hs : SubWF mp indx)
    (hdfl : F_ISSET (sub_flags mp indx) P_DFL = true)
    (hodd : (node_get_datasize mp.mem (mp.mp_ptrs indx) -
      (sub_upper mp indx - sub_lower mp indx)) % 2 = 1) :
    node_shrink mp indx = some mp := by
  have hds : node_get_datasize mp.mem (mp.mp_ptrs indx) < 4294967296 :=
    get_le32_lt mp.mem hwf.bytes (mp.mp_ptrs indx)
  have hsl := hs.lower_le
  have hsu := hs.upper_le
  have hsp : NODEDATA mp.mem (mp.mp_ptrs indx) = subpage_at mp indx := rfl
  have e12 : get_le16 mp.mem (subpage_at mp indx + 12) = sub_lower mp indx := rfl
  have e14 : get_le16 mp.mem (subpage_at mp indx + 14) = sub_upper mp indx := rfl
  have e10 : get_le16 mp.mem (subpage_at mp indx + 10) = sub_flags mp indx := rfl
  have hnsz : (node_get_datasize mp.mem (mp.mp_ptrs indx) +
      (2 ^ 64 - (sub_upper mp indx - sub_lower mp indx))) % 2 ^ 64 =
      node_get_datasize mp.mem (mp.mp_ptrs indx) - (sub_upper mp indx - sub_lower mp indx) := by
    omega
  unfold node_shrink
  rw [node_ptr_ok hwf hn hi]
  simp only [hsp, e12, e14, e10, hnsz]
  rw [if_neg (not_not.mpr hsl), if_pos ⟨hdfl, hodd⟩]

/-- C39: on a well-formed leaf page, for a node that holds a well-formed inline
sub-page, node_shrink returns.  When the sub-page is not dense-fixed and has
`delta` bytes of free space, the sub-page is left without free space (its
upper bound equals its lower bound, which is unchanged), the data size of the
node is less by `delta`, the upper bound of the main page is greater by
`delta` and its lower bound is unchanged; the key and the flags of the node,
the count of the entries of the sub-page and each of them (address, key,
flags, data size, data bytes), and the key, the flags, the data size and the
data bytes of every other node of the main page read back as before.  When the
sub-page is dense-fixed and its size without the free space is odd, the page
is unchanged. -/
theorem C39_node_shrink (L : Nat) (mp : page_t) (hwf : WF L mp) (hn : IS_DFL mp = false)
    (indx : Nat) (hi : indx < page_numkeys mp) (hs : SubWF mp indx) :
    ∃ mp2, node_shrink mp indx = some mp2 ∧
      (F_ISSET (sub_flags mp indx) P_DFL = false →
        sub_upper mp2 indx = sub_lower mp2 indx ∧
        sub_lower mp2 indx = sub_lower mp indx ∧ sub_flags mp2 indx = sub_flags mp indx ∧
        node_get_datasize mp2.mem (mp2.mp_ptrs indx) +
          (sub_upper mp indx - sub_lower mp indx) =
          node_get_datasize mp.mem (mp.mp_ptrs indx) ∧
        mp2.mp_upper = mp.mp_upper + (sub_upper mp indx - sub_lower mp indx) ∧
        mp2.mp_lower = mp.mp_lower ∧ mp2.mp_flags16 = mp.mp_flags16 ∧
        node_key mp2.mem (mp2.mp_ptrs indx) = node_key mp.mem (mp.mp_ptrs indx) ∧
        node_flags8 mp2.mem (mp2.mp_ptrs indx) = node_flags8 mp.mem (mp.mp_ptrs indx) ∧
        (∀ i, i < sub_lower mp indx >>> 1 →
          sub_node mp2 indx i = sub_node mp indx i ∧
          node_key mp2.mem (sub_node mp2 indx i) = node_key mp.mem (sub_node mp indx i) ∧
          node_flags8 mp2.mem (sub_node mp2 indx i) =
            node_flags8 mp.mem (sub_node mp indx i) ∧
          node_get_datasize mp2.mem (sub_node mp2 indx i) =
            node_get_datasize mp.mem (sub_node mp indx i) ∧
          node_data mp2.mem (sub_node mp2 indx i) = node_data mp.mem (sub_node mp indx i)) ∧
        ∀ x, x < page_numkeys mp → x ≠ indx →
          node_key mp2.mem (mp2.mp_ptrs x) = node_key mp.mem (mp.mp_ptrs x) ∧
          node_flags8 mp2.mem (mp2.mp_ptrs x) = node_flags8 mp.mem (mp.mp_ptrs x) ∧
          node_get_datasize mp2.mem (mp2.mp_ptrs x) =
            node_get_datasize mp.mem (mp.mp_ptrs x) ∧
          node_data mp2.mem (mp2.mp_ptrs x) = node_data mp.mem (mp.mp_ptrs x)) ∧
      (F_ISSET (sub_flags mp indx) P_DFL = true →
        (node_get_datasize mp.mem (mp.mp_ptrs indx) -
          (sub_upper mp indx - sub_lower mp indx)) % 2 = 1 → mp2 = mp) := by
  obtain ⟨mp3, g1, g2⟩ := node_shrink_spec hwf hn hi hs
  by_cases hdfl : F_ISSET (sub_flags mp indx) P_DFL = true
  · refine ⟨mp3, g1, fun h => absurd hdfl (by rw [h]; decide), fun _ hodd => ?_⟩
    have := node_shrink_odd hwf hn hi hs hdfl hodd
    rw [g1] at this
    injection this
  · have hdfl2 : F_ISSET (sub_flags mp indx) P_DFL = false := by simpa using hdfl
    obtain ⟨mp2, h1, hA, hB, hC, hD⟩ := node_shrink_bytes hwf hn hi hs hdfl2
    have e : mp3 = mp2 := by
      rw [g1] at h1
      injection h1
    subst e
    refine ⟨mp3, g1, fun _ => ?_, fun h => absurd h hdfl⟩
    rcases g2 with ⟨g3, _⟩ | ⟨f1, f2, f3, f4, f5, f6, f7, f8⟩
    · exact absurd g3 hdfl
    have hin := hwf.inside hn indx hi
    have hph : PAGEHDRSZ = 20 := rfl
    have hns : NODESIZE = 8 := rfl
    have hsl := hs.lower_le
    have hsu := hs.upper_le
    have hspv : subpage_at mp indx =
        mp.mp_ptrs indx + 8 + mn_ksize16 mp.mem (mp.mp_ptrs indx) := rfl
    have hpi : mp3.mp_ptrs indx = mp.mp_ptrs indx + (sub_upper mp indx - sub_lower mp indx) := by
      rw [f4 indx, if_pos ⟨hi, Nat.le_refl _⟩]
    have hspv2 : subpage_at mp3 indx =
        subpage_at mp indx + (sub_upper mp indx - sub_lower mp indx) := by
      show mp3.mp_ptrs indx + NODESIZE + mn_ksize16 mp3.mem (mp3.mp_ptrs indx) = _
      rw [f5, hpi]
      omega
    have hsize : node_size mp (mp.mp_ptrs indx) =
        EVEN (NODESIZE + mn_ksize16 mp.mem (mp.mp_ptrs indx) +
          node_get_datasize mp.mem (mp.mp_ptrs indx)) := by
      unfold node_size
      rw [if_pos hs.leaf, if_neg (by rw [hs.plain]; simp)]
    have hev := even_le (NODESIZE + mn_ksize16 mp.mem (mp.mp_ptrs indx) +
      node_get_datasize mp.mem (mp.mp_ptrs indx))
    refine ⟨by rw [f8, f7], f7, ?_, by rw [f6]; omega, f3, f1, f2, ?_, ?_, fun i hi2 => ?_,
      fun x hx hxi => ?_⟩
    · show get_le16 mp3.mem (subpage_at mp3 indx + 10) = get_le16 mp.mem (subpage_at mp indx + 10)
      rw [hspv2]
      unfold get_le16
      have a1 := hC (subpage_at mp indx + 10) (by omega) (by omega)
      have a2 := hC (subpage_at mp indx + 10 + 1) (by omega) (by omega)
      have b1 : subpage_at mp indx + (sub_upper mp indx - sub_lower mp indx) + 10 =
          subpage_at mp indx + 10 + (sub_upper mp indx - sub_lower mp indx) := by omega
      have b2 : subpage_at mp indx + (sub_upper mp indx - sub_lower mp indx) + 10 + 1 =
          subpage_at mp indx + 10 + 1 + (sub_upper mp indx - sub_lower mp indx) := by omega
      rw [b1, a1, ← b1, b2, a2]
    · unfold node_key
      rw [f5]
      apply List.map_congr_left
      intro t ht
      have ht2 : t < mn_ksize16 mp.mem (mp.mp_ptrs indx) := List.mem_range.1 ht
      have a1 := hC (NODEKEY (mp.mp_ptrs indx) + t) (by unfold NODEKEY; omega)
        (by unfold NODEKEY; omega)
      rw [← a1, hpi]
      congr 1
      unfold NODEKEY
      omega
    · unfold node_flags8
      have a1 := hC (mp.mp_ptrs indx + 5) (by omega) (by omega)
      rw [← a1, hpi]
      congr 1
      omega
    · have hp := hs.inside hdfl2 i hi2
      have hnode : sub_node mp3 indx i = sub_node mp indx i := by
        unfold sub_node
        rw [hspv2, hD i hi2]
        omega
      have hread : ∀ n t, t < n → mp3.mem (sub_node mp indx i + t) =
          mp.mem (sub_node mp indx i + t) := by
        intro n t _
        refine hA _ ?_
        unfold sub_node
        omega
      rw [hnode]
      obtain ⟨e1, e2, e3⟩ := node_reads_congr (hread 8) (le_refl 8)
      exact ⟨rfl, node_key_congr (hread _) e1 (le_refl _), e2, e3,
        node_data_congr (hread (8 + (NODESIZE + mn_ksize16 mp.mem (sub_node mp indx i) +
          node_datalen mp.mem (sub_node mp indx i)))) (by omega) (by omega)⟩
    · have h2 := hwf.inside hn x hx
      have h3 := hwf.apart hn x indx hx hi hxi
      have h5 := node_size_ge mp (mp.mp_ptrs x)
      have hread : ∀ t, t < node_size mp (mp.mp_ptrs x) →
          mp3.mem (mp3.mp_ptrs x + t) = mp.mem (mp.mp_ptrs x + t) := by
        intro t ht
        rw [f4 x]
        by_cases hc : mp.mp_ptrs x ≤ mp.mp_ptrs indx
        · rw [if_pos ⟨hx, hc⟩]
          have a1 := hB (mp.mp_ptrs x + t) (by omega) (by omega)
          rw [← a1]
          congr 1
          omega
        · rw [if_neg (fun h => hc h.2)]
          exact hA _ (by omega)
      have h8 : 8 ≤ node_size mp (mp.mp_ptrs x) := by omega
      obtain ⟨e1, e2, e3⟩ := node_reads_congr hread h8
      refine ⟨node_key_congr hread e1 (by have := even_le (mn_ksize16 mp.mem (mp.mp_ptrs x)); omega),
        e2, e3, node_data_congr hread h8 ?_⟩
      have hs2 : node_size mp (mp.mp_ptrs x) =
          EVEN (NODESIZE + mn_ksize16 mp.mem (mp.mp_ptrs x) +
            node_datalen mp.mem (mp.mp_ptrs x)) := by
        unfold node_size node_datalen
        rw [if_pos hs.leaf]
        split <;> rfl
      rw [hs2]
      exact (even_le _).1

end Layout
namespace Layout

theorem odd_shelf_wf : WF 64 odd_shelf := by
  have hn : page_numkeys odd_shelf = 1 := by decide
  refine ⟨by decide, ?_, by decide, by decide, by decide, ?_, ?_, ?_⟩
  · intro o
    show odd_shelf_bytes.getD o 0 < 256
    by_cases h : o < 64
    · revert o; decide
    · rw [List.getD_eq_default _ _ (by simpa [odd_shelf_bytes] using h)]
      decide
  · intro _ i hi
    rw [hn] at hi
    have e : i = 0 := by omega
    subst e
    decide
  · intro _ i j hi hj hij
    rw [hn] at hi hj
    omega
  · intro h
    exact absurd h (by decide)

theorem odd_shelf_sub : SubWF odd_shelf 0 :=
  ⟨by decide, by decide, by decide, by decide, fun h => absurd h (by decide)⟩

theorem C39_node_shrink_witness :
    (∃ mp2, node_shrink shelf 0 = some mp2 ∧ sub_upper mp2 0 = sub_lower mp2 0 ∧
      node_get_datasize mp2.mem (mp2.mp_ptrs 0) + 4 = 36 ∧ mp2.mp_upper = 10 ∧
      node_key mp2.mem (sub_node mp2 0 0) = [118] ∧
      node_key mp2.mem (mp2.mp_ptrs 1) = [98, 98] ∧
      node_data mp2.mem (mp2.mp_ptrs 1) = [120]) ∧
    (∃ mp2, node_shrink odd_shelf 0 = some mp2 ∧ mp2 = odd_shelf) :=
  ⟨(C39_node_shrink 64 shelf shelf_wf (by decide) 0 (by decide) shelf_sub).imp fun mp2 h =>
      ⟨h.1, (h.2.1 (by decide)).1, (h.2.1 (by decide)).2.2.2.1,
        (h.2.1 (by decide)).2.2.2.2.1,
        ((h.2.1 (by decide)).2.2.2.2.2.2.2.2.2.1 0 (by decide)).2.1.trans (by decide),
        ((h.2.1 (by decide)).2.2.2.2.2.2.2.2.2.2 1 (by decide) (by decide)).1.trans (by decide),
        ((h.2.1 (by decide)).2.2.2.2.2.2.2.2.2.2 1 (by decide)
          (by decide)).2.2.2.trans (by decide)⟩,
    (C39_node_shrink 64 odd_shelf odd_shelf_wf (by decide) 0 (by decide) odd_shelf_sub).imp
      fun mp2 h => ⟨h.1, h.2.2 (by decide) (by decide)⟩⟩

end Layout

namespace Ovfree

theorem store_same {α : Type} (a : Nat → α) (i : Nat) (v : α) : store a i v i = v := by
  unfold store
  rw [if_pos rfl]

theorem store_other {α : Type} (a : Nat → α) {i x : Nat} (v : α) (h : x ≠ i) :
    store a i v x = a x := by
  unfold store
  rw [if_neg h]

/-- The first loop of the label `release`: the page numbers smaller than `pg`
at the end of the list move up by `n` entries. -/
theorem release_shift_spec (pg n : Nat) :
    ∀ (i j : Nat) (mop : Nat → Nat), j = i + n → j < 4294967296 →
      ∃ (i2 : Nat) (mop2 : Nat → Nat), release_shift pg i j mop = (i2, i2 + n, mop2) ∧ i2 ≤ i ∧
        (i2 = 0 ∨ ¬ mop i2 < pg) ∧ (∀ x, i2 < x → x ≤ i → mop x < pg) ∧
        ∀ x, mop2 x = if i2 + n < x ∧ x ≤ i + n then mop (x - n) else mop x := by
  intro i
  induction i with
  | zero =>
    intro j mop hj _
    refine ⟨0, mop, ?_, le_refl _, Or.inl rfl, fun x h1 h2 => absurd h2 (by omega), fun x => ?_⟩
    · unfold release_shift
      rw [hj]
    · rw [if_neg (by omega)]
  | succ i ih =>
    intro j mop hj hlt
    unfold release_shift
    by_cases hc : mop (i + 1) < pg
    · rw [if_pos hc]
      have e : (j + 4294967295) % 4294967296 = i + n := by omega
      obtain ⟨i2, mop2, h1, h2, h3, h4, h5⟩ := ih ((j + 4294967295) % 4294967296)
        (store mop j (mop (i + 1))) e (by omega)
      refine ⟨i2, mop2, h1, by omega, ?_, fun x hx1 hx2 => ?_, fun x => ?_⟩
      · rcases h3 with h3 | h3
        · exact Or.inl h3
        · right
          rw [store_other _ _ (by omega)] at h3
          exact h3
      · by_cases hx : x = i + 1
        · rw [hx]; exact hc
        · have := h4 x hx1 (by omega)
          rw [store_other _ _ (by omega)] at this
          exact this
      · rw [h5 x]
        by_cases hx : i2 + n < x ∧ x ≤ i + n
        · rw [if_pos hx, if_pos (by omega), store_other _ _ (by omega)]
        · rw [if_neg hx]
          by_cases hx2 : x = j
          · have e3 : j - n = i + 1 := by omega
            rw [hx2, store_same, if_pos (by omega), e3]
          · rw [store_other _ _ hx2, if_neg (by omega)]
    · rw [if_neg hc]
      refine ⟨i + 1, mop, by rw [hj], le_refl _, Or.inr hc,
        fun x h1 h2 => absurd h2 (by omega), fun x => ?_⟩
      rw [if_neg (by omega)]

/-- The second loop of the label `release`: the entries from `i + 1` to `j` are
filled with the page numbers of the run, the highest first. -/
theorem release_fill_spec (i : Nat) :
    ∀ (fuel j pg : Nat) (mop : Nat → Nat), i ≤ j → j - i ≤ fuel →
      j < 4294967296 → pg + (j - i) ≤ 4294967296 →
      ∃ mop2 : Nat → Nat, release_fill i fuel j pg mop = some mop2 ∧
        ∀ x, mop2 x = if i < x ∧ x ≤ j then pg + (j - x) else mop x := by
  intro fuel
  induction fuel with
  | zero =>
    intro j pg mop h1 h2 _ _
    refine ⟨mop, ?_, fun x => ?_⟩
    · unfold release_fill
      rw [if_neg (by omega)]
    · rw [if_neg (by omega)]
  | succ fuel ih =>
    intro j pg mop h1 h2 h3 h4
    unfold release_fill
    by_cases hc : j > i
    · rw [if_pos hc]
      have e : (j + 4294967295) % 4294967296 = j - 1 := by omega
      rw [e]
      obtain ⟨mop2, g1, g2⟩ := ih (j - 1) ((pg + 1) % 4294967296) (store mop j pg) (by omega)
        (by omega) (by omega) (by
          by_cases hm : j - 1 - i = 0
          · rw [hm]
            have := Nat.mod_lt (pg + 1) (show 4294967296 > 0 by decide)
            omega
          · have : pg + 1 < 4294967296 := by omega
            rw [Nat.mod_eq_of_lt this]
            omega)
      refine ⟨mop2, g1, fun x => ?_⟩
      rw [g2 x]
      by_cases hx : i < x ∧ x ≤ j - 1
      · have : pg + 1 < 4294967296 := by omega
        rw [if_pos hx, if_pos (by omega), Nat.mod_eq_of_lt this]
        omega
      · rw [if_neg hx]
        by_cases hx2 : x = j
        · rw [hx2, store_same, if_pos (by omega)]
          omega
        · rw [store_other _ _ hx2, if_neg (by omega)]
    · rw [if_neg hc]
      refine ⟨mop, rfl, fun x => ?_⟩
      rw [if_neg (by omega)]

/-- The list after the code from the label `release`: the run lies behind the
page numbers that are not smaller than `pg`, the highest page number of the
run first, and the page numbers smaller than `pg` follow it. -/
theorem ovpage_free_release_spec (mop : Nat → Nat) (pg n : Nat)
    (hc : mop 0 + n < 4294967296) (hp : pg + n ≤ 4294967296) :
    ∃ (i : Nat) (mop2 : Nat → Nat), ovpage_free_release mop pg n = some mop2 ∧ i ≤ mop 0 ∧
      (i = 0 ∨ ¬ mop i < pg) ∧ (∀ x, i < x → x ≤ mop 0 → mop x < pg) ∧
      mop2 0 = mop 0 + n ∧
      ∀ x, 1 ≤ x → mop2 x =
        if x ≤ i then mop x
        else if x ≤ i + n then pg + (i + n - x)
        else if x ≤ mop 0 + n then mop (x - n) else mop x := by
  obtain ⟨i, mop1, h1, h2, h3, h4, h5⟩ := release_shift_spec pg n (mop 0)
    ((mop 0 + n) % 4294967296) mop (Nat.mod_eq_of_lt hc) (Nat.mod_lt _ (by decide))
  obtain ⟨mop2, g1, g2⟩ := release_fill_spec i (i + n) (i + n) pg mop1 (by omega) (by omega)
    (by omega) (by omega)
  have h0 : mop2 0 = mop 0 := by
    rw [g2 0, if_neg (by omega), h5 0, if_neg (by omega)]
  refine ⟨i, store mop2 0 ((mop2 0 + n) % 4294967296), ?_, h2, h3, h4, ?_, fun x hx => ?_⟩
  · unfold ovpage_free_release
    simp only [h1, g1]
  · rw [store_same, h0, Nat.mod_eq_of_lt hc]
  · rw [store_other _ _ (by omega), g2 x, h5 x]
    by_cases c1 : x ≤ i
    · rw [if_neg (by omega), if_neg (by omega), if_pos c1]
    · rw [if_neg c1]
      by_cases c2 : x ≤ i + n
      · rw [if_pos ⟨by omega, c2⟩, if_pos c2]
      · rw [if_neg (by omega), if_neg c2]
        by_cases c3 : x ≤ mop 0 + n
        · rw [if_pos ⟨by omega, c3⟩, if_pos c3]
        · rw [if_neg (by omega), if_neg c3]

end Ovfree
namespace Ovfree

theorem mem_pnl_entries (pl : Nat → Nat) (v : Nat) :
    v ∈ pnl_entries pl ↔ ∃ a, 1 ≤ a ∧ a ≤ pl 0 ∧ pl a = v := by
  unfold pnl_entries
  rw [List.mem_map]
  constructor
  · rintro ⟨i, hi, he⟩
    exact ⟨i + 1, by omega, by have := List.mem_range.1 hi; omega, he⟩
  · rintro ⟨a, h1, h2, he⟩
    refine ⟨a - 1, List.mem_range.2 (by omega), ?_⟩
    have e : a - 1 + 1 = a := by omega
    rw [e]
    exact he

theorem getElem_pnl_entries (pl : Nat → Nat) {k : Nat} (hk : k < pl 0) :
    (pnl_entries pl)[k]? = some (pl (k + 1)) := by
  unfold pnl_entries
  rw [List.getElem?_map, List.getElem?_range hk]
  rfl

theorem length_pnl_entries (pl : Nat → Nat) : (pnl_entries pl).length = pl 0 := by
  unfold pnl_entries
  simp

theorem sorted_pnl_entries (pl : Nat → Nat) :
    (pnl_entries pl).Pairwise (fun a b => b < a) ↔
      ∀ a b, 1 ≤ a → a < b → b ≤ pl 0 → pl b < pl a := by
  unfold pnl_entries
  rw [List.pairwise_map]
  constructor
  · intro h a b h1 h2 h3
    have h4 := (List.pairwise_iff_getElem.1 h) (a - 1) (b - 1) (by simp; omega) (by simp; omega)
      (by omega)
    simp only [List.getElem_range] at h4
    have e1 : a - 1 + 1 = a := by omega
    have e2 : b - 1 + 1 = b := by omega
    rw [e1, e2] at h4
    exact h4
  · intro h
    refine (List.pairwise_lt_range (pl 0)).imp_of_mem ?_
    intro i j hi hj hij
    exact h (i + 1) (j + 1) (by omega) (by omega) (by have := List.mem_range.1 hj; omega)

end Ovfree
namespace Ovfree

/-- The code from the label `release` inserts the run into a list that is
sorted strictly descending and holds none of its page numbers: the list stays
sorted strictly descending, grows by the length of the run, and holds the
page numbers it held and those of the run. -/
theorem release_sorted (mop : Nat → Nat) (pg n : Nat)
    (hc : mop 0 + n < 4294967296) (hp : pg + n ≤ 4294967296)
    (hs : (pnl_entries mop).Pairwise (fun a b => b < a))
    (hnone : ∀ v : Nat, v ∈ pnl_entries mop → v < pg ∨ pg + n ≤ v) :
    ∃ mop2 : Nat → Nat, ovpage_free_release mop pg n = some mop2 ∧
      (pnl_entries mop2).Pairwise (fun a b => b < a) ∧
      (pnl_entries mop2).length = (pnl_entries mop).length + n ∧
      ∀ v : Nat, v ∈ pnl_entries mop2 ↔ v ∈ pnl_entries mop ∨ (pg ≤ v ∧ v < pg + n) := by
  obtain ⟨i, mop2, h1, h2, h3, h4, h5, h6⟩ := ovpage_free_release_spec mop pg n hc hp
  have hs2 := (sorted_pnl_entries mop).1 hs
  have hnone2 : ∀ a, 1 ≤ a → a ≤ mop 0 → mop a < pg ∨ pg + n ≤ mop a :=
    fun a ha1 ha2 => hnone _ ((mem_pnl_entries mop _).2 ⟨a, ha1, ha2, rfl⟩)
  have hhigh : ∀ a, 1 ≤ a → a ≤ i → pg + n ≤ mop a := by
    intro a ha1 ha2
    have hi : ¬ mop i < pg := by
      rcases h3 with h3 | h3
      · omega
      · exact h3
    have hia : mop i ≤ mop a := by
      by_cases e : a = i
      · rw [e]
      · exact Nat.le_of_lt (hs2 a i ha1 (by omega) h2)
    rcases hnone2 a ha1 (by omega) with h | h
    · omega
    · exact h
  refine ⟨mop2, h1, ?_, ?_, fun v => ?_⟩
  · rw [sorted_pnl_entries]
    intro a b ha hab hb
    rw [h5] at hb
    rw [h6 a ha, h6 b (by omega)]
    by_cases a1 : a ≤ i
    · rw [if_pos a1]
      have ga := hhigh a ha a1
      by_cases b1 : b ≤ i
      · rw [if_pos b1]
        exact hs2 a b ha hab (by omega)
      · rw [if_neg b1]
        by_cases b2 : b ≤ i + n
        · rw [if_pos b2]
          omega
        · rw [if_neg b2, if_pos hb]
          have := h4 (b - n) (by omega) (by omega)
          omega
    · rw [if_neg a1, if_neg (by omega)]
      by_cases a2 : a ≤ i + n
      · rw [if_pos a2]
        by_cases b2 : b ≤ i + n
        · rw [if_pos b2]
          omega
        · rw [if_neg b2, if_pos hb]
          have := h4 (b - n) (by omega) (by omega)
          omega
      · rw [if_neg a2, if_neg (show ¬ b ≤ i + n by omega),
          if_pos (show a ≤ mop 0 + n by omega), if_pos hb]
        exact hs2 (a - n) (b - n) (by omega) (by omega) (by omega)
  · rw [length_pnl_entries, length_pnl_entries, h5]
  · rw [mem_pnl_entries, mem_pnl_entries]
    constructor
    · rintro ⟨a, ha1, ha2, he⟩
      rw [h5] at ha2
      rw [h6 a ha1] at he
      by_cases a1 : a ≤ i
      · rw [if_pos a1] at he
        exact Or.inl ⟨a, ha1, by omega, he⟩
      · rw [if_neg a1] at he
        by_cases a2 : a ≤ i + n
        · rw [if_pos a2] at he
          right
          omega
        · rw [if_neg a2, if_pos ha2] at he
          exact Or.inl ⟨a - n, by omega, by omega, he⟩
    · rintro (⟨a, ha1, ha2, he⟩ | ⟨hv1, hv2⟩)
      · by_cases a1 : a ≤ i
        · refine ⟨a, ha1, by rw [h5]; omega, ?_⟩
          rw [h6 a ha1, if_pos a1]
          exact he
        · refine ⟨a + n, by omega, by rw [h5]; omega, ?_⟩
          rw [h6 (a + n) (by omega), if_neg (by omega), if_neg (by omega), if_pos (by omega)]
          have e : a + n - n = a := by omega
          rw [e]
          exact he
      · refine ⟨i + n - (v - pg), by omega, by rw [h5]; omega, ?_⟩
        rw [h6 _ (by omega), if_neg (by omega), if_pos (by omega)]
        omega

end Ovfree
namespace Ovfree

/-- The counter `aa.overflow_pages` after `-= ovpages`. -/
theorem counter_sub (c n : Nat) (hn : n ≤ c) (hc : c < 4294967296) :
    (c + (4294967296 - n % 4294967296)) % 4294967296 + n = c := by
  omega

theorem pnl_entries_congr {pl pl2 : Nat → Nat} (h : ∀ i, i ≤ pl 0 → pl2 i = pl i) :
    pnl_entries pl2 = pnl_entries pl := by
  unfold pnl_entries
  rw [h 0 (Nat.zero_le _)]
  apply List.map_congr_left
  intro i hi
  exact h (i + 1) (by have := List.mem_range.1 hi; omega)

/-- The loop that takes the page out of the dirty list ends when the list
holds the page. -/
theorem dirty_remove_found (mp : Nat) :
    ∀ (fuel x : Nat) (ix : MDBX_ID2) (dl : MDBX_ID2L), x < fuel →
      (ix.mptr = mp ∨ ∃ q, 1 ≤ q ∧ q < x ∧ (dl q).mptr = mp) →
      ∃ dl2, dirty_remove mp fuel x ix dl = some dl2 := by
  intro fuel
  induction fuel with
  | zero => intro x _ _ h; exact absurd h (by omega)
  | succ fuel ih =>
    intro x ix dl hx hq
    unfold dirty_remove
    by_cases hc : ix.mptr ≠ mp
    · rw [if_pos hc]
      rcases hq with hq | ⟨q, hq1, hq2, hq3⟩
      · exact absurd hq hc
      · rw [if_pos (by omega)]
        refine ih (x - 1) _ _ (by omega) ?_
        by_cases e : q = x - 1
        · left; rw [← e]; exact hq3
        · right
          refine ⟨q, hq1, by omega, ?_⟩
          rw [store_other _ _ e]
          exact hq3
    · rw [if_neg hc]
      exact ⟨dl, rfl⟩

/-- The test of ovpage_free for a spilled page finds the key exactly when the
spill list, sorted strictly descending, holds it. -/
theorem spill_hit (sl : Nat → Nat) (pn : Nat)
    (hs : (pnl_entries sl).Pairwise (fun a b => b < a)) :
    (mdbx_pnl_search (pnl_entries sl) pn ≤ sl 0 ∧ sl (mdbx_pnl_search (pnl_entries sl) pn) = pn)
      ↔ pn ∈ pnl_entries sl := by
  have h := pnl_search_hit pn (pnl_entries sl) hs
  have h1 : 1 ≤ mdbx_pnl_search (pnl_entries sl) pn := by
    unfold mdbx_pnl_search; omega
  rw [length_pnl_entries] at h
  constructor
  · rintro ⟨h2, h3⟩
    exact (mem_pnl_entries sl pn).2 ⟨_, h1, h2, h3⟩
  · intro hm
    have hc : (pnl_entries sl).contains pn = true := by simpa using hm
    rw [hc] at h
    simp only [Bool.and_eq_true, decide_eq_true_eq, beq_iff_eq] at h
    refine ⟨h.1, ?_⟩
    have h4 := h.2
    have h5 := getElem_pnl_entries sl
      (show mdbx_pnl_search (pnl_entries sl) pn - 1 < sl 0 by omega)
    have e : mdbx_pnl_search (pnl_entries sl) pn - 1 + 1 = mdbx_pnl_search (pnl_entries sl) pn := by
      omega
    rw [h5, e] at h4
    injection h4

/-- The test `(mp->mp_flags16 & P_DIRTY) || (sl && ...)` of ovpage_free as a
proposition. -/
theorem reclaim_test (st : state_t) (mp : page_t) (hss : SpillSorted st) :
    (decide (mp.mp_flags16 &&& P_DIRTY ≠ 0) = true ∨
      (match st.txn.mt_spill_pages with
        | none => false
        | some sl =>
          decide ((if decide (mp.mp_flags16 &&& P_DIRTY ≠ 0) = true then 0
            else match st.txn.mt_spill_pages with
              | none => 0
              | some sl => mdbx_pnl_search (pnl_entries sl) ((mp.mp_pgno <<< 1) % 4294967296))
            ≤ sl 0) &&
          decide (sl (if decide (mp.mp_flags16 &&& P_DIRTY ≠ 0) = true then 0
            else match st.txn.mt_spill_pages with
              | none => 0
              | some sl => mdbx_pnl_search (pnl_entries sl) ((mp.mp_pgno <<< 1) % 4294967296))
            = (mp.mp_pgno <<< 1) % 4294967296)) = true) ↔
    (mp.mp_flags16 &&& P_DIRTY ≠ 0 ∨ Spilled st mp) := by
  by_cases hd : mp.mp_flags16 &&& P_DIRTY ≠ 0
  · exact ⟨fun _ => Or.inl hd, fun _ => Or.inl (decide_eq_true hd)⟩
  · have hd2 : decide (mp.mp_flags16 &&& P_DIRTY ≠ 0) = false := decide_eq_false hd
    unfold Spilled
    cases hsl : st.txn.mt_spill_pages with
    | none =>
      constructor
      · rintro (h | h)
        · rw [hd2] at h; exact absurd h (by decide)
        · exact absurd h (by simp)
      · rintro (h | ⟨sl, h, _⟩)
        · exact absurd h hd
        · exact absurd h (by simp)
    | some sl =>
      have hhit := spill_hit sl ((mp.mp_pgno <<< 1) % 4294967296) (hss sl hsl)
      simp only [hd2, Bool.false_eq_true, if_false, Bool.and_eq_true, decide_eq_true_eq,
        false_or]
      constructor
      · intro h
        exact Or.inr ⟨sl, rfl, hhit.1 h⟩
      · rintro (h | ⟨sl2, h, hm⟩)
        · exact absurd h hd
        · have e : sl = sl2 := by injection h
          subst e
          exact hhit.2 hm

/-- The branch of ovpage_free that is taken when the run is not given back to
the reclaimed list. -/
theorem ovpage_free_befree (ext : ext_t) (st : state_t) (mp : page_t) (hss : SpillSorted st)
    (h : ¬ Reclaims st mp) :
    ovpage_free ext st mp =
      if (ext.mdbx_pnl_append_range st.txn.mt_befree_pages mp.mp_pgno mp.mp_pages).1
          ≠ MDBX_SUCCESS then
        some ((ext.mdbx_pnl_append_range st.txn.mt_befree_pages mp.mp_pgno mp.mp_pages).1,
          { st with txn := { st.txn with mt_befree_pages :=
            (ext.mdbx_pnl_append_range st.txn.mt_befree_pages mp.mp_pgno mp.mp_pages).2 } })
      else
        some (0, { st with
          txn := { st.txn with mt_befree_pages :=
            (ext.mdbx_pnl_append_range st.txn.mt_befree_pages mp.mp_pgno mp.mp_pages).2 },
          overflow_pages :=
            (st.overflow_pages + (4294967296 - mp.mp_pages % 4294967296)) % 4294967296 }) := by
  unfold ovpage_free
  simp only
  cases hr : st.txn.mt_book.me_reclaimed_pglist with
  | none => rfl
  | some mop0 =>
    cases hpar : st.txn.mt_parent with
    | some p => rfl
    | none =>
      simp only
      rw [if_neg]
      intro hcond
      exact h ⟨by rw [hr]; simp, hpar, (reclaim_test st mp hss).1 hcond⟩

end Ovfree
namespace Ovfree

theorem sample_ext_append : AppendOK sample_ext := by
  intro (pl : Nat → Nat) (pg : Nat) n _
  refine ⟨(List.range n).map (fun k => pg + (n - 1 - k)), ?_, ?_⟩
  · show pnl_entries (fun x => if x = 0 then pl 0 + n
        else if pl 0 < x ∧ x ≤ pl 0 + n then pg + (pl 0 + n - x) else pl x) = _
    unfold pnl_entries
    simp only [if_true]
    rw [List.range_add, List.map_append, List.map_map]
    congr 1
    · apply List.map_congr_left
      intro i hi
      have := List.mem_range.1 hi
      rw [if_neg (show ¬ i + 1 = 0 by omega),
        if_neg (show ¬ (pl 0 < i + 1 ∧ i + 1 ≤ pl 0 + n) by omega)]
    · apply List.map_congr_left
      intro k hk
      have := List.mem_range.1 hk
      simp only [Function.comp_apply]
      rw [if_neg (show ¬ pl 0 + k + 1 = 0 by omega),
        if_pos (show pl 0 < pl 0 + k + 1 ∧ pl 0 + k + 1 ≤ pl 0 + n by omega)]
      have e : pl 0 + n - (pl 0 + k + 1) = n - 1 - k := by omega
      rw [e]
  · have e : (List.range n).map (fun k => pg + (n - 1 - k)) =
        ((List.range n).map (fun k => pg + k)).reverse := by
      apply List.ext_getElem
      · simp
      · intro k h1 h2
        simp only [List.getElem_map, List.getElem_range, List.getElem_reverse, List.length_map,
          List.length_range]
    rw [e]
    exact List.reverse_perm _

theorem nomem_ext_append : AppendOK nomem_ext := by
  intro pl pg n h
  have h2 : MDBX_ENOMEM = MDBX_SUCCESS := h
  exact absurd h2 (by decide)

/-- C32: when the databook has no reclaimed page list, or the transaction has a
parent, or the page `mp` is neither dirty nor in the spill list of the
transaction (which is sorted), ovpage_free returns what
mdbx_pnl_append_range returns for the to-be-freed list of the transaction, the
page number of `mp` and its count of pages `n`; the dirty list, the spill list
and the databook with its reclaimed list are unchanged.  When that is
`MDBX_SUCCESS`, the page numbers of the to-be-freed list are those before
followed by `pg`, ..., `pg + n - 1`, and the counter of overflow pages is less
by `n` (computed in 32 bits; for a counter that is not smaller than `n`, the
counter plus `n` is the counter before).  Otherwise the counter is unchanged. -/
theorem C32_befree (ext : ext_t) (st : state_t) (mp : page_t) (hext : AppendOK ext)
    (hss : SpillSorted st)
    (h : st.txn.mt_book.me_reclaimed_pglist = none ∨ st.txn.mt_parent ≠ none ∨
      (mp.mp_flags16 &&& P_DIRTY = 0 ∧ ¬ Spilled st mp)) :
    ∃ st2, ovpage_free ext st mp =
        some ((ext.mdbx_pnl_append_range st.txn.mt_befree_pages mp.mp_pgno mp.mp_pages).1,
          st2) ∧
      st2.txn.mt_rw_dirtylist = st.txn.mt_rw_dirtylist ∧
      st2.txn.mt_spill_pages = st.txn.mt_spill_pages ∧
      st2.txn.mt_book = st.txn.mt_book ∧
      ((ext.mdbx_pnl_append_range st.txn.mt_befree_pages mp.mp_pgno mp.mp_pages).1
          = MDBX_SUCCESS →
        (∃ r, pnl_entries st2.txn.mt_befree_pages = pnl_entries st.txn.mt_befree_pages ++ r ∧
          r.Perm ((List.range mp.mp_pages).map (fun k => mp.mp_pgno + k))) ∧
        st2.overflow_pages =
          (st.overflow_pages + (4294967296 - mp.mp_pages % 4294967296)) % 4294967296 ∧
        (mp.mp_pages ≤ st.overflow_pages → st.overflow_pages < 4294967296 →
          st2.overflow_pages + mp.mp_pages = st.overflow_pages)) ∧
      ((ext.mdbx_pnl_append_range st.txn.mt_befree_pages mp.mp_pgno mp.mp_pages).1
          ≠ MDBX_SUCCESS → st2.overflow_pages = st.overflow_pages) := by
  have hn : ¬ Reclaims st mp := by
    rintro ⟨h1, h2, h3⟩
    rcases h with h | h | ⟨h4, h5⟩
    · exact h1 h
    · exact h h2
    · rcases h3 with h3 | h3
      · exact h3 h4
      · exact h5 h3
  rw [ovpage_free_befree ext st mp hss hn]
  by_cases hrc : (ext.mdbx_pnl_append_range st.txn.mt_befree_pages mp.mp_pgno mp.mp_pages).1
      ≠ MDBX_SUCCESS
  · rw [if_pos hrc]
    exact ⟨_, rfl, rfl, rfl, rfl, fun h0 => absurd h0 hrc, fun _ => rfl⟩
  · rw [if_neg hrc]
    have hrc2 := not_not.1 hrc
    refine ⟨{ st with
        txn := { st.txn with mt_befree_pages :=
          (ext.mdbx_pnl_append_range st.txn.mt_befree_pages mp.mp_pgno mp.mp_pages).2 },
        overflow_pages :=
          (st.overflow_pages + (4294967296 - mp.mp_pages % 4294967296)) % 4294967296 },
      by rw [hrc2]; rfl, rfl, rfl, rfl,
      fun _ => ⟨hext _ _ _ hrc2, rfl, fun h1 h2 => counter_sub _ _ h1 h2⟩,
      fun h0 => absurd hrc2 h0⟩

end Ovfree
namespace Ovfree

theorem sample_spill_sorted : SpillSorted sample_state := by
  intro sl h
  have h2 : some (pnl_of [24]) = some sl := h
  injection h2 with h2
  rw [← h2]
  decide

theorem nested_spill_sorted : SpillSorted nested_state := sample_spill_sorted

theorem clean_not_spilled : ¬ Spilled sample_state clean_run := by
  rintro ⟨sl, h, hm⟩
  have h2 : some (pnl_of [24]) = some sl := h
  injection h2 with h2
  rw [← h2] at hm
  revert hm
  decide

theorem C32_befree_witness :
    (∃ st2, ovpage_free sample_ext nested_state dirty_run = some (MDBX_SUCCESS, st2) ∧
      st2.overflow_pages + 3 = 10 ∧ st2.txn.mt_book = nested_state.txn.mt_book) ∧
    (∃ st2, ovpage_free sample_ext sample_state clean_run = some (MDBX_SUCCESS, st2) ∧
      st2.overflow_pages + 2 = 10) ∧
    (∃ st2, ovpage_free nomem_ext nested_state dirty_run = some (MDBX_ENOMEM, st2) ∧
      st2.overflow_pages = 10) :=
  ⟨(C32_befree sample_ext nested_state dirty_run sample_ext_append nested_spill_sorted
      (Or.inr (Or.inl (by decide)))).imp fun _ h =>
      ⟨h.1, (h.2.2.2.2.1 rfl).2.2 (by decide) (by decide), h.2.2.2.1⟩,
    (C32_befree sample_ext sample_state clean_run sample_ext_append sample_spill_sorted
      (Or.inr (Or.inr ⟨by decide, clean_not_spilled⟩))).imp fun _ h =>
      ⟨h.1, (h.2.2.2.2.1 rfl).2.2 (by decide) (by decide)⟩,
    (C32_befree nomem_ext nested_state dirty_run nomem_ext_append nested_spill_sorted
      (Or.inr (Or.inl (by decide)))).imp fun _ h =>
      ⟨h.1, h.2.2.2.2.2 (by decide)⟩⟩

end Ovfree
namespace Ovfree

/-- The branch of ovpage_free that gives the run back to the reclaimed list:
when mdbx_pnl_need finds room and, for a dirty page, the dirty list holds the
page, ovpage_free returns `MDBX_SUCCESS` and the reclaimed list is the one that
the code from the label `release` leaves. -/
theorem ovpage_free_reclaim (ext : ext_t) (st : state_t) (mp : page_t) (mop : Nat → Nat)
    (hss : SpillSorted st)
    (hrec : st.txn.mt_book.me_reclaimed_pglist = some mop) (hpar : st.txn.mt_parent = none)
    (hcond : mp.mp_flags16 &&& P_DIRTY ≠ 0 ∨ Spilled st mp)
    (hrc : (ext.mdbx_pnl_need mop mp.mp_pages).1 = MDBX_SUCCESS)
    (hdl : mp.mp_flags16 &&& P_DIRTY ≠ 0 →
      ∃ q : Nat, 1 ≤ q ∧ q ≤ ((st.txn.mt_rw_dirtylist 0).mid : Nat) ∧
        (st.txn.mt_rw_dirtylist q).mptr = mp.addr)
    (mop2 : Nat → Nat)
    (hrel : ovpage_free_release (ext.mdbx_pnl_need mop mp.mp_pages).2 mp.mp_pgno mp.mp_pages
      = some mop2) :
    ∃ st2, ovpage_free ext st mp = some (MDBX_SUCCESS, st2) ∧
      st2.txn.mt_book.me_reclaimed_pglist = some mop2 ∧
      st2.txn.mt_befree_pages = st.txn.mt_befree_pages ∧
      st2.overflow_pages =
        (st.overflow_pages + (4294967296 - mp.mp_pages % 4294967296)) % 4294967296 := by
  have htest := (reclaim_test st mp hss).2 hcond
  rcases hnd : ext.mdbx_pnl_need mop mp.mp_pages with ⟨rc, mop1⟩
  rw [hnd] at hrc hrel
  have hrc0 : rc = MDBX_SUCCESS := hrc
  have hrel0 : ovpage_free_release mop1 mp.mp_pgno mp.mp_pages = some mop2 := hrel
  unfold ovpage_free
  simp only [hrec, hpar]
  have hnd2 : ext.1 mop mp.mp_pages = (rc, mop1) := hnd
  rw [if_pos htest]
  simp only [hnd2]
  rw [if_neg (not_not.mpr hrc0)]
  by_cases hd : mp.mp_flags16 &&& P_DIRTY ≠ 0
  · have hd2 : decide (mp.mp_flags16 &&& P_DIRTY ≠ 0) = true := decide_eq_true hd
    rw [if_neg (by rw [hd2]; simp)]
    obtain ⟨q, hq1, hq2, hq3⟩ := hdl hd
    obtain ⟨dl2, hdl2⟩ := dirty_remove_found mp.addr ((st.txn.mt_rw_dirtylist 0).mid + 1)
      (st.txn.mt_rw_dirtylist 0).mid
      (store st.txn.mt_rw_dirtylist 0
        { st.txn.mt_rw_dirtylist 0 with
          mid := ((st.txn.mt_rw_dirtylist 0).mid + 4294967295) % 4294967296 }
        (st.txn.mt_rw_dirtylist 0).mid)
      (store st.txn.mt_rw_dirtylist 0
        { st.txn.mt_rw_dirtylist 0 with
          mid := ((st.txn.mt_rw_dirtylist 0).mid + 4294967295) % 4294967296 })
      (Nat.lt_succ_self _) (by
        by_cases e : q = ((st.txn.mt_rw_dirtylist 0).mid : Nat)
        · left
          rw [store_other _ _ (by omega), ← e]
          exact hq3
        · right
          refine ⟨q, hq1, by omega, ?_⟩
          rw [store_other _ _ (by omega)]
          exact hq3)
    rw [hdl2]
    simp only [hrel0]
    exact ⟨_, rfl, rfl, rfl, rfl⟩
  · have hd2 : decide (mp.mp_flags16 &&& P_DIRTY ≠ 0) = false := decide_eq_false hd
    rw [if_pos (by rw [hd2]; simp)]
    rcases hcond with hcond | ⟨sl, hsl, _⟩
    · exact absurd hcond hd
    · simp only [hsl, hrel0]
      exact ⟨_, rfl, rfl, rfl, rfl⟩

end Ovfree
namespace Ovfree

theorem sample_ext_need : NeedOK sample_ext := fun _ _ _ _ _ => rfl

/-- C38: in a transaction without parent whose databook has a reclaimed page
list, for an overflow page `mp` that is dirty (and then in the dirty list) or
whose key is in the spill list (which is sorted), when mdbx_pnl_need finds
room, ovpage_free returns `MDBX_SUCCESS`; if the reclaimed list was sorted
strictly descending and held none of the page numbers `pg`, ..., `pg + n - 1`
of the run, the reclaimed list afterwards is sorted strictly descending, its
length is greater by `n`, and it holds exactly the page numbers it held before
and those of the run. -/
theorem C38_reclaim_sorted (ext : ext_t) (st : state_t) (mp : page_t) (mop : Nat → Nat)
    (hneed : NeedOK ext) (hss : SpillSorted st)
    (hrec : st.txn.mt_book.me_reclaimed_pglist = some mop) (hpar : st.txn.mt_parent = none)
    (hcond : mp.mp_flags16 &&& P_DIRTY ≠ 0 ∨ Spilled st mp)
    (hrc : (ext.mdbx_pnl_need mop mp.mp_pages).1 = MDBX_SUCCESS)
    (hdl : mp.mp_flags16 &&& P_DIRTY ≠ 0 →
      ∃ q : Nat, 1 ≤ q ∧ q ≤ ((st.txn.mt_rw_dirtylist 0).mid : Nat) ∧
        (st.txn.mt_rw_dirtylist q).mptr = mp.addr)
    (hs : (pnl_entries mop).Pairwise (fun a b => b < a))
    (hnone : ∀ v : Nat, v ∈ pnl_entries mop → v < mp.mp_pgno ∨ mp.mp_pgno + mp.mp_pages ≤ v)
    (hc : mop 0 + mp.mp_pages < 4294967296) (hp : mp.mp_pgno + mp.mp_pages ≤ 4294967296) :
    ∃ (st2 : state_t) (mop2 : Nat → Nat), ovpage_free ext st mp = some (MDBX_SUCCESS, st2) ∧
      st2.txn.mt_book.me_reclaimed_pglist = some mop2 ∧
      (pnl_entries mop2).Pairwise (fun a b => b < a) ∧
      (pnl_entries mop2).length = (pnl_entries mop).length + mp.mp_pages ∧
      ∀ v : Nat, v ∈ pnl_entries mop2 ↔
        v ∈ pnl_entries mop ∨ (mp.mp_pgno ≤ v ∧ v < mp.mp_pgno + mp.mp_pages) := by
  have hsame := hneed mop mp.mp_pages hrc
  have hent : pnl_entries (ext.mdbx_pnl_need mop mp.mp_pages).2 = pnl_entries mop :=
    pnl_entries_congr hsame
  have h0 : (ext.mdbx_pnl_need mop mp.mp_pages).2 0 = mop 0 := hsame 0 (Nat.zero_le _)
  obtain ⟨mop2, g1, g2, g3, g4⟩ := release_sorted (ext.mdbx_pnl_need mop mp.mp_pages).2
    mp.mp_pgno mp.mp_pages (by rw [h0]; exact hc) hp (by rw [hent]; exact hs)
    (by rw [hent]; exact hnone)
  obtain ⟨st2, f1, f2, _⟩ := ovpage_free_reclaim ext st mp mop hss hrec hpar hcond hrc hdl mop2 g1
  rw [hent] at g3 g4
  exact ⟨st2, mop2, f1, f2, g2, g3, g4⟩

theorem C38_reclaim_sorted_witness :
    (∃ (st2 : state_t) (mop2 : Nat → Nat),
      ovpage_free sample_ext sample_state dirty_run = some (MDBX_SUCCESS, st2) ∧
      st2.txn.mt_book.me_reclaimed_pglist = some mop2 ∧
      (pnl_entries mop2).Pairwise (fun a b => b < a) ∧ (pnl_entries mop2).length = 6 ∧
      21 ∈ pnl_entries mop2 ∧ 40 ∈ pnl_entries mop2) ∧
    (∃ (st2 : state_t) (mop2 : Nat → Nat),
      ovpage_free sample_ext sample_state spilled_run = some (MDBX_SUCCESS, st2) ∧
      st2.txn.mt_book.me_reclaimed_pglist = some mop2 ∧
      (pnl_entries mop2).Pairwise (fun a b => b < a) ∧ (pnl_entries mop2).length = 5 ∧
      13 ∈ pnl_entries mop2) :=
  ⟨(C38_reclaim_sorted sample_ext sample_state dirty_run (pnl_of [50, 40, 9]) sample_ext_need
      sample_spill_sorted rfl rfl (Or.inl (by decide)) rfl
      (fun _ => ⟨1, by decide, by decide, by decide⟩) (by decide) (by decide) (by decide)
      (by decide)).imp fun _ h => h.imp fun _ h2 =>
        ⟨h2.1, h2.2.1, h2.2.2.1, h2.2.2.2.1, (h2.2.2.2.2 21).2 (Or.inr (by decide)),
          (h2.2.2.2.2 40).2 (Or.inl (by decide))⟩,
    (C38_reclaim_sorted sample_ext sample_state spilled_run (pnl_of [50, 40, 9]) sample_ext_need
      sample_spill_sorted rfl rfl (Or.inr ⟨pnl_of [24], rfl, by decide⟩) rfl
      (fun h => absurd h (by decide)) (by decide) (by decide) (by decide)
      (by decide)).imp fun _ h => h.imp fun _ h2 =>
        ⟨h2.1, h2.2.1, h2.2.2.1, h2.2.2.2.1, (h2.2.2.2.2 13).2 (Or.inr (by decide))⟩⟩

end Ovfree

/-- Two paths of a tree whose top pages, at the same height, hold an entry in
common go through the same frames below the top and end on the same page. -/
theorem chain_unique {txn : MDBX_txn} {cmp : MDBX_comparer} {P : node_t → Prop}
    {root : page_t} (hc : CmpOK cmp) (x : node_t) :
    ∀ (fs1 : frames_t) (f1 : page_t × Nat) (l : Nat) (lo1 hi1 : Option MDBX_iov)
      (fs0 : frames_t) (f0 : page_t × Nat) (lo0 hi0 : Option MDBX_iov),
      Chain txn cmp P root l lo1 hi1 (f1 :: fs1) → Chain txn cmp P root l lo0 hi0 (f0 :: fs0) →
      x ∈ tree_nodes txn l f1.1 → x ∈ tree_nodes txn l f0.1 →
      fs1 = fs0 ∧ f1.1 = f0.1 ∧ lo1 = lo0 ∧ hi1 = hi0 := by
  intro fs1
  induction fs1 with
  | nil =>
    intro f1 l lo1 hi1 fs0 f0 lo0 hi0 h1 h0 _ _
    have hr1 := Chain.root_tree [] f1 l lo1 hi1 h1
    have hr0 := Chain.root_tree fs0 f0 l lo0 hi0 h0
    have hlen := WFTree.height_unique _ _ _ _ _ _ _ hr1 hr0
    have hnil : fs0 = [] := List.eq_nil_of_length_eq_zero (by
      simp only [List.length_nil] at hlen; omega)
    subst hnil
    exact ⟨rfl, h1.1.trans h0.1.symm, h1.2.1.trans h0.2.1.symm, h1.2.2.1.trans h0.2.2.1.symm⟩
  | cons g1 fs1 ih =>
    intro f1 l lo1 hi1 fs0 f0 lo0 hi0 h1 h0 hx1 hx0
    have hr1 := Chain.root_tree (g1 :: fs1) f1 l lo1 hi1 h1
    have hr0 := Chain.root_tree fs0 f0 l lo0 hi0 h0
    have hlen := WFTree.height_unique _ _ _ _ _ _ _ hr1 hr0
    cases fs0 with
    | nil =>
      simp only [List.length_cons, List.length_nil] at hlen
      omega
    | cons g0 fs0 =>
      obtain ⟨a1, a2, lo2, hi2, a3, a4, a5⟩ := h1
      obtain ⟨b1, b2, lo3, hi3, b3, b4, b5⟩ := h0
      rw [a1] at hx1
      rw [b1] at hx0
      obtain ⟨e1, e2, e3, e4⟩ := ih g1 (l + 1) lo2 hi2 fs0 g0 lo3 hi3 a3 b3
        (tree_nodes_mem_succ.2 ⟨_, a2, hx1⟩) (tree_nodes_mem_succ.2 ⟨_, b2, hx0⟩)
      have hw := Chain.wf _ _ _ _ _ a3
      have hb := hw.branch
      have hbd1 := tree_nodes_bounds hc l _ _ _ (hw.child a2) x hx1
      rw [← e2] at hx0 b2
      have hbd0 := tree_nodes_bounds hc l _ _ _ (hw.child b2) x hx0
      -- the two child indices are equal
      have hlt : ∀ i j, i < j → j < page_numkeys g1.1 →
          x ∈ tree_nodes txn l (child_page txn g1.1 i) →
          x ∈ tree_nodes txn l (child_page txn g1.1 j) → False := by
        intro i j hij hj hxi hxj
        have hi3 : i < page_numkeys g1.1 := by omega
        have c1 := (tree_nodes_bounds hc l _ _ _ (hw.child hi3) x hxi).2
          (key_at g1.1 (i + 1)) (by rw [if_pos (by omega)])
        have c0 := (tree_nodes_bounds hc l _ _ _ (hw.child hj) x hxj).1
          (key_at g1.1 j) (by rw [if_neg (by omega)])
        have c2 : cmp (key_at g1.1 (i + 1)) (key_at g1.1 j) ≤ 0 := by
          by_cases e : i + 1 = j
          · rw [e, hc.refl]
          · exact Int.le_of_lt (hb.sorted (i + 1) j (by omega) (by omega) hj)
        have c3 := hc.trans _ _ _ c2 c0
        have c4 := (hc.symm _ _).1 c1
        omega
      have hidx : g1.2 = g0.2 := by
        rcases Nat.lt_trichotomy g1.2 g0.2 with h | h | h
        · exact absurd (hlt _ _ h b2 hx1 hx0) id
        · exact h
        · exact absurd (hlt _ _ h a2 hx0 hx1) id
      have hg : g1 = g0 := Prod.ext e2 hidx
      subst hg
      subst e1
      exact ⟨rfl, a1.trans b1.symm, by rw [a4, b4, e3], by rw [a5, b5, e4]⟩

/-- Two paths of a tree from the root to leaf entries with the same key are
the same frames. -/
theorem chain_entry_unique {txn : MDBX_txn} {cmp : MDBX_comparer} {P : node_t → Prop}
    {root : page_t} (hc : CmpOK cmp) {leaf1 leaf0 : page_t} {k1 k0 : Nat} {R1 R0 : frames_t}
    {lo1 hi1 lo0 hi0 : Option MDBX_iov}
    (h1 : Chain txn cmp P root 0 lo1 hi1 ((leaf1, k1) :: R1))
    (h0 : Chain txn cmp P root 0 lo0 hi0 ((leaf0, k0) :: R0))
    (hk1 : k1 < page_numkeys leaf1) (hk0 : k0 < page_numkeys leaf0)
    (he : leaf1.mp_nodes.getD k1 default = leaf0.mp_nodes.getD k0 default) :
    (leaf1, k1) :: R1 = (leaf0, k0) :: R0 := by
  have hl1 : LeafOK cmp leaf1 := (Chain.wf _ _ _ _ _ h1).leaf
  have hl0 : LeafOK cmp leaf0 := (Chain.wf _ _ _ _ _ h0).leaf
  have m1 : leaf1.mp_nodes.getD k1 default ∈ tree_nodes txn 0 leaf1 := by
    show _ ∈ leaf1.mp_nodes
    rw [List.getD_eq_getElem _ _ (by rw [hl1.nodes]; exact hk1)]
    exact List.getElem_mem _
  have m0 : leaf1.mp_nodes.getD k1 default ∈ tree_nodes txn 0 leaf0 := by
    show _ ∈ leaf0.mp_nodes
    rw [he, List.getD_eq_getElem _ _ (by rw [hl0.nodes]; exact hk0)]
    exact List.getElem_mem _
  obtain ⟨e1, e2, _, _⟩ := chain_unique hc _ R1 (leaf1, k1) 0 lo1 hi1 R0 (leaf0, k0) lo0 hi0
    h1 h0 m1 m0
  have e3 : leaf1 = leaf0 := e2
  subst e3
  have hk : k1 = k0 := by
    have hr := hc.refl (NODEKEY (leaf1.mp_nodes.getD k1 default))
    rcases Nat.lt_trichotomy k1 k0 with h | h | h
    · have := hl1.sorted k1 k0 h hk0
      unfold key_at at this
      rw [← he] at this
      omega
    · exact h
    · have := hl1.sorted k0 k1 h hk1
      unfold key_at at this
      rw [← he] at this
      omega
  rw [hk, e1]
theorem split_at_edge (move_right : Bool) :
    ∀ fs : frames_t, HasNeighbour move_right fs →
      ∃ A g B, fs = A ++ g :: B ∧ (∀ a ∈ A, AtEdge move_right a) ∧ ¬ AtEdge move_right g := by
  intro fs
  induction fs with
  | nil => intro ⟨f, hf, _⟩; simp at hf
  | cons f fs ih =>
    intro h
    by_cases hf : AtEdge move_right f
    · obtain ⟨x, hx, hnx⟩ := h
      rcases List.mem_cons.1 hx with e | hx2
      · subst e; exact absurd hf hnx
      · obtain ⟨A, g, B, e, hA, hg⟩ := ih ⟨x, hx2, hnx⟩
        refine ⟨f :: A, g, B, by rw [e]; rfl, ?_, hg⟩
        intro a ha
        rcases List.mem_cons.1 ha with e2 | ha2
        · rw [e2]; exact hf
        · exact hA a ha2
    · exact ⟨[], f, fs, rfl, fun a ha => absurd ha (by simp), hf⟩

theorem linked_rest {txn : MDBX_txn} {f : page_t × Nat} {fs : frames_t}
    (h : Linked txn (f :: fs)) : Linked txn fs := by
  cases fs with
  | nil => trivial
  | cons g S => exact h.2

/-- Frames that follow the child pointers from the same frame and stand at an
index that their page determines are the same frames. -/
theorem edge_frames_unique {txn : MDBX_txn} (e : page_t → Nat) (g : page_t × Nat)
    (B : frames_t) :
    ∀ (X Y : frames_t), X.length = Y.length →
      Linked txn (X ++ g :: B) → Linked txn (Y ++ g :: B) →
      (∀ x ∈ X, x.2 = e x.1) → (∀ y ∈ Y, y.2 = e y.1) → X = Y := by
  intro X
  induction X with
  | nil =>
    intro Y hl _ _ _ _
    cases Y with
    | nil => rfl
    | cons y Y => simp at hl
  | cons x X ih =>
    intro Y hl hX hY hx hy
    cases Y with
    | nil => simp at hl
    | cons y Y =>
      have hl2 : X.length = Y.length := by simpa using hl
      have hXY := ih Y hl2 (linked_rest hX) (linked_rest hY)
        (fun a ha => hx a (List.mem_cons_of_mem _ ha))
        (fun a ha => hy a (List.mem_cons_of_mem _ ha))
      subst hXY
      obtain ⟨p, ps, hp⟩ : ∃ p ps, X ++ g :: B = p :: ps := by
        cases X with
        | nil => exact ⟨g, B, rfl⟩
        | cons a X => exact ⟨a, X ++ g :: B, rfl⟩
      rw [List.cons_append, hp] at hX hY
      have h1 : x.1 = y.1 := hX.1.trans hY.1.symm
      have h2 : x.2 = y.2 := by
        rw [hx x (List.mem_cons_self _ _), hy y (List.mem_cons_self _ _), h1]
      rw [Prod.ext h1 h2]

theorem state_break_flags (s : Nat) :
    tst (clr8 s C_AFTERDELETE) C_INITIALIZED = tst s C_INITIALIZED ∧
    tst (clr8 s C_AFTERDELETE) C_EOF = tst s C_EOF ∧
    tst (clr8 s C_AFTERDELETE) C_AFTERDELETE = false := by
  simp only [C_INITIALIZED, C_EOF, C_AFTERDELETE, clr8, tst_1, tst_2, tst_4, Nat.testBit_and,
    Nat.testBit_or, Nat.testBit_xor]
  simp [Nat.testBit_to_div_mod]

theorem state_retreat_flags (s : Nat) :
    tst (clr8 s (C_EOF ||| C_AFTERDELETE)) C_INITIALIZED = tst s C_INITIALIZED ∧
    tst (clr8 s (C_EOF ||| C_AFTERDELETE)) C_EOF = false ∧
    tst (clr8 s (C_EOF ||| C_AFTERDELETE)) C_AFTERDELETE = false := by
  simp only [C_INITIALIZED, C_EOF, C_AFTERDELETE, clr8, tst_1, tst_2, tst_4, Nat.testBit_and,
    Nat.testBit_or, Nat.testBit_xor]
  simp [Nat.testBit_to_div_mod]

theorem cursor_get_prev_eq {b : MDBX_cursor} (page_touch : page_touch_t) (txn : MDBX_txn)
    (key data : Option MDBX_iov) (hk : tst b.primal.mc_kind8 S_HAVESUB = false) :
    cursor_get page_touch 2 txn b key data MDBX_PREV =
      (cursor_prev page_touch 2 txn b key data MDBX_PREV).map (cursor_get_break 2) := by
  rw [show cursor_get page_touch 2 txn b key data MDBX_PREV =
    (match cursor_subordinate b 2 with
     | none => none
     | some _ => (cursor_prev page_touch 2 txn b key data MDBX_PREV).map (cursor_get_break 2))
    from rfl, cursor_subordinate_none hk]

/-- cursor_prev on an initialized cursor without sub-cursor: the code that
moves the index back is reached. -/
theorem cursor_prev_to_retreat {b : MDBX_cursor} {leaf : page_t} {k : Nat} {R : frames_t}
    (page_touch : page_touch_t) (txn : MDBX_txn) (key data : Option MDBX_iov)
    (op : MDBX_cursor_op)
    (hk : tst b.primal.mc_kind8 S_HAVESUB = false)
    (hinit : tst b.primal.mc_state8 C_INITIALIZED = true)
    (hdel : ¬ (tst b.primal.mc_state8 C_AFTERDELETE = true ∧ op = MDBX_PREV_DUP))
    (hon : OnStack b.primal ((leaf, k) :: R)) :
    cursor_prev page_touch 2 txn b key data op =
      cursor_prev_retreat page_touch 1 leaf key txn b data := by
  unfold cursor_prev
  simp only [cur_two, hdel, if_false, hinit, not_true_eq_false]
  unfold cursor_prev_inited
  simp only [cur_two, hon.pg_top, hon.ki_top, hk, Bool.false_eq_true, false_and, if_false]
/-- The move of cursor_next on a path of a tree without duplicates, in terms
of frames: the frames `A` above the frame `g` are at the last index of their
pages and `g` is not.  The index of `g` grows by one and the frames above it
are replaced by as many frames at index 0. -/
theorem cursor_next_advance_frames {txn : MDBX_txn} {cmp : MDBX_comparer} {root : page_t}
    {b : MDBX_cursor} {leaf : page_t} {k : Nat} {R A B : frames_t} {g : page_t × Nat}
    {lo hi : Option MDBX_iov}
    (page_touch : page_touch_t) (key : Option MDBX_iov) (d : MDBX_iov)
    (hdel : tst b.primal.mc_state8 C_AFTERDELETE = false)
    (hon : OnStack b.primal ((leaf, k) :: R))
    (hch : Chain txn cmp (PlainNode txn) root 0 lo hi ((leaf, k) :: R))
    (hsp : (leaf, k) :: R = A ++ g :: B) (hA : ∀ a ∈ A, AtEdge true a)
    (hg : ¬ AtEdge true g) :
    ∃ (mc2 : cursor_t) (T : frames_t) (leaf2 : page_t) (k2 : Nat) (R2 : frames_t)
      (lo2 hi2 : Option MDBX_iov),
      cursor_next_advance page_touch 1 leaf key txn b (some d) =
        some { rc := MDBX_SUCCESS, txn := txn, bundle := { b with primal := mc2 },
               key := MDBX_GET_KEY (leaf2.mp_nodes.getD k2 default) key,
               data := some (node_data txn (leaf2.mp_nodes.getD k2 default)) } ∧
      T ++ (g.1, neighbour_index true g.2) :: B = (leaf2, k2) :: R2 ∧
      k2 < page_numkeys leaf2 ∧
      OnStack mc2 ((leaf2, k2) :: R2) ∧
      Chain txn cmp (PlainNode txn) root 0 lo2 hi2 ((leaf2, k2) :: R2) ∧
      T.length = A.length ∧ (∀ t ∈ T, t.2 = entry_index true t.1) ∧
      mc2.mc_aht = b.primal.mc_aht ∧ mc2.mc_kind8 = b.primal.mc_kind8 ∧
      mc2.mc_state8 = b.primal.mc_state8 := by
  have hw := hch.wf
  have hl : LeafOK cmp leaf := hw.leaf
  have hnk := page_numkeys_lt hl.lower
  have e1 : b.cur (1 + 1) = b.primal := rfl
  have e2 : ∀ mc, b.with_cur (1 + 1) mc = { b with primal := mc } := fun _ => rfl
  cases A with
  | nil =>
    simp only [List.nil_append] at hsp
    injection hsp with h1 h2
    subst h1 h2
    have hk1 : ¬ k + 1 ≥ page_numkeys leaf := by
      intro h; apply hg; unfold AtEdge; simpa using h
    have hk2 : k + 1 < page_numkeys leaf := by omega
    have hon2 := hon.frame_ki (k + 1)
    refine ⟨_, [], leaf, k + 1, R, lo, hi, ?_, by simp [neighbour_index], hk2, hon2,
      hch.top_ki _, rfl, fun t ht => absurd ht (by simp), rfl, rfl, rfl⟩
    unfold cursor_next_advance
    simp only [e1, e2, hon.ki_top, hdel, Bool.false_eq_true, if_false, hk1,
      to_indx_succ k (by omega), set_ki_eq hon.ok hon.top_lt]
    exact cursor_fetch_plain page_touch false
      (b := { b with primal := frame_ki b.primal b.primal.mc_top (k + 1) }) hon2 hl hk2
      (hw.2.1 (k + 1) hk2) key d
  | cons f A =>
    simp only [List.cons_append] at hsp
    injection hsp with h1 h2
    subst h1 h2
    have hk1 : k + 1 ≥ page_numkeys leaf := by
      have := hA (leaf, k) (List.mem_cons_self _ _)
      unfold AtEdge at this; simpa using this
    have hsn := hon.snum
    simp only [List.length_cons, List.length_append] at hsn
    obtain ⟨mc2, T, lo2, hi2, hrec, hs2, hc2, hlen, hedge, ha, hst, hkd⟩ :=
      cursor_sibling_rec_moves true hg A (leaf, k) b.primal b.primal.mc_snum 0 lo hi hon hch
        (fun a ha => hA a (List.mem_cons_of_mem _ ha)) (by omega)
    cases T with
    | nil => simp at hlen
    | cons t T =>
      obtain ⟨q, j⟩ := t
      have hj : j = 0 := by
        have := hedge (q, j) (List.mem_cons_self _ _)
        simpa [entry_index] using this
      subst hj
      simp only [List.cons_append] at hs2 hc2
      have hwq := hc2.wf
      have hlq : LeafOK cmp q := hwq.leaf
      have hq0 := hlq.nonempty
      refine ⟨mc2, (q, 0) :: T, q, 0, _, lo2, hi2, ?_, rfl, hq0, hs2, hc2,
        by simpa using hlen, hedge, ha, hkd, hst⟩
      unfold cursor_next_advance
      simp only [e1, e2, hon.ki_top, hdel, Bool.false_eq_true, if_false, hk1, if_true]
      unfold cursor_sibling
      rw [hrec]
      simp only [ne_eq, not_true_eq_false, if_false, hs2.pg_top]
      exact cursor_fetch_plain page_touch false (b := { b with primal := mc2 }) hs2 hlq hq0
        (hwq.2.1 0 hq0) key d

/-- The move of cursor_prev on a path of a tree without duplicates, in terms
of frames: the frames `A` above the frame `g` are at index 0 and `g` is not.
The index of `g` shrinks by one and the frames above it are replaced by as
many frames at the last index of their pages; `C_EOF` and `C_AFTERDELETE` are
cleared. -/
theorem cursor_prev_retreat_frames {txn : MDBX_txn} {cmp : MDBX_comparer} {root : page_t}
    {b : MDBX_cursor} {leaf : page_t} {k : Nat} {R A B : frames_t} {g : page_t × Nat}
    {lo hi : Option MDBX_iov}
    (page_touch : page_touch_t) (key : Option MDBX_iov) (d : MDBX_iov)
    (hon : OnStack b.primal ((leaf, k) :: R))
    (hch : Chain txn cmp (PlainNode txn) root 0 lo hi ((leaf, k) :: R))
    (hk : k < page_numkeys leaf)
    (hsp : (leaf, k) :: R = A ++ g :: B) (hA : ∀ a ∈ A, AtEdge false a)
    (hg : ¬ AtEdge false g) :
    ∃ (mc2 : cursor_t) (T : frames_t) (leaf2 : page_t) (k2 : Nat) (R2 : frames_t)
      (lo2 hi2 : Option MDBX_iov),
      cursor_prev_retreat page_touch 1 leaf key txn b (some d) =
        some { rc := MDBX_SUCCESS, txn := txn, bundle := { b with primal := mc2 },
               key := MDBX_GET_KEY (leaf2.mp_nodes.getD k2 default) key,
               data := some (node_data txn (leaf2.mp_nodes.getD k2 default)) } ∧
      T ++ (g.1, neighbour_index false g.2) :: B = (leaf2, k2) :: R2 ∧
      k2 < page_numkeys leaf2 ∧
      OnStack mc2 ((leaf2, k2) :: R2) ∧
      Chain txn cmp (PlainNode txn) root 0 lo2 hi2 ((leaf2, k2) :: R2) ∧
      T.length = A.length ∧ (∀ t ∈ T, t.2 = entry_index false t.1) ∧
      mc2.mc_aht = b.primal.mc_aht ∧ mc2.mc_kind8 = b.primal.mc_kind8 ∧
      mc2.mc_state8 = clr8 b.primal.mc_state8 (C_EOF ||| C_AFTERDELETE) := by
  have hw := hch.wf
  have hl : LeafOK cmp leaf := hw.leaf
  have hnk := page_numkeys_lt hl.lower
  have e1 : b.cur (1 + 1) = b.primal := rfl
  have e2 : ∀ mc, b.with_cur (1 + 1) mc = { b with primal := mc } := fun _ => rfl
  have hon0 := hon.state (clr8 b.primal.mc_state8 (C_EOF ||| C_AFTERDELETE))
  cases A with
  | nil =>
    simp only [List.nil_append] at hsp
    injection hsp with h1 h2
    subst h1 h2
    have hk1 : ¬ k = 0 := by
      intro h; apply hg; unfold AtEdge; simpa using h
    have hk2 : k - 1 < page_numkeys leaf := by omega
    have hon2 := hon0.frame_ki (k - 1)
    refine ⟨_, [], leaf, k - 1, R, lo, hi, ?_, by simp [neighbour_index], hk2, hon2,
      hch.top_ki _, rfl, fun t ht => absurd ht (by simp), rfl, rfl, rfl⟩
    unfold cursor_prev_retreat
    simp only [e1, e2, hon0.ki_top, hk1, if_false,
      to_indx_pred k (by omega) (by omega), set_ki_eq hon0.ok hon0.top_lt]
    exact cursor_fetch_plain page_touch true hon2 hl hk2 (hw.2.1 (k - 1) hk2) key d
  | cons f A =>
    simp only [List.cons_append] at hsp
    injection hsp with h1 h2
    subst h1 h2
    have hk1 : k = 0 := by
      have := hA (leaf, k) (List.mem_cons_self _ _)
      unfold AtEdge at this; simpa using this
    subst hk1
    have hsn := hon.snum
    simp only [List.length_cons, List.length_append] at hsn
    obtain ⟨mc2, T, lo2, hi2, hrec, hs2, hc2, hlen, hedge, ha, hst, hkd⟩ :=
      cursor_sibling_rec_moves false hg A (leaf, 0)
        { b.primal with mc_state8 := clr8 b.primal.mc_state8 (C_EOF ||| C_AFTERDELETE) }
        b.primal.mc_snum 0 lo hi hon0 hch
        (fun a ha => hA a (List.mem_cons_of_mem _ ha)) (by omega)
    cases T with
    | nil => simp at hlen
    | cons t T =>
      obtain ⟨q, j⟩ := t
      have hj : j = page_numkeys q - 1 := by
        have := hedge (q, j) (List.mem_cons_self _ _)
        simpa [entry_index] using this
      subst hj
      simp only [List.cons_append] at hs2 hc2
      have hwq := hc2.wf
      have hlq : LeafOK cmp q := hwq.leaf
      have hq0 := hlq.nonempty
      have hnq := page_numkeys_lt hlq.lower
      have hq1 : page_numkeys q - 1 < page_numkeys q := by omega
      have hs3 := hs2.frame_ki (page_numkeys q - 1)
      refine ⟨frame_ki mc2 mc2.mc_top (page_numkeys q - 1), (q, page_numkeys q - 1) :: T, q,
        page_numkeys q - 1, _, lo2, hi2, ?_, rfl, hq1, hs3, hc2,
        by simpa using hlen, hedge, ha, hkd, hst⟩
      unfold cursor_prev_retreat
      simp only [e1, e2, hon0.ki_top, if_true]
      unfold cursor_sibling
      rw [hrec]
      simp only [ne_eq, not_true_eq_false, if_false, hs2.pg_top,
        to_indx_pred (page_numkeys q) hq0 (by omega), set_ki_eq hs2.ok hs2.top_lt]
      exact cursor_fetch_plain page_touch true
        (b := { b with primal := frame_ki mc2 mc2.mc_top (page_numkeys q - 1) }) hs3 hlq hq1
        (hwq.2.1 (page_numkeys q - 1) hq1) key d
theorem chain_frames_valid {txn : MDBX_txn} {cmp : MDBX_comparer} {P : node_t → Prop}
    {root : page_t} {leaf : page_t} {k : Nat} {R : frames_t} {l : Nat}
    {lo hi : Option MDBX_iov}
    (hch : Chain txn cmp P root l lo hi ((leaf, k) :: R)) (hk : k < page_numkeys leaf) :
    ∀ f ∈ (leaf, k) :: R, f.2 < page_numkeys f.1 := by
  intro f hf
  rcases List.mem_cons.1 hf with e | h
  · rw [e]; exact hk
  · exact (Chain.branch_mem R (leaf, k) l lo hi hch f h).2

theorem entry_at_edge (move_right : Bool) (t : page_t × Nat)
    (h : t.2 = entry_index move_right t.1) : AtEdge (!move_right) t := by
  unfold AtEdge
  unfold entry_index at h
  cases move_right with
  | true => simpa using h
  | false =>
    simp only [Bool.not_false, if_true]
    simp only [Bool.false_eq_true, if_false] at h
    omega

theorem edge_at_entry (move_right : Bool) (a : page_t × Nat) (h : AtEdge move_right a)
    (hv : a.2 < page_numkeys a.1) : a.2 = entry_index (!move_right) a.1 := by
  unfold AtEdge at h
  unfold entry_index
  cases move_right with
  | true =>
    simp only [if_true] at h
    simp only [Bool.not_true, Bool.false_eq_true, if_false]
    omega
  | false => simpa using h

theorem neighbour_back (move_right : Bool) (g : page_t × Nat) (h : ¬ AtEdge move_right g)
    (hv : g.2 < page_numkeys g.1) :
    neighbour_index (!move_right) (neighbour_index move_right g.2) = g.2 ∧
    neighbour_index move_right g.2 ≠ g.2 ∧
    ¬ AtEdge (!move_right) (g.1, neighbour_index move_right g.2) := by
  unfold AtEdge at h ⊢
  unfold neighbour_index
  cases move_right with
  | true =>
    simp only [if_true, Bool.not_true, Bool.false_eq_true, if_false]
    omega
  | false =>
    simp only [Bool.false_eq_true, if_false] at h
    simp only [Bool.not_false, if_true, Bool.false_eq_true, if_false]
    omega

/-- One move of cursor_get with `MDBX_NEXT` (moving right) or `MDBX_PREV`
(moving left) on a path of a tree without duplicates, in terms of frames. -/
theorem cursor_get_move (mr : Bool) {txn : MDBX_txn} {cmp : MDBX_comparer} {root : page_t}
    {b : MDBX_cursor} {leaf : page_t} {k : Nat} {R A B : frames_t} {g : page_t × Nat}
    {lo hi : Option MDBX_iov}
    (page_touch : page_touch_t) (key : Option MDBX_iov) (d : MDBX_iov)
    (hkind : tst b.primal.mc_kind8 S_HAVESUB = false)
    (hinit : tst b.primal.mc_state8 C_INITIALIZED = true)
    (hfl : mr = true → tst b.primal.mc_state8 C_AFTERDELETE = false ∧
      tst b.primal.mc_state8 C_EOF = false)
    (hon : OnStack b.primal ((leaf, k) :: R))
    (hch : Chain txn cmp (PlainNode txn) root 0 lo hi ((leaf, k) :: R))
    (hk : k < page_numkeys leaf)
    (hsp : (leaf, k) :: R = A ++ g :: B) (hA : ∀ a ∈ A, AtEdge mr a)
    (hg : ¬ AtEdge mr g) :
    ∃ (r : gres) (T : frames_t) (leaf2 : page_t) (k2 : Nat) (R2 : frames_t)
      (lo2 hi2 : Option MDBX_iov),
      cursor_get page_touch 2 txn b key (some d) (move_op mr) = some r ∧
      r.rc = MDBX_SUCCESS ∧ r.txn = txn ∧
      r.key = MDBX_GET_KEY (leaf2.mp_nodes.getD k2 default) key ∧
      r.data = some (node_data txn (leaf2.mp_nodes.getD k2 default)) ∧
      T ++ (g.1, neighbour_index mr g.2) :: B = (leaf2, k2) :: R2 ∧
      k2 < page_numkeys leaf2 ∧
      OnStack r.bundle.primal ((leaf2, k2) :: R2) ∧
      Chain txn cmp (PlainNode txn) root 0 lo2 hi2 ((leaf2, k2) :: R2) ∧
      T.length = A.length ∧ (∀ t ∈ T, t.2 = entry_index mr t.1) ∧
      tst r.bundle.primal.mc_kind8 S_HAVESUB = false ∧
      tst r.bundle.primal.mc_state8 C_INITIALIZED = true ∧
      tst r.bundle.primal.mc_state8 C_AFTERDELETE = false ∧
      tst r.bundle.primal.mc_state8 C_EOF = false := by
  cases mr with
  | true =>
    obtain ⟨hdel, heof⟩ := hfl rfl
    obtain ⟨mc2, T, leaf2, k2, R2, lo2, hi2, hadv, hT, hk2, hon2, hch2, hlen, hedge, _, hkd,
      hst⟩ := cursor_next_advance_frames page_touch key d hdel hon hch hsp hA hg
    have hbf := state_break_flags mc2.mc_state8
    refine ⟨cursor_get_break 2
      { rc := MDBX_SUCCESS, txn := txn, bundle := { b with primal := mc2 },
        key := MDBX_GET_KEY (leaf2.mp_nodes.getD k2 default) key,
        data := some (node_data txn (leaf2.mp_nodes.getD k2 default)) },
      T, leaf2, k2, R2, lo2, hi2, ?_, rfl, rfl, rfl, rfl, hT, hk2,
      hon2.state _, hch2, hlen, hedge, ?_, ?_, ?_, ?_⟩
    · rw [show move_op true = MDBX_NEXT from rfl, cursor_get_next_eq page_touch txn key _ hkind,
        cursor_next_no_sub page_touch txn key (some d) MDBX_NEXT hkind hinit heof
          (by rw [hdel]; simp) hon, hadv]
      rfl
    · show tst mc2.mc_kind8 S_HAVESUB = false
      rw [hkd]; exact hkind
    · exact hbf.1.trans (by rw [hst]; exact hinit)
    · exact hbf.2.2
    · exact hbf.2.1.trans (by rw [hst]; exact heof)
  | false =>
    obtain ⟨mc2, T, leaf2, k2, R2, lo2, hi2, hadv, hT, hk2, hon2, hch2, hlen, hedge, _, hkd,
      hst⟩ := cursor_prev_retreat_frames page_touch key d hon hch hk hsp hA hg
    have hbf := state_break_flags mc2.mc_state8
    have hrf := state_retreat_flags b.primal.mc_state8
    refine ⟨cursor_get_break 2
      { rc := MDBX_SUCCESS, txn := txn, bundle := { b with primal := mc2 },
        key := MDBX_GET_KEY (leaf2.mp_nodes.getD k2 default) key,
        data := some (node_data txn (leaf2.mp_nodes.getD k2 default)) },
      T, leaf2, k2, R2, lo2, hi2, ?_, rfl, rfl, rfl, rfl, hT, hk2,
      hon2.state _, hch2, hlen, hedge, ?_, ?_, ?_, ?_⟩
    · rw [show move_op false = MDBX_PREV from rfl, cursor_get_prev_eq page_touch txn key _ hkind,
        cursor_prev_to_retreat page_touch txn key (some d) MDBX_PREV hkind hinit
          (by simp) hon, hadv]
      rfl
    · show tst mc2.mc_kind8 S_HAVESUB = false
      rw [hkd]; exact hkind
    · exact hbf.1.trans (by rw [hst, hrf.1]; exact hinit)
    · exact hbf.2.2
    · exact hbf.2.1.trans (by rw [hst]; exact hrf.2.1)
/-- C37 (amended): on a well-formed tree of an AA without duplicates, for an
initialized cursor without sub-cursor that stands on an entry (frames
`(leaf, k) :: R` along a path of the tree, `k` an index of the leaf) which has
a neighbour in the direction of the first move, and, when the first move is
`MDBX_NEXT`, whose flags `C_AFTERDELETE` and `C_EOF` are clear: cursor_get
with `MDBX_NEXT` followed by cursor_get with `MDBX_PREV` (`mr = true`), and
cursor_get with `MDBX_PREV` followed by cursor_get with `MDBX_NEXT`
(`mr = false`), both return `MDBX_SUCCESS`; the first call moves the cursor to
other frames, and the second call returns the key and the data of the
original entry and leaves the cursor on the original frames, with the
original depth and top of the stack.  This covers the moves inside a leaf and
the moves that cross a leaf boundary through cursor_sibling. -/
theorem C37_move_round_trip (mr : Bool) {txn : MDBX_txn} {cmp : MDBX_comparer}
    {root : page_t} {b : MDBX_cursor} {leaf : page_t} {k : Nat} {R : frames_t}
    {lo hi : Option MDBX_iov}
    (page_touch : page_touch_t) (key1 : Option MDBX_iov) (d1 : MDBX_iov)
    (key2 : Option MDBX_iov) (d2 : MDBX_iov)
    (hkind : tst b.primal.mc_kind8 S_HAVESUB = false)
    (hinit : tst b.primal.mc_state8 C_INITIALIZED = true)
    (hfl : mr = true → tst b.primal.mc_state8 C_AFTERDELETE = false ∧
      tst b.primal.mc_state8 C_EOF = false)
    (hon : OnStack b.primal ((leaf, k) :: R))
    (hch : Chain txn cmp (PlainNode txn) root 0 lo hi ((leaf, k) :: R))
    (hk : k < page_numkeys leaf)
    (hnb : HasNeighbour mr ((leaf, k) :: R)) :
    ∃ r1 r2 : gres,
      cursor_get page_touch 2 txn b key1 (some d1) (move_op mr) = some r1 ∧
      r1.rc = MDBX_SUCCESS ∧
      (∃ fs, OnStack r1.bundle.primal fs ∧ fs ≠ (leaf, k) :: R) ∧
      cursor_get page_touch 2 r1.txn r1.bundle key2 (some d2) (move_op (!mr)) = some r2 ∧
      r2.rc = MDBX_SUCCESS ∧
      r2.key = MDBX_GET_KEY (leaf.mp_nodes.getD k default) key2 ∧
      r2.data = some (node_data txn (leaf.mp_nodes.getD k default)) ∧
      OnStack r2.bundle.primal ((leaf, k) :: R) ∧
      r2.bundle.primal.mc_snum = b.primal.mc_snum ∧
      r2.bundle.primal.mc_top = b.primal.mc_top := by
  obtain ⟨A, g, B, hsp, hA, hg⟩ := split_at_edge mr _ hnb
  have hval := chain_frames_valid hch hk
  have hgv : g.2 < page_numkeys g.1 := hval g (by rw [hsp]; simp)
  obtain ⟨hnb1, hnb2, hnb3⟩ := neighbour_back mr g hg hgv
  obtain ⟨r1, T, leaf2, k2, R2, lo2, hi2, hget1, hrc1, htx1, _, _, hT, hk2, hon2, hch2, hlen,
    hedge, hkd1, hin1, hde1, heo1⟩ :=
    cursor_get_move mr page_touch key1 d1 hkind hinit hfl hon hch hk hsp hA hg
  obtain ⟨r2, T2, leaf3, k3, R3, lo3, hi3, hget2, hrc2, _, hkey2, hdat2, hT2, _, hon3, hch3,
    hlen2, hedge2, _⟩ :=
    cursor_get_move (!mr) page_touch key2 d2 hkd1 hin1 (fun _ => ⟨hde1, heo1⟩) hon2 hch2 hk2
      hT.symm (fun t ht => entry_at_edge mr t (hedge t ht)) hnb3
  have hg2 : ((g.1, neighbour_index mr g.2).1,
      neighbour_index (!mr) (g.1, neighbour_index mr g.2).2) = g := by
    show (g.1, neighbour_index (!mr) (neighbour_index mr g.2)) = g
    rw [hnb1]
  rw [hg2] at hT2
  have hl3 : Linked txn (T2 ++ g :: B) := by
    rw [hT2]; exact Chain.linked _ _ _ _ hch3
  have hl0 : Linked txn (A ++ g :: B) := by
    rw [← hsp]; exact Chain.linked _ _ _ _ hch
  have hTA : T2 = A := by
    refine edge_frames_unique (entry_index (!mr)) g B T2 A (by omega) hl3 hl0 hedge2 ?_
    intro a ha
    exact edge_at_entry mr a (hA a ha) (hval a (by rw [hsp]; simp [ha]))
  rw [hTA, ← hsp] at hT2
  injection hT2 with e1 e2
  injection e1 with e3 e4
  subst e3 e4 e2
  have hsn3 := hon3.snum
  have htp3 := hon3.top
  have hsn0 := hon.snum
  have htp0 := hon.top
  refine ⟨r1, r2, hget1, hrc1, ⟨_, hon2, ?_⟩, by rw [htx1]; exact hget2, hrc2, hkey2, hdat2,
    hon3, by omega, by omega⟩
  rw [← hT, hsp]
  intro he
  have := (List.append_inj he (by omega)).2
  injection this with e5 _
  apply hnb2
  have e6 := congrArg Prod.snd e5
  exact e6

/-- C37, counterexample: the cursor stands on the entry beta (index 1 of the
left leaf, with the entry gamma after it in the tree) and has `C_AFTERDELETE`
set.  `MDBX_NEXT` returns beta without moving and `MDBX_PREV` then returns
alpha: the cursor ends on the entry before the original one. -/
theorem C37_counterexample_after_delete :
    tst (C_INITIALIZED ||| C_AFTERDELETE) C_INITIALIZED = true ∧
    HasNeighbour true [(two_left, 1), (two_root, 0)] ∧
    NODEKEY (two_left.mp_nodes.getD 1 default) = k_beta ∧
    cursor_walk sample_touch [(MDBX_NEXT, []), (MDBX_PREV, [])] (sample_txn two_pages)
        (sample_bundle_at (sample_aht 0 4) (C_INITIALIZED ||| C_AFTERDELETE)
          [(two_root, 0), (two_left, 1)]) =
      some [(MDBX_SUCCESS, some k_beta, some v_2), (MDBX_SUCCESS, some k_alpha, some v_1)] ∧
    k_alpha ≠ k_beta :=
  ⟨by decide, ⟨(two_root, 0), by simp, by unfold AtEdge; decide⟩, by rfl, by rfl, by decide⟩

theorem C37_move_round_trip_witness :
    (∃ r1 r2 : gres,
      cursor_get sample_touch 2 (sample_txn two_pages)
          (sample_bundle_at (sample_aht 0 4) C_INITIALIZED [(two_root, 0), (two_left, 1)])
          (some []) (some []) MDBX_NEXT = some r1 ∧
      r1.rc = MDBX_SUCCESS ∧
      cursor_get sample_touch 2 r1.txn r1.bundle (some []) (some []) MDBX_PREV = some r2 ∧
      r2.rc = MDBX_SUCCESS ∧
      r2.key = MDBX_GET_KEY (two_left.mp_nodes.getD 1 default) (some []) ∧
      r2.data = some (node_data (sample_txn two_pages) (two_left.mp_nodes.getD 1 default)) ∧
      OnStack r2.bundle.primal [(two_left, 1), (two_root, 0)]) ∧
    (∃ r1 r2 : gres,
      cursor_get sample_touch 2 (sample_txn two_pages)
          (sample_bundle_at (sample_aht 0 4) (C_INITIALIZED ||| C_AFTERDELETE)
            [(two_root, 0), (two_left, 1)])
          (some []) (some []) MDBX_PREV = some r1 ∧
      r1.rc = MDBX_SUCCESS ∧
      cursor_get sample_touch 2 r1.txn r1.bundle (some []) (some []) MDBX_NEXT = some r2 ∧
      r2.rc = MDBX_SUCCESS ∧
      r2.key = MDBX_GET_KEY (two_left.mp_nodes.getD 1 default) (some []) ∧
      r2.data = some (node_data (sample_txn two_pages) (two_left.mp_nodes.getD 1 default)) ∧
      OnStack r2.bundle.primal [(two_left, 1), (two_root, 0)]) :=
  ⟨(C37_move_round_trip true sample_touch (some []) [] (some []) []
    (b := sample_bundle_at (sample_aht 0 4) C_INITIALIZED [(two_root, 0), (two_left, 1)])
    (by decide) (by decide) (fun _ => ⟨by decide, by decide⟩) (two_left_on C_INITIALIZED 1)
    (two_left_chain (PlainNode (sample_txn two_pages)) (sample_plain (sample_txn two_pages)) 1)
    (by decide) ⟨(two_root, 0), by simp, by unfold AtEdge; decide⟩).imp
    (fun _ h => h.imp (fun _ h2 => ⟨h2.1, h2.2.1, h2.2.2.2.1, h2.2.2.2.2.1, h2.2.2.2.2.2.1,
      h2.2.2.2.2.2.2.1, h2.2.2.2.2.2.2.2.1⟩)),
   (C37_move_round_trip false sample_touch (some []) [] (some []) []
    (b := sample_bundle_at (sample_aht 0 4) (C_INITIALIZED ||| C_AFTERDELETE)
      [(two_root, 0), (two_left, 1)])
    (by decide) (by decide) (fun h => absurd h (by decide))
    (two_left_on (C_INITIALIZED ||| C_AFTERDELETE) 1)
    (two_left_chain (PlainNode (sample_txn two_pages)) (sample_plain (sample_txn two_pages)) 1)
    (by decide) ⟨(two_left, 1), by simp, by unfold AtEdge; decide⟩).imp
    (fun _ h => h.imp (fun _ h2 => ⟨h2.1, h2.2.1, h2.2.2.2.1, h2.2.2.2.2.1, h2.2.2.2.2.2.1,
      h2.2.2.2.2.2.2.1, h2.2.2.2.2.2.2.2.1⟩))⟩

theorem DepthOK.with_aht {mc : cursor_t} (h : DepthOK mc) (a : aht_t) :
    DepthOK { mc with mc_aht := a } := h

theorem BundleOK.cur {b : MDBX_cursor} (h : BundleOK b) (lvl : Nat) : DepthOK (b.cur lvl) := by
  unfold MDBX_cursor.cur
  split
  · exact h.2
  · exact h.1

theorem BundleOK.with_cur {b : MDBX_cursor} (h : BundleOK b) (lvl : Nat) {mc : cursor_t}
    (hm : DepthOK mc) : BundleOK (b.with_cur lvl mc) := by
  unfold MDBX_cursor.with_cur
  split
  · exact ⟨h.1, hm⟩
  · exact ⟨hm, h.2⟩

/-- The move of cursor_next on a path of a well-formed tree, up to the read of
the entry: without a following entry the result is `MDBX_NOTFOUND` with
`C_EOF` set, otherwise the cursor moves to the path of the following entry and
the entry is read by cursor_fetch. -/
theorem cursor_next_advance_fetch {txn : MDBX_txn} {cmp : MDBX_comparer} {P : node_t → Prop}
    {root : page_t}
    {b : MDBX_cursor} {leaf : page_t} {k : Nat} {R : frames_t} {lo hi : Option MDBX_iov}
    (page_touch : page_touch_t) (key : Option MDBX_iov) (d : MDBX_iov)
    (hdel : tst b.primal.mc_state8 C_AFTERDELETE = false)
    (hon : OnStack b.primal ((leaf, k) :: R))
    (hch : Chain txn cmp P root 0 lo hi ((leaf, k) :: R)) :
    (following txn 0 ((leaf, k) :: R) = [] →
      cursor_next_advance page_touch 1 leaf key txn b (some d) =
        some { rc := MDBX_NOTFOUND, txn := txn,
               bundle := { b with primal :=
                 { b.primal with mc_state8 := b.primal.mc_state8 ||| C_EOF } },
               key := key, data := some d }) ∧
    (∀ e L, following txn 0 ((leaf, k) :: R) = e :: L →
      ∃ mc2 leaf2 k2 R2 lo2 hi2,
        cursor_next_advance page_touch 1 leaf key txn b (some d) =
          cursor_fetch page_touch false 1 txn { b with primal := mc2 } leaf2 key (some d) ∧
        OnStack mc2 ((leaf2, k2) :: R2) ∧
        Chain txn cmp P root 0 lo2 hi2 ((leaf2, k2) :: R2) ∧
        k2 < page_numkeys leaf2 ∧ e = leaf2.mp_nodes.getD k2 default ∧
        following txn 0 ((leaf2, k2) :: R2) = L ∧
        mc2.mc_aht = b.primal.mc_aht ∧ mc2.mc_kind8 = b.primal.mc_kind8 ∧
        mc2.mc_state8 = b.primal.mc_state8) := by
  have hw := hch.wf
  have hl : LeafOK cmp leaf := hw.leaf
  have hnk := page_numkeys_lt hl.lower
  have hnodes : leaf.mp_nodes.length = page_numkeys leaf := hl.nodes
  have e1 : b.cur (1 + 1) = b.primal := rfl
  have e2 : ∀ mc, b.with_cur (1 + 1) mc = { b with primal := mc } := fun _ => rfl
  have hfol : following txn 0 ((leaf, k) :: R) =
      after_frame txn 0 (leaf, k) ++ following txn 1 R := rfl
  by_cases hk1 : k + 1 ≥ page_numkeys leaf
  · -- the last entry of the page: cursor_sibling
    have hal := after_leaf_last txn leaf k (by rw [hnodes]; exact hk1)
    rw [hal, List.nil_append] at hfol
    obtain ⟨lo3, hi3, hchR⟩ := hch.tail_chain
    have hent := right_sibling_entries R (leaf, k) 0 _ _ hchR
    have hadv : cursor_next_advance page_touch 1 leaf key txn b (some d) =
        match cursor_sibling txn b.primal true with
        | none => none
        | some r =>
          if r.rc ≠ MDBX_SUCCESS then
            some { rc := r.rc, txn := r.txn,
                   bundle := { b with primal := { r.mc with mc_state8 := r.mc.mc_state8 ||| C_EOF } },
                   key := key, data := some d }
          else
            match r.mc.pg r.mc.mc_top with
            | none => none
            | some mp => cursor_fetch page_touch false 1 r.txn { b with primal := r.mc } mp key
                (some d) := by
      unfold cursor_next_advance
      simp only [e1, e2, hon.ki_top, hdel, Bool.false_eq_true, if_false, hk1, if_true]
    rw [hadv]
    unfold cursor_sibling
    rcases cursor_sibling_rec_right _ _ b.primal.mc_snum 0 lo hi hon hch
        (by rw [hon.snum]) with ⟨hn, hrec⟩ | ⟨T, mc2, hT, hrec, hon2, ha, hs, hkd⟩
    · constructor
      · intro _
        rw [hrec]
        simp only [ne_eq, show ¬ MDBX_NOTFOUND = MDBX_SUCCESS by decide, not_false_eq_true,
          if_true]
      · intro e L he
        rw [hfol, hent.1 hn] at he
        exact absurd he (by simp)
    · obtain ⟨q, qs, hTe, hqe⟩ := hent.2 T hT
      obtain ⟨q2, qs2, lo2, hi2, hTe2, hc2, _⟩ := right_sibling_chain hch hT
      subst hTe
      have hwq := hc2.wf
      have hlq : LeafOK cmp q := hwq.leaf
      have hq0 := hlq.nonempty
      have hfq := leaf_nodes_first txn q (by rw [hlq.nodes]; exact hq0)
      have hfol2 : following txn 0 ((leaf, k) :: R) =
          q.mp_nodes.getD 0 default :: following txn 0 ((q, 0) :: qs) := by
        rw [hfol, ← hqe, hfq]; rfl
      constructor
      · intro he
        rw [hfol2] at he
        exact absurd he (by simp)
      · intro e L he
        rw [hfol2] at he
        injection he with he1 he2
        subst he1
        refine ⟨mc2, q, 0, qs, lo2, hi2, ?_, hon2, hc2, hq0, rfl, he2, ha, hkd, hs⟩
        rw [hrec]
        simp only [ne_eq, not_true_eq_false, if_false, hon2.pg_top]
  · -- inside the page
    have hk2 : k + 1 < page_numkeys leaf := by omega
    have has := after_leaf_step txn leaf k (by rw [hnodes]; exact hk2)
    have hfol2 : following txn 0 ((leaf, k) :: R) =
        leaf.mp_nodes.getD (k + 1) default :: following txn 0 ((leaf, k + 1) :: R) := by
      rw [hfol, has]; rfl
    have hon2 := hon.frame_ki (k + 1)
    constructor
    · intro he
      rw [hfol2] at he
      exact absurd he (by simp)
    · intro e L he
      rw [hfol2] at he
      injection he with he1 he2
      subst he1
      refine ⟨_, leaf, k + 1, R, lo, hi, ?_, hon2, hch.top_ki _, hk2, rfl, he2, rfl, rfl, rfl⟩
      unfold cursor_next_advance
      simp only [e1, e2, hon.ki_top, hdel, Bool.false_eq_true, if_false, hk1,
        to_indx_succ k (by omega), set_ki_eq hon.ok hon.top_lt]

/-- The read of an entry with duplicates in an inline sub-page by
cursor_fetch: the sub-cursor is set up on the sub-page and moved to its first
duplicate, which is returned with the key of the entry. -/
theorem cursor_fetch_dup (txn : MDBX_txn) {cmp : MDBX_comparer} (page_touch : page_touch_t)
    {b : MDBX_cursor} {leaf : page_t} {k : Nat} {R : frames_t}
    (hon : OnStack b.primal ((leaf, k) :: R)) (hl : LeafOK cmp leaf)
    (hk : k < page_numkeys leaf)
    (hsub : tst b.primal.mc_kind8 S_HAVESUB = true) (hs : SubOK b)
    (hd : InlineDup (leaf.mp_nodes.getD k default))
    (key : Option MDBX_iov) (d : MDBX_iov) :
    ∃ sub2, cursor_fetch page_touch false 1 txn b leaf key (some d) =
        some { rc := MDBX_SUCCESS, txn := txn,
               bundle := { b with subordinate := { mx_cursor := sub2 } },
               key := MDBX_GET_KEY (leaf.mp_nodes.getD k default) key,
               data := some (entry_data txn b.primal.mc_aht.aa.flags16
                 (leaf.mp_nodes.getD k default)) } ∧
      SubAt sub2 (NODEDATA_page (leaf.mp_nodes.getD k default)) 0
        (sub_xsize b.primal.mc_aht.aa.flags16 (NODEDATA_page (leaf.mp_nodes.getD k default))) ∧
      sub2.mc_state8 = C_INITIALIZED := by
  have h1 := hl.deref_leaf hk
  obtain ⟨hdi, hbig⟩ := hd
  obtain ⟨sub, hsetup, hat, hst, _, _, _, _⟩ := subordinate_setup_inline hsub hs hdi
  generalize leaf.mp_nodes.getD k default = e0 at *
  have hinit : tst ({ b with subordinate := { mx_cursor := sub } } :
      MDBX_cursor).subordinate.mx_cursor.mc_state8 C_INITIALIZED = true := by
    show tst sub.mc_state8 C_INITIALIZED = true
    rw [hst]; decide
  obtain ⟨sub2, hfirst, hat2, hst2, _, _⟩ := cursor_first_sub page_touch txn
    (b := { b with subordinate := { mx_cursor := sub } })
    (e0.mn_data.take (node_get_datasize e0)) hat hinit hdi.2.2
  have hst3 : sub2.mc_state8 = C_INITIALIZED := by
    rw [hst2]
    show clr8 (sub.mc_state8 ||| C_INITIALIZED) C_EOF = C_INITIALIZED
    rw [hst]; decide
  refine ⟨sub2, ?_, hat2, hst3⟩
  have hed : entry_data txn b.primal.mc_aht.aa.flags16 e0 =
      dup_at (NODEDATA_page e0) (sub_xsize b.primal.mc_aht.aa.flags16 (NODEDATA_page e0)) 0 := by
    unfold entry_data; rw [if_pos hdi.1]
  cases hnp : node_ptr leaf k with
  | none => rw [hnp] at h1; simp at h1
  | some nr =>
    rw [hnp] at h1
    simp only [Option.some_bind] at h1
    have e : b.cur (1 + 1) = b.primal := rfl
    have hnr : node_read txn e0 d =
        { rc := MDBX_SUCCESS, txn := txn, data := e0.mn_data.take (node_get_datasize e0) } := by
      unfold node_read
      simp [hbig]
    unfold cursor_fetch
    simp [e, hon.ki_top, hl.not_dfl, hl.is_leaf, bind, Option.bind, pure, hnp, h1,
      hdi.1, hsetup, hnr, hfirst, hed]

/-- The state flags after cursor_next has cleared `C_EOF`. -/
theorem state_eof_cleared (s : Nat) :
    tst (if tst s C_EOF then s ^^^ C_EOF else s) C_EOF = false ∧
    tst (if tst s C_EOF then s ^^^ C_EOF else s) C_INITIALIZED = tst s C_INITIALIZED ∧
    tst (if tst s C_EOF then s ^^^ C_EOF else s) C_AFTERDELETE = tst s C_AFTERDELETE := by
  by_cases he : tst s C_EOF = true
  · have hfl := state_xor_eof_flags s he
    rw [if_pos he]
    exact ⟨hfl.2.1, hfl.1, hfl.2.2⟩
  · rw [if_neg he]
    exact ⟨by simpa using he, rfl, rfl⟩

/-- cursor_next with `MDBX_NEXT` on an initialized cursor that stands on an
entry of its leaf, up to the code that moves the index: `C_EOF` is cleared, and
a cursor with a sub-cursor first moves the sub-cursor when the entry carries
duplicates, and resets it otherwise. -/
theorem cursor_next_block {cmp : MDBX_comparer} {b : MDBX_cursor} {leaf : page_t} {k : Nat}
    {R : frames_t} (page_touch : page_touch_t) (txn : MDBX_txn) (key : Option MDBX_iov)
    (d : MDBX_iov)
    (hinit : tst b.primal.mc_state8 C_INITIALIZED = true)
    (heof : tst b.primal.mc_state8 C_EOF = true → k + 1 < page_numkeys leaf)
    (hon : OnStack b.primal ((leaf, k) :: R)) (hl : LeafOK cmp leaf)
    (hkn : k < page_numkeys leaf) :
    cursor_next page_touch 2 txn b key (some d) MDBX_NEXT =
      if tst b.primal.mc_kind8 S_HAVESUB = true then
        if F_ISSET (leaf.mp_nodes.getD k default).node_flags8 NODE_DUP = true then
          match cursor_next page_touch 1 txn
              { b with primal := { b.primal with mc_state8 :=
                (if tst b.primal.mc_state8 C_EOF then b.primal.mc_state8 ^^^ C_EOF
                 else b.primal.mc_state8) } } (some d) none MDBX_NEXT with
          | none => none
          | some r =>
            if r.rc ≠ MDBX_NOTFOUND then
              some { rc := r.rc, txn := r.txn, bundle := r.bundle,
                     key := if r.rc = MDBX_SUCCESS
                       then MDBX_GET_KEY (leaf.mp_nodes.getD k default) key else key,
                     data := r.key }
            else cursor_next_advance page_touch 1 leaf key r.txn r.bundle r.key
        else
          cursor_next_advance page_touch 1 leaf key txn
            (sub_cleared { b with primal := { b.primal with mc_state8 :=
              (if tst b.primal.mc_state8 C_EOF then b.primal.mc_state8 ^^^ C_EOF
               else b.primal.mc_state8) } }) (some d)
      else
        cursor_next_advance page_touch 1 leaf key txn
          { b with primal := { b.primal with mc_state8 :=
            (if tst b.primal.mc_state8 C_EOF then b.primal.mc_state8 ^^^ C_EOF
             else b.primal.mc_state8) } } (some d) := by
  have hne : ¬ (tst b.primal.mc_state8 C_EOF = true ∧ k + 1 ≥ page_numkeys leaf) := by
    intro h; have := heof h.1; omega
  have hdel : ¬ (tst b.primal.mc_state8 C_AFTERDELETE = true ∧ MDBX_NEXT = MDBX_NEXT_DUP) := by
    intro h; exact absurd h.2 (by decide)
  have hder := hl.deref_leaf hkn
  by_cases hk : tst b.primal.mc_kind8 S_HAVESUB = true
  · have hsc : ∀ s, cursor_subcursor
        ({ b with primal := { b.primal with mc_state8 := s } } : MDBX_cursor) 2 =
        some b.subordinate.mx_cursor := fun s =>
      cursor_subcursor_primal (b := { b with primal := { b.primal with mc_state8 := s } }) hk
    have hrs : ∀ s, subcursor_reset
        ({ b with primal := { b.primal with mc_state8 := s } } : MDBX_cursor) 2 =
        some (sub_cleared { b with primal := { b.primal with mc_state8 := s } }) := fun s =>
      subcursor_reset_primal (b := { b with primal := { b.primal with mc_state8 := s } }) hk
    rw [if_pos hk]
    conv_lhs => unfold cursor_next
    simp only [cur_two, with_cur_two, hdel, if_false, hinit, not_true_eq_false, hon.pg_top,
      hon.ki_top, hne]
    by_cases he : tst b.primal.mc_state8 C_EOF = true
    · simp only [he, if_true, hk, hder, hsc, hrs, Option.some_bind, true_or, ne_eq,
        not_true_eq_false, false_or, show ¬ MDBX_NEXT = MDBX_NEXT_DUP by decide, if_false]
    · simp only [he, Bool.false_eq_true, if_false, hk, if_true, hder, Option.some_bind, true_or,
        ne_eq, not_true_eq_false, false_or, show ¬ MDBX_NEXT = MDBX_NEXT_DUP by decide]
      have hb : ({ b with primal := b.primal } : MDBX_cursor) = b := rfl
      have hb2 : ({ b with primal := { b.primal with mc_state8 := b.primal.mc_state8 } } :
        MDBX_cursor) = b := rfl
      rw [hb2, cursor_subcursor_primal hk, subcursor_reset_primal hk]
      simp only [Option.some_bind]
  · rw [if_neg hk]
    have hk2 : tst b.primal.mc_kind8 S_HAVESUB = false := by simpa using hk
    exact cursor_next_to_advance page_touch txn key (some d) MDBX_NEXT hk2 hinit heof hdel hon

/-- cursor_next on a sub-cursor that stands at the last duplicate of its
inline sub-page: `MDBX_NOTFOUND`, and nothing but the state flags of the
sub-cursor can have changed. -/
theorem cursor_next_sub_last (page_touch : page_touch_t) (txn : MDBX_txn) {b : MDBX_cursor}
    {fp : page_t} {i xs : Nat} (d : MDBX_iov)
    (hs : SubOn b fp i xs) (hi : i + 1 ≥ page_numkeys fp) (hp : SubPageOK fp) :
    ∃ s2, cursor_next page_touch 1 txn b (some d) none MDBX_NEXT =
      some { rc := MDBX_NOTFOUND, txn := txn,
             bundle := { b with subordinate := { mx_cursor :=
               { b.subordinate.mx_cursor with mc_state8 := s2 } } },
             key := some d, data := none } := by
  obtain ⟨hat, hinit, hdel⟩ := hs
  by_cases he : tst b.subordinate.mx_cursor.mc_state8 C_EOF = true
  · refine ⟨b.subordinate.mx_cursor.mc_state8, ?_⟩
    rw [show cursor_next page_touch 1 txn b (some d) none MDBX_NEXT =
      cursor_next page_touch (0 + 1) txn b (some d) none MDBX_NEXT from rfl]
    conv_lhs => unfold cursor_next
    simp only [cur_one, with_cur_one, hdel, Bool.false_eq_true, false_and, if_false, hinit,
      not_true_eq_false, hat.stack.pg_top, hat.stack.ki_top, he, hi, and_self, if_true]
  · have he2 : tst b.subordinate.mx_cursor.mc_state8 C_EOF = false := by simpa using he
    exact ⟨_, (cursor_next_sub page_touch txn d hat hinit he2 hdel hp).2 hi⟩

/-- The read of an entry of a well-formed leaf by cursor_fetch: the value of a
plain entry is returned and the bundle stays as it is; for an entry with
duplicates the sub-cursor is put on the first of them. -/
theorem cursor_fetch_entry {txn : MDBX_txn} {cmp : MDBX_comparer} (page_touch : page_touch_t)
    {b : MDBX_cursor} {leaf : page_t} {k : Nat} {R : frames_t}
    (hon : OnStack b.primal ((leaf, k) :: R)) (hl : LeafOK cmp leaf)
    (hk : k < page_numkeys leaf)
    (he : EntryOK txn b.primal (leaf.mp_nodes.getD k default))
    (hs : tst b.primal.mc_kind8 S_HAVESUB = true → SubOK b)
    (key : Option MDBX_iov) (d : MDBX_iov) :
    ∃ b2, cursor_fetch page_touch false 1 txn b leaf key (some d) =
        some { rc := MDBX_SUCCESS, txn := txn, bundle := b2,
               key := MDBX_GET_KEY (leaf.mp_nodes.getD k default) key,
               data := some (entry_data txn b.primal.mc_aht.aa.flags16
                 (leaf.mp_nodes.getD k default)) } ∧
      b2.primal = b.primal ∧
      (tst b.primal.mc_kind8 S_HAVESUB = true → SubOK b2) ∧
      (F_ISSET (leaf.mp_nodes.getD k default).node_flags8 NODE_DUP = false → b2 = b) ∧
      (F_ISSET (leaf.mp_nodes.getD k default).node_flags8 NODE_DUP = true →
        SubOn b2 (NODEDATA_page (leaf.mp_nodes.getD k default)) 0
          (sub_xsize b.primal.mc_aht.aa.flags16
            (NODEDATA_page (leaf.mp_nodes.getD k default))) ∧
        tst b2.subordinate.mx_cursor.mc_state8 C_EOF = false) := by
  rcases he with hp | ⟨hk2, hd⟩
  · refine ⟨b, ?_, rfl, hs, fun _ => rfl, fun h => ?_⟩
    · rw [cursor_fetch_plain page_touch false hon hl hk hp key d]
      unfold entry_data
      rw [if_neg (by rw [hp.1]; decide)]
    · rw [hp.1] at h; exact absurd h (by decide)
  · obtain ⟨sub2, hf, hat, hst⟩ := cursor_fetch_dup txn page_touch hon hl hk hk2 (hs hk2)
      hd key d
    refine ⟨_, hf, rfl, fun _ => ⟨hat.stack.ok, hat.nosub⟩, fun h => ?_, fun _ => ?_⟩
    · rw [hd.1.1] at h; exact absurd h (by decide)
    · refine ⟨⟨hat, ?_, ?_⟩, ?_⟩
      · show tst sub2.mc_state8 C_INITIALIZED = true
        rw [hst]; decide
      · show tst sub2.mc_state8 C_AFTERDELETE = false
        rw [hst]; decide
      · show tst sub2.mc_state8 C_EOF = false
        rw [hst]; decide

theorem EntryOK.of_kind {txn : MDBX_txn} {mc mc2 : cursor_t} {e : node_t}
    (h : EntryOK txn mc e) (hk : mc2.mc_kind8 = mc.mc_kind8) : EntryOK txn mc2 e := by
  unfold EntryOK at h ⊢
  rw [hk]; exact h

/-- The move of cursor_next to the following entry of the tree and the read
of that entry, for a cursor with or without sub-cursor: the key of the entry
is returned with its value or with the first of its duplicates;
`MDBX_NOTFOUND` when no entry follows. -/
theorem cursor_next_advance_entry {txn : MDBX_txn} {cmp : MDBX_comparer} {root : page_t}
    {b : MDBX_cursor} {leaf : page_t} {k : Nat} {R : frames_t} {lo hi : Option MDBX_iov}
    (page_touch : page_touch_t) (key : Option MDBX_iov) (d : MDBX_iov)
    (hdel : tst b.primal.mc_state8 C_AFTERDELETE = false)
    (hon : OnStack b.primal ((leaf, k) :: R))
    (hch : Chain txn cmp (EntryOK txn b.primal) root 0 lo hi ((leaf, k) :: R))
    (hs : tst b.primal.mc_kind8 S_HAVESUB = true → SubOK b) :
    (following txn 0 ((leaf, k) :: R) = [] →
      (cursor_next_advance page_touch 1 leaf key txn b (some d)).map (fun r => r.rc) =
        some MDBX_NOTFOUND) ∧
    (∀ e L, following txn 0 ((leaf, k) :: R) = e :: L →
      (cursor_next_advance page_touch 1 leaf key txn b (some d)).map
          (fun r => (r.rc, r.key, r.data)) =
        some (MDBX_SUCCESS, MDBX_GET_KEY e key,
          some (entry_data txn b.primal.mc_aht.aa.flags16 e))) := by
  obtain ⟨h1, h2⟩ := cursor_next_advance_fetch page_touch key d hdel hon hch
  constructor
  · intro hf
    rw [h1 hf]; rfl
  · intro e L hf
    obtain ⟨mc2, leaf2, k2, R2, lo2, hi2, hadv, hon2, hc2, hk2, he, _, ha, hkd, _⟩ := h2 e L hf
    have hw2 := hc2.wf
    have hl2 : LeafOK cmp leaf2 := hw2.leaf
    have hent : EntryOK txn mc2 (leaf2.mp_nodes.getD k2 default) :=
      (hw2.2.1 k2 hk2).of_kind hkd
    obtain ⟨b2, hf2, _⟩ := cursor_fetch_entry page_touch
      (b := { b with primal := mc2 }) hon2 hl2 hk2 hent
      (fun h => hs (by rw [← hkd]; exact h)) key d
    rw [hadv, hf2, he]
    show some (MDBX_SUCCESS, _, some (entry_data txn mc2.mc_aht.aa.flags16 _)) = _
    rw [ha]

/-- cursor_next with `MDBX_NEXT` from an entry of a well-formed tree, for a
cursor without `C_AFTERDELETE`.  On an entry with duplicates whose sub-cursor
has a duplicate to move to, that duplicate is returned with the key of the
entry.  Otherwise (no sub-cursor, a plain entry, or the sub-cursor at the last
duplicate) the cursor moves to the following entry of the tree, whose key is
returned with its value or the first of its duplicates, and the result is
`MDBX_NOTFOUND` when no entry follows. -/
theorem cursor_next_placed {txn : MDBX_txn} {cmp : MDBX_comparer} {root : page_t}
    {b : MDBX_cursor} {leaf : page_t} {k : Nat} {R : frames_t} {lo hi : Option MDBX_iov}
    (page_touch : page_touch_t) (key : Option MDBX_iov) (d : MDBX_iov)
    (hinit : tst b.primal.mc_state8 C_INITIALIZED = true)
    (hdel : tst b.primal.mc_state8 C_AFTERDELETE = false)
    (heof : tst b.primal.mc_state8 C_EOF = true → k + 1 < page_numkeys leaf)
    (hon : OnStack b.primal ((leaf, k) :: R))
    (hch : Chain txn cmp (EntryOK txn b.primal) root 0 lo hi ((leaf, k) :: R))
    (hkn : k < page_numkeys leaf)
    (hs : tst b.primal.mc_kind8 S_HAVESUB = true → SubOK b) :
    (∀ i xs, tst b.primal.mc_kind8 S_HAVESUB = true →
      F_ISSET (leaf.mp_nodes.getD k default).node_flags8 NODE_DUP = true →
      SubOn b (NODEDATA_page (leaf.mp_nodes.getD k default)) i xs →
      tst b.subordinate.mx_cursor.mc_state8 C_EOF = false →
      i + 1 < page_numkeys (NODEDATA_page (leaf.mp_nodes.getD k default)) →
      (cursor_next page_touch 2 txn b key (some d) MDBX_NEXT).map
          (fun r => (r.rc, r.key, r.data)) =
        some (MDBX_SUCCESS, MDBX_GET_KEY (leaf.mp_nodes.getD k default) key,
          some (dup_at (NODEDATA_page (leaf.mp_nodes.getD k default)) xs (i + 1)))) ∧
    ((tst b.primal.mc_kind8 S_HAVESUB = true →
        F_ISSET (leaf.mp_nodes.getD k default).node_flags8 NODE_DUP = true →
        ∃ i xs, SubOn b (NODEDATA_page (leaf.mp_nodes.getD k default)) i xs ∧
          i + 1 ≥ page_numkeys (NODEDATA_page (leaf.mp_nodes.getD k default))) →
      (following txn 0 ((leaf, k) :: R) = [] →
        (cursor_next page_touch 2 txn b key (some d) MDBX_NEXT).map (fun r => r.rc) =
          some MDBX_NOTFOUND) ∧
      (∀ e L, following txn 0 ((leaf, k) :: R) = e :: L →
        (cursor_next page_touch 2 txn b key (some d) MDBX_NEXT).map
            (fun r => (r.rc, r.key, r.data)) =
          some (MDBX_SUCCESS, MDBX_GET_KEY e key,
            some (entry_data txn b.primal.mc_aht.aa.flags16 e)))) := by
  have hw := hch.wf
  have hl : LeafOK cmp leaf := hw.leaf
  have hent := hw.2.1 k hkn
  have hfl := state_eof_cleared b.primal.mc_state8
  have hblock := cursor_next_block page_touch txn key d hinit heof hon hl hkn
  generalize hs1 : (if tst b.primal.mc_state8 C_EOF then b.primal.mc_state8 ^^^ C_EOF
    else b.primal.mc_state8) = s1 at hblock hfl
  have hdel1 : tst s1 C_AFTERDELETE = false := by rw [hfl.2.2]; exact hdel
  constructor
  · intro i xs hk hdup hsub hse hi
    have hp : SubPageOK (NODEDATA_page (leaf.mp_nodes.getD k default)) := by
      rcases hent with hp | ⟨_, hd⟩
      · rw [hp.1] at hdup; exact absurd hdup (by decide)
      · exact hd.1.2.2
    obtain ⟨sub2, hn, _⟩ := (cursor_next_sub page_touch txn
      (b := { b with primal := { b.primal with mc_state8 := s1 } }) d hsub.1 hsub.2.1 hse
      hsub.2.2 hp).1 hi
    rw [hblock, if_pos hk, if_pos hdup, hn]
    simp only [ne_eq, show ¬ MDBX_SUCCESS = MDBX_NOTFOUND by decide, not_false_eq_true,
      if_true, Option.map_some']
  · intro hlast
    by_cases hk : tst b.primal.mc_kind8 S_HAVESUB = true
    · by_cases hdup : F_ISSET (leaf.mp_nodes.getD k default).node_flags8 NODE_DUP = true
      · obtain ⟨i, xs, hsub, hi⟩ := hlast hk hdup
        have hp : SubPageOK (NODEDATA_page (leaf.mp_nodes.getD k default)) := by
          rcases hent with hp | ⟨_, hd⟩
          · rw [hp.1] at hdup; exact absurd hdup (by decide)
          · exact hd.1.2.2
        obtain ⟨s2, hn⟩ := cursor_next_sub_last page_touch txn
          (b := { b with primal := { b.primal with mc_state8 := s1 } }) d hsub hi hp
        rw [hblock, if_pos hk, if_pos hdup, hn]
        simp only [ne_eq, not_true_eq_false, if_false]
        exact cursor_next_advance_entry page_touch key d
          (b := { primal := { b.primal with mc_state8 := s1 },
                  subordinate := { mx_cursor :=
                    { b.subordinate.mx_cursor with mc_state8 := s2 } } })
          hdel1 (hon.state _) hch (fun _ => ⟨(hs hk).1, (hs hk).2⟩)
      · rw [hblock, if_pos hk, if_neg hdup]
        have hp1 := sub_cleared_primal
          ({ b with primal := { b.primal with mc_state8 := s1 } } : MDBX_cursor)
        have hon1 : OnStack
            (sub_cleared { b with primal := { b.primal with mc_state8 := s1 } }).primal
            ((leaf, k) :: R) := by rw [hp1]; exact hon.state _
        have hch1 : Chain txn cmp (EntryOK txn
            (sub_cleared { b with primal := { b.primal with mc_state8 := s1 } }).primal)
            root 0 lo hi ((leaf, k) :: R) := by rw [hp1]; exact hch
        have h := cursor_next_advance_entry page_touch key d
          (b := sub_cleared { b with primal := { b.primal with mc_state8 := s1 } })
          (by rw [hp1]; exact hdel1) hon1 hch1
          (fun _ => sub_cleared_ok (b := { b with primal := { b.primal with mc_state8 := s1 } })
            (hs hk))
        rw [hp1] at h
        exact h
    · rw [hblock, if_neg hk]
      exact cursor_next_advance_entry page_touch key d
        (b := { b with primal := { b.primal with mc_state8 := s1 } })
        hdel1 (hon.state _) hch (fun h => absurd h hk)

/-- cursor_next with `MDBX_NEXT` on a cursor with `C_AFTERDELETE` that stands
on an entry which is plain or whose sub-cursor is at the last duplicate: the
call ends in the read of the entry under the cursor by cursor_fetch, with
`C_EOF` and `C_AFTERDELETE` cleared. -/
theorem cursor_next_skip {cmp : MDBX_comparer} {b : MDBX_cursor} {leaf : page_t} {k : Nat}
    {R : frames_t} (page_touch : page_touch_t) (txn : MDBX_txn) (key : Option MDBX_iov)
    (d : MDBX_iov)
    (hinit : tst b.primal.mc_state8 C_INITIALIZED = true)
    (hdel : tst b.primal.mc_state8 C_AFTERDELETE = true)
    (heof : tst b.primal.mc_state8 C_EOF = true → k + 1 < page_numkeys leaf)
    (hon : OnStack b.primal ((leaf, k) :: R)) (hl : LeafOK cmp leaf)
    (hkn : k < page_numkeys leaf)
    (hs : tst b.primal.mc_kind8 S_HAVESUB = true → SubOK b)
    (he : SkipEntry page_touch txn b d (leaf.mp_nodes.getD k default)) :
    ∃ bX s2, cursor_next page_touch 2 txn b key (some d) MDBX_NEXT =
        cursor_fetch page_touch false 1 txn bX leaf key (some d) ∧
      bX.primal = { b.primal with mc_state8 := s2 } ∧
      tst s2 C_AFTERDELETE = false ∧ tst s2 C_INITIALIZED = true ∧ tst s2 C_EOF = false ∧
      (tst b.primal.mc_kind8 S_HAVESUB = true → SubOK bX) := by
  have hfl := state_eof_cleared b.primal.mc_state8
  have hblock := cursor_next_block page_touch txn key d hinit heof hon hl hkn
  unfold SkipEntry at he
  generalize hs1 : (if tst b.primal.mc_state8 C_EOF then b.primal.mc_state8 ^^^ C_EOF
    else b.primal.mc_state8) = s1 at hblock hfl he
  have hdel1 : tst s1 C_AFTERDELETE = true := by rw [hfl.2.2]; exact hdel
  have hfl2 := state_xor_del_flags s1 hdel1
  have hadv : ∀ bY : MDBX_cursor, bY.primal = { b.primal with mc_state8 := s1 } →
      cursor_next_advance page_touch 1 leaf key txn bY (some d) =
        cursor_fetch page_touch false 1 txn
          { bY with primal := { b.primal with mc_state8 := s1 ^^^ C_AFTERDELETE } } leaf key
          (some d) := by
    intro bY hY
    have e1 : bY.cur (1 + 1) = bY.primal := rfl
    have e2 : ∀ mc, bY.with_cur (1 + 1) mc = { bY with primal := mc } := fun _ => rfl
    have hki : bY.primal.ki bY.primal.mc_top = some k := by
      rw [hY]; exact (hon.state s1).ki_top
    unfold cursor_next_advance
    simp only [e1, e2, hki]
    rw [hY]
    simp only [hdel1, if_true]
  have hflags : tst (s1 ^^^ C_AFTERDELETE) C_AFTERDELETE = false ∧
      tst (s1 ^^^ C_AFTERDELETE) C_INITIALIZED = true ∧
      tst (s1 ^^^ C_AFTERDELETE) C_EOF = false :=
    ⟨hfl2.2.2, by rw [hfl2.1, hfl.2.1]; exact hinit, by rw [hfl2.2.1]; exact hfl.1⟩
  by_cases hk : tst b.primal.mc_kind8 S_HAVESUB = true
  · rcases he with hp | ⟨_, hd, sub2, hn, hso, hsk⟩
    · have hp1 := sub_cleared_primal
        ({ b with primal := { b.primal with mc_state8 := s1 } } : MDBX_cursor)
      refine ⟨{ sub_cleared { b with primal := { b.primal with mc_state8 := s1 } } with
          primal := { b.primal with mc_state8 := s1 ^^^ C_AFTERDELETE } },
        s1 ^^^ C_AFTERDELETE, ?_, ?_, hflags.1, hflags.2.1, hflags.2.2, fun _ => ?_⟩
      · rw [hblock, if_pos hk, if_neg (by rw [hp.1]; decide)]
        exact hadv _ hp1
      · rfl
      · exact sub_cleared_ok (b := { b with primal := { b.primal with mc_state8 := s1 } })
          (hs hk)
    · refine ⟨{ primal := { b.primal with mc_state8 := s1 ^^^ C_AFTERDELETE },
                subordinate := { mx_cursor := sub2 } },
        s1 ^^^ C_AFTERDELETE, ?_, ?_, hflags.1, hflags.2.1, hflags.2.2, fun _ => ?_⟩
      · rw [hblock, if_pos hk, if_pos hd.1.1, hn]
        simp only [ne_eq, not_true_eq_false, if_false]
        exact hadv _ rfl
      · rfl
      · exact ⟨hso, hsk⟩
  · refine ⟨{ b with primal := { b.primal with mc_state8 := s1 ^^^ C_AFTERDELETE } },
      s1 ^^^ C_AFTERDELETE, ?_, ?_, hflags.1, hflags.2.1, hflags.2.2,
      fun h => absurd h hk⟩
    · rw [hblock, if_neg hk]
      exact hadv _ rfl
    · rfl

/-- A sub-cursor at the last duplicate of its inline sub-page has no further
duplicate to move to. -/
theorem SubOn.done (page_touch : page_touch_t) (txn : MDBX_txn) {b : MDBX_cursor}
    {fp : page_t} {i xs : Nat} (d : MDBX_iov)
    (hs : SubOn b fp i xs) (hi : i + 1 ≥ page_numkeys fp) (hp : SubPageOK fp) :
    SubDone page_touch txn b d := by
  obtain ⟨s2, hn⟩ := cursor_next_sub_last page_touch txn d hs hi hp
  exact ⟨_, hn, hs.1.stack.ok, hs.1.nosub⟩

/-- C10 (amended): let an initialized cursor with `C_AFTERDELETE` stand on a
path of a well-formed tree at an entry of its leaf, not at the last index of
the page with `C_EOF` set, and let the entry be plain (a single value), or,
for a cursor with a sub-cursor, carry duplicates in an inline sub-page while
the sub-cursor has no further duplicate to move to (its own `MDBX_NEXT`
returns `MDBX_NOTFOUND`, as it does at the last duplicate).  Then cursor_next with
`MDBX_NEXT` returns `MDBX_SUCCESS` with the key of the entry at the current
index and its data (its value, or the first of its duplicates), leaves the
frames of the primal cursor as they are and clears `C_AFTERDELETE`.  A second
`MDBX_NEXT` then advances: to the second duplicate when the entry has one, and
otherwise to the following entry of the tree, which it returns, or
`MDBX_NOTFOUND` when there is none.  With `MDBX_NEXT_DUP`, and cursor_prev with
`MDBX_PREV_DUP`, any cursor with `C_AFTERDELETE` gets `MDBX_NOTFOUND` and is not
changed. -/
theorem C10_next_after_delete {txn : MDBX_txn} {cmp : MDBX_comparer} {root : page_t}
    {b : MDBX_cursor} {leaf : page_t} {k : Nat} {R : frames_t} {lo hi : Option MDBX_iov}
    (page_touch : page_touch_t) (key : Option MDBX_iov) (d : MDBX_iov)
    (hinit : tst b.primal.mc_state8 C_INITIALIZED = true)
    (hdel : tst b.primal.mc_state8 C_AFTERDELETE = true)
    (heof : tst b.primal.mc_state8 C_EOF = true → k + 1 < page_numkeys leaf)
    (hon : OnStack b.primal ((leaf, k) :: R))
    (hch : Chain txn cmp (EntryOK txn b.primal) root 0 lo hi ((leaf, k) :: R))
    (hkn : k < page_numkeys leaf)
    (hs : tst b.primal.mc_kind8 S_HAVESUB = true → SubOK b)
    (he : SkipEntry page_touch txn b d (leaf.mp_nodes.getD k default)) :
    ∃ (b2 : MDBX_cursor) (s2 : Nat),
      cursor_next page_touch 2 txn b key (some d) MDBX_NEXT =
        some { rc := MDBX_SUCCESS, txn := txn, bundle := b2,
               key := MDBX_GET_KEY (leaf.mp_nodes.getD k default) key,
               data := some (entry_data txn b.primal.mc_aht.aa.flags16
                 (leaf.mp_nodes.getD k default)) } ∧
      b2.primal = { b.primal with mc_state8 := s2 } ∧
      tst s2 C_AFTERDELETE = false ∧ tst s2 C_INITIALIZED = true ∧
      (F_ISSET (leaf.mp_nodes.getD k default).node_flags8 NODE_DUP = true →
        1 < page_numkeys (NODEDATA_page (leaf.mp_nodes.getD k default)) →
        (cursor_next page_touch 2 txn b2 key (some d) MDBX_NEXT).map
            (fun r => (r.rc, r.key, r.data)) =
          some (MDBX_SUCCESS, MDBX_GET_KEY (leaf.mp_nodes.getD k default) key,
            some (dup_at (NODEDATA_page (leaf.mp_nodes.getD k default))
              (sub_xsize b.primal.mc_aht.aa.flags16
                (NODEDATA_page (leaf.mp_nodes.getD k default))) 1))) ∧
      ((F_ISSET (leaf.mp_nodes.getD k default).node_flags8 NODE_DUP = true →
          page_numkeys (NODEDATA_page (leaf.mp_nodes.getD k default)) ≤ 1) →
        (following txn 0 ((leaf, k) :: R) = [] →
          (cursor_next page_touch 2 txn b2 key (some d) MDBX_NEXT).map (fun r => r.rc) =
            some MDBX_NOTFOUND) ∧
        (∀ e L, following txn 0 ((leaf, k) :: R) = e :: L →
          (cursor_next page_touch 2 txn b2 key (some d) MDBX_NEXT).map
              (fun r => (r.rc, r.key, r.data)) =
            some (MDBX_SUCCESS, MDBX_GET_KEY e key,
              some (entry_data txn b.primal.mc_aht.aa.flags16 e)))) ∧
      cursor_next page_touch 2 txn b key (some d) MDBX_NEXT_DUP =
        some { rc := MDBX_NOTFOUND, txn := txn, bundle := b, key := key, data := some d } ∧
      cursor_prev page_touch 2 txn b key (some d) MDBX_PREV_DUP =
        some { rc := MDBX_NOTFOUND, txn := txn, bundle := b, key := key, data := some d } := by
  have hw := hch.wf
  have hl : LeafOK cmp leaf := hw.leaf
  have hent := hw.2.1 k hkn
  obtain ⟨bX, s2, hnx, hbp, hf1, hf2, hf3, hsx⟩ :=
    cursor_next_skip page_touch txn key d hinit hdel heof hon hl hkn hs he
  have hkX : bX.primal.mc_kind8 = b.primal.mc_kind8 := by rw [hbp]
  have haX : bX.primal.mc_aht = b.primal.mc_aht := by rw [hbp]
  have honX : OnStack bX.primal ((leaf, k) :: R) := by rw [hbp]; exact hon.state _
  obtain ⟨b2, hf, hb2p, hs2, _, hdp⟩ := cursor_fetch_entry page_touch (b := bX) honX hl hkn
    (hent.of_kind hkX) (fun h => hsx (by rw [← hkX]; exact h)) key d
  rw [haX] at hf hdp
  have hq : b2.primal = { b.primal with mc_state8 := s2 } := hb2p.trans hbp
  have hk2 : b2.primal.mc_kind8 = b.primal.mc_kind8 := by rw [hq]
  have ha2 : b2.primal.mc_aht = b.primal.mc_aht := by rw [hq]
  have hst2 : b2.primal.mc_state8 = s2 := by rw [hq]
  have hP : EntryOK txn b2.primal = EntryOK txn b.primal := by
    funext n; unfold EntryOK; rw [hk2]
  have hon2 : OnStack b2.primal ((leaf, k) :: R) := by rw [hq]; exact hon.state _
  have hch2 : Chain txn cmp (EntryOK txn b2.primal) root 0 lo hi ((leaf, k) :: R) := by
    rw [hP]; exact hch
  obtain ⟨hp1, hp2⟩ := cursor_next_placed page_touch key d (b := b2)
    (by rw [hst2]; exact hf2) (by rw [hst2]; exact hf1)
    (fun h => by rw [hst2, hf3] at h; exact absurd h (by decide))
    hon2 hch2 hkn (fun h => hs2 (by rw [hkX, ← hk2]; exact h))
  rw [ha2] at hp2
  refine ⟨b2, s2, hnx.trans hf, hq, hf1, hf2, ?_, ?_, ?_, ?_⟩
  · intro hdup hn
    have hk : tst b.primal.mc_kind8 S_HAVESUB = true := by
      rcases hent with hp | ⟨hk, _⟩
      · rw [hp.1] at hdup; exact absurd hdup (by decide)
      · exact hk
    obtain ⟨hon2, heof2⟩ := hdp hdup
    exact hp1 0 _ (by rw [hk2]; exact hk) hdup hon2 heof2 hn
  · intro hn
    refine hp2 (fun _ hdup => ?_)
    obtain ⟨hon2, _⟩ := hdp hdup
    exact ⟨0, _, hon2, by have := hn hdup; omega⟩
  · unfold cursor_next
    simp only [cur_two, hdel, and_self, if_true]
  · unfold cursor_prev
    simp only [cur_two, hdel, and_self, if_true]

/-- Witness of C10: on the leaf alpha, beta of the tree without duplicates, and
on the entry with the duplicates a, b, c with the sub-cursor at c. -/
theorem C10_next_after_delete_witness :
    (∃ (b2 : MDBX_cursor) (s2 : Nat),
      cursor_next sample_touch 2 (sample_txn two_pages)
          { primal := sample_cursor (sample_aht 0 4) 5 [(two_root, 0), (two_left, 1)],
            subordinate := sample_bundle.subordinate } (some []) (some []) MDBX_NEXT =
        some { rc := MDBX_SUCCESS, txn := sample_txn two_pages, bundle := b2,
               key := some k_beta, data := some v_2 } ∧
      tst s2 C_AFTERDELETE = false) ∧
    (∃ (b2 : MDBX_cursor) (s2 : Nat),
      cursor_next sample_touch 2 (sample_txn dup_pages) (dup_after_delete 2) (some [])
          (some []) MDBX_NEXT =
        some { rc := MDBX_SUCCESS, txn := sample_txn dup_pages, bundle := b2,
               key := some k_k, data := some v_a } ∧
      tst s2 C_AFTERDELETE = false) :=
  ⟨(C10_next_after_delete sample_touch (some []) []
      (b := { primal := sample_cursor (sample_aht 0 4) 5 [(two_root, 0), (two_left, 1)],
              subordinate := sample_bundle.subordinate })
      (by decide) (by decide) (fun h => absurd h (by decide)) (two_left_on 5 1)
      (two_left_chain _ (fun kv pgno i => Or.inl (sample_plain (sample_txn two_pages) kv pgno i))
        1)
      (by decide) (fun h => absurd h (by decide))
      (Or.inl (sample_plain (sample_txn two_pages) _ 5 1))).imp
      (fun _ h => h.imp (fun _ h2 => ⟨h2.1, h2.2.2.1⟩)),
   (C10_next_after_delete sample_touch (some []) []
      (b := dup_after_delete 2)
      (by decide) (by decide) (fun h => absurd h (by decide))
      (show OnStack (dup_after_delete 2).primal [(dup_leaf, 0)] from
        ⟨⟨by rfl, by rfl⟩, by rfl, by rfl, by simp [CURSOR_STACK], by rfl, by rfl, trivial⟩)
      (show Chain (sample_txn dup_pages) cmp_lex
          (EntryOK (sample_txn dup_pages) (dup_after_delete 2).primal) dup_leaf 0 none none
          [(dup_leaf, 0)] from
        ⟨rfl, rfl, rfl, dup_leaf_ok,
          fun i hi => by
            have h4 : page_numkeys dup_leaf = 1 := by decide
            have h0 : i = 0 := by omega
            subst h0
            exact Or.inr ⟨by decide, dup_node_inline, by decide⟩,
          fun l hl => absurd hl (by simp), fun u hu => absurd hu (by simp)⟩)
      (by decide) (fun _ => ⟨⟨by rfl, by rfl⟩, by decide⟩)
      (Or.inr ⟨by decide, ⟨dup_node_inline, by decide⟩,
        SubOn.done sample_touch _ []
          (show SubOn _ (NODEDATA_page dup_node) 2 0 from
            ⟨⟨⟨⟨by rfl, by rfl⟩, by rfl, by rfl, by simp [CURSOR_STACK], by rfl, by rfl,
              trivial⟩, by decide, by rfl⟩, by decide, by decide⟩)
          (by decide) dup_subpage_ok⟩)).imp
      (fun _ h => h.imp (fun _ h2 => ⟨h2.1, h2.2.2.1⟩))⟩

/-- C10, counterexamples.  (1) An initialized cursor without sub-cursor, with
`C_AFTERDELETE` and `C_EOF` set, whose top index designates the only entry of
the last leaf: cursor_next with `MDBX_NEXT` returns `MDBX_NOTFOUND`, not the
entry.  (2) A cursor of a dup-sorted AA with `C_AFTERDELETE` on the entry with
the duplicates a, b, c, the sub-cursor at a: `MDBX_NEXT` moves the sub-cursor
and returns the duplicate b, and `C_AFTERDELETE` is still set in the cursor.
(3) The same cursor on an entry whose duplicates are kept in a sub-tree:
`MDBX_NEXT` does not return. -/
theorem C10_counterexample_eof :
    (tst 7 C_INITIALIZED = true ∧ tst 7 C_AFTERDELETE = true ∧ 0 < page_numkeys two_right ∧
      (cursor_next sample_touch 2 (sample_txn two_pages)
          { primal := sample_cursor (sample_aht 0 4) 7 [(two_root, 1), (two_right, 0)],
            subordinate := sample_bundle.subordinate } (some []) (some []) MDBX_NEXT).map
        (fun r => r.rc) = some MDBX_NOTFOUND) ∧
    (tst (dup_after_delete 0).primal.mc_state8 C_INITIALIZED = true ∧
      tst (dup_after_delete 0).primal.mc_state8 C_AFTERDELETE = true ∧
      (dup_after_delete 0).primal.mc_ki[0]? = some 0 ∧ 0 < page_numkeys dup_leaf ∧
      (cursor_next sample_touch 2 (sample_txn dup_pages) (dup_after_delete 0) (some [])
          (some []) MDBX_NEXT).map
        (fun r => (r.rc, r.key, r.data, tst r.bundle.primal.mc_state8 C_AFTERDELETE,
          r.bundle.subordinate.mx_cursor.mc_ki[0]?)) =
        some (MDBX_SUCCESS, some k_k, some v_b, true, some 1)) ∧
    (F_ISSET subtree_node.node_flags8 NODE_DUP = true ∧
      tst subtree_node.node_flags8 NODE_SUBTREE = true ∧
      cursor_next sample_touch 2 (sample_txn subtree_pages)
        (sample_dup_bundle (sample_aht MDBX_DUPSORT 3) (C_INITIALIZED ||| C_AFTERDELETE)
          [(subtree_root, 0)]) (some []) (some []) MDBX_NEXT = none) :=
  ⟨⟨by decide, by decide, by decide, by rfl⟩,
   ⟨by decide, by decide, by rfl, by decide, by rfl⟩,
   ⟨by decide, by decide, by rfl⟩⟩

/-- The code of cursor_set from the label `set1` for a node whose duplicates
are kept in a nested sub-tree, with `MDBX_SET`, `MDBX_SET_KEY` or
`MDBX_SET_RANGE`: subordinate_setup leaves frame 0 of the sub-cursor empty,
and cursor_first on the sub-cursor reads it; there is no result. -/
theorem cursor_set_set1_subtree (page_touch : page_touch_t) (sub_set : Option Int → sub_call_t)
    (keyp : Option MDBX_iov) (d : MDBX_iov) {op : MDBX_cursor_op}
    (hop : op = MDBX_SET ∨ op = MDBX_SET_KEY ∨ op = MDBX_SET_RANGE) (txn : MDBX_txn)
    (b : MDBX_cursor) {mp : page_t} {n : node_t} (rc : Int) (exactp : Option Int)
    (hk : tst b.primal.mc_kind8 S_HAVESUB = true) (hs : SubOK b) (hl : IS_DFL mp = false)
    (hd : SubtreeDup n) :
    cursor_set_set1 (fun txn b data => cursor_first page_touch 1 txn b data none) sub_set 2
      keyp (some d) op txn b mp (.node n) rc exactp = none := by
  have h0 : 0 < b.subordinate.mx_cursor.mc_pg.length := by rw [hs.1.1]; decide
  unfold cursor_set_set1
  simp only [cur_primal, with_cur_primal, hl, Bool.false_eq_true, if_false, node_ref.deref,
    hd.1, if_true, hop]
  unfold subordinate_setup cursor_subcursor
  simp only [cur_primal, hk, and_self, if_true, hd.2, cursor_t.set_pg, h0, bind, Option.bind,
    pure]
  rw [show cursor_first page_touch 1 = cursor_first page_touch (0 + 1) from rfl]
  unfold cursor_first
  simp [cur_one, with_cur_one, hs.2, bind, Option.bind, pure, cursor_t.pg,
    show tst C_INITIALIZED C_INITIALIZED = true by decide, h0]

/-- cursor_set on a key whose size is neither 4 nor 8, over an AA with integer
keys: the assertion on the key size fails, whatever the cursor is. -/
theorem cursor_set_badsize (page_touch : page_touch_t) (txn : MDBX_txn) (b : MDBX_cursor)
    (key : MDBX_iov) (data : Option MDBX_iov) (op : MDBX_cursor_op) (exactp : Option Int)
    (hsz : ¬ (tst b.primal.mc_aht.aa.flags16 MDBX_INTEGERKEY = true →
      key.length = 4 ∨ key.length = 8)) :
    cursor_set page_touch 2 txn b (some key) data op exactp = none := by
  have h1 : tst b.primal.mc_aht.aa.flags16 MDBX_INTEGERKEY = true ∧ key.length ≠ 4 ∧
      key.length ≠ 8 := by
    by_cases hi : tst b.primal.mc_aht.aa.flags16 MDBX_INTEGERKEY = true
    · refine ⟨hi, fun h4 => hsz (fun _ => Or.inl h4), fun h8 => hsz (fun _ => Or.inr h8)⟩
    · exact absurd (fun h => absurd h hi) hsz
  rw [show cursor_set page_touch 2 txn b (some key) data op exactp =
    cursor_set_body page_touch (fun txn b data => cursor_first page_touch 1 txn b data none)
      (fun ex2p txn b data => cursor_set page_touch 1 txn b data none MDBX_SET_RANGE ex2p)
      2 txn b (some key) data op exactp from rfl]
  unfold cursor_set_body
  simp only [cur_primal]
  rw [if_pos h1]

/-- What cursor_set with `MDBX_SET`, `MDBX_SET_KEY` or `MDBX_SET_RANGE` gives
over a well-formed tree, for a valid cursor: the search ends at the entry with
the least key not smaller than `key` (equal to `key` when `exactp` is given),
and then there is no result when the duplicates of that entry are in a
sub-tree, and `MDBX_SUCCESS` with the cursor on the path to the entry
otherwise; or the call returns `MDBX_NOTFOUND`. -/
theorem cursor_set_any (page_touch : page_touch_t) {txn : MDBX_txn} {root : page_t}
    {h : Nat} {b : MDBX_cursor} (key d : MDBX_iov) {op : MDBX_cursor_op}
    (hop : op = MDBX_SET ∨ op = MDBX_SET_KEY ∨ op = MDBX_SET_RANGE) (exactp : Option Int)
    (hex : exactp = none → op = MDBX_SET_RANGE)
    (hwf : WFAA txn b.primal.mc_aht (AnyNode txn) h root)
    (hci : CmpInt b.primal.mc_aht.ahe.ax_kcmp)
    (hcur : CursorOK txn b.primal.mc_aht.ahe.ax_kcmp (AnyNode txn) root b.primal)
    (hsub : tst b.primal.mc_kind8 S_HAVESUB = true → SubOK b)
    (hplain : tst b.primal.mc_kind8 S_HAVESUB = false →
      ∀ x ∈ tree_nodes txn h root, PlainNode txn x)
    (hsz : tst b.primal.mc_aht.aa.flags16 MDBX_INTEGERKEY = true →
      key.length = 4 ∨ key.length = 8) :
    (∃ (leaf : page_t) (k : Nat) (R : frames_t) (lo hi : Option MDBX_iov),
      Chain txn b.primal.mc_aht.ahe.ax_kcmp (AnyNode txn) root 0 lo hi ((leaf, k) :: R) ∧
      k < page_numkeys leaf ∧
      IsLeast b.primal.mc_aht.ahe.ax_kcmp key (tree_nodes txn h root)
        (leaf.mp_nodes.getD k default) ∧
      (exactp.isSome = true →
        b.primal.mc_aht.ahe.ax_kcmp key (NODEKEY (leaf.mp_nodes.getD k default)) = 0) ∧
      ((SubtreeDup (leaf.mp_nodes.getD k default) ∧
          cursor_set page_touch 2 txn b (some key) (some d) op exactp = none) ∨
        (DupSortNode txn (leaf.mp_nodes.getD k default) ∧
          ∃ r, cursor_set page_touch 2 txn b (some key) (some d) op exactp = some r ∧
            r.rc = MDBX_SUCCESS ∧ OnStack r.bundle.primal ((leaf, k) :: R) ∧
            r.key = (if op = MDBX_SET_RANGE ∨ op = MDBX_SET_KEY
              then some (NODEKEY (leaf.mp_nodes.getD k default)) else some key) ∧
            r.data = some (first_value txn b.primal.mc_aht.aa.flags16
              (leaf.mp_nodes.getD k default))))) ∨
    (∃ r, cursor_set page_touch 2 txn b (some key) (some d) op exactp = some r ∧
      r.rc = MDBX_NOTFOUND ∧
      ((∀ x ∈ tree_nodes txn h root, b.primal.mc_aht.ahe.ax_kcmp (NODEKEY x) key < 0) ∨
        (exactp.isSome = true ∧
          ∀ x ∈ tree_nodes txn h root, b.primal.mc_aht.ahe.ax_kcmp key (NODEKEY x) ≠ 0))) := by
  have hred := cursor_set_reduce page_touch key (some d) op exactp hex hwf hci hcur hsz
  rcases hred with ⟨leaf, k, R, lo, hi, b1, rc, ex, hon, hch, hlen, hkn, hleast, hexact, hsb,
    haht, hkd, _, _, hres⟩ | ⟨r, hres, hrc, _, hnf⟩
  · left
    have hp1 := sub_cleared_primal b
    have hw := Chain.wf _ _ _ _ _ hch
    have hl : LeafOK (cursor_key_comparer b.primal) leaf := hw.leaf
    have ha1 : b1.primal.mc_aht = b.primal.mc_aht := by rw [haht, hp1]
    have hsubk : F_ISSET (leaf.mp_nodes.getD k default).node_flags8 NODE_DUP = true →
        tst b1.primal.mc_kind8 S_HAVESUB = true ∧ SubOK b1 := by
      intro hdup
      have hk1 : tst b.primal.mc_kind8 S_HAVESUB = true := by
        by_contra hk
        have hk0 : tst b.primal.mc_kind8 S_HAVESUB = false := by simpa using hk
        have hpl := hplain hk0 _ hleast.1
        exact absurd (hpl.1.symm.trans hdup) (by decide)
      refine ⟨by rw [hkd, hp1]; exact hk1, ?_⟩
      have := sub_cleared_ok (hsub hk1)
      unfold SubOK at this ⊢
      rw [hsb]; exact this
    refine ⟨leaf, k, R, lo, hi, hch, hkn, hleast, hexact, ?_⟩
    rcases hw.2.1 k hkn with (hn | hn) | hn
    · right
      refine ⟨Or.inl hn, ?_⟩
      obtain ⟨b2, hset, hb2⟩ := cursor_set_set1_single
        (fun txn b data => cursor_first page_touch 1 txn b data none)
        (fun ex2p txn b data => cursor_set page_touch 1 txn b data none MDBX_SET_RANGE ex2p)
        (some key) d hop b1 rc ex hl.not_dfl hn
      rw [hres, hset]
      refine ⟨_, rfl, rfl, ?_, rfl, ?_⟩
      · show OnStack b2.primal _
        rw [hb2]
        exact hon.state _
      · have e : first_value txn b.primal.mc_aht.aa.flags16 (leaf.mp_nodes.getD k default) =
            node_data txn (leaf.mp_nodes.getD k default) := by
          unfold first_value
          simp only [hn.1, Bool.false_eq_true, if_false]
        rw [e]
    · right
      refine ⟨Or.inr hn, ?_⟩
      obtain ⟨hk2, hs1⟩ := hsubk hn.1
      obtain ⟨sub2, hset, _⟩ := cursor_set_set1_dup page_touch
        (fun ex2p txn b data => cursor_set page_touch 1 txn b data none MDBX_SET_RANGE ex2p)
        (some key) d hop b1 rc ex hk2 hs1 hl.not_dfl hn
      rw [hres, hset]
      refine ⟨_, rfl, rfl, hon.state _, rfl, ?_⟩
      have e : first_value txn b.primal.mc_aht.aa.flags16 (leaf.mp_nodes.getD k default) =
          dup_at (NODEDATA_page (leaf.mp_nodes.getD k default))
            (sub_xsize b.primal.mc_aht.aa.flags16
              (NODEDATA_page (leaf.mp_nodes.getD k default))) 0 := by
        unfold first_value
        simp only [hn.1, if_true]
      rw [e, ← ha1]
    · left
      refine ⟨hn, ?_⟩
      obtain ⟨hk2, hs1⟩ := hsubk hn.1
      rw [hres]
      exact cursor_set_set1_subtree page_touch _ (some key) d hop txn b1 rc ex hk2 hs1
        hl.not_dfl hn
  · exact Or.inr ⟨r, hres, hrc, hnf⟩

theorem SubtreeDup.not_dupsort {txn : MDBX_txn} {n : node_t} (h : SubtreeDup n)
    (hd : DupSortNode txn n) : False := by
  rcases hd with hp | hi
  · exact absurd (hp.1.symm.trans h.1) (by decide)
  · exact absurd (hi.2.1.symm.trans h.2) (by decide)

/-- C36: over a well-formed tree (its entries are single values, duplicates in
inline sub-pages or duplicates in sub-trees), for every key and `MDBX_SET`,
`MDBX_SET_KEY` or `MDBX_SET_RANGE`, cursor_set on an initialized cursor whose
stack is a path of the tree from the root to a leaf and cursor_set on a cursor
of the same AA that is not initialized have the same outcome.  Either none of
the two calls returns (the key has not 4 or 8 bytes in an AA with integer
keys, where both fail the assertion on the key size and would return
`MDBX_BAD_VALSIZE` without it; or the entry that both searches find keeps its
duplicates in a sub-tree), or both return, with the same return code,
`MDBX_SUCCESS` or `MDBX_NOTFOUND`, and on `MDBX_SUCCESS` both cursors stand on
the same frames (pages and indices) of a path of the tree and the key and the
data returned are the same.  Both calls return when the key has a valid size
and no entry of the tree keeps its duplicates in a sub-tree. -/
theorem C36_set_shortcut (page_touch : page_touch_t) {txn : MDBX_txn} {root : page_t}
    {h : Nat} (b1 b0 : MDBX_cursor) (key d : MDBX_iov) {op : MDBX_cursor_op}
    (hop : op = MDBX_SET ∨ op = MDBX_SET_KEY ∨ op = MDBX_SET_RANGE) (exactp : Option Int)
    (hex : exactp = none → op = MDBX_SET_RANGE)
    (hwf : WFAA txn b1.primal.mc_aht (AnyNode txn) h root)
    (hci : CmpInt b1.primal.mc_aht.ahe.ax_kcmp)
    (haht : b0.primal.mc_aht = b1.primal.mc_aht)
    (hkind : b0.primal.mc_kind8 = b1.primal.mc_kind8)
    (hinit : tst b1.primal.mc_state8 C_INITIALIZED = true)
    (hcur : CursorOK txn b1.primal.mc_aht.ahe.ax_kcmp (AnyNode txn) root b1.primal)
    (hun : tst b0.primal.mc_state8 C_INITIALIZED = false) (hst0 : StackOK b0.primal)
    (hsub1 : tst b1.primal.mc_kind8 S_HAVESUB = true → SubOK b1)
    (hsub0 : tst b1.primal.mc_kind8 S_HAVESUB = true → SubOK b0)
    (hplain : tst b1.primal.mc_kind8 S_HAVESUB = false →
      ∀ x ∈ tree_nodes txn h root, PlainNode txn x) :
    (∃ leaf k R, OnStack b1.primal ((leaf, k) :: R)) ∧
    (cursor_set page_touch 2 txn b1 (some key) (some d) op exactp = none ↔
      cursor_set page_touch 2 txn b0 (some key) (some d) op exactp = none) ∧
    (∀ r1 r0, cursor_set page_touch 2 txn b1 (some key) (some d) op exactp = some r1 →
      cursor_set page_touch 2 txn b0 (some key) (some d) op exactp = some r0 →
      r1.rc = r0.rc ∧ (r1.rc = MDBX_SUCCESS ∨ r1.rc = MDBX_NOTFOUND) ∧
      (r1.rc = MDBX_SUCCESS →
        r1.key = r0.key ∧ r1.data = r0.data ∧
        ∃ (leaf : page_t) (k : Nat) (R : frames_t) (lo hi : Option MDBX_iov),
          OnStack r1.bundle.primal ((leaf, k) :: R) ∧
          OnStack r0.bundle.primal ((leaf, k) :: R) ∧
          Chain txn b1.primal.mc_aht.ahe.ax_kcmp (AnyNode txn) root 0 lo hi
            ((leaf, k) :: R) ∧
          k < page_numkeys leaf)) ∧
    ((tst b1.primal.mc_aht.aa.flags16 MDBX_INTEGERKEY = true →
        key.length = 4 ∨ key.length = 8) →
      (∀ x ∈ tree_nodes txn h root, DupSortNode txn x) →
      ∃ r1 r0, cursor_set page_touch 2 txn b1 (some key) (some d) op exactp = some r1 ∧
        cursor_set page_touch 2 txn b0 (some key) (some d) op exactp = some r0) := by
  have hc : CmpOK b1.primal.mc_aht.ahe.ax_kcmp := hwf.cmp_ok
  have hfirst : ∃ leaf k R, OnStack b1.primal ((leaf, k) :: R) := by
    obtain ⟨leaf, k, R, _, _, hon, _⟩ := hcur.2 hinit
    exact ⟨leaf, k, R, hon⟩
  -- the two outcomes, side by side
  have hsum : (cursor_set page_touch 2 txn b1 (some key) (some d) op exactp = none ∧
        cursor_set page_touch 2 txn b0 (some key) (some d) op exactp = none ∧
        ((tst b1.primal.mc_aht.aa.flags16 MDBX_INTEGERKEY = true →
            key.length = 4 ∨ key.length = 8) →
          ∃ x ∈ tree_nodes txn h root, SubtreeDup x)) ∨
      (∃ r1 r0, cursor_set page_touch 2 txn b1 (some key) (some d) op exactp = some r1 ∧
        cursor_set page_touch 2 txn b0 (some key) (some d) op exactp = some r0 ∧
        r1.rc = r0.rc ∧ (r1.rc = MDBX_SUCCESS ∨ r1.rc = MDBX_NOTFOUND) ∧
        (r1.rc = MDBX_SUCCESS →
          r1.key = r0.key ∧ r1.data = r0.data ∧
          ∃ (leaf : page_t) (k : Nat) (R : frames_t) (lo hi : Option MDBX_iov),
            OnStack r1.bundle.primal ((leaf, k) :: R) ∧
            OnStack r0.bundle.primal ((leaf, k) :: R) ∧
            Chain txn b1.primal.mc_aht.ahe.ax_kcmp (AnyNode txn) root 0 lo hi
              ((leaf, k) :: R) ∧
            k < page_numkeys leaf)) := by
    by_cases hsz : tst b1.primal.mc_aht.aa.flags16 MDBX_INTEGERKEY = true →
        key.length = 4 ∨ key.length = 8
    · have o1 := cursor_set_any page_touch key d hop exactp hex hwf hci hcur hsub1 hplain hsz
      have o0 := cursor_set_any (b := b0) page_touch key d hop exactp hex
        (by rw [haht]; exact hwf) (by rw [haht]; exact hci)
        (by rw [haht]; exact ⟨hst0, fun hi => absurd hi (by rw [hun]; decide)⟩)
        (by rw [hkind]; exact hsub0) (by rw [hkind]; exact hplain) (by rw [haht]; exact hsz)
      rw [haht] at o0
      have hclash : ∀ n ∈ tree_nodes txn h root,
          b1.primal.mc_aht.ahe.ax_kcmp key (NODEKEY n) ≤ 0 →
          (exactp.isSome = true → b1.primal.mc_aht.ahe.ax_kcmp key (NODEKEY n) = 0) →
          ¬ ((∀ x ∈ tree_nodes txn h root, b1.primal.mc_aht.ahe.ax_kcmp (NODEKEY x) key < 0) ∨
            (exactp.isSome = true ∧
              ∀ x ∈ tree_nodes txn h root,
                b1.primal.mc_aht.ahe.ax_kcmp key (NODEKEY x) ≠ 0)) := by
        intro n hn hle hexa hnf
        rcases hnf with hall | ⟨hs, hnone⟩
        · have h1 := (hc.symm _ _).1 (hall n hn)
          omega
        · exact hnone n hn (hexa hs)
      rcases o1 with ⟨leaf1, k1, R1, lo1, hi1, hch1, hk1, hl1, hx1, hk1d⟩ | ⟨r1, hr1, hrc1, hnf1⟩
      · rcases o0 with ⟨leaf0, k0, R0, lo0, hi0, hch0, hk0, hl0, hx0, hk0d⟩ |
          ⟨r0, hr0, hrc0, hnf0⟩
        · have c1 := hl1.2.2 _ hl0.1 hl0.2.1
          have c0 := hl0.2.2 _ hl1.1 hl1.2.1
          have hzero : b1.primal.mc_aht.ahe.ax_kcmp (NODEKEY (leaf1.mp_nodes.getD k1 default))
              (NODEKEY (leaf0.mp_nodes.getD k0 default)) = 0 := by
            by_contra hne
            have hlt : b1.primal.mc_aht.ahe.ax_kcmp
                (NODEKEY (leaf1.mp_nodes.getD k1 default))
                (NODEKEY (leaf0.mp_nodes.getD k0 default)) < 0 := by omega
            have := (hc.symm _ _).1 hlt
            omega
          have hsame := tree_key_unique hc hwf.tree hl1.1 hl0.1 hzero
          have hfr := chain_entry_unique hc hch1 hch0 hk1 hk0 hsame
          rw [← hsame] at hk0d
          rcases hk1d with ⟨hs1, hn1⟩ | ⟨hd1, r1, hr1, hrc1, hon1, hkey1, hdat1⟩
          · rcases hk0d with ⟨_, hn0⟩ | ⟨hd0, _⟩
            · exact Or.inl ⟨hn1, hn0, fun _ => ⟨_, hl1.1, hs1⟩⟩
            · exact absurd hd0 hs1.not_dupsort
          · rcases hk0d with ⟨hs0, _⟩ | ⟨_, r0, hr0, hrc0, hon0, hkey0, hdat0⟩
            · exact absurd hd1 hs0.not_dupsort
            · refine Or.inr ⟨r1, r0, hr1, hr0, hrc1.trans hrc0.symm, Or.inl hrc1, fun _ =>
                ⟨?_, ?_, leaf1, k1, R1, lo1, hi1, hon1, ?_, hch1, hk1⟩⟩
              · rw [hkey1, hkey0]
              · rw [hdat1, hdat0]
              · rw [hfr]; exact hon0
        · exact absurd hnf0 (hclash _ hl1.1 hl1.2.1 hx1)
      · rcases o0 with ⟨leaf0, k0, R0, lo0, hi0, hch0, hk0, hl0, hx0, hk0d⟩ |
          ⟨r0, hr0, hrc0, hnf0⟩
        · exact absurd hnf1 (hclash _ hl0.1 hl0.2.1 hx0)
        · refine Or.inr ⟨r1, r0, hr1, hr0, hrc1.trans hrc0.symm, Or.inr hrc1, fun hs => ?_⟩
          rw [hrc1] at hs
          exact absurd hs (by decide)
    · exact Or.inl ⟨cursor_set_badsize page_touch txn b1 key _ op exactp hsz,
        cursor_set_badsize page_touch txn b0 key _ op exactp (by rw [haht]; exact hsz),
        fun h => absurd h hsz⟩
  refine ⟨hfirst, ?_, ?_, ?_⟩
  · rcases hsum with ⟨h1, h0, _⟩ | ⟨r1, r0, h1, h0, _⟩
    · exact ⟨fun _ => h0, fun _ => h1⟩
    · rw [h1, h0]
      exact ⟨fun hn => absurd hn (by simp), fun hn => absurd hn (by simp)⟩
  · intro r1 r0 e1 e0
    rcases hsum with ⟨h1, _, _⟩ | ⟨q1, q0, h1, h0, hg⟩
    · rw [h1] at e1; exact absurd e1 (by simp)
    · rw [h1] at e1
      rw [h0] at e0
      cases e1
      cases e0
      exact hg
  · intro hsz hall
    rcases hsum with ⟨_, _, hx⟩ | ⟨r1, r0, h1, h0, _⟩
    · obtain ⟨x, hx1, hx2⟩ := hx hsz
      exact absurd (hall x hx1) hx2.not_dupsort
    · exact ⟨r1, r0, h1, h0⟩

theorem two_left_any_ok (k : Nat) :
    CursorOK (sample_txn two_pages) cmp_lex (AnyNode (sample_txn two_pages)) two_root
      (sample_bundle_at (sample_aht 0 4) C_INITIALIZED [(two_root, 0), (two_left, k)]).primal :=
  ⟨⟨by rfl, by rfl⟩, fun _ => ⟨two_left, k, [(two_root, 0)], none, some k_gamma,
    two_left_on C_INITIALIZED k,
    two_left_chain (AnyNode (sample_txn two_pages))
      (fun kv pgno i => Or.inl (Or.inl (sample_plain (sample_txn two_pages) kv pgno i))) k⟩⟩

/-- Witness of C36: `MDBX_SET_KEY` on gamma from the leaf alpha, beta and from
a fresh cursor. -/
theorem C36_set_shortcut_witness :
    ∃ r1 r0,
      cursor_set sample_touch 2 (sample_txn two_pages)
        (sample_bundle_at (sample_aht 0 4) C_INITIALIZED [(two_root, 0), (two_left, 1)])
        (some k_gamma) (some []) MDBX_SET_KEY (some 0) = some r1 ∧
      cursor_set sample_touch 2 (sample_txn two_pages) (sample_bundle_at (sample_aht 0 4) 0 [])
        (some k_gamma) (some []) MDBX_SET_KEY (some 0) = some r0 ∧
      r1.rc = r0.rc ∧ (r1.rc = MDBX_SUCCESS ∨ r1.rc = MDBX_NOTFOUND) := by
  have hplain : ∀ x ∈ tree_nodes (sample_txn two_pages) 1 two_root,
      PlainNode (sample_txn two_pages) x := by
    intro x hx
    have hall : ∀ y ∈ tree_nodes (sample_txn two_pages) 1 two_root,
        y.node_flags8 = 0 := by decide
    have h0 := hall x hx
    unfold PlainNode
    rw [h0]
    exact ⟨by decide, fun h => absurd h (by decide)⟩
  have T := C36_set_shortcut sample_touch
    (sample_bundle_at (sample_aht 0 4) C_INITIALIZED [(two_root, 0), (two_left, 1)])
    (sample_bundle_at (sample_aht 0 4) 0 []) k_gamma [] (Or.inr (Or.inl rfl)) (some 0)
    (fun h => absurd h (by simp))
    (two_aa (AnyNode (sample_txn two_pages))
      (fun kv pgno i => Or.inl (Or.inl (sample_plain (sample_txn two_pages) kv pgno i))))
    cmp_lex_int rfl rfl (by decide) (two_left_any_ok 1) (by decide) ⟨by rfl, by rfl⟩
    (fun h => absurd h (by decide)) (fun h => absurd h (by decide))
    (fun _ => hplain)
  obtain ⟨r1, r0, e1, e0⟩ := T.2.2.2 (fun h => absurd h (by decide))
    (fun x hx => Or.inl (hplain x hx))
  exact ⟨r1, r0, e1, e0, (T.2.2.1 r1 r0 e1 e0).1, (T.2.2.1 r1 r0 e1 e0).2.1⟩

end Mdbx
